import Mathlib

/-!
# QXL display driver, resource layer (`display/res.c`)

A shallow embedding of the resource-and-command encoding layer of the QXL
display driver, and machine-checked statements about it.

Conventions of the embedding.

* Addresses (`void *`, `Resource *`, `PHYSICAL`) are natural numbers, `0` is `NULL`.
* Machine integers are natural numbers (or integers when signed); an
  operation that can wrap is written with an explicit modulus.
* `ASSERT(pdev, c)` is fatal: a function whose assertion fails yields `none`.
* A call through the function pointer `res->free` is recorded in `free_log`;
  a call of `FreeMem` is recorded in `mem_free_log`.
-/

namespace Qxl

/-! ## Resources (`res.c` lines 54-62) -/

/-- The finalizers that `res.c` stores in `Resource.free`. -/
inductive FreeFn where
  | FreePath
  | FreeClipRects
  | FreeQuicImage
  | FreeBitmapImage
  | FreeBuf
  | FreeSring
  | FreeCursor
  deriving DecidableEq, Repr

/-- The header `struct Resource { UINT32 refs; void (*free)(PDev *, Resource *); UINT8 res[0]; }`. -/
structure Resource where
  refs : Nat
  free : FreeFn
  deriving DecidableEq, Repr

/-- Width of the `UINT32` counters. -/
abbrev UINT32_MOD : Nat := 4294967296

/-- The part of the device state the reference counting works on: the
`Resource` header stored at every address, the calls made through
`res->free` (finalizer and resource address, oldest first), the arena bounds
and handle, and the blocks handed to `FreeMem` (oldest first). -/
structure ResHeap where
  mem : Nat → Resource
  free_log : List (FreeFn × Nat)
  mspace : Nat
  mspace_start : Nat
  mspace_end : Nat
  mem_free_log : List Nat

/-- Write the `refs` field of the resource at `res`. -/
def ResHeap.setRefs (h : ResHeap) (res : Nat) (v : Nat) : ResHeap :=
  { h with mem := fun a => if a = res then { h.mem a with refs := v } else h.mem a }

/-- The macro `GET_RES(res)`: `++(res)->refs` on a `UINT32`. -/
def GET_RES (h : ResHeap) (res : Nat) : ResHeap :=
  h.setRefs res ((1 + (h.mem res).refs) % UINT32_MOD)

/-- The macro `RELEASE_RES(pdev, res)`:
`if (!--(res)->refs) (res)->free(pdev, res);` on a `UINT32`. -/
def RELEASE_RES (h : ResHeap) (res : Nat) : ResHeap :=
  let refs := (UINT32_MOD - 1 + (h.mem res).refs) % UINT32_MOD
  let h1 := h.setRefs res refs
  if refs = 0 then { h1 with free_log := h1.free_log ++ [((h1.mem res).free, res)] } else h1

/-- One reference-counting operation on a resource. -/
inductive ResOp where
  | GET
  | RELEASE
  deriving DecidableEq, Repr

/-- Apply one operation to the resource at `res`. -/
def applyOp (res : Nat) (h : ResHeap) : ResOp → ResHeap
  | .GET => GET_RES h res
  | .RELEASE => RELEASE_RES h res

/-- Apply a sequence of operations to the resource at `res`, in order. -/
def runOps (res : Nat) (h : ResHeap) (ops : List ResOp) : ResHeap :=
  ops.foldl (applyOp res) h

/-- Number of times the finalizer of the resource at `res` has been invoked. -/
def freeCalls (h : ResHeap) (res : Nat) : Nat :=
  (h.free_log.filter (fun e => e.2 = res)).length

/-- No `RELEASE_RES` is applied after `refs` has reached 0: whenever the
operation at position `i` is a release, `refs` was non-zero after each of the
first `j <= i` operations. -/
def NoReleaseAfterZero (res : Nat) (h : ResHeap) (ops : List ResOp) : Prop :=
  ∀ i, i < ops.length → ops[i]? = some ResOp.RELEASE →
    ∀ j, j ≤ i → ((runOps res h (ops.take j)).mem res).refs ≠ 0

/-- The net-count condition of the claim after a prefix of the operations:
the releases equal the initial count plus the acquires. -/
def netZero (n : Nat) (ops : List ResOp) : Prop :=
  ops.count ResOp.RELEASE = n + ops.count ResOp.GET

instance (n : Nat) (ops : List ResOp) : Decidable (netZero n ops) := by
  unfold netZero; infer_instance

/-- A small heap for examples: every resource has `refs = 2` and finalizer
`FreeBuf`, nothing has been finalized or freed, the arena is `[16, 4096)`. -/
def exampleHeap : ResHeap :=
  { mem := fun _ => { refs := 2, free := FreeFn.FreeBuf }
    free_log := []
    mspace := 1
    mspace_start := 16
    mspace_end := 4096
    mem_free_log := [] }

instance (res : Nat) (h : ResHeap) (ops : List ResOp) :
    Decidable (NoReleaseAfterZero res h ops) := by
  unfold NoReleaseAfterZero; infer_instance

/-! ## Output envelopes (`res.c` lines 85-137, 298-303, 353-363) -/

/-- The constant `MAX_OUTPUT_RES`. -/
abbrev MAX_OUTPUT_RES : Nat := 6

/-- The envelope `struct QXLOutput { UINT32 num_res; Resource *resources[MAX_OUTPUT_RES];
UINT8 data[0]; }`. Slot `i` of `resources` is `resources i`; `data` is the
payload, a list of bytes. -/
structure QXLOutput where
  num_res : Nat
  resources : Nat → Nat
  data : List Nat

/-- The envelopes in memory, by address. -/
abbrev Outputs := Nat → QXLOutput

/-- Little-endian value of the first `n` bytes of `bytes` (missing bytes read as 0). -/
def readLE : Nat → List Nat → Nat
  | 0, _ => 0
  | n + 1, bytes => bytes.headD 0 % 256 + 256 * readLE n bytes.tail

/-- The little-endian bytes of the `n`-byte value `v`. -/
def bytesLE : Nat → Nat → List Nat
  | 0, _ => []
  | n + 1, v => v % 256 :: bytesLE n (v / 256)

/-- The read `*(UINT64 *)output->data`. -/
def readU64 (data : List Nat) : Nat := readLE 8 data

/-- The store `*(UINT64 *)data = v`. -/
def writeU64 (data : List Nat) (v : Nat) : List Nat := bytesLE 8 v ++ data.drop 8

/-- `FreeMem(pdev, ptr)`: both assertions, then `mspace_free`, which is recorded. -/
def FreeMem (h : ResHeap) (ptr : Nat) : Option ResHeap :=
  if h.mspace ≠ 0 ∧ h.mspace_start ≤ ptr ∧ ptr < h.mspace_end then
    some { h with mem_free_log := h.mem_free_log ++ [ptr] }
  else none

/-- The loop of `ReleaseOutput`,
`for (now = output->resources, end = now + output->num_res; now < end; now++)
RELEASE_RES(pdev, *now);` with `k = end - now` iterations left and `now` the
index of the current slot. -/
def ReleaseOutput.loop (resources : Nat → Nat) : Nat → Nat → ResHeap → ResHeap
  | 0, _, h => h
  | k + 1, now, h => ReleaseOutput.loop resources k (now + 1) (RELEASE_RES h (resources now))

/-- `ReleaseOutput(pdev, output_id)`: returns the `next` link and the new state. -/
def ReleaseOutput (h : ResHeap) (outs : Outputs) (output_id : Nat) : Option (Nat × ResHeap) :=
  if output_id = 0 then none
  else
    let output := outs output_id
    let h1 := ReleaseOutput.loop output.resources output.num_res 0 h
    let next := readU64 output.data
    match FreeMem h1 output_id with
    | none => none
    | some h2 => some (next, h2)

/-- `AddRes(pdev, output, res)`. -/
def AddRes (h : ResHeap) (outs : Outputs) (output : Nat) (res : Nat) :
    Option (ResHeap × Outputs) :=
  let o := outs output
  if o.num_res < MAX_OUTPUT_RES then
    let h1 := h.setRefs res ((1 + (h.mem res).refs) % UINT32_MOD)
    let o1 : QXLOutput :=
      { o with
        resources := fun i => if i = o.num_res then res else o.resources i
        num_res := o.num_res + 1 }
    some (h1, fun a => if a = output then o1 else outs a)
  else none

/-- The size `sizeof(QXLOutput)` (a 4-byte count padded to 8, then six 8-byte pointers). -/
abbrev SIZEOF_QXLOutput : Nat := 56

/-- `DrawableAddRes(pdev, drawable, res)`: the envelope precedes the drawable. -/
def DrawableAddRes (h : ResHeap) (outs : Outputs) (drawable : Nat) (res : Nat) :
    Option (ResHeap × Outputs) :=
  AddRes h outs (drawable - SIZEOF_QXLOutput) res

/-- `CursorCmdAddRes(pdev, cmd, res)`: the envelope precedes the cursor command. -/
def CursorCmdAddRes (h : ResHeap) (outs : Outputs) (cmd : Nat) (res : Nat) :
    Option (ResHeap × Outputs) :=
  AddRes h outs (cmd - SIZEOF_QXLOutput) res

/-- The envelope initialisation shared by `GetDrawable` and `CursorCmd`, for
the block `output` that `AllocMem` returned: `output->num_res = 0` and
`release_info.id = (UINT64)output` in the first 8 bytes of the payload.
Returns the new memory and the payload address `output->data`. -/
def GetDrawable (outs : Outputs) (output : Nat) : Outputs × Nat :=
  let o : QXLOutput :=
    { outs output with num_res := 0, data := writeU64 (outs output).data output }
  (fun a => if a = output then o else outs a, output + SIZEOF_QXLOutput)

/-- Attach the resources `rs` to the envelope at `output`, one `AddRes` each, in order. -/
def addAll (output : Nat) : ResHeap → Outputs → List Nat → Option (ResHeap × Outputs)
  | h, outs, [] => some (h, outs)
  | h, outs, res :: rs =>
    match AddRes h outs output res with
    | none => none
    | some (h1, outs1) => addAll output h1 outs1 rs

/-- The resources in the first `k` slots of an envelope, in slot order. -/
def attached (o : QXLOutput) (k : Nat) : List Nat := (List.range k).map o.resources

/-- An envelope for examples: the resource at 32 attached twice and the one
at 64 once, `next` link 0x0102 in the first 8 payload bytes. -/
def exampleOutputs : Outputs := fun _ =>
  { num_res := 3
    resources := fun i => if i = 2 then 64 else 32
    data := [2, 1, 0, 0, 0, 0, 0, 0, 9, 9] }

/-- Memory for examples in which every envelope already holds 6 resources. -/
def fullOutputs : Outputs := fun _ =>
  { num_res := 6, resources := fun i => 32 * (i + 1), data := [] }

/-! ## Physical addresses and data chunks (`res.c` lines 32-37, 416-426, 699-731) -/

/-- The fields of `PMemSlot` used by `PA`: `high_bits` and `slot.start_virt_addr`. -/
structure PMemSlot where
  high_bits : Nat
  start_virt_addr : Nat

/-- The function `PA(pdev, virt, slot_id)` for the slot `p_slot`:
`p_slot->high_bits | ((UINT64)virt - p_slot->slot.start_virt_addr)`, the
subtraction being a `UINT64` one. -/
def PA (p_slot : PMemSlot) (virt : Nat) : Nat :=
  p_slot.high_bits |||
    ((18446744073709551616 - p_slot.start_virt_addr % 18446744073709551616 + virt)
      % 18446744073709551616)

/-- The node `struct QXLDataChunk { UINT32 data_size; PHYSICAL prev_chunk;
PHYSICAL next_chunk; UINT8 data[0]; }`; `data i` is the byte `data[i]`. -/
structure QXLDataChunk where
  data_size : Nat
  prev_chunk : Nat
  next_chunk : Nat
  data : Nat → Nat

/-- The data chunks in memory, by virtual address. -/
abbrev ChunkMem := Nat → QXLDataChunk

/-- The state of a chunked encoder: the chunk memory, the cursor
`(chunk, now, end)` with `now` and `end` counted as offsets into
`chunk->data`, and the number of `AllocMem` calls made so far. -/
structure Encoder where
  mem : ChunkMem
  chunk : Nat
  now : Nat
  end_ : Nat
  nalloc : Nat

/-- The constant `BITS_BUF_MAX`. -/
abbrev BITS_BUF_MAX : Nat := 65536

/-- The macro `NEW_DATA_CHUNK(page_counter, size)`. The pointer returned by
the `k`-th call of `AllocMem` is `alloc k`. -/
def NEW_DATA_CHUNK (p_slot : PMemSlot) (alloc : Nat → Nat) (st : Encoder) (size : Nat) :
    Encoder :=
  let ptr := alloc st.nalloc
  -- chunk->next_chunk = PA(pdev, ptr, pdev->main_mem_slot);
  let mem1 : ChunkMem := fun a =>
    if a = st.chunk then { st.mem a with next_chunk := PA p_slot ptr } else st.mem a
  -- ((QXLDataChunk *)ptr)->prev_chunk = PA(pdev, chunk, pdev->main_mem_slot);
  let mem2 : ChunkMem := fun a =>
    if a = ptr then { mem1 a with prev_chunk := PA p_slot st.chunk } else mem1 a
  -- chunk = (QXLDataChunk *)ptr; chunk->data_size = 0; chunk->next_chunk = 0;
  let mem3 : ChunkMem := fun a =>
    if a = ptr then { mem2 a with data_size := 0, next_chunk := 0 } else mem2 a
  -- now = chunk->data; end = now + size;
  { mem := mem3, chunk := ptr, now := 0, end_ := size, nalloc := st.nalloc + 1 }

/-- The four statements `RtlCopyMemory(now, src, cp_size); src += cp_size;
now += cp_size; chunk->data_size += cp_size;` (the advance of `src` is done by
the caller of this function). -/
def copyToChunk (st : Encoder) (src : List Nat) (cp_size : Nat) : Encoder :=
  { st with
    mem := fun a =>
      if a = st.chunk then
        { st.mem a with
          data := fun i =>
            if st.now ≤ i ∧ i < st.now + cp_size then src.getD (i - st.now) 0
            else (st.mem a).data i
          data_size := (st.mem a).data_size + cp_size }
      else st.mem a
    now := st.now + cp_size }

/-- The loop `while (size) { ... }` of `__PutBytesAlign`, with at most `fuel`
iterations; `none` when an assertion fails, when the cursor is broken
(`end < now`) or when the iterations are used up. -/
def PutBytesAlign.loop (p_slot : PMemSlot) (alloc : Nat → Nat) (alloc_size alignment : Nat) :
    Nat → Encoder → List Nat → Nat → Option Encoder
  | 0, st, _, size => if size = 0 then some st else none
  | fuel + 1, st, src, size =>
    if size = 0 then some st
    else if st.end_ < st.now then none
    else
      let cp_size := min (st.end_ - st.now) size
      if cp_size = 0 then
        if alloc_size = 0 then none
        else if ¬ (alignment < BITS_BUF_MAX) then none
        else
          let aligned_size := min (alloc_size + alignment - 1) BITS_BUF_MAX
          let aligned_size := aligned_size - aligned_size % alignment
          let st1 := NEW_DATA_CHUNK p_slot alloc st aligned_size
          let cp_size := min (st1.end_ - st1.now) size
          PutBytesAlign.loop p_slot alloc alloc_size alignment fuel
            (copyToChunk st1 src cp_size) (src.drop cp_size) (size - cp_size)
      else
        PutBytesAlign.loop p_slot alloc alloc_size alignment fuel
          (copyToChunk st src cp_size) (src.drop cp_size) (size - cp_size)

/-- `__PutBytesAlign(pdev, chunk_ptr, now_ptr, end_ptr, src, size, page_counter,
alloc_size, alignment)`, the cursor being read from and written back to `st`. -/
def PutBytesAlign (p_slot : PMemSlot) (alloc : Nat → Nat) (st : Encoder) (src : List Nat)
    (size : Nat) (alloc_size alignment : Nat) (fuel : Nat) : Option Encoder :=
  PutBytesAlign.loop p_slot alloc alloc_size alignment fuel st src size

/-- The bytes `data[a .. a + n)` of a chunk. -/
def dataSlice (c : QXLDataChunk) (a n : Nat) : List Nat :=
  (List.range n).map (fun i => c.data (a + i))

/-- The payload `data[:data_size]` of a chunk. -/
def chunkData (c : QXLDataChunk) : List Nat := dataSlice c 0 c.data_size

/-- The chunks `new` are linked after the chunk at `c`, in `next_chunk`
order, each pointing back to its predecessor. -/
def Linked (p_slot : PMemSlot) (mem : ChunkMem) : Nat → List Nat → Prop
  | _, [] => True
  | c, a :: rest =>
    (mem c).next_chunk = PA p_slot a ∧ (mem a).prev_chunk = PA p_slot c ∧
      Linked p_slot mem a rest

instance Linked.decidable (p_slot : PMemSlot) (mem : ChunkMem) :
    ∀ (c : Nat) (new : List Nat), Decidable (Linked p_slot mem c new)
  | _, [] => isTrue trivial
  | c, a :: rest => by
    have := Linked.decidable p_slot mem a rest
    unfold Linked
    infer_instance

/-- The addresses returned by `m` successive allocations starting with call number `k`. -/
def allocated (alloc : Nat → Nat) (k m : Nat) : List Nat :=
  (List.range m).map (fun i => alloc (k + i))

/-- A memory slot for examples: slot bits `0x01` in the top byte, base address 4096. -/
def exampleSlot : PMemSlot :=
  { high_bits := 72057594037927936, start_virt_addr := 4096 }

/-- An allocator for examples: call `k` returns the block at `8192 + 256 * k`. -/
def exampleAlloc (k : Nat) : Nat := 8192 + 256 * k

/-- An encoder for examples: an empty chunk at 4096 with room for 3 bytes. -/
def exampleEncoder : Encoder :=
  { mem := fun _ => { data_size := 0, prev_chunk := 0, next_chunk := 0, data := fun _ => 0 }
    chunk := 4096
    now := 0
    end_ := 3
    nalloc := 0 }

/-! ## Rings (`utils.h`, not part of this source file) -/

/-- Modelled from the spec: the intrusive ring `Ring` of `utils.h`, whose
source is not available. "Most-recently-used at head, least-recently-used at
tail": a ring is the list of its items (addresses), head first. -/
abbrev Ring := List Nat

/-- Modelled from the spec: `RingInit(ring)` makes the ring empty. -/
def RingInit : Ring := []

/-- Modelled from the spec: `RingAdd(pdev, ring, item)` links `item` at the head. -/
def RingAdd (ring : Ring) (item : Nat) : Ring := item :: ring

/-- Modelled from the spec: `RingRemove(pdev, item)` unlinks `item`. -/
def RingRemove (ring : Ring) (item : Nat) : Ring := ring.erase item

/-- Modelled from the spec: `RingGetTail(pdev, ring)` is the item at the tail,
`NULL` (0) for an empty ring. -/
def RingGetTail (ring : Ring) : Nat := ring.getLastD 0

/-- Modelled from the spec: `RingItemIsLinked(item)` holds when `item` is on its ring. -/
def RingItemIsLinked (ring : Ring) (item : Nat) : Bool := decide (item ∈ ring)

/-! ## Image cache (`res.c` lines 733-849) -/

/-- The entry `struct ImageKey { HSURF hsurf; UINT64 unique; UINT32 key; }`
of the key-lookup table. -/
structure ImageKey where
  hsurf : Nat
  unique : Nat
  key : Nat
  deriving DecidableEq, Repr

/-- The pool slot `struct CacheImage`: chain link `next`, `key`, `hits`,
`format`, `width`, `height` and the back-reference `image` to the
`InternalImage` (0 when there is none). The `lru_link` is the slot's
membership in `cache_image_lru`. -/
structure CacheImage where
  next : Nat
  key : Nat
  hits : Nat
  format : Nat
  width : Nat
  height : Nat
  image : Nat
  deriving DecidableEq, Repr

/-- The image cache of a `PDev`: `cache_image_pool` (by slot address),
the hash buckets `image_cache`, the ring `cache_image_lru` and the
direct-mapped table `image_key_lookup`. -/
structure ImageCache where
  pool : Nat → CacheImage
  image_cache : Nat → Nat
  cache_image_lru : Ring
  image_key_lookup : Nat → ImageKey

/-- The macro `HSURF_HASH_VAL(h)`; the cast to `unsigned long` keeps 32 bits. -/
def HSURF_HASH_VAL (h : Nat) : Nat :=
  let u := h % 4294967296
  (u >>> 4) ^^^ (u >>> 8) ^^^ (u >>> 16) ^^^ (u >>> 24)

/-- The macro `IMAGE_KEY_HASH_VAL(hsurf)`, for the constant `IMAGE_KEY_HASH_MASK`. -/
def IMAGE_KEY_HASH_VAL (IMAGE_KEY_HASH_MASK : Nat) (hsurf : Nat) : Nat :=
  HSURF_HASH_VAL hsurf &&& IMAGE_KEY_HASH_MASK

/-- The macro `IMAGE_HASH_VAL(key)`, for the constant `IMAGE_HASH_MASK`. -/
def IMAGE_HASH_VAL (IMAGE_HASH_MASK : Nat) (key : Nat) : Nat :=
  HSURF_HASH_VAL key &&& IMAGE_HASH_MASK

/-- `ImageKeyPut(pdev, hsurf, unique, key)`. -/
def ImageKeyPut (IMAGE_KEY_HASH_MASK : Nat) (ic : ImageCache) (hsurf unique key : Nat) :
    ImageCache :=
  if unique = 0 then ic
  else
    { ic with
      image_key_lookup := fun i =>
        if i = IMAGE_KEY_HASH_VAL IMAGE_KEY_HASH_MASK hsurf then
          { hsurf := hsurf, unique := unique, key := key }
        else ic.image_key_lookup i }

/-- `ImageKeyGet(pdev, hsurf, unique, &key)`: `some key` when it returns `TRUE`
(and stores `key`), `none` when it returns `FALSE` (and stores nothing). -/
def ImageKeyGet (IMAGE_KEY_HASH_MASK : Nat) (ic : ImageCache) (hsurf unique : Nat) :
    Option Nat :=
  if unique = 0 then none
  else
    let image_key := ic.image_key_lookup (IMAGE_KEY_HASH_VAL IMAGE_KEY_HASH_MASK hsurf)
    if image_key.hsurf = hsurf ∧ image_key.unique = unique then some image_key.key else none

/-- Write the pool slot at `p`. -/
def ImageCache.setSlot (ic : ImageCache) (p : Nat) (c : CacheImage) : ImageCache :=
  { ic with pool := fun a => if a = p then c else ic.pool a }

/-- The test of the `while` loop of `ImageCacheGetByKey`. -/
def cacheImageMatches (c : CacheImage) (key : Nat) (check_rest : Bool)
    (format width height : Nat) : Bool :=
  decide (c.key = key) &&
    (!check_rest || (decide (c.format = format) && decide (c.width = width) &&
      decide (c.height = height)))

/-- The loop `while (cache_image) { ... }` of `ImageCacheGetByKey`, started
at `cache_image`, with at most `fuel` iterations (`none` when they are used
up). Returns the entry found (0 for `NULL`) and the cache with its `hits`
incremented. -/
def ImageCacheGetByKey.walk (key : Nat) (check_rest : Bool) (format width height : Nat) :
    Nat → ImageCache → Nat → Option (Nat × ImageCache)
  | 0, _, _ => none
  | fuel + 1, ic, cache_image =>
    if cache_image = 0 then some (0, ic)
    else if cacheImageMatches (ic.pool cache_image) key check_rest format width height then
      some (cache_image,
        ic.setSlot cache_image
          { ic.pool cache_image with hits := (1 + (ic.pool cache_image).hits) % UINT32_MOD })
    else
      ImageCacheGetByKey.walk key check_rest format width height fuel ic
        (ic.pool cache_image).next

/-- `ImageCacheGetByKey(pdev, key, check_rest, format, width, height)`. -/
def ImageCacheGetByKey (IMAGE_HASH_MASK : Nat) (fuel : Nat) (ic : ImageCache) (key : Nat)
    (check_rest : Bool) (format width height : Nat) : Option (Nat × ImageCache) :=
  ImageCacheGetByKey.walk key check_rest format width height fuel ic
    (ic.image_cache (IMAGE_HASH_VAL IMAGE_HASH_MASK key))

/-- `ImageCacheAdd(pdev, cache_image)`. -/
def ImageCacheAdd (IMAGE_HASH_MASK : Nat) (ic : ImageCache) (cache_image : Nat) : ImageCache :=
  let key := IMAGE_HASH_VAL IMAGE_HASH_MASK (ic.pool cache_image).key
  let ic1 := ic.setSlot cache_image
    { ic.pool cache_image with next := ic.image_cache key, hits := 1 }
  { ic1 with image_cache := fun b => if b = key then cache_image else ic1.image_cache b }

/-- A location holding a `CacheImage *`: a hash bucket or the `next` field of a slot. -/
inductive CacheLink where
  | bucket (b : Nat)
  | next (p : Nat)
  deriving DecidableEq, Repr

/-- Read `*cache_img`. -/
def ImageCache.readLink (ic : ImageCache) : CacheLink → Nat
  | .bucket b => ic.image_cache b
  | .next p => (ic.pool p).next

/-- Store `*cache_img = v`. -/
def ImageCache.writeLink (ic : ImageCache) : CacheLink → Nat → ImageCache
  | .bucket b, v => { ic with image_cache := fun i => if i = b then v else ic.image_cache i }
  | .next p, v => ic.setSlot p { ic.pool p with next := v }

/-- The loop `while (*cache_img) { ... }` of `ImageCacheRemove`, with at most
`fuel` iterations. -/
def ImageCacheRemove.walk (cache_image : Nat) : Nat → ImageCache → CacheLink → Option ImageCache
  | 0, _, _ => none
  | fuel + 1, ic, cache_img =>
    if ic.readLink cache_img = 0 then some ic
    else if (ic.pool (ic.readLink cache_img)).key = (ic.pool cache_image).key then
      some (ic.writeLink cache_img (ic.pool cache_image).next)
    else ImageCacheRemove.walk cache_image fuel ic (CacheLink.next (ic.readLink cache_img))

/-- `ImageCacheRemove(pdev, cache_image)`. -/
def ImageCacheRemove (IMAGE_HASH_MASK : Nat) (fuel : Nat) (ic : ImageCache) (cache_image : Nat) :
    Option ImageCache :=
  if (ic.pool cache_image).hits = 0 then some ic
  else
    ImageCacheRemove.walk cache_image fuel ic
      (CacheLink.bucket (IMAGE_HASH_VAL IMAGE_HASH_MASK (ic.pool cache_image).key))

/-- `AllocCacheImage(pdev)` when the ring has a tail: the tail slot is
unlinked and returned. With an empty ring the function stays in its
reclaim-and-wait loop, which is not followed here (`none`). -/
def AllocCacheImage (ic : ImageCache) : Option (Nat × ImageCache) :=
  if RingGetTail ic.cache_image_lru = 0 then none
  else
    some (RingGetTail ic.cache_image_lru,
      { ic with cache_image_lru := RingRemove ic.cache_image_lru (RingGetTail ic.cache_image_lru) })

/-- The macro `IMAGE_HASH_INIT_VAL(width, height, format)`. -/
def IMAGE_HASH_INIT_VAL (width height : Int) (format : Nat) : Nat :=
  ((width % 8192).toNat ||| ((height % 8192).toNat <<< 13) ||| ((format <<< 26) % 4294967296))
    % 4294967296

/-- The slots `l` are exactly those reached from the pointer `p` by following
`next`, in order, up to the terminating `NULL`. -/
def IsChain (pool : Nat → CacheImage) : Nat → List Nat → Prop
  | p, [] => p = 0
  | p, a :: rest => p = a ∧ a ≠ 0 ∧ IsChain pool (pool a).next rest

instance IsChain.decidable (pool : Nat → CacheImage) :
    ∀ (p : Nat) (l : List Nat), Decidable (IsChain pool p l)
  | p, [] => by unfold IsChain; infer_instance
  | p, a :: rest => by
    have := IsChain.decidable pool (pool a).next rest
    unfold IsChain
    infer_instance

/-- The result of a lookup that finds the slot `p`: `p` itself and the cache
with `hits` of `p` incremented (as a `UINT32`). -/
def hitResult (ic : ImageCache) (p : Nat) : Nat × ImageCache :=
  (p, ic.setSlot p { ic.pool p with hits := (1 + (ic.pool p).hits) % UINT32_MOD })

/-- A cache for examples. Bucket 1 (that of key 16) holds the chain 3 -> 5: slot 3 has key 16
and format 8 but no image, slot 5 has key 16, format 9 and the image at 4120.
Every other slot is unused and its bucket empty; the ring holds slots 1 and 2.
The mask is taken as `0xff`. -/
def exampleCache : ImageCache :=
  { pool := fun p =>
      if p = 3 then { next := 5, key := 16, hits := 1, format := 8, width := 2, height := 2,
                      image := 0 }
      else if p = 5 then { next := 0, key := 16, hits := 1, format := 9, width := 4, height := 4,
                           image := 4120 }
      else { next := 0, key := 0, hits := 0, format := 0, width := 0, height := 0, image := 0 }
    image_cache := fun b => if b = 1 then 3 else 0
    cache_image_lru := [1, 2]
    image_key_lookup := fun _ => { hsurf := 0, unique := 0, key := 0 } }

/-! ## Device state and environment -/

/-- The address-translation fields of `PDev`: `slot_id_bits`, `slot_gen_bits`,
`va_slot_mask`. -/
structure SlotBits where
  slot_id_bits : Nat
  slot_gen_bits : Nat
  va_slot_mask : Nat

/-- The function `VA(pdev, paddr, slot_id)` for the slot `p_slot` with
generation `generation`: both assertions, then
`(paddr & va_slot_mask) + start_virt_addr` as a `UINT64`. -/
def VA (bits : SlotBits) (p_slot : PMemSlot) (generation : Nat) (slot_id : Nat) (paddr : Nat) :
    Option Nat :=
  if paddr >>> (64 - bits.slot_id_bits) ≠ slot_id then none
  else if ((paddr <<< bits.slot_id_bits) % 18446744073709551616) >>> (64 - bits.slot_gen_bits)
      ≠ generation then none
  else some (((paddr &&& bits.va_slot_mask) + p_slot.start_virt_addr) % 18446744073709551616)

/-- Sizes and offsets of the C structures, which are declared outside this
source file: `sizeof(Resource)`, `sizeof(QXLDataChunk)`, `sizeof(InternalImage)`,
`sizeof(InternalPalette)`, the offset of `image` in `InternalImage`, of
`palette` in `InternalPalette`, of the embedded first chunk of a QUIC
image (`image.quic.data`) from the start of `InternalImage`, of the member
`chunk` in `QXLPath`, `QXLClipRects` and `QXLString`, of `cursor` and
`cursor.chunk` in `InternalCursor`, and `sizeof(QXLString)`,
`sizeof(RasterGlyph)`, `sizeof(QXLPath)`, `sizeof(PathSeg)`, `sizeof(POINTFIX)`,
`sizeof(QXLClipRects)`, `sizeof(Rect)`. -/
structure Layout where
  sizeof_Resource : Nat
  sizeof_QXLDataChunk : Nat
  sizeof_InternalImage : Nat
  sizeof_InternalPalette : Nat
  off_image : Nat
  off_palette : Nat
  off_quic_data : Nat
  off_path_chunk : Nat
  off_rects_chunk : Nat
  off_str_chunk : Nat
  off_cursor : Nat
  off_cursor_chunk : Nat
  sizeof_QXLString : Nat
  sizeof_RasterGlyph : Nat
  sizeof_QXLPath : Nat
  sizeof_PathSeg : Nat
  sizeof_POINTFIX : Nat
  sizeof_QXLClipRects : Nat
  sizeof_Rect : Nat

/-- The value of a `LONG` / `INT32` converted to `UINT32`. -/
def toU32 (z : Int) : Nat := (z % 4294967296).toNat

/-- The `n` bytes at address `addr` of the byte memory `bytes`. -/
def readBytes (bytes : Int → Nat) (addr : Int) (n : Nat) : List Nat :=
  (List.range n).map (fun (i : Nat) => bytes (addr + (i : Int)))

/-- The fields of a GDI `SURFOBJ` that `res.c` reads. -/
structure SURFOBJ where
  iType : Nat
  cx : Int
  cy : Int
  iBitmapFormat : Nat
  iUniq : Nat
  fjBitmap : Nat
  hsurf : Nat
  pvScan0 : Int
  lDelta : Int

/-- The fields of a GDI `XLATEOBJ` that `res.c` reads; `pulXlate i` is entry `i`. -/
structure XLATEOBJ where
  flXlate : Nat
  iUniq : Nat
  cEntries : Nat
  pulXlate : Nat → Nat

/-- The rectangle `Rect { top, left, bottom, right }` of signed 32-bit coordinates. -/
structure Rect where
  left : Int
  top : Int
  right : Int
  bottom : Int
  deriving DecidableEq, Repr

/-- What one call of the external `quic_encode` does, as seen by the driver:
the `rows_completed` argument of each `more_space` callback it makes, in
order, and its return value (`none` for `QUIC_ERROR`, else the word count). -/
structure QuicRun where
  more_space : List Int
  result : Option Nat

/-- Constants of headers that are not part of this source file (`winddi.h`,
`qxl_dev.h`, `quic.h`), taken as parameters: the GDI flags and surface
and bitmap kinds, the device bitmap formats, image types, image-id groups and
flags, the codec's image types, the font and string flags, the enumerators'
error value, the page size, and the clip kinds. -/
structure Consts where
  XO_TABLE : Nat
  BMF_DONTCACHE : Nat
  STYPE_BITMAP : Nat
  BMF_1BPP : Nat
  BMF_4BPP : Nat
  BMF_8BPP : Nat
  BMF_16BPP : Nat
  BMF_24BPP : Nat
  BMF_32BPP : Nat
  BITMAP_FMT_1BIT_BE : Nat
  BITMAP_FMT_4BIT_BE : Nat
  BITMAP_FMT_8BIT : Nat
  BITMAP_FMT_16BIT : Nat
  BITMAP_FMT_24BIT : Nat
  BITMAP_FMT_32BIT : Nat
  BITMAP_FMT_RGBA : Nat
  IMAGE_TYPE_BITMAP : Nat
  IMAGE_TYPE_QUIC : Nat
  QXL_IMAGE_GROUP_DRIVER : Nat
  QXL_IMAGE_GROUP_DRIVER_DONT_CACHE : Nat
  QXL_IMAGE_CACHE : Nat
  QUIC_IMAGE_TYPE_INVALID : Nat
  QUIC_IMAGE_TYPE_RGB16 : Nat
  QUIC_IMAGE_TYPE_RGB24 : Nat
  QUIC_IMAGE_TYPE_RGB32 : Nat
  QUIC_IMAGE_TYPE_RGBA : Nat
  FO_TYPE_RASTER : Nat
  FO_GRAY16 : Nat
  STRING_RASTER_A1 : Nat
  STRING_RASTER_A4 : Nat
  SO_VERTICAL : Nat
  SO_REVERSED : Nat
  DDI_ERROR : Nat
  PAGE_SIZE : Nat
  CLIP_TYPE_NONE : Nat
  CLIP_TYPE_RECTS : Nat
  CLIP_TYPE_PATH : Nat
  DC_RECT : Nat
  DC_COMPLEX : Nat
  TC_PATHOBJ : Nat
  TC_RECTANGLES : Nat
  QXL_EFFECT_BLEND : Nat

/-- The header constants with the values used in the examples. -/
def exampleConsts : Consts :=
  { XO_TABLE := 2
    BMF_DONTCACHE := 4
    STYPE_BITMAP := 0
    BMF_1BPP := 1
    BMF_4BPP := 2
    BMF_8BPP := 3
    BMF_16BPP := 4
    BMF_24BPP := 5
    BMF_32BPP := 6
    BITMAP_FMT_1BIT_BE := 2
    BITMAP_FMT_4BIT_BE := 4
    BITMAP_FMT_8BIT := 5
    BITMAP_FMT_16BIT := 6
    BITMAP_FMT_24BIT := 7
    BITMAP_FMT_32BIT := 8
    BITMAP_FMT_RGBA := 9
    IMAGE_TYPE_BITMAP := 0
    IMAGE_TYPE_QUIC := 1
    QXL_IMAGE_GROUP_DRIVER := 0
    QXL_IMAGE_GROUP_DRIVER_DONT_CACHE := 3
    QXL_IMAGE_CACHE := 1
    QUIC_IMAGE_TYPE_INVALID := 0
    QUIC_IMAGE_TYPE_RGB16 := 2
    QUIC_IMAGE_TYPE_RGB24 := 3
    QUIC_IMAGE_TYPE_RGB32 := 4
    QUIC_IMAGE_TYPE_RGBA := 5
    FO_TYPE_RASTER := 1
    FO_GRAY16 := 2048
    STRING_RASTER_A1 := 1
    STRING_RASTER_A4 := 2
    SO_VERTICAL := 4
    SO_REVERSED := 8
    DDI_ERROR := 4294967295
    PAGE_SIZE := 4096
    CLIP_TYPE_NONE := 0
    CLIP_TYPE_RECTS := 1
    CLIP_TYPE_PATH := 2
    DC_RECT := 1
    DC_COMPLEX := 3
    TC_PATHOBJ := 2
    TC_RECTANGLES := 0
    QXL_EFFECT_BLEND := 0 }

/-- Everything `res.c` takes from outside: constants of the driver headers,
structure layout, the main memory slot, the device registers
`*compression_level`, `max_bitmap_size` and `*mm_clock`, the byte memory holding the
client's pixels, and the external functions. `alloc k` is the block
returned by the `k`-th successful `AllocMem`; `hashlittle bytes init` is the
hash of `lookup3`; `quic_encode` describes the codec's run for the arguments
`type, width, height, src, stride, io_words`; `QXL_SET_IMAGE_ID group unique`
is the image id that the macro of that name stores. -/
structure Env where
  consts : Consts
  IMAGE_HASH_MASK : Nat
  IMAGE_KEY_HASH_MASK : Nat
  PALETTE_HASH_NASKE : Nat
  PALETTE_CACHE_SIZE : Nat
  layout : Layout
  bits : SlotBits
  main_slot : PMemSlot
  main_generation : Nat
  main_mem_slot : Nat
  compression_level : Nat
  max_bitmap_size : Nat
  mm_clock : Nat
  bytes : Int → Nat
  alloc : Nat → Nat
  hashlittle : List Nat → Nat → Nat
  quic_encode : Nat → Int → Int → Int → Int → Nat → QuicRun
  QXL_SET_IMAGE_ID : Nat → Nat → Nat

/-- The payload `InternalImage { CacheImage *cache; QXLImage image; }`: the
back-reference, the descriptor (`id`, `type`, `flags`, `width`, `height`) and
the fields of the `bitmap` and `quic` variants. -/
structure InternalImage where
  cache : Nat
  id : Nat
  type : Nat
  flags : Nat
  width : Nat
  height : Nat
  bitmap_format : Nat
  bitmap_flags : Nat
  bitmap_x : Nat
  bitmap_y : Nat
  bitmap_stride : Nat
  bitmap_palette : Nat
  bitmap_data : Nat
  quic_data_size : Nat
  deriving DecidableEq, Repr

/-- The payload `InternalPalette { UINT32 refs; InternalPalette *next;
RingItem lru_link; Palette palette; }` with `palette.unique`,
`palette.num_ents` and `palette.ents`. -/
structure InternalPalette where
  refs : Nat
  next : Nat
  unique : Nat
  num_ents : Nat
  ents : List Nat
  deriving DecidableEq, Repr

/-- The palette cache of a `PDev`: the palettes in memory (by address), the
hash buckets `palette_cache`, the ring `palette_lru` and `num_palettes`. -/
structure PaletteCache where
  palettes : Nat → InternalPalette
  palette_cache : Nat → Nat
  palette_lru : Ring
  num_palettes : Nat

/-- The header fields of `QXLString`: `data_size`, `length`, `flags`. -/
structure QXLString where
  data_size : Nat
  length : Nat
  flags : Nat
  deriving DecidableEq, Repr

/-- The fields of `QXLDrawable` that `res.c` writes (other than
`release_info.id`, which is kept in the envelope's payload bytes). -/
structure QXLDrawable where
  type : Nat
  effect : Nat
  bitmap_offset : Nat
  mm_time : Nat
  bbox : Rect
  clip_type : Nat
  clip_data : Nat
  deriving DecidableEq, Repr

/-- The driver state `PDev` as far as `res.c` uses it: besides the heap,
envelopes, chunks and caches, the payload headers in memory by address
(`strings`, the `data_size` of a `QXLPath` in `paths`, the `num_rects` of a
`QXLClipRects` in `cliprects`, `drawables`). -/
structure PDev where
  heap : ResHeap
  outputs : Outputs
  chunks : ChunkMem
  nalloc : Nat
  images : Nat → InternalImage
  icache : ImageCache
  pcache : PaletteCache
  image_id : Nat
  strings : Nat → QXLString
  paths : Nat → Nat
  cliprects : Nat → Nat
  drawables : Nat → QXLDrawable

/-! ## Palette cache (`res.c` lines 851-971) -/

/-- The macro `PALETTE_HASH_VAL(unique)`, for the constant `PALETTE_HASH_NASKE`. -/
def PALETTE_HASH_VAL (PALETTE_HASH_NASKE : Nat) (unique : Nat) : Nat :=
  (unique % 4294967296) &&& PALETTE_HASH_NASKE

/-- Write the palette at `p`. -/
def PaletteCache.setPalette (pc : PaletteCache) (p : Nat) (v : InternalPalette) : PaletteCache :=
  { pc with palettes := fun a => if a = p then v else pc.palettes a }

/-- `ReleasePalette(pdev, palette)`: the assertion, `--palette->refs`, and
`FreeMem` when the count reaches 0. -/
def ReleasePalette (h : ResHeap) (pc : PaletteCache) (palette : Nat) :
    Option (ResHeap × PaletteCache) :=
  if palette = 0 then none
  else
    let refs := (UINT32_MOD - 1 + (pc.palettes palette).refs) % UINT32_MOD
    let pc1 := pc.setPalette palette { pc.palettes palette with refs := refs }
    if refs = 0 then
      match FreeMem h palette with
      | none => none
      | some h1 => some (h1, pc1)
    else some (h, pc1)

/-- A location holding an `InternalPalette *`: a hash bucket or a `next` field. -/
inductive PaletteLink where
  | bucket (b : Nat)
  | next (p : Nat)
  deriving DecidableEq, Repr

/-- Read `*internal`. -/
def PaletteCache.readLink (pc : PaletteCache) : PaletteLink → Nat
  | .bucket b => pc.palette_cache b
  | .next p => (pc.palettes p).next

/-- Store `*internal = v`. -/
def PaletteCache.writeLink (pc : PaletteCache) : PaletteLink → Nat → PaletteCache
  | .bucket b, v =>
    { pc with palette_cache := fun i => if i = b then v else pc.palette_cache i }
  | .next p, v => pc.setPalette p { pc.palettes p with next := v }

/-- The loop `while (*internal) { ... }` of `PaletteCacheRemove` followed by
its `ASSERT(pdev, FALSE)`, with at most `fuel` iterations. -/
def PaletteCacheRemove.walk (palette : Nat) :
    Nat → ResHeap → PaletteCache → PaletteLink → Option (ResHeap × PaletteCache)
  | 0, _, _, _ => none
  | fuel + 1, h, pc, internal =>
    if pc.readLink internal = 0 then none
    else if (pc.palettes (pc.readLink internal)).unique = (pc.palettes palette).unique then
      -- *internal = palette->next; RingRemove(pdev, &palette->lru_link);
      let pc1 := pc.writeLink internal (pc.palettes palette).next
      let pc2 := { pc1 with palette_lru := RingRemove pc1.palette_lru palette }
      -- ReleasePalette(pdev, palette); pdev->num_palettes--;
      match ReleasePalette h pc2 palette with
      | none => none
      | some (h1, pc3) =>
        some (h1, { pc3 with num_palettes := (UINT32_MOD - 1 + pc3.num_palettes) % UINT32_MOD })
    else PaletteCacheRemove.walk palette fuel h pc (PaletteLink.next (pc.readLink internal))

/-- `PaletteCacheRemove(pdev, palette)`. -/
def PaletteCacheRemove (PALETTE_HASH_NASKE : Nat) (fuel : Nat) (h : ResHeap) (pc : PaletteCache)
    (palette : Nat) : Option (ResHeap × PaletteCache) :=
  if (pc.palettes palette).unique = 0 then none
  else
    PaletteCacheRemove.walk palette fuel h pc
      (PaletteLink.bucket (PALETTE_HASH_VAL PALETTE_HASH_NASKE (pc.palettes palette).unique))

/-- The loop `while (now) { ... }` of `PaletteCacheGet`, started at `now`,
with at most `fuel` iterations. Returns the palette found (0 for `NULL`). -/
def PaletteCacheGet.walk (unique : Nat) : Nat → PaletteCache → Nat → Option (Nat × PaletteCache)
  | 0, _, _ => none
  | fuel + 1, pc, now =>
    if now = 0 then some (0, pc)
    else if (pc.palettes now).unique = unique then
      -- RingRemove(pdev, &now->lru_link); RingAdd(pdev, &pdev->palette_lru, &now->lru_link);
      let pc1 := { pc with palette_lru := RingAdd (RingRemove pc.palette_lru now) now }
      -- now->refs++;
      some (now, pc1.setPalette now
        { pc1.palettes now with refs := (1 + (pc1.palettes now).refs) % UINT32_MOD })
    else PaletteCacheGet.walk unique fuel pc (pc.palettes now).next

/-- `PaletteCacheGet(pdev, unique)`. -/
def PaletteCacheGet (PALETTE_HASH_NASKE : Nat) (fuel : Nat) (pc : PaletteCache) (unique : Nat) :
    Option (Nat × PaletteCache) :=
  if unique = 0 then some (0, pc)
  else
    PaletteCacheGet.walk unique fuel pc
      (pc.palette_cache (PALETTE_HASH_VAL PALETTE_HASH_NASKE unique))

/-- `PaletteCacheAdd(pdev, palette)`. -/
def PaletteCacheAdd (PALETTE_HASH_NASKE PALETTE_CACHE_SIZE : Nat) (fuel : Nat) (h : ResHeap)
    (pc : PaletteCache) (palette : Nat) : Option (ResHeap × PaletteCache) :=
  if (pc.palettes palette).unique = 0 then some (h, pc)
  else
    let evicted : Option (ResHeap × PaletteCache) :=
      if pc.num_palettes = PALETTE_CACHE_SIZE then
        if RingGetTail pc.palette_lru = 0 then none
        else PaletteCacheRemove PALETTE_HASH_NASKE fuel h pc (RingGetTail pc.palette_lru)
      else some (h, pc)
    match evicted with
    | none => none
    | some (h1, pc1) =>
      let key := PALETTE_HASH_VAL PALETTE_HASH_NASKE (pc1.palettes palette).unique
      -- palette->next = pdev->palette_cache[key]; pdev->palette_cache[key] = palette;
      let pc2 := pc1.setPalette palette
        { pc1.palettes palette with next := pc1.palette_cache key }
      let pc3 : PaletteCache :=
        { pc2 with palette_cache := fun b => if b = key then palette else pc2.palette_cache b }
      -- RingAdd(pdev, &pdev->palette_lru, &palette->lru_link); palette->refs++;
      let pc4 : PaletteCache := { pc3 with palette_lru := RingAdd pc3.palette_lru palette }
      let pc5 := pc4.setPalette palette
        { pc4.palettes palette with refs := (1 + (pc4.palettes palette).refs) % UINT32_MOD }
      -- pdev->num_palettes++;
      some (h1, { pc5 with num_palettes := (1 + pc5.num_palettes) % UINT32_MOD })

/-- The palettes `l` are exactly those reached from the pointer `p` by
following `next`, in order, up to the terminating `NULL`. -/
def PalChain (palettes : Nat → InternalPalette) : Nat → List Nat → Prop
  | p, [] => p = 0
  | p, a :: rest => p = a ∧ a ≠ 0 ∧ PalChain palettes (palettes a).next rest

instance PalChain.decidable (palettes : Nat → InternalPalette) :
    ∀ (p : Nat) (l : List Nat), Decidable (PalChain palettes p l)
  | p, [] => by unfold PalChain; infer_instance
  | p, a :: rest => by
    have := PalChain.decidable palettes (palettes a).next rest
    unfold PalChain
    infer_instance

/-- An operation on the palette cache: a lookup by `unique`, or the insertion
of the palette stored at an address. -/
inductive PalOp where
  | get (unique : Nat)
  | add (palette : Nat)
  deriving DecidableEq, Repr

/-- Run one palette-cache operation (the palette returned by a lookup is dropped). -/
def runPalOp (NASKE SIZE fuel : Nat) (h : ResHeap) (pc : PaletteCache) :
    PalOp → Option (ResHeap × PaletteCache)
  | .get unique =>
    match PaletteCacheGet NASKE fuel pc unique with
    | none => none
    | some (_, pc1) => some (h, pc1)
  | .add palette => PaletteCacheAdd NASKE SIZE fuel h pc palette

/-- Run a sequence of palette-cache operations, in order. -/
def runPalOps (NASKE SIZE fuel : Nat) : ResHeap → PaletteCache → List PalOp →
    Option (ResHeap × PaletteCache)
  | h, pc, [] => some (h, pc)
  | h, pc, op :: rest =>
    match runPalOp NASKE SIZE fuel h pc op with
    | none => none
    | some (h1, pc1) => runPalOps NASKE SIZE fuel h1 pc1 rest

/-- The recency policy in the words of the specification, on the list of
cached palettes (most recently used first): a get that hits moves the entry
to the head; an insertion at capacity `SIZE` evicts the tail first, then
puts the new entry at the head. `uniq p` is the `unique` of the palette at `p`. -/
def lruStep (SIZE : Nat) (uniq : Nat → Nat) (ring : List Nat) : PalOp → List Nat
  | .get unique =>
    if unique = 0 then ring
    else
      match ring.find? (fun p => decide (uniq p = unique)) with
      | some p => p :: ring.erase p
      | none => ring
  | .add palette =>
    if ring.length = SIZE then palette :: ring.dropLast else palette :: ring

/-- The recency list after a sequence of operations. -/
def lruModel (SIZE : Nat) (uniq : Nat → Nat) (ring : List Nat) (ops : List PalOp) : List Nat :=
  ops.foldl (lruStep SIZE uniq) ring

/-- The palettes inserted by a sequence of operations, in order. -/
def addedPalettes : List PalOp → List Nat
  | [] => []
  | .get _ :: rest => addedPalettes rest
  | .add p :: rest => p :: addedPalettes rest

/-- Consistency of a palette cache, together with the palettes `adds` still
to be inserted: the arena exists; the cached and the coming palettes are
distinct non-null blocks of the arena with distinct non-zero `unique`s; every
bucket's chain is a duplicate-free list holding exactly the ring's palettes
that hash to it; and `num_palettes` counts the ring. -/
structure PalInv (NASKE : Nat) (h : ResHeap) (pc : PaletteCache) (adds : List Nat) : Prop where
  arena : h.mspace ≠ 0
  wf : ∀ p ∈ pc.palette_lru ++ adds,
    p ≠ 0 ∧ (pc.palettes p).unique ≠ 0 ∧ h.mspace_start ≤ p ∧ p < h.mspace_end
  nodup : (pc.palette_lru ++ adds).Nodup
  inj : ∀ p ∈ pc.palette_lru ++ adds, ∀ q ∈ pc.palette_lru ++ adds,
    (pc.palettes p).unique = (pc.palettes q).unique → p = q
  chains : ∃ cl : Nat → List Nat, ∀ b,
    PalChain pc.palettes (pc.palette_cache b) (cl b) ∧ (cl b).Nodup ∧
    ∀ p, p ∈ cl b ↔ (p ∈ pc.palette_lru ∧ PALETTE_HASH_VAL NASKE (pc.palettes p).unique = b)
  count : pc.num_palettes = pc.palette_lru.length

/-! ## Finalizers (`res.c` lines 397-414, 549-566, 973-997, 1129-1160, 1859-1876, 2085-2102) -/

/-- The loop shared by `FreePath`, `FreeClipRects`, `FreeSring`,
`FreeQuicImage` and `FreeBitmapImage`,
`while (chunk_phys) { chunk = VA(pdev, chunk_phys, pdev->main_mem_slot);
chunk_phys = chunk->next_chunk; FreeMem(pdev, chunk); }`,
with at most `fuel` iterations. -/
def FreeChunks.loop (env : Env) (chunks : ChunkMem) : Nat → ResHeap → Nat → Option ResHeap
  | 0, _, _ => none
  | fuel + 1, h, chunk_phys =>
    if chunk_phys = 0 then some h
    else
      match VA env.bits env.main_slot env.main_generation env.main_mem_slot chunk_phys with
      | none => none
      | some chunk =>
        match FreeMem h chunk with
        | none => none
        | some h1 => FreeChunks.loop env chunks fuel h1 (chunks chunk).next_chunk

/-- `FreePath(pdev, res)`. -/
def FreePath (env : Env) (fuel : Nat) (chunks : ChunkMem) (h : ResHeap) (res : Nat) :
    Option ResHeap :=
  match FreeChunks.loop env chunks fuel h
      (chunks (res + env.layout.sizeof_Resource + env.layout.off_path_chunk)).next_chunk with
  | none => none
  | some h1 => FreeMem h1 res

/-- `FreeClipRects(pdev, res)`. -/
def FreeClipRects (env : Env) (fuel : Nat) (chunks : ChunkMem) (h : ResHeap) (res : Nat) :
    Option ResHeap :=
  match FreeChunks.loop env chunks fuel h
      (chunks (res + env.layout.sizeof_Resource + env.layout.off_rects_chunk)).next_chunk with
  | none => none
  | some h1 => FreeMem h1 res

/-- `FreeSring(pdev, res)`. -/
def FreeSring (env : Env) (fuel : Nat) (chunks : ChunkMem) (h : ResHeap) (res : Nat) :
    Option ResHeap :=
  match FreeChunks.loop env chunks fuel h
      (chunks (res + env.layout.sizeof_Resource + env.layout.off_str_chunk)).next_chunk with
  | none => none
  | some h1 => FreeMem h1 res

/-- The loop of `FreeCursor`,
`while (chunk_phys) { chunk = VA(pdev, chunk_phys, pdev->main_mem_slot);
chunk_phys = chunk->next_chunk; FreeMem(pdev, res); }`,
with at most `fuel` iterations. -/
def FreeCursor.loop (env : Env) (chunks : ChunkMem) (res : Nat) :
    Nat → ResHeap → Nat → Option ResHeap
  | 0, _, _ => none
  | fuel + 1, h, chunk_phys =>
    if chunk_phys = 0 then some h
    else
      match VA env.bits env.main_slot env.main_generation env.main_mem_slot chunk_phys with
      | none => none
      | some chunk =>
        match FreeMem h res with
        | none => none
        | some h1 => FreeCursor.loop env chunks res fuel h1 (chunks chunk).next_chunk

/-- `FreeCursor(pdev, res)`. -/
def FreeCursor (env : Env) (fuel : Nat) (chunks : ChunkMem) (h : ResHeap) (res : Nat) :
    Option ResHeap :=
  match FreeCursor.loop env chunks res fuel h
      (chunks (res + env.layout.sizeof_Resource + env.layout.off_cursor_chunk)).next_chunk with
  | none => none
  | some h1 => FreeMem h1 res

/-- The first statement of the image finalizers:
`if (internal->cache) { RingAdd(pdev, &pdev->cache_image_lru,
&internal->cache->lru_link); internal->cache->image = NULL; }`. -/
def imageCacheDetach (ic : ImageCache) (cache : Nat) : ImageCache :=
  if cache = 0 then ic
  else
    let ic1 := { ic with cache_image_lru := RingAdd ic.cache_image_lru cache }
    ic1.setSlot cache { ic1.pool cache with image := 0 }

/-- `FreeQuicImage(pdev, res)`. -/
def FreeQuicImage (env : Env) (fuel : Nat) (s : PDev) (res : Nat) : Option PDev :=
  let internal := res + env.layout.sizeof_Resource
  let s1 := { s with icache := imageCacheDetach s.icache (s.images internal).cache }
  match FreeChunks.loop env s1.chunks fuel s1.heap
      (s1.chunks (internal + env.layout.off_quic_data)).next_chunk with
  | none => none
  | some h1 =>
    match FreeMem h1 res with
    | none => none
    | some h2 => some { s1 with heap := h2 }

/-- The statements of `FreeBitmapImage` that precede its chain walk: the
cache slot is put back on the ring and, when the bitmap has a palette,
`ReleasePalette(pdev, CONTAINEROF(VA(palette), InternalPalette, palette))`. -/
def FreeBitmapImage.detach (env : Env) (s : PDev) (res : Nat) : Option PDev :=
  let internal := res + env.layout.sizeof_Resource
  let s1 := { s with icache := imageCacheDetach s.icache (s.images internal).cache }
  if (s1.images internal).bitmap_palette = 0 then some s1
  else
    match VA env.bits env.main_slot env.main_generation env.main_mem_slot
        (s1.images internal).bitmap_palette with
    | none => none
    | some palette =>
      match ReleasePalette s1.heap s1.pcache (palette - env.layout.off_palette) with
      | none => none
      | some (h1, pc1) => some { s1 with heap := h1, pcache := pc1 }

/-- `FreeBitmapImage(pdev, res)`. -/
def FreeBitmapImage (env : Env) (fuel : Nat) (s : PDev) (res : Nat) : Option PDev :=
  match FreeBitmapImage.detach env s res with
  | none => none
  | some s1 =>
    match FreeChunks.loop env s1.chunks fuel s1.heap
        (s1.chunks (res + env.layout.sizeof_Resource + env.layout.sizeof_InternalImage)).next_chunk
    with
    | none => none
    | some h1 =>
      match FreeMem h1 res with
      | none => none
      | some h2 => some { s1 with heap := h2 }

/-- The continuation chunks `cs` (virtual addresses) are exactly those
reached from the physical address `phys` through `VA` and `next_chunk`, in
order, up to the terminating 0. -/
def VChain (env : Env) (chunks : ChunkMem) : Nat → List Nat → Prop
  | phys, [] => phys = 0
  | phys, c :: rest =>
    phys ≠ 0 ∧ VA env.bits env.main_slot env.main_generation env.main_mem_slot phys = some c ∧
      VChain env chunks (chunks c).next_chunk rest

instance VChain.decidable (env : Env) (chunks : ChunkMem) :
    ∀ (phys : Nat) (cs : List Nat), Decidable (VChain env chunks phys cs)
  | phys, [] => by unfold VChain; infer_instance
  | phys, c :: rest => by
    have := VChain.decidable env chunks (chunks c).next_chunk rest
    unfold VChain
    infer_instance

/-- The blocks `l` all lie in the arena of `h`. -/
def InArena (h : ResHeap) (l : List Nat) : Prop :=
  ∀ p ∈ l, h.mspace_start ≤ p ∧ p < h.mspace_end

instance (h : ResHeap) (l : List Nat) : Decidable (InArena h l) := by
  unfold InArena; infer_instance

/-- A layout for examples (packed device structures, 8-byte pointers). -/
def exampleLayout : Layout :=
  { sizeof_Resource := 16
    sizeof_QXLDataChunk := 20
    sizeof_InternalImage := 56
    sizeof_InternalPalette := 42
    off_image := 8
    off_palette := 32
    off_quic_data := 30
    off_path_chunk := 4
    off_rects_chunk := 4
    off_str_chunk := 8
    off_cursor := 40
    off_cursor_chunk := 58
    sizeof_QXLString := 28
    sizeof_RasterGlyph := 20
    sizeof_QXLPath := 24
    sizeof_PathSeg := 8
    sizeof_POINTFIX := 8
    sizeof_QXLClipRects := 24
    sizeof_Rect := 16 }

/-- An environment for examples: 8 slot-id bits, 8 generation bits, main
slot 1 with generation 0 based at 4096, compression off, a simple stand-in
for `hashlittle`, and a codec that always reports an error. -/
def exampleEnv : Env :=
  { consts := exampleConsts
    IMAGE_HASH_MASK := 255
    IMAGE_KEY_HASH_MASK := 255
    PALETTE_HASH_NASKE := 7
    PALETTE_CACHE_SIZE := 2
    layout := exampleLayout
    bits := { slot_id_bits := 8, slot_gen_bits := 8, va_slot_mask := 281474976710655 }
    main_slot := exampleSlot
    main_generation := 0
    main_mem_slot := 1
    compression_level := 0
    max_bitmap_size := 1024
    mm_clock := 0
    bytes := fun a => (a % 256).toNat
    alloc := exampleAlloc
    hashlittle := fun bytes init => bytes.foldl (fun a b => (31 * a + b) % 4294967296) init
    quic_encode := fun _ _ _ _ _ _ => { more_space := [], result := none }
    QXL_SET_IMAGE_ID := fun group unique => group + 4294967296 * unique }

/-- Chunk memory for examples: a resource at 4096 whose embedded chunks (for
every payload kind) link to the continuation chunk at 8192, which links to
the one at 8448, the last. -/
def exampleChunks : ChunkMem := fun a =>
  if a = 8448 then { data_size := 0, prev_chunk := 0, next_chunk := 0, data := fun _ => 0 }
  else if a = 8192 then
    { data_size := 0, prev_chunk := 0, next_chunk := PA exampleSlot 8448, data := fun _ => 0 }
  else { data_size := 0, prev_chunk := 0, next_chunk := PA exampleSlot 8192, data := fun _ => 0 }

/-- A heap for examples whose arena is `[4096, 65536)`. -/
def arenaHeap : ResHeap :=
  { mem := fun _ => { refs := 1, free := FreeFn.FreeBuf }
    free_log := []
    mspace := 1
    mspace_start := 4096
    mspace_end := 65536
    mem_free_log := [] }

/-- A palette cache for examples: empty. -/
def emptyPaletteCache : PaletteCache :=
  { palettes := fun _ => { refs := 0, next := 0, unique := 0, num_ents := 0, ents := [] }
    palette_cache := fun _ => 0
    palette_lru := []
    num_palettes := 0 }

/-- A driver state for examples, put together from the example heap with
arena `[4096, 65536)`, envelopes, chunk memory and image cache; no image has
a cache slot or a palette. -/
def examplePDev : PDev :=
  { heap := arenaHeap
    outputs := exampleOutputs
    chunks := exampleChunks
    nalloc := 0
    images := fun _ =>
      { cache := 0, id := 0, type := 0, flags := 0, width := 0, height := 0, bitmap_format := 0,
        bitmap_flags := 0, bitmap_x := 0, bitmap_y := 0, bitmap_stride := 0, bitmap_palette := 0,
        bitmap_data := 0, quic_data_size := 0 }
    icache := exampleCache
    pcache := emptyPaletteCache
    image_id := 0
    strings := fun _ => { data_size := 0, length := 0, flags := 0 }
    paths := fun _ => 0
    cliprects := fun _ => 0
    drawables := fun _ =>
      { type := 0, effect := 0, bitmap_offset := 0, mm_time := 0,
        bbox := { left := 0, top := 0, right := 0, bottom := 0 }, clip_type := 0, clip_data := 0 } }

/-! ## Image keys (`res.c` lines 1216-1296) -/

/-- The bytes of the first `cEntries` entries of a colour table, 4 bytes
each, least significant first. -/
def tableBytes (pulXlate : Nat → Nat) (cEntries : Nat) : List Nat :=
  (List.range cEntries).flatMap (fun i => bytesLE 4 (pulXlate i))

/-- The body of the row loop of `GetHash` (the `ADAPTIVE_HASH` branch) for the
row at `row_buf`: the new `hash_value` and the new `last_byte`. -/
def GetHash.row (k : Consts) (hashlittle : List Nat → Nat → Nat) (bytes : Int → Nat) (width : Int)
    (format line_size : Nat) (row_buf : Int) (hash_value last_byte : Nat) : Nat × Nat :=
  if format = k.BITMAP_FMT_32BIT then
    -- for (i = 0; i < line_size; i += 4) hash_value = hashlittle(row_buf + i, 3, hash_value);
    ((List.range ((line_size + 3) / 4)).foldl
      (fun (hv j : Nat) => hashlittle (readBytes bytes (row_buf + 4 * (j : Int)) 3) hv) hash_value,
     last_byte)
  else
    let last_byte1 :=
      if format = k.BITMAP_FMT_4BIT_BE ∧ width % 2 ≠ 0 then
        bytes (row_buf + ((line_size : Int) - 1)) &&& 240
      else if format = k.BITMAP_FMT_1BIT_BE ∧ width % 8 ≠ 0 then
        bytes (row_buf + ((line_size : Int) - 1)) &&& (256 - 2 ^ (8 - (width % 8).toNat))
      else last_byte
    if last_byte1 ≠ 0 then
      (hashlittle [last_byte1]
        (hashlittle (readBytes bytes row_buf (line_size - 1)) hash_value), last_byte1)
    else (hashlittle (readBytes bytes row_buf line_size) hash_value, last_byte1)

/-- The loop `for (row = 0; row < height; row++) { ...; row_buf += stride; }`
of `GetHash`, with `rows` iterations left. -/
def GetHash.rows (k : Consts) (hashlittle : List Nat → Nat → Nat) (bytes : Int → Nat) (width : Int)
    (format line_size : Nat) (stride : Int) : Nat → Int → Nat → Nat → Nat
  | 0, _, hash_value, _ => hash_value
  | rows + 1, row_buf, hash_value, last_byte =>
    GetHash.rows k hashlittle bytes width format line_size stride rows (row_buf + stride)
      (GetHash.row k hashlittle bytes width format line_size row_buf hash_value last_byte).1
      (GetHash.row k hashlittle bytes width format line_size row_buf hash_value last_byte).2

/-- `GetHash(src, width, height, format, line_size, stride, color_trans)`. -/
def GetHash (env : Env) (src : Int) (width height : Int) (format : Nat) (line_size : Nat)
    (stride : Int) (color_trans : Option XLATEOBJ) : Nat :=
  let hash_value := IMAGE_HASH_INIT_VAL width height format
  let hash_value1 :=
    match color_trans with
    | some ct =>
      if ct.flXlate = env.consts.XO_TABLE then
        env.hashlittle (tableBytes ct.pulXlate ct.cEntries) hash_value
      else hash_value
    | none => hash_value
  GetHash.rows env.consts env.hashlittle env.bytes width format line_size stride height.toNat src
    hash_value1 0

/-- A two-slot cache for examples, as left by two reservations: slot 1
(key 16, bucket 1) was reserved first, slot 2 (key 32, bucket 2) after it, so the
ring holds slot 2 at the head and slot 1 at the tail; neither has an image.
The mask is taken as `0xff`. -/
def lruCache : ImageCache :=
  { pool := fun p =>
      if p = 1 then { next := 0, key := 16, hits := 1, format := 8, width := 2, height := 2,
                      image := 0 }
      else if p = 2 then { next := 0, key := 32, hits := 1, format := 8, width := 2, height := 2,
                           image := 0 }
      else { next := 0, key := 0, hits := 0, format := 0, width := 0, height := 0, image := 0 }
    image_cache := fun b => if b = 1 then 1 else if b = 2 then 2 else 0
    cache_image_lru := [2, 1]
    image_key_lookup := fun _ => { hsurf := 0, unique := 0, key := 0 } }

/-! ## Compressed images (`res.c` lines 973-1120) -/

/-- The constant `QUIC_BUF_MAX`. -/
abbrev QUIC_BUF_MAX : Nat := 65536

/-- The constant `QUIC_BUF_MIN`. -/
abbrev QUIC_BUF_MIN : Nat := 1024

/-- The macro `QUIC_ALLOC_BASE`. -/
def QUIC_ALLOC_BASE (l : Layout) : Nat :=
  l.sizeof_Resource + l.sizeof_InternalImage + l.sizeof_QXLDataChunk

/-- The fields of `struct QuicData` that the driver's callbacks use. -/
structure QuicData where
  chunk : Nat
  chunk_io_words : Int
  prev_chunks_io_words : Int
  rows : Int
  raw_row_size : Int
  deriving DecidableEq, Repr

/-- A call of `AllocMem` whose `mspace_malloc` succeeds: the block is
`env.alloc k` for the `k`-th such call, and the closing assertion
`ptr >= mspace_start && ptr < mspace_end` is checked. -/
def AllocMem.done (env : Env) (s : PDev) : Option (Nat × PDev) :=
  if s.heap.mspace ≠ 0 ∧ s.heap.mspace_start ≤ env.alloc s.nalloc ∧
      env.alloc s.nalloc < s.heap.mspace_end then
    some (env.alloc s.nalloc, { s with nalloc := s.nalloc + 1 })
  else none

/-- The value that `quic_usr_more_space` computes for its local `alloc_size`:
`more = (rows_completed - rows) * raw_row_size`, then
`MIN(MAX(more >> 4, QUIC_BUF_MIN), QUIC_BUF_MAX)`. -/
def quic_usr_more_space.alloc_size (q : QuicData) (rows_completed : Int) : Int :=
  min (max (((rows_completed - q.rows) * q.raw_row_size) >>> 4) (QUIC_BUF_MIN : Int))
    (QUIC_BUF_MAX : Int)

/-- `quic_usr_more_space(usr, io_ptr, rows_completed)`; `int` arithmetic is
taken without overflow. -/
def quic_usr_more_space (env : Env) (s : PDev) (q : QuicData) (rows_completed : Int) :
    Option (PDev × QuicData) :=
  if q.rows < rows_completed then none
  else
    let alloc_size : Int := quic_usr_more_space.alloc_size q rows_completed
    match AllocMem.done env s with
    | none => none
    | some (new_chank, s1) =>
      let c1 : ChunkMem := fun a =>
        if a = new_chank then
          { s1.chunks a with data_size := 0, prev_chunk := PA env.main_slot q.chunk,
                             next_chunk := 0 }
        else s1.chunks a
      let c2 : ChunkMem := fun a =>
        if a = q.chunk then
          { c1 a with data_size := toU32 (q.chunk_io_words * 4),
                      next_chunk := PA env.main_slot new_chank }
        else c1 a
      some ({ s1 with chunks := c2 },
        { q with prev_chunks_io_words := q.prev_chunks_io_words + q.chunk_io_words,
                 chunk := new_chank,
                 chunk_io_words := alloc_size >>> 2 })

/-- `GetQuicImageType(format)`. -/
def GetQuicImageType (k : Consts) (format : Nat) : Nat :=
  if format = k.BITMAP_FMT_32BIT then k.QUIC_IMAGE_TYPE_RGB32
  else if format = k.BITMAP_FMT_16BIT then k.QUIC_IMAGE_TYPE_RGB16
  else if format = k.BITMAP_FMT_RGBA then k.QUIC_IMAGE_TYPE_RGBA
  else if format = k.BITMAP_FMT_24BIT then k.QUIC_IMAGE_TYPE_RGB24
  else k.QUIC_IMAGE_TYPE_INVALID

/-- `SetImageId(internal, cache_me, width, height, format, key)`. -/
def SetImageId (env : Env) (internal : InternalImage) (cache_me : Bool) (width height : Int)
    (format key : Nat) : InternalImage :=
  let image_info := IMAGE_HASH_INIT_VAL width height format
  if cache_me then
    { internal with
      id := env.QXL_SET_IMAGE_ID
        (((env.consts.QXL_IMAGE_GROUP_DRIVER <<< 30) % UINT32_MOD) ||| image_info) key
      flags := env.consts.QXL_IMAGE_CACHE }
  else
    { internal with
      id := env.QXL_SET_IMAGE_ID
        (((env.consts.QXL_IMAGE_GROUP_DRIVER_DONT_CACHE <<< 30) % UINT32_MOD) ||| image_info) key
      flags := 0 }

/-- The `more_space` callbacks that one run of `quic_encode` makes, in order. -/
def GetQuicImage.more_space (env : Env) : List Int → PDev → QuicData → Option (PDev × QuicData)
  | [], s, q => some (s, q)
  | rows_completed :: rest, s, q =>
    match quic_usr_more_space env s q rows_completed with
    | none => none
    | some (s1, q1) => GetQuicImage.more_space env rest s1 q1

/-- The size `alloc_size` that `GetQuicImage` asks `AllocMem` for. -/
def GetQuicImage.alloc_size (env : Env) (height : Int) (line_size : Nat) : Nat :=
  max (min (QUIC_ALLOC_BASE env.layout + ((toU32 height * line_size) % UINT32_MOD) >>> 4)
           (QUIC_ALLOC_BASE env.layout + QUIC_BUF_MAX))
      (QUIC_ALLOC_BASE env.layout + QUIC_BUF_MIN)

/-- The fields of `*pdev->quic_data` as `GetQuicImage` sets them before it calls
`quic_encode`, for the block `image_res`: the current chunk is the one embedded
in the image, `chunk_io_words` counts the words from its payload to the end
of the block. -/
def GetQuicImage.quic_data (env : Env) (image_res : Nat) (height : Int) (line_size : Nat) :
    QuicData :=
  { chunk := image_res + env.layout.sizeof_Resource + env.layout.off_quic_data
    prev_chunks_io_words := 0
    chunk_io_words :=
      (((image_res + GetQuicImage.alloc_size env height line_size : Nat) : Int) -
        ((image_res + env.layout.sizeof_Resource + env.layout.off_quic_data +
          env.layout.sizeof_QXLDataChunk : Nat) : Int)) >>> 2
    rows := height
    raw_row_size := line_size }

/-- `GetQuicImage(pdev, surf, color_trans, cache_me, width, height, format,
src, line_size, key)`: the resource returned (0 for `NULL`) and the new state.
`pdev->quic_data` is taken as present; the payload of a chunk starts
`sizeof(QXLDataChunk)` after the chunk. The fields of the new block that the
function does not write keep what the block held before. -/
def GetQuicImage (env : Env) (fuel : Nat) (s : PDev) (surf : SURFOBJ) (cache_me : Bool)
    (width height : Int) (format : Nat) (src : Int) (line_size key : Nat) :
    Option (Nat × PDev) :=
  if env.compression_level = 0 then some (0, s)
  else if GetQuicImageType env.consts format = env.consts.QUIC_IMAGE_TYPE_INVALID then
    some (0, s)
  else
    match AllocMem.done env s with
    | none => none
    | some (image_res, s1) =>
      let internal := image_res + env.layout.sizeof_Resource
      let chunk := internal + env.layout.off_quic_data
      let s2 : PDev :=
        { s1 with
          heap := { s1.heap with
            mem := fun a =>
              if a = image_res then { refs := 1, free := FreeFn.FreeQuicImage }
              else s1.heap.mem a }
          images := fun a =>
            if a = internal then
              { SetImageId env (s1.images a) cache_me width height format key with
                type := env.consts.IMAGE_TYPE_QUIC
                width := toU32 width
                height := toU32 height }
            else s1.images a
          chunks := fun a =>
            if a = chunk then
              { s1.chunks a with data_size := 0, prev_chunk := 0, next_chunk := 0 }
            else s1.chunks a }
      let q : QuicData := GetQuicImage.quic_data env image_res height line_size
      if q.chunk_io_words ≤ 0 then none
      else
        match GetQuicImage.more_space env
            (env.quic_encode (GetQuicImageType env.consts format) width height src surf.lDelta
              q.chunk_io_words.toNat).more_space s2 q with
        | none => none
        | some (s3, q1) =>
          match (env.quic_encode (GetQuicImageType env.consts format) width height src
              surf.lDelta q.chunk_io_words.toNat).result with
          | none =>
            -- if (data_size == QUIC_ERROR) { FreeQuicImage(pdev, image_res); return NULL; }
            match FreeQuicImage env fuel s3 image_res with
            | none => none
            | some s4 => some (0, s4)
          | some data_size =>
            some (image_res,
              { s3 with
                chunks := fun a =>
                  if a = q1.chunk then
                    { s3.chunks a with
                      data_size := toU32 (((data_size : Int) - q1.prev_chunks_io_words) * 4) }
                  else s3.chunks a
                images := fun a =>
                  if a = internal then
                    { s3.images a with quic_data_size := toU32 ((data_size : Int) * 4) }
                  else s3.images a })

/-- An environment for examples with compression on and a codec that asks for
more space once and then reports an error. -/
def quicErrorEnv : Env :=
  { exampleEnv with
    compression_level := 1
    quic_encode := fun _ _ _ _ _ _ => { more_space := [0], result := none } }

/-- A driver state for examples in which the memory that the next
allocation returns still holds the payload of an earlier image: the `cache`
field there is the address of slot 5, which is bound to the live image at 4120. -/
def staleBlockPDev : PDev :=
  { examplePDev with
    images := fun a =>
      if a = 8208 then { examplePDev.images a with cache := 5 } else examplePDev.images a }

/-- A surface for examples: a 2 x 2 bitmap of 32 bits per pixel at address 0. -/
def exampleSurf : SURFOBJ :=
  { iType := 0, cx := 2, cy := 2, iBitmapFormat := 6, iUniq := 1, fjBitmap := 0, hsurf := 64,
    pvScan0 := 0, lDelta := 8 }

/-! ## Strings (`res.c` lines 1730-1967) -/

/-- Modelled from the spec: the macro `ALIGN(a, b)` of the driver's headers,
whose source is not available; `a` rounded up to a multiple of `b`. -/
def ALIGN (a b : Nat) : Nat := (a + (b - 1)) / b * b

/-- The value of a 32-bit pattern read as `INT32`. -/
def toI32 (z : Int) : Int := (z + 2147483648) % 4294967296 - 2147483648

/-- The fields of a GDI `GLYPHPOS` that `res.c` reads: `ptl`, and from
`pgdf->pgb` the members `ptlOrigin`, `sizlBitmap` and the address of `aj`. -/
structure GLYPHPOS where
  ptl : Int × Int
  ptlOrigin : Int × Int
  sizlBitmap : Int × Int
  aj : Int
  deriving DecidableEq, Repr

/-- The field of a GDI `FONTOBJ` that `res.c` reads. -/
structure FONTOBJ where
  flFontType : Nat
  deriving DecidableEq, Repr

/-- The fields of a GDI `STROBJ` that `res.c` reads, `pgp` being the glyph
array when it is not `NULL`, and the enumerator: `bEnum k` is the return value
of the `k`-th call of `STROBJ_bEnum` and the batch it delivers. -/
structure STROBJ where
  cGlyphs : Nat
  flAccel : Nat
  ulCharInc : Nat
  pgp : Option (List GLYPHPOS)
  bEnum : Nat → Nat × List GLYPHPOS

/-- The cursor of the string encoder: the chunk cursor, `str->data_size`, and
the render position that `*str_pos` points to (`none` while it is `NULL`). -/
structure StrEnc where
  enc : Encoder
  data_size : Nat
  str_pos : Option (Int × Int)

/-- The bytes of a `RasterGlyph` record: `render_pos`, `glyph_origin` (two
`INT32` each), `width`, `height` (`UINT16`), least significant byte first. -/
def rasterGlyphBytes (render_pos glyph_origin : Int × Int) (width height : Nat) : List Nat :=
  bytesLE 4 (toU32 render_pos.1) ++ bytesLE 4 (toU32 render_pos.2) ++
  bytesLE 4 (toU32 glyph_origin.1) ++ bytesLE 4 (toU32 glyph_origin.2) ++
  bytesLE 2 width ++ bytesLE 2 height

/-- The statement `if (end - now < size) NEW_DATA_CHUNK(page_counter, alloc);`
(an unsigned comparison). -/
def ensureRoom (env : Env) (st : Encoder) (size alloc : Nat) : Encoder :=
  if st.now ≤ st.end_ ∧ st.end_ - st.now < size then
    NEW_DATA_CHUNK env.main_slot env.alloc st alloc
  else st

/-- The body of the innermost loop of `add_rast_glyphs` for the byte `b`. -/
def add_rast_glyphs.byte (env : Env) (st : StrEnc) (b : Nat) : StrEnc :=
  { st with
    enc := copyToChunk (ensureRoom env st.enc 1 env.consts.PAGE_SIZE) [b] 1
    data_size := (1 + st.data_size) % UINT32_MOD }

/-- The rows of a glyph bitmap in the order `add_rast_glyphs` reads them: from
`aj + stride * (height - 1)` down to `aj`, `stride` bytes each. -/
def glyphRows (bytes : Int → Nat) (aj : Int) (stride height : Nat) : List Nat :=
  (List.range height).reverse.flatMap
    (fun (line : Nat) => readBytes bytes (aj + ((stride * line : Nat) : Int)) stride)

/-- The body of the loop of `add_rast_glyphs` for one glyph. -/
def add_rast_glyphs.glyph (env : Env) (bpp : Nat) (delta : Option (Int × Int)) (st : StrEnc)
    (g : GLYPHPOS) : StrEnc :=
  let render_pos : Int × Int :=
    match delta, st.str_pos with
    | some d, some p => (toI32 (p.1 + d.1), toI32 (p.2 + d.2))
    | _, _ => g.ptl
  let width := toU32 g.sizlBitmap.1 % 65536
  let height := toU32 g.sizlBitmap.2 % 65536
  let st1 : StrEnc :=
    { enc := copyToChunk
        (ensureRoom env st.enc env.layout.sizeof_RasterGlyph env.consts.PAGE_SIZE)
        (rasterGlyphBytes render_pos g.ptlOrigin width height) env.layout.sizeof_RasterGlyph
      data_size := (env.layout.sizeof_RasterGlyph + st.data_size) % UINT32_MOD
      str_pos := if delta.isSome then some render_pos else st.str_pos }
  if height = 0 then st1
  else
    (glyphRows env.bytes g.aj ((ALIGN (width * bpp) 8 % UINT32_MOD) >>> 3) height).foldl
      (add_rast_glyphs.byte env) st1

/-- `add_rast_glyphs(pdev, str, count, glyps, chunk, now, end, bpp, delta, str_pos)`. -/
def add_rast_glyphs (env : Env) (bpp : Nat) (delta : Option (Int × Int)) (st : StrEnc)
    (glyps : List GLYPHPOS) : StrEnc :=
  glyps.foldl (add_rast_glyphs.glyph env bpp delta) st

/-- `add_glyphs(pdev, str, count, glyps, chunk, now, end, delta, str_pos)` for a
string with the given `flags`: the return value and the new cursor. -/
def add_glyphs (env : Env) (flags : Nat) (delta : Option (Int × Int)) (st : StrEnc)
    (glyps : List GLYPHPOS) : Bool × StrEnc :=
  if flags &&& env.consts.STRING_RASTER_A1 ≠ 0 then (true, add_rast_glyphs env 1 delta st glyps)
  else if flags &&& env.consts.STRING_RASTER_A4 ≠ 0 then
    (true, add_rast_glyphs env 4 delta st glyps)
  else (false, st)

/-- The `do { ... } while (more);` loop of `QXLGetStr`, with at most `fuel`
iterations, `k` calls of `STROBJ_bEnum` made so far: `true` when the loop
ends normally, `false` on `goto error`. -/
def QXLGetStr.loop (env : Env) (str : STROBJ) (flags : Nat) (delta : Option (Int × Int)) :
    Nat → Nat → StrEnc → Option (Bool × StrEnc)
  | 0, _, _ => none
  | fuel + 1, k, st =>
    match str.pgp with
    | some pgp => some (add_glyphs env flags delta st (pgp.take str.cGlyphs))
    | none =>
      if (str.bEnum k).1 = env.consts.DDI_ERROR then some (false, st)
      else if (add_glyphs env flags delta st (str.bEnum k).2).1 = false then
        some (false, (add_glyphs env flags delta st (str.bEnum k).2).2)
      else if (str.bEnum k).1 ≠ 0 then
        QXLGetStr.loop env str flags delta fuel (k + 1)
          (add_glyphs env flags delta st (str.bEnum k).2).2
      else some (true, (add_glyphs env flags delta st (str.bEnum k).2).2)

/-- The macro `TEXT_ALLOC_SIZE`. -/
def TEXT_ALLOC_SIZE (l : Layout) : Nat := l.sizeof_Resource + l.sizeof_QXLString + 512

/-- The value `delta_ptr` of `QXLGetStr`: `none` for `NULL`. -/
def QXLGetStr.delta (k : Consts) (str : STROBJ) : Option (Int × Int) :=
  if str.ulCharInc ≠ 0 then
    if str.flAccel &&& k.SO_VERTICAL ≠ 0 then
      some (0, if str.flAccel &&& k.SO_REVERSED ≠ 0 then toI32 (-(str.ulCharInc : Int))
               else toI32 str.ulCharInc)
    else
      some (if str.flAccel &&& k.SO_REVERSED ≠ 0 then toI32 (-(str.ulCharInc : Int))
            else toI32 str.ulCharInc, 0)
  else none

/-- The value of `qxl_str->flags` after the test of `font->flFontType`. -/
def QXLGetStr.flags (k : Consts) (font : FONTOBJ) : Nat :=
  if font.flFontType &&& k.FO_TYPE_RASTER ≠ 0 then
    if font.flFontType &&& k.FO_GRAY16 ≠ 0 then k.STRING_RASTER_A4 else k.STRING_RASTER_A1
  else 0

/-- The state of `QXLGetStr` when it enters its loop, for the block `str_res`
that `AllocMem` returned in state `s1`, and the encoder cursor there. -/
def QXLGetStr.init (env : Env) (s1 : PDev) (str_res : Nat) (font : FONTOBJ) (str : STROBJ) :
    PDev × StrEnc :=
  let qxl_str := str_res + env.layout.sizeof_Resource
  let chunk := qxl_str + env.layout.off_str_chunk
  let s2 : PDev :=
    { s1 with
      heap := { s1.heap with
        mem := fun a =>
          if a = str_res then { refs := 1, free := FreeFn.FreeSring } else s1.heap.mem a }
      strings := fun a =>
        if a = qxl_str then
          { data_size := 0, length := str.cGlyphs % 65536, flags := QXLGetStr.flags env.consts font }
        else s1.strings a
      chunks := fun a =>
        if a = chunk then { s1.chunks a with data_size := 0, prev_chunk := 0, next_chunk := 0 }
        else s1.chunks a }
  (s2,
   { enc :=
       { mem := s2.chunks
         chunk := chunk
         now := 0
         end_ := (str_res + TEXT_ALLOC_SIZE env.layout) - (chunk + env.layout.sizeof_QXLDataChunk)
         nalloc := s2.nalloc }
     data_size := 0
     str_pos := none })

/-- `QXLGetStr(pdev, drawable, str_phys, font, str)`: the return value, the
content of `*str_phys` afterwards (`str_phys` is its content before) and the
new state. -/
def QXLGetStr (env : Env) (fuel : Nat) (s : PDev) (drawable str_phys : Nat) (font : FONTOBJ)
    (str : STROBJ) : Option (Bool × Nat × PDev) :=
  match AllocMem.done env s with
  | none => none
  | some (str_res, s1) =>
    match QXLGetStr.loop env str (QXLGetStr.flags env.consts font)
        (QXLGetStr.delta env.consts str) fuel 0 (QXLGetStr.init env s1 str_res font str).2 with
    | none => none
    | some (ok, st) =>
      let s2 := (QXLGetStr.init env s1 str_res font str).1
      let qxl_str := str_res + env.layout.sizeof_Resource
      let s3 : PDev :=
        { s2 with
          chunks := st.enc.mem
          nalloc := st.enc.nalloc
          strings := fun a =>
            if a = qxl_str then { s2.strings a with data_size := st.data_size }
            else s2.strings a }
      if ok then
        match DrawableAddRes s3.heap s3.outputs drawable str_res with
        | none => none
        | some (h, outs) =>
          some (true, PA env.main_slot qxl_str,
            { s3 with heap := RELEASE_RES h str_res, outputs := outs })
      else
        -- error: FreeSring(pdev, str_res); return FALSE;
        match FreeSring env fuel s3.chunks s3.heap str_res with
        | none => none
        | some h => some (false, str_phys, { s3 with heap := h })

/-- The chain condition of an encoder that started on the embedded chunk
`first` when `k0` allocations had been made: it has allocated the blocks
`allocated env.alloc k0 m` for some `m`, stands on the last of them (on
`first` when `m = 0`), and these blocks are exactly the continuation chunks
reached from `first`. -/
def EncChain (env : Env) (first k0 : Nat) (st : Encoder) : Prop :=
  ∃ m, st.nalloc = k0 + m ∧
    st.chunk = (allocated env.alloc k0 m).getLastD first ∧
    VChain env st.mem (st.mem first).next_chunk (allocated env.alloc k0 m)

/-- The blocks returned by the allocations number `k0` up to `K - 1` are
distinct, lie inside the arena of `h`, are not at the address `first`, and each
has a non-zero physical address that `VA` maps back to the block. -/
def AllocOk (env : Env) (h : ResHeap) (first k0 K : Nat) : Prop :=
  (∀ i, i < K → ∀ j, j < K → k0 ≤ i → k0 ≤ j → env.alloc i = env.alloc j → i = j) ∧
  (∀ k, k < K → k0 ≤ k →
    env.alloc k ≠ first ∧
    (h.mspace_start ≤ env.alloc k ∧ env.alloc k < h.mspace_end) ∧
    PA env.main_slot (env.alloc k) ≠ 0 ∧
    VA env.bits env.main_slot env.main_generation env.main_mem_slot
      (PA env.main_slot (env.alloc k)) = some (env.alloc k))

instance (env : Env) (h : ResHeap) (first k0 K : Nat) : Decidable (AllocOk env h first k0 K) := by
  unfold AllocOk
  apply instDecidableAnd

/-- The number of bytes `add_rast_glyphs` stores for one glyph, counted in
steps that may each allocate a chunk: one for the record and one for each
byte of the rows. -/
def glyphWork (env : Env) (bpp : Nat) (g : GLYPHPOS) : Nat :=
  1 + (if toU32 g.sizlBitmap.2 % 65536 = 0 then 0
       else (glyphRows env.bytes g.aj
          ((ALIGN (toU32 g.sizlBitmap.1 % 65536 * bpp) 8 % UINT32_MOD) >>> 3)
          (toU32 g.sizlBitmap.2 % 65536)).length)

/-- The steps of one `add_glyphs` call. -/
def add_glyphs.work (env : Env) (flags : Nat) (glyps : List GLYPHPOS) : Nat :=
  if flags &&& env.consts.STRING_RASTER_A1 ≠ 0 then (glyps.map (glyphWork env 1)).sum
  else if flags &&& env.consts.STRING_RASTER_A4 ≠ 0 then (glyps.map (glyphWork env 4)).sum
  else 0

/-- The steps of the first `n` batches of the enumerator of `str`. -/
def QXLGetStr.work (env : Env) (font : FONTOBJ) (str : STROBJ) (n : Nat) : Nat :=
  ((List.range n).map
    (fun k => add_glyphs.work env (QXLGetStr.flags env.consts font) (str.bEnum k).2)).sum

/-- A raster font for examples (`FO_TYPE_RASTER` set, `FO_GRAY16` clear). -/
def rasterFont : FONTOBJ := { flFontType := 1 }

/-- A vector font for examples (`FO_TYPE_RASTER` clear). -/
def vectorFont : FONTOBJ := { flFontType := 0 }

/-- A string for examples whose enumerator delivers one batch of 26 glyphs
without bitmap rows (height 0) and then reports `DDI_ERROR`. -/
def errStr : STROBJ :=
  { cGlyphs := 26
    flAccel := 0
    ulCharInc := 0
    pgp := none
    bEnum := fun k =>
      if k = 0 then
        (1, List.replicate 26
          { ptl := (3, 4), ptlOrigin := (0, 0), sizlBitmap := (8, 0), aj := 0 })
      else (4294967295, []) }

/-! ## Paths and clips (`res.c` lines 353-384, 435-686) -/

/-- The constant `PATH_PREALLOC_PONTS`. -/
abbrev PATH_PREALLOC_PONTS : Nat := 20

/-- The constant `PATH_MAX_ALLOC_PONTS`. -/
abbrev PATH_MAX_ALLOC_PONTS : Nat := 128

/-- The macro `PATH_ALLOC_SIZE`. -/
def PATH_ALLOC_SIZE (l : Layout) : Nat :=
  l.sizeof_Resource + l.sizeof_QXLPath + l.sizeof_PathSeg + l.sizeof_POINTFIX * PATH_PREALLOC_PONTS

/-- The constant `RECTS_NUM_PREALLOC`. -/
abbrev RECTS_NUM_PREALLOC : Nat := 8

/-- The constant `RECTS_NUM_ALLOC`. -/
abbrev RECTS_NUM_ALLOC : Nat := 20

/-- The macro `RECTS_ALLOC_SIZE`. -/
def RECTS_ALLOC_SIZE (l : Layout) : Nat :=
  l.sizeof_Resource + l.sizeof_QXLClipRects + l.sizeof_Rect * RECTS_NUM_PREALLOC

/-- The fields of a GDI `PATHDATA`: `flags`, `count` and the address `pptfx`. -/
structure PATHDATA where
  flags : Nat
  count : Nat
  pptfx : Int
  deriving DecidableEq, Repr

/-- A GDI `PATHOBJ` as seen through its enumerator: `bEnum k` is the return
value of the `k`-th call of `PATHOBJ_bEnum` and the data it delivers. -/
structure PATHOBJ where
  bEnum : Nat → Nat × PATHDATA

/-- The fields of a GDI `CLIPOBJ` that `res.c` reads, the result of
`CLIPOBJ_ppoGetPath` (`none` for `NULL`), and the rectangle enumerator:
`bEnum k` is the return value of the `k`-th call of `CLIPOBJ_bEnum` and the
rectangles `buf.rects[0 .. buf.count)` it delivers. -/
structure CLIPOBJ where
  iDComplexity : Nat
  iMode : Nat
  rclBounds : Rect
  ppoGetPath : Option PATHOBJ
  bEnum : Nat → Nat × List Rect

/-- Modelled from the spec: `CopyRect(dest, src)` of the driver's headers,
whose source is not available, stores the four coordinates of `src` in a
device `Rect` (`top`, `left`, `bottom`, `right`, 4 bytes each, least
significant byte first). -/
def rectBytes (r : Rect) : List Nat :=
  bytesLE 4 (toU32 r.top) ++ bytesLE 4 (toU32 r.left) ++ bytesLE 4 (toU32 r.bottom) ++
    bytesLE 4 (toU32 r.right)

/-- The inner loop `do { ... } while (pt_buf_size);` of `__GetPathCommon`, with
at most `fuel` iterations: the cursor and `*data_size` afterwards. -/
def GetPathCommon.points (env : Env) :
    Nat → Encoder → Nat → Int → Nat → Option (Encoder × Nat)
  | 0, _, _, _, _ => none
  | fuel + 1, st, data_size, pt_buf, pt_buf_size =>
    let st1 :=
      if st.end_ = st.now then
        NEW_DATA_CHUNK env.main_slot env.alloc st
          (min pt_buf_size (env.layout.sizeof_POINTFIX * PATH_MAX_ALLOC_PONTS))
      else st
    if st1.end_ < st1.now then none
    else
      let cp_size := min (st1.end_ - st1.now) pt_buf_size
      let st2 := copyToChunk st1 (readBytes env.bytes pt_buf cp_size) cp_size
      if pt_buf_size - cp_size = 0 then some (st2, (cp_size + data_size) % UINT32_MOD)
      else
        GetPathCommon.points env fuel st2 ((cp_size + data_size) % UINT32_MOD)
          (pt_buf + (cp_size : Int)) (pt_buf_size - cp_size)

/-- The loop `do { ... } while (more);` of `__GetPathCommon`, with at most
`fuel` iterations, `k` calls of `PATHOBJ_bEnum` made so far. -/
def GetPathCommon.loop (env : Env) (path : PATHOBJ) :
    Nat → Nat → Encoder → Nat → Option (Encoder × Nat)
  | 0, _, _, _ => none
  | fuel + 1, k, st, data_size =>
    if (path.bEnum k).2.count = 0 then some (st, data_size)
    else
      let pt_buf_size := ((path.bEnum k).2.count <<< 3) % UINT32_MOD
      let st1 := ensureRoom env st env.layout.sizeof_PathSeg
        (min pt_buf_size (env.layout.sizeof_POINTFIX * PATH_MAX_ALLOC_PONTS) +
          env.layout.sizeof_PathSeg)
      let st2 := copyToChunk st1
        (bytesLE 4 (path.bEnum k).2.flags ++ bytesLE 4 (path.bEnum k).2.count)
        env.layout.sizeof_PathSeg
      match GetPathCommon.points env (pt_buf_size + 1) st2
          ((env.layout.sizeof_PathSeg + data_size) % UINT32_MOD) (path.bEnum k).2.pptfx
          pt_buf_size with
      | none => none
      | some (st3, data_size3) =>
        if (path.bEnum k).1 ≠ 0 then GetPathCommon.loop env path fuel (k + 1) st3 data_size3
        else some (st3, data_size3)

/-- `__GetPath(pdev, path)`: the resource and the new state. The assertion on
the `QXL_PATH_*` constants compares constants of the headers and is taken
to hold. -/
def GetPath (env : Env) (fuel : Nat) (s : PDev) (path : PATHOBJ) : Option (Nat × PDev) :=
  match AllocMem.done env s with
  | none => none
  | some (res, s1) =>
    let qxl_path := res + env.layout.sizeof_Resource
    let chunk := qxl_path + env.layout.off_path_chunk
    let chunks1 : ChunkMem := fun a =>
      if a = chunk then { s1.chunks a with data_size := 0, prev_chunk := 0, next_chunk := 0 }
      else s1.chunks a
    match GetPathCommon.loop env path fuel 0
        { mem := chunks1
          chunk := chunk
          now := 0
          end_ := (res + PATH_ALLOC_SIZE env.layout) - (chunk + env.layout.sizeof_QXLDataChunk)
          nalloc := s1.nalloc } 0 with
    | none => none
    | some (st, data_size) =>
      some (res,
        { s1 with
          heap := { s1.heap with
            mem := fun a =>
              if a = res then { refs := 1, free := FreeFn.FreePath } else s1.heap.mem a }
          paths := fun a => if a = qxl_path then data_size else s1.paths a
          chunks := st.mem
          nalloc := st.nalloc })

/-- The body of the `for` loop of `GetClipRects` for one rectangle: a new
chunk when `dest == dest_end`, then `CopyRect(dest, now)` and
`chunk->data_size += sizeof(Rect)`. -/
def GetClipRects.rect (env : Env) (st : Encoder) (r : Rect) : Encoder :=
  copyToChunk
    (if st.now = st.end_ then
      NEW_DATA_CHUNK env.main_slot env.alloc st (env.layout.sizeof_Rect * RECTS_NUM_ALLOC)
    else st)
    (rectBytes r) env.layout.sizeof_Rect

/-- The loop `do { ... } while (more);` of `GetClipRects`, with at most `fuel`
iterations, `k` calls of `CLIPOBJ_bEnum` made so far: the cursor and
`rects->num_rects` afterwards. -/
def GetClipRects.loop (env : Env) (clip : CLIPOBJ) :
    Nat → Nat → Encoder → Nat → Option (Encoder × Nat)
  | 0, _, _, _ => none
  | fuel + 1, k, st, num_rects =>
    if (clip.bEnum k).1 ≠ 0 then
      GetClipRects.loop env clip fuel (k + 1)
        ((clip.bEnum k).2.foldl (GetClipRects.rect env) st)
        (((clip.bEnum k).2.length + num_rects) % UINT32_MOD)
    else
      some ((clip.bEnum k).2.foldl (GetClipRects.rect env) st,
        ((clip.bEnum k).2.length + num_rects) % UINT32_MOD)

/-- `GetClipRects(pdev, clip)`: the resource and the new state. -/
def GetClipRects (env : Env) (fuel : Nat) (s : PDev) (clip : CLIPOBJ) : Option (Nat × PDev) :=
  match AllocMem.done env s with
  | none => none
  | some (res, s1) =>
    let rects := res + env.layout.sizeof_Resource
    let chunk := rects + env.layout.off_rects_chunk
    let chunks1 : ChunkMem := fun a =>
      if a = chunk then { s1.chunks a with data_size := 0, prev_chunk := 0, next_chunk := 0 }
      else s1.chunks a
    match GetClipRects.loop env clip fuel 0
        { mem := chunks1
          chunk := chunk
          now := 0
          end_ := env.layout.sizeof_Rect *
            ((RECTS_ALLOC_SIZE env.layout - env.layout.sizeof_Resource -
              env.layout.sizeof_QXLClipRects) >>> 4)
          nalloc := s1.nalloc } 0 with
    | none => none
    | some (st, num_rects) =>
      some (res,
        { s1 with
          heap := { s1.heap with
            mem := fun a =>
              if a = res then { refs := 1, free := FreeFn.FreeClipRects } else s1.heap.mem a }
          cliprects := fun a => if a = rects then num_rects else s1.cliprects a
          chunks := st.mem
          nalloc := st.nalloc })

/-- The statements of `SetClip` for a clip of complexity `DC_RECT`: the
resource and the new state. -/
def SetClip.rect (env : Env) (s : PDev) (clip : CLIPOBJ) : Option (Nat × PDev) :=
  match AllocMem.done env s with
  | none => none
  | some (rects_res, s1) =>
    let rects := rects_res + env.layout.sizeof_Resource
    let chunk := rects + env.layout.off_rects_chunk
    some (rects_res,
      { s1 with
        heap := { s1.heap with
          mem := fun a =>
            if a = rects_res then { refs := 1, free := FreeFn.FreeClipRects }
            else s1.heap.mem a }
        cliprects := fun a => if a = rects then 1 else s1.cliprects a
        chunks := fun a =>
          if a = chunk then
            { data_size := env.layout.sizeof_Rect
              prev_chunk := 0
              next_chunk := 0
              data := fun i =>
                if i < env.layout.sizeof_Rect then (rectBytes clip.rclBounds).getD i 0
                else (s1.chunks a).data i }
          else s1.chunks a })

/-- The closing statements shared by the branches of `SetClip`:
`DrawableAddRes`, `RELEASE_RES`, and the stores to `drawable->clip`. -/
def SetClip.attach (env : Env) (s : PDev) (drawable res clip_type : Nat) : Option (Bool × PDev) :=
  match DrawableAddRes s.heap s.outputs drawable res with
  | none => none
  | some (h, outs) =>
    some (true,
      { s with
        heap := RELEASE_RES h res
        outputs := outs
        drawables := fun a =>
          if a = drawable then
            { s.drawables a with
              clip_type := clip_type
              clip_data := PA env.main_slot (res + env.layout.sizeof_Resource) }
          else s.drawables a })

/-- `SetClip(pdev, clip, drawable)`, `clip = none` standing for `NULL`: the
return value and the new state. -/
def SetClip (env : Env) (fuel : Nat) (s : PDev) (clip : Option CLIPOBJ) (drawable : Nat) :
    Option (Bool × PDev) :=
  match clip with
  | none =>
    some (true,
      { s with
        drawables := fun a =>
          if a = drawable then { s.drawables a with clip_type := env.consts.CLIP_TYPE_NONE }
          else s.drawables a })
  | some clip =>
    if clip.iDComplexity = env.consts.DC_RECT then
      match SetClip.rect env s clip with
      | none => none
      | some (rects_res, s1) => SetClip.attach env s1 drawable rects_res env.consts.CLIP_TYPE_RECTS
    else if clip.iDComplexity ≠ env.consts.DC_COMPLEX then none
    else if clip.iMode = env.consts.TC_PATHOBJ then
      match clip.ppoGetPath with
      | none => some (false, s)
      | some path =>
        match GetPath env fuel s path with
        | none => none
        | some (path_res, s1) =>
          SetClip.attach env s1 drawable path_res env.consts.CLIP_TYPE_PATH
    else if clip.iMode ≠ env.consts.TC_RECTANGLES then none
    else
      match GetClipRects env fuel s clip with
      | none => none
      | some (rects_res, s1) => SetClip.attach env s1 drawable rects_res env.consts.CLIP_TYPE_RECTS

/-- The statements of `Drawable` between `GetDrawable` and `SetClip`, for the
envelope `output` allocated in state `s1`. -/
def Drawable.init (env : Env) (s1 : PDev) (output type : Nat) (area : Rect) : PDev :=
  { s1 with
    outputs := (GetDrawable s1.outputs output).1
    drawables := fun a =>
      if a = (GetDrawable s1.outputs output).2 then
        { s1.drawables a with
          type := type % 256
          effect := env.consts.QXL_EFFECT_BLEND
          bitmap_offset := 0
          mm_time := env.mm_clock
          bbox := area }
      else s1.drawables a }

/-- The end of `Drawable` for the result of `SetClip`: on `FALSE`,
`ReleaseOutput(pdev, drawable->release_info.id)` and `NULL`. -/
def Drawable.finish (output drawable : Nat) : Option (Bool × PDev) → Option (Nat × PDev)
  | none => none
  | some (true, s3) => some (drawable, s3)
  | some (false, s3) =>
    match ReleaseOutput s3.heap s3.outputs (readU64 (s3.outputs output).data) with
    | none => none
    | some (_, h) => some (0, { s3 with heap := h })

/-- `Drawable(pdev, type, area, clip)`: the drawable returned (0 for `NULL`)
and the new state. -/
def Drawable (env : Env) (fuel : Nat) (s : PDev) (type : Nat) (area : Rect)
    (clip : Option CLIPOBJ) : Option (Nat × PDev) :=
  match AllocMem.done env s with
  | none => none
  | some (output, s1) =>
    Drawable.finish output (GetDrawable s1.outputs output).2
      (SetClip env fuel (Drawable.init env s1 output type area) clip
        (GetDrawable s1.outputs output).2)

/-- A complex clip in path mode whose path cannot be obtained, for examples. -/
def pathlessClip : CLIPOBJ :=
  { iDComplexity := 3
    iMode := 2
    rclBounds := { left := 1, top := 2, right := 30, bottom := 40 }
    ppoGetPath := none
    bEnum := fun _ => (0, []) }

/-- A clip that is a single rectangle, for examples. -/
def rectClip : CLIPOBJ :=
  { iDComplexity := 1
    iMode := 0
    rclBounds := { left := 1, top := 2, right := 30, bottom := 40 }
    ppoGetPath := none
    bEnum := fun _ => (0, []) }

/-- The result of a palette lookup that finds the palette `p`: its ring item
is moved to the head of `palette_lru` and its `refs` is incremented. -/
def palHit (pc : PaletteCache) (p : Nat) : PaletteCache :=
  { pc with
    palette_lru := RingAdd (RingRemove pc.palette_lru p) p
    palettes := fun a =>
      if a = p then { pc.palettes p with refs := (1 + (pc.palettes p).refs) % UINT32_MOD }
      else pc.palettes a }

/-- The location reached by `internal = &(*internal)->next` after walking
over the entries `pre`, starting from the location `internal`. -/
def lastLink : PaletteLink → List Nat → PaletteLink
  | internal, [] => internal
  | _, a :: rest => lastLink (PaletteLink.next a) rest

/-- The cache after the statements of `PaletteCacheRemove` that unlink
`palette` through the location `internal` and take it off the ring. -/
def palUnlink (pc : PaletteCache) (internal : PaletteLink) (palette : Nat) : PaletteCache :=
  { pc.writeLink internal (pc.palettes palette).next with
    palette_lru := RingRemove (pc.writeLink internal (pc.palettes palette).next).palette_lru
      palette }

/-- The cache that `PaletteCacheRemove` leaves when it finds `palette` behind
the location `internal`: unlinked, off the ring, one reference less, and
`num_palettes` decremented. -/
def palRemoved (pc : PaletteCache) (internal : PaletteLink) (palette : Nat) : PaletteCache :=
  { (palUnlink pc internal palette).setPalette palette
      { (palUnlink pc internal palette).palettes palette with
        refs := (UINT32_MOD - 1 + ((palUnlink pc internal palette).palettes palette).refs)
          % UINT32_MOD } with
    num_palettes := (UINT32_MOD - 1 + (palUnlink pc internal palette).num_palettes)
      % UINT32_MOD }

/-- The statements of `PaletteCacheAdd` after the eviction: `palette` is put
at the head of its bucket and of the ring, gets one more reference, and
`num_palettes` is incremented. -/
def palInsert (NASKE : Nat) (pc : PaletteCache) (palette : Nat) : PaletteCache :=
  { palettes := fun a =>
      if a = palette then
        { pc.palettes palette with
          next := pc.palette_cache (PALETTE_HASH_VAL NASKE (pc.palettes palette).unique)
          refs := (1 + (pc.palettes palette).refs) % UINT32_MOD }
      else pc.palettes a
    palette_cache := fun b =>
      if b = PALETTE_HASH_VAL NASKE (pc.palettes palette).unique then palette
      else pc.palette_cache b
    palette_lru := RingAdd pc.palette_lru palette
    num_palettes := (1 + pc.num_palettes) % UINT32_MOD }

/-- A palette cache for examples: empty, with three palettes in memory at
8192, 8448 and 8704 whose `unique`s are 11, 12 and 13 and which carry one
reference each (that of the image being built). -/
def examplePalCache : PaletteCache :=
  { palettes := fun a =>
      if a = 8192 then { refs := 1, next := 0, unique := 11, num_ents := 0, ents := [] }
      else if a = 8448 then { refs := 1, next := 0, unique := 12, num_ents := 0, ents := [] }
      else if a = 8704 then { refs := 1, next := 0, unique := 13, num_ents := 0, ents := [] }
      else { refs := 0, next := 0, unique := 0, num_ents := 0, ents := [] }
    palette_cache := fun _ => 0
    palette_lru := []
    num_palettes := 0 }

/-! ## Cursor cache (`res.c` lines 1998-2083) -/

/-- The fields of `InternalCursor` that the cursor cache uses: `next`,
`hsurf` and `unique` (the ring item `lru_link` is kept in the ring). -/
structure InternalCursor where
  next : Nat
  hsurf : Nat
  unique : Nat
  deriving DecidableEq, Repr

/-- The cursor cache of a `PDev`: the cursors in memory (by address), the hash
buckets `cursor_cache`, the ring `cursors_lru` and `num_cursors`. -/
structure CursorCache where
  cursors : Nat → InternalCursor
  cursor_cache : Nat → Nat
  cursors_lru : Ring
  num_cursors : Nat

/-- The macro `CURSOR_HASH_VAL(hsurf)`, for the constant `CURSOR_HASH_NASKE`. -/
def CURSOR_HASH_VAL (CURSOR_HASH_NASKE : Nat) (hsurf : Nat) : Nat :=
  HSURF_HASH_VAL hsurf &&& CURSOR_HASH_NASKE

/-- A location holding an `InternalCursor *`: a hash bucket or a `next` field. -/
inductive CursorLink where
  | bucket (b : Nat)
  | next (p : Nat)
  deriving DecidableEq, Repr

/-- Read `*internal`. -/
def CursorCache.readLink (cc : CursorCache) : CursorLink → Nat
  | .bucket b => cc.cursor_cache b
  | .next p => (cc.cursors p).next

/-- Store `*internal = v`. -/
def CursorCache.writeLink (cc : CursorCache) : CursorLink → Nat → CursorCache
  | .bucket b, v =>
    { cc with cursor_cache := fun i => if i = b then v else cc.cursor_cache i }
  | .next p, v =>
    { cc with cursors := fun a => if a = p then { cc.cursors p with next := v } else cc.cursors a }

/-- The statements of `CursorCacheRemove` once the cursor is found behind the
location `internal`: `*internal = cursor->next; RingRemove(...); RELEASE_RES(pdev,
(Resource *)((UINT8 *)cursor - sizeof(Resource))); pdev->num_cursors--;`. -/
def curRemoved (sizeof_Resource : Nat) (h : ResHeap) (cc : CursorCache) (internal : CursorLink)
    (cursor : Nat) : ResHeap × CursorCache :=
  (RELEASE_RES h (cursor - sizeof_Resource),
   { cc.writeLink internal (cc.cursors cursor).next with
     cursors_lru := RingRemove (cc.writeLink internal (cc.cursors cursor).next).cursors_lru cursor
     num_cursors :=
       (UINT32_MOD - 1 + (cc.writeLink internal (cc.cursors cursor).next).num_cursors)
         % UINT32_MOD })

/-- The loop `while (*internal) { ... }` of `CursorCacheRemove` followed by its
`ASSERT(pdev, FALSE)`, with at most `fuel` iterations. -/
def CursorCacheRemove.walk (sizeof_Resource : Nat) (cursor : Nat) :
    Nat → ResHeap → CursorCache → CursorLink → Option (ResHeap × CursorCache)
  | 0, _, _, _ => none
  | fuel + 1, h, cc, internal =>
    if cc.readLink internal = 0 then none
    else if (cc.cursors (cc.readLink internal)).hsurf = (cc.cursors cursor).hsurf ∧
        cc.readLink internal = cursor then
      some (curRemoved sizeof_Resource h cc internal cursor)
    else
      CursorCacheRemove.walk sizeof_Resource cursor fuel h cc
        (CursorLink.next (cc.readLink internal))

/-- `CursorCacheRemove(pdev, cursor)`. -/
def CursorCacheRemove (NASKE sizeof_Resource : Nat) (fuel : Nat) (h : ResHeap) (cc : CursorCache)
    (cursor : Nat) : Option (ResHeap × CursorCache) :=
  if (cc.cursors cursor).unique = 0 then none
  else
    CursorCacheRemove.walk sizeof_Resource cursor fuel h cc
      (CursorLink.bucket (CURSOR_HASH_VAL NASKE (cc.cursors cursor).hsurf))

/-- The statements of `CursorCacheAdd` after the eviction: `cursor` is put at
the head of its bucket and of the ring, `GET_RES` on its resource, and
`num_cursors` is incremented. -/
def curInsert (NASKE sizeof_Resource : Nat) (h : ResHeap) (cc : CursorCache) (cursor : Nat) :
    ResHeap × CursorCache :=
  (GET_RES h (cursor - sizeof_Resource),
   { cursors := fun a =>
       if a = cursor then
         { cc.cursors cursor with
           next := cc.cursor_cache (CURSOR_HASH_VAL NASKE (cc.cursors cursor).hsurf) }
       else cc.cursors a
     cursor_cache := fun b =>
       if b = CURSOR_HASH_VAL NASKE (cc.cursors cursor).hsurf then cursor else cc.cursor_cache b
     cursors_lru := RingAdd cc.cursors_lru cursor
     num_cursors := (1 + cc.num_cursors) % UINT32_MOD })

/-- `CursorCacheAdd(pdev, cursor)`. -/
def CursorCacheAdd (NASKE SIZE sizeof_Resource : Nat) (fuel : Nat) (h : ResHeap)
    (cc : CursorCache) (cursor : Nat) : Option (ResHeap × CursorCache) :=
  if (cc.cursors cursor).unique = 0 then some (h, cc)
  else
    match (if cc.num_cursors = SIZE then
        if RingGetTail cc.cursors_lru = 0 then none
        else CursorCacheRemove NASKE sizeof_Resource fuel h cc (RingGetTail cc.cursors_lru)
      else some (h, cc)) with
    | none => none
    | some (h1, cc1) => some (curInsert NASKE sizeof_Resource h1 cc1 cursor)

/-- The result of a cursor lookup that finds the cursor `p`: its ring item is
moved to the head of `cursors_lru`. -/
def curHit (cc : CursorCache) (p : Nat) : CursorCache :=
  { cc with cursors_lru := RingAdd (RingRemove cc.cursors_lru p) p }

/-- The loop `while (*internal) { ... }` of `CursorCacheGet`, with at most
`fuel` iterations (`rfuel` for the call of `CursorCacheRemove`). Returns the
cursor found (0 for `NULL`) and the new state. -/
def CursorCacheGet.walk (NASKE sizeof_Resource rfuel : Nat) (hsurf unique : Nat) :
    Nat → ResHeap → CursorCache → CursorLink → Option (Nat × ResHeap × CursorCache)
  | 0, _, _, _ => none
  | fuel + 1, h, cc, internal =>
    if cc.readLink internal = 0 then some (0, h, cc)
    else if (cc.cursors (cc.readLink internal)).hsurf = hsurf then
      if (cc.cursors (cc.readLink internal)).unique = unique then
        some (cc.readLink internal, h, curHit cc (cc.readLink internal))
      else
        -- CursorCacheRemove(pdev, now); break;
        match CursorCacheRemove NASKE sizeof_Resource rfuel h cc (cc.readLink internal) with
        | none => none
        | some (h1, cc1) => some (0, h1, cc1)
    else
      CursorCacheGet.walk NASKE sizeof_Resource rfuel hsurf unique fuel h cc
        (CursorLink.next (cc.readLink internal))

/-- `CursorCacheGet(pdev, hsurf, unique)`. -/
def CursorCacheGet (NASKE sizeof_Resource : Nat) (fuel : Nat) (h : ResHeap) (cc : CursorCache)
    (hsurf unique : Nat) : Option (Nat × ResHeap × CursorCache) :=
  if unique = 0 then some (0, h, cc)
  else
    CursorCacheGet.walk NASKE sizeof_Resource fuel hsurf unique fuel h cc
      (CursorLink.bucket (CURSOR_HASH_VAL NASKE hsurf))

/-- The cursors `l` are exactly those reached from the pointer `p` by
following `next`, in order, up to the terminating `NULL`. -/
def CurChain (cursors : Nat → InternalCursor) : Nat → List Nat → Prop
  | p, [] => p = 0
  | p, a :: rest => p = a ∧ a ≠ 0 ∧ CurChain cursors (cursors a).next rest

instance CurChain.decidable (cursors : Nat → InternalCursor) :
    ∀ (p : Nat) (l : List Nat), Decidable (CurChain cursors p l)
  | p, [] => by unfold CurChain; infer_instance
  | p, a :: rest => by
    have := CurChain.decidable cursors (cursors a).next rest
    unfold CurChain
    infer_instance

/-- The location reached by `internal = &(*internal)->next` after walking
over the entries `pre`, starting from the location `internal`. -/
def curLastLink : CursorLink → List Nat → CursorLink
  | internal, [] => internal
  | _, a :: rest => curLastLink (CursorLink.next a) rest

/-- Consistency of a cursor cache, together with the cursors `adds` still to
be inserted: the cached and the coming cursors are distinct non-null blocks
with non-zero `unique` and distinct `hsurf`s; every bucket's chain is a
duplicate-free list holding exactly the ring's cursors that hash to it; and
`num_cursors` counts the ring. -/
structure CurInv (NASKE : Nat) (cc : CursorCache) (adds : List Nat) : Prop where
  wf : ∀ p ∈ cc.cursors_lru ++ adds, p ≠ 0 ∧ (cc.cursors p).unique ≠ 0
  nodup : (cc.cursors_lru ++ adds).Nodup
  inj : ∀ p ∈ cc.cursors_lru ++ adds, ∀ q ∈ cc.cursors_lru ++ adds,
    (cc.cursors p).hsurf = (cc.cursors q).hsurf → p = q
  chains : ∃ cl : Nat → List Nat, ∀ b,
    CurChain cc.cursors (cc.cursor_cache b) (cl b) ∧ (cl b).Nodup ∧
    ∀ p, p ∈ cl b ↔ (p ∈ cc.cursors_lru ∧ CURSOR_HASH_VAL NASKE (cc.cursors p).hsurf = b)
  count : cc.num_cursors = cc.cursors_lru.length

/-- An operation on the cursor cache: a lookup by `hsurf` and `unique`, or the
insertion of the cursor stored at an address. -/
inductive CurOp where
  | get (hsurf unique : Nat)
  | add (cursor : Nat)
  deriving DecidableEq, Repr

/-- Run one cursor-cache operation (the cursor returned by a lookup is dropped). -/
def runCurOp (NASKE SIZE sz fuel : Nat) (h : ResHeap) (cc : CursorCache) :
    CurOp → Option (ResHeap × CursorCache)
  | .get hsurf unique =>
    match CursorCacheGet NASKE sz fuel h cc hsurf unique with
    | none => none
    | some (_, h1, cc1) => some (h1, cc1)
  | .add cursor => CursorCacheAdd NASKE SIZE sz fuel h cc cursor

/-- Run a sequence of cursor-cache operations, in order. -/
def runCurOps (NASKE SIZE sz fuel : Nat) : ResHeap → CursorCache → List CurOp →
    Option (ResHeap × CursorCache)
  | h, cc, [] => some (h, cc)
  | h, cc, op :: rest =>
    match runCurOp NASKE SIZE sz fuel h cc op with
    | none => none
    | some (h1, cc1) => runCurOps NASKE SIZE sz fuel h1 cc1 rest

/-- The recency policy in the words of the specification, on the list of
cached cursors (most recently used first): a get that hits moves the entry
to the head; an insertion at capacity `SIZE` evicts the tail first, then
puts the new entry at the head. A get that finds the surface with another
`unique` drops that entry. `hs p` and `un p` are the `hsurf` and `unique` of
the cursor at `p`. -/
def curStep (SIZE : Nat) (hs un : Nat → Nat) (ring : List Nat) : CurOp → List Nat
  | .get hsurf unique =>
    if unique = 0 then ring
    else
      match ring.find? (fun p => decide (hs p = hsurf)) with
      | some p => if un p = unique then p :: ring.erase p else ring.erase p
      | none => ring
  | .add cursor =>
    if ring.length = SIZE then cursor :: ring.dropLast else cursor :: ring

/-- The recency list after a sequence of operations. -/
def curModel (SIZE : Nat) (hs un : Nat → Nat) (ring : List Nat) (ops : List CurOp) : List Nat :=
  ops.foldl (curStep SIZE hs un) ring

/-- The cursors inserted by a sequence of operations, in order. -/
def addedCursors : List CurOp → List Nat
  | [] => []
  | .get _ _ :: rest => addedCursors rest
  | .add p :: rest => p :: addedCursors rest

/-- A cursor cache for examples: empty, with three cursors in memory at 8208,
8464 and 8720 (their resources are 16 bytes before) for the surfaces 16, 32
and 48, each with `unique` 1. -/
def exampleCurCache : CursorCache :=
  { cursors := fun a =>
      if a = 8208 then { next := 0, hsurf := 16, unique := 1 }
      else if a = 8464 then { next := 0, hsurf := 32, unique := 1 }
      else if a = 8720 then { next := 0, hsurf := 48, unique := 1 }
      else { next := 0, hsurf := 0, unique := 0 }
    cursor_cache := fun _ => 0
    cursors_lru := []
    num_cursors := 0 }

/-! ## Arena allocation (`res.c` lines 274-296) -/

/-- What `AllocMem` takes from outside the driver: `mspace_malloc k` is the
pointer returned by the `k`-th call of `mspace_malloc` (0 for `NULL`), and
`release_ring k` is the item that the `k`-th `RING_POP` of the release ring
consumes, `WaitForReleaseRing` having returned. -/
structure AllocDev where
  mspace_malloc : Nat → Nat
  release_ring : Nat → Nat

/-- The part of the driver state that `AllocMem` works on: the heap, the
envelopes, `pdev->free_outputs`, and the numbers of `mspace_malloc` calls and
of release-ring items consumed so far. -/
structure AllocState where
  heap : ResHeap
  outputs : Outputs
  free_outputs : Nat
  ncalls : Nat
  npops : Nat

/-- The body of the loop of `AllocMem` after a failed `mspace_malloc`: release
one deferred envelope when `free_outputs` is set, otherwise wait for the
release ring and take its next item as `free_outputs`. -/
def AllocMem.reclaim (dev : AllocDev) (st : AllocState) : Option AllocState :=
  if st.free_outputs ≠ 0 then
    match ReleaseOutput st.heap st.outputs st.free_outputs with
    | none => none
    | some (next, h) => some { st with heap := h, free_outputs := next }
  else
    some { st with free_outputs := dev.release_ring st.npops, npops := st.npops + 1 }

/-- The loop `while (!(ptr = mspace_malloc(pdev->mspace, size))) { ... }` of
`AllocMem` followed by its closing assertion, with at most `fuel` calls of
`mspace_malloc`. -/
def AllocMem.loop (dev : AllocDev) : Nat → AllocState → Option (Nat × AllocState)
  | 0, _ => none
  | fuel + 1, st =>
    if dev.mspace_malloc st.ncalls ≠ 0 then
      if st.heap.mspace_start ≤ dev.mspace_malloc st.ncalls ∧
          dev.mspace_malloc st.ncalls < st.heap.mspace_end then
        some (dev.mspace_malloc st.ncalls, { st with ncalls := st.ncalls + 1 })
      else none
    else
      match AllocMem.reclaim dev { st with ncalls := st.ncalls + 1 } with
      | none => none
      | some st1 => AllocMem.loop dev fuel st1

/-- `AllocMem(pdev, size)`: the pointer returned and the new state (the
semaphore is not modelled). -/
def AllocMem (dev : AllocDev) (fuel : Nat) (st : AllocState) : Option (Nat × AllocState) :=
  if st.heap.mspace = 0 then none else AllocMem.loop dev fuel st

/-- The state after `k` failed calls of `mspace_malloc`, each followed by
one pass through the body of the loop. -/
def AllocMem.reclaims (dev : AllocDev) : Nat → AllocState → Option AllocState
  | 0, st => some st
  | k + 1, st =>
    match AllocMem.reclaim dev { st with ncalls := st.ncalls + 1 } with
    | none => none
    | some st1 => AllocMem.reclaims dev k st1

/-- A device for examples: `mspace_malloc` fails twice and then returns 1024;
the release ring delivers the envelope at 512. -/
def exampleDev : AllocDev :=
  { mspace_malloc := fun k => if k < 2 then 0 else 1024
    release_ring := fun _ => 512 }

/-- An allocation state for examples: the example heap and envelopes, no
deferred envelope. -/
def exampleAllocState : AllocState :=
  { heap := exampleHeap, outputs := exampleOutputs, free_outputs := 0, ncalls := 0, npops := 0 }

/-! ## Bitmaps (`res.c` lines 1160-1214, 1265-1605) -/

/-- Modelled from the spec: the macro `ALIGN(a, b)` on a signed value, for
`b` a power of two; `a` rounded up to a multiple of `b`. -/
def ALIGN.int (a b : Int) : Int := (a + (b - 1)) / b * b

/-- `GetFormatLineSize(width, bitmap_format, &format)`: the value returned
and the content of `*format` afterwards (`format` is its content before). -/
def GetFormatLineSize (k : Consts) (width : Int) (bitmap_format : Nat) (format : Nat) :
    Nat × Nat :=
  if bitmap_format = k.BMF_32BPP then (toU32 (width * 4), k.BITMAP_FMT_32BIT)
  else if bitmap_format = k.BMF_24BPP then (toU32 (width * 3), k.BITMAP_FMT_24BIT)
  else if bitmap_format = k.BMF_16BPP then (toU32 (width * 2), k.BITMAP_FMT_16BIT)
  else if bitmap_format = k.BMF_8BPP then (toU32 width, k.BITMAP_FMT_8BIT)
  else if bitmap_format = k.BMF_4BPP then (toU32 (ALIGN.int width 2 / 2), k.BITMAP_FMT_4BIT_BE)
  else if bitmap_format = k.BMF_1BPP then (toU32 (ALIGN.int width 8 / 8), k.BITMAP_FMT_1BIT_BE)
  else (0, format)

/-- `ChachSizeTest(pdev, surf)`: the product is taken in `UINT32`. -/
def ChachSizeTest (env : Env) (surf : SURFOBJ) : Bool :=
  decide ((toU32 surf.cx * toU32 surf.cy) % UINT32_MOD ≤ env.max_bitmap_size)

/-- The value of `gdi_unique` that `GetChachImage` computes; the `ULONG`
fields `iUniq` hold values below `2^32`. -/
def GetChachImage.gdi_unique (k : Consts) (surf : SURFOBJ) (color_trans : Option XLATEOBJ) :
    Nat :=
  match color_trans with
  | none => if surf.iUniq = 0 ∨ surf.fjBitmap &&& k.BMF_DONTCACHE ≠ 0 then 0 else surf.iUniq
  | some ct =>
    if ct.flXlate &&& k.XO_TABLE ≠ 0 then
      -- pallette = 1, pallette_unique = color_trans->iUniq
      if surf.iUniq = 0 ∨ surf.fjBitmap &&& k.BMF_DONTCACHE ≠ 0 ∨ ct.iUniq = 0 then 0
      else surf.iUniq ||| (ct.iUniq <<< 32)
    else
      if surf.iUniq = 0 ∨ surf.fjBitmap &&& k.BMF_DONTCACHE ≠ 0 then 0 else surf.iUniq

/-- The statement `if (!ImageKeyGet(...)) { key = GetHash(...); ImageKeyPut(...); }`
of `GetChachImage` and `QXLGetAlphaBitmap`, for the hash `hash` that `GetHash`
would return: the key and the cache afterwards. -/
def GetChachImage.key (env : Env) (ic : ImageCache) (hsurf gdi_unique hash : Nat) :
    Nat × ImageCache :=
  match ImageKeyGet env.IMAGE_KEY_HASH_MASK ic hsurf gdi_unique with
  | some key => (key, ic)
  | none => (hash, ImageKeyPut env.IMAGE_KEY_HASH_MASK ic hsurf gdi_unique hash)

/-- The block `{ CacheImage *cache_image = AllocCacheImage(pdev);
ImageCacheRemove(pdev, cache_image); cache_image->key = key; ...;
ImageCacheAdd(pdev, cache_image); RingAdd(...); }` of `GetChachImage` and
`QXLGetAlphaBitmap`. -/
def GetChachImage.reserve (env : Env) (fuel : Nat) (ic : ImageCache) (key format width height : Nat) :
    Option ImageCache :=
  match AllocCacheImage ic with
  | none => none
  | some (cache_image, ic1) =>
    match ImageCacheRemove env.IMAGE_HASH_MASK fuel ic1 cache_image with
    | none => none
    | some ic2 =>
      let ic3 := ic2.setSlot cache_image
        { ic2.pool cache_image with
          key := key, image := 0, format := format, width := width, height := height }
      let ic4 := ImageCacheAdd env.IMAGE_HASH_MASK ic3 cache_image
      some { ic4 with cache_image_lru := RingAdd ic4.cache_image_lru cache_image }

/-- The key derivation of `GetChachImage` for the surface `surf`: the key
(from the key-lookup table, else from `GetHash`, which is then recorded) and
the cache afterwards. -/
def GetChachImage.lookup (env : Env) (ic : ImageCache) (surf : SURFOBJ)
    (color_trans : Option XLATEOBJ) : Nat × ImageCache :=
  GetChachImage.key env ic surf.hsurf (GetChachImage.gdi_unique env.consts surf color_trans)
    (GetHash env surf.pvScan0 surf.cx surf.cy
      (GetFormatLineSize env.consts surf.cx surf.iBitmapFormat 0).2
      (GetFormatLineSize env.consts surf.cx surf.iBitmapFormat 0).1 surf.lDelta color_trans)

/-- `GetChachImage(pdev, surf, color_trans, hash_key)`: the slot returned (0
for `NULL`), the content of `*hash_key` afterwards (`none` for a `NULL`
pointer) and the image cache afterwards. -/
def GetChachImage (env : Env) (fuel : Nat) (ic : ImageCache) (surf : SURFOBJ)
    (color_trans : Option XLATEOBJ) (hash_key : Option Nat) :
    Option (Nat × Option Nat × ImageCache) :=
  let fl := GetFormatLineSize env.consts surf.cx surf.iBitmapFormat 0
  if fl.1 = 0 then some (0, hash_key, ic)
  else
    let kc := GetChachImage.lookup env ic surf color_trans
    match ImageCacheGetByKey env.IMAGE_HASH_MASK fuel kc.2 kc.1 true fl.2
        (toU32 surf.cx) (toU32 surf.cy) with
    | none => none
    | some (cache_image, ic2) =>
      if cache_image ≠ 0 then some (cache_image, hash_key.map (fun _ => kc.1), ic2)
      else if ChachSizeTest env surf then
        -- the slot is kept in a variable of the inner block; the function returns NULL
        match GetChachImage.reserve env fuel ic2 kc.1 fl.2 (toU32 surf.cx) (toU32 surf.cy) with
        | none => none
        | some ic3 => some (0, hash_key.map (fun _ => kc.1), ic3)
      else some (0, hash_key.map (fun _ => kc.1), ic2)

/-- The macro `BITMAP_ALLOC_BASE`. -/
def BITMAP_ALLOC_BASE (l : Layout) : Nat :=
  l.sizeof_Resource + l.sizeof_InternalImage + l.sizeof_QXLDataChunk

/-- `GetPallette(pdev, bitmap, color_trans)` for the bitmap of the image
payload at `internal`. -/
def GetPallette (env : Env) (fuel : Nat) (s : PDev) (internal : Nat)
    (color_trans : Option XLATEOBJ) : Option PDev :=
  let setPalette := fun (s : PDev) (v : Nat) =>
    { s with
      images := fun a => if a = internal then { s.images a with bitmap_palette := v }
                         else s.images a }
  match color_trans with
  | none => some (setPalette s 0)
  | some ct =>
    if ct.flXlate &&& env.consts.XO_TABLE = 0 then some (setPalette s 0)
    else
      match PaletteCacheGet env.PALETTE_HASH_NASKE fuel s.pcache ct.iUniq with
      | none => none
      | some (found, pc1) =>
        if found ≠ 0 then
          some (setPalette { s with pcache := pc1 }
            (PA env.main_slot (found + env.layout.off_palette)))
        else
          match AllocMem.done env { s with pcache := pc1 } with
          | none => none
          | some (palette, s1) =>
            let pc2 := s1.pcache.setPalette palette
              { s1.pcache.palettes palette with
                refs := 1
                unique := ct.iUniq
                num_ents := ct.cEntries % 65536
                ents := (List.range ct.cEntries).map ct.pulXlate }
            match PaletteCacheAdd env.PALETTE_HASH_NASKE env.PALETTE_CACHE_SIZE fuel s1.heap pc2
                palette with
            | none => none
            | some (h, pc3) =>
              some (setPalette { s1 with heap := h, pcache := pc3 }
                (PA env.main_slot (palette + env.layout.off_palette)))

/-- The loop `for (; src != src_end; src -= surf->lDelta, alloc_size -= line_size)`
of `GetBitmapImage` with `rows` iterations left. -/
def GetBitmapImage.rows (env : Env) (fuel : Nat) (lDelta : Int) (line_size : Nat) :
    Nat → Int → Nat → Encoder → Option Encoder
  | 0, _, _, st => some st
  | rows + 1, src, alloc_size, st =>
    match PutBytesAlign env.main_slot env.alloc st (readBytes env.bytes src line_size) line_size
        alloc_size line_size fuel with
    | none => none
    | some st1 =>
      GetBitmapImage.rows env fuel lDelta line_size rows (src - lDelta) (alloc_size - line_size) st1

/-- The first value of `alloc_size` in `GetBitmapImage`:
`MIN(BITMAP_ALLOC_BASE + height * line_size,
BITMAP_ALLOC_BASE + BITS_BUF_MAX - BITS_BUF_MAX % line_size)`. The product
`height * line_size` of a `LONG` and a `UINT32` is a `UINT32`; the `size_t` sums
are taken without overflow. -/
def GetBitmapImage.alloc_size (env : Env) (height : Int) (line_size : Nat) : Nat :=
  min (BITMAP_ALLOC_BASE env.layout + height.toNat * line_size % UINT32_MOD)
    (BITMAP_ALLOC_BASE env.layout + BITS_BUF_MAX - BITS_BUF_MAX % line_size)

/-- The state after `GetBitmapImage` has filled in the new block `image_res`:
the resource header, the image descriptor and the empty embedded chunk. The
fields of the new block that the function does not write keep what the block
held before. -/
def GetBitmapImage.header (env : Env) (s1 : PDev) (image_res : Nat) (cache_me : Bool)
    (width height : Int) (format line_size key : Nat) : PDev :=
  let internal := image_res + env.layout.sizeof_Resource
  let chunk := internal + env.layout.sizeof_InternalImage
  { s1 with
    heap := { s1.heap with
      mem := fun a =>
        if a = image_res then { refs := 1, free := FreeFn.FreeBitmapImage }
        else s1.heap.mem a }
    images := fun a =>
      if a = internal then
        { SetImageId env (s1.images a) cache_me width height format key with
          type := env.consts.IMAGE_TYPE_BITMAP
          bitmap_data := PA env.main_slot chunk
          bitmap_flags := 0
          width := toU32 width
          bitmap_x := toU32 width
          height := toU32 height
          bitmap_y := toU32 height
          bitmap_format := format
          bitmap_stride := line_size }
      else s1.images a
    chunks := fun a =>
      if a = chunk then
        { s1.chunks a with data_size := 0, prev_chunk := 0, next_chunk := 0 }
      else s1.chunks a }

/-- The cursor with which `GetBitmapImage` enters its loop: `chunk` is the
embedded chunk, `dest = chunk->data` and `dest_end = (UINT8 *)image_res +
alloc_size`. -/
def GetBitmapImage.cursor (env : Env) (s2 : PDev) (image_res : Nat) (height : Int)
    (line_size : Nat) : Encoder :=
  { mem := s2.chunks
    chunk := image_res + env.layout.sizeof_Resource + env.layout.sizeof_InternalImage
    now := 0
    end_ := (image_res + GetBitmapImage.alloc_size env height line_size) -
      (image_res + env.layout.sizeof_Resource + env.layout.sizeof_InternalImage +
        env.layout.sizeof_QXLDataChunk)
    nalloc := s2.nalloc }

/-- `GetBitmapImage(pdev, surf, color_trans, cache_me, width, height, format,
src, line_size, key)`: the resource and the new state. The loop runs from
`src + lDelta * (height - 1)` down to `src`, that is `height` times, and not
at all when `lDelta` is 0 (then `src == src_end` at once). The loop's
`alloc_size` starts at the `UINT32` product `height * line_size`, and its
`alloc_size -= line_size` stops at 0 (it does not go below 0 when the product
did not wrap). -/
def GetBitmapImage (env : Env) (fuel : Nat) (s : PDev) (surf : SURFOBJ)
    (color_trans : Option XLATEOBJ) (cache_me : Bool) (width height : Int) (format : Nat)
    (src : Int) (line_size key : Nat) : Option (Nat × PDev) :=
  if ¬ (0 < width ∧ 0 < height) then none
  else if ¬ (line_size < BITS_BUF_MAX) then none
  else if line_size = 0 then none
  else
    match AllocMem.done env s with
    | none => none
    | some (image_res, s1) =>
      let s2 := GetBitmapImage.header env s1 image_res cache_me width height format line_size key
      match GetBitmapImage.rows env fuel surf.lDelta line_size
          (if surf.lDelta = 0 then 0 else height.toNat) (src + surf.lDelta * (height - 1))
          (height.toNat * line_size % UINT32_MOD)
          (GetBitmapImage.cursor env s2 image_res height line_size) with
      | none => none
      | some st =>
        match GetPallette env fuel { s2 with chunks := st.mem, nalloc := st.nalloc }
            (image_res + env.layout.sizeof_Resource) color_trans with
        | none => none
        | some s3 => some (image_res, s3)

/-- What a call of `QXLGetBitmap` or `QXLGetAlphaBitmap` leaves behind: the
value returned, the content of `*image_phys`, of `*area` and of `*hash_key`
(`none` for a `NULL` pointer), and the driver state. -/
structure BitmapResult where
  ret : Bool
  image_phys : Nat
  area : Rect
  hash_key : Option Nat
  s : PDev

/-- `get_image_serial()`: `++image_id` on the static `UINT32` counter, kept in
the state. -/
def get_image_serial (s : PDev) : Nat × PDev :=
  ((1 + s.image_id) % UINT32_MOD, { s with image_id := (1 + s.image_id) % UINT32_MOD })

/-- The statements of the cache-hit branch shared by `QXLGetBitmap`,
`QXLGetAlphaBitmap` and `QXLGetBitsFromCache`, for the payload `internal`:
the value stored in `*image_phys` and the state after `DrawableAddRes`. -/
def QXLGetBitmap.hit (env : Env) (s : PDev) (drawable internal : Nat) : Option (Nat × PDev) :=
  match DrawableAddRes s.heap s.outputs drawable (internal - env.layout.sizeof_Resource) with
  | none => none
  | some (h, outs) =>
    some (PA env.main_slot (internal + env.layout.off_image), { s with heap := h, outputs := outs })

/-- The effect on the image cache of the statements
`if ((internal->cache = cache_image)) { cache_image->image = internal;
if (RingItemIsLinked(&cache_image->lru_link)) RingRemove(pdev, &cache_image->lru_link); }`. -/
def imageCacheBind (ic : ImageCache) (cache_image internal : Nat) : ImageCache :=
  if cache_image = 0 then ic
  else if RingItemIsLinked ic.cache_image_lru cache_image then
    { ic.setSlot cache_image { ic.pool cache_image with image := internal } with
      cache_image_lru := RingRemove ic.cache_image_lru cache_image }
  else ic.setSlot cache_image { ic.pool cache_image with image := internal }

/-- The closing statements shared by `QXLGetBitmap` and `QXLGetAlphaBitmap`
for the new resource `image_res`: `internal->cache = cache_image`, the binding
of the slot when there is one, the store to `*image_phys`, `DrawableAddRes`
and `RELEASE_RES`. -/
def QXLGetBitmap.bind (env : Env) (s : PDev) (drawable cache_image image_res : Nat) :
    Option (Nat × PDev) :=
  let internal := image_res + env.layout.sizeof_Resource
  let s1 : PDev :=
    { s with
      images := fun a => if a = internal then { s.images a with cache := cache_image }
                         else s.images a }
  let s2 : PDev := { s1 with icache := imageCacheBind s1.icache cache_image internal }
  match DrawableAddRes s2.heap s2.outputs drawable image_res with
  | none => none
  | some (h, outs) =>
    some (PA env.main_slot (internal + env.layout.off_image),
      { s2 with heap := RELEASE_RES h image_res, outputs := outs })

/-- The statements of `QXLGetBitmap` and `QXLGetAlphaBitmap` from the call of
`GetQuicImage` on: the image is encoded (`GetBitmapImage` when `GetQuicImage`
returns `NULL`), bound and attached. -/
def QXLGetBitmap.encode (env : Env) (fuel : Nat) (s : PDev) (drawable : Nat) (surf : SURFOBJ)
    (color_trans : Option XLATEOBJ) (cache_image : Nat) (width height : Int) (format : Nat)
    (src : Int) (line_size key : Nat) : Option (Nat × PDev) :=
  match GetQuicImage env fuel s surf (decide (cache_image ≠ 0)) width height format src
      line_size key with
  | none => none
  | some (quic_res, s1) =>
    if quic_res ≠ 0 then QXLGetBitmap.bind env s1 drawable cache_image quic_res
    else
      match GetBitmapImage env fuel s1 surf color_trans (decide (cache_image ≠ 0)) width height
          format src line_size key with
      | none => none
      | some (image_res, s2) => QXLGetBitmap.bind env s2 drawable cache_image image_res

/-- The `switch (surf->iBitmapFormat)` of `QXLGetBitmap`: `dx` and
`scan0_offset` for the left edge `left`, `none` for `default`. -/
def QXLGetBitmap.offsets (k : Consts) (bitmap_format : Nat) (left : Int) : Option (Int × Int) :=
  if bitmap_format = k.BMF_32BPP then some (0, left * 4)
  else if bitmap_format = k.BMF_24BPP then some (0, left * 3)
  else if bitmap_format = k.BMF_16BPP then some (0, left * 2)
  else if bitmap_format = k.BMF_8BPP then some (0, left)
  else if bitmap_format = k.BMF_4BPP then some (left % 2, (left - left % 2) / 2)
  else if bitmap_format = k.BMF_1BPP then some (left % 8, (left - left % 8) / 8)
  else none

/-- The statements of `QXLGetBitmap` from `if (cache_image) { ... } else { ... }`
on, entered with the slot `cache_image` (0 for `NULL`) that has no realized
image. `INT32` arithmetic is taken without overflow. -/
def QXLGetBitmap.miss (env : Env) (fuel : Nat) (s : PDev) (drawable image_phys : Nat)
    (surf : SURFOBJ) (area : Rect) (color_trans : Option XLATEOBJ) (hash_key : Option Nat)
    (cache_image : Nat) : Option BitmapResult :=
  if cache_image ≠ 0 then
    -- key = cache_image->key; the whole surface is encoded
    if (GetFormatLineSize env.consts surf.cx surf.iBitmapFormat 0).1 = 0 then
      some { ret := false, image_phys := image_phys, area := area, hash_key := hash_key, s := s }
    else
      match QXLGetBitmap.encode env fuel s drawable surf color_trans cache_image surf.cx surf.cy
          (GetFormatLineSize env.consts surf.cx surf.iBitmapFormat 0).2 surf.pvScan0
          (GetFormatLineSize env.consts surf.cx surf.iBitmapFormat 0).1
          (s.icache.pool cache_image).key with
      | none => none
      | some (phys, s1) =>
        some { ret := true, image_phys := phys, area := area, hash_key := hash_key, s := s1 }
  else
    match QXLGetBitmap.offsets env.consts surf.iBitmapFormat area.left with
    | none =>
      some { ret := false, image_phys := image_phys, area := area, hash_key := hash_key,
             s := (get_image_serial s).2 }
    | some (dx, scan0_offset) =>
      let width := area.right - area.left + dx
      let height := area.bottom - area.top
      let area1 : Rect := { left := dx, right := width, top := 0, bottom := height }
      if (GetFormatLineSize env.consts width surf.iBitmapFormat 0).1 = 0 then
        some { ret := false, image_phys := image_phys, area := area1, hash_key := hash_key,
               s := (get_image_serial s).2 }
      else
        match QXLGetBitmap.encode env fuel (get_image_serial s).2 drawable surf color_trans 0
            width height (GetFormatLineSize env.consts width surf.iBitmapFormat 0).2
            (surf.pvScan0 + area.top * surf.lDelta + scan0_offset)
            (GetFormatLineSize env.consts width surf.iBitmapFormat 0).1
            (get_image_serial s).1 with
        | none => none
        | some (phys, s1) =>
          some { ret := true, image_phys := phys, area := area1, hash_key := hash_key, s := s1 }

/-- `QXLGetBitmap(pdev, drawable, image_phys, surf, area, color_trans,
hash_key, use_cache)`; `image_phys`, `area` and `hash_key` are the contents
of the locations before the call, `hash_key = none` standing for a `NULL`
pointer. -/
def QXLGetBitmap (env : Env) (fuel : Nat) (s : PDev) (drawable image_phys : Nat)
    (surf : SURFOBJ) (area : Rect) (color_trans : Option XLATEOBJ) (hash_key : Option Nat)
    (use_cache : Bool) : Option BitmapResult :=
  if hash_key.isSome ∧ use_cache = false then none
  else if surf.iType ≠ env.consts.STYPE_BITMAP then
    some { ret := false, image_phys := image_phys, area := area, hash_key := hash_key, s := s }
  else if area.left < 0 ∨ area.right > surf.cx ∨ area.top < 0 ∨ area.bottom > surf.cy then
    some { ret := false, image_phys := image_phys, area := area, hash_key := hash_key, s := s }
  else if use_cache then
    match GetChachImage env fuel s.icache surf color_trans hash_key with
    | none => none
    | some (cache_image, hash_key1, ic) =>
      if cache_image ≠ 0 ∧ (ic.pool cache_image).image ≠ 0 then
        match QXLGetBitmap.hit env { s with icache := ic } drawable (ic.pool cache_image).image with
        | none => none
        | some (phys, s1) =>
          some { ret := true, image_phys := phys, area := area, hash_key := hash_key1, s := s1 }
      else
        QXLGetBitmap.miss env fuel { s with icache := ic } drawable image_phys surf area
          color_trans hash_key1 cache_image
  else
    QXLGetBitmap.miss env fuel s drawable image_phys surf area color_trans hash_key 0

/-- The key derivation of `QXLGetAlphaBitmap` for the surface `surf`: the key
(from the key-lookup table, else from `GetHash` with `BITMAP_FMT_RGBA` and line
size `cx << 2`, which is then recorded) and the cache afterwards. -/
def QXLGetAlphaBitmap.lookup (env : Env) (ic : ImageCache) (surf : SURFOBJ) : Nat × ImageCache :=
  GetChachImage.key env ic surf.hsurf
    (if surf.iUniq = 0 ∨ surf.fjBitmap &&& env.consts.BMF_DONTCACHE ≠ 0 then 0 else surf.iUniq)
    (GetHash env surf.pvScan0 surf.cx surf.cy env.consts.BITMAP_FMT_RGBA (toU32 (surf.cx * 4))
      surf.lDelta none)

/-- `QXLGetAlphaBitmap(pdev, drawable, image_phys, surf, area)`. The function
has no `FALSE` return, so `*image_phys` is written on every path and its
content before the call is not used. -/
def QXLGetAlphaBitmap (env : Env) (fuel : Nat) (s : PDev) (drawable image_phys : Nat)
    (surf : SURFOBJ) (area : Rect) : Option BitmapResult :=
  if ¬ (surf.iBitmapFormat = env.consts.BMF_32BPP ∧ surf.iType = env.consts.STYPE_BITMAP) then none
  else if ¬ (0 ≤ area.left ∧ area.right ≤ surf.cx ∧ 0 ≤ area.top ∧ area.bottom ≤ surf.cy) then
    none
  else
    let kc := QXLGetAlphaBitmap.lookup env s.icache surf
    match ImageCacheGetByKey env.IMAGE_HASH_MASK fuel kc.2 kc.1 true env.consts.BITMAP_FMT_RGBA
        (toU32 surf.cx) (toU32 surf.cy) with
    | none => none
    | some (cache_image, ic) =>
      if cache_image ≠ 0 ∧ (ic.pool cache_image).image ≠ 0 then
        match QXLGetBitmap.hit env { s with icache := ic } drawable (ic.pool cache_image).image with
        | none => none
        | some (phys, s1) =>
          some { ret := true, image_phys := phys, area := area, hash_key := none, s := s1 }
      else if cache_image ≠ 0 then
        match QXLGetBitmap.encode env fuel { s with icache := ic } drawable surf none cache_image
            surf.cx surf.cy env.consts.BITMAP_FMT_RGBA surf.pvScan0 (toU32 (surf.cx * 4))
            kc.1 with
        | none => none
        | some (phys, s1) =>
          some { ret := true, image_phys := phys, area := area, hash_key := none, s := s1 }
      else
        -- the slot reserved here is kept in a variable of the inner block
        match (if ChachSizeTest env surf then
            GetChachImage.reserve env fuel ic kc.1 env.consts.BITMAP_FMT_RGBA (toU32 surf.cx)
              (toU32 surf.cy)
          else some ic) with
        | none => none
        | some ic1 =>
          match QXLGetBitmap.encode env fuel { s with icache := ic1 } drawable surf none 0
              (area.right - area.left) (area.bottom - area.top) env.consts.BITMAP_FMT_RGBA
              (surf.pvScan0 + area.top * surf.lDelta + area.left * 4)
              (toU32 ((area.right - area.left) * 4)) kc.1 with
          | none => none
          | some (phys, s1) =>
            some { ret := true, image_phys := phys
                   area := { left := 0, right := area.right - area.left, top := 0,
                             bottom := area.bottom - area.top }
                   hash_key := none, s := s1 }

/-- `QXLGetBitsFromCache(pdev, drawable, hash_key, image_phys)`: the value
returned, the content of `*image_phys` afterwards (`image_phys` is its
content before) and the new state. -/
def QXLGetBitsFromCache (env : Env) (fuel : Nat) (s : PDev) (drawable hash_key image_phys : Nat) :
    Option (Bool × Nat × PDev) :=
  match ImageCacheGetByKey env.IMAGE_HASH_MASK fuel s.icache hash_key false 0 0 0 with
  | none => none
  | some (cache_image, ic) =>
    if cache_image ≠ 0 ∧ (ic.pool cache_image).image ≠ 0 then
      match QXLGetBitmap.hit env { s with icache := ic } drawable (ic.pool cache_image).image with
      | none => none
      | some (phys, s1) => some (true, phys, s1)
    else some (false, image_phys, { s with icache := ic })

/-- A driver state for examples in which bucket 1 of the image cache starts at
slot 5 (key 16, format 9, image at 4120), the only slot of its chain. -/
def realizedPDev : PDev :=
  { examplePDev with
    icache := { exampleCache with image_cache := fun b => if b = 1 then 5 else 0 } }

/-- The whole of the example surface. -/
def fullArea : Rect := { left := 0, top := 0, right := 2, bottom := 2 }

/-! ## Initialisation (`res.c` lines 304-345) -/

/-- The statements of `InitResources` on the caches kept in the state, for
the slots of `cache_image_pool` at the addresses `pool` (in index order): the
key-lookup table, the pool and the buckets are zeroed, every slot is added to
`cache_image_lru`, the palette buckets are zeroed and the palette ring is
emptied. -/
def InitResources (s : PDev) (pool : List Nat) : PDev :=
  { s with
    icache :=
      { pool := fun _ =>
          { next := 0, key := 0, hits := 0, format := 0, width := 0, height := 0, image := 0 }
        image_cache := fun _ => 0
        cache_image_lru := pool.foldl RingAdd RingInit
        image_key_lookup := fun _ => { hsurf := 0, unique := 0, key := 0 } }
    pcache :=
      { s.pcache with palette_cache := fun _ => 0, palette_lru := RingInit, num_palettes := 0 } }

/-- A second surface for examples: a 2 x 2 bitmap of 32 bits per pixel at
address 100, with its own handle and uniqueness token. -/
def otherSurf : SURFOBJ :=
  { iType := 0, cx := 2, cy := 2, iBitmapFormat := 6, iUniq := 2, fjBitmap := 0, hsurf := 4096,
    pvScan0 := 100, lDelta := 8 }

/-- A driver state for examples whose key-lookup table gives key 16 for the
surface handle 64 with uniqueness token 1; the image cache is the example
cache (bucket 1: slot 3, key 16, format 8, 2 x 2, no image; then slot 5, key 16,
format 9, 4 x 4, image at 4120). -/
def keyedPDev : PDev :=
  { examplePDev with
    icache := { exampleCache with
      image_key_lookup := fun _ => { hsurf := 64, unique := 1, key := 16 } } }

/-- A 4 x 4 surface of 32 bits per pixel with the handle and token of the
example surface. -/
def wideSurf : SURFOBJ :=
  { iType := 0, cx := 4, cy := 4, iBitmapFormat := 6, iUniq := 1, fjBitmap := 0, hsurf := 64,
    pvScan0 := 0, lDelta := 16 }

/-- A string-encoder cursor for examples: at the start of the chunk at 4200,
with room for 100 bytes, no byte written yet. -/
def exampleStrEnc : StrEnc :=
  { enc := { mem := exampleChunks, chunk := 4200, now := 0, end_ := 100, nalloc := 0 }
    data_size := 0
    str_pos := none }

/-- A glyph for examples: 1 x 1 pixels, its bitmap at address 255, where the
example memory holds the byte `0xFF`. -/
def onePixelGlyph : GLYPHPOS :=
  { ptl := (0, 0), ptlOrigin := (0, 0), sizlBitmap := (1, 1), aj := 255 }

/-! ## Ring channels and command hand-off (`res.c` lines 68-82, 139-210, 386-395, 1985-1996) -/

/-- The item `QXLCommand { data, type }` of the command and cursor rings. -/
structure QXLCommand where
  type : Nat
  data : Nat
  deriving DecidableEq, Repr

/-- Modelled from the spec: a ring channel of `qxl_dev.h`, whose ring macros
are not part of this source file. "A fixed-capacity circular buffer of
fixed-width slots with separate producer and consumer cursors": the slots
between the consumer and the producer cursor, oldest first, and the capacity. -/
structure RingChannel where
  items : List QXLCommand
  num_items : Nat

/-- Modelled from the spec: the macro `RING_IS_FULL(r)`. -/
def RING_IS_FULL (r : RingChannel) : Bool := decide (r.num_items ≤ r.items.length)

/-- Modelled from the spec: the macro `RING_IS_EMPTY(r)`. -/
def RING_IS_EMPTY (r : RingChannel) : Bool := r.items.isEmpty

/-- Modelled from the spec: the macros `RING_PROD_ITEM(r)` and
`RING_PUSH(r, notify)` for the item `cmd` written into the producer slot: "writer
advances producer cursor, returns whether consumer should be notified"; the
notification is due "only on the empty -> non-empty transition". -/
def RING_PUSH (r : RingChannel) (cmd : QXLCommand) : RingChannel × Bool :=
  ({ r with items := r.items ++ [cmd] }, RING_IS_EMPTY r)

/-- Modelled from the spec: the consumer's `pop` ("reader advances consumer
cursor"): the item consumed, if there is one, and the ring afterwards. -/
def RING_POP (r : RingChannel) : Option QXLCommand × RingChannel :=
  (r.items.head?, { r with items := r.items.tail })

/-- The rings and ports of a `PDev` that the push functions use: `cmd_ring`,
`cursor_ring`, and the number of bytes written so far to `notify_cmd_port` and
to `notify_cursor_port`. -/
structure Channels where
  cmd_ring : RingChannel
  cursor_ring : RingChannel
  notify_cmd_port : Nat
  notify_cursor_port : Nat

/-- The macro `PUSH_CMD(pdev)` after the item `cmd` has been written into the
producer slot. -/
def PUSH_CMD (c : Channels) (cmd : QXLCommand) : Channels :=
  if (RING_PUSH c.cmd_ring cmd).2 then
    { c with cmd_ring := (RING_PUSH c.cmd_ring cmd).1, notify_cmd_port := c.notify_cmd_port + 1 }
  else { c with cmd_ring := (RING_PUSH c.cmd_ring cmd).1 }

/-- The macro `PUSH_CURSOR_CMD(pdev)` after the item `cmd` has been written
into the producer slot. -/
def PUSH_CURSOR_CMD (c : Channels) (cmd : QXLCommand) : Channels :=
  if (RING_PUSH c.cursor_ring cmd).2 then
    { c with cursor_ring := (RING_PUSH c.cursor_ring cmd).1
             notify_cursor_port := c.notify_cursor_port + 1 }
  else { c with cursor_ring := (RING_PUSH c.cursor_ring cmd).1 }

/-- `PushDrawable(pdev, drawable)` for the header constant `QXL_CMD_DRAW`.
`WaitForCmdRing` returns once the ring is not full; on a full ring it waits
for the device, which is not followed here (`none`). -/
def PushDrawable (env : Env) (QXL_CMD_DRAW : Nat) (c : Channels) (drawable : Nat) :
    Option Channels :=
  if RING_IS_FULL c.cmd_ring then none
  else some (PUSH_CMD c { type := QXL_CMD_DRAW, data := PA env.main_slot drawable })

/-- `PushCursorCmd(pdev, cursor_cmd)` for the header constant `QXL_CMD_CURSOR`;
on a full ring `WaitForCursorRing` waits for the device (`none`). -/
def PushCursorCmd (env : Env) (QXL_CMD_CURSOR : Nat) (c : Channels) (cursor_cmd : Nat) :
    Option Channels :=
  if RING_IS_FULL c.cursor_ring then none
  else some (PUSH_CURSOR_CMD c { type := QXL_CMD_CURSOR, data := PA env.main_slot cursor_cmd })

/-- One step at the command ring: the driver pushes a drawable, or the device
pops an item. -/
inductive CmdOp where
  | push (drawable : Nat)
  | pop
  deriving DecidableEq, Repr

/-- The run of a sequence of steps at the command ring: the items the device
consumed, in order, and the channels afterwards. A pop on an empty ring
consumes nothing. -/
def runCmdOps (env : Env) (QXL_CMD_DRAW : Nat) :
    Channels → List CmdOp → Option (List QXLCommand × Channels)
  | c, [] => some ([], c)
  | c, CmdOp.push d :: ops =>
    match PushDrawable env QXL_CMD_DRAW c d with
    | none => none
    | some c1 => runCmdOps env QXL_CMD_DRAW c1 ops
  | c, CmdOp.pop :: ops =>
    match runCmdOps env QXL_CMD_DRAW
        { c with cmd_ring := (RING_POP c.cmd_ring).2 } ops with
    | none => none
    | some (out, c1) => some ((RING_POP c.cmd_ring).1.toList ++ out, c1)

/-- The number of empty-to-non-empty transitions of a ring that holds `n`
items when the steps `ops` are applied to it: a push onto the empty ring is
one. -/
def transitions : Nat → List CmdOp → Nat
  | _, [] => 0
  | n, CmdOp.push _ :: ops => (if n = 0 then 1 else 0) + transitions (n + 1) ops
  | n, CmdOp.pop :: ops => transitions (n - 1) ops

/-- The items that the pushes of `ops` write, in order. -/
def pushed (env : Env) (QXL_CMD_DRAW : Nat) : List CmdOp → List QXLCommand
  | [] => []
  | CmdOp.push d :: ops =>
    { type := QXL_CMD_DRAW, data := PA env.main_slot d } :: pushed env QXL_CMD_DRAW ops
  | CmdOp.pop :: ops => pushed env QXL_CMD_DRAW ops

/-- Channels for examples: two empty rings of 4 slots, no port written yet. -/
def exampleChannels : Channels :=
  { cmd_ring := { items := [], num_items := 4 }
    cursor_ring := { items := [], num_items := 4 }
    notify_cmd_port := 0
    notify_cursor_port := 0 }

/-- The chunks `chain` (virtual addresses, in link order) are doubly linked
through their physical addresses, every chunk but the last has `data_size`
four times its capacity in words (`caps`, one entry per chunk but the last), and
the last chunk has no successor. -/
def QuicChain (env : Env) (mem : ChunkMem) : List Nat → List Int → Prop
  | [c], [] => (mem c).next_chunk = 0
  | c :: d :: rest, cap :: caps =>
    (mem c).data_size = toU32 (cap * 4) ∧ (mem c).next_chunk = PA env.main_slot d ∧
    (mem d).prev_chunk = PA env.main_slot c ∧ QuicChain env mem (d :: rest) caps
  | _, _ => False

/-- The capacities in words of the chunks of one codec run: that of the chunk
current at the start, then the one `quic_usr_more_space` gives the new chunk
at each callback (`alloc_size >> 2`). -/
def quicCaps (q : QuicData) (ms : List Int) : List Int :=
  q.chunk_io_words :: ms.map (fun rc => quic_usr_more_space.alloc_size q rc >>> 2)

/-- An environment for examples with compression on and a codec that asks for
more space twice (after 0 and after 1 rows) and then returns 600 words. -/
def quicOkEnv : Env :=
  { exampleEnv with
    compression_level := 1
    quic_encode := fun _ _ _ _ _ _ => { more_space := [0, 1], result := some 600 } }

/-- The bytes of the `k` rows that the loop of `GetBitmapImage` reads when it
starts at `src`: `line_size` bytes at `src`, then at `src - lDelta`, and so on. -/
def rowsFrom (bytes : Int → Nat) (lDelta : Int) (line_size : Nat) : Nat → Int → List Nat
  | 0, _ => []
  | k + 1, src => readBytes bytes src line_size ++ rowsFrom bytes lDelta line_size k (src - lDelta)

/-- The rows of a bitmap in bottom-up order: source row `height - 1` first,
source row 0 last, row `j` being the `line_size` bytes at `src + lDelta * j`. -/
def bottomUpRows (bytes : Int → Nat) (src lDelta : Int) (line_size height : Nat) : List Nat :=
  (List.range height).reverse.flatMap
    (fun (j : Nat) => readBytes bytes (src + lDelta * (j : Int)) line_size)

/-- The sizes `l` are what is obtained by cutting `total` bytes greedily into
pieces of at most `piece` bytes: each is `min(remaining, piece)`, and nothing
remains after the last. -/
def GreedySizes (piece : Nat) : Nat → List Nat → Prop
  | total, [] => total = 0
  | total, z :: rest => 0 < total ∧ z = min total piece ∧ GreedySizes piece (total - z) rest

/-- The sizes `l` are the first pieces of such a greedy cut of `total`. -/
def GreedyPrefix (piece : Nat) : Nat → List Nat → Prop
  | _, [] => True
  | total, z :: rest => 0 < total ∧ z = min total piece ∧ GreedyPrefix piece (total - z) rest

/-- The invariant of the row loop of `GetBitmapImage` for an image of `total`
bytes in rows of `line_size` bytes, first chunk `c0`, `n0` allocations made
before the loop: the encoder `st` has written `written` so far into the chain
of `c0` and the `m` blocks allocated since, every chunk but the current one is
full, and the capacities are those of a greedy cut of `total` into pieces of
`BITS_BUF_MAX - BITS_BUF_MAX % line_size` bytes. -/
def RowsInv (env : Env) (line_size total c0 n0 : Nat) (st : Encoder) (written : List Nat) :
    Prop :=
  ∃ m, st.nalloc = n0 + m ∧ st.chunk = (allocated env.alloc n0 m).getLastD c0 ∧
    Linked env.main_slot st.mem c0 (allocated env.alloc n0 m) ∧
    (st.mem st.chunk).next_chunk = 0 ∧ (st.mem c0).prev_chunk = 0 ∧
    (st.mem st.chunk).data_size = st.now ∧ st.now ≤ st.end_ ∧
    line_size ∣ st.now ∧ line_size ∣ st.end_ ∧ line_size ∣ written.length ∧
    (c0 :: allocated env.alloc n0 m).flatMap (fun a => chunkData (st.mem a)) = written ∧
    written.length + (st.end_ - st.now) =
      min total ((m + 1) * (BITS_BUF_MAX - BITS_BUF_MAX % line_size)) ∧
    (m = 0 ∨ m * (BITS_BUF_MAX - BITS_BUF_MAX % line_size) < total) ∧
    GreedyPrefix (BITS_BUF_MAX - BITS_BUF_MAX % line_size) total
      ((c0 :: allocated env.alloc n0 m).dropLast.map (fun a => (st.mem a).data_size) ++
        [st.end_])

/-! ## Constructors and their references (`res.c` lines 534-546, 1644-1663, 2116-2365) -/

/-- `QXLGetPath(pdev, drawable, path_phys, path)`: the return value, the content
of `*path_phys` afterwards and the new state. Of the pointers in the opening
assertion, `drawable` is an address and is checked; the others are present by
their types. -/
def QXLGetPath (env : Env) (fuel : Nat) (s : PDev) (drawable : Nat) (path : PATHOBJ) :
    Option (Bool × Nat × PDev) :=
  if drawable = 0 then none
  else
    match GetPath env fuel s path with
    | none => none
    | some (path_res, s1) =>
      match DrawableAddRes s1.heap s1.outputs drawable path_res with
      | none => none
      | some (h, outs) =>
        some (true, PA env.main_slot (path_res + env.layout.sizeof_Resource),
          { s1 with heap := RELEASE_RES h path_res, outputs := outs })

/-- `QXLGetBuf(pdev, drawable, buf_phys, size)`: the pointer returned (0 for
`NULL`), the content of `*buf_phys` afterwards (`buf_phys` is its content
before) and the new state. `PAGE_SIZE` is at least `sizeof(Resource)`. -/
def QXLGetBuf (env : Env) (s : PDev) (drawable buf_phys size : Nat) : Option (Nat × Nat × PDev) :=
  if size > env.consts.PAGE_SIZE - env.layout.sizeof_Resource then some (0, buf_phys, s)
  else
    match AllocMem.done env s with
    | none => none
    | some (buf_res, s1) =>
      let h0 : ResHeap :=
        { s1.heap with
          mem := fun a =>
            if a = buf_res then { refs := 1, free := FreeFn.FreeBuf } else s1.heap.mem a }
      match DrawableAddRes h0 s1.outputs drawable buf_res with
      | none => none
      | some (h, outs) =>
        some (buf_res + env.layout.sizeof_Resource,
          PA env.main_slot (buf_res + env.layout.sizeof_Resource),
          { s1 with heap := RELEASE_RES h buf_res, outputs := outs })

/-- The header constants of the cursor code, whose definitions are not part of
`res.c`: the `CURSOR_TYPE_*` values, `CURSOR_HASH_NASKE`, `CURSOR_CACHE_SIZE`
and `sizeof(InternalCursor)`. -/
structure CursorConsts where
  CURSOR_TYPE_ALPHA : Nat
  CURSOR_TYPE_MONO : Nat
  CURSOR_TYPE_COLOR4 : Nat
  CURSOR_TYPE_COLOR8 : Nat
  CURSOR_TYPE_COLOR16 : Nat
  CURSOR_TYPE_COLOR24 : Nat
  CURSOR_TYPE_COLOR32 : Nat
  CURSOR_HASH_NASKE : Nat
  CURSOR_CACHE_SIZE : Nat
  sizeof_InternalCursor : Nat
  deriving DecidableEq, Repr

/-- The header `QXLCursorHeader` of a cursor. -/
structure QXLCursorHeader where
  unique : Nat
  type : Nat
  width : Nat
  height : Nat
  hot_spot_x : Nat
  hot_spot_y : Nat
  deriving DecidableEq, Repr

/-- The driver state with its cursor part: the cursor cache, `last_cursor_id`,
and in memory the `cursor.header` and `cursor.data_size` of every
`InternalCursor` (by its address) and the `u.set.shape` of every cursor command
(by its address). -/
structure CursorDev where
  s : PDev
  cc : CursorCache
  last_cursor_id : Nat
  headers : Nat → QXLCursorHeader
  data_size : Nat → Nat
  shape : Nat → Nat

/-- The macro `CURSOR_ALLOC_SIZE`, `PAGE_SIZE << 1`. -/
def CURSOR_ALLOC_SIZE (k : Consts) : Nat := k.PAGE_SIZE <<< 1

/-- The `switch (type)` of `GetCursorCommon` that sets `line_size` from the
header's width; `none` when no case applies (`line_size` is then not set). -/
def GetCursorCommon.line_size (ck : CursorConsts) (type width : Nat) : Option Nat :=
  if type = ck.CURSOR_TYPE_ALPHA ∨ type = ck.CURSOR_TYPE_COLOR32 then some (width <<< 2)
  else if type = ck.CURSOR_TYPE_MONO then some (ALIGN width 8 >>> 3)
  else if type = ck.CURSOR_TYPE_COLOR4 then some (ALIGN width 2 >>> 1)
  else if type = ck.CURSOR_TYPE_COLOR8 then some width
  else if type = ck.CURSOR_TYPE_COLOR16 then some (width <<< 1)
  else if type = ck.CURSOR_TYPE_COLOR24 then some (width * 3)
  else none

/-- The loop `for (; src != src_end; src += surf->lDelta) PutBytes(...)` of
`GetCursorCommon` with `rows` iterations left. -/
def GetCursorCommon.rows (env : Env) (fuel : Nat) (lDelta : Int) (line_size : Nat) :
    Nat → Int → Encoder → Option Encoder
  | 0, _, st => some st
  | rows + 1, src, st =>
    match PutBytesAlign env.main_slot env.alloc st (readBytes env.bytes src line_size) line_size
        env.consts.PAGE_SIZE 1 fuel with
    | none => none
    | some st1 => GetCursorCommon.rows env fuel lDelta line_size rows (src + lDelta) st1

/-- The value of `unique` in `GetCursorCommon`:
`(surf->fjBitmap & BMF_DONTCACHE) ? 0 : surf->iUniq`. -/
def GetCursorCommon.unique (k : Consts) (surf : SURFOBJ) : Nat :=
  if surf.fjBitmap &&& k.BMF_DONTCACHE ≠ 0 then 0 else surf.iUniq

/-- The statements of `GetCursorCommon` after a failed lookup, entered in the
state `d` that the lookup left: the cursor is allocated, filled and encoded,
put in the cache, attached to the command's envelope and released. Returns
the cursor `info` (`chunk`, `now`, `end`) and the new state. The loop runs
`cy` times; it does not end when `lDelta` is not 0 and `cy` is negative, and
runs zero times when `lDelta` is 0. -/
def GetCursorCommon.build (env : Env) (ck : CursorConsts) (fuel : Nat) (d : CursorDev)
    (cmd : Nat) (hot_x hot_y : Int) (surf : SURFOBJ) (type : Nat) :
    Option (Encoder × CursorDev) :=
  let unique := GetCursorCommon.unique env.consts surf
  if ¬ (env.layout.sizeof_Resource + ck.sizeof_InternalCursor < CURSOR_ALLOC_SIZE env.consts) then
    none
  else
    match AllocMem.done env d.s with
    | none => none
    | some (res, s1) =>
      let internal := res + env.layout.sizeof_Resource
      let chunk := internal + env.layout.off_cursor_chunk
      let heap1 : ResHeap :=
        { s1.heap with
          mem := fun a =>
            if a = res then { refs := 1, free := FreeFn.FreeCursor } else s1.heap.mem a }
      let cc1 : CursorCache :=
        { d.cc with
          cursors := fun a =>
            if a = internal then { d.cc.cursors a with hsurf := surf.hsurf, unique := unique }
            else d.cc.cursors a }
      let last_id := if unique ≠ 0 then (1 + d.last_cursor_id) % UINT32_MOD else d.last_cursor_id
      let width := toU32 surf.cx % 65536
      let header : QXLCursorHeader :=
        { unique := if unique ≠ 0 then last_id else 0
          type := type
          width := width
          height := if type = ck.CURSOR_TYPE_MONO then (toU32 surf.cy % 65536) >>> 1
                    else toU32 surf.cy % 65536
          hot_spot_x := toU32 hot_x % 65536
          hot_spot_y := toU32 hot_y % 65536 }
      match GetCursorCommon.line_size ck type width with
      | none => none
      | some line_size =>
        if surf.lDelta ≠ 0 ∧ surf.cy < 0 then none
        else
          match GetCursorCommon.rows env fuel surf.lDelta line_size
              (if surf.lDelta = 0 then 0 else surf.cy.toNat) surf.pvScan0
              { mem := fun a =>
                  if a = chunk then
                    { s1.chunks a with data_size := 0, prev_chunk := 0, next_chunk := 0 }
                  else s1.chunks a
                chunk := chunk
                now := 0
                end_ := (res + CURSOR_ALLOC_SIZE env.consts) -
                  (chunk + env.layout.sizeof_QXLDataChunk)
                nalloc := s1.nalloc } with
          | none => none
          | some st =>
            match CursorCacheAdd ck.CURSOR_HASH_NASKE ck.CURSOR_CACHE_SIZE
                env.layout.sizeof_Resource fuel heap1 cc1 internal with
            | none => none
            | some (h2, cc2) =>
              match CursorCmdAddRes h2 s1.outputs cmd res with
              | none => none
              | some (h3, outs) =>
                some (st,
                  { s := { s1 with heap := RELEASE_RES h3 res, outputs := outs,
                                   chunks := st.mem, nalloc := st.nalloc }
                    cc := cc2
                    last_cursor_id := last_id
                    headers := fun a => if a = internal then header else d.headers a
                    data_size := fun a =>
                      if a = internal then toU32 ((line_size : Int) * surf.cy)
                      else d.data_size a
                    shape := fun a =>
                      if a = cmd then PA env.main_slot (internal + env.layout.off_cursor)
                      else d.shape a })

/-- `GetCursorCommon(pdev, cmd, hot_x, hot_y, surf, type, info)`: the value
returned, the content of `*info` when the function has set it, and the new
state. -/
def GetCursorCommon (env : Env) (ck : CursorConsts) (fuel : Nat) (d : CursorDev) (cmd : Nat)
    (hot_x hot_y : Int) (surf : SURFOBJ) (type : Nat) :
    Option (Bool × Option Encoder × CursorDev) :=
  match CursorCacheGet ck.CURSOR_HASH_NASKE env.layout.sizeof_Resource fuel d.s.heap d.cc
      surf.hsurf (GetCursorCommon.unique env.consts surf) with
  | none => none
  | some (internal, h0, cc0) =>
    if internal ≠ 0 then
      match CursorCmdAddRes h0 d.s.outputs cmd (internal - env.layout.sizeof_Resource) with
      | none => none
      | some (h1, outs) =>
        some (true, none,
          { d with
            s := { d.s with heap := h1, outputs := outs }
            cc := cc0
            shape := fun a =>
              if a = cmd then PA env.main_slot (internal + env.layout.off_cursor)
              else d.shape a })
    else
      match GetCursorCommon.build env ck fuel { d with s := { d.s with heap := h0 }, cc := cc0 }
          cmd hot_x hot_y surf type with
      | none => none
      | some (st, d1) => some (false, some st, d1)

/-- `GetTransparentCursor(pdev, cmd)`: the new state (the function returns
`TRUE`). Of the embedded chunk only `data_size` is written. -/
def GetTransparentCursor (env : Env) (ck : CursorConsts) (d : CursorDev) (cmd : Nat) :
    Option CursorDev :=
  if ¬ (env.layout.sizeof_Resource + ck.sizeof_InternalCursor < env.consts.PAGE_SIZE) then none
  else
    match AllocMem.done env d.s with
    | none => none
    | some (res, s1) =>
      let internal := res + env.layout.sizeof_Resource
      let chunk := internal + env.layout.off_cursor_chunk
      let heap1 : ResHeap :=
        { s1.heap with
          mem := fun a =>
            if a = res then { refs := 1, free := FreeFn.FreeCursor } else s1.heap.mem a }
      match CursorCmdAddRes heap1 s1.outputs cmd res with
      | none => none
      | some (h2, outs) =>
        some
          { s := { s1 with
                   heap := RELEASE_RES h2 res
                   outputs := outs
                   chunks := fun a =>
                     if a = chunk then { s1.chunks a with data_size := 0 } else s1.chunks a }
            cc := { d.cc with
                    cursors := fun a =>
                      if a = internal then { d.cc.cursors a with hsurf := 0, unique := 0 }
                      else d.cc.cursors a }
            last_cursor_id := d.last_cursor_id
            headers := fun a =>
              if a = internal then
                { unique := 0, type := ck.CURSOR_TYPE_MONO, width := 0, height := 0,
                  hot_spot_x := 0, hot_spot_y := 0 }
              else d.headers a
            data_size := fun a => if a = internal then 0 else d.data_size a
            shape := fun a =>
              if a = cmd then PA env.main_slot (internal + env.layout.off_cursor)
              else d.shape a }

/-- Cursor constants for examples: a cache of 2 cursors with 8 buckets, and an
`InternalCursor` of 96 bytes. -/
def exampleCursorConsts : CursorConsts :=
  { CURSOR_TYPE_ALPHA := 0
    CURSOR_TYPE_MONO := 1
    CURSOR_TYPE_COLOR4 := 2
    CURSOR_TYPE_COLOR8 := 3
    CURSOR_TYPE_COLOR16 := 4
    CURSOR_TYPE_COLOR24 := 5
    CURSOR_TYPE_COLOR32 := 6
    CURSOR_HASH_NASKE := 7
    CURSOR_CACHE_SIZE := 2
    sizeof_InternalCursor := 96 }

/-- A driver state with cursor part for examples: the example state with the
empty example cursor cache. -/
def exampleCursorDev : CursorDev :=
  { s := examplePDev
    cc := exampleCurCache
    last_cursor_id := 0
    headers := fun _ =>
      { unique := 0, type := 0, width := 0, height := 0, hot_spot_x := 0, hot_spot_y := 0 }
    data_size := fun _ => 0
    shape := fun _ => 0 }

/-- The byte stream of an encoder that started on the chunk `c0` when `n0`
allocations had been made: the encoder `st` stands at the end of the payload
of the last chunk of the chain `c0 :: allocated env.alloc n0 m`, the chain is
linked, and the concatenation of `data[:data_size]` over the chain is
`written`. -/
def ByteChain (env : Env) (c0 n0 : Nat) (st : Encoder) (written : List Nat) : Prop :=
  ∃ m, st.nalloc = n0 + m ∧ st.chunk = (allocated env.alloc n0 m).getLastD c0 ∧
    Linked env.main_slot st.mem c0 (allocated env.alloc n0 m) ∧
    (st.mem st.chunk).data_size = st.now ∧ st.now ≤ st.end_ ∧
    (c0 :: allocated env.alloc n0 m).flatMap (fun a => chunkData (st.mem a)) = written

/-- A two-entry colour table (black, white) whose `flXlate` is
`XO_TRIVIAL | XO_TABLE` for the example constants. -/
def blackWhiteTable : XLATEOBJ :=
  { flXlate := 3, iUniq := 0, cEntries := 2, pulXlate := fun i => if i = 0 then 0 else 16777215 }

/-- A two-entry colour table (red, green) with the same `flXlate` as
`blackWhiteTable`. -/
def redGreenTable : XLATEOBJ :=
  { flXlate := 3, iUniq := 0, cEntries := 2,
    pulXlate := fun i => if i = 0 then 16711680 else 65280 }

/-- The row size the specification states for a row of `width` pixels of
`bpp` bits: `ceil(width * bpp / 8)` bytes. -/
def lineSizeSpec (bpp : Nat) (width : Int) : Nat := ((width * (bpp : Int) + 7) / 8).toNat

/-- The bits per pixel of a GDI bitmap format and the device format code
`BITMAP_FMT_*` the specification matches with it; `none` for every other format. -/
def formatSpec (k : Consts) (bitmap_format : Nat) : Option (Nat × Nat) :=
  if bitmap_format = k.BMF_32BPP then some (32, k.BITMAP_FMT_32BIT)
  else if bitmap_format = k.BMF_24BPP then some (24, k.BITMAP_FMT_24BIT)
  else if bitmap_format = k.BMF_16BPP then some (16, k.BITMAP_FMT_16BIT)
  else if bitmap_format = k.BMF_8BPP then some (8, k.BITMAP_FMT_8BIT)
  else if bitmap_format = k.BMF_4BPP then some (4, k.BITMAP_FMT_4BIT_BE)
  else if bitmap_format = k.BMF_1BPP then some (1, k.BITMAP_FMT_1BIT_BE)
  else none

/-- The bit address of pixel `(x, y)` in a bitmap of `bpp` bits per pixel
whose row 0 starts at the byte address `base` and whose rows are `stride`
bytes apart. -/
def pixelBit (base stride : Int) (bpp : Nat) (x y : Int) : Int :=
  8 * (base + y * stride) + x * (bpp : Int)

/-- The left edge the specification states for the rewritten area:
`left mod (8 / bpp)` for formats of fewer than 8 bits per pixel, 0 otherwise. -/
def dxSpec (bpp : Nat) (left : Int) : Int :=
  if bpp < 8 then left % (((8 / bpp : Nat) : Nat) : Int) else 0

/-- The area the specification states for the uncached branch of
`QXLGetBitmap`: left edge `dx`, top 0, the requested width and height. -/
def areaSpec (bpp : Nat) (area : Rect) : Rect :=
  { left := dxSpec bpp area.left, top := 0,
    right := dxSpec bpp area.left + (area.right - area.left),
    bottom := area.bottom - area.top }

/-- The value that `add_rast_glyphs` stores in `glyph->render_pos` for the glyph
`g`, `str_pos` being the content of `*str_pos` (`none` for `NULL`). -/
def add_rast_glyphs.render_pos (delta str_pos : Option (Int × Int)) (g : GLYPHPOS) : Int × Int :=
  match delta, str_pos with
  | some d, some p => (toI32 (p.1 + d.1), toI32 (p.2 + d.2))
  | _, _ => g.ptl

/-- The render positions that `add_rast_glyphs` stores for the glyphs `glyps`,
in order, `*str_pos` holding `str_pos` before the first of them. -/
def add_rast_glyphs.positions (delta : Option (Int × Int)) :
    Option (Int × Int) → List GLYPHPOS → List (Int × Int)
  | _, [] => []
  | str_pos, g :: rest =>
    add_rast_glyphs.render_pos delta str_pos g ::
      add_rast_glyphs.positions delta
        (if delta.isSome then some (add_rast_glyphs.render_pos delta str_pos g) else str_pos) rest

/-- The bytes of one raster glyph in the string payload: the `RasterGlyph`
record with the given render position, then the rows of the glyph bitmap. -/
def glyphBytes (env : Env) (bpp : Nat) (render_pos : Int × Int) (g : GLYPHPOS) : List Nat :=
  rasterGlyphBytes render_pos g.ptlOrigin (toU32 g.sizlBitmap.1 % 65536)
      (toU32 g.sizlBitmap.2 % 65536) ++
    glyphRows env.bytes g.aj ((ALIGN (toU32 g.sizlBitmap.1 % 65536 * bpp) 8 % UINT32_MOD) >>> 3)
      (toU32 g.sizlBitmap.2 % 65536)

/-- The glyphs that the loop of `QXLGetStr` hands to `add_glyphs`, in order,
when the enumerator's last batch is batch `n`: the array `pgp` when there is
one, else the batches 0 to `n`. -/
def QXLGetStr.glyphs (str : STROBJ) (n : Nat) : List GLYPHPOS :=
  match str.pgp with
  | some pgp => pgp.take str.cGlyphs
  | none => (List.range (n + 1)).flatMap (fun k => (str.bEnum k).2)

/-- The step the specification states for a fixed-pitch string: `ulCharInc`
along x, or along y when `SO_VERTICAL` is set, negated when `SO_REVERSED` is set. -/
def deltaSpec (k : Consts) (str : STROBJ) : Int × Int :=
  if str.flAccel &&& k.SO_VERTICAL ≠ 0 then
    (0, if str.flAccel &&& k.SO_REVERSED ≠ 0 then -(str.ulCharInc : Int) else str.ulCharInc)
  else
    (if str.flAccel &&& k.SO_REVERSED ≠ 0 then -(str.ulCharInc : Int) else str.ulCharInc, 0)

/-- The render positions the specification states for the glyphs `gs` of a
string: each glyph's own `ptl` when `ulCharInc = 0`, else `ptl` of glyph 0 plus
`i` times the step for glyph `i`. -/
def renderPositionsSpec (k : Consts) (str : STROBJ) (gs : List GLYPHPOS) : List (Int × Int) :=
  if str.ulCharInc = 0 then gs.map (fun g => g.ptl)
  else
    match gs with
    | [] => []
    | g0 :: _ =>
      (List.range gs.length).map
        (fun (i : Nat) => (g0.ptl.1 + (i : Int) * (deltaSpec k str).1,
                           g0.ptl.2 + (i : Int) * (deltaSpec k str).2))

/-- A fixed-pitch string for examples: step 7, horizontal, not reversed, three
one-pixel glyphs delivered in two batches (two glyphs, then one). -/
def fixedPitchStr : STROBJ :=
  { cGlyphs := 3
    flAccel := 0
    ulCharInc := 7
    pgp := none
    bEnum := fun k =>
      if k = 0 then
        (1, [{ ptl := (3, 4), ptlOrigin := (0, 0), sizlBitmap := (1, 1), aj := 255 },
             { ptl := (50, 60), ptlOrigin := (0, 0), sizlBitmap := (1, 1), aj := 255 }])
      else (0, [{ ptl := (90, 91), ptlOrigin := (0, 0), sizlBitmap := (1, 1), aj := 255 }]) }

/-- The statements of `InitResources` on the cursor cache (`res.c` lines
321-323): the buckets are zeroed, the ring is initialised and `num_cursors` is 0. -/
def InitResources.cursors (cc : CursorCache) : CursorCache :=
  { cc with cursor_cache := fun _ => 0, cursors_lru := RingInit, num_cursors := 0 }

/-- The driver states reachable through `GetCursorCommon`: the state after
`InitResources` has set up the cursor cache, then any number of calls of
`GetCursorCommon` that return, between which the rest of the driver may change
the state outside the cursor cache. At each call the block that `AllocMem` hands
out is not one that holds a cached cursor. -/
inductive CursorReachable (env : Env) (ck : CursorConsts) (fuel : Nat) : CursorDev → Prop
  | init (d : CursorDev) :
    CursorReachable env ck fuel { d with cc := InitResources.cursors d.cc }
  | other (d : CursorDev) (s : PDev) :
    CursorReachable env ck fuel d → CursorReachable env ck fuel { d with s := s }
  | call (d d1 : CursorDev) (cmd : Nat) (hot_x hot_y : Int) (surf : SURFOBJ) (type : Nat)
      (r : Bool) (info : Option Encoder) :
    CursorReachable env ck fuel d →
    env.alloc d.s.nalloc + env.layout.sizeof_Resource ∉ d.cc.cursors_lru →
    GetCursorCommon env ck fuel d cmd hot_x hot_y surf type = some (r, info, d1) →
    CursorReachable env ck fuel d1

/-- The bytes of one path batch in the payload: the `PathSeg` header (`flags`,
`count`, 4 bytes each, least significant first) followed by the `count * 8`
bytes of its points. -/
def pathSegBytes (env : Env) (data : PATHDATA) : List Nat :=
  bytesLE 4 data.flags ++ bytesLE 4 data.count ++ readBytes env.bytes data.pptfx (data.count * 8)

/-- The first `n` batches that the enumerator of `path` delivers. -/
def GetPathCommon.batches (path : PATHOBJ) (k n : Nat) : List PATHDATA :=
  (List.range n).map (fun j => (path.bEnum (k + j)).2)

/-- A path for examples: a batch of two points at address 0, then a batch of
30 points at address 16, the last. -/
def twoBatchPath : PATHOBJ :=
  { bEnum := fun k =>
      if k = 0 then (1, { flags := 1, count := 2, pptfx := 0 })
      else (0, { flags := 2, count := 30, pptfx := 16 }) }

/-- The rectangles that the loop of `GetClipRects` copies when the enumerator's
last batch is batch `k + n`: the batches `k` to `k + n`, in order. -/
def GetClipRects.rects (clip : CLIPOBJ) (k n : Nat) : List Rect :=
  (List.range (n + 1)).flatMap (fun j => (clip.bEnum (k + j)).2)

/-- The invariant of the rectangle loop of `GetClipRects` with 16-byte
rectangles, first chunk `c0`, `n0` allocations made before the loop: the
chain holds the rectangles `rs` copied so far; every chunk but the current
one is full (8 rectangles in the first, 20 in a continuation chunk); the
current chunk has the capacity of its kind, holds whole rectangles, and at
least one when it is a continuation chunk. -/
def RectsInv (env : Env) (c0 n0 : Nat) (st : Encoder) (rs : List Rect) : Prop :=
  ByteChain env c0 n0 st (rs.flatMap rectBytes) ∧
  ∀ m, st.nalloc = n0 + m →
    (0 < m → (st.mem c0).data_size = 16 * RECTS_NUM_PREALLOC) ∧
    (∀ i, i + 1 < m → (st.mem (env.alloc (n0 + i))).data_size = 16 * RECTS_NUM_ALLOC) ∧
    st.end_ = (if m = 0 then 16 * RECTS_NUM_PREALLOC else 16 * RECTS_NUM_ALLOC) ∧
    16 ∣ st.now ∧ (0 < m → 0 < st.now)

/-- A clip for examples whose enumerator delivers 20 rectangles and then 10
more, the rectangle number `i` of a batch being `(i, i) - (i + 1, i + 1)`. -/
def thirtyRectClip : CLIPOBJ :=
  { iDComplexity := 3
    iMode := 0
    rclBounds := { left := 0, top := 0, right := 20, bottom := 20 }
    ppoGetPath := none
    bEnum := fun k =>
      if k = 0 then
        (1, (List.range 20).map
          (fun (i : Nat) => { left := i, top := i, right := i + 1, bottom := i + 1 }))
      else
        (0, (List.range 10).map
          (fun (i : Nat) => { left := i, top := i, right := i + 1, bottom := i + 1 })) }

/-- The address of the `InternalCursor` that the miss path of `GetCursorCommon`
allocates in the state `d`; `info->cursor` is its member `cursor`. -/
def GetCursorCommon.cursor (env : Env) (d : CursorDev) : Nat :=
  env.alloc d.s.nalloc + env.layout.sizeof_Resource

/-- The `switch (surf->iBitmapFormat)` of `GetColorCursor`: the cursor type,
`none` for `default`. -/
def GetColorCursor.type (k : Consts) (ck : CursorConsts) (bitmap_format : Nat) : Option Nat :=
  if bitmap_format = k.BMF_32BPP then some ck.CURSOR_TYPE_COLOR32
  else if bitmap_format = k.BMF_24BPP then some ck.CURSOR_TYPE_COLOR24
  else if bitmap_format = k.BMF_16BPP then some ck.CURSOR_TYPE_COLOR16
  else if bitmap_format = k.BMF_8BPP then some ck.CURSOR_TYPE_COLOR8
  else if bitmap_format = k.BMF_4BPP then some ck.CURSOR_TYPE_COLOR4
  else none

/-- The bytes of a colour table of `entries` entries after the conversion of
each entry by `conv`, 4 bytes each, least significant first. -/
def convertedTableBytes (conv : Nat → Nat) (pulXlate : Nat → Nat) (entries : Nat) : List Nat :=
  (List.range entries).flatMap (fun i => bytesLE 4 (conv (pulXlate i)))

/-- The loop `for (i = 0; i < entries; i++) { UINT32 ent = _16bppTo32bpp(
color_trans->pulXlate[i]); PutBytes(..., (UINT8 *)&ent, 4, ..., PAGE_SIZE); }` of
`GetColorCursor` over the entries `is`; `conv` is `_16bppTo32bpp`, a function
of the driver's headers. -/
def GetColorCursor.entries (env : Env) (fuel : Nat) (conv : Nat → Nat) (pulXlate : Nat → Nat) :
    List Nat → Encoder → Option Encoder
  | [], st => some st
  | i :: rest, st =>
    match PutBytesAlign env.main_slot env.alloc st (bytesLE 4 (conv (pulXlate i))) 4
        env.consts.PAGE_SIZE 1 fuel with
    | none => none
    | some st1 => GetColorCursor.entries env fuel conv pulXlate rest st1

/-- The block of `GetColorCursor` that appends the colour table of `entries`
entries (256 for `CURSOR_TYPE_COLOR8`, 16 for `CURSOR_TYPE_COLOR4`): the four
assertions, then the table as it is when the device format `bitmap_format`
is `BMF_32BPP`, else entry by entry through `_16bppTo32bpp`. -/
def GetColorCursor.table (env : Env) (fuel : Nat) (bitmap_format : Nat) (conv : Nat → Nat)
    (color_trans : Option XLATEOBJ) (entries : Nat) (st : Encoder) : Option Encoder :=
  match color_trans with
  | none => none
  | some ct =>
    if ct.flXlate &&& env.consts.XO_TABLE = 0 then none
    else if ct.cEntries ≠ entries then none
    else if bitmap_format = env.consts.BMF_32BPP then
      PutBytesAlign env.main_slot env.alloc st (tableBytes ct.pulXlate entries) (entries <<< 2)
        env.consts.PAGE_SIZE 1 fuel
    else GetColorCursor.entries env fuel conv ct.pulXlate (List.range entries) st

/-- The statements of `GetColorCursor` after a `FALSE` return of
`GetCursorCommon`, for the cursor at `internal` and the encoder cursor `st`
that `info` holds: the colour table for the two palette types, then the
`surf->sizlBitmap.cy` rows of the mask; returns the encoder and the value of
`info.cursor->data_size`, which starts as `data_size`. -/
def GetColorCursor.append (env : Env) (ck : CursorConsts) (fuel : Nat) (bitmap_format : Nat)
    (conv : Nat → Nat) (surf mask : SURFOBJ) (color_trans : Option XLATEOBJ) (type : Nat)
    (st : Encoder) (data_size : Nat) : Option (Encoder × Nat) :=
  let tab : Option (Encoder × Nat) :=
    if type = ck.CURSOR_TYPE_COLOR8 then
      (GetColorCursor.table env fuel bitmap_format conv color_trans 256 st).map
        (fun st1 => (st1, (data_size + (256 <<< 2)) % UINT32_MOD))
    else if type = ck.CURSOR_TYPE_COLOR4 then
      (GetColorCursor.table env fuel bitmap_format conv color_trans 16 st).map
        (fun st1 => (st1, (data_size + (16 <<< 2)) % UINT32_MOD))
    else some (st, data_size)
  match tab with
  | none => none
  | some (st1, data_size1) =>
    let line_size := (ALIGN.int mask.cx 8 / 8).toNat
    if mask.lDelta ≠ 0 ∧ surf.cy < 0 then none
    else
      match GetCursorCommon.rows env fuel mask.lDelta line_size
          (if mask.lDelta = 0 then 0 else surf.cy.toNat) mask.pvScan0 st1 with
      | none => none
      | some st2 =>
        some (st2, (data_size1 + toU32 ((line_size : Int) * surf.cy)) % UINT32_MOD)

/-- `GetColorCursor(pdev, cmd, hot_x, hot_y, surf, mask, color_trans)`: the
value returned and the new state. `bitmap_format` is `pdev->bitmap_format`
and `conv` is `_16bppTo32bpp`. -/
def GetColorCursor (env : Env) (ck : CursorConsts) (fuel : Nat) (bitmap_format : Nat)
    (conv : Nat → Nat) (d : CursorDev) (cmd : Nat) (hot_x hot_y : Int) (surf mask : SURFOBJ)
    (color_trans : Option XLATEOBJ) : Option (Bool × CursorDev) :=
  if ¬ (0 < surf.cx ∧ surf.cy ≠ 0) then none
  else if mask.cx ≠ surf.cx ∨ mask.cy ≠ surf.cy * 2 then some (false, d)
  else
    match GetColorCursor.type env.consts ck surf.iBitmapFormat with
    | none => some (false, d)
    | some type =>
      match GetCursorCommon env ck fuel d cmd hot_x hot_y surf type with
      | none => none
      | some (true, _, d1) => some (true, d1)
      | some (false, none, _) => none
      | some (false, some st, d1) =>
        match GetColorCursor.append env ck fuel bitmap_format conv surf mask color_trans type st
            (d1.data_size (GetCursorCommon.cursor env d)) with
        | none => none
        | some (st2, data_size) =>
          some (true,
            { d1 with
              s := { d1.s with chunks := st2.mem, nalloc := st2.nalloc }
              data_size := fun a =>
                if a = GetCursorCommon.cursor env d then data_size else d1.data_size a })

/-- The line size the specification states for a cursor of the given type and
width: `4 * w` for ALPHA and COLOR32, `ceil(w / 8)` for MONO, `ceil(w / 2)` for
COLOR4, `w` for COLOR8, `2 * w` for COLOR16, `3 * w` for COLOR24. -/
def cursorLineSizeSpec (ck : CursorConsts) (type w : Nat) : Option Nat :=
  if type = ck.CURSOR_TYPE_ALPHA ∨ type = ck.CURSOR_TYPE_COLOR32 then some (4 * w)
  else if type = ck.CURSOR_TYPE_MONO then some ((w + 7) / 8)
  else if type = ck.CURSOR_TYPE_COLOR4 then some ((w + 1) / 2)
  else if type = ck.CURSOR_TYPE_COLOR8 then some w
  else if type = ck.CURSOR_TYPE_COLOR16 then some (2 * w)
  else if type = ck.CURSOR_TYPE_COLOR24 then some (3 * w)
  else none

/-- The rows of a surface as a cursor payload: `rows` rows of `line_size` bytes,
row `j` read at `scan0 + j * lDelta`. -/
def cursorRows (bytes : Int → Nat) (scan0 lDelta : Int) (line_size rows : Nat) : List Nat :=
  (List.range rows).flatMap
    (fun (j : Nat) => readBytes bytes (scan0 + (j : Int) * lDelta) line_size)

/-- The colour table the specification states for a colour cursor of the
given type: 256 entries for COLOR8 and 16 for COLOR4, 4 bytes each, converted
with `conv` when the device format is not 32 bits per pixel; nothing for the
other types. -/
def cursorTableSpec (k : Consts) (ck : CursorConsts) (bitmap_format : Nat) (conv : Nat → Nat)
    (pulXlate : Nat → Nat) (type : Nat) : List Nat :=
  if type = ck.CURSOR_TYPE_COLOR8 then
    (if bitmap_format = k.BMF_32BPP then tableBytes pulXlate 256
     else convertedTableBytes conv pulXlate 256)
  else if type = ck.CURSOR_TYPE_COLOR4 then
    (if bitmap_format = k.BMF_32BPP then tableBytes pulXlate 16
     else convertedTableBytes conv pulXlate 16)
  else []

/-- The payload the specification states for a colour cursor with rows of
`line_size` bytes: the `cy` rows of the surface, the colour table of the
palette types, then `cy` rows of `ceil(cx / 8)` bytes of the mask. -/
def colorCursorPayloadSpec (env : Env) (ck : CursorConsts) (bitmap_format : Nat)
    (conv : Nat → Nat) (surf mask : SURFOBJ) (pulXlate : Nat → Nat) (type line_size : Nat) :
    List Nat :=
  cursorRows env.bytes surf.pvScan0 surf.lDelta line_size surf.cy.toNat ++
    cursorTableSpec env.consts ck bitmap_format conv pulXlate type ++
    cursorRows env.bytes mask.pvScan0 mask.lDelta ((surf.cx.toNat + 7) / 8) surf.cy.toNat

/-- A 2 x 2 surface of 8 bits per pixel for examples, rows 8 bytes apart. -/
def paletteSurf : SURFOBJ :=
  { iType := 0, cx := 2, cy := 2, iBitmapFormat := 3, iUniq := 1, fjBitmap := 0, hsurf := 64,
    pvScan0 := 0, lDelta := 8 }

/-- The 2 x 4 mask of `paletteSurf`, 1 bit per pixel, rows 4 bytes apart. -/
def paletteMask : SURFOBJ :=
  { iType := 0, cx := 2, cy := 4, iBitmapFormat := 1, iUniq := 0, fjBitmap := 0, hsurf := 80,
    pvScan0 := 100, lDelta := 4 }

/-- A colour table of 256 grey levels for examples, with `flXlate = XO_TABLE`. -/
def greyTable : XLATEOBJ :=
  { flXlate := 2, iUniq := 0, cEntries := 256, pulXlate := fun i => 65793 * i }

/-! ## Theorems -/

theorem runOps_cons (res : Nat) (h : ResHeap) (op : ResOp) (ops : List ResOp) :
    runOps res h (op :: ops) = runOps res (applyOp res h op) ops := rfl

theorem GET_RES_refs (h : ResHeap) (res : Nat) :
    ((GET_RES h res).mem res).refs = (1 + (h.mem res).refs) % UINT32_MOD := by
  simp [GET_RES, ResHeap.setRefs]

theorem GET_RES_freeCalls (h : ResHeap) (res : Nat) :
    freeCalls (GET_RES h res) res = freeCalls h res := by
  simp [GET_RES, ResHeap.setRefs, freeCalls]

theorem RELEASE_RES_refs (h : ResHeap) (res : Nat) :
    ((RELEASE_RES h res).mem res).refs = (UINT32_MOD - 1 + (h.mem res).refs) % UINT32_MOD := by
  unfold RELEASE_RES
  simp only
  split <;> simp [ResHeap.setRefs]

theorem RELEASE_RES_freeCalls (h : ResHeap) (res : Nat) :
    freeCalls (RELEASE_RES h res) res = freeCalls h res +
      (if (UINT32_MOD - 1 + (h.mem res).refs) % UINT32_MOD = 0 then 1 else 0) := by
  unfold RELEASE_RES
  simp only
  split <;> simp [ResHeap.setRefs, freeCalls, List.filter_append]

theorem RELEASE_RES_wrap (n : Nat) (h1 : 1 ≤ n) (h2 : n < UINT32_MOD) :
    (UINT32_MOD - 1 + n) % UINT32_MOD = n - 1 := by
  have : UINT32_MOD - 1 + n = (n - 1) + 1 * UINT32_MOD := by omega
  rw [this, Nat.add_mul_mod_self_right, Nat.mod_eq_of_lt (by omega)]

theorem runOps_noRelease (res : Nat) (ops : List ResOp) :
    ∀ h : ResHeap, ResOp.RELEASE ∉ ops → freeCalls (runOps res h ops) res = freeCalls h res := by
  induction ops with
  | nil => intro h _; rfl
  | cons op t ih =>
    intro h hno
    rw [runOps_cons, ih _ (fun hm => hno (List.mem_cons_of_mem _ hm))]
    cases op with
    | GET => exact GET_RES_freeCalls h res
    | RELEASE => exact absurd (List.mem_cons_self _ _) hno

theorem NoReleaseAfterZero_tail (res : Nat) (h : ResHeap) (op : ResOp) (t : List ResOp)
    (hz : NoReleaseAfterZero res h (op :: t)) : NoReleaseAfterZero res (applyOp res h op) t := by
  intro i hi hr j hj
  have := hz (i + 1) (by simpa using hi) (by simpa using hr) (j + 1) (by omega)
  simpa [runOps_cons] using this

theorem NoReleaseAfterZero_dead (res : Nat) (h : ResHeap) (op : ResOp) (t : List ResOp)
    (hz : NoReleaseAfterZero res h (op :: t))
    (h0 : ((applyOp res h op).mem res).refs = 0) : ResOp.RELEASE ∉ t := by
  intro hm
  obtain ⟨i, hi, hr⟩ := List.getElem_of_mem hm
  have := hz (i + 1) (by simpa using hi) (by simp [List.getElem?_eq_getElem hi, hr]) 1 (by omega)
  exact this (by simpa [runOps] using h0)

/-- Per-step form of the reference-count law, for a resource that has
already seen `a` acquires and `r` releases since its count was `n`. -/
theorem refcount_step (res : Nat) (ops : List ResOp) :
    ∀ (h : ResHeap) (n a r : Nat), 1 ≤ (h.mem res).refs → (h.mem res).refs < UINT32_MOD →
      n + a = r + (h.mem res).refs → NoReleaseAfterZero res h ops →
      ∀ i, i < ops.length →
        freeCalls (runOps res h (ops.take (i + 1))) res =
          freeCalls (runOps res h (ops.take i)) res +
            (if r + (ops.take (i + 1)).count ResOp.RELEASE =
                n + a + (ops.take (i + 1)).count ResOp.GET then 1 else 0) := by
  induction ops with
  | nil => intro h n a r _ _ _ _ i hi; simp at hi
  | cons op t ih =>
    intro h n a r h1 h2 hc hz i hi
    have hzt := NoReleaseAfterZero_tail res h op t hz
    cases i with
    | zero =>
      cases op with
      | GET =>
        have : ¬ (r = n + a + 1) := by omega
        simp [runOps, applyOp, GET_RES_freeCalls, this]
      | RELEASE =>
        simp only [List.take_succ_cons, List.take_zero, runOps, List.foldl_cons, List.foldl_nil,
          applyOp, RELEASE_RES_freeCalls, RELEASE_RES_wrap _ h1 h2]
        have : ((h.mem res).refs - 1 = 0) ↔ (r + 1 = n + a) := by omega
        simp [this]
    | succ j =>
      have hj : j < t.length := by simpa using hi
      simp only [List.take_succ_cons, runOps_cons]
      by_cases hd : ((applyOp res h op).mem res).refs = 0
      · -- the count has left the live range: no release follows
        have hno := NoReleaseAfterZero_dead res h op t hz hd
        have hno1 : ResOp.RELEASE ∉ t.take (j + 1) := fun hm => hno (List.mem_of_mem_take hm)
        have hno2 : ResOp.RELEASE ∉ t.take j := fun hm => hno (List.mem_of_mem_take hm)
        rw [runOps_noRelease res _ _ hno1, runOps_noRelease res _ _ hno2]
        have hcnt : (t.take (j + 1)).count ResOp.GET = j + 1 := by
          have hl : (t.take (j + 1)).length = j + 1 := by
            rw [List.length_take]; omega
          have hall : ∀ x ∈ t.take (j + 1), x = ResOp.GET := by
            intro x hx
            cases x with
            | GET => rfl
            | RELEASE => exact absurd hx hno1
          rw [List.count_eq_length.mpr (fun x hx => (hall x hx).symm), hl]
        have hcr : (t.take (j + 1)).count ResOp.RELEASE = 0 := List.count_eq_zero.mpr hno1
        cases op with
        | GET =>
          simp only [List.count_cons, hcnt, hcr]
          have : ¬ (r + (0 + if (ResOp.GET == ResOp.RELEASE) = true then 1 else 0) =
              n + a + (j + 1 + if (ResOp.GET == ResOp.GET) = true then 1 else 0)) := by
            simp; omega
          simp only [this, if_false, Nat.add_zero]
        | RELEASE =>
          have hm1 : (h.mem res).refs = 1 := by
            rw [applyOp, RELEASE_RES_refs, RELEASE_RES_wrap _ h1 h2] at hd; omega
          simp only [List.count_cons, hcnt, hcr]
          have : ¬ (r + (0 + if (ResOp.RELEASE == ResOp.RELEASE) = true then 1 else 0) =
              n + a + (j + 1 + if (ResOp.RELEASE == ResOp.GET) = true then 1 else 0)) := by
            simp; omega
          simp only [this, if_false, Nat.add_zero]
      · cases op with
        | GET =>
          have hr : ((applyOp res h ResOp.GET).mem res).refs = (h.mem res).refs + 1 := by
            have hg := GET_RES_refs h res
            rw [applyOp] at hd ⊢
            rw [hg] at hd ⊢
            by_cases hlt : 1 + (h.mem res).refs < UINT32_MOD
            · rw [Nat.mod_eq_of_lt hlt]; omega
            · exfalso; apply hd
              have : 1 + (h.mem res).refs = UINT32_MOD := by omega
              rw [this]; exact Nat.mod_self _
          have hlt : (h.mem res).refs + 1 < UINT32_MOD := by
            by_contra hge
            have hg := GET_RES_refs h res
            rw [applyOp] at hd
            apply hd
            rw [hg]
            have : 1 + (h.mem res).refs = UINT32_MOD := by omega
            rw [this]; exact Nat.mod_self _
          have := ih (applyOp res h ResOp.GET) n (a + 1) r (by omega) (by omega) (by omega) hzt j hj
          rw [this]
          simp only [List.count_cons]
          have e : (r + ((t.take (j + 1)).count ResOp.RELEASE +
                if (ResOp.GET == ResOp.RELEASE) = true then 1 else 0) =
              n + a + ((t.take (j + 1)).count ResOp.GET +
                if (ResOp.GET == ResOp.GET) = true then 1 else 0)) ↔
              (r + (t.take (j + 1)).count ResOp.RELEASE =
                n + (a + 1) + (t.take (j + 1)).count ResOp.GET) := by
            simp; omega
          simp only [e]
        | RELEASE =>
          have hr : ((applyOp res h ResOp.RELEASE).mem res).refs = (h.mem res).refs - 1 := by
            rw [applyOp, RELEASE_RES_refs, RELEASE_RES_wrap _ h1 h2]
          rw [hr] at hd
          have := ih (applyOp res h ResOp.RELEASE) n a (r + 1) (by omega) (by omega) (by omega)
            hzt j hj
          rw [this]
          simp only [List.count_cons]
          have e : (r + ((t.take (j + 1)).count ResOp.RELEASE +
                if (ResOp.RELEASE == ResOp.RELEASE) = true then 1 else 0) =
              n + a + ((t.take (j + 1)).count ResOp.GET +
                if (ResOp.RELEASE == ResOp.GET) = true then 1 else 0)) ↔
              (r + 1 + (t.take (j + 1)).count ResOp.RELEASE =
                n + a + (t.take (j + 1)).count ResOp.GET) := by
            simp; omega
          simp only [e]

theorem GET_RES_live (res : Nat) (h : ResHeap)
    (hd : ¬ ((applyOp res h ResOp.GET).mem res).refs = 0) :
    ((applyOp res h ResOp.GET).mem res).refs = (h.mem res).refs + 1 ∧
      (h.mem res).refs + 1 < UINT32_MOD ∨ UINT32_MOD ≤ (h.mem res).refs := by
  have hg := GET_RES_refs h res
  rw [applyOp] at hd ⊢
  rw [hg] at hd ⊢
  by_cases hlt : 1 + (h.mem res).refs < UINT32_MOD
  · left; rw [Nat.mod_eq_of_lt hlt]; omega
  · by_cases he : 1 + (h.mem res).refs = UINT32_MOD
    · exfalso; apply hd; rw [he]; exact Nat.mod_self _
    · right; omega

/-- Whole-run form of the reference-count law. -/
theorem refcount_total (res : Nat) (ops : List ResOp) :
    ∀ (h : ResHeap) (n a r : Nat), 1 ≤ (h.mem res).refs → (h.mem res).refs < UINT32_MOD →
      n + a = r + (h.mem res).refs → NoReleaseAfterZero res h ops →
      freeCalls (runOps res h ops) res = freeCalls h res +
        (if ∃ i, i < ops.length ∧ r + (ops.take (i + 1)).count ResOp.RELEASE =
            n + a + (ops.take (i + 1)).count ResOp.GET then 1 else 0) := by
  induction ops with
  | nil => intro h n a r _ _ _ _; simp [runOps]
  | cons op t ih =>
    intro h n a r h1 h2 hc hz
    have hzt := NoReleaseAfterZero_tail res h op t hz
    rw [runOps_cons]
    by_cases hd : ((applyOp res h op).mem res).refs = 0
    · have hno := NoReleaseAfterZero_dead res h op t hz hd
      rw [runOps_noRelease res _ _ hno]
      cases op with
      | GET =>
        have hex : ¬ ∃ i, i < (ResOp.GET :: t).length ∧
            r + ((ResOp.GET :: t).take (i + 1)).count ResOp.RELEASE =
              n + a + ((ResOp.GET :: t).take (i + 1)).count ResOp.GET := by
          rintro ⟨i, _, hi⟩
          have : ((ResOp.GET :: t).take (i + 1)).count ResOp.RELEASE = 0 := by
            apply List.count_eq_zero.mpr
            intro hm
            have := List.mem_of_mem_take hm
            simp at this
            exact hno this
          omega
        rw [if_neg hex]
        exact GET_RES_freeCalls h res
      | RELEASE =>
        have hm1 : (h.mem res).refs = 1 := by
          rw [applyOp, RELEASE_RES_refs, RELEASE_RES_wrap _ h1 h2] at hd; omega
        have hex : ∃ i, i < (ResOp.RELEASE :: t).length ∧
            r + ((ResOp.RELEASE :: t).take (i + 1)).count ResOp.RELEASE =
              n + a + ((ResOp.RELEASE :: t).take (i + 1)).count ResOp.GET :=
          ⟨0, by simp, by simp; omega⟩
        rw [if_pos hex, applyOp, RELEASE_RES_freeCalls, RELEASE_RES_wrap _ h1 h2, hm1]
        rfl
    · cases op with
      | GET =>
        rcases GET_RES_live res h hd with ⟨hr, hlt⟩ | hbad
        · rw [ih (applyOp res h ResOp.GET) n (a + 1) r (by omega) (by omega) (by omega) hzt]
          have hf : freeCalls (applyOp res h ResOp.GET) res = freeCalls h res :=
            GET_RES_freeCalls h res
          rw [hf]
          have e : (∃ i, i < t.length ∧ r + (t.take (i + 1)).count ResOp.RELEASE =
                n + (a + 1) + (t.take (i + 1)).count ResOp.GET) ↔
              (∃ i, i < (ResOp.GET :: t).length ∧
                r + ((ResOp.GET :: t).take (i + 1)).count ResOp.RELEASE =
                  n + a + ((ResOp.GET :: t).take (i + 1)).count ResOp.GET) := by
            constructor
            · rintro ⟨i, hi, hci⟩
              refine ⟨i + 1, by simpa using hi, ?_⟩
              simp only [List.take_succ_cons, List.count_cons]
              simp; omega
            · rintro ⟨i, hi, hci⟩
              cases i with
              | zero => simp at hci; omega
              | succ j =>
                refine ⟨j, by simpa using hi, ?_⟩
                simp only [List.take_succ_cons, List.count_cons] at hci
                simp at hci; omega
          simp only [e]
        · omega
      | RELEASE =>
        have hr : ((applyOp res h ResOp.RELEASE).mem res).refs = (h.mem res).refs - 1 := by
          rw [applyOp, RELEASE_RES_refs, RELEASE_RES_wrap _ h1 h2]
        rw [hr] at hd
        rw [ih (applyOp res h ResOp.RELEASE) n a (r + 1) (by omega) (by omega) (by omega) hzt]
        have hf : freeCalls (applyOp res h ResOp.RELEASE) res = freeCalls h res := by
          rw [applyOp, RELEASE_RES_freeCalls, RELEASE_RES_wrap _ h1 h2, if_neg hd]; rfl
        rw [hf]
        have e : (∃ i, i < t.length ∧ r + 1 + (t.take (i + 1)).count ResOp.RELEASE =
              n + a + (t.take (i + 1)).count ResOp.GET) ↔
            (∃ i, i < (ResOp.RELEASE :: t).length ∧
              r + ((ResOp.RELEASE :: t).take (i + 1)).count ResOp.RELEASE =
                n + a + ((ResOp.RELEASE :: t).take (i + 1)).count ResOp.GET) := by
          constructor
          · rintro ⟨i, hi, hci⟩
            refine ⟨i + 1, by simpa using hi, ?_⟩
            simp only [List.take_succ_cons, List.count_cons]
            simp; omega
          · rintro ⟨i, hi, hci⟩
            cases i with
            | zero => simp at hci; omega
            | succ j =>
              refine ⟨j, by simpa using hi, ?_⟩
              simp only [List.take_succ_cons, List.count_cons] at hci
              simp at hci; omega
        simp only [e]

theorem applyOp_refs_lt (res : Nat) (h : ResHeap) (op : ResOp) :
    ((applyOp res h op).mem res).refs < UINT32_MOD := by
  cases op with
  | GET => rw [applyOp, GET_RES_refs]; exact Nat.mod_lt _ (by decide)
  | RELEASE => rw [applyOp, RELEASE_RES_refs]; exact Nat.mod_lt _ (by decide)

theorem runOps_refs_lt (res : Nat) (ops : List ResOp) :
    ∀ h : ResHeap, (h.mem res).refs < UINT32_MOD →
      ((runOps res h ops).mem res).refs < UINT32_MOD := by
  induction ops with
  | nil => intro h hh; exact hh
  | cons op t ih => intro h _; rw [runOps_cons]; exact ih _ (applyOp_refs_lt res h op)

theorem runOps_take_succ (res : Nat) (h : ResHeap) (ops : List ResOp) (i : Nat)
    (hi : i < ops.length) :
    runOps res h (ops.take (i + 1)) = applyOp res (runOps res h (ops.take i)) ops[i] := by
  unfold runOps
  rw [List.take_succ, List.getElem?_eq_getElem hi, List.foldl_append]
  rfl

/-- C1. For a resource whose `refs` is `n >= 1`, over any sequence of
`GET_RES` / `RELEASE_RES` in which no release follows `refs` reaching 0:
the finalizer `res->free` is invoked at an operation exactly when that
operation makes the releases equal `n` plus the acquires; that operation is
then a release taking `refs` from 1 to 0; and over the whole sequence the
finalizer runs once if such a point exists and not at all otherwise. -/
theorem C1_finalizer_runs_exactly_once (h : ResHeap) (res : Nat) (ops : List ResOp)
    (hn : 1 ≤ (h.mem res).refs) (hw : (h.mem res).refs < UINT32_MOD)
    (hz : NoReleaseAfterZero res h ops) :
    (∀ i, i < ops.length →
        freeCalls (runOps res h (ops.take (i + 1))) res =
          freeCalls (runOps res h (ops.take i)) res +
            (if netZero (h.mem res).refs (ops.take (i + 1)) then 1 else 0)) ∧
    (∀ i, i < ops.length → netZero (h.mem res).refs (ops.take (i + 1)) →
        ops[i]? = some ResOp.RELEASE ∧
        ((runOps res h (ops.take i)).mem res).refs = 1 ∧
        ((runOps res h (ops.take (i + 1))).mem res).refs = 0) ∧
    freeCalls (runOps res h ops) res = freeCalls h res +
      (if ∃ i, i < ops.length ∧ netZero (h.mem res).refs (ops.take (i + 1)) then 1 else 0) := by
  have hstep : ∀ i, i < ops.length →
      freeCalls (runOps res h (ops.take (i + 1))) res =
        freeCalls (runOps res h (ops.take i)) res +
          (if netZero (h.mem res).refs (ops.take (i + 1)) then 1 else 0) := by
    intro i hi
    have := refcount_step res ops h (h.mem res).refs 0 0 hn hw (by omega) hz i hi
    simpa [netZero] using this
  refine ⟨hstep, ?_, ?_⟩
  · intro i hi hnz
    have hs := hstep i hi
    rw [if_pos hnz, runOps_take_succ res h ops i hi] at hs
    have hlt := runOps_refs_lt res (ops.take i) h hw
    rw [runOps_take_succ res h ops i hi, List.getElem?_eq_getElem hi]
    generalize runOps res h (ops.take i) = s at hs hlt ⊢
    generalize ops[i] = op at hs ⊢
    cases op with
    | GET => rw [applyOp, GET_RES_freeCalls] at hs; omega
    | RELEASE =>
      rw [applyOp, RELEASE_RES_freeCalls] at hs
      have hmod : (UINT32_MOD - 1 + (s.mem res).refs) % UINT32_MOD = 0 := by
        by_contra hne
        rw [if_neg hne] at hs; omega
      have h1 : (s.mem res).refs = 1 := by
        by_cases h0 : (s.mem res).refs = 0
        · rw [h0] at hmod; simp at hmod
        · rw [RELEASE_RES_wrap _ (by omega) hlt] at hmod; omega
      refine ⟨rfl, h1, ?_⟩
      rw [applyOp, RELEASE_RES_refs]; exact hmod
  · have := refcount_total res ops h (h.mem res).refs 0 0 hn hw (by omega) hz
    simpa [netZero] using this

/-- Witness for C1: a resource with `refs = 2` that is acquired once and
released three times is finalized exactly once, at the third release. -/
theorem C1_finalizer_runs_exactly_once_witness :
    NoReleaseAfterZero 32 exampleHeap [ResOp.GET, ResOp.RELEASE, ResOp.RELEASE, ResOp.RELEASE] ∧
    freeCalls (runOps 32 exampleHeap
      [ResOp.GET, ResOp.RELEASE, ResOp.RELEASE, ResOp.RELEASE]) 32 = 1 := by
  have hz : NoReleaseAfterZero 32 exampleHeap
      [ResOp.GET, ResOp.RELEASE, ResOp.RELEASE, ResOp.RELEASE] := by decide
  refine ⟨hz, ?_⟩
  have := (C1_finalizer_runs_exactly_once exampleHeap 32
    [ResOp.GET, ResOp.RELEASE, ResOp.RELEASE, ResOp.RELEASE] (by decide) (by decide) hz).2.2
  rw [this]
  decide

/-! ### Output envelopes -/

theorem ReleaseOutput_loop_eq (resources : Nat → Nat) (k : Nat) :
    ∀ (now : Nat) (h : ResHeap),
      ReleaseOutput.loop resources k now h =
        ((List.range k).map (fun i => resources (now + i))).foldl RELEASE_RES h := by
  induction k with
  | zero => intro now h; rfl
  | succ k ih =>
    intro now h
    rw [ReleaseOutput.loop, ih, List.range_succ_eq_map]
    simp only [List.map_cons, List.map_map, List.foldl_cons, Nat.add_zero]
    congr 2
    funext i
    simp only [Function.comp_apply]
    congr 1
    omega

theorem RELEASE_RES_mem_other (h : ResHeap) (res p : Nat) (hp : p ≠ res) :
    (RELEASE_RES h res).mem p = h.mem p := by
  simp only [RELEASE_RES]
  split_ifs <;> simp [ResHeap.setRefs, hp]

theorem RELEASE_RES_free (h : ResHeap) (res p : Nat) :
    ((RELEASE_RES h res).mem p).free = (h.mem p).free := by
  simp only [RELEASE_RES]
  split_ifs <;> simp only [ResHeap.setRefs] <;> split_ifs <;> simp_all

theorem RELEASE_RES_freeCalls_other (h : ResHeap) (res p : Nat) (hp : p ≠ res) :
    freeCalls (RELEASE_RES h res) p = freeCalls h p := by
  simp only [RELEASE_RES]
  split_ifs <;> simp [ResHeap.setRefs, freeCalls, List.filter_append, Ne.symm hp]

theorem RELEASE_RES_mem_free_log (h : ResHeap) (res : Nat) :
    (RELEASE_RES h res).mem_free_log = h.mem_free_log ∧
    (RELEASE_RES h res).mspace = h.mspace ∧
    (RELEASE_RES h res).mspace_start = h.mspace_start ∧
    (RELEASE_RES h res).mspace_end = h.mspace_end := by
  simp only [RELEASE_RES]
  split_ifs <;> simp [ResHeap.setRefs]

theorem foldl_RELEASE_RES_arena (L : List Nat) :
    ∀ h : ResHeap, (L.foldl RELEASE_RES h).mem_free_log = h.mem_free_log ∧
      (L.foldl RELEASE_RES h).mspace = h.mspace ∧
      (L.foldl RELEASE_RES h).mspace_start = h.mspace_start ∧
      (L.foldl RELEASE_RES h).mspace_end = h.mspace_end := by
  induction L with
  | nil => intro h; exact ⟨rfl, rfl, rfl, rfl⟩
  | cons q t ih =>
    intro h
    obtain ⟨a, b, c, d⟩ := ih (RELEASE_RES h q)
    obtain ⟨a1, b1, c1, d1⟩ := RELEASE_RES_mem_free_log h q
    exact ⟨a.trans a1, b.trans b1, c.trans c1, d.trans d1⟩

theorem foldl_RELEASE_RES_refs (L : List Nat) (p : Nat) :
    ∀ h : ResHeap,
      (((L.foldl RELEASE_RES h).mem p).refs + L.count p) % UINT32_MOD =
        (h.mem p).refs % UINT32_MOD := by
  induction L with
  | nil => intro h; rfl
  | cons q t ih =>
    intro h
    rw [List.foldl_cons, List.count_cons, ← Nat.add_assoc, Nat.add_mod, ih (RELEASE_RES h q)]
    by_cases hq : q = p
    · subst hq
      rw [RELEASE_RES_refs]
      simp only [beq_self_eq_true, if_true]
      rw [Nat.mod_mod, ← Nat.add_mod]
      have : UINT32_MOD - 1 + (h.mem q).refs + 1 = (h.mem q).refs + 1 * UINT32_MOD := by
        show 4294967296 - 1 + (h.mem q).refs + 1 = (h.mem q).refs + 1 * 4294967296
        omega
      rw [this, Nat.add_mul_mod_self_right]
    · have hne : p ≠ q := fun e => hq e.symm
      rw [RELEASE_RES_mem_other h q p hne]
      have : (q == p) = false := by simpa using hq
      simp [this]

theorem foldl_RELEASE_RES_other (L : List Nat) (p : Nat) :
    ∀ h : ResHeap, p ∉ L →
      (L.foldl RELEASE_RES h).mem p = h.mem p ∧
      freeCalls (L.foldl RELEASE_RES h) p = freeCalls h p := by
  induction L with
  | nil => intro h _; exact ⟨rfl, rfl⟩
  | cons q t ih =>
    intro h hp
    have hq : p ≠ q := fun e => hp (e ▸ List.mem_cons_self _ _)
    obtain ⟨a, b⟩ := ih (RELEASE_RES h q) (fun hm => hp (List.mem_cons_of_mem _ hm))
    exact ⟨a.trans (RELEASE_RES_mem_other h q p hq),
      b.trans (RELEASE_RES_freeCalls_other h q p hq)⟩

/-- C2. For an envelope with `num_res = k <= 6` that lies in the arena,
`ReleaseOutput` returns the 64-bit value held in the first 8 payload bytes;
its effect on the resources is that of one `RELEASE_RES` on each of
`resources[0..k-1]` in slot order (so a resource attached `c` times has its
count lowered by `c`, modulo 2^32) and no resource outside these slots is
touched or finalized; and exactly one block, the envelope, is handed to
`FreeMem`. -/
theorem C2_ReleaseOutput_releases_attached (h : ResHeap) (outs : Outputs) (output_id : Nat)
    (_hk : (outs output_id).num_res ≤ MAX_OUTPUT_RES) (hid : output_id ≠ 0)
    (hms : h.mspace ≠ 0) (hlo : h.mspace_start ≤ output_id) (hhi : output_id < h.mspace_end) :
    ∃ h1 : ResHeap,
      ReleaseOutput h outs output_id = some (readU64 (outs output_id).data, h1) ∧
      h1.mem = ((attached (outs output_id) (outs output_id).num_res).foldl RELEASE_RES h).mem ∧
      h1.free_log =
        ((attached (outs output_id) (outs output_id).num_res).foldl RELEASE_RES h).free_log ∧
      h1.mem_free_log = h.mem_free_log ++ [output_id] ∧
      (∀ p, ((h1.mem p).refs +
          (attached (outs output_id) (outs output_id).num_res).count p) % UINT32_MOD =
            (h.mem p).refs % UINT32_MOD) ∧
      (∀ p, p ∉ attached (outs output_id) (outs output_id).num_res →
          h1.mem p = h.mem p ∧ freeCalls h1 p = freeCalls h p) := by
  have hloop : ReleaseOutput.loop (outs output_id).resources (outs output_id).num_res 0 h =
      (attached (outs output_id) (outs output_id).num_res).foldl RELEASE_RES h := by
    rw [ReleaseOutput_loop_eq]
    simp [attached]
  obtain ⟨a, b, c, d⟩ :=
    foldl_RELEASE_RES_arena (attached (outs output_id) (outs output_id).num_res) h
  refine ⟨{ (attached (outs output_id) (outs output_id).num_res).foldl RELEASE_RES h with
      mem_free_log := h.mem_free_log ++ [output_id] }, ?_, rfl, rfl, rfl, ?_, ?_⟩
  · simp only [ReleaseOutput, if_neg hid, hloop, FreeMem, b, c, d, a]
    rw [if_pos ⟨hms, hlo, hhi⟩]
  · intro p
    exact foldl_RELEASE_RES_refs _ p h
  · intro p hp
    exact foldl_RELEASE_RES_other _ p h hp

/-- Witness for C2: an envelope at address 128 holding the resource at 32
twice and the one at 64 once, every count being 2 beforehand. -/
theorem C2_ReleaseOutput_releases_attached_witness :
    ∃ h1 : ResHeap, ReleaseOutput exampleHeap exampleOutputs 128 = some (258, h1) ∧
      (h1.mem 32).refs = 0 ∧ (h1.mem 64).refs = 1 ∧ (h1.mem 96).refs = 2 ∧
      h1.free_log = [(FreeFn.FreeBuf, 32)] ∧ h1.mem_free_log = [128] := by
  obtain ⟨h1, hr, hm, hf, hl, _, _⟩ :=
    C2_ReleaseOutput_releases_attached exampleHeap exampleOutputs 128
      (by decide) (by decide) (by decide) (by decide) (by decide)
  refine ⟨h1, hr, ?_, ?_, ?_, ?_, ?_⟩
  · rw [hm]; decide
  · rw [hm]; decide
  · rw [hm]; decide
  · rw [hf]; decide
  · rw [hl]; rfl

theorem AddRes_some (h : ResHeap) (outs : Outputs) (output res : Nat)
    (hk : (outs output).num_res < MAX_OUTPUT_RES) :
    AddRes h outs output res =
      some (h.setRefs res ((1 + (h.mem res).refs) % UINT32_MOD),
        fun a => if a = output then
          { outs output with
            resources := fun i => if i = (outs output).num_res then res else (outs output).resources i
            num_res := (outs output).num_res + 1 }
        else outs a) := by
  simp only [AddRes, if_pos hk]

theorem AddRes_none (h : ResHeap) (outs : Outputs) (output res : Nat)
    (hk : MAX_OUTPUT_RES ≤ (outs output).num_res) : AddRes h outs output res = none := by
  simp only [AddRes, if_neg (Nat.not_lt.mpr hk)]

theorem attached_succ (o : QXLOutput) (k res : Nat) :
    attached { o with resources := fun i => if i = k then res else o.resources i,
                      num_res := o.num_res + 1 } (k + 1) = attached o k ++ [res] := by
  simp only [attached, List.range_succ, List.map_append, List.map_cons, List.map_nil, if_true]
  congr 1
  apply List.map_congr_left
  intro i hi
  have : i ≠ k := Nat.ne_of_lt (List.mem_range.mp hi)
  simp [this]

theorem attached_prefix (o : QXLOutput) (k n res : Nat) (hn : n ≤ k) :
    attached { o with resources := fun i => if i = k then res else o.resources i,
                      num_res := o.num_res + 1 } n = attached o n := by
  simp only [attached]
  apply List.map_congr_left
  intro i hi
  have : i ≠ k := Nat.ne_of_lt (Nat.lt_of_lt_of_le (List.mem_range.mp hi) hn)
  simp [this]

theorem AddRes_some_spec (h : ResHeap) (outs : Outputs) (output res : Nat)
    (hk : (outs output).num_res < MAX_OUTPUT_RES) :
    ∃ h1 outs1, AddRes h outs output res = some (h1, outs1) ∧
      (outs1 output).num_res = (outs output).num_res + 1 ∧
      attached (outs1 output) ((outs output).num_res + 1) =
        attached (outs output) (outs output).num_res ++ [res] := by
  refine ⟨_, _, AddRes_some h outs output res hk, ?_, ?_⟩
  · simp
  · simp only [if_true]
    exact attached_succ (outs output) (outs output).num_res res

theorem addAll_spec (output : Nat) (rs : List Nat) :
    ∀ (h : ResHeap) (outs : Outputs), (outs output).num_res ≤ MAX_OUTPUT_RES →
      ((outs output).num_res + rs.length ≤ MAX_OUTPUT_RES →
        ∃ h1 outs1, addAll output h outs rs = some (h1, outs1) ∧
          (outs1 output).num_res = (outs output).num_res + rs.length ∧
          attached (outs1 output) (outs1 output).num_res =
            attached (outs output) (outs output).num_res ++ rs) ∧
      (MAX_OUTPUT_RES < (outs output).num_res + rs.length →
        addAll output h outs rs = none) := by
  induction rs with
  | nil =>
    intro h outs h6
    exact ⟨fun _ => ⟨h, outs, rfl, rfl, by simp⟩, fun hk => by simp at hk; omega⟩
  | cons res t ih =>
    intro h outs h6
    by_cases hk : (outs output).num_res < MAX_OUTPUT_RES
    · obtain ⟨h', outs', hadd, hnum, hatt⟩ := AddRes_some_spec h outs output res hk
      simp only [addAll, hadd]
      obtain ⟨ih1, ih2⟩ := ih h' outs' (by rw [hnum]; omega)
      constructor
      · intro hle
        obtain ⟨h1, outs1, he, hn, ha⟩ := ih1 (by rw [hnum]; simp at hle; omega)
        refine ⟨h1, outs1, he, ?_, ?_⟩
        · rw [hn, hnum]; simp; omega
        · rw [ha, hnum, hatt]
          simp
      · intro hgt
        exact ih2 (by rw [hnum]; simp at hgt; omega)
    · have hnone := AddRes_none h outs output res (Nat.not_lt.mp hk)
      simp only [addAll, hnone]
      exact ⟨fun hle => by simp at hle; omega, fun _ => trivial⟩

/-- C3. `AddRes` on an envelope with `num_res < 6` succeeds: the resource's
`refs` is incremented by one (as a `UINT32`), the resource is stored at
`resources[num_res]`, `num_res` grows by one, and the earlier slots, the
payload, the other resources and the other envelopes are unchanged. On an
envelope that already holds 6 resources the assertion fails and nothing is
attached. Hence an envelope initialised by `GetDrawable` / `CursorCmd` and
filled by `AddRes` accepts exactly the first 6 resources, and its `num_res`
is the number attached, never more than `MAX_OUTPUT_RES`. -/
theorem C3_AddRes_bounded (h : ResHeap) (outs : Outputs) (output res : Nat) :
    ((outs output).num_res < MAX_OUTPUT_RES →
      ∃ h1 outs1, AddRes h outs output res = some (h1, outs1) ∧
        (h1.mem res).refs = (1 + (h.mem res).refs) % UINT32_MOD ∧
        ((h.mem res).refs + 1 < UINT32_MOD → (h1.mem res).refs = (h.mem res).refs + 1) ∧
        (h1.mem res).free = (h.mem res).free ∧
        (∀ p, p ≠ res → h1.mem p = h.mem p) ∧
        h1.free_log = h.free_log ∧ h1.mem_free_log = h.mem_free_log ∧
        (outs1 output).resources (outs output).num_res = res ∧
        (outs1 output).num_res = (outs output).num_res + 1 ∧
        (∀ i, i < (outs output).num_res →
          (outs1 output).resources i = (outs output).resources i) ∧
        (outs1 output).data = (outs output).data ∧
        (∀ a, a ≠ output → outs1 a = outs a)) ∧
    (MAX_OUTPUT_RES ≤ (outs output).num_res → AddRes h outs output res = none) ∧
    (∀ rs : List Nat,
      (rs.length ≤ MAX_OUTPUT_RES →
        ∃ h1 outs1, addAll output h (GetDrawable outs output).1 rs = some (h1, outs1) ∧
          (outs1 output).num_res = rs.length ∧
          (outs1 output).num_res ≤ MAX_OUTPUT_RES ∧
          attached (outs1 output) (outs1 output).num_res = rs) ∧
      (MAX_OUTPUT_RES < rs.length →
        addAll output h (GetDrawable outs output).1 rs = none)) := by
  refine ⟨?_, AddRes_none h outs output res, ?_⟩
  · intro hk
    refine ⟨_, _, AddRes_some h outs output res hk, ?_, ?_, ?_, ?_, rfl, rfl, ?_, ?_, ?_, ?_, ?_⟩
    · simp [ResHeap.setRefs]
    · intro hlt
      simp only [ResHeap.setRefs, if_true]
      rw [Nat.mod_eq_of_lt (by omega)]; omega
    · simp [ResHeap.setRefs]
    · intro p hp; simp [ResHeap.setRefs, hp]
    · simp
    · simp
    · intro i hi
      have : i ≠ (outs output).num_res := Nat.ne_of_lt hi
      simp [this]
    · simp
    · intro a ha; simp [ha]
  · intro rs
    have h0 : ((GetDrawable outs output).1 output).num_res = 0 := by simp [GetDrawable]
    obtain ⟨a, b⟩ := addAll_spec output rs h (GetDrawable outs output).1 (by rw [h0]; omega)
    constructor
    · intro hle
      obtain ⟨h1, outs1, he, hn, hatt⟩ := a (by rw [h0]; omega)
      refine ⟨h1, outs1, he, by rw [hn, h0]; omega, by rw [hn, h0]; omega, ?_⟩
      rw [hatt, h0]; simp [attached]
    · intro hgt
      exact b (by rw [h0]; omega)

/-- Witness for C3: attaching the resource at 64 to the example envelope
(3 slots used) puts it in slot 3 and raises its count from 2 to 3; a full
envelope refuses it; seven attachments to a fresh envelope fail. -/
theorem C3_AddRes_bounded_witness :
    (∃ h1 outs1, AddRes exampleHeap exampleOutputs 128 64 = some (h1, outs1) ∧
      (h1.mem 64).refs = 3 ∧ (outs1 128).resources 3 = 64 ∧ (outs1 128).num_res = 4) ∧
    AddRes exampleHeap fullOutputs 128 64 = none ∧
    addAll 128 exampleHeap (GetDrawable exampleOutputs 128).1 [32, 64, 32, 64, 32, 64, 32] =
      none := by
  obtain ⟨a, b, c⟩ := C3_AddRes_bounded exampleHeap exampleOutputs 128 64
  obtain ⟨h1, outs1, he, _, hr, _, _, _, _, hs, hn, _⟩ := a (by decide)
  refine ⟨⟨h1, outs1, he, hr (by decide), hs, hn⟩, ?_, ?_⟩
  · exact (C3_AddRes_bounded exampleHeap fullOutputs 128 64).2.1 (by decide)
  · exact (c [32, 64, 32, 64, 32, 64, 32]).2 (by decide)

/-! ### Chunked encoding -/

theorem copyToChunk_fields (st : Encoder) (src : List Nat) (cp : Nat) :
    (copyToChunk st src cp).chunk = st.chunk ∧ (copyToChunk st src cp).now = st.now + cp ∧
    (copyToChunk st src cp).end_ = st.end_ ∧ (copyToChunk st src cp).nalloc = st.nalloc :=
  ⟨rfl, rfl, rfl, rfl⟩

theorem copyToChunk_mem_self (st : Encoder) (src : List Nat) (cp : Nat) :
    ((copyToChunk st src cp).mem st.chunk).data_size = (st.mem st.chunk).data_size + cp ∧
    ((copyToChunk st src cp).mem st.chunk).next_chunk = (st.mem st.chunk).next_chunk ∧
    ((copyToChunk st src cp).mem st.chunk).prev_chunk = (st.mem st.chunk).prev_chunk ∧
    (∀ i, i < st.now → ((copyToChunk st src cp).mem st.chunk).data i = (st.mem st.chunk).data i) ∧
    (∀ i, i < cp → ((copyToChunk st src cp).mem st.chunk).data (st.now + i) = src.getD i 0) := by
  refine ⟨by simp [copyToChunk], by simp [copyToChunk], by simp [copyToChunk], ?_, ?_⟩
  · intro i hi
    have : ¬ (st.now ≤ i ∧ i < st.now + cp) := by omega
    simp [copyToChunk, this]
  · intro i hi
    have : st.now ≤ st.now + i ∧ st.now + i < st.now + cp := by omega
    simp [copyToChunk, this]

theorem copyToChunk_mem_other (st : Encoder) (src : List Nat) (cp a : Nat) (ha : a ≠ st.chunk) :
    (copyToChunk st src cp).mem a = st.mem a := by
  simp [copyToChunk, ha]

theorem NEW_DATA_CHUNK_fields (p_slot : PMemSlot) (alloc : Nat → Nat) (st : Encoder) (size : Nat) :
    (NEW_DATA_CHUNK p_slot alloc st size).chunk = alloc st.nalloc ∧
    (NEW_DATA_CHUNK p_slot alloc st size).now = 0 ∧
    (NEW_DATA_CHUNK p_slot alloc st size).end_ = size ∧
    (NEW_DATA_CHUNK p_slot alloc st size).nalloc = st.nalloc + 1 :=
  ⟨rfl, rfl, rfl, rfl⟩

theorem NEW_DATA_CHUNK_mem_new (p_slot : PMemSlot) (alloc : Nat → Nat) (st : Encoder)
    (size : Nat) :
    ((NEW_DATA_CHUNK p_slot alloc st size).mem (alloc st.nalloc)).data_size = 0 ∧
    ((NEW_DATA_CHUNK p_slot alloc st size).mem (alloc st.nalloc)).next_chunk = 0 ∧
    ((NEW_DATA_CHUNK p_slot alloc st size).mem (alloc st.nalloc)).prev_chunk =
      PA p_slot st.chunk := by
  simp [NEW_DATA_CHUNK]

theorem NEW_DATA_CHUNK_mem_old (p_slot : PMemSlot) (alloc : Nat → Nat) (st : Encoder)
    (size : Nat) (hne : alloc st.nalloc ≠ st.chunk) :
    ((NEW_DATA_CHUNK p_slot alloc st size).mem st.chunk).data_size =
      (st.mem st.chunk).data_size ∧
    ((NEW_DATA_CHUNK p_slot alloc st size).mem st.chunk).next_chunk =
      PA p_slot (alloc st.nalloc) ∧
    ((NEW_DATA_CHUNK p_slot alloc st size).mem st.chunk).prev_chunk =
      (st.mem st.chunk).prev_chunk ∧
    ((NEW_DATA_CHUNK p_slot alloc st size).mem st.chunk).data = (st.mem st.chunk).data := by
  have h : st.chunk ≠ alloc st.nalloc := fun e => hne e.symm
  simp [NEW_DATA_CHUNK, h]

theorem NEW_DATA_CHUNK_mem_other (p_slot : PMemSlot) (alloc : Nat → Nat) (st : Encoder)
    (size a : Nat) (h1 : a ≠ st.chunk) (h2 : a ≠ alloc st.nalloc) :
    (NEW_DATA_CHUNK p_slot alloc st size).mem a = st.mem a := by
  simp [NEW_DATA_CHUNK, h1, h2]

theorem aligned_size_pos (alloc_size alignment : Nat) (ha : 0 < alloc_size)
    (hal0 : 0 < alignment) (hal : alignment < BITS_BUF_MAX) :
    0 < min (alloc_size + alignment - 1) BITS_BUF_MAX -
      min (alloc_size + alignment - 1) BITS_BUF_MAX % alignment := by
  have hm : alignment ≤ min (alloc_size + alignment - 1) BITS_BUF_MAX := by
    apply Nat.le_min.mpr
    constructor <;> omega
  generalize min (alloc_size + alignment - 1) BITS_BUF_MAX = m at hm
  have h1 : m % alignment < alignment := Nat.mod_lt _ hal0
  omega

theorem dataSlice_add (c : QXLDataChunk) (a n k : Nat) :
    dataSlice c a (n + k) = dataSlice c a n ++ dataSlice c (a + n) k := by
  simp only [dataSlice, List.range_add, List.map_append, List.map_map]
  congr 1
  apply List.map_congr_left
  intro i _
  simp [Nat.add_assoc]

theorem dataSlice_eq_take (c : QXLDataChunk) (a n : Nat) (src : List Nat) (hn : n ≤ src.length)
    (h : ∀ i, i < n → c.data (a + i) = src.getD i 0) : dataSlice c a n = src.take n := by
  apply List.ext_getElem
  · simp [dataSlice, hn]
  · intro i h1 h2
    simp only [dataSlice, List.length_map, List.length_range] at h1
    simp only [dataSlice, List.getElem_map, List.getElem_range, List.getElem_take]
    rw [h i h1, List.getD_eq_getElem _ _ (by omega)]

theorem allocated_succ (alloc : Nat → Nat) (k m : Nat) :
    allocated alloc k (m + 1) = alloc k :: allocated alloc (k + 1) m := by
  simp only [allocated, List.range_succ_eq_map, List.map_cons, List.map_map, Nat.add_zero]
  congr 1
  apply List.map_congr_left
  intro i _
  simp only [Function.comp_apply]
  congr 1
  omega

theorem mem_allocated (alloc : Nat → Nat) (k m a : Nat) (h : a ∈ allocated alloc k m) :
    ∃ j, k ≤ j ∧ a = alloc j := by
  simp only [allocated, List.mem_map, List.mem_range] at h
  obtain ⟨i, _, hi⟩ := h
  exact ⟨k + i, by omega, hi.symm⟩

/-- The loop invariant of `__PutBytesAlign`, in the form of a specification of
the whole loop from an arbitrary cursor. -/
theorem PutBytesAlign_loop_spec (p_slot : PMemSlot) (alloc : Nat → Nat)
    (alloc_size alignment : Nat) (ha : 0 < alloc_size) (hal0 : 0 < alignment)
    (hal : alignment < BITS_BUF_MAX) :
    ∀ (fuel : Nat) (st : Encoder) (src : List Nat),
      st.now ≤ st.end_ →
      (∀ k, st.nalloc ≤ k → alloc k ≠ st.chunk) →
      (∀ i j, st.nalloc ≤ i → st.nalloc ≤ j → alloc i = alloc j → i = j) →
      src.length < fuel →
      ∃ (st1 : Encoder) (m d0 : Nat),
        PutBytesAlign.loop p_slot alloc alloc_size alignment fuel st src src.length = some st1 ∧
        st1.nalloc = st.nalloc + m ∧
        st1.now ≤ st1.end_ ∧
        st1.chunk = (allocated alloc st.nalloc m).getLastD st.chunk ∧
        Linked p_slot st1.mem st.chunk (allocated alloc st.nalloc m) ∧
        (st1.mem st1.chunk).next_chunk = (if m = 0 then (st.mem st.chunk).next_chunk else 0) ∧
        (st1.mem st.chunk).data_size = (st.mem st.chunk).data_size + d0 ∧
        (∀ i, i < st.now → (st1.mem st.chunk).data i = (st.mem st.chunk).data i) ∧
        (st1.mem st.chunk).prev_chunk = (st.mem st.chunk).prev_chunk ∧
        dataSlice (st1.mem st.chunk) st.now d0 ++
          (allocated alloc st.nalloc m).flatMap (fun a => chunkData (st1.mem a)) = src ∧
        (∀ a, a ≠ st.chunk → a ∉ allocated alloc st.nalloc m → st1.mem a = st.mem a) := by
  intro fuel
  induction fuel with
  | zero => intro st src _ _ _ hf; omega
  | succ fuel ih =>
    intro st src hcur hfresh hinj hfuel
    by_cases hsz : src.length = 0
    · -- nothing to copy
      have hnil : src = [] := List.length_eq_zero.mp hsz
      subst hnil
      refine ⟨st, 0, 0, ?_, rfl, hcur, rfl, trivial, rfl, rfl, fun _ _ => rfl, rfl, ?_,
        fun _ _ _ => rfl⟩
      · simp [PutBytesAlign.loop]
      · simp [dataSlice, allocated]
    · have hend : ¬ st.end_ < st.now := by omega
      by_cases hcp : min (st.end_ - st.now) src.length = 0
      · -- the current chunk is full: link a new one
        have hfull : st.end_ = st.now := by
          rcases Nat.min_eq_zero_iff.mp hcp with h | h <;> omega
        have hpos := aligned_size_pos alloc_size alignment ha hal0 hal
        generalize hA : min (alloc_size + alignment - 1) BITS_BUF_MAX -
          min (alloc_size + alignment - 1) BITS_BUF_MAX % alignment = aligned at hpos
        have hne : alloc st.nalloc ≠ st.chunk := hfresh _ (Nat.le_refl _)
        obtain ⟨n1, n2, n3, n4⟩ := NEW_DATA_CHUNK_fields p_slot alloc st aligned
        obtain ⟨w1, w2, w3⟩ := NEW_DATA_CHUNK_mem_new p_slot alloc st aligned
        obtain ⟨o1, o2, o3, o4⟩ := NEW_DATA_CHUNK_mem_old p_slot alloc st aligned hne
        have hother := NEW_DATA_CHUNK_mem_other p_slot alloc st aligned
        have hstep : PutBytesAlign.loop p_slot alloc alloc_size alignment (fuel + 1) st src
            src.length =
            PutBytesAlign.loop p_slot alloc alloc_size alignment fuel
              (copyToChunk (NEW_DATA_CHUNK p_slot alloc st aligned) src (min aligned src.length))
              (src.drop (min aligned src.length)) (src.length - min aligned src.length) := by
          rw [PutBytesAlign.loop]
          simp only [if_neg hsz, if_neg hend, hcp, if_true, if_neg (Nat.pos_iff_ne_zero.mp ha),
            not_not, hal, if_false, not_true_eq_false, hA, n2, n3, Nat.sub_zero]
        generalize NEW_DATA_CHUNK p_slot alloc st aligned = sn at *
        have hcp1 : 1 ≤ min aligned src.length := Nat.le_min.mpr ⟨hpos, by omega⟩
        have hcp2 : min aligned src.length ≤ src.length := Nat.min_le_right _ _
        have hcp3 : min aligned src.length ≤ aligned := Nat.min_le_left _ _
        generalize min aligned src.length = cp at hstep hcp1 hcp2 hcp3
        obtain ⟨f1, f2, f3, f4⟩ := copyToChunk_fields sn src cp
        obtain ⟨c1, c2, c3, _, c5⟩ := copyToChunk_mem_self sn src cp
        have cother := copyToChunk_mem_other sn src cp
        rw [n1] at f1 c1 c2 c3 c5 cother
        rw [n2] at f2 c5
        rw [n3] at f3
        rw [n4] at f4
        rw [w1] at c1
        rw [w2] at c2
        rw [w3] at c3
        generalize copyToChunk sn src cp = s2 at hstep f1 f2 f3 f4 c1 c2 c3 c5 cother
        have hlen : src.length - cp = (src.drop cp).length := by rw [List.length_drop]
        rw [hlen] at hstep
        have hfresh2 : ∀ k, s2.nalloc ≤ k → alloc k ≠ s2.chunk := by
          intro k hk he
          rw [f1] at he; rw [f4] at hk
          have := hinj k st.nalloc (by omega) (Nat.le_refl _) he
          omega
        have hinj2 : ∀ i j, s2.nalloc ≤ i → s2.nalloc ≤ j → alloc i = alloc j → i = j := by
          intro i j hi hj; rw [f4] at hi hj
          exact hinj i j (by omega) (by omega)
        obtain ⟨st1, m, d0, e1, e2, e3, e4, e5, e6, e7, e8, e9, e10, e11⟩ :=
          ih s2 (src.drop cp) (by rw [f2, f3]; omega) hfresh2 hinj2 (by rw [← hlen]; omega)
        rw [f1] at e4 e5 e6 e7 e8 e9 e10 e11
        rw [f4] at e2 e4 e5 e10 e11
        rw [f2] at e8 e10
        rw [c1] at e7
        rw [c2] at e6
        rw [c3] at e9
        have hnotin : st.chunk ∉ allocated alloc (st.nalloc + 1) m := by
          intro hm
          obtain ⟨j, hj, hje⟩ := mem_allocated alloc _ _ _ hm
          exact hfresh j (by omega) hje.symm
        have hold : st1.mem st.chunk = sn.mem st.chunk := by
          rw [e11 st.chunk (fun e => hne e.symm) hnotin, cother st.chunk (fun e => hne e.symm)]
        refine ⟨st1, m + 1, 0, ?_, by omega, e3, ?_, ?_, ?_, ?_, ?_, ?_, ?_, ?_⟩
        · rw [hstep, e1]
        · rw [allocated_succ, List.getLastD_cons]; exact e4
        · rw [allocated_succ]
          exact ⟨by rw [hold, o2], e9, e5⟩
        · rw [e6]; simp
        · rw [hold, o1]; rfl
        · intro i _; rw [hold, o4]
        · rw [hold, o3]
        · rw [allocated_succ, List.flatMap_cons]
          have hd : chunkData (st1.mem (alloc st.nalloc)) =
              src.take cp ++ dataSlice (st1.mem (alloc st.nalloc)) (0 + cp) d0 := by
            rw [chunkData, e7, Nat.zero_add cp, dataSlice_add, Nat.zero_add]
            congr 1
            apply dataSlice_eq_take _ _ _ _ hcp2
            intro i hi
            rw [Nat.zero_add, e8 i (by omega)]
            have := c5 i hi
            rwa [Nat.zero_add] at this
          rw [hd]
          simp only [dataSlice, List.range_zero, List.map_nil, List.nil_append, List.append_assoc]
          simp only [dataSlice] at e10
          rw [e10, List.take_append_drop]
        · intro a ha1 ha2
          rw [allocated_succ] at ha2
          have ha3 : a ≠ alloc st.nalloc := fun e => ha2 (e ▸ List.mem_cons_self _ _)
          have ha4 : a ∉ allocated alloc (st.nalloc + 1) m :=
            fun hm => ha2 (List.mem_cons_of_mem _ hm)
          rw [e11 a ha3 ha4, cother a ha3, hother a ha1 ha3]
      · -- room is left in the current chunk
        have hstep : PutBytesAlign.loop p_slot alloc alloc_size alignment (fuel + 1) st src
            src.length =
            PutBytesAlign.loop p_slot alloc alloc_size alignment fuel
              (copyToChunk st src (min (st.end_ - st.now) src.length))
              (src.drop (min (st.end_ - st.now) src.length))
              (src.length - min (st.end_ - st.now) src.length) := by
          rw [PutBytesAlign.loop]
          simp only [if_neg hsz, if_neg hend, if_neg hcp]
        have hcp1 : 1 ≤ min (st.end_ - st.now) src.length := Nat.pos_of_ne_zero hcp
        have hcp2 : min (st.end_ - st.now) src.length ≤ src.length := Nat.min_le_right _ _
        have hcp3 : min (st.end_ - st.now) src.length ≤ st.end_ - st.now := Nat.min_le_left _ _
        generalize min (st.end_ - st.now) src.length = cp at hstep hcp1 hcp2 hcp3
        obtain ⟨f1, f2, f3, f4⟩ := copyToChunk_fields st src cp
        obtain ⟨c1, c2, c3, c4, c5⟩ := copyToChunk_mem_self st src cp
        have cother := copyToChunk_mem_other st src cp
        generalize copyToChunk st src cp = s2 at hstep f1 f2 f3 f4 c1 c2 c3 c4 c5 cother
        have hlen : src.length - cp = (src.drop cp).length := by rw [List.length_drop]
        rw [hlen] at hstep
        obtain ⟨st1, m, d0, e1, e2, e3, e4, e5, e6, e7, e8, e9, e10, e11⟩ :=
          ih s2 (src.drop cp) (by rw [f2, f3]; omega) (by rw [f1, f4]; exact hfresh)
            (by rw [f4]; exact hinj) (by rw [← hlen]; omega)
        rw [f1] at e4 e5 e6 e7 e8 e9 e10 e11
        rw [f4] at e2 e4 e5 e10 e11
        rw [f2] at e8 e10
        refine ⟨st1, m, cp + d0, ?_, e2, e3, e4, e5, ?_, ?_, ?_, ?_, ?_, ?_⟩
        · rw [hstep, e1]
        · rw [e6, c2]
        · rw [e7, c1, Nat.add_assoc]
        · intro i hi; rw [e8 i (by omega), c4 i hi]
        · rw [e9, c3]
        · rw [dataSlice_add]
          have hd : dataSlice (st1.mem st.chunk) st.now cp = src.take cp := by
            apply dataSlice_eq_take _ _ _ _ hcp2
            intro i hi
            rw [e8 (st.now + i) (by omega), c5 i hi]
          rw [hd, List.append_assoc, e10, List.take_append_drop]
        · intro a ha1 ha2
          rw [e11 a ha1 ha2, cother a ha1]

theorem chunkData_length (c : QXLDataChunk) : (chunkData c).length = c.data_size := by
  simp [chunkData, dataSlice]

theorem dataSlice_length (c : QXLDataChunk) (a n : Nat) : (dataSlice c a n).length = n := by
  simp [dataSlice]

theorem dataSlice_congr (c1 c2 : QXLDataChunk) (a n : Nat)
    (h : ∀ i, i < a + n → c1.data i = c2.data i) : dataSlice c1 a n = dataSlice c2 a n := by
  simp only [dataSlice]
  apply List.map_congr_left
  intro i hi
  exact h _ (by have := List.mem_range.mp hi; omega)

/-- C4. Chunked round trip of `__PutBytesAlign`. From a cursor with
`now <= end` that stands at the end of the current chunk's payload
(`now - chunk->data = chunk->data_size`), with `alloc_size > 0`,
`0 < alignment < 65536` and an allocator that returns blocks distinct from
each other and from the current chunk, the call returns (given more than
`size` iterations); the `m` chunks it allocated are linked after the current
chunk in `next_chunk` order; the cursor ends on the last of them, whose
`next_chunk` is 0 (when `m = 0` the current chunk keeps its link); the bytes
already in the current chunk are kept; the bytes added to `data[:data_size]`
of the current chunk followed by `data[:data_size]` of the new chunks, in
link order, are exactly the source bytes; and the `data_size` increments sum
to `size`. -/
theorem C4_PutBytesAlign_round_trip (p_slot : PMemSlot) (alloc : Nat → Nat) (st : Encoder)
    (src : List Nat) (alloc_size alignment fuel : Nat)
    (hcur : st.now ≤ st.end_) (hds : (st.mem st.chunk).data_size = st.now)
    (hfresh : ∀ k, st.nalloc ≤ k → alloc k ≠ st.chunk)
    (hinj : ∀ i j, st.nalloc ≤ i → st.nalloc ≤ j → alloc i = alloc j → i = j)
    (ha : 0 < alloc_size) (hal0 : 0 < alignment) (hal : alignment < 65536)
    (hfuel : src.length < fuel) :
    ∃ (st1 : Encoder) (m : Nat),
      PutBytesAlign p_slot alloc st src src.length alloc_size alignment fuel = some st1 ∧
      Linked p_slot st1.mem st.chunk (allocated alloc st.nalloc m) ∧
      st1.chunk = (allocated alloc st.nalloc m).getLastD st.chunk ∧
      (st1.mem st1.chunk).next_chunk = (if m = 0 then (st.mem st.chunk).next_chunk else 0) ∧
      (st.mem st.chunk).data_size ≤ (st1.mem st.chunk).data_size ∧
      (chunkData (st1.mem st.chunk)).take (st.mem st.chunk).data_size =
        chunkData (st.mem st.chunk) ∧
      (chunkData (st1.mem st.chunk)).drop (st.mem st.chunk).data_size ++
        (allocated alloc st.nalloc m).flatMap (fun a => chunkData (st1.mem a)) = src ∧
      ((st1.mem st.chunk).data_size - (st.mem st.chunk).data_size) +
        ((allocated alloc st.nalloc m).map (fun a => (st1.mem a).data_size)).sum =
          src.length := by
  obtain ⟨st1, m, d0, e1, _, _, e4, e5, e6, e7, e8, _, e10, _⟩ :=
    PutBytesAlign_loop_spec p_slot alloc alloc_size alignment ha hal0 hal fuel st src hcur hfresh
      hinj hfuel
  have hsplit : chunkData (st1.mem st.chunk) =
      chunkData (st.mem st.chunk) ++ dataSlice (st1.mem st.chunk) st.now d0 := by
    rw [chunkData, e7, dataSlice_add, Nat.zero_add, hds]
    congr 1
    rw [chunkData, hds]
    apply dataSlice_congr
    intro i hi
    exact e8 i (by omega)
  have hl : (chunkData (st.mem st.chunk)).length = (st.mem st.chunk).data_size :=
    chunkData_length _
  have hbytes : (chunkData (st1.mem st.chunk)).drop (st.mem st.chunk).data_size ++
      (allocated alloc st.nalloc m).flatMap (fun a => chunkData (st1.mem a)) = src := by
    rw [hsplit, ← hl, List.drop_left]
    exact e10
  refine ⟨st1, m, e1, e5, e4, e6, by omega, ?_, hbytes, ?_⟩
  · rw [hsplit, ← hl, List.take_left]
  · have hlen := congrArg List.length hbytes
    rw [List.length_append, List.length_drop, chunkData_length, List.length_flatMap] at hlen
    rw [← hlen]
    congr 2
    apply List.map_congr_left
    intro a _
    exact (chunkData_length _).symm

/-- Witness for C4: ten bytes through an encoder whose current chunk has room
for 3, with `alloc_size = 4` and `alignment = 2` (so new chunks hold 4 bytes):
the payloads of the three chunks are `[1,2,3]`, `[4,5,6,7]`, `[8,9,10]`. -/
theorem C4_PutBytesAlign_round_trip_witness :
    (∃ (st1 : Encoder) (m : Nat),
      PutBytesAlign exampleSlot exampleAlloc exampleEncoder [1, 2, 3, 4, 5, 6, 7, 8, 9, 10] 10
        4 2 11 = some st1 ∧
      (chunkData (st1.mem 4096)).drop 0 ++
        (allocated exampleAlloc 0 m).flatMap (fun a => chunkData (st1.mem a)) =
          [1, 2, 3, 4, 5, 6, 7, 8, 9, 10]) ∧
    (PutBytesAlign exampleSlot exampleAlloc exampleEncoder [1, 2, 3, 4, 5, 6, 7, 8, 9, 10] 10
        4 2 11).map (fun s => [chunkData (s.mem 4096), chunkData (s.mem 8192),
          chunkData (s.mem 8448)]) = some [[1, 2, 3], [4, 5, 6, 7], [8, 9, 10]] := by
  constructor
  · obtain ⟨st1, m, h1, _, _, _, _, _, h7, _⟩ :=
      C4_PutBytesAlign_round_trip exampleSlot exampleAlloc exampleEncoder
        [1, 2, 3, 4, 5, 6, 7, 8, 9, 10] 4 2 11 (by decide) (by decide)
        (by intro k _; simp only [exampleAlloc, exampleEncoder]; omega)
        (by intro i j _ _ h; simp only [exampleAlloc] at h; omega)
        (by decide) (by decide) (by decide) (by decide)
    exact ⟨st1, m, h1, h7⟩
  · decide

/-! ### Image cache lookup -/

theorem ImageCacheGetByKey_walk_spec (key : Nat) (check_rest : Bool)
    (format width height : Nat) (ic : ImageCache) (l : List Nat) :
    ∀ (fuel p : Nat), IsChain ic.pool p l → l.length < fuel →
      ImageCacheGetByKey.walk key check_rest format width height fuel ic p =
        match l.find? (fun q => cacheImageMatches (ic.pool q) key check_rest format width height)
        with
        | none => some (0, ic)
        | some q => some (hitResult ic q) := by
  induction l with
  | nil =>
    intro fuel p hc hf
    cases fuel with
    | zero => simp at hf
    | succ fuel =>
      simp only [IsChain] at hc
      simp [ImageCacheGetByKey.walk, hc]
  | cons a rest ih =>
    intro fuel p hc hf
    cases fuel with
    | zero => simp at hf
    | succ fuel =>
      obtain ⟨hp, ha, hrest⟩ := hc
      subst hp
      rw [ImageCacheGetByKey.walk, if_neg ha, List.find?_cons]
      by_cases hm : cacheImageMatches (ic.pool p) key check_rest format width height = true
      · simp only [hm, if_true]
        rfl
      · simp only [hm, if_false]
        exact ih fuel _ hrest (by simp at hf; omega)

theorem IsChain_ne_zero (pool : Nat → CacheImage) (l : List Nat) :
    ∀ p, IsChain pool p l → ∀ q ∈ l, q ≠ 0 := by
  induction l with
  | nil => intro p _ q hq; simp at hq
  | cons a rest ih =>
    intro p hc q hq
    obtain ⟨_, ha, hrest⟩ := hc
    rcases List.mem_cons.mp hq with h | h
    · rw [h]; exact ha
    · exact ih _ hrest q h

/-- C8. When the bucket chain of `IMAGE_HASH_VAL(key)` is the list `l` of
slots, `ImageCacheGetByKey` returns (given more than `|l|` iterations) the
first slot of `l` whose key equals `key` and, when `check_rest` is set, whose
format, width and height equal the requested ones; with `check_rest` clear key
equality alone decides. It returns `NULL` exactly when no slot of `l`
qualifies and then changes nothing; otherwise it increments `hits` of the
returned slot (as a `UINT32`) and changes nothing else. -/
theorem C8_ImageCacheGetByKey_first_match (IMAGE_HASH_MASK fuel : Nat) (ic : ImageCache)
    (key : Nat) (check_rest : Bool) (format width height : Nat) (l : List Nat)
    (hchain : IsChain ic.pool (ic.image_cache (IMAGE_HASH_VAL IMAGE_HASH_MASK key)) l)
    (hfuel : l.length < fuel) :
    (∀ c : CacheImage, cacheImageMatches c key check_rest format width height = true ↔
      (c.key = key ∧ (check_rest = true → c.format = format ∧ c.width = width ∧
        c.height = height))) ∧
    ∃ (r : Nat) (ic1 : ImageCache),
      ImageCacheGetByKey IMAGE_HASH_MASK fuel ic key check_rest format width height =
        some (r, ic1) ∧
      (r = 0 ↔
        ∀ q ∈ l, cacheImageMatches (ic.pool q) key check_rest format width height = false) ∧
      (r = 0 → ic1 = ic) ∧
      (r ≠ 0 →
        l.find? (fun q => cacheImageMatches (ic.pool q) key check_rest format width height) =
          some r ∧
        (ic1.pool r).hits = (1 + (ic.pool r).hits) % UINT32_MOD ∧
        ((ic.pool r).hits + 1 < UINT32_MOD → (ic1.pool r).hits = (ic.pool r).hits + 1) ∧
        ic1.pool r = { ic.pool r with hits := (ic1.pool r).hits } ∧
        (∀ q, q ≠ r → ic1.pool q = ic.pool q) ∧
        ic1.image_cache = ic.image_cache ∧ ic1.cache_image_lru = ic.cache_image_lru ∧
        ic1.image_key_lookup = ic.image_key_lookup) := by
  constructor
  · intro c
    cases check_rest <;> simp [cacheImageMatches, and_assoc]
  · have hw := ImageCacheGetByKey_walk_spec key check_rest format width height ic l fuel _
      hchain hfuel
    have hnz := IsChain_ne_zero ic.pool l _ hchain
    cases hfind :
      l.find? (fun q => cacheImageMatches (ic.pool q) key check_rest format width height) with
    | none =>
      rw [hfind] at hw
      refine ⟨0, ic, hw, ?_, fun _ => rfl, fun h => absurd rfl h⟩
      constructor
      · intro _ q hq
        have := List.find?_eq_none.mp hfind q hq
        simpa using this
      · intro _; rfl
    | some q =>
      rw [hfind] at hw
      have hq_mem : q ∈ l := List.mem_of_find?_eq_some hfind
      have hq_ne : q ≠ 0 := hnz q hq_mem
      have hq_m := List.find?_some hfind
      refine ⟨q, _, hw, ?_, fun h => absurd h hq_ne, fun _ => ⟨rfl, ?_, ?_, ?_, ?_, rfl, rfl, rfl⟩⟩
      · constructor
        · intro h; exact absurd h hq_ne
        · intro hall
          have := hall q hq_mem
          simp only [this] at hq_m
          exact absurd hq_m (by simp)
      · simp [ImageCache.setSlot]
      · intro hlt
        simp only [ImageCache.setSlot, if_true]
        rw [Nat.mod_eq_of_lt (by omega)]; omega
      · simp [ImageCache.setSlot]
      · intro p hp
        simp [ImageCache.setSlot, hp]

/-- Witness for C8: in the example cache the strict lookup of key 16 with
format 9 and size 4x4 skips slot 3 and returns slot 5 with `hits` 2, and the
pure key lookup returns slot 3. -/
theorem C8_ImageCacheGetByKey_first_match_witness :
    IsChain exampleCache.pool (exampleCache.image_cache (IMAGE_HASH_VAL 255 16)) [3, 5] ∧
    (ImageCacheGetByKey 255 3 exampleCache 16 true 9 4 4).map
      (fun r => (r.1, (r.2.pool 5).hits, (r.2.pool 3).hits)) = some (5, 2, 1) ∧
    (ImageCacheGetByKey 255 3 exampleCache 16 false 0 0 0).map
      (fun r => (r.1, (r.2.pool 5).hits, (r.2.pool 3).hits)) = some (3, 1, 2) := by
  have hc : IsChain exampleCache.pool (exampleCache.image_cache (IMAGE_HASH_VAL 255 16)) [3, 5] := by
    decide
  obtain ⟨_, r, ic1, he, _, _, _⟩ :=
    C8_ImageCacheGetByKey_first_match 255 3 exampleCache 16 true 9 4 4 [3, 5] hc (by decide)
  exact ⟨hc, by decide, by decide⟩

/-! ### Finalizers -/

theorem FreeMem_some (h : ResHeap) (p : Nat) (hms : h.mspace ≠ 0)
    (hlo : h.mspace_start ≤ p) (hhi : p < h.mspace_end) :
    FreeMem h p = some { h with mem_free_log := h.mem_free_log ++ [p] } := by
  simp only [FreeMem]
  rw [if_pos ⟨hms, hlo, hhi⟩]

theorem FreeMem_arena (h h1 : ResHeap) (p : Nat) (he : FreeMem h p = some h1) :
    h1.mspace = h.mspace ∧ h1.mspace_start = h.mspace_start ∧ h1.mspace_end = h.mspace_end ∧
      h1.mem_free_log = h.mem_free_log ++ [p] := by
  simp only [FreeMem] at he
  split_ifs at he
  simp only [Option.some.injEq] at he
  subst he
  exact ⟨rfl, rfl, rfl, rfl⟩

theorem FreeChunks_loop_spec (env : Env) (chunks : ChunkMem) (cs : List Nat) :
    ∀ (fuel : Nat) (h : ResHeap) (phys : Nat), VChain env chunks phys cs → h.mspace ≠ 0 →
      InArena h cs → cs.length < fuel →
      FreeChunks.loop env chunks fuel h phys =
        some { h with mem_free_log := h.mem_free_log ++ cs } := by
  induction cs with
  | nil =>
    intro fuel h phys hc _ _ hf
    cases fuel with
    | zero => simp at hf
    | succ fuel =>
      simp only [VChain] at hc
      simp [FreeChunks.loop, hc]
  | cons c rest ih =>
    intro fuel h phys hc hms ha hf
    cases fuel with
    | zero => simp at hf
    | succ fuel =>
      obtain ⟨h0, hva, hrest⟩ := hc
      have hc_in := ha c (List.mem_cons_self _ _)
      rw [FreeChunks.loop, if_neg h0]
      simp only [hva, FreeMem_some h c hms hc_in.1 hc_in.2]
      rw [ih fuel { h with mem_free_log := h.mem_free_log ++ [c] } _ hrest hms
        (fun p hp => ha p (List.mem_cons_of_mem _ hp)) (by simp at hf; omega)]
      simp

theorem FreeCursor_loop_spec (env : Env) (chunks : ChunkMem) (res : Nat) (cs : List Nat) :
    ∀ (fuel : Nat) (h : ResHeap) (phys : Nat), VChain env chunks phys cs → h.mspace ≠ 0 →
      h.mspace_start ≤ res → res < h.mspace_end → cs.length < fuel →
      FreeCursor.loop env chunks res fuel h phys =
        some { h with mem_free_log := h.mem_free_log ++ List.replicate cs.length res } := by
  induction cs with
  | nil =>
    intro fuel h phys hc _ _ _ hf
    cases fuel with
    | zero => simp at hf
    | succ fuel =>
      simp only [VChain] at hc
      simp [FreeCursor.loop, hc]
  | cons c rest ih =>
    intro fuel h phys hc hms hlo hhi hf
    cases fuel with
    | zero => simp at hf
    | succ fuel =>
      obtain ⟨h0, hva, hrest⟩ := hc
      rw [FreeCursor.loop, if_neg h0]
      simp only [hva, FreeMem_some h res hms hlo hhi]
      rw [ih fuel { h with mem_free_log := h.mem_free_log ++ [res] } _ hrest hms hlo hhi
        (by simp at hf; omega)]
      simp [List.replicate_succ]

theorem VChain_unique (env : Env) (chunks : ChunkMem) (l1 : List Nat) :
    ∀ (l2 : List Nat) (phys : Nat), VChain env chunks phys l1 → VChain env chunks phys l2 →
      l1 = l2 := by
  induction l1 with
  | nil =>
    intro l2 phys h1 h2
    cases l2 with
    | nil => rfl
    | cons c rest => exact absurd h1 h2.1
  | cons a r1 ih =>
    intro l2 phys h1 h2
    cases l2 with
    | nil => exact absurd h2 h1.1
    | cons c r2 =>
      obtain ⟨_, hva1, hr1⟩ := h1
      obtain ⟨_, hva2, hr2⟩ := h2
      have hac : a = c := by
        rw [hva1] at hva2; exact Option.some.inj hva2
      subst hac
      rw [ih r2 _ hr1 hr2]

theorem VChain_suffix (env : Env) (chunks : ChunkMem) (pre : List Nat) :
    ∀ (phys c : Nat) (post : List Nat), VChain env chunks phys (pre ++ c :: post) →
      VChain env chunks (chunks c).next_chunk post := by
  induction pre with
  | nil => intro phys c post h; exact h.2.2
  | cons a r ih => intro phys c post h; exact ih _ c post h.2.2

theorem VChain_nodup (env : Env) (chunks : ChunkMem) (cs : List Nat) :
    ∀ phys, VChain env chunks phys cs → cs.Nodup := by
  induction cs with
  | nil => intro _ _; exact List.nodup_nil
  | cons c rest ih =>
    intro phys h
    obtain ⟨_, _, hrest⟩ := h
    refine List.nodup_cons.mpr ⟨?_, ih _ hrest⟩
    intro hmem
    obtain ⟨pre, post, hsplit⟩ := List.append_of_mem hmem
    have hpost : VChain env chunks (chunks c).next_chunk post := by
      rw [hsplit] at hrest
      exact VChain_suffix env chunks pre _ c post hrest
    have := VChain_unique env chunks rest post _ hrest hpost
    have hl := congrArg List.length this
    rw [hsplit] at hl
    simp at hl
    omega

theorem ReleasePalette_arena (h h1 : ResHeap) (pc pc1 : PaletteCache) (p : Nat)
    (he : ReleasePalette h pc p = some (h1, pc1)) :
    h1.mspace = h.mspace ∧ h1.mspace_start = h.mspace_start ∧ h1.mspace_end = h.mspace_end := by
  simp only [ReleasePalette] at he
  split_ifs at he with h0 hr
  · cases hf : FreeMem h p with
    | none => rw [hf] at he; simp at he
    | some h2 =>
      rw [hf] at he
      simp only [Option.some.injEq, Prod.mk.injEq] at he
      obtain ⟨a, b, c, _⟩ := FreeMem_arena h h2 p hf
      rw [← he.1]; exact ⟨a, b, c⟩
  · simp only [Option.some.injEq, Prod.mk.injEq] at he
    rw [← he.1]; exact ⟨rfl, rfl, rfl⟩

theorem FreeBitmapImage_detach_frame (env : Env) (s s1 : PDev) (res : Nat)
    (he : FreeBitmapImage.detach env s res = some s1) :
    s1.chunks = s.chunks ∧ s1.heap.mspace = s.heap.mspace ∧
      s1.heap.mspace_start = s.heap.mspace_start ∧ s1.heap.mspace_end = s.heap.mspace_end := by
  simp only [FreeBitmapImage.detach] at he
  split_ifs at he with hp
  · simp only [Option.some.injEq] at he
    rw [← he]; exact ⟨rfl, rfl, rfl, rfl⟩
  · cases hva : VA env.bits env.main_slot env.main_generation env.main_mem_slot
        (s.images (res + env.layout.sizeof_Resource)).bitmap_palette with
    | none => rw [hva] at he; simp at he
    | some palette =>
      rw [hva] at he
      simp only at he
      cases hr : ReleasePalette s.heap s.pcache (palette - env.layout.off_palette) with
      | none => rw [hr] at he; simp at he
      | some r =>
        obtain ⟨h1, pc1⟩ := r
        rw [hr] at he
        simp only [Option.some.injEq] at he
        obtain ⟨a, b, c⟩ := ReleasePalette_arena _ _ _ _ _ hr
        rw [← he]; exact ⟨rfl, a, b, c⟩

/-- C17. For a resource block `res` in the arena whose embedded first chunk
heads a `next_chunk` chain of continuation chunks `cs` (each reached through
`VA`, all in the arena, ending in 0), the finalizers `FreePath`,
`FreeClipRects`, `FreeSring`, `FreeQuicImage` and `FreeBitmapImage` hand to
`FreeMem` exactly the chunks of `cs`, each once and in link order, and then
`res`, once: `|cs| + 1` calls on `|cs| + 1` distinct blocks, and nothing else
is freed by the walk (for `FreeBitmapImage`, counted from the state in which
the cache slot and the palette have been dealt with). -/
theorem C17_chain_finalizers_free_each_block_once (env : Env) (fuel : Nat) (s : PDev)
    (res : Nat) (cs : List Nat) (hms : s.heap.mspace ≠ 0)
    (hlo : s.heap.mspace_start ≤ res) (hhi : res < s.heap.mspace_end)
    (hcs : InArena s.heap cs) (hnot : res ∉ cs) (hfuel : cs.length < fuel) :
    (VChain env s.chunks
        (s.chunks (res + env.layout.sizeof_Resource + env.layout.off_path_chunk)).next_chunk cs →
      FreePath env fuel s.chunks s.heap res =
        some { s.heap with mem_free_log := s.heap.mem_free_log ++ cs ++ [res] } ∧
      (cs ++ [res]).Nodup) ∧
    (VChain env s.chunks
        (s.chunks (res + env.layout.sizeof_Resource + env.layout.off_rects_chunk)).next_chunk cs →
      FreeClipRects env fuel s.chunks s.heap res =
        some { s.heap with mem_free_log := s.heap.mem_free_log ++ cs ++ [res] } ∧
      (cs ++ [res]).Nodup) ∧
    (VChain env s.chunks
        (s.chunks (res + env.layout.sizeof_Resource + env.layout.off_str_chunk)).next_chunk cs →
      FreeSring env fuel s.chunks s.heap res =
        some { s.heap with mem_free_log := s.heap.mem_free_log ++ cs ++ [res] } ∧
      (cs ++ [res]).Nodup) ∧
    (VChain env s.chunks
        (s.chunks (res + env.layout.sizeof_Resource + env.layout.off_quic_data)).next_chunk cs →
      (∃ s1, FreeQuicImage env fuel s res = some s1 ∧
        s1.heap.mem_free_log = s.heap.mem_free_log ++ cs ++ [res]) ∧
      (cs ++ [res]).Nodup) ∧
    (VChain env s.chunks
        (s.chunks (res + env.layout.sizeof_Resource +
          env.layout.sizeof_InternalImage)).next_chunk cs →
      (∀ s1, FreeBitmapImage.detach env s res = some s1 →
        ∃ s2, FreeBitmapImage env fuel s res = some s2 ∧
          s2.heap.mem_free_log = s1.heap.mem_free_log ++ cs ++ [res]) ∧
      (cs ++ [res]).Nodup) := by
  have hnd : ∀ phys, VChain env s.chunks phys cs → (cs ++ [res]).Nodup := by
    intro phys hc
    have := VChain_nodup env s.chunks cs phys hc
    rw [List.nodup_append]
    refine ⟨this, List.nodup_singleton _, ?_⟩
    intro a ha hb
    simp only [List.mem_singleton] at hb
    subst hb
    exact hnot ha
  have hfree : ∀ (h : ResHeap) (phys : Nat), h.mspace = s.heap.mspace →
      h.mspace_start = s.heap.mspace_start → h.mspace_end = s.heap.mspace_end →
      VChain env s.chunks phys cs →
      ∃ h1, FreeChunks.loop env s.chunks fuel h phys = some h1 ∧
        FreeMem h1 res = some { h with mem_free_log := h.mem_free_log ++ cs ++ [res] } := by
    intro h phys e1 e2 e3 hc
    have hc2 : InArena h cs := by
      intro p hp; rw [e2, e3]; exact hcs p hp
    refine ⟨_, FreeChunks_loop_spec env s.chunks cs fuel h phys hc (by rw [e1]; exact hms) hc2
      hfuel, ?_⟩
    rw [FreeMem_some _ res (by simpa [e1] using hms) (by simpa [e2] using hlo)
      (by simpa [e3] using hhi)]
  refine ⟨?_, ?_, ?_, ?_, ?_⟩
  · intro hc
    obtain ⟨h1, a, b⟩ := hfree s.heap _ rfl rfl rfl hc
    exact ⟨by simp only [FreePath, a, b], hnd _ hc⟩
  · intro hc
    obtain ⟨h1, a, b⟩ := hfree s.heap _ rfl rfl rfl hc
    exact ⟨by simp only [FreeClipRects, a, b], hnd _ hc⟩
  · intro hc
    obtain ⟨h1, a, b⟩ := hfree s.heap _ rfl rfl rfl hc
    exact ⟨by simp only [FreeSring, a, b], hnd _ hc⟩
  · intro hc
    rw [Nat.add_assoc] at hc
    obtain ⟨h1, a, b⟩ := hfree s.heap _ rfl rfl rfl hc
    refine ⟨⟨{ s with
        icache := imageCacheDetach s.icache (s.images (res + env.layout.sizeof_Resource)).cache
        heap := { s.heap with mem_free_log := s.heap.mem_free_log ++ cs ++ [res] } }, ?_, rfl⟩,
      hnd _ hc⟩
    simp only [FreeQuicImage, Nat.add_assoc, a, b]
  · intro hc
    refine ⟨?_, hnd _ hc⟩
    intro s1 hd
    obtain ⟨f1, f2, f3, f4⟩ := FreeBitmapImage_detach_frame env s s1 res hd
    obtain ⟨h1, a, b⟩ := hfree s1.heap _ f2 f3 f4 hc
    refine ⟨{ s1 with heap := { s1.heap with
      mem_free_log := s1.heap.mem_free_log ++ cs ++ [res] } }, ?_, rfl⟩
    simp only [FreeBitmapImage, hd, f1, a, b]

/-- Witness for C17: the resource at 4096 with continuation chunks at 8192
and 8448; `FreePath` frees 8192, 8448 and then 4096. -/
theorem C17_chain_finalizers_free_each_block_once_witness :
    VChain exampleEnv examplePDev.chunks
      (examplePDev.chunks (4096 + exampleEnv.layout.sizeof_Resource +
        exampleEnv.layout.off_path_chunk)).next_chunk [8192, 8448] ∧
    (FreePath exampleEnv 3 examplePDev.chunks examplePDev.heap 4096).map
      (fun h => h.mem_free_log) = some [8192, 8448, 4096] := by
  have hc : VChain exampleEnv examplePDev.chunks
      (examplePDev.chunks (4096 + exampleEnv.layout.sizeof_Resource +
        exampleEnv.layout.off_path_chunk)).next_chunk [8192, 8448] := by decide
  refine ⟨hc, ?_⟩
  have h := ((C17_chain_finalizers_free_each_block_once exampleEnv 3 examplePDev 4096
    [8192, 8448] (by decide) (by decide) (by decide) (by decide) (by decide) (by decide)).1 hc).1
  rw [h]
  rfl

/-- C16 (what the code does). On a cursor resource at 4096 with two
continuation chunks, at 8192 and 8448, `FreeCursor` calls `FreeMem` three
times, each time on the resource block 4096: the continuation chunks are
never freed and the resource block is freed repeatedly. -/
theorem C16_FreeCursor_frees_resource_block_repeatedly :
    VChain exampleEnv exampleChunks
      (exampleChunks (4096 + exampleEnv.layout.sizeof_Resource +
        exampleEnv.layout.off_cursor_chunk)).next_chunk [8192, 8448] ∧
    (FreeCursor exampleEnv 3 exampleChunks arenaHeap 4096).map
      (fun h => h.mem_free_log) = some [4096, 4096, 4096] := by
  constructor
  · decide
  · decide

/-! ### Physical addresses -/

theorem or_and_mask (hi off mask : Nat) (h1 : hi &&& mask = 0) (h2 : off &&& mask = off) :
    (hi ||| off) &&& mask = off := by
  apply Nat.eq_of_testBit_eq
  intro j
  have a := congrArg (fun n => n.testBit j) h1
  have b := congrArg (fun n => n.testBit j) h2
  simp only [Nat.testBit_and, Nat.zero_testBit] at a b
  rw [Nat.testBit_and, Nat.testBit_or]
  cases hh : hi.testBit j <;> cases ho : off.testBit j <;> cases hm : mask.testBit j <;>
    simp_all

theorem mul_pow_and_lt (a k mask : Nat) (hm : mask < 2 ^ k) : (a * 2 ^ k) &&& mask = 0 := by
  apply Nat.eq_of_testBit_eq
  intro j
  rw [Nat.testBit_and, Nat.zero_testBit, ← Nat.shiftLeft_eq, Nat.testBit_shiftLeft]
  by_cases hj : j ≥ k
  · have : mask < 2 ^ j := Nat.lt_of_lt_of_le hm (Nat.pow_le_pow_right (by decide) hj)
    rw [Nat.testBit_lt_two_pow this]
    simp
  · simp [hj]

/-- Arithmetic core of the address round trip: for field widths `I = 2^i`,
`G = 2^g` and an offset field of size `P`, the address
`P * (id * G + gen) + off` has `id` above the low `P * G` and `gen` as the
next field. -/
theorem slot_fields (P G I sid gen off : Nat) (hP : 0 < P) (hI : 0 < I)
    (hg : gen < G) (ho : off < P) :
    (P * (sid * G + gen) + off) / (P * G) = sid ∧
    ((P * (sid * G + gen) + off) * I) % (P * G * I) = (gen * P + off) * I ∧
    ((gen * P + off) * I) / (P * I) = gen := by
  have hG : 0 < G := by omega
  have hlt : gen * P + off < P * G := by
    have : (gen + 1) * P ≤ G * P := Nat.mul_le_mul_right P hg
    have e : (gen + 1) * P = gen * P + P := by ring
    have e2 : G * P = P * G := Nat.mul_comm _ _
    omega
  refine ⟨?_, ?_, ?_⟩
  · have e : P * (sid * G + gen) + off = (gen * P + off) + sid * (P * G) := by ring
    rw [e, Nat.add_mul_div_right _ _ (Nat.mul_pos hP hG), Nat.div_eq_of_lt hlt, Nat.zero_add]
  · have e : (P * (sid * G + gen) + off) * I = (gen * P + off) * I + sid * (P * G * I) := by ring
    rw [e, Nat.add_mul_mod_self_right]
    exact Nat.mod_eq_of_lt (Nat.mul_lt_mul_of_pos_right hlt hI)
  · have e : (gen * P + off) * I = off * I + gen * (P * I) := by ring
    rw [e, Nat.add_mul_div_right _ _ (Nat.mul_pos hP hI),
      Nat.div_eq_of_lt (Nat.mul_lt_mul_of_pos_right ho hI), Nat.zero_add]

/-- C18. Physical-address round trip. For a slot whose `high_bits` hold the
slot id in the top `slot_id_bits` and the generation in the next
`slot_gen_bits`, with `va_slot_mask` lying in the remaining low bits (so that
`high_bits` has no bit inside the mask), and for a 64-bit virtual address
`virt >= start_virt_addr` whose offset fits inside `va_slot_mask`:
both assertions of `VA` hold on `PA(virt)` and `VA(PA(virt)) = virt`.
Conversely `VA` fails its assertions on every physical address whose top
`slot_id_bits` differ from the slot id or whose generation field differs
from the slot's generation. -/
theorem C18_PA_VA_round_trip (bits : SlotBits) (p_slot : PMemSlot)
    (generation slot_id virt : Nat)
    (hb : bits.slot_id_bits + bits.slot_gen_bits ≤ 64)
    (hid : slot_id < 2 ^ bits.slot_id_bits) (hgen : generation < 2 ^ bits.slot_gen_bits)
    (hhigh : p_slot.high_bits =
      (slot_id * 2 ^ bits.slot_gen_bits + generation) *
        2 ^ (64 - (bits.slot_id_bits + bits.slot_gen_bits)))
    (hmask : bits.va_slot_mask < 2 ^ (64 - (bits.slot_id_bits + bits.slot_gen_bits)))
    (hstart : p_slot.start_virt_addr ≤ virt) (hvirt : virt < 18446744073709551616)
    (hfit : (virt - p_slot.start_virt_addr) &&& bits.va_slot_mask =
      virt - p_slot.start_virt_addr) :
    p_slot.high_bits &&& bits.va_slot_mask = 0 ∧
    PA p_slot virt >>> (64 - bits.slot_id_bits) = slot_id ∧
    ((PA p_slot virt <<< bits.slot_id_bits) % 18446744073709551616) >>>
      (64 - bits.slot_gen_bits) = generation ∧
    VA bits p_slot generation slot_id (PA p_slot virt) = some virt ∧
    (∀ paddr, paddr >>> (64 - bits.slot_id_bits) ≠ slot_id →
      VA bits p_slot generation slot_id paddr = none) ∧
    (∀ paddr, ((paddr <<< bits.slot_id_bits) % 18446744073709551616) >>>
        (64 - bits.slot_gen_bits) ≠ generation →
      VA bits p_slot generation slot_id paddr = none) := by
  obtain ⟨i, g, mask⟩ := bits
  obtain ⟨high, start⟩ := p_slot
  simp only at hb hid hgen hhigh hmask hstart hfit ⊢
  have hhm : high &&& mask = 0 := by rw [hhigh]; exact mul_pow_and_lt _ _ _ hmask
  have hoff : (18446744073709551616 - start % 18446744073709551616 + virt)
      % 18446744073709551616 = virt - start := by
    have hs : start < 18446744073709551616 := by omega
    rw [Nat.mod_eq_of_lt hs]
    have : 18446744073709551616 - start + virt = (virt - start) + 1 * 18446744073709551616 := by
      omega
    rw [this, Nat.add_mul_mod_self_right, Nat.mod_eq_of_lt (by omega)]
  have hofflt : virt - start < 2 ^ (64 - (i + g)) := by
    have : virt - start ≤ mask := by rw [← hfit]; exact Nat.and_le_right
    omega
  have hpa : PA ⟨high, start⟩ virt =
      2 ^ (64 - (i + g)) * (slot_id * 2 ^ g + generation) + (virt - start) := by
    simp only [PA, hoff]
    rw [hhigh, Nat.mul_comm _ (2 ^ (64 - (i + g)))]
    exact (Nat.mul_add_lt_is_or hofflt _).symm
  have hT : 2 ^ (64 - (i + g)) * 2 ^ g * 2 ^ i = 18446744073709551616 := by
    rw [← pow_add, ← pow_add]
    have : 64 - (i + g) + g + i = 64 := by omega
    rw [this]; norm_num
  have e1 : 64 - i = (64 - (i + g)) + g := by omega
  have e2 : 64 - g = (64 - (i + g)) + i := by omega
  obtain ⟨f1, f2, f3⟩ := slot_fields (2 ^ (64 - (i + g))) (2 ^ g) (2 ^ i) slot_id generation
    (virt - start) (Nat.pow_pos (by decide)) (Nat.pow_pos (by decide)) hgen hofflt
  have a1 : PA ⟨high, start⟩ virt >>> (64 - i) = slot_id := by
    rw [hpa, Nat.shiftRight_eq_div_pow, e1, pow_add]; exact f1
  have a2 : ((PA ⟨high, start⟩ virt <<< i) % 18446744073709551616) >>> (64 - g) =
      generation := by
    rw [hpa, Nat.shiftLeft_eq, ← hT, f2, Nat.shiftRight_eq_div_pow, e2, pow_add]; exact f3
  refine ⟨hhm, a1, a2, ?_, ?_, ?_⟩
  · simp only [VA, a1, a2, ne_eq, not_true_eq_false, if_false]
    have hp2 : PA ⟨high, start⟩ virt = high ||| (virt - start) := by simp only [PA, hoff]
    rw [hp2, or_and_mask _ _ _ hhm hfit]
    have : virt - start + start = virt := by omega
    rw [this, Nat.mod_eq_of_lt hvirt]
  · intro paddr hne
    simp only [VA, if_pos hne]
  · intro paddr hne
    simp only [VA]
    split_ifs <;> simp_all

/-- Witness for C18: the example slot (id 1, generation 0, base 4096, 8 + 8
field bits) and the virtual address 8192. -/
theorem C18_PA_VA_round_trip_witness :
    PA exampleSlot 8192 = 72057594037932032 ∧
    VA exampleEnv.bits exampleSlot 0 1 (PA exampleSlot 8192) = some 8192 ∧
    VA exampleEnv.bits exampleSlot 0 1 (PA { exampleSlot with high_bits := 0 } 8192) = none := by
  have h := C18_PA_VA_round_trip exampleEnv.bits exampleSlot 0 1 8192 (by decide) (by decide)
    (by decide) (by decide) (by decide) (by decide) (by decide) (by decide)
  exact ⟨by decide, h.2.2.2.1, h.2.2.2.2.1 _ (by decide)⟩


/-! ### Image hash -/

theorem foldl_congr_mem {α β : Type} (f g : α → β → α) (l : List β)
    (h : ∀ x, x ∈ l → ∀ a, f a x = g a x) (init : α) : l.foldl f init = l.foldl g init := by
  induction l generalizing init with
  | nil => rfl
  | cons x xs ih =>
    simp only [List.foldl_cons]
    rw [h x (List.mem_cons_self _ _) init]
    exact ih (fun y hy a => h y (List.mem_cons_of_mem _ hy) a) _

theorem GetHash_row_32 (k : Consts) (hashlittle : List Nat → Nat → Nat) (b1 b2 : Int → Nat) (width : Int)
    (w : Nat) (row_buf : Int) (hv lb : Nat)
    (hagree : ∀ x b : Nat, x < w → b < 3 →
      b1 (row_buf + 4 * (x : Int) + (b : Int)) = b2 (row_buf + 4 * (x : Int) + (b : Int))) :
    GetHash.row k hashlittle b1 width k.BITMAP_FMT_32BIT (4 * w) row_buf hv lb =
    GetHash.row k hashlittle b2 width k.BITMAP_FMT_32BIT (4 * w) row_buf hv lb := by
  unfold GetHash.row
  simp only [if_true]
  have hw : (4 * w + 3) / 4 = w := by omega
  rw [hw]
  congr 1
  apply foldl_congr_mem
  intro x hx a
  have e : readBytes b1 (row_buf + 4 * (x : Int)) 3 = readBytes b2 (row_buf + 4 * (x : Int)) 3 := by
    unfold readBytes
    apply List.map_congr_left
    intro b hb
    exact hagree x b (List.mem_range.mp hx) (List.mem_range.mp hb)
  show hashlittle (readBytes b1 (row_buf + 4 * (x : Int)) 3) a =
    hashlittle (readBytes b2 (row_buf + 4 * (x : Int)) 3) a
  rw [e]

theorem GetHash_rows_32 (k : Consts) (hashlittle : List Nat → Nat → Nat) (b1 b2 : Int → Nat) (width : Int)
    (w : Nat) (stride : Int) (rows : Nat) :
    ∀ (row_buf : Int) (hv lb : Nat),
    (∀ r x b : Nat, r < rows → x < w → b < 3 →
      b1 (row_buf + (r : Int) * stride + 4 * (x : Int) + (b : Int)) =
      b2 (row_buf + (r : Int) * stride + 4 * (x : Int) + (b : Int))) →
    GetHash.rows k hashlittle b1 width k.BITMAP_FMT_32BIT (4 * w) stride rows row_buf hv lb =
    GetHash.rows k hashlittle b2 width k.BITMAP_FMT_32BIT (4 * w) stride rows row_buf hv lb := by
  induction rows with
  | zero => intro row_buf hv lb _; rfl
  | succ n ih =>
    intro row_buf hv lb hagree
    unfold GetHash.rows
    have h0 : GetHash.row k hashlittle b1 width k.BITMAP_FMT_32BIT (4 * w) row_buf hv lb =
        GetHash.row k hashlittle b2 width k.BITMAP_FMT_32BIT (4 * w) row_buf hv lb := by
      apply GetHash_row_32
      intro x b hx hb
      have := hagree 0 x b (Nat.succ_pos n) hx hb
      simpa using this
    rw [h0]
    apply ih
    intro r x b hr hx hb
    have := hagree (r + 1) x b (Nat.succ_lt_succ hr) hx hb
    have e : row_buf + ((r + 1 : Nat) : Int) * stride = row_buf + stride + (r : Int) * stride := by
      push_cast; ring
    rw [e] at this
    exact this

/-- C20. For format `BITMAP_FMT_32BIT` and `line_size = 4 * width`, `GetHash`
returns the same value for any two byte memories that agree on bytes 0, 1 and
2 of each of the `width` pixels of each of the `height` rows (row `r` starting
at `src + r * stride`), whatever they hold in the fourth byte of a pixel and in
the bytes of a row past `line_size`; `hashlittle` is an arbitrary function. -/
theorem C20_GetHash_32BIT_ignores_fourth_byte (env : Env) (bytes2 : Int → Nat) (src : Int)
    (width height : Int) (stride : Int) (color_trans : Option XLATEOBJ)
    (hagree : ∀ r x b : Nat, r < height.toNat → x < width.toNat → b < 3 →
      env.bytes (src + (r : Int) * stride + 4 * (x : Int) + (b : Int)) =
      bytes2 (src + (r : Int) * stride + 4 * (x : Int) + (b : Int))) :
    GetHash env src width height env.consts.BITMAP_FMT_32BIT (4 * width.toNat) stride color_trans =
    GetHash { env with bytes := bytes2 } src width height env.consts.BITMAP_FMT_32BIT (4 * width.toNat)
      stride color_trans := by
  unfold GetHash
  exact GetHash_rows_32 env.consts env.hashlittle env.bytes bytes2 width width.toNat stride height.toNat src
    _ 0 hagree

theorem C20_GetHash_32BIT_ignores_fourth_byte_witness :
    exampleEnv.bytes 3 ≠ (fun a : Int => if a = 3 ∨ 8 ≤ a then 0 else exampleEnv.bytes a) 3 ∧
    GetHash exampleEnv 0 2 1 exampleEnv.consts.BITMAP_FMT_32BIT (4 * (2 : Int).toNat) 16 none =
    GetHash { exampleEnv with
        bytes := fun a : Int => if a = 3 ∨ 8 ≤ a then 0 else exampleEnv.bytes a }
      0 2 1 exampleEnv.consts.BITMAP_FMT_32BIT (4 * (2 : Int).toNat) 16 none :=
  ⟨by decide,
   C20_GetHash_32BIT_ignores_fourth_byte exampleEnv
    (fun a : Int => if a = 3 ∨ 8 ≤ a then 0 else exampleEnv.bytes a) 0 2 1 16 none
    (by
      intro r x b hr hx hb
      have hr1 : r < 1 := hr
      have hx1 : x < 2 := hx
      have h1 : ¬ ((0 : Int) + (r : Int) * 16 + 4 * (x : Int) + (b : Int) = 3 ∨
          8 ≤ (0 : Int) + (r : Int) * 16 + 4 * (x : Int) + (b : Int)) := by omega
      simp only [h1, if_false])⟩


/-! ### Image cache recency -/

theorem ImageCacheGetByKey_walk_ring (key : Nat) (check_rest : Bool) (format width height : Nat) :
    ∀ (fuel : Nat) (ic : ImageCache) (p : Nat) (r : Nat × ImageCache),
    ImageCacheGetByKey.walk key check_rest format width height fuel ic p = some r →
    r.2.cache_image_lru = ic.cache_image_lru ∧ r.2.image_cache = ic.image_cache ∧
    r.2.image_key_lookup = ic.image_key_lookup := by
  intro fuel
  induction fuel with
  | zero => intro ic p r h; simp [ImageCacheGetByKey.walk] at h
  | succ n ih =>
    intro ic p r h
    unfold ImageCacheGetByKey.walk at h
    split at h
    · cases h; exact ⟨rfl, rfl, rfl⟩
    · split at h
      · cases h; exact ⟨rfl, rfl, rfl⟩
      · exact ih ic _ r h

/-- C12 (counterexample). In `lruCache` slot 1 was reserved before slot 2 and
stands at the tail of `cache_image_lru`. A lookup of key 16 hits slot 1 (its
`hits` goes from 1 to 2); the ring is still `[2, 1]`, not the ring with slot 1
moved to the head, and the next `AllocCacheImage` takes slot 1, the slot that
was just hit, although slot 2 was touched less recently. -/
theorem C12_hit_slot_is_next_taken :
    ∃ ic1 : ImageCache,
      ImageCacheGetByKey 255 8 lruCache 16 false 0 0 0 = some (1, ic1) ∧
      (ic1.pool 1).hits = 2 ∧
      ic1.cache_image_lru = [2, 1] ∧
      ic1.cache_image_lru ≠ RingAdd (RingRemove lruCache.cache_image_lru 1) 1 ∧
      (AllocCacheImage ic1).map Prod.fst = some 1 :=
  ⟨(hitResult lruCache 1).2, rfl, by decide, by decide, by decide, by decide⟩

/-- C12 (amended). A lookup through `ImageCacheGetByKey` never changes
`cache_image_lru` (nor the hash buckets or the key-lookup table): the
only effect of a hit is `hits++` on the slot found. The slot that the next
`AllocCacheImage` takes is therefore the same before and after the lookup: the
tail of the ring, whatever was hit. -/
theorem C12_ImageCacheGetByKey_keeps_ring (IMAGE_HASH_MASK fuel : Nat) (ic ic1 : ImageCache)
    (key : Nat) (check_rest : Bool) (format width height found : Nat)
    (h : ImageCacheGetByKey IMAGE_HASH_MASK fuel ic key check_rest format width height =
      some (found, ic1)) :
    ic1.cache_image_lru = ic.cache_image_lru ∧
    ic1.image_cache = ic.image_cache ∧
    ic1.image_key_lookup = ic.image_key_lookup ∧
    (AllocCacheImage ic1).map Prod.fst = (AllocCacheImage ic).map Prod.fst := by
  have hw := ImageCacheGetByKey_walk_ring key check_rest format width height fuel ic _ _ h
  refine ⟨hw.1, hw.2.1, hw.2.2, ?_⟩
  have e : ic1.cache_image_lru = ic.cache_image_lru := hw.1
  unfold AllocCacheImage
  rw [e]
  by_cases ht : RingGetTail ic.cache_image_lru = 0
  · simp [ht]
  · simp [ht]

theorem C12_ImageCacheGetByKey_keeps_ring_witness :
    ImageCacheGetByKey 255 8 lruCache 16 false 0 0 0 = some (hitResult lruCache 1) ∧
    (hitResult lruCache 1).2.cache_image_lru = lruCache.cache_image_lru ∧
    (AllocCacheImage (hitResult lruCache 1).2).map Prod.fst = some 1 ∧
    (AllocCacheImage lruCache).map Prod.fst = some 1 :=
  ⟨rfl,
   (C12_ImageCacheGetByKey_keeps_ring 255 8 lruCache (hitResult lruCache 1).2 16 false 0 0 0 1
      rfl).1,
   by decide, by decide⟩


/-! ### Compressed images -/

/-- C15 (code as written). On `QUIC_ERROR`, `GetQuicImage` hands the new block
to `FreeQuicImage` before anything has written its `cache` field. In
`staleBlockPDev` the block at 8192 still holds `cache = 5` from an earlier
image: the call returns `NULL` and frees the continuation chunk 8448 and the
block 8192 once each, but it also puts slot 5 on `cache_image_lru` and clears
the `image` back-reference of slot 5, which was bound to the live image at
4120. With `cache = 0` in the block (`examplePDev`) the ring is unchanged. -/
theorem C15_GetQuicImage_error_path_reads_stale_cache :
    (GetQuicImage quicErrorEnv 3 staleBlockPDev exampleSurf false 2 2 8 0 8 77).map
      (fun r => (r.1, r.2.heap.mem_free_log, r.2.icache.cache_image_lru,
        (r.2.icache.pool 5).image)) = some (0, [8448, 8192], [5, 1, 2], 0) ∧
    staleBlockPDev.icache.cache_image_lru = [1, 2] ∧
    (staleBlockPDev.icache.pool 5).image = 4120 ∧
    (GetQuicImage quicErrorEnv 3 examplePDev exampleSurf false 2 2 8 0 8 77).map
      (fun r => (r.1, r.2.heap.mem_free_log, r.2.icache.cache_image_lru,
        (r.2.icache.pool 5).image)) = some (0, [8448, 8192], [1, 2], 4120) := by
  refine ⟨by decide, by decide, by decide, by decide⟩


/-! ### Chunk chains built by the encoders -/

theorem allocated_snoc (alloc : Nat → Nat) (k m : Nat) :
    allocated alloc k (m + 1) = allocated alloc k m ++ [alloc (k + m)] := by
  simp [allocated, List.range_succ]

theorem mem_allocated_lt (alloc : Nat → Nat) (k m a : Nat) (h : a ∈ allocated alloc k m) :
    ∃ j, k ≤ j ∧ j < k + m ∧ a = alloc j := by
  simp only [allocated, List.mem_map, List.mem_range] at h
  obtain ⟨i, hi1, hi⟩ := h
  exact ⟨k + i, by omega, by omega, hi.symm⟩

theorem VChain_congr (env : Env) (m1 m2 : ChunkMem) (cs : List Nat) :
    ∀ phys, (∀ a, a ∈ cs → (m2 a).next_chunk = (m1 a).next_chunk) →
      VChain env m1 phys cs → VChain env m2 phys cs := by
  induction cs with
  | nil => intro phys _ h; exact h
  | cons c rest ih =>
    intro phys hsame h
    obtain ⟨h0, hva, hrest⟩ := h
    refine ⟨h0, hva, ?_⟩
    rw [hsame c (List.mem_cons_self _ _)]
    exact ih _ (fun a ha => hsame a (List.mem_cons_of_mem _ ha)) hrest

theorem getLastD_mem_cons (cs : List Nat) : ∀ prev : Nat, cs.getLastD prev ∈ prev :: cs := by
  induction cs with
  | nil => intro prev; simp
  | cons c rest ih =>
    intro prev
    rw [List.getLastD_cons]
    exact List.mem_cons_of_mem _ (ih c)

theorem VChain_snoc (env : Env) (m1 m2 : ChunkMem) (ptr : Nat)
    (hpa : PA env.main_slot ptr ≠ 0)
    (hva : VA env.bits env.main_slot env.main_generation env.main_mem_slot
      (PA env.main_slot ptr) = some ptr)
    (hnew : (m2 ptr).next_chunk = 0) (cs : List Nat) :
    ∀ prev, VChain env m1 (m1 prev).next_chunk cs → prev ∉ cs → cs.Nodup → ptr ∉ cs →
      (∀ a, a ≠ cs.getLastD prev → a ≠ ptr → (m2 a).next_chunk = (m1 a).next_chunk) →
      (m2 (cs.getLastD prev)).next_chunk = PA env.main_slot ptr → ptr ≠ prev →
      VChain env m2 (m2 prev).next_chunk (cs ++ [ptr]) := by
  induction cs with
  | nil =>
    intro prev _ _ _ _ _ hlast _
    simp only [List.getLastD_nil] at hlast
    simp only [List.nil_append, VChain]
    rw [hlast]
    exact ⟨hpa, hva, hnew⟩
  | cons c rest ih =>
    intro prev hc hprev hnd hptr hsame hlast hpp
    obtain ⟨h0, hvac, hrest⟩ := hc
    rw [List.getLastD_cons] at hlast hsame
    have hlast_mem : rest.getLastD c ∈ c :: rest := getLastD_mem_cons rest c
    have hprev_ne : prev ≠ rest.getLastD c := fun e => hprev (e ▸ hlast_mem)
    have hpe : (m2 prev).next_chunk = (m1 prev).next_chunk := hsame prev hprev_ne (fun e => hpp e.symm)
    simp only [List.cons_append, VChain]
    rw [hpe]
    refine ⟨h0, hvac, ?_⟩
    have hnd2 := List.nodup_cons.mp hnd
    exact ih c hrest hnd2.1 hnd2.2 (fun h => hptr (List.mem_cons_of_mem _ h)) hsame hlast
      (fun e => hptr (e ▸ List.mem_cons_self _ _))

theorem EncChain_copyToChunk (env : Env) (first k0 : Nat) (st : Encoder) (src : List Nat)
    (cp : Nat) (h : EncChain env first k0 st) : EncChain env first k0 (copyToChunk st src cp) := by
  obtain ⟨m, h1, h2, h3⟩ := h
  have hnext : ∀ a, ((copyToChunk st src cp).mem a).next_chunk = (st.mem a).next_chunk := by
    intro a
    by_cases ha : a = st.chunk
    · subst ha; exact (copyToChunk_mem_self st src cp).2.1
    · rw [copyToChunk_mem_other st src cp a ha]
  refine ⟨m, h1, h2, ?_⟩
  rw [hnext first]
  exact VChain_congr env st.mem _ _ _ (fun a _ => hnext a) h3

theorem EncChain_NEW_DATA_CHUNK (env : Env) (hp : ResHeap) (first k0 K : Nat) (st : Encoder)
    (size : Nat) (hok : AllocOk env hp first k0 K) (hK : st.nalloc < K)
    (h : EncChain env first k0 st) :
    EncChain env first k0 (NEW_DATA_CHUNK env.main_slot env.alloc st size) := by
  obtain ⟨m, h1, h2, h3⟩ := h
  obtain ⟨hinj, hall⟩ := hok
  have hptr_notin : env.alloc st.nalloc ∉ allocated env.alloc k0 m := by
    intro hmem
    obtain ⟨j, hj1, hj2, hj3⟩ := mem_allocated_lt _ _ _ _ hmem
    have := hinj st.nalloc hK j (by omega) (by omega) hj1 hj3
    omega
  have hfirst_notin : first ∉ allocated env.alloc k0 m := by
    intro hmem
    obtain ⟨j, hj1, hj2, hj3⟩ := mem_allocated_lt _ _ _ _ hmem
    exact (hall j (by omega) hj1).1 hj3.symm
  have hnew := hall st.nalloc hK (by omega)
  have hptr_first : env.alloc st.nalloc ≠ first := hnew.1
  have hchunk_mem : st.chunk ∈ first :: allocated env.alloc k0 m := by
    rw [h2]; exact getLastD_mem_cons _ _
  have hptr_chunk : env.alloc st.nalloc ≠ st.chunk := by
    intro e
    rw [← e] at hchunk_mem
    rcases List.mem_cons.mp hchunk_mem with h | h
    · exact hptr_first h
    · exact hptr_notin h
  refine ⟨m + 1, by rw [(NEW_DATA_CHUNK_fields _ _ _ _).2.2.2, h1]; omega, ?_, ?_⟩
  · rw [(NEW_DATA_CHUNK_fields _ _ _ _).1, allocated_snoc, List.getLastD_concat, h1]
  · rw [allocated_snoc, ← h1]
    apply VChain_snoc env st.mem _ (env.alloc st.nalloc) hnew.2.2.1
      hnew.2.2.2 (NEW_DATA_CHUNK_mem_new _ _ _ _).2.1 _ first h3 hfirst_notin
      (VChain_nodup env st.mem _ _ h3) hptr_notin
    · intro a ha1 ha2
      rw [← h2] at ha1
      rw [NEW_DATA_CHUNK_mem_other _ _ _ _ a ha1 ha2]
    · rw [← h2]
      exact (NEW_DATA_CHUNK_mem_old _ _ _ _ hptr_chunk).2.1
    · exact hptr_first

theorem ensureRoom_nalloc (env : Env) (st : Encoder) (size alloc : Nat) :
    st.nalloc ≤ (ensureRoom env st size alloc).nalloc ∧
    (ensureRoom env st size alloc).nalloc ≤ st.nalloc + 1 := by
  unfold ensureRoom
  split
  · rw [(NEW_DATA_CHUNK_fields _ _ _ _).2.2.2]; omega
  · omega

theorem EncChain_ensureRoom (env : Env) (hp : ResHeap) (first k0 K : Nat) (st : Encoder)
    (size alloc : Nat) (hok : AllocOk env hp first k0 K)
    (h : EncChain env first k0 st) (hK : (ensureRoom env st size alloc).nalloc ≤ K) :
    EncChain env first k0 (ensureRoom env st size alloc) := by
  unfold ensureRoom at hK ⊢
  split
  · rename_i hc
    rw [if_pos hc, (NEW_DATA_CHUNK_fields _ _ _ _).2.2.2] at hK
    exact EncChain_NEW_DATA_CHUNK env hp first k0 K st alloc hok (by omega) h
  · exact h

theorem AllocOk_mono (env : Env) (hp : ResHeap) (first k0 k1 K : Nat) (hk : k0 ≤ k1)
    (h : AllocOk env hp first k0 K) : AllocOk env hp first k1 K :=
  ⟨fun i hi j hj h1 h2 => h.1 i hi j hj (by omega) (by omega),
   fun k hk1 hk2 => h.2 k hk1 (by omega)⟩

theorem foldl_mono {α β : Type} (μ : α → Nat) (f : α → β → α)
    (hm : ∀ a b, μ a ≤ μ (f a b)) (l : List β) : ∀ a, μ a ≤ μ (l.foldl f a) := by
  induction l with
  | nil => intro a; exact Nat.le_refl _
  | cons x xs ih => intro a; exact Nat.le_trans (hm a x) (ih _)

theorem foldl_growth {α β : Type} (μ : α → Nat) (f : α → β → α) (c : β → Nat)
    (hg : ∀ a b, μ (f a b) ≤ μ a + c b) (l : List β) :
    ∀ a, μ (l.foldl f a) ≤ μ a + (l.map c).sum := by
  induction l with
  | nil => intro a; simp
  | cons x xs ih =>
    intro a
    have h1 := ih (f a x)
    have h2 := hg a x
    simp only [List.foldl_cons, List.map_cons, List.sum_cons]
    omega

theorem foldl_invariant_bounded {α β : Type} (P : α → Prop) (μ : α → Nat) (K : Nat)
    (f : α → β → α) (hm : ∀ a b, μ a ≤ μ (f a b))
    (hf : ∀ a b, P a → μ (f a b) ≤ K → P (f a b)) (l : List β) :
    ∀ a, P a → μ (l.foldl f a) ≤ K → P (l.foldl f a) := by
  induction l with
  | nil => intro a h _; exact h
  | cons x xs ih =>
    intro a h hK
    simp only [List.foldl_cons] at hK ⊢
    exact ih _ (hf a x h (Nat.le_trans (foldl_mono μ f hm xs _) hK)) hK

theorem byte_nalloc (env : Env) (st : StrEnc) (b : Nat) :
    st.enc.nalloc ≤ (add_rast_glyphs.byte env st b).enc.nalloc ∧
    (add_rast_glyphs.byte env st b).enc.nalloc ≤ st.enc.nalloc + 1 :=
  ensureRoom_nalloc env st.enc 1 env.consts.PAGE_SIZE

theorem EncChain_byte (env : Env) (hp : ResHeap) (first k0 K : Nat)
    (hok : AllocOk env hp first k0 K) (st : StrEnc) (b : Nat)
    (h : EncChain env first k0 st.enc) (hK : (add_rast_glyphs.byte env st b).enc.nalloc ≤ K) :
    EncChain env first k0 (add_rast_glyphs.byte env st b).enc :=
  EncChain_copyToChunk env first k0 _ _ _ (EncChain_ensureRoom env hp first k0 K _ _ _ hok h hK)

theorem sum_map_one {β : Type} (l : List β) : (l.map (fun _ => 1)).sum = l.length := by
  induction l with
  | nil => rfl
  | cons x xs ih => simp only [List.map_cons, List.sum_cons, List.length_cons, ih]; omega

theorem bytes_nalloc (env : Env) (rows : List Nat) (st : StrEnc) :
    st.enc.nalloc ≤ (rows.foldl (add_rast_glyphs.byte env) st).enc.nalloc ∧
    (rows.foldl (add_rast_glyphs.byte env) st).enc.nalloc ≤ st.enc.nalloc + rows.length := by
  refine ⟨foldl_mono (fun s : StrEnc => s.enc.nalloc) _ (fun a b => (byte_nalloc env a b).1) rows st,
    ?_⟩
  have := foldl_growth (fun s : StrEnc => s.enc.nalloc) (add_rast_glyphs.byte env) (fun _ => 1)
    (fun a b => (byte_nalloc env a b).2) rows st
  rw [sum_map_one] at this
  exact this

theorem EncChain_bytes (env : Env) (hp : ResHeap) (first k0 K : Nat)
    (hok : AllocOk env hp first k0 K) (rows : List Nat) (st : StrEnc)
    (h : EncChain env first k0 st.enc)
    (hK : (rows.foldl (add_rast_glyphs.byte env) st).enc.nalloc ≤ K) :
    EncChain env first k0 (rows.foldl (add_rast_glyphs.byte env) st).enc :=
  foldl_invariant_bounded (fun s : StrEnc => EncChain env first k0 s.enc)
    (fun s : StrEnc => s.enc.nalloc) K _ (fun a b => (byte_nalloc env a b).1)
    (fun a b ha hb => EncChain_byte env hp first k0 K hok a b ha hb) rows st h hK

theorem glyph_nalloc (env : Env) (bpp : Nat) (delta : Option (Int × Int)) (st : StrEnc)
    (g : GLYPHPOS) :
    st.enc.nalloc ≤ (add_rast_glyphs.glyph env bpp delta st g).enc.nalloc ∧
    (add_rast_glyphs.glyph env bpp delta st g).enc.nalloc ≤ st.enc.nalloc + glyphWork env bpp g := by
  have h0 := ensureRoom_nalloc env st.enc env.layout.sizeof_RasterGlyph env.consts.PAGE_SIZE
  unfold add_rast_glyphs.glyph glyphWork
  simp only []
  split
  · exact ⟨h0.1, Nat.le_trans h0.2 (by omega)⟩
  · rename_i hh
    have hb := bytes_nalloc env
      (glyphRows env.bytes g.aj
        ((ALIGN (toU32 g.sizlBitmap.1 % 65536 * bpp) 8 % UINT32_MOD) >>> 3)
        (toU32 g.sizlBitmap.2 % 65536))
      { enc := copyToChunk
          (ensureRoom env st.enc env.layout.sizeof_RasterGlyph env.consts.PAGE_SIZE)
          (rasterGlyphBytes
            (match delta, st.str_pos with
              | some d, some p => (toI32 (p.1 + d.1), toI32 (p.2 + d.2))
              | _, _ => g.ptl)
            g.ptlOrigin (toU32 g.sizlBitmap.1 % 65536) (toU32 g.sizlBitmap.2 % 65536))
          env.layout.sizeof_RasterGlyph
        data_size := (env.layout.sizeof_RasterGlyph + st.data_size) % UINT32_MOD
        str_pos := if delta.isSome then some
            (match delta, st.str_pos with
              | some d, some p => (toI32 (p.1 + d.1), toI32 (p.2 + d.2))
              | _, _ => g.ptl)
          else st.str_pos }
    exact ⟨Nat.le_trans h0.1 hb.1, Nat.le_trans hb.2 (by
      have := h0.2
      show (ensureRoom env st.enc env.layout.sizeof_RasterGlyph env.consts.PAGE_SIZE).nalloc + _
        ≤ _
      omega)⟩

theorem bytes_nalloc_header (env : Env) (rows : List Nat) (e : Encoder) (src : List Nat)
    (cp d : Nat) (p : Option (Int × Int)) :
    e.nalloc ≤ (rows.foldl (add_rast_glyphs.byte env)
      { enc := copyToChunk e src cp, data_size := d, str_pos := p }).enc.nalloc :=
  (bytes_nalloc env rows { enc := copyToChunk e src cp, data_size := d, str_pos := p }).1

theorem EncChain_glyph (env : Env) (hp : ResHeap) (first k0 K : Nat)
    (hok : AllocOk env hp first k0 K) (bpp : Nat) (delta : Option (Int × Int)) (st : StrEnc)
    (g : GLYPHPOS) (h : EncChain env first k0 st.enc)
    (hK : (add_rast_glyphs.glyph env bpp delta st g).enc.nalloc ≤ K) :
    EncChain env first k0 (add_rast_glyphs.glyph env bpp delta st g).enc := by
  unfold add_rast_glyphs.glyph at hK ⊢
  simp only [] at hK ⊢
  split
  · rename_i hh
    rw [if_pos hh] at hK
    exact EncChain_copyToChunk env first k0 _ _ _
      (EncChain_ensureRoom env hp first k0 K _ _ _ hok h hK)
  · rename_i hh
    rw [if_neg hh] at hK
    apply EncChain_bytes env hp first k0 K hok _ _ _ hK
    apply EncChain_copyToChunk env first k0 _ _ _
    apply EncChain_ensureRoom env hp first k0 K _ _ _ hok h
    exact Nat.le_trans (bytes_nalloc_header env _ _ _ _ _ _) hK

theorem glyphs_nalloc (env : Env) (bpp : Nat) (delta : Option (Int × Int))
    (glyps : List GLYPHPOS) (st : StrEnc) :
    st.enc.nalloc ≤ (add_rast_glyphs env bpp delta st glyps).enc.nalloc ∧
    (add_rast_glyphs env bpp delta st glyps).enc.nalloc ≤
      st.enc.nalloc + (glyps.map (glyphWork env bpp)).sum :=
  ⟨foldl_mono (fun s : StrEnc => s.enc.nalloc) _ (fun a b => (glyph_nalloc env bpp delta a b).1)
      glyps st,
   foldl_growth (fun s : StrEnc => s.enc.nalloc) _ (glyphWork env bpp)
      (fun a b => (glyph_nalloc env bpp delta a b).2) glyps st⟩

theorem EncChain_glyphs (env : Env) (hp : ResHeap) (first k0 K : Nat)
    (hok : AllocOk env hp first k0 K) (bpp : Nat) (delta : Option (Int × Int))
    (glyps : List GLYPHPOS) (st : StrEnc) (h : EncChain env first k0 st.enc)
    (hK : (add_rast_glyphs env bpp delta st glyps).enc.nalloc ≤ K) :
    EncChain env first k0 (add_rast_glyphs env bpp delta st glyps).enc :=
  foldl_invariant_bounded (fun s : StrEnc => EncChain env first k0 s.enc)
    (fun s : StrEnc => s.enc.nalloc) K _ (fun a b => (glyph_nalloc env bpp delta a b).1)
    (fun a b ha hb => EncChain_glyph env hp first k0 K hok bpp delta a b ha hb) glyps st h hK

theorem add_glyphs_nalloc (env : Env) (flags : Nat) (delta : Option (Int × Int)) (st : StrEnc)
    (glyps : List GLYPHPOS) :
    st.enc.nalloc ≤ (add_glyphs env flags delta st glyps).2.enc.nalloc ∧
    (add_glyphs env flags delta st glyps).2.enc.nalloc ≤
      st.enc.nalloc + add_glyphs.work env flags glyps := by
  unfold add_glyphs add_glyphs.work
  split
  · exact glyphs_nalloc env 1 delta glyps st
  · split
    · exact glyphs_nalloc env 4 delta glyps st
    · exact ⟨Nat.le_refl _, Nat.le_refl _⟩

theorem EncChain_add_glyphs (env : Env) (hp : ResHeap) (first k0 K : Nat)
    (hok : AllocOk env hp first k0 K) (flags : Nat) (delta : Option (Int × Int)) (st : StrEnc)
    (glyps : List GLYPHPOS) (h : EncChain env first k0 st.enc)
    (hK : (add_glyphs env flags delta st glyps).2.enc.nalloc ≤ K) :
    EncChain env first k0 (add_glyphs env flags delta st glyps).2.enc := by
  unfold add_glyphs at hK ⊢
  split
  · rename_i hh
    rw [if_pos hh] at hK
    exact EncChain_glyphs env hp first k0 K hok 1 delta glyps st h hK
  · rename_i hh
    rw [if_neg hh] at hK
    split
    · rename_i hh2
      rw [if_pos hh2] at hK
      exact EncChain_glyphs env hp first k0 K hok 4 delta glyps st h hK
    · exact h

theorem add_glyphs_vector (env : Env) (delta : Option (Int × Int)) (st : StrEnc)
    (glyps : List GLYPHPOS) : add_glyphs env 0 delta st glyps = (false, st) := by
  simp [add_glyphs]

theorem QXLGetStr_loop_vector (env : Env) (str : STROBJ) (delta : Option (Int × Int))
    (fuel k : Nat) (st : StrEnc) :
    QXLGetStr.loop env str 0 delta (fuel + 1) k st = some (false, st) := by
  unfold QXLGetStr.loop
  split
  · rw [add_glyphs_vector]
  · split
    · rfl
    · rw [add_glyphs_vector]; simp

theorem range_succ_sum (f : Nat → Nat) (n : Nat) :
    ((List.range (n + 1)).map f).sum = f 0 + ((List.range n).map (fun k => f (k + 1))).sum := by
  rw [List.range_succ_eq_map, List.map_cons, List.sum_cons, List.map_map]
  rfl

/-- The loop of `QXLGetStr` when call `k + n` of the enumerator reports
`DDI_ERROR` and no earlier call ended the enumeration: it exits through
`error` with a cursor that satisfies the chain condition and has made at most
as many allocations as there were steps in the batches before the error. -/
theorem QXLGetStr_loop_error (env : Env) (hp : ResHeap) (first k0 K : Nat)
    (hok : AllocOk env hp first k0 K) (str : STROBJ) (flags : Nat)
    (delta : Option (Int × Int)) (hpgp : str.pgp = none) :
    ∀ (n k : Nat) (st : StrEnc), (str.bEnum (k + n)).1 = env.consts.DDI_ERROR →
      (∀ j, j < n → (str.bEnum (k + j)).1 ≠ 0) →
      EncChain env first k0 st.enc →
      st.enc.nalloc +
        ((List.range n).map (fun j => add_glyphs.work env flags (str.bEnum (k + j)).2)).sum ≤ K →
      ∃ st1, (∀ fuel, n < fuel →
          QXLGetStr.loop env str flags delta fuel k st = some (false, st1)) ∧
        EncChain env first k0 st1.enc ∧ st1.enc.nalloc ≤ K := by
  intro n
  induction n with
  | zero =>
    intro k st herr _ hst hK
    refine ⟨st, ?_, hst, by simpa using hK⟩
    intro fuel hf
    obtain ⟨f, rfl⟩ : ∃ f, fuel = f + 1 := ⟨fuel - 1, by omega⟩
    unfold QXLGetStr.loop
    simp only [hpgp]
    rw [if_pos (by simpa using herr)]
  | succ n ih =>
    intro k st herr hmore hst hK
    rw [range_succ_sum] at hK
    simp only [Nat.add_zero] at hK
    have hg := add_glyphs_nalloc env flags delta st (str.bEnum k).2
    have hch : EncChain env first k0 (add_glyphs env flags delta st (str.bEnum k).2).2.enc :=
      EncChain_add_glyphs env hp first k0 K hok flags delta st _ hst (by omega)
    by_cases h1 : (str.bEnum k).1 = env.consts.DDI_ERROR
    · refine ⟨st, ?_, hst, by omega⟩
      intro fuel hf
      obtain ⟨f, rfl⟩ : ∃ f, fuel = f + 1 := ⟨fuel - 1, by omega⟩
      unfold QXLGetStr.loop
      simp only [hpgp]
      rw [if_pos h1]
    · by_cases h2 : (add_glyphs env flags delta st (str.bEnum k).2).1 = false
      · refine ⟨(add_glyphs env flags delta st (str.bEnum k).2).2, ?_, hch, by omega⟩
        intro fuel hf
        obtain ⟨f, rfl⟩ : ∃ f, fuel = f + 1 := ⟨fuel - 1, by omega⟩
        unfold QXLGetStr.loop
        simp only [hpgp]
        rw [if_neg h1, if_pos h2]
      · have h3 : (str.bEnum k).1 ≠ 0 := by simpa using hmore 0 (Nat.succ_pos n)
        have hsum : ((List.range n).map
            (fun j => add_glyphs.work env flags (str.bEnum (k + 1 + j)).2)).sum =
            ((List.range n).map
              (fun j => add_glyphs.work env flags (str.bEnum (k + (j + 1))).2)).sum := by
          congr 1
          apply List.map_congr_left
          intro j _
          rw [show k + 1 + j = k + (j + 1) by omega]
        obtain ⟨st1, hst1, hch1, hK1⟩ := ih (k + 1) (add_glyphs env flags delta st (str.bEnum k).2).2
          (by rw [show k + 1 + n = k + (n + 1) by omega]; exact herr)
          (fun j hj => by
            rw [show k + 1 + j = k + (j + 1) by omega]; exact hmore (j + 1) (by omega))
          hch (by rw [hsum]; omega)
        refine ⟨st1, ?_, hch1, hK1⟩
        intro fuel hf
        obtain ⟨f, rfl⟩ : ∃ f, fuel = f + 1 := ⟨fuel - 1, by omega⟩
        unfold QXLGetStr.loop
        simp only [hpgp]
        rw [if_neg h1, if_neg h2, if_pos h3]
        exact hst1 f (by omega)

theorem QXLGetStr_error_exit (env : Env) (s : PDev) (drawable str_phys : Nat) (font : FONTOBJ)
    (str : STROBJ) (K : Nat) (hms : s.heap.mspace ≠ 0)
    (hok : AllocOk env s.heap
      (env.alloc s.nalloc + env.layout.sizeof_Resource + env.layout.off_str_chunk) s.nalloc K)
    (hK0 : s.nalloc < K) (st1 : StrEnc) (N : Nat)
    (hloop : ∀ fuel, N ≤ fuel →
      QXLGetStr.loop env str (QXLGetStr.flags env.consts font) (QXLGetStr.delta env.consts str)
        fuel 0 (QXLGetStr.init env { s with nalloc := s.nalloc + 1 } (env.alloc s.nalloc)
          font str).2 = some (false, st1))
    (hch : EncChain env
      (env.alloc s.nalloc + env.layout.sizeof_Resource + env.layout.off_str_chunk)
      (s.nalloc + 1) st1.enc)
    (hK : st1.enc.nalloc ≤ K) :
    ∃ N1 m, ∀ fuel, N1 ≤ fuel →
      ∃ s1, QXLGetStr env fuel s drawable str_phys font str = some (false, str_phys, s1) ∧
        s1.outputs = s.outputs ∧
        s1.heap.mem_free_log =
          s.heap.mem_free_log ++ allocated env.alloc (s.nalloc + 1) m ++ [env.alloc s.nalloc] ∧
        (allocated env.alloc (s.nalloc + 1) m ++ [env.alloc s.nalloc]).Nodup ∧
        VChain env s1.chunks
          (s1.chunks (env.alloc s.nalloc + env.layout.sizeof_Resource +
            env.layout.off_str_chunk)).next_chunk (allocated env.alloc (s.nalloc + 1) m) ∧
        s1.nalloc = s.nalloc + 1 + m ∧
        s1.heap.free_log = s.heap.free_log ∧
        (∀ a, a ≠ env.alloc s.nalloc → s1.heap.mem a = s.heap.mem a) := by
  have harena := (hok.2 s.nalloc hK0 (Nat.le_refl _)).2.1
  have halloc : AllocMem.done env s = some (env.alloc s.nalloc, { s with nalloc := s.nalloc + 1 }) := by
    unfold AllocMem.done
    rw [if_pos ⟨hms, harena.1, harena.2⟩]
  obtain ⟨m, hm1, hm2, hm3⟩ := hch
  have hcs_arena : InArena s.heap (allocated env.alloc (s.nalloc + 1) m) := by
    intro p hp
    obtain ⟨j, hj1, hj2, hj3⟩ := mem_allocated_lt _ _ _ _ hp
    rw [hj3]
    exact (hok.2 j (by omega) (by omega)).2.1
  have hres_notin : env.alloc s.nalloc ∉ allocated env.alloc (s.nalloc + 1) m := by
    intro hp
    obtain ⟨j, hj1, hj2, hj3⟩ := mem_allocated_lt _ _ _ _ hp
    have := hok.1 s.nalloc hK0 j (by omega) (Nat.le_refl _) (by omega) hj3
    omega
  refine ⟨max N (m + 1), m, ?_⟩
  intro fuel hfuel
  have hf1 : N ≤ fuel := le_trans (le_max_left _ _) hfuel
  have hf2 : m < fuel := lt_of_lt_of_le (Nat.lt_succ_self m) (le_trans (le_max_right _ _) hfuel)
  have hlen : (allocated env.alloc (s.nalloc + 1) m).length < fuel := by
    simpa [allocated] using hf2
  unfold QXLGetStr
  simp only [halloc, hloop fuel hf1]
  have hfree := FreeChunks_loop_spec env st1.enc.mem (allocated env.alloc (s.nalloc + 1) m) fuel
    (QXLGetStr.init env { s with nalloc := s.nalloc + 1 } (env.alloc s.nalloc) font str).1.heap
    _ hm3 hms hcs_arena hlen
  simp only [FreeSring, Bool.false_eq_true, if_false]
  rw [hfree]
  simp only [FreeMem, QXLGetStr.init]
  rw [if_pos ⟨hms, harena.1, harena.2⟩]
  refine ⟨_, rfl, rfl, ?_, ?_, hm3, hm1, rfl, ?_⟩
  · simp [QXLGetStr.init]
  · rw [List.nodup_append]
    refine ⟨VChain_nodup env _ _ _ hm3, List.nodup_singleton _, ?_⟩
    intro a ha hb
    rw [List.mem_singleton] at hb
    exact hres_notin (hb ▸ ha)
  · intro a ha
    simp [QXLGetStr.init, ha]

theorem QXLGetStr_init_chain (env : Env) (s : PDev) (font : FONTOBJ) (str : STROBJ) :
    EncChain env (env.alloc s.nalloc + env.layout.sizeof_Resource + env.layout.off_str_chunk)
      (s.nalloc + 1)
      (QXLGetStr.init env { s with nalloc := s.nalloc + 1 } (env.alloc s.nalloc) font str).2.enc := by
  refine ⟨0, rfl, rfl, ?_⟩
  simp [QXLGetStr.init, allocated, VChain]

/-- C14. `QXLGetStr` returns `FALSE` for every font without `FO_TYPE_RASTER`
and whenever call `n` of the glyph enumerator reports `DDI_ERROR` (no earlier
call having ended the enumeration). With enough fuel the call returns, and
then: `*str_phys` keeps its content, the envelopes are unchanged, and the
blocks handed to `FreeMem` are exactly the `m` chunks linked to the string so
far, in link order, followed by the string resource, each once; no finalizer
is called through `RELEASE_RES` and no other resource is touched. -/
theorem C14_QXLGetStr_false_unwinds (env : Env) (s : PDev) (drawable str_phys : Nat)
    (font : FONTOBJ) (str : STROBJ) (n : Nat) (hms : s.heap.mspace ≠ 0)
    (hok : AllocOk env s.heap
      (env.alloc s.nalloc + env.layout.sizeof_Resource + env.layout.off_str_chunk) s.nalloc
      (s.nalloc + 1 + QXLGetStr.work env font str n))
    (hfalse : font.flFontType &&& env.consts.FO_TYPE_RASTER = 0 ∨
      (str.pgp = none ∧ (str.bEnum n).1 = env.consts.DDI_ERROR ∧
        ∀ j, j < n → (str.bEnum j).1 ≠ 0)) :
    ∃ N m, ∀ fuel, N ≤ fuel →
      ∃ s1, QXLGetStr env fuel s drawable str_phys font str = some (false, str_phys, s1) ∧
        s1.outputs = s.outputs ∧
        s1.heap.mem_free_log =
          s.heap.mem_free_log ++ allocated env.alloc (s.nalloc + 1) m ++ [env.alloc s.nalloc] ∧
        (allocated env.alloc (s.nalloc + 1) m ++ [env.alloc s.nalloc]).Nodup ∧
        VChain env s1.chunks
          (s1.chunks (env.alloc s.nalloc + env.layout.sizeof_Resource +
            env.layout.off_str_chunk)).next_chunk (allocated env.alloc (s.nalloc + 1) m) ∧
        s1.nalloc = s.nalloc + 1 + m ∧
        s1.heap.free_log = s.heap.free_log ∧
        (∀ a, a ≠ env.alloc s.nalloc → s1.heap.mem a = s.heap.mem a) := by
  have hinit := QXLGetStr_init_chain env s font str
  rcases hfalse with hv | ⟨hpgp, herr, hmore⟩
  · have hflags : QXLGetStr.flags env.consts font = 0 := by simp [QXLGetStr.flags, hv]
    apply QXLGetStr_error_exit env s drawable str_phys font str _ hms hok (by omega) _ 1 _ hinit
    · show s.nalloc + 1 ≤ _
      omega
    · intro fuel hf
      obtain ⟨f, rfl⟩ : ∃ f, fuel = f + 1 := ⟨fuel - 1, by omega⟩
      rw [hflags]
      exact QXLGetStr_loop_vector env str _ f 0 _
  · obtain ⟨st1, hst1, hch1, hK1⟩ := QXLGetStr_loop_error env s.heap _ (s.nalloc + 1) _
      (AllocOk_mono env s.heap _ s.nalloc (s.nalloc + 1) _ (by omega) hok) str
      (QXLGetStr.flags env.consts font) (QXLGetStr.delta env.consts str) hpgp n 0
      (QXLGetStr.init env { s with nalloc := s.nalloc + 1 } (env.alloc s.nalloc) font str).2
      (by simpa using herr) (fun j hj => by simpa using hmore j hj) hinit
      (by
        show s.nalloc + 1 + _ ≤ s.nalloc + 1 + QXLGetStr.work env font str n
        simp only [QXLGetStr.work, Nat.zero_add]
        exact Nat.le_refl _)
    exact QXLGetStr_error_exit env s drawable str_phys font str _ hms hok (by omega) st1 (n + 1)
      (fun fuel hf => hst1 fuel (by omega)) hch1 hK1


set_option maxRecDepth 100000 in
/-- Witness for C14: 26 glyph records of 20 bytes do not fit the 512 bytes of
the string's own chunk, so one continuation chunk (8448) is linked before the
enumerator fails; both blocks are freed once and `*str_phys` keeps the value 99.
With a vector font the call fails before anything is linked. -/
theorem C14_QXLGetStr_false_unwinds_witness :
    (∃ N m, ∀ fuel, N ≤ fuel →
      ∃ s1, QXLGetStr exampleEnv fuel examplePDev 4152 99 rasterFont errStr =
          some (false, 99, s1) ∧
        s1.outputs = examplePDev.outputs ∧
        s1.heap.mem_free_log =
          examplePDev.heap.mem_free_log ++ allocated exampleEnv.alloc (examplePDev.nalloc + 1) m ++
            [exampleEnv.alloc examplePDev.nalloc] ∧
        (allocated exampleEnv.alloc (examplePDev.nalloc + 1) m ++
          [exampleEnv.alloc examplePDev.nalloc]).Nodup ∧
        VChain exampleEnv s1.chunks
          (s1.chunks (exampleEnv.alloc examplePDev.nalloc + exampleEnv.layout.sizeof_Resource +
            exampleEnv.layout.off_str_chunk)).next_chunk
          (allocated exampleEnv.alloc (examplePDev.nalloc + 1) m) ∧
        s1.nalloc = examplePDev.nalloc + 1 + m ∧
        s1.heap.free_log = examplePDev.heap.free_log ∧
        (∀ a, a ≠ exampleEnv.alloc examplePDev.nalloc →
          s1.heap.mem a = examplePDev.heap.mem a)) ∧
    (QXLGetStr exampleEnv 3 examplePDev 4152 99 rasterFont errStr).map
      (fun r => (r.1, r.2.1, r.2.2.heap.mem_free_log, r.2.2.nalloc)) =
        some (false, 99, [8448, 8192], 2) ∧
    (QXLGetStr exampleEnv 3 examplePDev 4152 99 vectorFont errStr).map
      (fun r => (r.1, r.2.1, r.2.2.heap.mem_free_log, r.2.2.nalloc)) =
        some (false, 99, [8192], 1) :=
  ⟨C14_QXLGetStr_false_unwinds exampleEnv examplePDev 4152 99 rasterFont errStr 1 (by decide)
    (by decide) (Or.inr ⟨rfl, by decide, by decide⟩),
   by decide, by decide⟩


/-! ### Drawables and clips -/

theorem readLE_bytesLE (n : Nat) : ∀ (v : Nat) (rest : List Nat),
    readLE n (bytesLE n v ++ rest) = v % 256 ^ n := by
  induction n with
  | zero => intro v rest; simp [readLE, Nat.mod_one]
  | succ n ih =>
    intro v rest
    simp only [bytesLE, List.cons_append, readLE, List.headD_cons, List.tail_cons, ih,
      Nat.mod_mod]
    rw [pow_succ', Nat.mod_mul]

theorem readU64_writeU64 (data : List Nat) (v : Nat) (hv : v < 18446744073709551616) :
    readU64 (writeU64 data v) = v := by
  unfold readU64 writeU64
  rw [readLE_bytesLE]
  exact Nat.mod_eq_of_lt (by norm_num; exact hv)

theorem SetClip_attach_true (env : Env) (s s1 : PDev) (drawable res clip_type : Nat) (b : Bool)
    (h : SetClip.attach env s drawable res clip_type = some (b, s1)) : b = true := by
  unfold SetClip.attach at h
  split at h
  · cases h
  · cases h; rfl

/-- `SetClip` returns `FALSE` only for a complex clip in path mode whose
path cannot be obtained, and then it has changed nothing. -/
theorem SetClip_false (env : Env) (fuel : Nat) (s s1 : PDev) (clip : Option CLIPOBJ)
    (drawable : Nat) (h : SetClip env fuel s clip drawable = some (false, s1)) :
    s1 = s ∧ ∃ c, clip = some c ∧ c.iDComplexity ≠ env.consts.DC_RECT ∧
      c.iDComplexity = env.consts.DC_COMPLEX ∧ c.iMode = env.consts.TC_PATHOBJ ∧
      c.ppoGetPath.isNone = true := by
  unfold SetClip at h
  split at h
  · cases h
  · rename_i c
    split at h
    · split at h
      · cases h
      · exact absurd (SetClip_attach_true _ _ _ _ _ _ _ h) (by simp)
    · rename_i hrect
      split at h
      · cases h
      · rename_i hcomplex
        split at h
        · rename_i hmode
          split at h
          · rename_i hpath
            cases h
            exact ⟨rfl, c, rfl, hrect, by simpa using hcomplex, hmode, by simp [hpath]⟩
          · split at h
            · cases h
            · exact absurd (SetClip_attach_true _ _ _ _ _ _ _ h) (by simp)
        · split at h
          · cases h
          · split at h
            · cases h
            · exact absurd (SetClip_attach_true _ _ _ _ _ _ _ h) (by simp)

theorem SetClip_path_fails (env : Env) (fuel : Nat) (s : PDev) (c : CLIPOBJ) (drawable : Nat)
    (h1 : c.iDComplexity ≠ env.consts.DC_RECT) (h2 : c.iDComplexity = env.consts.DC_COMPLEX)
    (h3 : c.iMode = env.consts.TC_PATHOBJ) (h4 : c.ppoGetPath.isNone = true) :
    SetClip env fuel s (some c) drawable = some (false, s) := by
  have h5 : c.ppoGetPath = none := by
    cases hp : c.ppoGetPath with
    | none => rfl
    | some p => rw [hp] at h4; simp at h4
  unfold SetClip
  simp only [if_neg h1, h2, ne_eq, not_true_eq_false, if_false, h3, if_true, h5]
  rw [h2] at h1
  rw [if_neg h1]


theorem AllocMem_done_some (env : Env) (s : PDev) (hms : s.heap.mspace ≠ 0)
    (harena : s.heap.mspace_start ≤ env.alloc s.nalloc ∧ env.alloc s.nalloc < s.heap.mspace_end) :
    AllocMem.done env s = some (env.alloc s.nalloc, { s with nalloc := s.nalloc + 1 }) := by
  unfold AllocMem.done
  rw [if_pos ⟨hms, harena.1, harena.2⟩]

theorem ReleaseOutput_empty (h : ResHeap) (outs : Outputs) (output_id : Nat)
    (hid : output_id ≠ 0) (hnum : (outs output_id).num_res = 0) (hms : h.mspace ≠ 0)
    (harena : h.mspace_start ≤ output_id ∧ output_id < h.mspace_end) :
    ReleaseOutput h outs output_id =
      some (readU64 (outs output_id).data,
        { h with mem_free_log := h.mem_free_log ++ [output_id] }) := by
  unfold ReleaseOutput
  rw [if_neg hid]
  simp only [hnum, ReleaseOutput.loop, FreeMem]
  rw [if_pos ⟨hms, harena.1, harena.2⟩]

theorem Drawable_init_output (env : Env) (s1 : PDev) (output type : Nat) (area : Rect) :
    ((Drawable.init env s1 output type area).outputs output).num_res = 0 ∧
    ((Drawable.init env s1 output type area).outputs output).data =
      writeU64 (s1.outputs output).data output ∧
    (Drawable.init env s1 output type area).heap = s1.heap ∧
    (Drawable.init env s1 output type area).nalloc = s1.nalloc := by
  refine ⟨?_, ?_, rfl, rfl⟩
  · show ((GetDrawable s1.outputs output).1 output).num_res = 0
    simp [GetDrawable]
  · show ((GetDrawable s1.outputs output).1 output).data = _
    simp [GetDrawable]

theorem Drawable_finish_false (output drawable : Nat) (s3 : PDev) (next : Nat) (h : ResHeap)
    (hr : ReleaseOutput s3.heap s3.outputs (readU64 (s3.outputs output).data) = some (next, h)) :
    Drawable.finish output drawable (some (false, s3)) = some (0, { s3 with heap := h }) := by
  simp only [Drawable.finish, hr]

theorem Drawable_fail (env : Env) (fuel : Nat) (s : PDev) (type : Nat) (area : Rect)
    (hms : s.heap.mspace ≠ 0)
    (harena : s.heap.mspace_start ≤ env.alloc s.nalloc ∧ env.alloc s.nalloc < s.heap.mspace_end)
    (h0 : env.alloc s.nalloc ≠ 0) (h64 : env.alloc s.nalloc < 18446744073709551616)
    (c : CLIPOBJ) (h1 : c.iDComplexity ≠ env.consts.DC_RECT)
    (h2 : c.iDComplexity = env.consts.DC_COMPLEX) (h3 : c.iMode = env.consts.TC_PATHOBJ)
    (h4 : c.ppoGetPath.isNone = true) :
    Drawable env fuel s type area (some c) =
      some (0,
        { Drawable.init env { s with nalloc := s.nalloc + 1 } (env.alloc s.nalloc) type area with
          heap := { s.heap with mem_free_log := s.heap.mem_free_log ++ [env.alloc s.nalloc] } }) := by
  unfold Drawable
  rw [AllocMem_done_some env s hms harena]
  simp only []
  rw [SetClip_path_fails env fuel _ c _ h1 h2 h3 h4]
  refine Drawable_finish_false _ _ _ (env.alloc s.nalloc) _ ?_
  rw [(Drawable_init_output env _ _ type area).2.1, readU64_writeU64 _ _ h64]
  refine (ReleaseOutput_empty _ _ _ h0 (Drawable_init_output env _ _ type area).1 hms
    harena).trans ?_
  rw [(Drawable_init_output env _ _ type area).2.1, readU64_writeU64 _ _ h64]

theorem RELEASE_RES_live (h : ResHeap) (res n : Nat) (hn : (h.mem res).refs = n) (h2 : 2 ≤ n)
    (hlt : n < UINT32_MOD) : RELEASE_RES h res = h.setRefs res (n - 1) := by
  unfold RELEASE_RES
  simp only [hn, RELEASE_RES_wrap n (by omega) hlt]
  rw [if_neg (by omega)]

theorem SetClip_attach_spec (env : Env) (s : PDev) (drawable res clip_type : Nat)
    (hnum : (s.outputs (drawable - SIZEOF_QXLOutput)).num_res < MAX_OUTPUT_RES)
    (hrefs : (s.heap.mem res).refs = 1) :
    ∃ s1, SetClip.attach env s drawable res clip_type = some (true, s1) ∧
      (s1.drawables drawable).clip_type = clip_type ∧
      (s1.drawables drawable).clip_data = PA env.main_slot (res + env.layout.sizeof_Resource) ∧
      (s1.outputs (drawable - SIZEOF_QXLOutput)).num_res =
        (s.outputs (drawable - SIZEOF_QXLOutput)).num_res + 1 ∧
      (s1.outputs (drawable - SIZEOF_QXLOutput)).resources
        (s.outputs (drawable - SIZEOF_QXLOutput)).num_res = res ∧
      s1.heap.mem res = s.heap.mem res ∧
      s1.heap.free_log = s.heap.free_log ∧
      s1.heap.mem_free_log = s.heap.mem_free_log ∧
      s1.chunks = s.chunks ∧ s1.cliprects = s.cliprects ∧ s1.paths = s.paths ∧
      s1.nalloc = s.nalloc := by
  have hadd := AddRes_some s.heap s.outputs (drawable - SIZEOF_QXLOutput) res hnum
  have hrel : RELEASE_RES (s.heap.setRefs res ((1 + (s.heap.mem res).refs) % UINT32_MOD)) res =
      (s.heap.setRefs res ((1 + (s.heap.mem res).refs) % UINT32_MOD)).setRefs res (2 - 1) := by
    apply RELEASE_RES_live _ _ 2 _ (Nat.le_refl _) (by decide)
    rw [hrefs]
    simp [ResHeap.setRefs]
  unfold SetClip.attach DrawableAddRes
  rw [hadd]
  simp only [hrel]
  refine ⟨_, rfl, ?_, ?_, ?_, ?_, ?_, rfl, rfl, rfl, rfl, rfl, rfl⟩
  · simp
  · simp
  · simp
  · simp
  · simp only [ResHeap.setRefs, if_true]
    cases hm : s.heap.mem res with
    | mk r f =>
      rw [hm] at hrefs
      simp only at hrefs
      simp [hrefs]

theorem SetClip_rect_some (env : Env) (s : PDev) (c : CLIPOBJ) (hms : s.heap.mspace ≠ 0)
    (harena : s.heap.mspace_start ≤ env.alloc s.nalloc ∧ env.alloc s.nalloc < s.heap.mspace_end) :
    ∃ s1, SetClip.rect env s c = some (env.alloc s.nalloc, s1) ∧
      s1.heap.mem (env.alloc s.nalloc) = { refs := 1, free := FreeFn.FreeClipRects } ∧
      s1.outputs = s.outputs ∧ s1.drawables = s.drawables ∧
      s1.cliprects (env.alloc s.nalloc + env.layout.sizeof_Resource) = 1 ∧
      (s1.chunks (env.alloc s.nalloc + env.layout.sizeof_Resource +
        env.layout.off_rects_chunk)).data_size = env.layout.sizeof_Rect ∧
      (s1.chunks (env.alloc s.nalloc + env.layout.sizeof_Resource +
        env.layout.off_rects_chunk)).next_chunk = 0 ∧
      (∀ i, i < env.layout.sizeof_Rect →
        (s1.chunks (env.alloc s.nalloc + env.layout.sizeof_Resource +
          env.layout.off_rects_chunk)).data i = (rectBytes c.rclBounds).getD i 0) ∧
      s1.heap.free_log = s.heap.free_log ∧
      s1.heap.mem_free_log = s.heap.mem_free_log ∧
      s1.nalloc = s.nalloc + 1 := by
  unfold SetClip.rect
  rw [AllocMem_done_some env s hms harena]
  refine ⟨_, rfl, ?_, rfl, rfl, ?_, ?_, ?_, ?_, rfl, rfl, rfl⟩
  · simp
  · simp
  · simp
  · simp
  · intro i hi
    simp [hi]

theorem Drawable_rect (env : Env) (fuel : Nat) (s : PDev) (type : Nat) (area : Rect)
    (hms : s.heap.mspace ≠ 0)
    (harena : s.heap.mspace_start ≤ env.alloc s.nalloc ∧ env.alloc s.nalloc < s.heap.mspace_end)
    (c : CLIPOBJ) (hrect : c.iDComplexity = env.consts.DC_RECT)
    (harena1 : s.heap.mspace_start ≤ env.alloc (s.nalloc + 1) ∧
      env.alloc (s.nalloc + 1) < s.heap.mspace_end) :
    ∃ s1, Drawable env fuel s type area (some c) =
        some (env.alloc s.nalloc + SIZEOF_QXLOutput, s1) ∧
      (s1.drawables (env.alloc s.nalloc + SIZEOF_QXLOutput)).clip_type =
        env.consts.CLIP_TYPE_RECTS ∧
      (s1.drawables (env.alloc s.nalloc + SIZEOF_QXLOutput)).clip_data =
        PA env.main_slot (env.alloc (s.nalloc + 1) + env.layout.sizeof_Resource) ∧
      (s1.outputs (env.alloc s.nalloc)).num_res = 1 ∧
      (s1.outputs (env.alloc s.nalloc)).resources 0 = env.alloc (s.nalloc + 1) ∧
      s1.cliprects (env.alloc (s.nalloc + 1) + env.layout.sizeof_Resource) = 1 ∧
      (s1.chunks (env.alloc (s.nalloc + 1) + env.layout.sizeof_Resource +
        env.layout.off_rects_chunk)).data_size = env.layout.sizeof_Rect ∧
      (s1.chunks (env.alloc (s.nalloc + 1) + env.layout.sizeof_Resource +
        env.layout.off_rects_chunk)).next_chunk = 0 ∧
      (∀ i, i < env.layout.sizeof_Rect →
        (s1.chunks (env.alloc (s.nalloc + 1) + env.layout.sizeof_Resource +
          env.layout.off_rects_chunk)).data i = (rectBytes c.rclBounds).getD i 0) ∧
      s1.heap.mem (env.alloc (s.nalloc + 1)) = { refs := 1, free := FreeFn.FreeClipRects } ∧
      s1.heap.free_log = s.heap.free_log ∧
      s1.heap.mem_free_log = s.heap.mem_free_log ∧
      s1.nalloc = s.nalloc + 2 := by
  obtain ⟨sr, hsr, r1, r2, r3, r4, r5, r6, r7, r8, r9, r10⟩ := SetClip_rect_some env
    (Drawable.init env { s with nalloc := s.nalloc + 1 } (env.alloc s.nalloc) type area) c hms
    harena1
  have hsub : env.alloc s.nalloc + SIZEOF_QXLOutput - SIZEOF_QXLOutput = env.alloc s.nalloc :=
    Nat.add_sub_cancel _ _
  simp only [show (Drawable.init env { s with nalloc := s.nalloc + 1 } (env.alloc s.nalloc) type
    area).nalloc = s.nalloc + 1 from rfl] at hsr r1 r4 r5 r6 r7 r10
  have hnum0 : (sr.outputs (env.alloc s.nalloc + SIZEOF_QXLOutput - SIZEOF_QXLOutput)).num_res
      = 0 := by
    rw [hsub, r2]
    exact (Drawable_init_output env _ _ type area).1
  obtain ⟨sa, hsa, a1, a2, a3, a4, a5, a6, a7, a8, a9, _, a11⟩ := SetClip_attach_spec env sr
    (env.alloc s.nalloc + SIZEOF_QXLOutput) (env.alloc (s.nalloc + 1))
    env.consts.CLIP_TYPE_RECTS (by rw [hnum0]; decide) (by rw [r1])
  rw [hnum0] at a3 a4
  rw [hsub] at a3 a4
  have hset : SetClip env fuel
      (Drawable.init env { s with nalloc := s.nalloc + 1 } (env.alloc s.nalloc) type area)
      (some c) (env.alloc s.nalloc + SIZEOF_QXLOutput) = some (true, sa) := by
    unfold SetClip
    simp only [if_pos hrect]
    rw [hsr]
    exact hsa
  refine ⟨sa, ?_, a1, a2, a3, a4, ?_, ?_, ?_, ?_, ?_, ?_, ?_, ?_⟩
  · unfold Drawable
    rw [AllocMem_done_some env s hms harena]
    show Drawable.finish _ _ (SetClip env fuel _ (some c) (env.alloc s.nalloc + SIZEOF_QXLOutput))
      = _
    rw [hset]
    rfl
  · rw [a9]; exact r4
  · rw [a8]; exact r5
  · rw [a8]; exact r6
  · rw [a8]; exact r7
  · rw [a5]; exact r1
  · rw [a6]; exact r8
  · rw [a7]; exact r9
  · rw [a11]; exact r10

/-- C13. `Drawable` and its clip. (1) `SetClip` returns `FALSE` only for a
complex clip in path mode whose path cannot be obtained, leaving the state
as it was. (2) For such a clip `Drawable` returns `NULL`; the envelope it
allocated holds no resource, so `ReleaseOutput` releases nothing and frees
the envelope block, once; no reference count changes and nothing else is
allocated. (3) For a `NULL` clip `Drawable` returns the drawable with
`clip.type = CLIP_TYPE_NONE` and an envelope holding 0 resources. (4) For a
clip of complexity `DC_RECT` it returns the drawable with
`clip.type = CLIP_TYPE_RECTS` and exactly one attached resource, a clip-rect
list with `refs = 1`, `num_rects = 1` and a single chunk that holds the
bounding rectangle of the clip. -/
theorem C13_Drawable_clip (env : Env) (fuel : Nat) (s : PDev) (type : Nat) (area : Rect)
    (hms : s.heap.mspace ≠ 0)
    (harena : s.heap.mspace_start ≤ env.alloc s.nalloc ∧ env.alloc s.nalloc < s.heap.mspace_end)
    (h0 : env.alloc s.nalloc ≠ 0) (h64 : env.alloc s.nalloc < 18446744073709551616) :
    (∀ (s2 s3 : PDev) (clip : Option CLIPOBJ) (d : Nat),
      SetClip env fuel s2 clip d = some (false, s3) →
      s3 = s2 ∧ ∃ c, clip = some c ∧ c.iDComplexity ≠ env.consts.DC_RECT ∧
        c.iDComplexity = env.consts.DC_COMPLEX ∧ c.iMode = env.consts.TC_PATHOBJ ∧
        c.ppoGetPath.isNone = true) ∧
    (∀ c : CLIPOBJ, c.iDComplexity ≠ env.consts.DC_RECT →
      c.iDComplexity = env.consts.DC_COMPLEX → c.iMode = env.consts.TC_PATHOBJ →
      c.ppoGetPath.isNone = true →
      ∃ s1, Drawable env fuel s type area (some c) = some (0, s1) ∧
        s1.heap.mem_free_log = s.heap.mem_free_log ++ [env.alloc s.nalloc] ∧
        s1.heap.free_log = s.heap.free_log ∧
        s1.heap.mem = s.heap.mem ∧
        s1.nalloc = s.nalloc + 1 ∧
        (s1.outputs (env.alloc s.nalloc)).num_res = 0) ∧
    (∃ s1, Drawable env fuel s type area none =
        some (env.alloc s.nalloc + SIZEOF_QXLOutput, s1) ∧
      (s1.drawables (env.alloc s.nalloc + SIZEOF_QXLOutput)).clip_type =
        env.consts.CLIP_TYPE_NONE ∧
      (s1.outputs (env.alloc s.nalloc)).num_res = 0 ∧
      s1.heap = s.heap ∧
      s1.nalloc = s.nalloc + 1) ∧
    (∀ c : CLIPOBJ, c.iDComplexity = env.consts.DC_RECT →
      s.heap.mspace_start ≤ env.alloc (s.nalloc + 1) →
      env.alloc (s.nalloc + 1) < s.heap.mspace_end →
      ∃ s1, Drawable env fuel s type area (some c) =
          some (env.alloc s.nalloc + SIZEOF_QXLOutput, s1) ∧
        (s1.drawables (env.alloc s.nalloc + SIZEOF_QXLOutput)).clip_type =
          env.consts.CLIP_TYPE_RECTS ∧
        (s1.drawables (env.alloc s.nalloc + SIZEOF_QXLOutput)).clip_data =
          PA env.main_slot (env.alloc (s.nalloc + 1) + env.layout.sizeof_Resource) ∧
        (s1.outputs (env.alloc s.nalloc)).num_res = 1 ∧
        (s1.outputs (env.alloc s.nalloc)).resources 0 = env.alloc (s.nalloc + 1) ∧
        s1.cliprects (env.alloc (s.nalloc + 1) + env.layout.sizeof_Resource) = 1 ∧
        (s1.chunks (env.alloc (s.nalloc + 1) + env.layout.sizeof_Resource +
          env.layout.off_rects_chunk)).data_size = env.layout.sizeof_Rect ∧
        (s1.chunks (env.alloc (s.nalloc + 1) + env.layout.sizeof_Resource +
          env.layout.off_rects_chunk)).next_chunk = 0 ∧
        (∀ i, i < env.layout.sizeof_Rect →
          (s1.chunks (env.alloc (s.nalloc + 1) + env.layout.sizeof_Resource +
            env.layout.off_rects_chunk)).data i = (rectBytes c.rclBounds).getD i 0) ∧
        s1.heap.mem (env.alloc (s.nalloc + 1)) = { refs := 1, free := FreeFn.FreeClipRects } ∧
        s1.heap.free_log = s.heap.free_log ∧
        s1.heap.mem_free_log = s.heap.mem_free_log ∧
        s1.nalloc = s.nalloc + 2) := by
  refine ⟨fun s2 s3 clip d h => SetClip_false env fuel s2 s3 clip d h, ?_, ?_, ?_⟩
  · intro c h1 h2 h3 h4
    refine ⟨_, Drawable_fail env fuel s type area hms harena h0 h64 c h1 h2 h3 h4, rfl, rfl,
      rfl, rfl, ?_⟩
    exact (Drawable_init_output env _ _ type area).1
  · refine ⟨{ Drawable.init env { s with nalloc := s.nalloc + 1 } (env.alloc s.nalloc) type area
        with
        drawables := fun a =>
          if a = env.alloc s.nalloc + SIZEOF_QXLOutput then
            { (Drawable.init env { s with nalloc := s.nalloc + 1 } (env.alloc s.nalloc) type
                area).drawables a with clip_type := env.consts.CLIP_TYPE_NONE }
          else (Drawable.init env { s with nalloc := s.nalloc + 1 } (env.alloc s.nalloc) type
                area).drawables a }, ?_, ?_, ?_, rfl, rfl⟩
    · unfold Drawable
      rw [AllocMem_done_some env s hms harena]
      rfl
    · simp
    · exact (Drawable_init_output env _ _ type area).1
  · intro c hrect hlo hhi
    exact Drawable_rect env fuel s type area hms harena c hrect ⟨hlo, hhi⟩

/-- Witness for C13 in the example state (next blocks 8192 and 8448): the
failing clip frees the envelope 8192, the single-rectangle clip attaches the
resource 8448 whose chunk starts with the 16 bytes of the bounds. -/
theorem C13_Drawable_clip_witness :
    (Drawable exampleEnv 1 examplePDev 1 { left := 0, top := 0, right := 64, bottom := 64 }
      (some pathlessClip)).map (fun r => (r.1, r.2.heap.mem_free_log, r.2.nalloc)) =
        some (0, [8192], 1) ∧
    (Drawable exampleEnv 1 examplePDev 1 { left := 0, top := 0, right := 64, bottom := 64 }
      (some rectClip)).map (fun r => (r.1, (r.2.outputs 8192).num_res,
        (r.2.outputs 8192).resources 0, r.2.cliprects 8464,
        chunkData (r.2.chunks 8468), (r.2.heap.mem 8448).refs, r.2.heap.mem_free_log)) =
        some (8248, 1, 8448, 1, [2, 0, 0, 0, 1, 0, 0, 0, 40, 0, 0, 0, 30, 0, 0, 0], 1, []) ∧
    (∃ s1, Drawable exampleEnv 1 examplePDev 1 { left := 0, top := 0, right := 64, bottom := 64 }
        none = some (exampleEnv.alloc examplePDev.nalloc + SIZEOF_QXLOutput, s1) ∧
      (s1.drawables (exampleEnv.alloc examplePDev.nalloc + SIZEOF_QXLOutput)).clip_type =
        exampleEnv.consts.CLIP_TYPE_NONE ∧
      (s1.outputs (exampleEnv.alloc examplePDev.nalloc)).num_res = 0 ∧
      s1.heap = examplePDev.heap ∧
      s1.nalloc = examplePDev.nalloc + 1) :=
  ⟨by decide, by rfl,
   (C13_Drawable_clip exampleEnv 1 examplePDev 1 { left := 0, top := 0, right := 64, bottom := 64 }
      (by decide) (by decide) (by decide) (by decide)).2.2.1⟩


/-! ### Palette cache -/

theorem PalChain_congr (P1 P2 : Nat → InternalPalette) (l : List Nat) :
    ∀ p, (∀ a, a ∈ l → (P2 a).next = (P1 a).next) → PalChain P1 p l → PalChain P2 p l := by
  induction l with
  | nil => intro p _ h; exact h
  | cons c rest ih =>
    intro p hsame h
    obtain ⟨h0, h1, hrest⟩ := h
    refine ⟨h0, h1, ?_⟩
    rw [hsame c (List.mem_cons_self _ _)]
    exact ih _ (fun a ha => hsame a (List.mem_cons_of_mem _ ha)) hrest

theorem PalChain_unique (P : Nat → InternalPalette) (l1 : List Nat) :
    ∀ (l2 : List Nat) (p : Nat), PalChain P p l1 → PalChain P p l2 → l1 = l2 := by
  induction l1 with
  | nil =>
    intro l2 p h1 h2
    cases l2 with
    | nil => rfl
    | cons c rest =>
      obtain ⟨e, hc, _⟩ := h2
      exact absurd (e ▸ h1 : c = 0) hc
  | cons a r1 ih =>
    intro l2 p h1 h2
    obtain ⟨e1, ha, hr1⟩ := h1
    cases l2 with
    | nil => exact absurd (e1 ▸ h2 : a = 0) ha
    | cons c r2 =>
      obtain ⟨e2, _, hr2⟩ := h2
      have hac : a = c := e1.symm.trans e2
      subst hac
      rw [ih r2 _ hr1 hr2]

theorem find_agree {α : Type} (P : α → Bool) (l1 l2 : List α)
    (hmem : ∀ x, P x = true → (x ∈ l1 ↔ x ∈ l2))
    (huniq : ∀ x y, P x = true → P y = true → x ∈ l1 → y ∈ l1 → x = y) :
    l1.find? P = l2.find? P := by
  cases h1 : l1.find? P with
  | none =>
    rw [List.find?_eq_none] at h1
    symm
    rw [List.find?_eq_none]
    intro x hx hpx
    exact h1 x ((hmem x hpx).mpr hx) hpx
  | some x =>
    have hx1 : x ∈ l1 := List.mem_of_find?_eq_some h1
    have hpx : P x = true := List.find?_some h1
    cases h2 : l2.find? P with
    | none =>
      rw [List.find?_eq_none] at h2
      exact absurd hpx (h2 x ((hmem x hpx).mp hx1))
    | some y =>
      have hy2 : y ∈ l2 := List.mem_of_find?_eq_some h2
      have hpy : P y = true := List.find?_some h2
      rw [huniq x y hpx hpy hx1 ((hmem y hpy).mpr hy2)]

theorem PaletteCacheGet_walk_spec (unique : Nat) (l : List Nat) :
    ∀ (fuel : Nat) (pc : PaletteCache) (now : Nat), PalChain pc.palettes now l →
      l.length < fuel →
      PaletteCacheGet.walk unique fuel pc now =
        some (match l.find? (fun p => decide ((pc.palettes p).unique = unique)) with
          | some p => (p, palHit pc p)
          | none => (0, pc)) := by
  induction l with
  | nil =>
    intro fuel pc now hc hf
    obtain ⟨f, rfl⟩ : ∃ f, fuel = f + 1 := ⟨fuel - 1, by simp at hf; omega⟩
    simp only [PalChain] at hc
    simp [PaletteCacheGet.walk, hc]
  | cons c rest ih =>
    intro fuel pc now hc hf
    obtain ⟨f, rfl⟩ : ∃ f, fuel = f + 1 := ⟨fuel - 1, by simp at hf; omega⟩
    obtain ⟨e, hc0, hrest⟩ := hc
    subst e
    unfold PaletteCacheGet.walk
    rw [if_neg hc0]
    by_cases hu : (pc.palettes now).unique = unique
    · rw [if_pos hu]
      have hfind : (now :: rest).find? (fun p => decide ((pc.palettes p).unique = unique)) =
          some now := by
        simp [List.find?_cons, hu]
      rw [hfind]
      rfl
    · rw [if_neg hu]
      have hfind : (now :: rest).find? (fun p => decide ((pc.palettes p).unique = unique)) =
          rest.find? (fun p => decide ((pc.palettes p).unique = unique)) := by
        simp [List.find?_cons, hu]
      rw [hfind]
      exact ih f pc _ hrest (by simp at hf; omega)


theorem palHit_fields (pc : PaletteCache) (p a : Nat) :
    ((palHit pc p).palettes a).unique = (pc.palettes a).unique ∧
    ((palHit pc p).palettes a).next = (pc.palettes a).next := by
  unfold palHit
  by_cases h : a = p
  · subst h; simp
  · simp [h]

theorem palHit_perm (pc : PaletteCache) (p : Nat) (hp : p ∈ pc.palette_lru) :
    List.Perm (palHit pc p).palette_lru pc.palette_lru :=
  (List.perm_cons_erase hp).symm

theorem PalInv_chain_length (NASKE : Nat) (h : ResHeap) (pc : PaletteCache) (adds : List Nat)
    (cl : Nat → List Nat)
    (hcl : ∀ b, PalChain pc.palettes (pc.palette_cache b) (cl b) ∧ (cl b).Nodup ∧
      ∀ p, p ∈ cl b ↔ (p ∈ pc.palette_lru ∧ PALETTE_HASH_VAL NASKE (pc.palettes p).unique = b))
    (b : Nat) : (cl b).length ≤ pc.palette_lru.length :=
  (List.subperm_of_subset (hcl b).2.1 (fun p hp => (((hcl b).2.2 p).mp hp).1)).length_le

theorem palHit_inv (NASKE : Nat) (h : ResHeap) (pc : PaletteCache) (adds : List Nat) (p : Nat)
    (hinv : PalInv NASKE h pc adds) (hp : p ∈ pc.palette_lru) :
    PalInv NASKE h (palHit pc p) adds := by
  have hperm := palHit_perm pc p hp
  have hperm2 : List.Perm ((palHit pc p).palette_lru ++ adds) (pc.palette_lru ++ adds) :=
    hperm.append_right adds
  have hu : ∀ a, ((palHit pc p).palettes a).unique = (pc.palettes a).unique :=
    fun a => (palHit_fields pc p a).1
  refine ⟨hinv.arena, ?_, ?_, ?_, ?_, ?_⟩
  · intro q hq
    rw [hu]
    exact hinv.wf q (hperm2.mem_iff.mp hq)
  · exact hperm2.nodup_iff.mpr hinv.nodup
  · intro q hq r hr
    rw [hu, hu]
    exact hinv.inj q (hperm2.mem_iff.mp hq) r (hperm2.mem_iff.mp hr)
  · obtain ⟨cl, hcl⟩ := hinv.chains
    refine ⟨cl, fun b => ⟨?_, (hcl b).2.1, ?_⟩⟩
    · exact PalChain_congr pc.palettes _ _ _ (fun a _ => (palHit_fields pc p a).2) (hcl b).1
    · intro q
      rw [hu, hperm.mem_iff]
      exact (hcl b).2.2 q
  · rw [show (palHit pc p).num_palettes = pc.num_palettes from rfl, hinv.count]
    exact hperm.length_eq.symm

/-- `PaletteCacheGet` on a consistent cache: a palette of the ring with the
wanted `unique` is moved to the head of the ring, gets one more reference and is
returned; without such a palette (or for `unique = 0`) the result is `NULL`
and nothing changes. -/
theorem PaletteCacheGet_spec (NASKE fuel : Nat) (h : ResHeap) (pc : PaletteCache)
    (adds : List Nat) (unique : Nat) (hinv : PalInv NASKE h pc adds)
    (hfuel : pc.palette_lru.length < fuel) :
    PaletteCacheGet NASKE fuel pc unique =
      some (if unique = 0 then (0, pc)
        else match pc.palette_lru.find? (fun p => decide ((pc.palettes p).unique = unique)) with
          | some p => (p, palHit pc p)
          | none => (0, pc)) := by
  unfold PaletteCacheGet
  by_cases h0 : unique = 0
  · rw [if_pos h0, if_pos h0]
  · rw [if_neg h0, if_neg h0]
    obtain ⟨cl, hcl⟩ := hinv.chains
    have hlen := PalInv_chain_length NASKE h pc adds cl hcl (PALETTE_HASH_VAL NASKE unique)
    rw [PaletteCacheGet_walk_spec unique _ fuel pc _ (hcl _).1 (by omega)]
    rw [find_agree (fun p => decide ((pc.palettes p).unique = unique)) _ pc.palette_lru]
    · intro x hx
      have hx1 : (pc.palettes x).unique = unique := by simpa using hx
      rw [(hcl _).2.2 x, hx1]
      simp
    · intro x y hx hy hxm hym
      have hx1 : (pc.palettes x).unique = unique := by simpa using hx
      have hy1 : (pc.palettes y).unique = unique := by simpa using hy
      exact hinv.inj x (List.mem_append_left _ (((hcl _).2.2 x).mp hxm).1) y
        (List.mem_append_left _ (((hcl _).2.2 y).mp hym).1) (hx1.trans hy1.symm)


theorem ReleasePalette_some (h : ResHeap) (pc : PaletteCache) (p : Nat) (hp : p ≠ 0)
    (hms : h.mspace ≠ 0) (hlo : h.mspace_start ≤ p) (hhi : p < h.mspace_end) :
    ∃ h1, ReleasePalette h pc p =
        some (h1, pc.setPalette p
          { pc.palettes p with refs := (UINT32_MOD - 1 + (pc.palettes p).refs) % UINT32_MOD }) ∧
      h1.mspace = h.mspace ∧ h1.mspace_start = h.mspace_start ∧ h1.mspace_end = h.mspace_end ∧
      h1.mem = h.mem ∧ h1.free_log = h.free_log ∧
      h1.mem_free_log = h.mem_free_log ++
        (if (UINT32_MOD - 1 + (pc.palettes p).refs) % UINT32_MOD = 0 then [p] else []) := by
  unfold ReleasePalette
  rw [if_neg hp]
  simp only []
  by_cases hr : (UINT32_MOD - 1 + (pc.palettes p).refs) % UINT32_MOD = 0
  · rw [if_pos hr, if_pos hr, FreeMem_some h p hms hlo hhi]
    exact ⟨_, rfl, rfl, rfl, rfl, rfl, rfl, rfl⟩
  · rw [if_neg hr, if_neg hr]
    exact ⟨_, rfl, rfl, rfl, rfl, rfl, rfl, by simp⟩

theorem PaletteCacheRemove_walk_spec (t : Nat) (post : List Nat) (pre : List Nat) :
    ∀ (fuel : Nat) (h : ResHeap) (pc : PaletteCache) (internal : PaletteLink),
      PalChain pc.palettes (pc.readLink internal) (pre ++ t :: post) →
      (∀ a, a ∈ pre → (pc.palettes a).unique ≠ (pc.palettes t).unique) →
      pre.length < fuel →
      PaletteCacheRemove.walk t fuel h pc internal =
        match ReleasePalette h (palUnlink pc (lastLink internal pre) t) t with
        | none => none
        | some (h1, pc3) =>
          some (h1, { pc3 with num_palettes := (UINT32_MOD - 1 + pc3.num_palettes) % UINT32_MOD })
    := by
  induction pre with
  | nil =>
    intro fuel h pc internal hc _ hf
    obtain ⟨f, rfl⟩ : ∃ f, fuel = f + 1 := ⟨fuel - 1, by simp at hf; omega⟩
    obtain ⟨e, ht0, _⟩ := hc
    unfold PaletteCacheRemove.walk
    rw [e, if_neg ht0, if_pos rfl]
    rfl
  | cons a pre ih =>
    intro fuel h pc internal hc hne hf
    obtain ⟨f, rfl⟩ : ∃ f, fuel = f + 1 := ⟨fuel - 1, by simp at hf; omega⟩
    obtain ⟨e, ha0, hrest⟩ := hc
    unfold PaletteCacheRemove.walk
    rw [e, if_neg ha0, if_neg (hne a (List.mem_cons_self _ _))]
    exact ih f h pc (PaletteLink.next a) hrest
      (fun x hx => hne x (List.mem_cons_of_mem _ hx)) (by simp at hf; omega)


theorem writeLink_fields (pc : PaletteCache) (L : PaletteLink) (v a : Nat) :
    ((pc.writeLink L v).palettes a).unique = (pc.palettes a).unique ∧
    ((pc.writeLink L v).palettes a).refs = (pc.palettes a).refs ∧
    ((pc.writeLink L v).palettes a).next =
      (if L = PaletteLink.next a then v else (pc.palettes a).next) ∧
    (pc.writeLink L v).palette_lru = pc.palette_lru ∧
    (pc.writeLink L v).num_palettes = pc.num_palettes := by
  cases L with
  | bucket b => simp [PaletteCache.writeLink]
  | next p =>
    by_cases h : a = p
    · subst h; simp [PaletteCache.writeLink, PaletteCache.setPalette]
    · have h2 : p ≠ a := fun e => h e.symm
      simp [PaletteCache.writeLink, PaletteCache.setPalette, h, h2]

theorem writeLink_bucket (pc : PaletteCache) (L : PaletteLink) (v b : Nat) :
    (pc.writeLink L v).palette_cache b =
      (if L = PaletteLink.bucket b then v else pc.palette_cache b) := by
  cases L with
  | bucket b2 =>
    by_cases h : b = b2
    · subst h; simp [PaletteCache.writeLink]
    · have h2 : b2 ≠ b := fun e => h e.symm
      simp [PaletteCache.writeLink, h, h2]
  | next p => simp [PaletteCache.writeLink, PaletteCache.setPalette]

theorem readLink_writeLink (pc : PaletteCache) (L L2 : PaletteLink) (v : Nat) :
    (pc.writeLink L v).readLink L2 = (if L = L2 then v else pc.readLink L2) := by
  cases L2 with
  | bucket b => exact writeLink_bucket pc L v b
  | next p => exact (writeLink_fields pc L v p).2.2.1

theorem lastLink_next (a : Nat) (pre : List Nat) :
    ∃ y, y ∈ a :: pre ∧ lastLink (PaletteLink.next a) pre = PaletteLink.next y := by
  induction pre generalizing a with
  | nil => exact ⟨a, List.mem_cons_self _ _, rfl⟩
  | cons c rest ih =>
    obtain ⟨y, hy, e⟩ := ih c
    exact ⟨y, List.mem_cons_of_mem _ hy, e⟩

theorem PalChain_unlink (pc : PaletteCache) (t : Nat) (post : List Nat) (pre : List Nat) :
    ∀ internal : PaletteLink,
      PalChain pc.palettes (pc.readLink internal) (pre ++ t :: post) →
      (pre ++ t :: post).Nodup →
      (∀ x, x ∈ pre ++ t :: post → internal ≠ PaletteLink.next x) →
      PalChain (pc.writeLink (lastLink internal pre) (pc.palettes t).next).palettes
        ((pc.writeLink (lastLink internal pre) (pc.palettes t).next).readLink internal)
        (pre ++ post) := by
  induction pre with
  | nil =>
    intro internal hc _ hout
    obtain ⟨_, _, hrest⟩ := hc
    simp only [lastLink, List.nil_append, readLink_writeLink, if_true]
    apply PalChain_congr pc.palettes _ _ _ _ hrest
    intro a ha
    rw [(writeLink_fields pc internal _ a).2.2.1,
      if_neg (hout a (by simp [ha]))]
  | cons a pre ih =>
    intro internal hc hnd hout
    obtain ⟨e, ha0, hrest⟩ := hc
    have hnd2 := List.nodup_cons.mp hnd
    obtain ⟨y, hy, ey⟩ := lastLink_next a pre
    have hyin : y ∈ (a :: pre) ++ t :: post := List.mem_append_left _ hy
    have hne : lastLink (PaletteLink.next a) pre ≠ internal := by
      rw [ey]; exact fun e2 => hout y hyin e2.symm
    refine ⟨?_, ha0, ?_⟩
    · show (pc.writeLink (lastLink (PaletteLink.next a) pre) _).readLink internal = a
      rw [readLink_writeLink, if_neg hne]
      exact e
    · exact ih (PaletteLink.next a) hrest hnd2.2
        (fun x hx e2 => hnd2.1 (by
          have : a = x := by injection e2
          rw [this]; exact hx))


theorem lastLink_bucket (b : Nat) (pre : List Nat) :
    lastLink (PaletteLink.bucket b) pre = PaletteLink.bucket b ∨
    ∃ y, y ∈ pre ∧ lastLink (PaletteLink.bucket b) pre = PaletteLink.next y := by
  cases pre with
  | nil => exact Or.inl rfl
  | cons a rest =>
    obtain ⟨y, hy, e⟩ := lastLink_next a rest
    exact Or.inr ⟨y, hy, e⟩

/-- The state that `PaletteCacheRemove` leaves when it unlinks `t` through the
location `L`: the link is redirected, `t` leaves the ring, loses one
reference, and the count drops. -/
theorem palRemoved_fields (pc : PaletteCache) (L : PaletteLink) (t a : Nat) (r n : Nat) :
    (({ (palUnlink pc L t).setPalette t { (palUnlink pc L t).palettes t with refs := r } with
        num_palettes := n } : PaletteCache).palettes a).unique = (pc.palettes a).unique ∧
    (({ (palUnlink pc L t).setPalette t { (palUnlink pc L t).palettes t with refs := r } with
        num_palettes := n } : PaletteCache).palettes a).next =
      (if L = PaletteLink.next a then (pc.palettes t).next else (pc.palettes a).next) ∧
    (({ (palUnlink pc L t).setPalette t { (palUnlink pc L t).palettes t with refs := r } with
        num_palettes := n } : PaletteCache).palettes a).refs =
      (if a = t then r else (pc.palettes a).refs) := by
  have hw := writeLink_fields pc L (pc.palettes t).next
  by_cases h : a = t
  · subst h
    refine ⟨?_, ?_, ?_⟩
    · simp only [PaletteCache.setPalette, palUnlink, if_true]
      exact (hw a).1
    · simp only [PaletteCache.setPalette, palUnlink, if_true]
      exact (hw a).2.2.1
    · simp [PaletteCache.setPalette]
  · refine ⟨?_, ?_, ?_⟩
    · simp only [PaletteCache.setPalette, palUnlink, if_neg h]
      exact (hw a).1
    · simp only [PaletteCache.setPalette, palUnlink, if_neg h]
      exact (hw a).2.2.1
    · simp only [PaletteCache.setPalette, palUnlink, if_neg h]
      exact (hw a).2.1


theorem palRemoved_inv (NASKE : Nat) (h h1 : ResHeap) (pc : PaletteCache) (adds : List Nat)
    (t : Nat) (pre post : List Nat) (cl : Nat → List Nat)
    (hinv : PalInv NASKE h pc adds) (ht : t ∈ pc.palette_lru)
    (hcl : ∀ b, PalChain pc.palettes (pc.palette_cache b) (cl b) ∧ (cl b).Nodup ∧
      ∀ p, p ∈ cl b ↔ (p ∈ pc.palette_lru ∧ PALETTE_HASH_VAL NASKE (pc.palettes p).unique = b))
    (hsplit : cl (PALETTE_HASH_VAL NASKE (pc.palettes t).unique) = pre ++ t :: post)
    (hsmall : pc.palette_lru.length < UINT32_MOD)
    (harena : h1.mspace = h.mspace ∧ h1.mspace_start = h.mspace_start ∧
      h1.mspace_end = h.mspace_end) :
    PalInv NASKE h1
      (palRemoved pc (lastLink (PaletteLink.bucket
        (PALETTE_HASH_VAL NASKE (pc.palettes t).unique)) pre) t) adds := by
  generalize hb : PALETTE_HASH_VAL NASKE (pc.palettes t).unique = b at hsplit ⊢
  generalize hL : lastLink (PaletteLink.bucket b) pre = L
  have hf := fun a => palRemoved_fields pc L t a
    ((UINT32_MOD - 1 + ((palUnlink pc L t).palettes t).refs) % UINT32_MOD)
    ((UINT32_MOD - 1 + (palUnlink pc L t).num_palettes) % UINT32_MOD)
  have hu : ∀ a, ((palRemoved pc L t).palettes a).unique = (pc.palettes a).unique :=
    fun a => (hf a).1
  have hnext : ∀ a, ((palRemoved pc L t).palettes a).next =
      (if L = PaletteLink.next a then (pc.palettes t).next else (pc.palettes a).next) :=
    fun a => (hf a).2.1
  have hring : (palRemoved pc L t).palette_lru = pc.palette_lru.erase t := by
    show RingRemove (pc.writeLink L _).palette_lru t = _
    rw [(writeLink_fields pc L _ 0).2.2.2.1]
    rfl
  have hcache : ∀ b2, (palRemoved pc L t).palette_cache b2 =
      (if L = PaletteLink.bucket b2 then (pc.palettes t).next else pc.palette_cache b2) :=
    fun b2 => writeLink_bucket pc L _ b2
  have hndring : pc.palette_lru.Nodup := (List.nodup_append.mp hinv.nodup).1
  have hmem : ∀ x, x ∈ pc.palette_lru.erase t ↔ x ∈ pc.palette_lru ∧ x ≠ t := by
    intro x
    rw [hndring.mem_erase_iff]
    exact and_comm
  have hsub : ∀ x, x ∈ pc.palette_lru.erase t ++ adds → x ∈ pc.palette_lru ++ adds := by
    intro x hx
    rcases List.mem_append.mp hx with h2 | h2
    · exact List.mem_append_left _ ((hmem x).mp h2).1
    · exact List.mem_append_right _ h2
  have hndb : (pre ++ t :: post).Nodup := hsplit ▸ (hcl b).2.1
  have hLcases := lastLink_bucket b pre
  rw [hL] at hLcases
  have hpre_in : ∀ y, y ∈ pre → y ∈ cl b := by
    intro y hy; rw [hsplit]; exact List.mem_append_left _ hy
  refine ⟨harena.1 ▸ hinv.arena, ?_, ?_, ?_, ?_, ?_⟩
  · intro p hp
    rw [hring] at hp
    rw [hu, harena.2.1, harena.2.2]
    exact hinv.wf p (hsub p hp)
  · rw [hring]
    exact hinv.nodup.sublist ((List.erase_sublist t _).append_right adds)
  · intro p hp q hq
    rw [hring] at hp hq
    rw [hu, hu]
    exact hinv.inj p (hsub p hp) q (hsub q hq)
  · refine ⟨fun b2 => if b2 = b then pre ++ post else cl b2, fun b2 => ?_⟩
    by_cases hb2 : b2 = b
    · subst hb2
      simp only [if_true]
      refine ⟨?_, ?_, ?_⟩
      · have hun := PalChain_unlink pc t post pre (PaletteLink.bucket b2)
          (by rw [← hsplit]; exact (hcl b2).1) hndb (fun x _ e => by cases e)
        rw [hL] at hun
        apply PalChain_congr _ _ _ _ _ hun
        intro a _
        rw [hnext a, (writeLink_fields pc L _ a).2.2.1]
      · exact hndb.sublist
          (List.Sublist.append (List.Sublist.refl pre) (List.sublist_cons_self t post))
      · intro p
        rw [hring, hmem, hu]
        have hiff := (hcl b2).2.2 p
        rw [hsplit] at hiff
        constructor
        · intro hp
          have hp2 : p ∈ pre ++ t :: post := by
            rcases List.mem_append.mp hp with h2 | h2
            · exact List.mem_append_left _ h2
            · exact List.mem_append_right _ (List.mem_cons_of_mem _ h2)
          have hpt : p ≠ t := by
            intro e
            subst e
            have hnd3 := List.nodup_append.mp hndb
            rcases List.mem_append.mp hp with h2 | h2
            · exact hnd3.2.2 h2 (List.mem_cons_self _ _)
            · exact (List.nodup_cons.mp hnd3.2.1).1 h2
          exact ⟨⟨(hiff.mp hp2).1, hpt⟩, (hiff.mp hp2).2⟩
        · intro hp
          have hp2 := hiff.mpr ⟨hp.1.1, hp.2⟩
          rcases List.mem_append.mp hp2 with h2 | h2
          · exact List.mem_append_left _ h2
          · rcases List.mem_cons.mp h2 with h3 | h3
            · exact absurd h3 hp.1.2
            · exact List.mem_append_right _ h3
    · simp only [if_neg hb2]
      have hLb : L ≠ PaletteLink.bucket b2 := by
        rcases hLcases with e | ⟨y, _, e⟩
        · rw [e]; intro e2; injection e2 with e3; exact hb2 e3.symm
        · rw [e]; intro e2; cases e2
      refine ⟨?_, (hcl b2).2.1, ?_⟩
      · rw [hcache b2, if_neg hLb]
        apply PalChain_congr _ _ _ _ _ (hcl b2).1
        intro a ha
        rw [hnext a]
        have hLa : L ≠ PaletteLink.next a := by
          rcases hLcases with e | ⟨y, hy, e⟩
          · rw [e]; intro e2; cases e2
          · rw [e]
            intro e2
            injection e2 with e3
            subst e3
            have h1 := (((hcl b).2.2 y).mp (hpre_in y hy)).2
            have h2 := (((hcl b2).2.2 y).mp ha).2
            exact hb2 (h2.symm.trans h1)
        rw [if_neg hLa]
      · intro p
        rw [hring, hmem, hu]
        have hiff := (hcl b2).2.2 p
        constructor
        · intro hp
          have hp2 := hiff.mp hp
          refine ⟨⟨hp2.1, ?_⟩, hp2.2⟩
          intro e
          subst e
          exact hb2 (hp2.2.symm.trans hb)
        · intro hp
          exact hiff.mpr ⟨hp.1.1, hp.2⟩
  · show (UINT32_MOD - 1 + (pc.writeLink L _).num_palettes) % UINT32_MOD = _
    rw [(writeLink_fields pc L _ 0).2.2.2.2, hring, hinv.count, List.length_erase_of_mem ht]
    have hpos : 1 ≤ pc.palette_lru.length := List.length_pos_of_mem ht
    exact RELEASE_RES_wrap _ hpos hsmall

/-- `PaletteCacheRemove` on a palette of the ring of a consistent cache: it
returns, the palette is unlinked from its bucket and from the ring, loses one
reference (and is freed when that was the last), the count drops by one, and
the cache stays consistent. -/
theorem PaletteCacheRemove_spec (NASKE fuel : Nat) (h : ResHeap) (pc : PaletteCache)
    (adds : List Nat) (t : Nat) (hinv : PalInv NASKE h pc adds) (ht : t ∈ pc.palette_lru)
    (hfuel : pc.palette_lru.length < fuel) (hsmall : pc.palette_lru.length < UINT32_MOD) :
    ∃ h1 pc1, PaletteCacheRemove NASKE fuel h pc t = some (h1, pc1) ∧
      PalInv NASKE h1 pc1 adds ∧
      pc1.palette_lru = pc.palette_lru.erase t ∧
      (∀ a, (pc1.palettes a).unique = (pc.palettes a).unique) ∧
      (∀ a, (pc1.palettes a).refs =
        (if a = t then (UINT32_MOD - 1 + (pc.palettes t).refs) % UINT32_MOD
         else (pc.palettes a).refs)) ∧
      h1.mem = h.mem ∧ h1.free_log = h.free_log ∧
      h1.mem_free_log = h.mem_free_log ++
        (if (UINT32_MOD - 1 + (pc.palettes t).refs) % UINT32_MOD = 0 then [t] else []) := by
  obtain ⟨cl, hcl⟩ := hinv.chains
  have hwf := hinv.wf t (List.mem_append_left _ ht)
  have htin : t ∈ cl (PALETTE_HASH_VAL NASKE (pc.palettes t).unique) :=
    ((hcl _).2.2 t).mpr ⟨ht, rfl⟩
  obtain ⟨pre, post, hsplit⟩ := List.append_of_mem htin
  have hndb : (pre ++ t :: post).Nodup := hsplit ▸ (hcl _).2.1
  have hne : ∀ a, a ∈ pre → (pc.palettes a).unique ≠ (pc.palettes t).unique := by
    intro a ha e
    have ha2 : a ∈ cl (PALETTE_HASH_VAL NASKE (pc.palettes t).unique) := by
      rw [hsplit]; exact List.mem_append_left _ ha
    have hat : a = t := hinv.inj a (List.mem_append_left _ (((hcl _).2.2 a).mp ha2).1) t
      (List.mem_append_left _ ht) e
    subst hat
    exact (List.nodup_append.mp hndb).2.2 ha (List.mem_cons_self _ _)
  have hlen := PalInv_chain_length NASKE h pc adds cl hcl
    (PALETTE_HASH_VAL NASKE (pc.palettes t).unique)
  have hprelen : pre.length < fuel := by
    rw [hsplit] at hlen
    simp at hlen
    omega
  have hrefs : ((palUnlink pc (lastLink (PaletteLink.bucket
      (PALETTE_HASH_VAL NASKE (pc.palettes t).unique)) pre) t).palettes t).refs =
      (pc.palettes t).refs := (writeLink_fields pc _ _ t).2.1
  obtain ⟨h1, hrel, m1, m2, m3, m4, m5, m6⟩ := ReleasePalette_some h
    (palUnlink pc (lastLink (PaletteLink.bucket
      (PALETTE_HASH_VAL NASKE (pc.palettes t).unique)) pre) t) t hwf.1 hinv.arena hwf.2.2.1
    hwf.2.2.2
  have hfields := fun a => palRemoved_fields pc (lastLink (PaletteLink.bucket
      (PALETTE_HASH_VAL NASKE (pc.palettes t).unique)) pre) t a
    ((UINT32_MOD - 1 + ((palUnlink pc (lastLink (PaletteLink.bucket
      (PALETTE_HASH_VAL NASKE (pc.palettes t).unique)) pre) t).palettes t).refs) % UINT32_MOD)
    ((UINT32_MOD - 1 + (palUnlink pc (lastLink (PaletteLink.bucket
      (PALETTE_HASH_VAL NASKE (pc.palettes t).unique)) pre) t).num_palettes) % UINT32_MOD)
  refine ⟨h1, palRemoved pc (lastLink (PaletteLink.bucket
      (PALETTE_HASH_VAL NASKE (pc.palettes t).unique)) pre) t, ?_,
    palRemoved_inv NASKE h h1 pc adds t pre post cl hinv ht hcl hsplit hsmall ⟨m1, m2, m3⟩,
    ?_, fun a => (hfields a).1, ?_, m4, m5, ?_⟩
  · unfold PaletteCacheRemove
    rw [if_neg hwf.2.1]
    rw [PaletteCacheRemove_walk_spec t post pre fuel h pc _
      (by
        show PalChain pc.palettes (pc.palette_cache _) (pre ++ t :: post)
        rw [← hsplit]; exact (hcl _).1) hne hprelen, hrel]
    rfl
  · show RingRemove (pc.writeLink _ _).palette_lru t = _
    rw [(writeLink_fields pc _ _ 0).2.2.2.1]
    rfl
  · intro a
    refine ((hfields a).2.2).trans ?_
    rw [hrefs]
  · rw [m6, hrefs]


theorem PaletteCacheAdd_eq (NASKE SIZE fuel : Nat) (h : ResHeap) (pc : PaletteCache)
    (palette : Nat) (hu : (pc.palettes palette).unique ≠ 0) :
    PaletteCacheAdd NASKE SIZE fuel h pc palette =
      match (if pc.num_palettes = SIZE then
          if RingGetTail pc.palette_lru = 0 then none
          else PaletteCacheRemove NASKE fuel h pc (RingGetTail pc.palette_lru)
        else some (h, pc)) with
      | none => none
      | some (h1, pc1) => some (h1, palInsert NASKE pc1 palette) := by
  unfold PaletteCacheAdd
  rw [if_neg hu]
  simp only []
  split
  · rfl
  · rename_i h1 pc1 _
    congr 2
    unfold palInsert PaletteCache.setPalette
    simp only [if_true]
    congr 1
    funext a
    by_cases ha : a = palette
    · subst ha; simp
    · simp [ha]

theorem palInsert_inv (NASKE : Nat) (h : ResHeap) (pc : PaletteCache) (adds : List Nat)
    (palette : Nat) (hinv : PalInv NASKE h pc (palette :: adds))
    (hlen : pc.palette_lru.length + 1 < UINT32_MOD) :
    PalInv NASKE h (palInsert NASKE pc palette) adds := by
  generalize hkey : PALETTE_HASH_VAL NASKE (pc.palettes palette).unique = key
  have hperm : List.Perm ((palette :: pc.palette_lru) ++ adds)
      (pc.palette_lru ++ palette :: adds) := by
    rw [List.cons_append]
    exact List.perm_middle.symm
  have hu : ∀ a, ((palInsert NASKE pc palette).palettes a).unique = (pc.palettes a).unique := by
    intro a
    by_cases ha : a = palette
    · subst ha; simp [palInsert]
    · simp [palInsert, ha]
  have hnext : ∀ a, a ≠ palette →
      ((palInsert NASKE pc palette).palettes a).next = (pc.palettes a).next := by
    intro a ha
    simp [palInsert, ha]
  have hnotin : palette ∉ pc.palette_lru := by
    intro hin
    exact (List.nodup_append.mp hinv.nodup).2.2 hin (List.mem_cons_self _ _)
  have hp0 := hinv.wf palette (List.mem_append_right _ (List.mem_cons_self _ _))
  obtain ⟨cl, hcl⟩ := hinv.chains
  have hnotcl : ∀ b, palette ∉ cl b := fun b hin => hnotin (((hcl b).2.2 palette).mp hin).1
  refine ⟨hinv.arena, ?_, ?_, ?_, ?_, ?_⟩
  · intro p hp
    rw [hu]
    exact hinv.wf p (hperm.mem_iff.mp hp)
  · exact hperm.nodup_iff.mpr hinv.nodup
  · intro p hp q hq
    rw [hu, hu]
    exact hinv.inj p (hperm.mem_iff.mp hp) q (hperm.mem_iff.mp hq)
  · refine ⟨fun b => if b = key then palette :: cl key else cl b, fun b => ?_⟩
    by_cases hb : b = key
    · subst hb
      simp only [if_true]
      refine ⟨⟨?_, hp0.1, ?_⟩, List.nodup_cons.mpr ⟨hnotcl b, (hcl b).2.1⟩, ?_⟩
      · simp [palInsert, hkey]
      · have : ((palInsert NASKE pc palette).palettes palette).next = pc.palette_cache b := by
          simp [palInsert, hkey]
        rw [this]
        apply PalChain_congr pc.palettes _ _ _ _ (hcl b).1
        intro a ha
        exact hnext a (fun e => hnotcl b (e ▸ ha))
      · intro p
        rw [hu]
        show p ∈ palette :: cl b ↔ p ∈ palette :: pc.palette_lru ∧ _
        rw [List.mem_cons, List.mem_cons, (hcl b).2.2 p]
        constructor
        · rintro (e | ⟨h1, h2⟩)
          · subst e; exact ⟨Or.inl rfl, hkey⟩
          · exact ⟨Or.inr h1, h2⟩
        · rintro ⟨e | h1, h2⟩
          · exact Or.inl e
          · exact Or.inr ⟨h1, h2⟩
    · simp only [if_neg hb]
      refine ⟨?_, (hcl b).2.1, ?_⟩
      · have : (palInsert NASKE pc palette).palette_cache b = pc.palette_cache b := by
          simp [palInsert, hkey, hb]
        rw [this]
        apply PalChain_congr pc.palettes _ _ _ _ (hcl b).1
        intro a ha
        exact hnext a (fun e => hnotcl b (e ▸ ha))
      · intro p
        rw [hu]
        show p ∈ cl b ↔ p ∈ palette :: pc.palette_lru ∧ _
        rw [List.mem_cons, (hcl b).2.2 p]
        constructor
        · rintro ⟨h1, h2⟩
          exact ⟨Or.inr h1, h2⟩
        · rintro ⟨e | h1, h2⟩
          · subst e; exact absurd (hkey.symm.trans h2) (fun e2 => hb e2.symm)
          · exact ⟨h1, h2⟩
  · show (1 + pc.num_palettes) % UINT32_MOD = (palette :: pc.palette_lru).length
    rw [hinv.count, List.length_cons, Nat.mod_eq_of_lt (by omega)]
    omega


theorem erase_getLastD (l : List Nat) : l.Nodup → l ≠ [] → l.erase (l.getLastD 0) = l.dropLast := by
  induction l with
  | nil => intro _ h; exact absurd rfl h
  | cons a rest ih =>
    intro hnd _
    cases rest with
    | nil => simp
    | cons b r =>
      have hnd2 := List.nodup_cons.mp hnd
      have hx : (b :: r).getLastD 0 ∈ b :: r := by
        rw [List.getLastD_cons]
        exact getLastD_mem_cons r b
      have hlast : (a :: b :: r).getLastD 0 = (b :: r).getLastD 0 := by
        simp [List.getLastD_cons]
      have hne : a ≠ (b :: r).getLastD 0 := fun e => hnd2.1 (e ▸ hx)
      rw [hlast, List.erase_cons_tail (by simpa using hne), ih hnd2.2 (by simp)]
      simp [List.dropLast]

theorem getLastD_mem (l : List Nat) (hl : l ≠ []) : l.getLastD 0 ∈ l := by
  cases l with
  | nil => exact absurd rfl hl
  | cons a rest =>
    rw [List.getLastD_cons]
    exact getLastD_mem_cons rest a

/-- `PaletteCacheAdd` of a new palette with non-zero `unique` on a consistent
cache: at capacity the tail of the ring is evicted first, then the palette is
put at the head; the cache stays consistent and within capacity. -/
theorem PaletteCacheAdd_spec (NASKE SIZE fuel : Nat) (h : ResHeap) (pc : PaletteCache)
    (adds : List Nat) (palette : Nat) (hinv : PalInv NASKE h pc (palette :: adds))
    (hS1 : 1 ≤ SIZE) (hS2 : SIZE < UINT32_MOD) (hlen : pc.palette_lru.length ≤ SIZE)
    (hfuel : SIZE < fuel) :
    ∃ h1 pc1, PaletteCacheAdd NASKE SIZE fuel h pc palette = some (h1, pc1) ∧
      PalInv NASKE h1 pc1 adds ∧
      pc1.palette_lru =
        (if pc.palette_lru.length = SIZE then palette :: pc.palette_lru.dropLast
         else palette :: pc.palette_lru) ∧
      (∀ a, (pc1.palettes a).unique = (pc.palettes a).unique) ∧
      pc1.palette_lru.length ≤ SIZE ∧
      (pc.palette_lru.length = SIZE →
        RingGetTail pc.palette_lru ∈ pc.palette_lru ∧
        RingGetTail pc.palette_lru ∉ pc1.palette_lru ∧
        (pc1.palettes (RingGetTail pc.palette_lru)).refs =
          (UINT32_MOD - 1 + (pc.palettes (RingGetTail pc.palette_lru)).refs) % UINT32_MOD ∧
        h1.mem_free_log = h.mem_free_log ++
          (if (UINT32_MOD - 1 + (pc.palettes (RingGetTail pc.palette_lru)).refs) % UINT32_MOD = 0
           then [RingGetTail pc.palette_lru] else [])) ∧
      (pc.palette_lru.length ≠ SIZE → h1 = h) := by
  have hp0 := hinv.wf palette (List.mem_append_right _ (List.mem_cons_self _ _))
  have hnotin : palette ∉ pc.palette_lru := by
    intro hin
    exact (List.nodup_append.mp hinv.nodup).2.2 hin (List.mem_cons_self _ _)
  have hndring : pc.palette_lru.Nodup := (List.nodup_append.mp hinv.nodup).1
  rw [PaletteCacheAdd_eq NASKE SIZE fuel h pc palette hp0.2.1]
  by_cases hfull : pc.palette_lru.length = SIZE
  · have hne : pc.palette_lru ≠ [] := by
      intro e; rw [e] at hfull; simp at hfull; omega
    have htail : RingGetTail pc.palette_lru ∈ pc.palette_lru := getLastD_mem _ hne
    have ht0 := (hinv.wf _ (List.mem_append_left _ htail)).1
    obtain ⟨h1, pc1, hrem, hinv1, hring1, hu1, hrefs1, _, _, hlog1⟩ :=
      PaletteCacheRemove_spec NASKE fuel h pc (palette :: adds) (RingGetTail pc.palette_lru) hinv
        htail (by omega) (by omega)
    have hring2 : pc1.palette_lru = pc.palette_lru.dropLast := by
      rw [hring1]; exact erase_getLastD _ hndring hne
    have hlen1 : pc1.palette_lru.length + 1 = SIZE := by
      rw [hring2, List.length_dropLast]; omega
    have hne_tp : RingGetTail pc.palette_lru ≠ palette := fun e => hnotin (e ▸ htail)
    rw [if_pos (hinv.count.trans hfull), if_neg ht0, hrem]
    refine ⟨h1, palInsert NASKE pc1 palette, rfl,
      palInsert_inv NASKE h1 pc1 adds palette hinv1 (by omega), ?_, ?_, ?_, ?_, ?_⟩
    · rw [if_pos hfull, ← hring2]; rfl
    · intro a
      rw [← hu1 a]
      by_cases ha : a = palette
      · subst ha; simp [palInsert]
      · simp [palInsert, ha]
    · show (palette :: pc1.palette_lru).length ≤ SIZE
      simp only [List.length_cons]; omega
    · intro _
      refine ⟨htail, ?_, ?_, hlog1⟩
      · show RingGetTail pc.palette_lru ∉ palette :: pc1.palette_lru
        rw [hring1]
        intro hin
        rcases List.mem_cons.mp hin with e | hin2
        · exact hne_tp e
        · exact (hndring.mem_erase_iff.mp hin2).1 rfl
      · have : ((palInsert NASKE pc1 palette).palettes (RingGetTail pc.palette_lru)).refs =
            (pc1.palettes (RingGetTail pc.palette_lru)).refs := by
          simp [palInsert, hne_tp]
        rw [this, hrefs1, if_pos rfl]
    · intro hc; exact absurd hfull hc
  · rw [if_neg (fun e => hfull (hinv.count.symm.trans e))]
    refine ⟨h, palInsert NASKE pc palette, rfl,
      palInsert_inv NASKE h pc adds palette hinv (by omega), ?_, ?_, ?_, ?_, fun _ => rfl⟩
    · rw [if_neg hfull]; rfl
    · intro a
      by_cases ha : a = palette
      · subst ha; simp [palInsert]
      · simp [palInsert, ha]
    · show (palette :: pc.palette_lru).length ≤ SIZE
      simp only [List.length_cons]; omega
    · intro hc; exact absurd hc hfull


theorem runPalOps_spec (NASKE SIZE fuel : Nat) (hS1 : 1 ≤ SIZE) (hS2 : SIZE < UINT32_MOD)
    (hfuel : SIZE < fuel) (ops : List PalOp) :
    ∀ (h : ResHeap) (pc : PaletteCache), PalInv NASKE h pc (addedPalettes ops) →
      pc.palette_lru.length ≤ SIZE →
      ∃ h1 pc1, runPalOps NASKE SIZE fuel h pc ops = some (h1, pc1) ∧
        pc1.palette_lru =
          lruModel SIZE (fun p => (pc.palettes p).unique) pc.palette_lru ops ∧
        pc1.num_palettes = pc1.palette_lru.length ∧
        pc1.palette_lru.length ≤ SIZE ∧
        (∀ a, (pc1.palettes a).unique = (pc.palettes a).unique) ∧
        PalInv NASKE h1 pc1 [] := by
  induction ops with
  | nil =>
    intro h pc hinv hlen
    exact ⟨h, pc, rfl, rfl, hinv.count, hlen, fun _ => rfl, hinv⟩
  | cons op rest ih =>
    intro h pc hinv hlen
    cases op with
    | get unique =>
      have hget := PaletteCacheGet_spec NASKE fuel h pc (addedPalettes rest) unique hinv
        (by omega)
      by_cases h0 : unique = 0
      · rw [if_pos h0] at hget
        obtain ⟨h1, pc1, e1, e2, e3, e4, e5, e6⟩ := ih h pc hinv hlen
        refine ⟨h1, pc1, ?_, ?_, e3, e4, e5, e6⟩
        · simp only [runPalOps, runPalOp, hget]
          exact e1
        · rw [e2]
          simp [lruModel, lruStep, h0]
      · rw [if_neg h0] at hget
        cases hf : pc.palette_lru.find? (fun p => decide ((pc.palettes p).unique = unique)) with
        | none =>
          rw [hf] at hget
          obtain ⟨h1, pc1, e1, e2, e3, e4, e5, e6⟩ := ih h pc hinv hlen
          refine ⟨h1, pc1, ?_, ?_, e3, e4, e5, e6⟩
          · simp only [runPalOps, runPalOp, hget]
            exact e1
          · rw [e2]
            simp only [lruModel, List.foldl_cons, lruStep, if_neg h0, hf]
        | some p =>
          rw [hf] at hget
          have hp : p ∈ pc.palette_lru := List.mem_of_find?_eq_some hf
          have hinv1 := palHit_inv NASKE h pc (addedPalettes rest) p hinv hp
          have hlen1 : (palHit pc p).palette_lru.length ≤ SIZE := by
            rw [(palHit_perm pc p hp).length_eq]; exact hlen
          have hfun : (fun q => ((palHit pc p).palettes q).unique) =
              (fun q => (pc.palettes q).unique) := by
            funext q; exact (palHit_fields pc p q).1
          obtain ⟨h1, pc1, e1, e2, e3, e4, e5, e6⟩ := ih h (palHit pc p) hinv1 hlen1
          refine ⟨h1, pc1, ?_, ?_, e3, e4, ?_, e6⟩
          · simp only [runPalOps, runPalOp, hget]
            exact e1
          · rw [e2, hfun]
            simp only [lruModel, List.foldl_cons, lruStep, if_neg h0, hf]
            rfl
          · intro a; rw [e5 a]; exact (palHit_fields pc p a).1
    | add palette =>
      obtain ⟨h1, pc1, a1, a2, a3, a4, a5, _, _⟩ := PaletteCacheAdd_spec NASKE SIZE fuel h pc
        (addedPalettes rest) palette hinv hS1 hS2 hlen hfuel
      have hfun : (fun q => (pc1.palettes q).unique) = (fun q => (pc.palettes q).unique) := by
        funext q; exact a4 q
      obtain ⟨h2, pc2, e1, e2, e3, e4, e5, e6⟩ := ih h1 pc1 a2 a5
      refine ⟨h2, pc2, ?_, ?_, e3, e4, ?_, e6⟩
      · simp only [runPalOps, runPalOp, a1]
        exact e1
      · rw [e2, hfun, a3]
        simp only [lruModel, List.foldl_cons, lruStep]
      · intro a; rw [e5 a]; exact a4 a

theorem lruStep_add_take (SIZE : Nat) (hS1 : 1 ≤ SIZE) (uniq : Nat → Nat) (acc : List Nat)
    (p : Nat) :
    lruStep SIZE uniq (acc.take SIZE) (PalOp.add p) = (p :: acc).take SIZE := by
  obtain ⟨S, rfl⟩ : ∃ S, SIZE = S + 1 := ⟨SIZE - 1, by omega⟩
  simp only [lruStep, List.take_succ_cons]
  by_cases hl : S + 1 ≤ acc.length
  · have h1 : (acc.take (S + 1)).length = S + 1 := by
      rw [List.length_take]; omega
    rw [if_pos h1]
    congr 1
    rw [List.dropLast_eq_take, h1, List.take_take]
    simp
  · have h1 : (acc.take (S + 1)).length ≠ S + 1 := by
      rw [List.length_take]; omega
    rw [if_neg h1, List.take_of_length_le (by omega), List.take_of_length_le (by omega)]

/-- Inserting the palettes `adds` one after the other leaves on the recency
list the `SIZE` most recently inserted ones, most recent first. -/
theorem lruModel_adds (SIZE : Nat) (hS1 : 1 ≤ SIZE) (uniq : Nat → Nat) (adds : List Nat) :
    ∀ acc : List Nat, lruModel SIZE uniq (acc.take SIZE) (adds.map PalOp.add) =
      (adds.reverse ++ acc).take SIZE := by
  induction adds with
  | nil => intro acc; rfl
  | cons p rest ih =>
    intro acc
    simp only [lruModel, List.map_cons, List.foldl_cons]
    rw [lruStep_add_take SIZE hS1 uniq acc p]
    have := ih (p :: acc)
    simp only [lruModel] at this
    rw [this]
    simp


theorem examplePalCache_inv : PalInv 7 arenaHeap examplePalCache [8192, 8448, 8704] := by
  refine ⟨by decide, by decide, by decide, by decide, ⟨fun _ => [], fun b => ?_⟩, rfl⟩
  refine ⟨rfl, List.nodup_nil, fun p => ?_⟩
  simp [examplePalCache]

/-- C10. Palette cache LRU, for a cache of capacity `SIZE` (1 <= SIZE < 2^32)
that is consistent (`PalInv`) and within capacity. (1) `PaletteCacheGet` for
the `unique` of a cached palette returns that palette, moves it to the head
of `palette_lru` and increments its `refs`. (2) `PaletteCacheAdd` of a new
palette when `num_palettes = SIZE` evicts the tail of the ring (it leaves the
ring and, the cache staying consistent, its bucket; it loses one reference;
the count drops) and then puts the new palette at the head, so that the count
is `SIZE` again. (3) Every sequence of gets and adds of distinct new
palettes runs to the end, the ring is the recency list of the policy
(`lruModel`), and `num_palettes` is the length of the ring and at most
`SIZE`. (4) After `n` adds to an empty ring the recency list holds the
`min n SIZE` most recently added palettes, most recent first. -/
theorem C10_palette_cache_lru (NASKE SIZE fuel : Nat) (h : ResHeap) (pc : PaletteCache)
    (hS1 : 1 ≤ SIZE) (hS2 : SIZE < 4294967296) (hfuel : SIZE < fuel)
    (hlen : pc.palette_lru.length ≤ SIZE) :
    (∀ adds p, PalInv NASKE h pc adds → p ∈ pc.palette_lru →
      PaletteCacheGet NASKE fuel pc (pc.palettes p).unique = some (p, palHit pc p) ∧
      (palHit pc p).palette_lru = p :: pc.palette_lru.erase p ∧
      ((palHit pc p).palettes p).refs = (1 + (pc.palettes p).refs) % 4294967296 ∧
      PalInv NASKE h (palHit pc p) adds) ∧
    (∀ adds palette, PalInv NASKE h pc (palette :: adds) → pc.num_palettes = SIZE →
      ∃ h1 pc1, PaletteCacheAdd NASKE SIZE fuel h pc palette = some (h1, pc1) ∧
        pc1.palette_lru = palette :: pc.palette_lru.dropLast ∧
        RingGetTail pc.palette_lru ∈ pc.palette_lru ∧
        RingGetTail pc.palette_lru ∉ pc1.palette_lru ∧
        (pc1.palettes (RingGetTail pc.palette_lru)).refs =
          (4294967296 - 1 + (pc.palettes (RingGetTail pc.palette_lru)).refs) % 4294967296 ∧
        pc1.num_palettes = SIZE ∧
        PalInv NASKE h1 pc1 adds) ∧
    (∀ ops, PalInv NASKE h pc (addedPalettes ops) →
      ∃ h1 pc1, runPalOps NASKE SIZE fuel h pc ops = some (h1, pc1) ∧
        pc1.palette_lru =
          lruModel SIZE (fun p => (pc.palettes p).unique) pc.palette_lru ops ∧
        pc1.num_palettes = pc1.palette_lru.length ∧
        pc1.palette_lru.length ≤ SIZE ∧
        PalInv NASKE h1 pc1 []) ∧
    (∀ adds : List Nat, lruModel SIZE (fun p => (pc.palettes p).unique) []
        (adds.map PalOp.add) = adds.reverse.take SIZE ∧
      (adds.reverse.take SIZE).length = min adds.length SIZE) := by
  refine ⟨?_, ?_, ?_, ?_⟩
  · intro adds p hinv hp
    have hwf := hinv.wf p (List.mem_append_left _ hp)
    have hget := PaletteCacheGet_spec NASKE fuel h pc adds (pc.palettes p).unique hinv
      (by omega)
    rw [if_neg hwf.2.1] at hget
    have hfind : pc.palette_lru.find?
        (fun q => decide ((pc.palettes q).unique = (pc.palettes p).unique)) = some p := by
      cases hf : pc.palette_lru.find?
          (fun q => decide ((pc.palettes q).unique = (pc.palettes p).unique)) with
      | none =>
        rw [List.find?_eq_none] at hf
        exact absurd (by simp) (hf p hp)
      | some q =>
        have hq : q ∈ pc.palette_lru := List.mem_of_find?_eq_some hf
        have hpq : (pc.palettes q).unique = (pc.palettes p).unique := by
          simpa using List.find?_some hf
        rw [hinv.inj q (List.mem_append_left _ hq) p (List.mem_append_left _ hp) hpq]
    rw [hfind] at hget
    refine ⟨hget, rfl, ?_, palHit_inv NASKE h pc adds p hinv hp⟩
    simp [palHit]
  · intro adds palette hinv hnum
    have hfull : pc.palette_lru.length = SIZE := hinv.count.symm.trans hnum
    obtain ⟨h1, pc1, a1, a2, a3, _, _, a6, _⟩ := PaletteCacheAdd_spec NASKE SIZE fuel h pc adds
      palette hinv hS1 hS2 hlen hfuel
    rw [if_pos hfull] at a3
    obtain ⟨b1, b2, b3, _⟩ := a6 hfull
    refine ⟨h1, pc1, a1, a3, b1, b2, b3, ?_, a2⟩
    rw [a2.count, a3, List.length_cons, List.length_dropLast]
    omega
  · intro ops hinv
    obtain ⟨h1, pc1, e1, e2, e3, e4, _, e6⟩ := runPalOps_spec NASKE SIZE fuel hS1 hS2 hfuel ops h
      pc hinv hlen
    exact ⟨h1, pc1, e1, e2, e3, e4, e6⟩
  · intro adds
    have := lruModel_adds SIZE hS1 (fun p => (pc.palettes p).unique) adds []
    simp only [List.take_nil, List.append_nil] at this
    refine ⟨this, ?_⟩
    rw [List.length_take, List.length_reverse, Nat.min_comm]

/-- Witness for C10 with capacity 2: adding the palettes 8192 and 8448,
looking up the `unique` of 8192 and adding 8704 leaves the ring `[8704, 8192]`:
the lookup saved 8192 from eviction and 8448 was evicted instead. -/
theorem C10_palette_cache_lru_witness :
    ∃ h1 pc1, runPalOps 7 2 3 arenaHeap examplePalCache
        [PalOp.add 8192, PalOp.add 8448, PalOp.get 11, PalOp.add 8704] = some (h1, pc1) ∧
      pc1.palette_lru = [8704, 8192] ∧
      pc1.num_palettes = pc1.palette_lru.length ∧
      pc1.palette_lru.length ≤ 2 := by
  obtain ⟨h1, pc1, e1, e2, e3, e4, _⟩ :=
    (C10_palette_cache_lru 7 2 3 arenaHeap examplePalCache (by decide) (by decide) (by decide)
      (by decide)).2.2.1 [PalOp.add 8192, PalOp.add 8448, PalOp.get 11, PalOp.add 8704]
      examplePalCache_inv
  exact ⟨h1, pc1, e1, e2.trans (by decide), e3, e4⟩


/-! ### Cursor cache -/

theorem CurChain_congr (P1 P2 : Nat → InternalCursor) (l : List Nat) :
    ∀ p, (∀ a, a ∈ l → (P2 a).next = (P1 a).next) → CurChain P1 p l → CurChain P2 p l := by
  induction l with
  | nil => intro p _ h; exact h
  | cons c rest ih =>
    intro p hsame h
    obtain ⟨h0, h1, hrest⟩ := h
    refine ⟨h0, h1, ?_⟩
    rw [hsame c (List.mem_cons_self _ _)]
    exact ih _ (fun a ha => hsame a (List.mem_cons_of_mem _ ha)) hrest

theorem cur_writeLink_fields (cc : CursorCache) (L : CursorLink) (v a : Nat) :
    ((cc.writeLink L v).cursors a).unique = (cc.cursors a).unique ∧
    ((cc.writeLink L v).cursors a).hsurf = (cc.cursors a).hsurf ∧
    ((cc.writeLink L v).cursors a).next =
      (if L = CursorLink.next a then v else (cc.cursors a).next) ∧
    (cc.writeLink L v).cursors_lru = cc.cursors_lru ∧
    (cc.writeLink L v).num_cursors = cc.num_cursors := by
  cases L with
  | bucket b => simp [CursorCache.writeLink]
  | next p =>
    by_cases h : a = p
    · subst h; simp [CursorCache.writeLink]
    · have h2 : p ≠ a := fun e => h e.symm
      simp [CursorCache.writeLink, h, h2]

theorem cur_writeLink_bucket (cc : CursorCache) (L : CursorLink) (v b : Nat) :
    (cc.writeLink L v).cursor_cache b =
      (if L = CursorLink.bucket b then v else cc.cursor_cache b) := by
  cases L with
  | bucket b2 =>
    by_cases h : b = b2
    · subst h; simp [CursorCache.writeLink]
    · have h2 : b2 ≠ b := fun e => h e.symm
      simp [CursorCache.writeLink, h, h2]
  | next p => simp [CursorCache.writeLink]

theorem cur_readLink_writeLink (cc : CursorCache) (L L2 : CursorLink) (v : Nat) :
    (cc.writeLink L v).readLink L2 = (if L = L2 then v else cc.readLink L2) := by
  cases L2 with
  | bucket b => exact cur_writeLink_bucket cc L v b
  | next p => exact (cur_writeLink_fields cc L v p).2.2.1

theorem curLastLink_next (a : Nat) (pre : List Nat) :
    ∃ y, y ∈ a :: pre ∧ curLastLink (CursorLink.next a) pre = CursorLink.next y := by
  induction pre generalizing a with
  | nil => exact ⟨a, List.mem_cons_self _ _, rfl⟩
  | cons c rest ih =>
    obtain ⟨y, hy, e⟩ := ih c
    exact ⟨y, List.mem_cons_of_mem _ hy, e⟩

theorem curLastLink_bucket (b : Nat) (pre : List Nat) :
    curLastLink (CursorLink.bucket b) pre = CursorLink.bucket b ∨
    ∃ y, y ∈ pre ∧ curLastLink (CursorLink.bucket b) pre = CursorLink.next y := by
  cases pre with
  | nil => exact Or.inl rfl
  | cons a rest =>
    obtain ⟨y, hy, e⟩ := curLastLink_next a rest
    exact Or.inr ⟨y, hy, e⟩

theorem CurChain_unlink (cc : CursorCache) (t : Nat) (post : List Nat) (pre : List Nat) :
    ∀ internal : CursorLink,
      CurChain cc.cursors (cc.readLink internal) (pre ++ t :: post) →
      (pre ++ t :: post).Nodup →
      (∀ x, x ∈ pre ++ t :: post → internal ≠ CursorLink.next x) →
      CurChain (cc.writeLink (curLastLink internal pre) (cc.cursors t).next).cursors
        ((cc.writeLink (curLastLink internal pre) (cc.cursors t).next).readLink internal)
        (pre ++ post) := by
  induction pre with
  | nil =>
    intro internal hc _ hout
    obtain ⟨_, _, hrest⟩ := hc
    simp only [curLastLink, List.nil_append, cur_readLink_writeLink, if_true]
    apply CurChain_congr cc.cursors _ _ _ _ hrest
    intro a ha
    rw [(cur_writeLink_fields cc internal _ a).2.2.1,
      if_neg (hout a (by simp [ha]))]
  | cons a pre ih =>
    intro internal hc hnd hout
    obtain ⟨e, ha0, hrest⟩ := hc
    have hnd2 := List.nodup_cons.mp hnd
    obtain ⟨y, hy, ey⟩ := curLastLink_next a pre
    have hyin : y ∈ (a :: pre) ++ t :: post := List.mem_append_left _ hy
    have hne : curLastLink (CursorLink.next a) pre ≠ internal := by
      rw [ey]; exact fun e2 => hout y hyin e2.symm
    refine ⟨?_, ha0, ?_⟩
    · show (cc.writeLink (curLastLink (CursorLink.next a) pre) _).readLink internal = a
      rw [cur_readLink_writeLink, if_neg hne]
      exact e
    · exact ih (CursorLink.next a) hrest hnd2.2
        (fun x hx e2 => hnd2.1 (by
          have : a = x := by injection e2
          rw [this]; exact hx))

theorem CursorCacheRemove_walk_spec (sz t : Nat) (post : List Nat) (pre : List Nat) :
    ∀ (fuel : Nat) (h : ResHeap) (cc : CursorCache) (internal : CursorLink),
      CurChain cc.cursors (cc.readLink internal) (pre ++ t :: post) →
      t ∉ pre → pre.length < fuel →
      CursorCacheRemove.walk sz t fuel h cc internal =
        some (curRemoved sz h cc (curLastLink internal pre) t) := by
  induction pre with
  | nil =>
    intro fuel h cc internal hc _ hf
    obtain ⟨f, rfl⟩ : ∃ f, fuel = f + 1 := ⟨fuel - 1, by simp at hf; omega⟩
    obtain ⟨e, ht0, _⟩ := hc
    unfold CursorCacheRemove.walk
    rw [e, if_neg ht0, if_pos ⟨rfl, rfl⟩]
    rfl
  | cons a pre ih =>
    intro fuel h cc internal hc hne hf
    obtain ⟨f, rfl⟩ : ∃ f, fuel = f + 1 := ⟨fuel - 1, by simp at hf; omega⟩
    obtain ⟨e, ha0, hrest⟩ := hc
    have hat : a ≠ t := fun e2 => hne (e2 ▸ List.mem_cons_self _ _)
    unfold CursorCacheRemove.walk
    rw [e, if_neg ha0, if_neg (fun hh => hat hh.2)]
    exact ih f h cc (CursorLink.next a) hrest
      (fun hx => hne (List.mem_cons_of_mem _ hx)) (by simp at hf; omega)


theorem CurInv_chain_length (NASKE : Nat) (cc : CursorCache) (cl : Nat → List Nat)
    (hcl : ∀ b, CurChain cc.cursors (cc.cursor_cache b) (cl b) ∧ (cl b).Nodup ∧
      ∀ p, p ∈ cl b ↔ (p ∈ cc.cursors_lru ∧ CURSOR_HASH_VAL NASKE (cc.cursors p).hsurf = b))
    (b : Nat) : (cl b).length ≤ cc.cursors_lru.length :=
  (List.subperm_of_subset (hcl b).2.1 (fun p hp => (((hcl b).2.2 p).mp hp).1)).length_le

theorem curRemoved_inv (NASKE sz : Nat) (h : ResHeap) (cc : CursorCache) (adds : List Nat)
    (t : Nat) (pre post : List Nat) (cl : Nat → List Nat)
    (hinv : CurInv NASKE cc adds) (ht : t ∈ cc.cursors_lru)
    (hcl : ∀ b, CurChain cc.cursors (cc.cursor_cache b) (cl b) ∧ (cl b).Nodup ∧
      ∀ p, p ∈ cl b ↔ (p ∈ cc.cursors_lru ∧ CURSOR_HASH_VAL NASKE (cc.cursors p).hsurf = b))
    (hsplit : cl (CURSOR_HASH_VAL NASKE (cc.cursors t).hsurf) = pre ++ t :: post)
    (hsmall : cc.cursors_lru.length < UINT32_MOD) :
    CurInv NASKE
      (curRemoved sz h cc (curLastLink (CursorLink.bucket
        (CURSOR_HASH_VAL NASKE (cc.cursors t).hsurf)) pre) t).2 adds := by
  generalize hb : CURSOR_HASH_VAL NASKE (cc.cursors t).hsurf = b at hsplit ⊢
  generalize hL : curLastLink (CursorLink.bucket b) pre = L
  have hw := cur_writeLink_fields cc L (cc.cursors t).next
  have hu : ∀ a, (((curRemoved sz h cc L t).2).cursors a).unique = (cc.cursors a).unique :=
    fun a => (hw a).1
  have hs : ∀ a, (((curRemoved sz h cc L t).2).cursors a).hsurf = (cc.cursors a).hsurf :=
    fun a => (hw a).2.1
  have hnext : ∀ a, (((curRemoved sz h cc L t).2).cursors a).next =
      (if L = CursorLink.next a then (cc.cursors t).next else (cc.cursors a).next) :=
    fun a => (hw a).2.2.1
  have hring : ((curRemoved sz h cc L t).2).cursors_lru = cc.cursors_lru.erase t := by
    show RingRemove (cc.writeLink L _).cursors_lru t = _
    rw [(hw 0).2.2.2.1]
    rfl
  have hcache : ∀ b2, ((curRemoved sz h cc L t).2).cursor_cache b2 =
      (if L = CursorLink.bucket b2 then (cc.cursors t).next else cc.cursor_cache b2) :=
    fun b2 => cur_writeLink_bucket cc L _ b2
  have hndring : cc.cursors_lru.Nodup := (List.nodup_append.mp hinv.nodup).1
  have hmem : ∀ x, x ∈ cc.cursors_lru.erase t ↔ x ∈ cc.cursors_lru ∧ x ≠ t := by
    intro x
    rw [hndring.mem_erase_iff]
    exact and_comm
  have hsub : ∀ x, x ∈ cc.cursors_lru.erase t ++ adds → x ∈ cc.cursors_lru ++ adds := by
    intro x hx
    rcases List.mem_append.mp hx with h2 | h2
    · exact List.mem_append_left _ ((hmem x).mp h2).1
    · exact List.mem_append_right _ h2
  have hndb : (pre ++ t :: post).Nodup := hsplit ▸ (hcl b).2.1
  have hLcases := curLastLink_bucket b pre
  rw [hL] at hLcases
  have hpre_in : ∀ y, y ∈ pre → y ∈ cl b := by
    intro y hy; rw [hsplit]; exact List.mem_append_left _ hy
  refine ⟨?_, ?_, ?_, ?_, ?_⟩
  · intro p hp
    rw [hring] at hp
    rw [hu]
    exact hinv.wf p (hsub p hp)
  · rw [hring]
    exact hinv.nodup.sublist ((List.erase_sublist t _).append_right adds)
  · intro p hp q hq
    rw [hring] at hp hq
    rw [hs, hs]
    exact hinv.inj p (hsub p hp) q (hsub q hq)
  · refine ⟨fun b2 => if b2 = b then pre ++ post else cl b2, fun b2 => ?_⟩
    by_cases hb2 : b2 = b
    · subst hb2
      simp only [if_true]
      refine ⟨?_, ?_, ?_⟩
      · have hun := CurChain_unlink cc t post pre (CursorLink.bucket b2)
          (by rw [← hsplit]; exact (hcl b2).1) hndb (fun x _ e => by cases e)
        rw [hL] at hun
        exact hun
      · exact hndb.sublist
          (List.Sublist.append (List.Sublist.refl pre) (List.sublist_cons_self t post))
      · intro p
        rw [hring, hmem, hs]
        have hiff := (hcl b2).2.2 p
        rw [hsplit] at hiff
        constructor
        · intro hp
          have hp2 : p ∈ pre ++ t :: post := by
            rcases List.mem_append.mp hp with h2 | h2
            · exact List.mem_append_left _ h2
            · exact List.mem_append_right _ (List.mem_cons_of_mem _ h2)
          have hpt : p ≠ t := by
            intro e
            subst e
            have hnd3 := List.nodup_append.mp hndb
            rcases List.mem_append.mp hp with h2 | h2
            · exact hnd3.2.2 h2 (List.mem_cons_self _ _)
            · exact (List.nodup_cons.mp hnd3.2.1).1 h2
          exact ⟨⟨(hiff.mp hp2).1, hpt⟩, (hiff.mp hp2).2⟩
        · intro hp
          have hp2 := hiff.mpr ⟨hp.1.1, hp.2⟩
          rcases List.mem_append.mp hp2 with h2 | h2
          · exact List.mem_append_left _ h2
          · rcases List.mem_cons.mp h2 with h3 | h3
            · exact absurd h3 hp.1.2
            · exact List.mem_append_right _ h3
    · simp only [if_neg hb2]
      have hLb : L ≠ CursorLink.bucket b2 := by
        rcases hLcases with e | ⟨y, _, e⟩
        · rw [e]; intro e2; injection e2 with e3; exact hb2 e3.symm
        · rw [e]; intro e2; cases e2
      refine ⟨?_, (hcl b2).2.1, ?_⟩
      · rw [hcache b2, if_neg hLb]
        apply CurChain_congr _ _ _ _ _ (hcl b2).1
        intro a ha
        rw [hnext a]
        have hLa : L ≠ CursorLink.next a := by
          rcases hLcases with e | ⟨y, hy, e⟩
          · rw [e]; intro e2; cases e2
          · rw [e]
            intro e2
            injection e2 with e3
            subst e3
            have h1 := (((hcl b).2.2 y).mp (hpre_in y hy)).2
            have h2 := (((hcl b2).2.2 y).mp ha).2
            exact hb2 (h2.symm.trans h1)
        rw [if_neg hLa]
      · intro p
        rw [hring, hmem, hs]
        have hiff := (hcl b2).2.2 p
        constructor
        · intro hp
          have hp2 := hiff.mp hp
          refine ⟨⟨hp2.1, ?_⟩, hp2.2⟩
          intro e
          subst e
          exact hb2 (hp2.2.symm.trans hb)
        · intro hp
          exact hiff.mpr ⟨hp.1.1, hp.2⟩
  · show (UINT32_MOD - 1 + (cc.writeLink L _).num_cursors) % UINT32_MOD = _
    rw [(hw 0).2.2.2.2, hring, hinv.count, List.length_erase_of_mem ht]
    have hpos : 1 ≤ cc.cursors_lru.length := List.length_pos_of_mem ht
    exact RELEASE_RES_wrap _ hpos hsmall

/-- `CursorCacheRemove` on a cursor of the ring of a consistent cache: it
returns, the cursor is unlinked from its bucket and from the ring, its
resource is released once, the count drops by one, and the cache stays
consistent. -/
theorem CursorCacheRemove_spec (NASKE sz fuel : Nat) (h : ResHeap) (cc : CursorCache)
    (adds : List Nat) (t : Nat) (hinv : CurInv NASKE cc adds) (ht : t ∈ cc.cursors_lru)
    (hfuel : cc.cursors_lru.length < fuel) (hsmall : cc.cursors_lru.length < UINT32_MOD) :
    ∃ cc1, CursorCacheRemove NASKE sz fuel h cc t = some (RELEASE_RES h (t - sz), cc1) ∧
      CurInv NASKE cc1 adds ∧
      cc1.cursors_lru = cc.cursors_lru.erase t ∧
      (∀ a, (cc1.cursors a).unique = (cc.cursors a).unique) ∧
      (∀ a, (cc1.cursors a).hsurf = (cc.cursors a).hsurf) := by
  obtain ⟨cl, hcl⟩ := hinv.chains
  have hwf := hinv.wf t (List.mem_append_left _ ht)
  have htin : t ∈ cl (CURSOR_HASH_VAL NASKE (cc.cursors t).hsurf) :=
    ((hcl _).2.2 t).mpr ⟨ht, rfl⟩
  obtain ⟨pre, post, hsplit⟩ := List.append_of_mem htin
  have hndb : (pre ++ t :: post).Nodup := hsplit ▸ (hcl _).2.1
  have hne : t ∉ pre := fun hin => (List.nodup_append.mp hndb).2.2 hin (List.mem_cons_self _ _)
  have hlen := CurInv_chain_length NASKE cc cl hcl (CURSOR_HASH_VAL NASKE (cc.cursors t).hsurf)
  have hprelen : pre.length < fuel := by
    rw [hsplit] at hlen
    simp at hlen
    omega
  refine ⟨(curRemoved sz h cc (curLastLink (CursorLink.bucket
      (CURSOR_HASH_VAL NASKE (cc.cursors t).hsurf)) pre) t).2, ?_,
    curRemoved_inv NASKE sz h cc adds t pre post cl hinv ht hcl hsplit hsmall, ?_,
    fun a => (cur_writeLink_fields cc _ _ a).1, fun a => (cur_writeLink_fields cc _ _ a).2.1⟩
  · unfold CursorCacheRemove
    rw [if_neg hwf.2]
    rw [CursorCacheRemove_walk_spec sz t post pre fuel h cc _
      (by
        show CurChain cc.cursors (cc.cursor_cache _) (pre ++ t :: post)
        rw [← hsplit]; exact (hcl _).1) hne hprelen]
    rfl
  · show RingRemove (cc.writeLink _ _).cursors_lru t = _
    rw [(cur_writeLink_fields cc _ _ 0).2.2.2.1]
    rfl


theorem curInsert_inv (NASKE sz : Nat) (h : ResHeap) (cc : CursorCache) (adds : List Nat)
    (cursor : Nat) (hinv : CurInv NASKE cc (cursor :: adds))
    (hlen : cc.cursors_lru.length + 1 < UINT32_MOD) :
    CurInv NASKE (curInsert NASKE sz h cc cursor).2 adds := by
  generalize hkey : CURSOR_HASH_VAL NASKE (cc.cursors cursor).hsurf = key
  have hperm : List.Perm ((cursor :: cc.cursors_lru) ++ adds)
      (cc.cursors_lru ++ cursor :: adds) := by
    rw [List.cons_append]
    exact List.perm_middle.symm
  have hu : ∀ a, (((curInsert NASKE sz h cc cursor).2).cursors a).unique =
      (cc.cursors a).unique := by
    intro a
    by_cases ha : a = cursor
    · subst ha; simp [curInsert]
    · simp [curInsert, ha]
  have hs : ∀ a, (((curInsert NASKE sz h cc cursor).2).cursors a).hsurf =
      (cc.cursors a).hsurf := by
    intro a
    by_cases ha : a = cursor
    · subst ha; simp [curInsert]
    · simp [curInsert, ha]
  have hnext : ∀ a, a ≠ cursor →
      (((curInsert NASKE sz h cc cursor).2).cursors a).next = (cc.cursors a).next := by
    intro a ha
    simp [curInsert, ha]
  have hnotin : cursor ∉ cc.cursors_lru := by
    intro hin
    exact (List.nodup_append.mp hinv.nodup).2.2 hin (List.mem_cons_self _ _)
  have hp0 := hinv.wf cursor (List.mem_append_right _ (List.mem_cons_self _ _))
  obtain ⟨cl, hcl⟩ := hinv.chains
  have hnotcl : ∀ b, cursor ∉ cl b := fun b hin => hnotin (((hcl b).2.2 cursor).mp hin).1
  refine ⟨?_, ?_, ?_, ?_, ?_⟩
  · intro p hp
    rw [hu]
    exact hinv.wf p (hperm.mem_iff.mp hp)
  · exact hperm.nodup_iff.mpr hinv.nodup
  · intro p hp q hq
    rw [hs, hs]
    exact hinv.inj p (hperm.mem_iff.mp hp) q (hperm.mem_iff.mp hq)
  · refine ⟨fun b => if b = key then cursor :: cl key else cl b, fun b => ?_⟩
    by_cases hb : b = key
    · subst hb
      simp only [if_true]
      refine ⟨⟨?_, hp0.1, ?_⟩, List.nodup_cons.mpr ⟨hnotcl b, (hcl b).2.1⟩, ?_⟩
      · simp [curInsert, hkey]
      · have : (((curInsert NASKE sz h cc cursor).2).cursors cursor).next =
            cc.cursor_cache b := by
          simp [curInsert, hkey]
        rw [this]
        apply CurChain_congr cc.cursors _ _ _ _ (hcl b).1
        intro a ha
        exact hnext a (fun e => hnotcl b (e ▸ ha))
      · intro p
        rw [hs]
        show p ∈ cursor :: cl b ↔ p ∈ cursor :: cc.cursors_lru ∧ _
        rw [List.mem_cons, List.mem_cons, (hcl b).2.2 p]
        constructor
        · rintro (e | ⟨h1, h2⟩)
          · subst e; exact ⟨Or.inl rfl, hkey⟩
          · exact ⟨Or.inr h1, h2⟩
        · rintro ⟨e | h1, h2⟩
          · exact Or.inl e
          · exact Or.inr ⟨h1, h2⟩
    · simp only [if_neg hb]
      refine ⟨?_, (hcl b).2.1, ?_⟩
      · have : ((curInsert NASKE sz h cc cursor).2).cursor_cache b = cc.cursor_cache b := by
          simp [curInsert, hkey, hb]
        rw [this]
        apply CurChain_congr cc.cursors _ _ _ _ (hcl b).1
        intro a ha
        exact hnext a (fun e => hnotcl b (e ▸ ha))
      · intro p
        rw [hs]
        show p ∈ cl b ↔ p ∈ cursor :: cc.cursors_lru ∧ _
        rw [List.mem_cons, (hcl b).2.2 p]
        constructor
        · rintro ⟨h1, h2⟩
          exact ⟨Or.inr h1, h2⟩
        · rintro ⟨e | h1, h2⟩
          · subst e; exact absurd (hkey.symm.trans h2) (fun e2 => hb e2.symm)
          · exact ⟨h1, h2⟩
  · show (1 + cc.num_cursors) % UINT32_MOD = (cursor :: cc.cursors_lru).length
    rw [hinv.count, List.length_cons, Nat.mod_eq_of_lt (by omega)]
    omega

/-- `CursorCacheAdd` of a new cursor with non-zero `unique` on a consistent
cache: at capacity the tail of the ring is evicted first (its resource
released), then the cursor is put at the head with `GET_RES` on its
resource; the cache stays consistent and within capacity. -/
theorem CursorCacheAdd_spec (NASKE SIZE sz fuel : Nat) (h : ResHeap) (cc : CursorCache)
    (adds : List Nat) (cursor : Nat) (hinv : CurInv NASKE cc (cursor :: adds))
    (hS1 : 1 ≤ SIZE) (hS2 : SIZE < UINT32_MOD) (hlen : cc.cursors_lru.length ≤ SIZE)
    (hfuel : SIZE < fuel) :
    ∃ cc1, CursorCacheAdd NASKE SIZE sz fuel h cc cursor =
        some (GET_RES (if cc.cursors_lru.length = SIZE then
            RELEASE_RES h (RingGetTail cc.cursors_lru - sz) else h) (cursor - sz), cc1) ∧
      CurInv NASKE cc1 adds ∧
      cc1.cursors_lru =
        (if cc.cursors_lru.length = SIZE then cursor :: cc.cursors_lru.dropLast
         else cursor :: cc.cursors_lru) ∧
      (∀ a, (cc1.cursors a).unique = (cc.cursors a).unique) ∧
      (∀ a, (cc1.cursors a).hsurf = (cc.cursors a).hsurf) ∧
      cc1.cursors_lru.length ≤ SIZE ∧
      (cc.cursors_lru.length = SIZE →
        RingGetTail cc.cursors_lru ∈ cc.cursors_lru ∧
        RingGetTail cc.cursors_lru ∉ cc1.cursors_lru) := by
  have hp0 := hinv.wf cursor (List.mem_append_right _ (List.mem_cons_self _ _))
  have hnotin : cursor ∉ cc.cursors_lru := by
    intro hin
    exact (List.nodup_append.mp hinv.nodup).2.2 hin (List.mem_cons_self _ _)
  have hndring : cc.cursors_lru.Nodup := (List.nodup_append.mp hinv.nodup).1
  unfold CursorCacheAdd
  rw [if_neg hp0.2]
  by_cases hfull : cc.cursors_lru.length = SIZE
  · have hne : cc.cursors_lru ≠ [] := by
      intro e; rw [e] at hfull; simp at hfull; omega
    have htail : RingGetTail cc.cursors_lru ∈ cc.cursors_lru := getLastD_mem _ hne
    have ht0 := (hinv.wf _ (List.mem_append_left _ htail)).1
    obtain ⟨cc1, hrem, hinv1, hring1, hu1, hs1⟩ :=
      CursorCacheRemove_spec NASKE sz fuel h cc (cursor :: adds) (RingGetTail cc.cursors_lru)
        hinv htail (by omega) (by omega)
    have hring2 : cc1.cursors_lru = cc.cursors_lru.dropLast := by
      rw [hring1]; exact erase_getLastD _ hndring hne
    have hlen1 : cc1.cursors_lru.length + 1 = SIZE := by
      rw [hring2, List.length_dropLast]; omega
    have hne_tp : RingGetTail cc.cursors_lru ≠ cursor := fun e => hnotin (e ▸ htail)
    rw [if_pos (hinv.count.trans hfull), if_neg ht0, hrem, if_pos hfull]
    refine ⟨(curInsert NASKE sz (RELEASE_RES h (RingGetTail cc.cursors_lru - sz)) cc1 cursor).2,
      rfl, curInsert_inv NASKE sz _ cc1 adds cursor hinv1 (by omega), ?_, ?_, ?_, ?_, ?_⟩
    · rw [if_pos hfull, ← hring2]; rfl
    · intro a
      rw [← hu1 a]
      by_cases ha : a = cursor
      · subst ha; simp [curInsert]
      · simp [curInsert, ha]
    · intro a
      rw [← hs1 a]
      by_cases ha : a = cursor
      · subst ha; simp [curInsert]
      · simp [curInsert, ha]
    · show (cursor :: cc1.cursors_lru).length ≤ SIZE
      simp only [List.length_cons]; omega
    · intro _
      refine ⟨htail, ?_⟩
      show RingGetTail cc.cursors_lru ∉ cursor :: cc1.cursors_lru
      rw [hring1]
      intro hin
      rcases List.mem_cons.mp hin with e | hin2
      · exact hne_tp e
      · exact (hndring.mem_erase_iff.mp hin2).1 rfl
  · rw [if_neg (fun e => hfull (hinv.count.symm.trans e)), if_neg hfull]
    refine ⟨(curInsert NASKE sz h cc cursor).2, rfl,
      curInsert_inv NASKE sz h cc adds cursor hinv (by omega), ?_, ?_, ?_, ?_, ?_⟩
    · rw [if_neg hfull]; rfl
    · intro a
      by_cases ha : a = cursor
      · subst ha; simp [curInsert]
      · simp [curInsert, ha]
    · intro a
      by_cases ha : a = cursor
      · subst ha; simp [curInsert]
      · simp [curInsert, ha]
    · show (cursor :: cc.cursors_lru).length ≤ SIZE
      simp only [List.length_cons]; omega
    · intro hc; exact absurd hc hfull


theorem CursorCacheGet_walk_spec (NASKE sz rfuel hsurf unique : Nat) (l : List Nat) :
    ∀ (fuel : Nat) (h : ResHeap) (cc : CursorCache) (internal : CursorLink),
      CurChain cc.cursors (cc.readLink internal) l → l.length < fuel →
      CursorCacheGet.walk NASKE sz rfuel hsurf unique fuel h cc internal =
        match l.find? (fun p => decide ((cc.cursors p).hsurf = hsurf)) with
        | none => some (0, h, cc)
        | some p =>
          if (cc.cursors p).unique = unique then some (p, h, curHit cc p)
          else
            match CursorCacheRemove NASKE sz rfuel h cc p with
            | none => none
            | some (h1, cc1) => some (0, h1, cc1) := by
  induction l with
  | nil =>
    intro fuel h cc internal hc hf
    obtain ⟨f, rfl⟩ : ∃ f, fuel = f + 1 := ⟨fuel - 1, by simp at hf; omega⟩
    simp only [CurChain] at hc
    simp [CursorCacheGet.walk, hc]
  | cons c rest ih =>
    intro fuel h cc internal hc hf
    obtain ⟨f, rfl⟩ : ∃ f, fuel = f + 1 := ⟨fuel - 1, by simp at hf; omega⟩
    obtain ⟨e, hc0, hrest⟩ := hc
    unfold CursorCacheGet.walk
    rw [e, if_neg hc0]
    by_cases hu : (cc.cursors c).hsurf = hsurf
    · rw [if_pos hu]
      have hfind : (c :: rest).find? (fun p => decide ((cc.cursors p).hsurf = hsurf)) =
          some c := by
        simp [List.find?_cons, hu]
      rw [hfind]
    · rw [if_neg hu]
      have hfind : (c :: rest).find? (fun p => decide ((cc.cursors p).hsurf = hsurf)) =
          rest.find? (fun p => decide ((cc.cursors p).hsurf = hsurf)) := by
        simp [List.find?_cons, hu]
      rw [hfind]
      exact ih f h cc (CursorLink.next c) hrest (by simp at hf; omega)

theorem curHit_inv (NASKE : Nat) (cc : CursorCache) (adds : List Nat) (p : Nat)
    (hinv : CurInv NASKE cc adds) (hp : p ∈ cc.cursors_lru) :
    CurInv NASKE (curHit cc p) adds := by
  have hperm : List.Perm (curHit cc p).cursors_lru cc.cursors_lru :=
    (List.perm_cons_erase hp).symm
  have hperm2 : List.Perm ((curHit cc p).cursors_lru ++ adds) (cc.cursors_lru ++ adds) :=
    hperm.append_right adds
  refine ⟨?_, ?_, ?_, ?_, ?_⟩
  · intro q hq
    exact hinv.wf q (hperm2.mem_iff.mp hq)
  · exact hperm2.nodup_iff.mpr hinv.nodup
  · intro q hq r hr
    exact hinv.inj q (hperm2.mem_iff.mp hq) r (hperm2.mem_iff.mp hr)
  · obtain ⟨cl, hcl⟩ := hinv.chains
    refine ⟨cl, fun b => ⟨(hcl b).1, (hcl b).2.1, ?_⟩⟩
    intro q
    rw [hperm.mem_iff]
    exact (hcl b).2.2 q
  · rw [show (curHit cc p).num_cursors = cc.num_cursors from rfl, hinv.count]
    exact hperm.length_eq.symm

/-- `CursorCacheGet` on a consistent cache, in terms of the ring: the cached
cursor of the surface, if any, is returned and moved to the head of the ring
when its `unique` is the wanted one, and removed from the cache otherwise. -/
theorem CursorCacheGet_spec (NASKE sz fuel : Nat) (h : ResHeap) (cc : CursorCache)
    (adds : List Nat) (hsurf unique : Nat) (hinv : CurInv NASKE cc adds)
    (hfuel : cc.cursors_lru.length < fuel) (hu0 : unique ≠ 0) :
    CursorCacheGet NASKE sz fuel h cc hsurf unique =
      match cc.cursors_lru.find? (fun p => decide ((cc.cursors p).hsurf = hsurf)) with
      | none => some (0, h, cc)
      | some p =>
        if (cc.cursors p).unique = unique then some (p, h, curHit cc p)
        else
          match CursorCacheRemove NASKE sz fuel h cc p with
          | none => none
          | some (h1, cc1) => some (0, h1, cc1) := by
  unfold CursorCacheGet
  rw [if_neg hu0]
  obtain ⟨cl, hcl⟩ := hinv.chains
  have hlen := CurInv_chain_length NASKE cc cl hcl (CURSOR_HASH_VAL NASKE hsurf)
  rw [CursorCacheGet_walk_spec NASKE sz fuel hsurf unique _ fuel h cc _
    (by exact (hcl (CURSOR_HASH_VAL NASKE hsurf)).1) (by omega)]
  rw [find_agree (fun p => decide ((cc.cursors p).hsurf = hsurf)) _ cc.cursors_lru]
  · intro x hx
    have hx1 : (cc.cursors x).hsurf = hsurf := by simpa using hx
    rw [(hcl _).2.2 x, hx1]
    simp
  · intro x y hx hy hxm hym
    have hx1 : (cc.cursors x).hsurf = hsurf := by simpa using hx
    have hy1 : (cc.cursors y).hsurf = hsurf := by simpa using hy
    exact hinv.inj x (List.mem_append_left _ (((hcl _).2.2 x).mp hxm).1) y
      (List.mem_append_left _ (((hcl _).2.2 y).mp hym).1) (hx1.trans hy1.symm)


theorem runCurOps_spec (NASKE SIZE sz fuel : Nat) (hS1 : 1 ≤ SIZE) (hS2 : SIZE < UINT32_MOD)
    (hfuel : SIZE < fuel) (ops : List CurOp) :
    ∀ (h : ResHeap) (cc : CursorCache), CurInv NASKE cc (addedCursors ops) →
      cc.cursors_lru.length ≤ SIZE →
      ∃ h1 cc1, runCurOps NASKE SIZE sz fuel h cc ops = some (h1, cc1) ∧
        cc1.cursors_lru =
          curModel SIZE (fun p => (cc.cursors p).hsurf) (fun p => (cc.cursors p).unique)
            cc.cursors_lru ops ∧
        cc1.num_cursors = cc1.cursors_lru.length ∧
        cc1.cursors_lru.length ≤ SIZE ∧
        (∀ a, (cc1.cursors a).unique = (cc.cursors a).unique) ∧
        (∀ a, (cc1.cursors a).hsurf = (cc.cursors a).hsurf) ∧
        CurInv NASKE cc1 [] := by
  induction ops with
  | nil =>
    intro h cc hinv hlen
    exact ⟨h, cc, rfl, rfl, hinv.count, hlen, fun _ => rfl, fun _ => rfl, hinv⟩
  | cons op rest ih =>
    intro h cc hinv hlen
    cases op with
    | get hsurf unique =>
      by_cases h0 : unique = 0
      · obtain ⟨h1, cc1, e1, e2, e3, e4, e5, e6, e7⟩ := ih h cc hinv hlen
        refine ⟨h1, cc1, ?_, ?_, e3, e4, e5, e6, e7⟩
        · simp only [runCurOps, runCurOp, CursorCacheGet, if_pos h0]
          exact e1
        · rw [e2]
          simp [curModel, curStep, h0]
      · have hget := CursorCacheGet_spec NASKE sz fuel h cc (addedCursors rest) hsurf unique
          hinv (by omega) h0
        cases hf : cc.cursors_lru.find? (fun p => decide ((cc.cursors p).hsurf = hsurf)) with
        | none =>
          rw [hf] at hget
          obtain ⟨h1, cc1, e1, e2, e3, e4, e5, e6, e7⟩ := ih h cc hinv hlen
          refine ⟨h1, cc1, ?_, ?_, e3, e4, e5, e6, e7⟩
          · simp only [runCurOps, runCurOp, hget]
            exact e1
          · rw [e2]
            simp only [curModel, List.foldl_cons, curStep, if_neg h0, hf]
        | some p =>
          rw [hf] at hget
          have hp : p ∈ cc.cursors_lru := List.mem_of_find?_eq_some hf
          by_cases hun : (cc.cursors p).unique = unique
          · simp only [if_pos hun] at hget
            have hinv1 := curHit_inv NASKE cc (addedCursors rest) p hinv hp
            have hlen1 : (curHit cc p).cursors_lru.length ≤ SIZE := by
              have hpl := ((List.perm_cons_erase hp).symm : List.Perm (curHit cc p).cursors_lru
                cc.cursors_lru).length_eq
              exact hpl ▸ hlen
            obtain ⟨h1, cc1, e1, e2, e3, e4, e5, e6, e7⟩ := ih h (curHit cc p) hinv1 hlen1
            refine ⟨h1, cc1, ?_, ?_, e3, e4, e5, e6, e7⟩
            · simp only [runCurOps, runCurOp, hget]
              exact e1
            · rw [e2]
              simp only [curModel, List.foldl_cons, curStep, if_neg h0, hf, if_pos hun]
              rfl
          · simp only [if_neg hun] at hget
            obtain ⟨cc1, r1, r2, r3, r4, r5⟩ := CursorCacheRemove_spec NASKE sz fuel h cc
              (addedCursors rest) p hinv hp (by omega) (by omega)
            rw [r1] at hget
            have hlen1 : cc1.cursors_lru.length ≤ SIZE := by
              rw [r3]
              exact Nat.le_trans (List.length_erase_le _ _) hlen
            have hfun1 : (fun q => (cc1.cursors q).hsurf) = (fun q => (cc.cursors q).hsurf) := by
              funext q; exact r5 q
            have hfun2 : (fun q => (cc1.cursors q).unique) =
                (fun q => (cc.cursors q).unique) := by
              funext q; exact r4 q
            obtain ⟨h2, cc2, e1, e2, e3, e4, e5, e6, e7⟩ := ih _ cc1 r2 hlen1
            refine ⟨h2, cc2, ?_, ?_, e3, e4, ?_, ?_, e7⟩
            · simp only [runCurOps, runCurOp, hget]
              exact e1
            · rw [e2, hfun1, hfun2, r3]
              simp only [curModel, List.foldl_cons, curStep, if_neg h0, hf, if_neg hun]
            · intro a; rw [e5 a]; exact r4 a
            · intro a; rw [e6 a]; exact r5 a
    | add cursor =>
      obtain ⟨cc1, a1, a2, a3, a4, a5, a6, _⟩ := CursorCacheAdd_spec NASKE SIZE sz fuel h cc
        (addedCursors rest) cursor hinv hS1 hS2 hlen hfuel
      have hfun1 : (fun q => (cc1.cursors q).hsurf) = (fun q => (cc.cursors q).hsurf) := by
        funext q; exact a5 q
      have hfun2 : (fun q => (cc1.cursors q).unique) = (fun q => (cc.cursors q).unique) := by
        funext q; exact a4 q
      obtain ⟨h2, cc2, e1, e2, e3, e4, e5, e6, e7⟩ := ih _ cc1 a2 a6
      refine ⟨h2, cc2, ?_, ?_, e3, e4, ?_, ?_, e7⟩
      · simp only [runCurOps, runCurOp, a1]
        exact e1
      · rw [e2, hfun1, hfun2, a3]
        simp only [curModel, List.foldl_cons, curStep]
      · intro a; rw [e5 a]; exact a4 a
      · intro a; rw [e6 a]; exact a5 a

theorem exampleCurCache_inv : CurInv 7 exampleCurCache [8208, 8464, 8720] := by
  refine ⟨by decide, by decide, by decide, ⟨fun _ => [], fun b => ?_⟩, rfl⟩
  refine ⟨rfl, List.nodup_nil, fun p => ?_⟩
  simp [exampleCurCache]

/-- C11. Cursor cache LRU, for a cache of capacity `SIZE` (1 <= SIZE < 2^32)
that is consistent (`CurInv`) and within capacity. (1) `CursorCacheGet` for
the `hsurf` and the (non-zero) `unique` of a cached cursor returns that
cursor and moves it to the head of `cursors_lru`. (2) `CursorCacheAdd` of a
new cursor when `num_cursors = SIZE` evicts the tail of the ring (it leaves
the ring and, the cache staying consistent, its bucket; `RELEASE_RES` on its
resource; the count drops) and then puts the new cursor at the head with
`GET_RES` on its resource, so that the count is `SIZE` again. (3) Every
sequence of gets and adds of new cursors for distinct surfaces runs to the
end, the ring is the recency list of the policy (`curModel`, in which the
entry evicted by an add is the last, least recently touched one), and
`num_cursors` is the length of the ring and at most `SIZE`. -/
theorem C11_cursor_cache_lru (NASKE SIZE sz fuel : Nat) (h : ResHeap) (cc : CursorCache)
    (hS1 : 1 ≤ SIZE) (hS2 : SIZE < 4294967296) (hfuel : SIZE < fuel)
    (hlen : cc.cursors_lru.length ≤ SIZE) :
    (∀ adds p, CurInv NASKE cc adds → p ∈ cc.cursors_lru →
      CursorCacheGet NASKE sz fuel h cc (cc.cursors p).hsurf (cc.cursors p).unique =
        some (p, h, curHit cc p) ∧
      (curHit cc p).cursors_lru = p :: cc.cursors_lru.erase p ∧
      CurInv NASKE (curHit cc p) adds) ∧
    (∀ adds cursor, CurInv NASKE cc (cursor :: adds) → cc.num_cursors = SIZE →
      ∃ cc1, CursorCacheAdd NASKE SIZE sz fuel h cc cursor =
          some (GET_RES (RELEASE_RES h (RingGetTail cc.cursors_lru - sz)) (cursor - sz), cc1) ∧
        cc1.cursors_lru = cursor :: cc.cursors_lru.dropLast ∧
        RingGetTail cc.cursors_lru ∈ cc.cursors_lru ∧
        RingGetTail cc.cursors_lru ∉ cc1.cursors_lru ∧
        cc1.num_cursors = SIZE ∧
        CurInv NASKE cc1 adds) ∧
    (∀ ops, CurInv NASKE cc (addedCursors ops) →
      ∃ h1 cc1, runCurOps NASKE SIZE sz fuel h cc ops = some (h1, cc1) ∧
        cc1.cursors_lru =
          curModel SIZE (fun p => (cc.cursors p).hsurf) (fun p => (cc.cursors p).unique)
            cc.cursors_lru ops ∧
        cc1.num_cursors = cc1.cursors_lru.length ∧
        cc1.cursors_lru.length ≤ SIZE ∧
        CurInv NASKE cc1 []) := by
  refine ⟨?_, ?_, ?_⟩
  · intro adds p hinv hp
    have hwf := hinv.wf p (List.mem_append_left _ hp)
    have hget := CursorCacheGet_spec NASKE sz fuel h cc adds (cc.cursors p).hsurf
      (cc.cursors p).unique hinv (by omega) hwf.2
    have hfind : cc.cursors_lru.find?
        (fun q => decide ((cc.cursors q).hsurf = (cc.cursors p).hsurf)) = some p := by
      cases hf : cc.cursors_lru.find?
          (fun q => decide ((cc.cursors q).hsurf = (cc.cursors p).hsurf)) with
      | none =>
        rw [List.find?_eq_none] at hf
        exact absurd (by simp) (hf p hp)
      | some q =>
        have hq : q ∈ cc.cursors_lru := List.mem_of_find?_eq_some hf
        have hpq : (cc.cursors q).hsurf = (cc.cursors p).hsurf := by
          simpa using List.find?_some hf
        rw [hinv.inj q (List.mem_append_left _ hq) p (List.mem_append_left _ hp) hpq]
    rw [hfind] at hget
    simp only [if_true] at hget
    exact ⟨hget, rfl, curHit_inv NASKE cc adds p hinv hp⟩
  · intro adds cursor hinv hnum
    have hfull : cc.cursors_lru.length = SIZE := hinv.count.symm.trans hnum
    obtain ⟨cc1, a1, a2, a3, _, _, _, a7⟩ := CursorCacheAdd_spec NASKE SIZE sz fuel h cc adds
      cursor hinv hS1 hS2 hlen hfuel
    rw [if_pos hfull] at a1 a3
    obtain ⟨b1, b2⟩ := a7 hfull
    refine ⟨cc1, a1, a3, b1, b2, ?_, a2⟩
    rw [a2.count, a3, List.length_cons, List.length_dropLast]
    omega
  · intro ops hinv
    obtain ⟨h1, cc1, e1, e2, e3, e4, _, _, e7⟩ := runCurOps_spec NASKE SIZE sz fuel hS1 hS2
      hfuel ops h cc hinv hlen
    exact ⟨h1, cc1, e1, e2, e3, e4, e7⟩

/-- Witness for C11 with capacity 2: adding the cursors 8208 and 8464,
looking up surface 16 and adding 8720 leaves the ring `[8720, 8208]`: the
lookup saved 8208 from eviction and 8464 was evicted instead. -/
theorem C11_cursor_cache_lru_witness :
    ∃ h1 cc1, runCurOps 7 2 16 3 arenaHeap exampleCurCache
        [CurOp.add 8208, CurOp.add 8464, CurOp.get 16 1, CurOp.add 8720] = some (h1, cc1) ∧
      cc1.cursors_lru = [8720, 8208] ∧
      cc1.num_cursors = cc1.cursors_lru.length ∧
      cc1.cursors_lru.length ≤ 2 := by
  obtain ⟨h1, cc1, e1, e2, e3, e4, _⟩ :=
    (C11_cursor_cache_lru 7 2 16 3 arenaHeap exampleCurCache (by decide) (by decide) (by decide)
      (by decide)).2.2 [CurOp.add 8208, CurOp.add 8464, CurOp.get 16 1, CurOp.add 8720]
      exampleCurCache_inv
  exact ⟨h1, cc1, e1, e2.trans (by decide), e3, e4⟩


/-! ### Arena allocation -/

theorem ReleaseOutput_arena (h h1 : ResHeap) (outs : Outputs) (output_id next : Nat)
    (he : ReleaseOutput h outs output_id = some (next, h1)) :
    h1.mspace = h.mspace ∧ h1.mspace_start = h.mspace_start ∧ h1.mspace_end = h.mspace_end := by
  unfold ReleaseOutput at he
  split at he
  · cases he
  · simp only [] at he
    cases hf : FreeMem (ReleaseOutput.loop (outs output_id).resources (outs output_id).num_res 0 h)
        output_id with
    | none => rw [hf] at he; cases he
    | some h2 =>
      rw [hf] at he
      simp only [Option.some.injEq, Prod.mk.injEq] at he
      obtain ⟨a, b, c, _⟩ := FreeMem_arena _ h2 output_id hf
      rw [ReleaseOutput_loop_eq] at a b c
      obtain ⟨_, a1, b1, c1⟩ := foldl_RELEASE_RES_arena
        ((List.range (outs output_id).num_res).map
          (fun i => (outs output_id).resources (0 + i))) h
      rw [← he.2]
      exact ⟨a.trans a1, b.trans b1, c.trans c1⟩

theorem AllocMem_reclaim_arena (dev : AllocDev) (st st1 : AllocState)
    (he : AllocMem.reclaim dev st = some st1) :
    st1.heap.mspace = st.heap.mspace ∧ st1.heap.mspace_start = st.heap.mspace_start ∧
    st1.heap.mspace_end = st.heap.mspace_end ∧ st1.ncalls = st.ncalls := by
  unfold AllocMem.reclaim at he
  split at he
  · cases hr : ReleaseOutput st.heap st.outputs st.free_outputs with
    | none => rw [hr] at he; cases he
    | some r =>
      obtain ⟨next, h⟩ := r
      rw [hr] at he
      simp only [Option.some.injEq] at he
      obtain ⟨a, b, c⟩ := ReleaseOutput_arena _ _ _ _ _ hr
      rw [← he]
      exact ⟨a, b, c, rfl⟩
  · simp only [Option.some.injEq] at he
    rw [← he]
    exact ⟨rfl, rfl, rfl, rfl⟩

theorem AllocMem_loop_safe (dev : AllocDev) :
    ∀ (fuel : Nat) (st : AllocState) (ptr : Nat) (st1 : AllocState),
      AllocMem.loop dev fuel st = some (ptr, st1) →
      ptr ≠ 0 ∧ st.heap.mspace_start ≤ ptr ∧ ptr < st.heap.mspace_end ∧
      st1.heap.mspace = st.heap.mspace ∧ st1.heap.mspace_start = st.heap.mspace_start ∧
      st1.heap.mspace_end = st.heap.mspace_end ∧
      dev.mspace_malloc (st1.ncalls - 1) = ptr := by
  intro fuel
  induction fuel with
  | zero => intro st ptr st1 he; simp [AllocMem.loop] at he
  | succ fuel ih =>
    intro st ptr st1 he
    unfold AllocMem.loop at he
    split at he
    · rename_i hne
      split at he
      · rename_i har
        simp only [Option.some.injEq, Prod.mk.injEq] at he
        rw [← he.1, ← he.2]
        exact ⟨hne, har.1, har.2, rfl, rfl, rfl, by simp⟩
      · cases he
    · cases hr : AllocMem.reclaim dev { st with ncalls := st.ncalls + 1 } with
      | none => rw [hr] at he; cases he
      | some st2 =>
        rw [hr] at he
        obtain ⟨a, b, c, _⟩ := AllocMem_reclaim_arena dev _ st2 hr
        obtain ⟨i1, i2, i3, i4, i5, i6, i7⟩ := ih st2 ptr st1 he
        exact ⟨i1, b ▸ i2, c ▸ i3, i4.trans a, i5.trans b, i6.trans c, i7⟩

theorem AllocMem_loop_fail (dev : AllocDev) (fuel : Nat) (st : AllocState)
    (h0 : dev.mspace_malloc st.ncalls = 0) :
    AllocMem.loop dev (fuel + 1) st =
      match AllocMem.reclaim dev { st with ncalls := st.ncalls + 1 } with
      | none => none
      | some st1 => AllocMem.loop dev fuel st1 := by
  conv_lhs => unfold AllocMem.loop
  rw [if_neg (by rw [h0]; simp)]

theorem AllocMem_loop_ok (dev : AllocDev) (fuel : Nat) (st : AllocState)
    (hok : dev.mspace_malloc st.ncalls ≠ 0)
    (har : st.heap.mspace_start ≤ dev.mspace_malloc st.ncalls ∧
      dev.mspace_malloc st.ncalls < st.heap.mspace_end) :
    AllocMem.loop dev (fuel + 1) st =
      some (dev.mspace_malloc st.ncalls, { st with ncalls := st.ncalls + 1 }) := by
  conv_lhs => unfold AllocMem.loop
  rw [if_pos hok, if_pos har]

theorem AllocMem_reclaims_spec (dev : AllocDev) :
    ∀ (k : Nat) (st stk : AllocState), AllocMem.reclaims dev k st = some stk →
      (∀ j, j < k → dev.mspace_malloc (st.ncalls + j) = 0) →
      stk.ncalls = st.ncalls + k ∧
      ∀ fuel, AllocMem.loop dev (k + fuel) st = AllocMem.loop dev fuel stk := by
  intro k
  induction k with
  | zero =>
    intro st stk he _
    simp only [AllocMem.reclaims, Option.some.injEq] at he
    subst he
    exact ⟨rfl, fun fuel => by rw [Nat.zero_add]⟩
  | succ k ih =>
    intro st stk he hfail
    unfold AllocMem.reclaims at he
    cases hr : AllocMem.reclaim dev { st with ncalls := st.ncalls + 1 } with
    | none => rw [hr] at he; cases he
    | some st2 =>
      rw [hr] at he
      have hn := (AllocMem_reclaim_arena dev _ st2 hr).2.2.2
      have hn2 : st2.ncalls = st.ncalls + 1 := hn
      obtain ⟨e1, e2⟩ := ih st2 stk he (fun j hj => by
        rw [hn2, show st.ncalls + 1 + j = st.ncalls + (j + 1) by omega]
        exact hfail (j + 1) (by omega))
      refine ⟨by rw [e1, hn2]; omega, ?_⟩
      intro fuel
      rw [show k + 1 + fuel = (k + fuel) + 1 by omega]
      have h0 : dev.mspace_malloc st.ncalls = 0 := by simpa using hfail 0 (Nat.succ_pos k)
      rw [AllocMem_loop_fail dev (k + fuel) st h0, hr]
      exact e2 fuel

theorem AllocMem_reclaims_arena_aux (dev : AllocDev) :
    ∀ (k : Nat) (st stk : AllocState), AllocMem.reclaims dev k st = some stk →
      stk.heap.mspace_start = st.heap.mspace_start ∧
      stk.heap.mspace_end = st.heap.mspace_end := by
  intro k
  induction k with
  | zero =>
    intro st stk he
    simp only [AllocMem.reclaims, Option.some.injEq] at he
    subst he
    exact ⟨rfl, rfl⟩
  | succ k ih =>
    intro st stk he
    unfold AllocMem.reclaims at he
    cases hr : AllocMem.reclaim dev { st with ncalls := st.ncalls + 1 } with
    | none => rw [hr] at he; cases he
    | some st2 =>
      rw [hr] at he
      obtain ⟨_, b, c, _⟩ := AllocMem_reclaim_arena dev _ st2 hr
      obtain ⟨i1, i2⟩ := ih st2 stk he
      exact ⟨i1.trans b, i2.trans c⟩

/-- C7. `AllocMem` never surfaces a failed `mspace_malloc`. (1) Whenever it
returns, the pointer is non-null, lies in `[mspace_start, mspace_end)`, is
what the last call of `mspace_malloc` returned, and the arena bounds are as
before. (2) A failed `mspace_malloc` only leads to one pass through the body
of the loop (release the deferred envelope `free_outputs` if there is one,
otherwise take the next release-ring item as `free_outputs`) and another
attempt. (3) It does return: when `mspace_malloc` fails `k` times and then
delivers a block of the arena, and the `k` passes through the loop body meet
no failing assertion, the call returns that block for every fuel above `k`. -/
theorem C7_AllocMem_never_returns_null (dev : AllocDev) (st : AllocState) :
    (∀ fuel ptr st1, AllocMem dev fuel st = some (ptr, st1) →
      ptr ≠ 0 ∧ st.heap.mspace_start ≤ ptr ∧ ptr < st.heap.mspace_end ∧
      st1.heap.mspace_start = st.heap.mspace_start ∧
      st1.heap.mspace_end = st.heap.mspace_end ∧
      dev.mspace_malloc (st1.ncalls - 1) = ptr) ∧
    (∀ fuel, st.heap.mspace ≠ 0 → dev.mspace_malloc st.ncalls = 0 →
      AllocMem dev (fuel + 1) st =
        match AllocMem.reclaim dev { st with ncalls := st.ncalls + 1 } with
        | none => none
        | some st1 => AllocMem.loop dev fuel st1) ∧
    (∀ k stk, st.heap.mspace ≠ 0 → AllocMem.reclaims dev k st = some stk →
      (∀ j, j < k → dev.mspace_malloc (st.ncalls + j) = 0) →
      dev.mspace_malloc (st.ncalls + k) ≠ 0 →
      st.heap.mspace_start ≤ dev.mspace_malloc (st.ncalls + k) →
      dev.mspace_malloc (st.ncalls + k) < st.heap.mspace_end →
      ∀ fuel, k < fuel →
        AllocMem dev fuel st =
          some (dev.mspace_malloc (st.ncalls + k), { stk with ncalls := stk.ncalls + 1 })) := by
  refine ⟨?_, ?_, ?_⟩
  · intro fuel ptr st1 he
    unfold AllocMem at he
    split at he
    · cases he
    · obtain ⟨a, b, c, _, e, f, g⟩ := AllocMem_loop_safe dev fuel st ptr st1 he
      exact ⟨a, b, c, e, f, g⟩
  · intro fuel hms h0
    unfold AllocMem
    rw [if_neg hms]
    exact AllocMem_loop_fail dev fuel st h0
  · intro k stk hms hrec hfail hok hlo hhi fuel hfuel
    obtain ⟨e1, e2⟩ := AllocMem_reclaims_spec dev k st stk hrec hfail
    obtain ⟨f, rfl⟩ : ∃ f, fuel = k + (f + 1) := ⟨fuel - k - 1, by omega⟩
    unfold AllocMem
    rw [if_neg hms, e2 (f + 1)]
    have harena : stk.heap.mspace_start = st.heap.mspace_start ∧
        stk.heap.mspace_end = st.heap.mspace_end := AllocMem_reclaims_arena_aux dev k st stk hrec
    rw [AllocMem_loop_ok dev f stk (by rw [e1]; exact hok)
      (by rw [e1, harena.1, harena.2]; exact ⟨hlo, hhi⟩), e1]

theorem C7_AllocMem_never_returns_null_witness :
    (AllocMem exampleDev 3 exampleAllocState).map
      (fun r => (r.1, r.2.ncalls, r.2.free_outputs, r.2.npops)) = some (1024, 3, 258, 1) := by
  have hsome : (AllocMem.reclaims exampleDev 2 exampleAllocState).isSome = true := by rfl
  have h := (C7_AllocMem_never_returns_null exampleDev exampleAllocState).2.2 2
    ((AllocMem.reclaims exampleDev 2 exampleAllocState).get hsome)
    (by decide) (Option.some_get hsome).symm
    (by intro j hj; interval_cases j <;> rfl) (by decide) (by decide) (by decide) 3 (by decide)
  rw [h]
  rfl


/-! ### Bitmaps -/

/-- C6. When `surf->iType` is not `STYPE_BITMAP`, or the area is not inside
the surface (`left < 0`, `right > cx`, `top < 0` or `bottom > cy`),
`QXLGetBitmap` returns `FALSE` (for every fuel) and the whole driver state is
what it was: nothing is allocated, no resource is attached, `*image_phys`,
`*area` and `*hash_key` are not written, and the key-lookup table, the image
cache and the ring are unchanged. The hypothesis is the function's opening
assertion `!hash_key || use_cache`. -/
theorem C6_QXLGetBitmap_early_false (env : Env) (fuel : Nat) (s : PDev)
    (drawable image_phys : Nat) (surf : SURFOBJ) (area : Rect) (color_trans : Option XLATEOBJ)
    (hash_key : Option Nat) (use_cache : Bool)
    (hassert : hash_key.isSome = true → use_cache = true)
    (hbad : surf.iType ≠ env.consts.STYPE_BITMAP ∨ area.left < 0 ∨ area.right > surf.cx ∨
      area.top < 0 ∨ area.bottom > surf.cy) :
    QXLGetBitmap env fuel s drawable image_phys surf area color_trans hash_key use_cache =
      some { ret := false, image_phys := image_phys, area := area, hash_key := hash_key,
             s := s } := by
  unfold QXLGetBitmap
  have h1 : ¬ (hash_key.isSome = true ∧ use_cache = false) := by
    rintro ⟨a, b⟩
    rw [hassert a] at b
    cases b
  rw [if_neg h1]
  by_cases ht : surf.iType ≠ env.consts.STYPE_BITMAP
  · rw [if_pos ht]
  · rw [if_neg ht]
    rcases hbad with h | h
    · exact absurd h ht
    · rw [if_pos h]

theorem C6_QXLGetBitmap_early_false_witness :
    QXLGetBitmap exampleEnv 0 examplePDev 600 7 exampleSurf
        { left := 1, top := 0, right := 3, bottom := 2 } none (some 9) true =
      some { ret := false, image_phys := 7, area := { left := 1, top := 0, right := 3, bottom := 2 },
             hash_key := some 9, s := examplePDev } :=
  C6_QXLGetBitmap_early_false exampleEnv 0 examplePDev 600 7 exampleSurf
    { left := 1, top := 0, right := 3, bottom := 2 } none (some 9) true (fun _ => rfl)
    (Or.inr (Or.inr (Or.inl (by decide))))


theorem cacheImageMatches_key (c : CacheImage) (key : Nat) :
    cacheImageMatches c key false 0 0 0 = decide (c.key = key) := by
  simp [cacheImageMatches]

theorem QXLGetBitmap_hit_spec (env : Env) (s : PDev) (drawable internal : Nat)
    (hk : (s.outputs (drawable - SIZEOF_QXLOutput)).num_res < MAX_OUTPUT_RES) :
    QXLGetBitmap.hit env s drawable internal =
      some (PA env.main_slot (internal + env.layout.off_image),
        { s with
          heap := s.heap.setRefs (internal - env.layout.sizeof_Resource)
            ((1 + (s.heap.mem (internal - env.layout.sizeof_Resource)).refs) % UINT32_MOD)
          outputs := fun a =>
            if a = drawable - SIZEOF_QXLOutput then
              { s.outputs (drawable - SIZEOF_QXLOutput) with
                resources := fun i =>
                  if i = (s.outputs (drawable - SIZEOF_QXLOutput)).num_res then
                    internal - env.layout.sizeof_Resource
                  else (s.outputs (drawable - SIZEOF_QXLOutput)).resources i
                num_res := (s.outputs (drawable - SIZEOF_QXLOutput)).num_res + 1 }
            else s.outputs a }) := by
  unfold QXLGetBitmap.hit DrawableAddRes
  rw [AddRes_some _ _ _ _ hk]

theorem QXLGetBitsFromCache_of_lookup (env : Env) (fuel : Nat) (s : PDev)
    (drawable hash_key image_phys c : Nat) (ic : ImageCache)
    (h : ImageCacheGetByKey.walk hash_key false 0 0 0 fuel s.icache
      (s.icache.image_cache (IMAGE_HASH_VAL env.IMAGE_HASH_MASK hash_key)) = some (c, ic)) :
    QXLGetBitsFromCache env fuel s drawable hash_key image_phys =
      if c ≠ 0 ∧ (ic.pool c).image ≠ 0 then
        match QXLGetBitmap.hit env { s with icache := ic } drawable (ic.pool c).image with
        | none => none
        | some (phys, s1) => some (true, phys, s1)
      else some (false, image_phys, { s with icache := ic }) := by
  unfold QXLGetBitsFromCache ImageCacheGetByKey
  rw [h]

/-- C9 as stated fails: in the example state the bucket chain of key 16 is
slot 3 (key 16, no image) followed by slot 5 (key 16, realized image at 4120);
the cache holds an entry with the key and a realized image, yet
`QXLGetBitsFromCache` returns `FALSE` and leaves `*image_phys` (7) alone,
because the walk stops at slot 3. -/
theorem C9_unrealized_first_match_hides_realized_entry :
    IsChain examplePDev.icache.pool
      (examplePDev.icache.image_cache (IMAGE_HASH_VAL exampleEnv.IMAGE_HASH_MASK 16)) [3, 5] ∧
    (examplePDev.icache.pool 3).key = 16 ∧ (examplePDev.icache.pool 3).image = 0 ∧
    (examplePDev.icache.pool 5).key = 16 ∧ (examplePDev.icache.pool 5).image = 4120 ∧
    (QXLGetBitsFromCache exampleEnv 5 examplePDev 600 16 7).map (fun r => (r.1, r.2.1)) =
      some (false, 7) := by
  refine ⟨by decide, by decide, by decide, by decide, by decide, by rfl⟩

/-- C9, amended. `QXLGetBitsFromCache(hash_key)` walks the bucket chain `l`
of `hash_key` and takes the first entry whose key equals `hash_key`, whatever
its format, width and height. When that entry has a realized image and the
envelope has room (`num_res < 6`), the call returns `TRUE`, stores the
physical address of the image in `*image_phys` and attaches the image's
Resource (the block `sizeof(Resource)` before the payload): `num_res + 1`, the
resource appended to the list, its `refs + 1` as a `UINT32`, no other header
changed. When no entry has the key, or the first one that has it holds no
image, the call returns `FALSE` and `*image_phys`, the envelopes and the heap
are unchanged. -/
theorem C9_QXLGetBitsFromCache_first_key_match (env : Env) (fuel : Nat) (s : PDev)
    (drawable hash_key image_phys : Nat) (l : List Nat)
    (hchain : IsChain s.icache.pool
      (s.icache.image_cache (IMAGE_HASH_VAL env.IMAGE_HASH_MASK hash_key)) l)
    (hfuel : l.length < fuel) :
    (∀ c, l.find? (fun q => decide ((s.icache.pool q).key = hash_key)) = some c →
      (s.icache.pool c).image ≠ 0 →
      (s.outputs (drawable - SIZEOF_QXLOutput)).num_res < MAX_OUTPUT_RES →
      ∃ s1, QXLGetBitsFromCache env fuel s drawable hash_key image_phys =
          some (true, PA env.main_slot ((s.icache.pool c).image + env.layout.off_image), s1) ∧
        (s1.outputs (drawable - SIZEOF_QXLOutput)).num_res =
          (s.outputs (drawable - SIZEOF_QXLOutput)).num_res + 1 ∧
        attached (s1.outputs (drawable - SIZEOF_QXLOutput))
            ((s.outputs (drawable - SIZEOF_QXLOutput)).num_res + 1) =
          attached (s.outputs (drawable - SIZEOF_QXLOutput))
            (s.outputs (drawable - SIZEOF_QXLOutput)).num_res ++
            [(s.icache.pool c).image - env.layout.sizeof_Resource] ∧
        (s1.heap.mem ((s.icache.pool c).image - env.layout.sizeof_Resource)).refs =
          (1 + (s.heap.mem ((s.icache.pool c).image - env.layout.sizeof_Resource)).refs)
            % UINT32_MOD ∧
        (∀ a, a ≠ (s.icache.pool c).image - env.layout.sizeof_Resource →
          s1.heap.mem a = s.heap.mem a)) ∧
    ((l.find? (fun q => decide ((s.icache.pool q).key = hash_key)) = none ∨
        ∃ c, l.find? (fun q => decide ((s.icache.pool q).key = hash_key)) = some c ∧
          (s.icache.pool c).image = 0) →
      ∃ s1, QXLGetBitsFromCache env fuel s drawable hash_key image_phys =
          some (false, image_phys, s1) ∧
        s1.heap = s.heap ∧ s1.outputs = s.outputs) := by
  have hw := ImageCacheGetByKey_walk_spec hash_key false 0 0 0 s.icache l fuel _ hchain hfuel
  have hpred : (fun q => cacheImageMatches (s.icache.pool q) hash_key false 0 0 0) =
      (fun q => decide ((s.icache.pool q).key = hash_key)) := by
    funext q
    exact cacheImageMatches_key _ _
  rw [hpred] at hw
  have hnz := IsChain_ne_zero s.icache.pool l _ hchain
  constructor
  · intro c hfind himg hroom
    rw [hfind] at hw
    have hc : c ≠ 0 := hnz c (List.mem_of_find?_eq_some hfind)
    have hpool : ((hitResult s.icache c).2.pool c).image = (s.icache.pool c).image := by
      simp [hitResult, ImageCache.setSlot]
    rw [QXLGetBitsFromCache_of_lookup env fuel s drawable hash_key image_phys c
      (hitResult s.icache c).2 hw, if_pos ⟨hc, by rw [hpool]; exact himg⟩, hpool,
      QXLGetBitmap_hit_spec env { s with icache := (hitResult s.icache c).2 } drawable _ hroom]
    refine ⟨_, rfl, ?_, ?_, ?_, ?_⟩
    · simp
    · simp only [if_true]
      exact attached_succ _ _ _
    · simp [ResHeap.setRefs]
    · intro a ha
      simp [ResHeap.setRefs, ha]
  · intro hcase
    rcases hcase with hnone | ⟨c, hfind, himg⟩
    · rw [hnone] at hw
      rw [QXLGetBitsFromCache_of_lookup env fuel s drawable hash_key image_phys 0 s.icache hw,
        if_neg (fun h => h.1 rfl)]
      exact ⟨_, rfl, rfl, rfl⟩
    · rw [hfind] at hw
      have hpool : ((hitResult s.icache c).2.pool c).image = (s.icache.pool c).image := by
        simp [hitResult, ImageCache.setSlot]
      rw [QXLGetBitsFromCache_of_lookup env fuel s drawable hash_key image_phys c
        (hitResult s.icache c).2 hw, if_neg (fun h => h.2 (by rw [hpool]; exact himg))]
      exact ⟨_, rfl, rfl, rfl⟩

theorem C9_QXLGetBitsFromCache_first_key_match_witness :
    (∃ s1, QXLGetBitsFromCache exampleEnv 2 realizedPDev 600 16 7 =
        some (true, PA exampleEnv.main_slot (4120 + exampleEnv.layout.off_image), s1) ∧
      (s1.outputs (600 - SIZEOF_QXLOutput)).num_res = 4) ∧
    (∃ s1, QXLGetBitsFromCache exampleEnv 3 examplePDev 600 16 7 = some (false, 7, s1) ∧
      s1.heap = examplePDev.heap ∧ s1.outputs = examplePDev.outputs) := by
  constructor
  · obtain ⟨s1, h1, h2, _⟩ :=
      (C9_QXLGetBitsFromCache_first_key_match exampleEnv 2 realizedPDev 600 16 7 [5]
        (by decide) (by decide)).1 5 (by decide) (by decide) (by decide)
    exact ⟨s1, h1, h2⟩
  · exact (C9_QXLGetBitsFromCache_first_key_match exampleEnv 3 examplePDev 600 16 7 [3, 5]
      (by decide) (by decide)).2 (Or.inr ⟨3, by decide, by decide⟩)


/-! ### Bitmap encoding leaves the image cache alone -/

theorem AllocMem_done_inv (env : Env) (s s1 : PDev) (r : Nat)
    (h : AllocMem.done env s = some (r, s1)) :
    r = env.alloc s.nalloc ∧ s1 = { s with nalloc := s.nalloc + 1 } := by
  unfold AllocMem.done at h
  split at h
  · simp only [Option.some.injEq, Prod.mk.injEq] at h
    exact ⟨h.1.symm, h.2.symm⟩
  · cases h

theorem quic_usr_more_space_frame (env : Env) (s s1 : PDev) (q q1 : QuicData) (rc : Int)
    (h : quic_usr_more_space env s q rc = some (s1, q1)) :
    s1.icache = s.icache ∧ s1.outputs = s.outputs ∧ s1.nalloc = s.nalloc + 1 := by
  unfold quic_usr_more_space at h
  split at h
  · cases h
  · cases ha : AllocMem.done env s with
    | none => simp only [ha] at h; cases h
    | some r =>
      obtain ⟨nc, s2⟩ := r
      obtain ⟨_, hs2⟩ := AllocMem_done_inv env s s2 nc ha
      simp only [ha, Option.some.injEq, Prod.mk.injEq] at h
      rw [← h.1, hs2]
      exact ⟨rfl, rfl, rfl⟩

theorem GetQuicImage_more_space_frame (env : Env) :
    ∀ (l : List Int) (s s1 : PDev) (q q1 : QuicData),
      GetQuicImage.more_space env l s q = some (s1, q1) →
      s1.icache = s.icache ∧ s1.outputs = s.outputs ∧ s.nalloc ≤ s1.nalloc := by
  intro l
  induction l with
  | nil =>
    intro s s1 q q1 h
    simp only [GetQuicImage.more_space, Option.some.injEq, Prod.mk.injEq] at h
    rw [← h.1]
    exact ⟨rfl, rfl, Nat.le_refl _⟩
  | cons rc rest ih =>
    intro s s1 q q1 h
    unfold GetQuicImage.more_space at h
    cases hm : quic_usr_more_space env s q rc with
    | none => simp only [hm] at h; cases h
    | some r =>
      obtain ⟨s2, q2⟩ := r
      simp only [hm] at h
      obtain ⟨a, b, c⟩ := quic_usr_more_space_frame env s s2 q q2 rc hm
      obtain ⟨a1, b1, c1⟩ := ih s2 s1 q2 q1 h
      exact ⟨a1.trans a, b1.trans b, by omega⟩

theorem GetQuicImage_frame (env : Env) (fuel : Nat) (s s1 : PDev) (surf : SURFOBJ)
    (cache_me : Bool) (width height : Int) (format : Nat) (src : Int) (line_size key r : Nat)
    (hq : env.compression_level = 0 ∨
      ∀ t w h p d n, (env.quic_encode t w h p d n).result ≠ none)
    (h : GetQuicImage env fuel s surf cache_me width height format src line_size key =
      some (r, s1)) :
    (r = 0 ∧ s1 = s) ∨
    (r = env.alloc s.nalloc ∧ s1.icache = s.icache ∧ s1.outputs = s.outputs ∧
      s.nalloc < s1.nalloc) := by
  unfold GetQuicImage at h
  split at h
  · simp only [Option.some.injEq, Prod.mk.injEq] at h
    exact Or.inl ⟨h.1.symm, h.2.symm⟩
  · rename_i hc
    have hres : ∀ t w h p d n, (env.quic_encode t w h p d n).result ≠ none := by
      rcases hq with h0 | h0
      · exact absurd h0 hc
      · exact h0
    split at h
    · simp only [Option.some.injEq, Prod.mk.injEq] at h
      exact Or.inl ⟨h.1.symm, h.2.symm⟩
    · right
      cases ha : AllocMem.done env s with
      | none => simp only [ha] at h; cases h
      | some p =>
        obtain ⟨image_res, s2⟩ := p
        obtain ⟨hr, hs2⟩ := AllocMem_done_inv env s s2 image_res ha
        simp only [ha] at h
        split at h
        · cases h
        · split at h
          · cases h
          · rename_i s3 q1 hms
            obtain ⟨a, b, c⟩ := GetQuicImage_more_space_frame env _ _ _ _ _ hms
            split at h
            · rename_i hnone
              exact absurd hnone (hres _ _ _ _ _ _)
            · simp only [Option.some.injEq, Prod.mk.injEq] at h
              rw [← h.1, ← h.2]
              refine ⟨hr, ?_, ?_, ?_⟩
              · show s3.icache = s.icache
                rw [a, hs2]
              · show s3.outputs = s.outputs
                rw [b, hs2]
              · show s.nalloc < s3.nalloc
                have : s2.nalloc = s.nalloc + 1 := by rw [hs2]
                have c1 : s2.nalloc ≤ s3.nalloc := c
                omega

theorem PutBytesAlign_loop_nalloc (p_slot : PMemSlot) (alloc : Nat → Nat)
    (alloc_size alignment : Nat) :
    ∀ (fuel : Nat) (st st1 : Encoder) (src : List Nat) (size : Nat),
      PutBytesAlign.loop p_slot alloc alloc_size alignment fuel st src size = some st1 →
      st.nalloc ≤ st1.nalloc := by
  intro fuel
  induction fuel with
  | zero =>
    intro st st1 src size h
    unfold PutBytesAlign.loop at h
    split at h
    · simp only [Option.some.injEq] at h
      rw [h]
    · cases h
  | succ fuel ih =>
    intro st st1 src size h
    unfold PutBytesAlign.loop at h
    split at h
    · simp only [Option.some.injEq] at h
      rw [h]
    · split at h
      · cases h
      · simp only [] at h
        split at h
        · split at h
          · cases h
          · split at h
            · cases h
            · have := ih _ _ _ _ h
              simp only [copyToChunk_fields, NEW_DATA_CHUNK_fields] at this
              omega
        · have := ih _ _ _ _ h
          simp only [copyToChunk_fields] at this
          exact this

theorem GetBitmapImage_rows_nalloc (env : Env) (fuel : Nat) (lDelta : Int) (line_size : Nat) :
    ∀ (rows : Nat) (src : Int) (alloc_size : Nat) (st st1 : Encoder),
      GetBitmapImage.rows env fuel lDelta line_size rows src alloc_size st = some st1 →
      st.nalloc ≤ st1.nalloc := by
  intro rows
  induction rows with
  | zero =>
    intro src alloc_size st st1 h
    simp only [GetBitmapImage.rows, Option.some.injEq] at h
    rw [h]
  | succ rows ih =>
    intro src alloc_size st st1 h
    unfold GetBitmapImage.rows at h
    split at h
    · cases h
    · rename_i st2 hp
      have h1 := PutBytesAlign_loop_nalloc _ _ _ _ _ _ _ _ _ hp
      have h2 := ih _ _ _ _ h
      omega

theorem GetPallette_frame (env : Env) (fuel : Nat) (s s1 : PDev) (internal : Nat)
    (color_trans : Option XLATEOBJ) (h : GetPallette env fuel s internal color_trans = some s1) :
    s1.icache = s.icache ∧ s1.outputs = s.outputs ∧ s.nalloc ≤ s1.nalloc := by
  unfold GetPallette at h
  simp only [] at h
  split at h
  · simp only [Option.some.injEq] at h
    rw [← h]
    exact ⟨rfl, rfl, Nat.le_refl _⟩
  · split at h
    · simp only [Option.some.injEq] at h
      rw [← h]
      exact ⟨rfl, rfl, Nat.le_refl _⟩
    · split at h
      · cases h
      · split at h
        · simp only [Option.some.injEq] at h
          rw [← h]
          exact ⟨rfl, rfl, Nat.le_refl _⟩
        · split at h
          · cases h
          · rename_i palette s2 ha
            obtain ⟨_, hs2⟩ := AllocMem_done_inv env _ s2 palette ha
            split at h
            · cases h
            · simp only [Option.some.injEq] at h
              rw [← h, hs2]
              exact ⟨rfl, rfl, Nat.le_succ _⟩

theorem GetBitmapImage_frame (env : Env) (fuel : Nat) (s s1 : PDev) (surf : SURFOBJ)
    (color_trans : Option XLATEOBJ) (cache_me : Bool) (width height : Int) (format : Nat)
    (src : Int) (line_size key r : Nat)
    (h : GetBitmapImage env fuel s surf color_trans cache_me width height format src line_size
      key = some (r, s1)) :
    r = env.alloc s.nalloc ∧ s1.icache = s.icache ∧ s1.outputs = s.outputs ∧
      s.nalloc < s1.nalloc := by
  unfold GetBitmapImage at h
  split at h
  · cases h
  · split at h
    · cases h
    · split at h
      · cases h
      · simp only [] at h
        split at h
        · cases h
        · rename_i image_res s2 ha
          obtain ⟨hr, hs2⟩ := AllocMem_done_inv env s s2 image_res ha
          split at h
          · cases h
          · rename_i st hrows
            have hn := GetBitmapImage_rows_nalloc _ _ _ _ _ _ _ _ _ hrows
            split at h
            · cases h
            · rename_i s3 hp
              obtain ⟨a, b, c⟩ := GetPallette_frame _ _ _ _ _ _ hp
              simp only [Option.some.injEq, Prod.mk.injEq] at h
              rw [← h.1, ← h.2]
              refine ⟨hr, ?_, ?_, ?_⟩
              · rw [a, hs2]
                rfl
              · rw [b, hs2]
                rfl
              · have : s2.nalloc = s.nalloc + 1 := by rw [hs2]
                have hn1 : s2.nalloc ≤ st.nalloc := hn
                have c1 : st.nalloc ≤ s3.nalloc := c
                omega

theorem QXLGetBitmap_bind_spec (env : Env) (s s1 : PDev) (drawable cache_image image_res phys : Nat)
    (h : QXLGetBitmap.bind env s drawable cache_image image_res = some (phys, s1)) :
    phys = PA env.main_slot (image_res + env.layout.sizeof_Resource + env.layout.off_image) ∧
    s1.nalloc = s.nalloc ∧
    s1.icache = imageCacheBind s.icache cache_image (image_res + env.layout.sizeof_Resource) ∧
    (s.outputs (drawable - SIZEOF_QXLOutput)).num_res < MAX_OUTPUT_RES ∧
    s1.outputs = (fun a =>
      if a = drawable - SIZEOF_QXLOutput then
        { s.outputs (drawable - SIZEOF_QXLOutput) with
          resources := fun i =>
            if i = (s.outputs (drawable - SIZEOF_QXLOutput)).num_res then image_res
            else (s.outputs (drawable - SIZEOF_QXLOutput)).resources i
          num_res := (s.outputs (drawable - SIZEOF_QXLOutput)).num_res + 1 }
      else s.outputs a) := by
  unfold QXLGetBitmap.bind DrawableAddRes at h
  simp only [] at h
  by_cases hk : (s.outputs (drawable - SIZEOF_QXLOutput)).num_res < MAX_OUTPUT_RES
  · rw [AddRes_some _ _ _ _ hk] at h
    simp only [Option.some.injEq, Prod.mk.injEq] at h
    rw [← h.1, ← h.2]
    exact ⟨rfl, rfl, rfl, hk, rfl⟩
  · rw [AddRes_none _ _ _ _ (Nat.not_lt.mp hk)] at h
    cases h

theorem QXLGetBitmap_encode_spec (env : Env) (fuel : Nat) (s s1 : PDev) (drawable : Nat)
    (surf : SURFOBJ) (color_trans : Option XLATEOBJ) (cache_image : Nat) (width height : Int)
    (format : Nat) (src : Int) (line_size key phys : Nat)
    (hq : env.compression_level = 0 ∨
      ∀ t w h p d n, (env.quic_encode t w h p d n).result ≠ none)
    (halloc : ∀ k, env.alloc k ≠ 0)
    (h : QXLGetBitmap.encode env fuel s drawable surf color_trans cache_image width height
      format src line_size key = some (phys, s1)) :
    phys = PA env.main_slot
      (env.alloc s.nalloc + env.layout.sizeof_Resource + env.layout.off_image) ∧
    s.nalloc < s1.nalloc ∧
    s1.icache = imageCacheBind s.icache cache_image
      (env.alloc s.nalloc + env.layout.sizeof_Resource) ∧
    (s.outputs (drawable - SIZEOF_QXLOutput)).num_res < MAX_OUTPUT_RES ∧
    s1.outputs = (fun a =>
      if a = drawable - SIZEOF_QXLOutput then
        { s.outputs (drawable - SIZEOF_QXLOutput) with
          resources := fun i =>
            if i = (s.outputs (drawable - SIZEOF_QXLOutput)).num_res then env.alloc s.nalloc
            else (s.outputs (drawable - SIZEOF_QXLOutput)).resources i
          num_res := (s.outputs (drawable - SIZEOF_QXLOutput)).num_res + 1 }
      else s.outputs a) := by
  unfold QXLGetBitmap.encode at h
  split at h
  · cases h
  · rename_i quic_res s2 hg
    rcases GetQuicImage_frame env fuel s s2 surf _ width height format src line_size key quic_res
      hq hg with ⟨h0, hs⟩ | ⟨hr, a, b, c⟩
    · rw [if_neg (by rw [h0]; simp)] at h
      subst hs
      split at h
      · cases h
      · rename_i image_res s3 hb
        obtain ⟨hr, a, b, c⟩ := GetBitmapImage_frame _ _ _ _ _ _ _ _ _ _ _ _ _ _ hb
        obtain ⟨p1, p2, p3, p4, p5⟩ := QXLGetBitmap_bind_spec _ _ _ _ _ _ _ h
        rw [hr] at p1 p3 p5
        rw [a] at p3
        rw [b] at p4 p5
        exact ⟨p1, by omega, p3, p4, p5⟩
    · rw [if_pos (by rw [hr]; exact halloc _)] at h
      obtain ⟨p1, p2, p3, p4, p5⟩ := QXLGetBitmap_bind_spec _ _ _ _ _ _ _ h
      rw [hr] at p1 p3 p5
      rw [a] at p3
      rw [b] at p4 p5
      exact ⟨p1, by omega, p3, p4, p5⟩

/-! ### Key derivation and slot reservation -/

theorem GetChachImage_key_fields (env : Env) (ic : ImageCache) (hsurf u hash : Nat) :
    (GetChachImage.key env ic hsurf u hash).2.pool = ic.pool ∧
    (GetChachImage.key env ic hsurf u hash).2.image_cache = ic.image_cache ∧
    (GetChachImage.key env ic hsurf u hash).2.cache_image_lru = ic.cache_image_lru := by
  unfold GetChachImage.key
  split
  · exact ⟨rfl, rfl, rfl⟩
  · unfold ImageKeyPut
    split <;> exact ⟨rfl, rfl, rfl⟩

theorem GetChachImage_key_again (env : Env) (ic ic1 : ImageCache) (hsurf u hash : Nat)
    (ht : ic1.image_key_lookup = (GetChachImage.key env ic hsurf u hash).2.image_key_lookup) :
    GetChachImage.key env ic1 hsurf u hash = ((GetChachImage.key env ic hsurf u hash).1, ic1) := by
  unfold GetChachImage.key ImageKeyGet at ht ⊢
  by_cases hu : u = 0
  · simp only [hu, if_true, ImageKeyPut]
  · simp only [hu, if_false] at ht ⊢
    by_cases hm : (ic.image_key_lookup (IMAGE_KEY_HASH_VAL env.IMAGE_KEY_HASH_MASK hsurf)).hsurf =
        hsurf ∧
        (ic.image_key_lookup (IMAGE_KEY_HASH_VAL env.IMAGE_KEY_HASH_MASK hsurf)).unique = u
    · simp only [hm, and_self, if_true] at ht ⊢
      rw [ht]
      simp only [hm, and_self, if_true]
    · simp only [hm, if_false] at ht ⊢
      rw [ht]
      simp only [ImageKeyPut, hu, if_false, if_true, and_self]

theorem ImageCacheGetByKey_walk_head (key : Nat) (check_rest : Bool) (format width height : Nat)
    (fuel : Nat) (ic : ImageCache) (t : Nat) (ht : t ≠ 0)
    (hm : cacheImageMatches (ic.pool t) key check_rest format width height = true) :
    ImageCacheGetByKey.walk key check_rest format width height (fuel + 1) ic t =
      some (hitResult ic t) := by
  unfold ImageCacheGetByKey.walk
  rw [if_neg ht, if_pos hm]
  rfl

theorem ImageCacheRemove_walk_table (cache_image : Nat) :
    ∀ (fuel : Nat) (ic ic1 : ImageCache) (link : CacheLink),
      ImageCacheRemove.walk cache_image fuel ic link = some ic1 →
      ic1.image_key_lookup = ic.image_key_lookup ∧ ic1.cache_image_lru = ic.cache_image_lru := by
  intro fuel
  induction fuel with
  | zero => intro ic ic1 link h; simp [ImageCacheRemove.walk] at h
  | succ fuel ih =>
    intro ic ic1 link h
    unfold ImageCacheRemove.walk at h
    split at h
    · simp only [Option.some.injEq] at h
      rw [← h]
      exact ⟨rfl, rfl⟩
    · split at h
      · simp only [Option.some.injEq] at h
        rw [← h]
        cases link <;> exact ⟨rfl, rfl⟩
      · exact ih _ _ _ h

theorem GetChachImage_reserve_spec (env : Env) (fuel : Nat) (ic ic1 : ImageCache)
    (key format width height : Nat)
    (h : GetChachImage.reserve env fuel ic key format width height = some ic1) :
    RingGetTail ic.cache_image_lru ≠ 0 ∧
    ic1.image_cache (IMAGE_HASH_VAL env.IMAGE_HASH_MASK key) = RingGetTail ic.cache_image_lru ∧
    (ic1.pool (RingGetTail ic.cache_image_lru)).key = key ∧
    (ic1.pool (RingGetTail ic.cache_image_lru)).format = format ∧
    (ic1.pool (RingGetTail ic.cache_image_lru)).width = width ∧
    (ic1.pool (RingGetTail ic.cache_image_lru)).height = height ∧
    (ic1.pool (RingGetTail ic.cache_image_lru)).image = 0 ∧
    (ic1.pool (RingGetTail ic.cache_image_lru)).hits = 1 ∧
    ic1.image_key_lookup = ic.image_key_lookup ∧
    ic1.cache_image_lru =
      RingGetTail ic.cache_image_lru ::
        RingRemove ic.cache_image_lru (RingGetTail ic.cache_image_lru) := by
  unfold GetChachImage.reserve AllocCacheImage at h
  by_cases ht : RingGetTail ic.cache_image_lru = 0
  · rw [if_pos ht] at h
    cases h
  · rw [if_neg ht] at h
    simp only [] at h
    split at h
    · cases h
    · rename_i ic2 hr
      have hfr : ic2.image_key_lookup = ic.image_key_lookup ∧
          ic2.cache_image_lru =
            RingRemove ic.cache_image_lru (RingGetTail ic.cache_image_lru) := by
        unfold ImageCacheRemove at hr
        split at hr
        · simp only [Option.some.injEq] at hr
          rw [← hr]
          exact ⟨rfl, rfl⟩
        · exact ImageCacheRemove_walk_table _ _ _ _ _ hr
      simp only [Option.some.injEq] at h
      rw [← h]
      refine ⟨ht, ?_, ?_, ?_, ?_, ?_, ?_, ?_, hfr.1, ?_⟩
      · simp [ImageCacheAdd, ImageCache.setSlot]
      · simp [ImageCacheAdd, ImageCache.setSlot]
      · simp [ImageCacheAdd, ImageCache.setSlot]
      · simp [ImageCacheAdd, ImageCache.setSlot]
      · simp [ImageCacheAdd, ImageCache.setSlot]
      · simp [ImageCacheAdd, ImageCache.setSlot]
      · simp [ImageCacheAdd, ImageCache.setSlot]
      · simp only [ImageCacheAdd, ImageCache.setSlot, RingAdd]
        rw [hfr.2]

theorem GetChachImage_head (env : Env) (fuel : Nat) (ic : ImageCache) (surf : SURFOBJ)
    (color_trans : Option XLATEOBJ) (hash_key : Option Nat) (key t : Nat)
    (hls : (GetFormatLineSize env.consts surf.cx surf.iBitmapFormat 0).1 ≠ 0)
    (hkey : GetChachImage.lookup env ic surf color_trans = (key, ic))
    (hhead : ic.image_cache (IMAGE_HASH_VAL env.IMAGE_HASH_MASK key) = t) (ht : t ≠ 0)
    (hm : cacheImageMatches (ic.pool t) key true
      (GetFormatLineSize env.consts surf.cx surf.iBitmapFormat 0).2 (toU32 surf.cx)
      (toU32 surf.cy) = true) :
    GetChachImage env (fuel + 1) ic surf color_trans hash_key =
      some (t, hash_key.map (fun _ => key), (hitResult ic t).2) := by
  unfold GetChachImage
  simp only []
  rw [if_neg hls, hkey]
  unfold ImageCacheGetByKey
  simp only []
  rw [hhead, ImageCacheGetByKey_walk_head _ _ _ _ _ _ _ _ ht hm]
  simp only [hitResult]
  rw [if_pos ht]

theorem GetChachImage_miss (env : Env) (fuel : Nat) (ic ic1 : ImageCache) (surf : SURFOBJ)
    (color_trans : Option XLATEOBJ) (hash_key hash_key1 : Option Nat) (c : Nat) (l : List Nat)
    (hls : (GetFormatLineSize env.consts surf.cx surf.iBitmapFormat 0).1 ≠ 0)
    (hchain : IsChain ic.pool (ic.image_cache (IMAGE_HASH_VAL env.IMAGE_HASH_MASK
      (GetChachImage.lookup env ic surf color_trans).1)) l)
    (hfuel : l.length < fuel)
    (hnomatch : ∀ q ∈ l, cacheImageMatches (ic.pool q)
      (GetChachImage.lookup env ic surf color_trans).1 true
      (GetFormatLineSize env.consts surf.cx surf.iBitmapFormat 0).2 (toU32 surf.cx)
      (toU32 surf.cy) = false)
    (hsize : ChachSizeTest env surf = true)
    (h : GetChachImage env fuel ic surf color_trans hash_key = some (c, hash_key1, ic1)) :
    c = 0 ∧ hash_key1 = hash_key.map (fun _ => (GetChachImage.lookup env ic surf color_trans).1) ∧
    GetChachImage.reserve env fuel (GetChachImage.lookup env ic surf color_trans).2
      (GetChachImage.lookup env ic surf color_trans).1
      (GetFormatLineSize env.consts surf.cx surf.iBitmapFormat 0).2 (toU32 surf.cx)
      (toU32 surf.cy) = some ic1 := by
  obtain ⟨f1, f2, _⟩ := GetChachImage_key_fields env ic surf.hsurf
    (GetChachImage.gdi_unique env.consts surf color_trans)
    (GetHash env surf.pvScan0 surf.cx surf.cy
      (GetFormatLineSize env.consts surf.cx surf.iBitmapFormat 0).2
      (GetFormatLineSize env.consts surf.cx surf.iBitmapFormat 0).1 surf.lDelta color_trans)
  have f1a : (GetChachImage.lookup env ic surf color_trans).2.pool = ic.pool := f1
  have f2a : (GetChachImage.lookup env ic surf color_trans).2.image_cache = ic.image_cache := f2
  have hw := ImageCacheGetByKey_walk_spec (GetChachImage.lookup env ic surf color_trans).1 true
    (GetFormatLineSize env.consts surf.cx surf.iBitmapFormat 0).2 (toU32 surf.cx) (toU32 surf.cy)
    (GetChachImage.lookup env ic surf color_trans).2 l fuel
    ((GetChachImage.lookup env ic surf color_trans).2.image_cache
      (IMAGE_HASH_VAL env.IMAGE_HASH_MASK (GetChachImage.lookup env ic surf color_trans).1))
    (by rw [f1a, f2a]; exact hchain) hfuel
  rw [f1a, List.find?_eq_none.mpr (by
    intro q hq
    rw [hnomatch q hq]
    simp)] at hw
  unfold GetChachImage at h
  simp only [] at h
  rw [if_neg hls] at h
  unfold ImageCacheGetByKey at h
  rw [hw] at h
  simp only [ne_eq, not_true_eq_false, if_false, hsize, if_true] at h
  split at h
  · cases h
  · rename_i ic3 hr
    simp only [Option.some.injEq, Prod.mk.injEq] at h
    exact ⟨h.1.symm, h.2.1.symm, by rw [hr, h.2.2]⟩

/-! ### The three kinds of cached call -/

theorem QXLGetBitmap_cached (env : Env) (fuel : Nat) (s : PDev) (drawable image_phys : Nat)
    (surf : SURFOBJ) (area : Rect) (color_trans : Option XLATEOBJ) (hash_key : Option Nat)
    (hty : surf.iType = env.consts.STYPE_BITMAP)
    (harea : 0 ≤ area.left ∧ area.right ≤ surf.cx ∧ 0 ≤ area.top ∧ area.bottom ≤ surf.cy) :
    QXLGetBitmap env fuel s drawable image_phys surf area color_trans hash_key true =
      match GetChachImage env fuel s.icache surf color_trans hash_key with
      | none => none
      | some (cache_image, hash_key1, ic) =>
        if cache_image ≠ 0 ∧ (ic.pool cache_image).image ≠ 0 then
          match QXLGetBitmap.hit env { s with icache := ic } drawable
              (ic.pool cache_image).image with
          | none => none
          | some (phys, s1) =>
            some { ret := true, image_phys := phys, area := area, hash_key := hash_key1, s := s1 }
        else
          QXLGetBitmap.miss env fuel { s with icache := ic } drawable image_phys surf area
            color_trans hash_key1 cache_image := by
  unfold QXLGetBitmap
  rw [if_neg (by simp), if_neg (by simp [hty]), if_neg (by omega), if_pos rfl]

theorem hitResult_fields (ic : ImageCache) (t : Nat) :
    (hitResult ic t).2.image_cache = ic.image_cache ∧
    (hitResult ic t).2.image_key_lookup = ic.image_key_lookup ∧
    (hitResult ic t).2.cache_image_lru = ic.cache_image_lru ∧
    ((hitResult ic t).2.pool t).image = (ic.pool t).image ∧
    ((hitResult ic t).2.pool t).key = (ic.pool t).key ∧
    ((hitResult ic t).2.pool t).format = (ic.pool t).format ∧
    ((hitResult ic t).2.pool t).width = (ic.pool t).width ∧
    ((hitResult ic t).2.pool t).height = (ic.pool t).height := by
  simp [hitResult, ImageCache.setSlot]

theorem QXLGetBitmap_hit_path (env : Env) (fuel : Nat) (s : PDev) (drawable image_phys : Nat)
    (surf : SURFOBJ) (area : Rect) (color_trans : Option XLATEOBJ) (hash_key : Option Nat)
    (key t : Nat)
    (hty : surf.iType = env.consts.STYPE_BITMAP)
    (harea : 0 ≤ area.left ∧ area.right ≤ surf.cx ∧ 0 ≤ area.top ∧ area.bottom ≤ surf.cy)
    (hls : (GetFormatLineSize env.consts surf.cx surf.iBitmapFormat 0).1 ≠ 0)
    (hkey : GetChachImage.lookup env s.icache surf color_trans = (key, s.icache))
    (hhead : s.icache.image_cache (IMAGE_HASH_VAL env.IMAGE_HASH_MASK key) = t) (ht : t ≠ 0)
    (hm : cacheImageMatches (s.icache.pool t) key true
      (GetFormatLineSize env.consts surf.cx surf.iBitmapFormat 0).2 (toU32 surf.cx)
      (toU32 surf.cy) = true)
    (himg : (s.icache.pool t).image ≠ 0)
    (hroom : (s.outputs (drawable - SIZEOF_QXLOutput)).num_res < MAX_OUTPUT_RES) :
    ∃ r, QXLGetBitmap env (fuel + 1) s drawable image_phys surf area color_trans hash_key true =
        some r ∧
      r.ret = true ∧
      r.image_phys = PA env.main_slot ((s.icache.pool t).image + env.layout.off_image) ∧
      r.area = area ∧ r.hash_key = hash_key.map (fun _ => key) ∧
      r.s.nalloc = s.nalloc ∧ r.s.chunks = s.chunks ∧ r.s.images = s.images ∧
      r.s.image_id = s.image_id ∧
      (r.s.outputs (drawable - SIZEOF_QXLOutput)).num_res =
        (s.outputs (drawable - SIZEOF_QXLOutput)).num_res + 1 ∧
      attached (r.s.outputs (drawable - SIZEOF_QXLOutput))
          ((s.outputs (drawable - SIZEOF_QXLOutput)).num_res + 1) =
        attached (s.outputs (drawable - SIZEOF_QXLOutput))
          (s.outputs (drawable - SIZEOF_QXLOutput)).num_res ++
          [(s.icache.pool t).image - env.layout.sizeof_Resource] ∧
      (r.s.heap.mem ((s.icache.pool t).image - env.layout.sizeof_Resource)).refs =
        (1 + (s.heap.mem ((s.icache.pool t).image - env.layout.sizeof_Resource)).refs)
          % UINT32_MOD ∧
      r.s.heap.mem_free_log = s.heap.mem_free_log ∧ r.s.heap.free_log = s.heap.free_log := by
  obtain ⟨_, _, _, hi, _⟩ := hitResult_fields s.icache t
  rw [QXLGetBitmap_cached env _ s drawable image_phys surf area color_trans hash_key hty harea,
    GetChachImage_head env fuel s.icache surf color_trans hash_key key t hls hkey hhead ht hm]
  simp only []
  rw [if_pos ⟨ht, by rw [hi]; exact himg⟩, hi,
    QXLGetBitmap_hit_spec env { s with icache := (hitResult s.icache t).2 } drawable _ hroom]
  refine ⟨_, rfl, rfl, rfl, rfl, rfl, rfl, rfl, rfl, rfl, ?_, ?_, ?_, rfl, rfl⟩
  · simp
  · simp only [if_true]
    exact attached_succ _ _ _
  · simp [ResHeap.setRefs]

theorem QXLGetBitmap_bind_path (env : Env) (fuel : Nat) (s : PDev) (drawable image_phys : Nat)
    (surf : SURFOBJ) (area : Rect) (color_trans : Option XLATEOBJ) (hash_key : Option Nat)
    (key t : Nat) (r : BitmapResult)
    (hq : env.compression_level = 0 ∨
      ∀ t w h p d n, (env.quic_encode t w h p d n).result ≠ none)
    (halloc : ∀ k, env.alloc k ≠ 0)
    (hty : surf.iType = env.consts.STYPE_BITMAP)
    (harea : 0 ≤ area.left ∧ area.right ≤ surf.cx ∧ 0 ≤ area.top ∧ area.bottom ≤ surf.cy)
    (hls : (GetFormatLineSize env.consts surf.cx surf.iBitmapFormat 0).1 ≠ 0)
    (hkey : GetChachImage.lookup env s.icache surf color_trans = (key, s.icache))
    (hhead : s.icache.image_cache (IMAGE_HASH_VAL env.IMAGE_HASH_MASK key) = t) (ht : t ≠ 0)
    (hm : cacheImageMatches (s.icache.pool t) key true
      (GetFormatLineSize env.consts surf.cx surf.iBitmapFormat 0).2 (toU32 surf.cx)
      (toU32 surf.cy) = true)
    (himg : (s.icache.pool t).image = 0)
    (h : QXLGetBitmap env (fuel + 1) s drawable image_phys surf area color_trans hash_key true =
      some r) :
    r.ret = true ∧
    r.image_phys = PA env.main_slot
      (env.alloc s.nalloc + env.layout.sizeof_Resource + env.layout.off_image) ∧
    r.area = area ∧ r.hash_key = hash_key.map (fun _ => key) ∧
    s.nalloc < r.s.nalloc ∧
    r.s.icache = imageCacheBind (hitResult s.icache t).2 t
      (env.alloc s.nalloc + env.layout.sizeof_Resource) ∧
    (s.outputs (drawable - SIZEOF_QXLOutput)).num_res < MAX_OUTPUT_RES ∧
    r.s.outputs = (fun a =>
      if a = drawable - SIZEOF_QXLOutput then
        { s.outputs (drawable - SIZEOF_QXLOutput) with
          resources := fun i =>
            if i = (s.outputs (drawable - SIZEOF_QXLOutput)).num_res then env.alloc s.nalloc
            else (s.outputs (drawable - SIZEOF_QXLOutput)).resources i
          num_res := (s.outputs (drawable - SIZEOF_QXLOutput)).num_res + 1 }
      else s.outputs a) := by
  obtain ⟨_, _, _, hi, _⟩ := hitResult_fields s.icache t
  rw [QXLGetBitmap_cached env _ s drawable image_phys surf area color_trans hash_key hty harea,
    GetChachImage_head env fuel s.icache surf color_trans hash_key key t hls hkey hhead ht hm]
    at h
  simp only [] at h
  rw [if_neg (by rw [hi, himg]; simp)] at h
  unfold QXLGetBitmap.miss at h
  rw [if_pos ht, if_neg hls] at h
  split at h
  · cases h
  · rename_i phys s1 he
    obtain ⟨e1, e2, e3, e4, e5⟩ := QXLGetBitmap_encode_spec _ _ _ _ _ _ _ _ _ _ _ _ _ _ _
      hq halloc he
    simp only [Option.some.injEq] at h
    rw [← h]
    exact ⟨rfl, e1, rfl, rfl, e2, e3, e4, e5⟩

theorem imageCacheBind_zero (ic : ImageCache) (internal : Nat) :
    imageCacheBind ic 0 internal = ic := by
  simp [imageCacheBind]

theorem QXLGetBitmap_miss_path (env : Env) (fuel : Nat) (s : PDev) (drawable image_phys : Nat)
    (surf : SURFOBJ) (area : Rect) (color_trans : Option XLATEOBJ) (hash_key : Option Nat)
    (l : List Nat) (r : BitmapResult)
    (hq : env.compression_level = 0 ∨
      ∀ t w h p d n, (env.quic_encode t w h p d n).result ≠ none)
    (halloc : ∀ k, env.alloc k ≠ 0)
    (hty : surf.iType = env.consts.STYPE_BITMAP)
    (harea : 0 ≤ area.left ∧ area.right ≤ surf.cx ∧ 0 ≤ area.top ∧ area.bottom ≤ surf.cy)
    (hls : (GetFormatLineSize env.consts surf.cx surf.iBitmapFormat 0).1 ≠ 0)
    (hchain : IsChain s.icache.pool (s.icache.image_cache (IMAGE_HASH_VAL env.IMAGE_HASH_MASK
      (GetChachImage.lookup env s.icache surf color_trans).1)) l)
    (hfuel : l.length < fuel)
    (hnomatch : ∀ q ∈ l, cacheImageMatches (s.icache.pool q)
      (GetChachImage.lookup env s.icache surf color_trans).1 true
      (GetFormatLineSize env.consts surf.cx surf.iBitmapFormat 0).2 (toU32 surf.cx)
      (toU32 surf.cy) = false)
    (hsize : ChachSizeTest env surf = true)
    (h : QXLGetBitmap env fuel s drawable image_phys surf area color_trans hash_key true =
      some r) :
    r.hash_key = hash_key.map (fun _ => (GetChachImage.lookup env s.icache surf color_trans).1) ∧
    GetChachImage.reserve env fuel (GetChachImage.lookup env s.icache surf color_trans).2
      (GetChachImage.lookup env s.icache surf color_trans).1
      (GetFormatLineSize env.consts surf.cx surf.iBitmapFormat 0).2 (toU32 surf.cx)
      (toU32 surf.cy) = some r.s.icache ∧
    s.nalloc ≤ r.s.nalloc ∧
    (r.ret = true →
      r.image_phys = PA env.main_slot
        (env.alloc s.nalloc + env.layout.sizeof_Resource + env.layout.off_image) ∧
      s.nalloc < r.s.nalloc ∧
      (r.s.outputs (drawable - SIZEOF_QXLOutput)).resources
        (s.outputs (drawable - SIZEOF_QXLOutput)).num_res = env.alloc s.nalloc) := by
  rw [QXLGetBitmap_cached env _ s drawable image_phys surf area color_trans hash_key hty harea]
    at h
  split at h
  · cases h
  · rename_i c hk1 ic1 hg
    obtain ⟨hc, hk, hres⟩ := GetChachImage_miss env fuel s.icache ic1 surf color_trans hash_key
      hk1 c l hls hchain hfuel hnomatch hsize hg
    subst hc
    rw [if_neg (by simp)] at h
    unfold QXLGetBitmap.miss at h
    rw [if_neg (by simp)] at h
    split at h
    · simp only [Option.some.injEq] at h
      rw [← h]
      exact ⟨hk, hres, Nat.le_refl _, fun hf => by cases hf⟩
    · simp only [] at h
      split at h
      · simp only [Option.some.injEq] at h
        rw [← h]
        exact ⟨hk, hres, Nat.le_refl _, fun hf => by cases hf⟩
      · split at h
        · cases h
        · rename_i phys s1 he
          obtain ⟨e1, e2, e3, e4, e5⟩ := QXLGetBitmap_encode_spec _ _ _ _ _ _ _ _ _ _ _ _ _ _ _
            hq halloc he
          rw [imageCacheBind_zero] at e3
          simp only [Option.some.injEq] at h
          rw [← h]
          refine ⟨hk, by rw [hres]; exact congrArg some e3.symm, Nat.le_of_lt e2, fun _ =>
            ⟨e1, e2, ?_⟩⟩
          show (s1.outputs _).resources _ = _
          rw [e5]
          simp [get_image_serial]

theorem imageCacheBind_fields (ic : ImageCache) (t internal : Nat) (ht : t ≠ 0) :
    (imageCacheBind ic t internal).image_cache = ic.image_cache ∧
    (imageCacheBind ic t internal).image_key_lookup = ic.image_key_lookup ∧
    (imageCacheBind ic t internal).pool t = { ic.pool t with image := internal } ∧
    (imageCacheBind ic t internal).cache_image_lru =
      (if t ∈ ic.cache_image_lru then ic.cache_image_lru.erase t else ic.cache_image_lru) := by
  unfold imageCacheBind RingItemIsLinked RingRemove
  rw [if_neg ht]
  by_cases hin : t ∈ ic.cache_image_lru
  · rw [if_pos (by simpa using hin), if_pos hin]
    exact ⟨rfl, rfl, by simp [ImageCache.setSlot], rfl⟩
  · rw [if_neg (by simpa using hin), if_neg hin]
    exact ⟨rfl, rfl, by simp [ImageCache.setSlot], rfl⟩

/-- C5 as stated fails: for the 2 x 2 example surface (well under
`max_bitmap_size`), asked for twice with `use_cache = TRUE` and nothing changed
in between, both calls derive the same key, but the second call is no hit: the
first call only reserves a slot and attaches an uncached image (block 8192, one
allocation), the second one encodes the surface again (a second allocation)
and attaches that new Resource (block 8448), not the first call's. -/
theorem C5_second_call_encodes_again :
    ChachSizeTest exampleEnv exampleSurf = true ∧
    (QXLGetBitmap exampleEnv 5 examplePDev 600 0 exampleSurf fullArea none (some 0) true).bind
      (fun r1 =>
        (QXLGetBitmap exampleEnv 5 r1.s 700 0 exampleSurf fullArea none (some 0) true).map
          (fun r2 =>
            (r1.ret, r1.hash_key, r1.s.nalloc, (r1.s.outputs 544).resources 3,
             r2.ret, r2.hash_key, r2.s.nalloc, (r2.s.outputs 644).resources 3))) =
      some (true, some 3760534730, 1, 8192, true, some 3760534730, 2, 8448) := by
  constructor
  · decide
  · rfl

/-- C5, amended. `QXLGetBitmap` with `use_cache = TRUE` caches a surface on its
second use and hits from the third. For a bitmap surface of a supported format
with `cx * cy <= max_bitmap_size`, unchanged between the calls, whose key has no
matching entry in the cache at first (the bucket chain `l` holds none), with
compression off or a codec that does not fail: the three calls derive the same
key; the first reserves a slot for it and, when it returns `TRUE`, attaches an
image in a block of its own; the second returns `TRUE` after encoding the
surface into a new block, which it attaches and binds to the slot; the third
returns `TRUE` (given room in the envelope) with the physical address the second
call stored, attaches the Resource the second call created (`refs + 1`,
`num_res + 1`) and allocates and encodes nothing. -/
theorem C5_QXLGetBitmap_hit_from_third_call (env : Env) (fuel : Nat) (s0 : PDev)
    (d1 d2 d3 p1 p2 p3 : Nat) (surf : SURFOBJ) (a1 a2 a3 : Rect)
    (color_trans : Option XLATEOBJ) (hk1 hk2 hk3 : Option Nat) (l : List Nat)
    (r1 r2 : BitmapResult)
    (hq : env.compression_level = 0 ∨
      ∀ t w h p d n, (env.quic_encode t w h p d n).result ≠ none)
    (halloc : ∀ k, env.alloc k ≠ 0)
    (hty : surf.iType = env.consts.STYPE_BITMAP)
    (ha1 : 0 ≤ a1.left ∧ a1.right ≤ surf.cx ∧ 0 ≤ a1.top ∧ a1.bottom ≤ surf.cy)
    (ha2 : 0 ≤ a2.left ∧ a2.right ≤ surf.cx ∧ 0 ≤ a2.top ∧ a2.bottom ≤ surf.cy)
    (ha3 : 0 ≤ a3.left ∧ a3.right ≤ surf.cx ∧ 0 ≤ a3.top ∧ a3.bottom ≤ surf.cy)
    (hls : (GetFormatLineSize env.consts surf.cx surf.iBitmapFormat 0).1 ≠ 0)
    (hsize : ChachSizeTest env surf = true)
    (hchain : IsChain s0.icache.pool (s0.icache.image_cache (IMAGE_HASH_VAL env.IMAGE_HASH_MASK
      (GetChachImage.lookup env s0.icache surf color_trans).1)) l)
    (hfuel : l.length < fuel)
    (hnomatch : ∀ q ∈ l, cacheImageMatches (s0.icache.pool q)
      (GetChachImage.lookup env s0.icache surf color_trans).1 true
      (GetFormatLineSize env.consts surf.cx surf.iBitmapFormat 0).2 (toU32 surf.cx)
      (toU32 surf.cy) = false)
    (h1 : QXLGetBitmap env fuel s0 d1 p1 surf a1 color_trans hk1 true = some r1)
    (h2 : QXLGetBitmap env fuel r1.s d2 p2 surf a2 color_trans hk2 true = some r2)
    (hroom : (r2.s.outputs (d3 - SIZEOF_QXLOutput)).num_res < MAX_OUTPUT_RES) :
    r1.hash_key = hk1.map (fun _ => (GetChachImage.lookup env s0.icache surf color_trans).1) ∧
    r2.hash_key = hk2.map (fun _ => (GetChachImage.lookup env s0.icache surf color_trans).1) ∧
    (r1.ret = true →
      s0.nalloc < r1.s.nalloc ∧
      (r1.s.outputs (d1 - SIZEOF_QXLOutput)).resources
        (s0.outputs (d1 - SIZEOF_QXLOutput)).num_res = env.alloc s0.nalloc) ∧
    (∃ t, t ≠ 0 ∧
      r1.s.icache.image_cache (IMAGE_HASH_VAL env.IMAGE_HASH_MASK
        (GetChachImage.lookup env s0.icache surf color_trans).1) = t ∧
      (r1.s.icache.pool t).image = 0 ∧ t ∈ r1.s.icache.cache_image_lru ∧
      (r2.s.icache.pool t).image = env.alloc r1.s.nalloc + env.layout.sizeof_Resource) ∧
    r2.ret = true ∧
    r2.image_phys = PA env.main_slot
      (env.alloc r1.s.nalloc + env.layout.sizeof_Resource + env.layout.off_image) ∧
    r1.s.nalloc < r2.s.nalloc ∧
    (r2.s.outputs (d2 - SIZEOF_QXLOutput)).resources
      (r1.s.outputs (d2 - SIZEOF_QXLOutput)).num_res = env.alloc r1.s.nalloc ∧
    ∃ r3, QXLGetBitmap env fuel r2.s d3 p3 surf a3 color_trans hk3 true = some r3 ∧
      r3.ret = true ∧
      r3.hash_key = hk3.map (fun _ => (GetChachImage.lookup env s0.icache surf color_trans).1) ∧
      r3.image_phys = r2.image_phys ∧
      r3.s.nalloc = r2.s.nalloc ∧ r3.s.chunks = r2.s.chunks ∧ r3.s.images = r2.s.images ∧
      (r3.s.outputs (d3 - SIZEOF_QXLOutput)).num_res =
        (r2.s.outputs (d3 - SIZEOF_QXLOutput)).num_res + 1 ∧
      attached (r3.s.outputs (d3 - SIZEOF_QXLOutput))
          ((r2.s.outputs (d3 - SIZEOF_QXLOutput)).num_res + 1) =
        attached (r2.s.outputs (d3 - SIZEOF_QXLOutput))
          (r2.s.outputs (d3 - SIZEOF_QXLOutput)).num_res ++ [env.alloc r1.s.nalloc] ∧
      (r3.s.heap.mem (env.alloc r1.s.nalloc)).refs =
        (1 + (r2.s.heap.mem (env.alloc r1.s.nalloc)).refs) % UINT32_MOD := by
  obtain ⟨f, rfl⟩ : ∃ f, fuel = f + 1 := ⟨fuel - 1, by omega⟩
  -- first call: the lookup misses and a slot is reserved
  obtain ⟨m1, m2, _, m4⟩ := QXLGetBitmap_miss_path env (f + 1) s0 d1 p1 surf a1 color_trans hk1
    l r1 hq halloc hty ha1 hls hchain hfuel hnomatch hsize h1
  obtain ⟨t0, t1, t2, t3, t4, t5, t6, _, t8, t9⟩ := GetChachImage_reserve_spec _ _ _ _ _ _ _ _ m2
  generalize hkd : (GetChachImage.lookup env s0.icache surf color_trans).1 = key at *
  generalize htd : RingGetTail
    (GetChachImage.lookup env s0.icache surf color_trans).2.cache_image_lru = t at *
  have hkey1 : GetChachImage.lookup env r1.s.icache surf color_trans = (key, r1.s.icache) := by
    rw [← hkd]
    exact GetChachImage_key_again env s0.icache r1.s.icache _ _ _ t8
  have hm1 : cacheImageMatches (r1.s.icache.pool t) key true
      (GetFormatLineSize env.consts surf.cx surf.iBitmapFormat 0).2 (toU32 surf.cx)
      (toU32 surf.cy) = true := by
    simp [cacheImageMatches, t2, t3, t4, t5]
  -- second call: the reserved slot is found and bound
  obtain ⟨b1, b2, _, b4, b5, b6, _, b8⟩ := QXLGetBitmap_bind_path env f r1.s d2 p2 surf a2
    color_trans hk2 key t r2 hq halloc hty ha2 hls hkey1 t1 t0 hm1 t6 h2
  obtain ⟨g1, g2, _, _, g5, g6, g7, g8⟩ := hitResult_fields r1.s.icache t
  obtain ⟨c1, c2, c3, _⟩ := imageCacheBind_fields (hitResult r1.s.icache t).2 t
    (env.alloc r1.s.nalloc + env.layout.sizeof_Resource) t0
  rw [← b6] at c1 c2 c3
  have hkey2 : GetChachImage.lookup env r2.s.icache surf color_trans = (key, r2.s.icache) := by
    have := GetChachImage_key_again env r1.s.icache r2.s.icache surf.hsurf
      (GetChachImage.gdi_unique env.consts surf color_trans)
      (GetHash env surf.pvScan0 surf.cx surf.cy
        (GetFormatLineSize env.consts surf.cx surf.iBitmapFormat 0).2
        (GetFormatLineSize env.consts surf.cx surf.iBitmapFormat 0).1 surf.lDelta color_trans)
      (by
        have e : GetChachImage.key env r1.s.icache surf.hsurf
            (GetChachImage.gdi_unique env.consts surf color_trans)
            (GetHash env surf.pvScan0 surf.cx surf.cy
              (GetFormatLineSize env.consts surf.cx surf.iBitmapFormat 0).2
              (GetFormatLineSize env.consts surf.cx surf.iBitmapFormat 0).1 surf.lDelta
              color_trans) = (key, r1.s.icache) := hkey1
        rw [e, c2, g2])
    have e : GetChachImage.key env r1.s.icache surf.hsurf
        (GetChachImage.gdi_unique env.consts surf color_trans)
        (GetHash env surf.pvScan0 surf.cx surf.cy
          (GetFormatLineSize env.consts surf.cx surf.iBitmapFormat 0).2
          (GetFormatLineSize env.consts surf.cx surf.iBitmapFormat 0).1 surf.lDelta
          color_trans) = (key, r1.s.icache) := hkey1
    rw [e] at this
    exact this
  have himg2 : (r2.s.icache.pool t).image =
      env.alloc r1.s.nalloc + env.layout.sizeof_Resource := by rw [c3]
  have hm2 : cacheImageMatches (r2.s.icache.pool t) key true
      (GetFormatLineSize env.consts surf.cx surf.iBitmapFormat 0).2 (toU32 surf.cx)
      (toU32 surf.cy) = true := by
    rw [c3]
    simp [cacheImageMatches, g5, g6, g7, g8, t2, t3, t4, t5]
  have hne : (r2.s.icache.pool t).image ≠ 0 := by
    rw [himg2]
    have := halloc r1.s.nalloc
    omega
  -- third call: the bound slot is hit
  obtain ⟨r3, q1, q2, q3, _, q5, q6, q7, q8, _, q10, q11, q12, _⟩ :=
    QXLGetBitmap_hit_path env f r2.s d3 p3 surf a3 color_trans hk3 key t hty ha3 hls hkey2
      (by rw [c1, g1]; exact t1) t0 hm2 hne hroom
  rw [himg2, Nat.add_sub_cancel] at q11 q12
  rw [himg2] at q3
  refine ⟨m1, b4, fun hr => ⟨(m4 hr).2.1, (m4 hr).2.2⟩, ⟨t, t0, t1, t6, ?_, himg2⟩, b1, b2, b5,
    ?_, r3, q1, q2, q5, by rw [q3, b2], q6, q7, q8, q10, q11, q12⟩
  · rw [t9]
    exact List.mem_cons_self _ _
  · rw [b8]
    simp

set_option maxRecDepth 100000 in
theorem C5_QXLGetBitmap_hit_from_third_call_witness :
    ∃ r1 r2 r3,
      QXLGetBitmap exampleEnv 5 examplePDev 600 0 exampleSurf fullArea none (some 0) true =
        some r1 ∧
      QXLGetBitmap exampleEnv 5 r1.s 700 0 exampleSurf fullArea none (some 0) true = some r2 ∧
      QXLGetBitmap exampleEnv 5 r2.s 800 0 exampleSurf fullArea none (some 0) true = some r3 ∧
      r2.ret = true ∧ r1.s.nalloc < r2.s.nalloc ∧
      r3.ret = true ∧ r3.image_phys = r2.image_phys ∧ r3.s.nalloc = r2.s.nalloc ∧
      attached (r3.s.outputs (800 - SIZEOF_QXLOutput))
          ((r2.s.outputs (800 - SIZEOF_QXLOutput)).num_res + 1) =
        attached (r2.s.outputs (800 - SIZEOF_QXLOutput))
          (r2.s.outputs (800 - SIZEOF_QXLOutput)).num_res ++ [exampleEnv.alloc r1.s.nalloc] := by
  have hb : (QXLGetBitmap exampleEnv 5 examplePDev 600 0 exampleSurf fullArea none (some 0)
      true).bind (fun r1 =>
        (QXLGetBitmap exampleEnv 5 r1.s 700 0 exampleSurf fullArea none (some 0) true).map
          (fun r2 => (r2.s.outputs (800 - SIZEOF_QXLOutput)).num_res)) = some 3 := by rfl
  obtain ⟨r1, e1, hb1⟩ := Option.bind_eq_some.mp hb
  obtain ⟨r2, e2, hn⟩ := Option.map_eq_some'.mp hb1
  obtain ⟨_, _, _, _, b1, _, b3, _, r3, q1, q2, _, q4, q5, _, _, _, q9, _⟩ :=
    C5_QXLGetBitmap_hit_from_third_call exampleEnv 5 examplePDev 600 700 800 0 0 0 exampleSurf
      fullArea fullArea fullArea none (some 0) (some 0) (some 0) [] r1 r2
      (Or.inl rfl) (by intro k; simp [exampleEnv, exampleAlloc]) rfl
      (by decide) (by decide) (by decide) (by decide) (by decide) (by rfl) (by decide)
      (by intro q hq; cases hq) e1 e2 (by rw [hn]; decide)
  exact ⟨r1, r2, r3, e1, e2, q1, b1, b3, q2, q4, q5, q9⟩


/-! ### Image cache slots -/

/-- C19 fails in the code. From `InitResources` with a pool of two slots (1
and 2): `QXLGetBitmap` on the 32-bit example surface reserves slot 1 for the
surface's key; `QXLGetAlphaBitmap` on the same surface gets the same key from
the key-lookup table, misses on the format and reserves slot 2 in front of slot
1 in the same bucket; a second `QXLGetAlphaBitmap` binds a new image (payload
8720) to slot 2 and takes it off the ring. A `QXLGetBitmap` on another surface
then takes slot 1 from the ring's tail, and `ImageCacheRemove(slot 1)` unlinks
the first entry of the bucket whose key equals slot 1's key, which is slot 2:
afterwards slot 2 still has its image (whose `cache` field points back to it)
and is off the ring, but the bucket of its key is empty. -/
theorem C19_ImageCacheRemove_unlinks_bound_slot :
    (QXLGetBitmap exampleEnv 5 (InitResources examplePDev [1, 2]) 600 0 exampleSurf fullArea none
        none true).bind
      (fun r1 =>
        (QXLGetAlphaBitmap exampleEnv 5 r1.s 700 0 exampleSurf fullArea).bind
          (fun r2 =>
            (QXLGetAlphaBitmap exampleEnv 5 r2.s 800 0 exampleSurf fullArea).bind
              (fun r3 =>
                (QXLGetBitmap exampleEnv 5 r3.s 900 0 otherSurf fullArea none none true).map
                  (fun r4 =>
                    ((r3.s.icache.pool 2).image, r3.s.icache.cache_image_lru,
                     r3.s.icache.image_cache
                       (IMAGE_HASH_VAL exampleEnv.IMAGE_HASH_MASK (r3.s.icache.pool 2).key),
                     (r4.s.icache.pool 2).image, (r4.s.images 8720).cache,
                     r4.s.icache.cache_image_lru,
                     r4.s.icache.image_cache
                       (IMAGE_HASH_VAL exampleEnv.IMAGE_HASH_MASK (r4.s.icache.pool 2).key)))))) =
      some (8720, [1], 2, 8720, 2, [1], 0) := by
  rfl


/-! ### Compressed-image chunk sizes -/

theorem shiftRight_four_nonpos (m : Int) (h : m ≤ 0) : m >>> 4 ≤ 0 := by
  cases m with
  | ofNat k =>
    have hk : k = 0 := by
      have : (k : Int) ≤ 0 := h
      omega
    subst hk
    exact le_of_eq (Int.zero_shiftRight' 4)
  | negSucc k =>
    have e : Int.negSucc k >>> ((4 : Nat) : Int) = Int.negSucc (k >>> 4) :=
      Int.shiftRight_negSucc k 4
    have e1 : Int.negSucc k >>> (4 : Int) = Int.negSucc (k >>> 4) := e
    rw [e1]
    exact le_of_lt (Int.negSucc_lt_zero _)

/-- C25 fails in the code. `quic_usr_more_space` computes
`more = (rows_completed - rows) * raw_row_size`, which is never positive when
`rows_completed <= rows` (its own assertion) and the row size is not negative,
so `MIN(MAX(more >> 4, QUIC_BUF_MIN), QUIC_BUF_MAX)` is always `QUIC_BUF_MIN`:
whatever remains of the image, the call (which returns when `AllocMem` does)
makes the new chunk current with 256 words, that is 1 KiB, available. -/
theorem C25_quic_usr_more_space_always_minimum (env : Env) (s : PDev) (q : QuicData)
    (rows_completed : Int) (hrows : rows_completed ≤ q.rows) (hrow : 0 ≤ q.raw_row_size)
    (hms : s.heap.mspace ≠ 0)
    (harena : s.heap.mspace_start ≤ env.alloc s.nalloc ∧ env.alloc s.nalloc < s.heap.mspace_end) :
    ∃ s1 q1, quic_usr_more_space env s q rows_completed = some (s1, q1) ∧
      q1.chunk = env.alloc s.nalloc ∧ q1.chunk_io_words = 256 ∧
      q1.prev_chunks_io_words = q.prev_chunks_io_words + q.chunk_io_words := by
  have hmore : ((rows_completed - q.rows) * q.raw_row_size) >>> 4 ≤ 0 :=
    shiftRight_four_nonpos _ (Int.mul_nonpos_of_nonpos_of_nonneg (by omega) hrow)
  have hsize : min (max (((rows_completed - q.rows) * q.raw_row_size) >>> 4)
      ((QUIC_BUF_MIN : Nat) : Int)) ((QUIC_BUF_MAX : Nat) : Int) = 1024 := by
    rw [max_eq_right (le_trans hmore (by decide))]
    decide
  unfold quic_usr_more_space quic_usr_more_space.alloc_size
  rw [if_neg (by omega), AllocMem_done_some env s hms harena]
  simp only [hsize]
  refine ⟨_, _, rfl, rfl, ?_, rfl⟩
  show ((1024 : Int) >>> (2 : Int)) = 256
  decide

theorem C25_quic_usr_more_space_always_minimum_witness :
    ∃ s1 q1, quic_usr_more_space exampleEnv examplePDev
        { chunk := 4200, chunk_io_words := 64, prev_chunks_io_words := 0, rows := 1000,
          raw_row_size := 4096 } 0 = some (s1, q1) ∧
      q1.chunk = exampleEnv.alloc examplePDev.nalloc ∧ q1.chunk_io_words = 256 ∧
      q1.prev_chunks_io_words = 0 + 64 :=
  C25_quic_usr_more_space_always_minimum exampleEnv examplePDev
    { chunk := 4200, chunk_io_words := 64, prev_chunks_io_words := 0, rows := 1000,
      raw_row_size := 4096 } 0 (by decide) (by decide) (by decide) (by decide)


/-! ### Cache-worthiness test -/

/-- C30 fails in the code. `ChachSizeTest` multiplies in `UINT32`, so it
compares the pixel count modulo `2^32` with `max_bitmap_size`: it returns
`TRUE` exactly when `(cx * cy) mod 2^32 <= max_bitmap_size`. It agrees with the
exact product as long as that is below `2^32`, but a 65536 x 65536 surface
(`2^32` pixels, product 0 after wrap-around) passes the test for
`max_bitmap_size = 1024`. -/
theorem C30_ChachSizeTest_wraps_at_32_bits (env : Env) (surf : SURFOBJ) :
    (ChachSizeTest env surf = true ↔
      ((surf.cx * surf.cy) % (UINT32_MOD : Int)).toNat ≤ env.max_bitmap_size) ∧
    (0 ≤ surf.cx → 0 ≤ surf.cy → surf.cx * surf.cy < (UINT32_MOD : Int) →
      (ChachSizeTest env surf = true ↔ surf.cx * surf.cy ≤ (env.max_bitmap_size : Int))) ∧
    ChachSizeTest exampleEnv { exampleSurf with cx := 65536, cy := 65536 } = true ∧
    ¬ ((65536 : Int) * 65536 ≤ (exampleEnv.max_bitmap_size : Int)) := by
  have hM : (0 : Int) < (UINT32_MOD : Int) := by decide
  have key : (toU32 surf.cx * toU32 surf.cy) % UINT32_MOD =
      ((surf.cx * surf.cy) % (UINT32_MOD : Int)).toNat := by
    have hx : ((toU32 surf.cx : Nat) : Int) = surf.cx % (UINT32_MOD : Int) := by
      unfold toU32
      exact Int.toNat_of_nonneg (Int.emod_nonneg _ (by decide))
    have hy : ((toU32 surf.cy : Nat) : Int) = surf.cy % (UINT32_MOD : Int) := by
      unfold toU32
      exact Int.toNat_of_nonneg (Int.emod_nonneg _ (by decide))
    have h1 : (((toU32 surf.cx * toU32 surf.cy) % UINT32_MOD : Nat) : Int) =
        (surf.cx * surf.cy) % (UINT32_MOD : Int) := by
      rw [Int.natCast_mod, Int.natCast_mul, hx, hy]
      exact (Int.mul_emod _ _ _).symm
    have h2 := Int.toNat_of_nonneg (Int.emod_nonneg (surf.cx * surf.cy) (ne_of_gt hM))
    omega
  refine ⟨?_, ?_, by decide, by decide⟩
  · unfold ChachSizeTest
    rw [key]
    simp
  · intro hx hy hlt
    unfold ChachSizeTest
    rw [key, Int.emod_eq_of_lt (Int.mul_nonneg hx hy) hlt]
    have := Int.toNat_of_nonneg (Int.mul_nonneg hx hy)
    simp only [decide_eq_true_eq]
    omega

theorem C30_ChachSizeTest_wraps_at_32_bits_witness :
    (ChachSizeTest exampleEnv exampleSurf = true ↔
      exampleSurf.cx * exampleSurf.cy ≤ (exampleEnv.max_bitmap_size : Int)) ∧
    ChachSizeTest exampleEnv exampleSurf = true :=
  ⟨(C30_ChachSizeTest_wraps_at_32_bits exampleEnv exampleSurf).2.1 (by decide) (by decide)
    (by decide), by decide⟩


/-! ### Eviction from the image hash table -/

/-- C26 fails in the code. In the example cache the chain of bucket 1 is slot 3
followed by slot 5; both carry key 16, with different formats (8 and 9) and
sizes. `ImageCacheRemove(slot 5)` stops at the first entry whose key equals slot
5's key, which is slot 3, and stores slot 5's `next` (`NULL`) in the link that
held slot 3: the bucket is left empty, where the chain with exactly slot 5
deleted is slot 3 alone. (A slot with `hits = 0` is left alone, as claimed.) -/
theorem C26_ImageCacheRemove_drops_same_key_entry :
    IsChain exampleCache.pool
      (exampleCache.image_cache (IMAGE_HASH_VAL 255 (exampleCache.pool 5).key)) [3, 5] ∧
    (exampleCache.pool 3).key = (exampleCache.pool 5).key ∧
    (exampleCache.pool 3).format ≠ (exampleCache.pool 5).format ∧
    (exampleCache.pool 5).hits ≠ 0 ∧
    (ImageCacheRemove 255 5 exampleCache 5).map
      (fun ic => (ic.image_cache (IMAGE_HASH_VAL 255 (exampleCache.pool 5).key),
        decide (IsChain ic.pool (ic.image_cache (IMAGE_HASH_VAL 255 (exampleCache.pool 5).key))
          [3]))) = some (0, false) ∧
    (ImageCacheRemove 255 5 exampleCache 1).map (fun ic => ic.image_cache 1) = some 3 := by
  refine ⟨by decide, by decide, by decide, by decide, by rfl, by rfl⟩


/-! ### The lookup of `QXLGetAlphaBitmap` -/

theorem QXLGetAlphaBitmap_lookup_fields (env : Env) (ic : ImageCache) (surf : SURFOBJ) :
    (QXLGetAlphaBitmap.lookup env ic surf).2.pool = ic.pool ∧
    (QXLGetAlphaBitmap.lookup env ic surf).2.image_cache = ic.image_cache :=
  ⟨(GetChachImage_key_fields env ic _ _ _).1, (GetChachImage_key_fields env ic _ _ _).2.1⟩

theorem QXLGetAlphaBitmap_of_lookup (env : Env) (fuel : Nat) (s : PDev)
    (drawable image_phys : Nat) (surf : SURFOBJ) (area : Rect) (c : Nat) (ic : ImageCache)
    (hfmt : surf.iBitmapFormat = env.consts.BMF_32BPP ∧ surf.iType = env.consts.STYPE_BITMAP)
    (harea : 0 ≤ area.left ∧ area.right ≤ surf.cx ∧ 0 ≤ area.top ∧ area.bottom ≤ surf.cy)
    (hl : ImageCacheGetByKey env.IMAGE_HASH_MASK fuel (QXLGetAlphaBitmap.lookup env s.icache surf).2
      (QXLGetAlphaBitmap.lookup env s.icache surf).1 true env.consts.BITMAP_FMT_RGBA
      (toU32 surf.cx) (toU32 surf.cy) = some (c, ic)) :
    QXLGetAlphaBitmap env fuel s drawable image_phys surf area =
      if c ≠ 0 ∧ (ic.pool c).image ≠ 0 then
        match QXLGetBitmap.hit env { s with icache := ic } drawable (ic.pool c).image with
        | none => none
        | some (phys, s1) =>
          some { ret := true, image_phys := phys, area := area, hash_key := none, s := s1 }
      else if c ≠ 0 then
        match QXLGetBitmap.encode env fuel { s with icache := ic } drawable surf none c
            surf.cx surf.cy env.consts.BITMAP_FMT_RGBA surf.pvScan0 (toU32 (surf.cx * 4))
            (QXLGetAlphaBitmap.lookup env s.icache surf).1 with
        | none => none
        | some (phys, s1) =>
          some { ret := true, image_phys := phys, area := area, hash_key := none, s := s1 }
      else
        match (if ChachSizeTest env surf then
            GetChachImage.reserve env fuel ic (QXLGetAlphaBitmap.lookup env s.icache surf).1
              env.consts.BITMAP_FMT_RGBA (toU32 surf.cx) (toU32 surf.cy)
          else some ic) with
        | none => none
        | some ic1 =>
          match QXLGetBitmap.encode env fuel { s with icache := ic1 } drawable surf none 0
              (area.right - area.left) (area.bottom - area.top) env.consts.BITMAP_FMT_RGBA
              (surf.pvScan0 + area.top * surf.lDelta + area.left * 4)
              (toU32 ((area.right - area.left) * 4))
              (QXLGetAlphaBitmap.lookup env s.icache surf).1 with
          | none => none
          | some (phys, s1) =>
            some { ret := true, image_phys := phys
                   area := { left := 0, right := area.right - area.left, top := 0,
                             bottom := area.bottom - area.top }
                   hash_key := none, s := s1 } := by
  unfold QXLGetAlphaBitmap
  rw [if_neg (by simp [hfmt]), if_neg (by simp [harea])]
  simp only []
  rw [hl]

/-- C29 as stated fails: after two cached `QXLGetBitmap` calls on the 32-bit
example surface, slot 1 holds the surface's key with a realized image (payload
8464) and stands first in the key's bucket. `QXLGetAlphaBitmap` on the same
surface derives that very key, yet does not take the entry as a hit, because
the entry's format is `BITMAP_FMT_32BIT` and not `BITMAP_FMT_RGBA`: it
allocates again and attaches a new Resource (block 8704) with another
physical address. -/
theorem C29_alpha_lookup_rejects_same_key_other_format :
    (QXLGetBitmap exampleEnv 5 (InitResources examplePDev [1, 2]) 600 0 exampleSurf fullArea none
        none true).bind
      (fun r1 =>
        (QXLGetBitmap exampleEnv 5 r1.s 700 0 exampleSurf fullArea none none true).bind
          (fun r2 =>
            (QXLGetAlphaBitmap exampleEnv 5 r2.s 800 0 exampleSurf fullArea).map
              (fun r3 =>
                ((QXLGetAlphaBitmap.lookup exampleEnv r2.s.icache exampleSurf).1,
                 (r2.s.icache.pool 1).key, (r2.s.icache.pool 1).format,
                 exampleEnv.consts.BITMAP_FMT_RGBA, (r2.s.icache.pool 1).image,
                 r2.s.icache.image_cache (IMAGE_HASH_VAL 255 (r2.s.icache.pool 1).key),
                 r2.s.nalloc, r3.s.nalloc, (r3.s.outputs 744).resources 3,
                 decide (r3.image_phys = r2.image_phys))))) =
      some (3760534730, 3760534730, 8, 9, 8464, 1, 2, 3, 8704, false) := by
  rfl

/-- C29, amended. The image-cache lookup of `QXLGetAlphaBitmap` is as strict as
that of `QXLGetBitmap`: it accepts an entry of the key's bucket chain `l` only
when key, format (`BITMAP_FMT_RGBA`), width and height all match. When no
entry matches all four, whatever entries with the same key the chain holds, a
call that returns is no hit: it attaches the block it has just allocated. When
the first entry matching all four has a realized image (and the envelope has
room), the call returns `TRUE` with that image attached and allocates nothing.
The hypotheses are the function's assertions; for the first part compression
is off or the codec does not fail. -/
theorem C29_QXLGetAlphaBitmap_lookup_is_strict (env : Env) (fuel : Nat) (s : PDev)
    (drawable image_phys : Nat) (surf : SURFOBJ) (area : Rect) (l : List Nat)
    (hfmt : surf.iBitmapFormat = env.consts.BMF_32BPP ∧ surf.iType = env.consts.STYPE_BITMAP)
    (harea : 0 ≤ area.left ∧ area.right ≤ surf.cx ∧ 0 ≤ area.top ∧ area.bottom ≤ surf.cy)
    (hchain : IsChain s.icache.pool (s.icache.image_cache (IMAGE_HASH_VAL env.IMAGE_HASH_MASK
      (QXLGetAlphaBitmap.lookup env s.icache surf).1)) l)
    (hfuel : l.length < fuel) :
    ((∀ q ∈ l, cacheImageMatches (s.icache.pool q) (QXLGetAlphaBitmap.lookup env s.icache surf).1
        true env.consts.BITMAP_FMT_RGBA (toU32 surf.cx) (toU32 surf.cy) = false) →
      (env.compression_level = 0 ∨
        ∀ t w h p d n, (env.quic_encode t w h p d n).result ≠ none) →
      (∀ k, env.alloc k ≠ 0) →
      ∀ r, QXLGetAlphaBitmap env fuel s drawable image_phys surf area = some r →
        s.nalloc < r.s.nalloc ∧
        r.image_phys = PA env.main_slot
          (env.alloc s.nalloc + env.layout.sizeof_Resource + env.layout.off_image) ∧
        (r.s.outputs (drawable - SIZEOF_QXLOutput)).resources
          (s.outputs (drawable - SIZEOF_QXLOutput)).num_res = env.alloc s.nalloc) ∧
    (∀ t, l.find? (fun q => cacheImageMatches (s.icache.pool q)
          (QXLGetAlphaBitmap.lookup env s.icache surf).1 true env.consts.BITMAP_FMT_RGBA
          (toU32 surf.cx) (toU32 surf.cy)) = some t →
      (s.icache.pool t).image ≠ 0 →
      (s.outputs (drawable - SIZEOF_QXLOutput)).num_res < MAX_OUTPUT_RES →
      ∃ r, QXLGetAlphaBitmap env fuel s drawable image_phys surf area = some r ∧
        r.ret = true ∧
        r.image_phys = PA env.main_slot ((s.icache.pool t).image + env.layout.off_image) ∧
        r.s.nalloc = s.nalloc ∧
        attached (r.s.outputs (drawable - SIZEOF_QXLOutput))
            ((s.outputs (drawable - SIZEOF_QXLOutput)).num_res + 1) =
          attached (s.outputs (drawable - SIZEOF_QXLOutput))
            (s.outputs (drawable - SIZEOF_QXLOutput)).num_res ++
            [(s.icache.pool t).image - env.layout.sizeof_Resource]) := by
  obtain ⟨f1, f2⟩ := QXLGetAlphaBitmap_lookup_fields env s.icache surf
  have hw := ImageCacheGetByKey_walk_spec (QXLGetAlphaBitmap.lookup env s.icache surf).1 true
    env.consts.BITMAP_FMT_RGBA (toU32 surf.cx) (toU32 surf.cy)
    (QXLGetAlphaBitmap.lookup env s.icache surf).2 l fuel
    ((QXLGetAlphaBitmap.lookup env s.icache surf).2.image_cache
      (IMAGE_HASH_VAL env.IMAGE_HASH_MASK (QXLGetAlphaBitmap.lookup env s.icache surf).1))
    (by rw [f1, f2]; exact hchain) hfuel
  rw [f1] at hw
  constructor
  · intro hno hq halloc r h
    rw [List.find?_eq_none.mpr (by
      intro q hq1
      rw [hno q hq1]
      simp)] at hw
    rw [QXLGetAlphaBitmap_of_lookup env fuel s drawable image_phys surf area 0 _ hfmt harea hw,
      if_neg (by simp), if_neg (by simp)] at h
    split at h
    · cases h
    · split at h
      · cases h
      · rename_i phys s1 he
        obtain ⟨e1, e2, _, _, e5⟩ := QXLGetBitmap_encode_spec _ _ _ _ _ _ _ _ _ _ _ _ _ _ _
          hq halloc he
        simp only [Option.some.injEq] at h
        rw [← h]
        refine ⟨e2, e1, ?_⟩
        show (s1.outputs _).resources _ = _
        rw [e5]
        simp
  · intro t hfind himg hroom
    rw [hfind] at hw
    have ht : t ≠ 0 := IsChain_ne_zero s.icache.pool l _ hchain t (List.mem_of_find?_eq_some hfind)
    have hi : ((hitResult (QXLGetAlphaBitmap.lookup env s.icache surf).2 t).2.pool t).image =
        (s.icache.pool t).image := by
      rw [(hitResult_fields _ t).2.2.2.1, f1]
    rw [QXLGetAlphaBitmap_of_lookup env fuel s drawable image_phys surf area t
        (hitResult (QXLGetAlphaBitmap.lookup env s.icache surf).2 t).2 hfmt harea hw,
      if_pos ⟨ht, ne_of_eq_of_ne hi himg⟩, hi,
      QXLGetBitmap_hit_spec env
        { s with icache := (hitResult (QXLGetAlphaBitmap.lookup env s.icache surf).2 t).2 }
        drawable _ hroom]
    refine ⟨_, rfl, rfl, rfl, rfl, ?_⟩
    simp only [if_true]
    exact attached_succ _ _ _

theorem C29_QXLGetAlphaBitmap_lookup_is_strict_witness :
    (∃ r, QXLGetAlphaBitmap exampleEnv 3 keyedPDev 600 0 exampleSurf fullArea = some r ∧
      keyedPDev.nalloc < r.s.nalloc ∧
      (r.s.outputs (600 - SIZEOF_QXLOutput)).resources
        (keyedPDev.outputs (600 - SIZEOF_QXLOutput)).num_res =
          exampleEnv.alloc keyedPDev.nalloc) ∧
    (∃ r, QXLGetAlphaBitmap exampleEnv 3 keyedPDev 600 0 wideSurf fullArea = some r ∧
      r.ret = true ∧ r.s.nalloc = keyedPDev.nalloc) := by
  constructor
  · have hb : (QXLGetAlphaBitmap exampleEnv 3 keyedPDev 600 0 exampleSurf fullArea).map
        (fun r => r.ret) = some true := by rfl
    obtain ⟨r, hr, _⟩ := Option.map_eq_some'.mp hb
    obtain ⟨a, _, c⟩ := (C29_QXLGetAlphaBitmap_lookup_is_strict exampleEnv 3 keyedPDev 600 0
      exampleSurf fullArea [3, 5] (by decide) (by decide) (by decide) (by decide)).1
      (by decide) (Or.inl rfl) (by intro k; simp [exampleEnv, exampleAlloc]) r hr
    exact ⟨r, hr, a, c⟩
  · obtain ⟨r, h1, h2, _, h4, _⟩ := (C29_QXLGetAlphaBitmap_lookup_is_strict exampleEnv 3
      keyedPDev 600 0 wideSurf fullArea [3, 5] (by decide) (by decide) (by decide)
      (by decide)).2 5 (by decide) (by decide) (by decide)
    exact ⟨r, h1, h2, h4⟩


/-! ### Hashing of sub-byte formats -/

/-- C21 fails in the code. For `BITMAP_FMT_4BIT_BE` with an odd width the
row loop of `GetHash` sets `last_byte = row_buf[line_size - 1] & 0xF0` and then
tests `if (last_byte)`: when the used high nibble of the last byte is 0 the test
fails and the whole row, unused low nibble included, goes to `hashlittle`
unmasked. For a one-row image this makes the hash
`hashlittle(row, line_size, init)` on the raw bytes; with the example hash two
one-pixel buffers `0x00` and `0x0F`, which differ only in the unused nibble,
get different hashes. -/
theorem C21_GetHash_hashes_padding_of_zero_nibble (env : Env) (src : Int) (width : Int)
    (line_size : Nat) (stride : Int)
    (hfmt : env.consts.BITMAP_FMT_4BIT_BE ≠ env.consts.BITMAP_FMT_32BIT)
    (hodd : width % 2 ≠ 0)
    (hzero : env.bytes (src + ((line_size : Int) - 1)) &&& 240 = 0) :
    GetHash env src width 1 env.consts.BITMAP_FMT_4BIT_BE line_size stride none =
      env.hashlittle (readBytes env.bytes src line_size)
        (IMAGE_HASH_INIT_VAL width 1 env.consts.BITMAP_FMT_4BIT_BE) := by
  unfold GetHash
  simp only []
  show GetHash.rows env.consts env.hashlittle env.bytes width env.consts.BITMAP_FMT_4BIT_BE
    line_size stride 1 src (IMAGE_HASH_INIT_VAL width 1 env.consts.BITMAP_FMT_4BIT_BE) 0 = _
  unfold GetHash.rows GetHash.rows GetHash.row
  rw [if_neg hfmt]
  simp [hodd, hzero]

theorem C21_GetHash_hashes_padding_of_zero_nibble_witness :
    GetHash { exampleEnv with bytes := fun _ => 0 } 0 1 1 4 1 1 none =
      exampleEnv.hashlittle [0] (IMAGE_HASH_INIT_VAL 1 1 4) ∧
    GetHash { exampleEnv with bytes := fun _ => 15 } 0 1 1 4 1 1 none =
      exampleEnv.hashlittle [15] (IMAGE_HASH_INIT_VAL 1 1 4) ∧
    (0 : Nat) &&& 240 = 15 &&& 240 ∧
    GetHash { exampleEnv with bytes := fun _ => 0 } 0 1 1 4 1 1 none ≠
      GetHash { exampleEnv with bytes := fun _ => 15 } 0 1 1 4 1 1 none :=
  ⟨C21_GetHash_hashes_padding_of_zero_nibble { exampleEnv with bytes := fun _ => 0 } 0 1 1 1
      (by decide) (by decide) (by decide),
   C21_GetHash_hashes_padding_of_zero_nibble { exampleEnv with bytes := fun _ => 15 } 0 1 1 1
      (by decide) (by decide) (by decide),
   by decide, by decide⟩


/-! ### Raster glyph rows -/

/-- C22 fails in the code. A glyph of 1 x 1 pixels at 1 bit per pixel has
rows of one byte of which only the top bit is used. `add_rast_glyphs` writes the
20-byte record and then copies the row byte as it is: for the source byte
`0xFF` the byte emitted after the record is `0xFF`, with its seven padding bits
set, not `0x80`. The sizes are as claimed: `str->data_size` and the chunk's
`data_size` grow by `sizeof(RasterGlyph) + stride * height = 21`. -/
theorem C22_add_rast_glyphs_copies_padding_bits :
    exampleEnv.bytes onePixelGlyph.aj = 255 ∧
    (ALIGN (1 * 1) 8 % UINT32_MOD) >>> 3 = 1 ∧
    (add_rast_glyphs exampleEnv 1 none exampleStrEnc [onePixelGlyph]).data_size =
      exampleEnv.layout.sizeof_RasterGlyph + 1 * 1 ∧
    ((add_rast_glyphs exampleEnv 1 none exampleStrEnc [onePixelGlyph]).enc.mem 4200).data_size =
      21 ∧
    ((add_rast_glyphs exampleEnv 1 none exampleStrEnc [onePixelGlyph]).enc.mem 4200).data
      exampleEnv.layout.sizeof_RasterGlyph = 255 ∧
    (255 : Nat) &&& 128 ≠ 255 := by
  refine ⟨by decide, by decide, by rfl, by rfl, by rfl, by decide⟩


/-! ### Command hand-off -/

theorem PushDrawable_spec (env : Env) (QXL_CMD_DRAW : Nat) (c : Channels) (drawable : Nat)
    (hroom : c.cmd_ring.items.length < c.cmd_ring.num_items) :
    PushDrawable env QXL_CMD_DRAW c drawable =
      some { c with
        cmd_ring := { c.cmd_ring with
          items := c.cmd_ring.items ++
            [{ type := QXL_CMD_DRAW, data := PA env.main_slot drawable }] }
        notify_cmd_port := c.notify_cmd_port + (if c.cmd_ring.items = [] then 1 else 0) } := by
  unfold PushDrawable RING_IS_FULL
  rw [if_neg (by simp; omega)]
  unfold PUSH_CMD RING_PUSH RING_IS_EMPTY
  cases hi : c.cmd_ring.items with
  | nil => simp
  | cons a rest => simp

theorem runCmdOps_spec (env : Env) (QXL_CMD_DRAW : Nat) :
    ∀ (ops : List CmdOp) (c : Channels),
      (c.cmd_ring.items.length + ops.length ≤ c.cmd_ring.num_items →
        ∃ r, runCmdOps env QXL_CMD_DRAW c ops = some r) ∧
      ∀ out c1, runCmdOps env QXL_CMD_DRAW c ops = some (out, c1) →
        c1.notify_cmd_port = c.notify_cmd_port + transitions c.cmd_ring.items.length ops ∧
        out ++ c1.cmd_ring.items = c.cmd_ring.items ++ pushed env QXL_CMD_DRAW ops ∧
        c1.cursor_ring = c.cursor_ring ∧ c1.notify_cursor_port = c.notify_cursor_port ∧
        c1.cmd_ring.num_items = c.cmd_ring.num_items := by
  intro ops
  induction ops with
  | nil =>
    intro c
    refine ⟨fun _ => ⟨_, rfl⟩, ?_⟩
    intro out c1 h
    simp only [runCmdOps, Option.some.injEq, Prod.mk.injEq] at h
    rw [← h.1, ← h.2]
    simp [transitions, pushed]
  | cons op ops ih =>
    intro c
    cases op with
    | push d =>
      constructor
      · intro hcap
        simp only [List.length_cons] at hcap
        rw [runCmdOps, PushDrawable_spec env QXL_CMD_DRAW c d (by omega)]
        exact (ih _).1 (by simp; omega)
      · intro out c1 h
        rw [runCmdOps] at h
        by_cases hroom : c.cmd_ring.items.length < c.cmd_ring.num_items
        · rw [PushDrawable_spec env QXL_CMD_DRAW c d hroom] at h
          obtain ⟨a1, a2, a3, a4, a5⟩ := (ih _).2 out c1 h
          refine ⟨?_, ?_, a3, a4, a5⟩
          · rw [a1]
            simp only [transitions, List.length_append, List.length_singleton]
            by_cases he : c.cmd_ring.items = []
            · simp [he]
              omega
            · have : c.cmd_ring.items.length ≠ 0 := by
                intro h0
                exact he (List.length_eq_zero.mp h0)
              simp [he, this]
          · rw [a2]
            simp [pushed]
        · unfold PushDrawable RING_IS_FULL at h
          rw [if_pos (by simp; omega)] at h
          cases h
    | pop =>
      constructor
      · intro hcap
        simp only [List.length_cons] at hcap
        obtain ⟨r, hr⟩ := (ih { c with cmd_ring := (RING_POP c.cmd_ring).2 }).1 (by
          simp only [RING_POP, List.length_tail]
          omega)
        rw [runCmdOps, hr]
        exact ⟨_, rfl⟩
      · intro out c1 h
        rw [runCmdOps] at h
        cases hr : runCmdOps env QXL_CMD_DRAW { c with cmd_ring := (RING_POP c.cmd_ring).2 } ops
          with
        | none => rw [hr] at h; cases h
        | some r =>
          obtain ⟨out1, c2⟩ := r
          rw [hr] at h
          simp only [Option.some.injEq, Prod.mk.injEq] at h
          obtain ⟨a1, a2, a3, a4, a5⟩ := (ih _).2 out1 c2 hr
          rw [← h.1, ← h.2]
          refine ⟨?_, ?_, a3, a4, a5⟩
          · rw [a1]
            simp [transitions, RING_POP]
          · rw [List.append_assoc, a2]
            simp only [RING_POP, pushed]
            cases c.cmd_ring.items with
            | nil => simp
            | cons x rest => simp

/-- C24. On a ring with room, `PushDrawable` (and `PushCursorCmd` on its ring)
appends the item of type `QXL_CMD_DRAW` (`QXL_CMD_CURSOR`) whose `data` is the
physical address of the command, and writes the notify port only when the ring
push reports that notification is due, which is when the ring was empty. Over
every sequence of pushes and device pops that runs through, the port is written
once per empty-to-non-empty transition of the ring, the other ring and port are
untouched, and the items consumed followed by those still queued are the items
queued at first followed by the pushed ones, in push order; the sequence runs
through whenever the capacity covers it. -/
theorem C24_doorbell_once_per_transition (env : Env) (QXL_CMD_DRAW QXL_CMD_CURSOR : Nat)
    (c : Channels) (ops : List CmdOp) :
    (∀ drawable, c.cmd_ring.items.length < c.cmd_ring.num_items →
      ∃ c1, PushDrawable env QXL_CMD_DRAW c drawable = some c1 ∧
        c1.cmd_ring.items = c.cmd_ring.items ++
          [{ type := QXL_CMD_DRAW, data := PA env.main_slot drawable }] ∧
        c1.notify_cmd_port = c.notify_cmd_port + (if c.cmd_ring.items = [] then 1 else 0) ∧
        c1.notify_cursor_port = c.notify_cursor_port ∧ c1.cursor_ring = c.cursor_ring) ∧
    (∀ cursor_cmd, c.cursor_ring.items.length < c.cursor_ring.num_items →
      ∃ c1, PushCursorCmd env QXL_CMD_CURSOR c cursor_cmd = some c1 ∧
        c1.cursor_ring.items = c.cursor_ring.items ++
          [{ type := QXL_CMD_CURSOR, data := PA env.main_slot cursor_cmd }] ∧
        c1.notify_cursor_port =
          c.notify_cursor_port + (if c.cursor_ring.items = [] then 1 else 0) ∧
        c1.notify_cmd_port = c.notify_cmd_port ∧ c1.cmd_ring = c.cmd_ring) ∧
    (c.cmd_ring.items.length + ops.length ≤ c.cmd_ring.num_items →
      ∃ r, runCmdOps env QXL_CMD_DRAW c ops = some r) ∧
    (∀ out c1, runCmdOps env QXL_CMD_DRAW c ops = some (out, c1) →
      c1.notify_cmd_port = c.notify_cmd_port + transitions c.cmd_ring.items.length ops ∧
      out ++ c1.cmd_ring.items = c.cmd_ring.items ++ pushed env QXL_CMD_DRAW ops ∧
      c1.cursor_ring = c.cursor_ring ∧ c1.notify_cursor_port = c.notify_cursor_port) := by
  refine ⟨?_, ?_, (runCmdOps_spec env QXL_CMD_DRAW ops c).1, ?_⟩
  · intro drawable hroom
    exact ⟨_, PushDrawable_spec env QXL_CMD_DRAW c drawable hroom, rfl, rfl, rfl, rfl⟩
  · intro cursor_cmd hroom
    unfold PushCursorCmd RING_IS_FULL
    rw [if_neg (by simp; omega)]
    unfold PUSH_CURSOR_CMD RING_PUSH RING_IS_EMPTY
    cases hi : c.cursor_ring.items with
    | nil => exact ⟨_, rfl, by simp [hi], by simp, by simp, by simp⟩
    | cons a rest => exact ⟨_, rfl, by simp [hi], by simp, by simp, by simp⟩
  · intro out c1 h
    obtain ⟨a1, a2, a3, a4, _⟩ := (runCmdOps_spec env QXL_CMD_DRAW ops c).2 out c1 h
    exact ⟨a1, a2, a3, a4⟩

theorem C24_doorbell_once_per_transition_witness :
    ∃ out c1,
      runCmdOps exampleEnv 1 exampleChannels
        [CmdOp.push 600, CmdOp.push 700, CmdOp.pop, CmdOp.pop, CmdOp.push 800] =
          some (out, c1) ∧
      c1.notify_cmd_port = 2 ∧
      out ++ c1.cmd_ring.items =
        [{ type := 1, data := PA exampleEnv.main_slot 600 },
         { type := 1, data := PA exampleEnv.main_slot 700 },
         { type := 1, data := PA exampleEnv.main_slot 800 }] := by
  obtain ⟨_, _, _, h4⟩ := C24_doorbell_once_per_transition exampleEnv 1 3 exampleChannels
    [CmdOp.push 600, CmdOp.push 700, CmdOp.pop, CmdOp.pop, CmdOp.push 800]
  have hs : (runCmdOps exampleEnv 1 exampleChannels
      [CmdOp.push 600, CmdOp.push 700, CmdOp.pop, CmdOp.pop, CmdOp.push 800]).isSome = true := by
    rfl
  obtain ⟨r, hr⟩ := Option.isSome_iff_exists.mp hs
  obtain ⟨out, c1⟩ := r
  obtain ⟨a1, a2, _⟩ := h4 out c1 hr
  refine ⟨out, c1, hr, ?_, ?_⟩
  · rw [a1]
    rfl
  · rw [a2]
    rfl


/-! ### Compressed-image chunk bookkeeping -/

theorem quic_usr_more_space_inv (env : Env) (s s1 : PDev) (q q1 : QuicData) (rc : Int)
    (h : quic_usr_more_space env s q rc = some (s1, q1)) :
    q1 = { q with prev_chunks_io_words := q.prev_chunks_io_words + q.chunk_io_words
                  chunk := env.alloc s.nalloc
                  chunk_io_words := quic_usr_more_space.alloc_size q rc >>> 2 } ∧
    s1.nalloc = s.nalloc + 1 ∧ s1.images = s.images ∧ s1.heap = s.heap ∧
    (env.alloc s.nalloc ≠ q.chunk →
      (s1.chunks q.chunk).data_size = toU32 (q.chunk_io_words * 4) ∧
      (s1.chunks q.chunk).next_chunk = PA env.main_slot (env.alloc s.nalloc) ∧
      (s1.chunks q.chunk).prev_chunk = (s.chunks q.chunk).prev_chunk ∧
      (s1.chunks (env.alloc s.nalloc)).data_size = 0 ∧
      (s1.chunks (env.alloc s.nalloc)).next_chunk = 0 ∧
      (s1.chunks (env.alloc s.nalloc)).prev_chunk = PA env.main_slot q.chunk) ∧
    (∀ a, a ≠ q.chunk → a ≠ env.alloc s.nalloc → s1.chunks a = s.chunks a) := by
  unfold quic_usr_more_space at h
  split at h
  · cases h
  · cases ha : AllocMem.done env s with
    | none => simp only [ha] at h; cases h
    | some r =>
      obtain ⟨nc, s2⟩ := r
      obtain ⟨hnc, hs2⟩ := AllocMem_done_inv env s s2 nc ha
      simp only [ha, Option.some.injEq, Prod.mk.injEq] at h
      subst hnc
      rw [← h.1, ← h.2, hs2]
      refine ⟨rfl, rfl, rfl, rfl, ?_, ?_⟩
      · intro hne
        have hne' : q.chunk ≠ env.alloc s.nalloc := fun e => hne e.symm
        simp [hne, hne']
      · intro a h1 h2
        simp [h1, h2]

theorem quicCaps_cons (q q1 : QuicData) (rc : Int) (rest : List Int)
    (hr : q1.rows = q.rows) (hrr : q1.raw_row_size = q.raw_row_size)
    (hc : q1.chunk_io_words = quic_usr_more_space.alloc_size q rc >>> 2) :
    quicCaps q (rc :: rest) = q.chunk_io_words :: quicCaps q1 rest := by
  unfold quicCaps
  simp only [List.map_cons, hc, quic_usr_more_space.alloc_size, hr, hrr]

theorem quicCaps_ne_nil (q : QuicData) (ms : List Int) : quicCaps q ms ≠ [] := by
  simp [quicCaps]

theorem GetQuicImage_more_space_spec (env : Env) :
    ∀ (ms : List Int) (s s1 : PDev) (q q1 : QuicData),
      GetQuicImage.more_space env ms s q = some (s1, q1) →
      q.chunk ∉ allocated env.alloc s.nalloc ms.length →
      (allocated env.alloc s.nalloc ms.length).Nodup →
      (s.chunks q.chunk).next_chunk = 0 →
      q1.chunk = (allocated env.alloc s.nalloc ms.length).getLastD q.chunk ∧
      q1.prev_chunks_io_words = q.prev_chunks_io_words + ((quicCaps q ms).dropLast).sum ∧
      q1.chunk_io_words = (quicCaps q ms).getLastD 0 ∧
      q1.rows = q.rows ∧ q1.raw_row_size = q.raw_row_size ∧
      QuicChain env s1.chunks (q.chunk :: allocated env.alloc s.nalloc ms.length)
        ((quicCaps q ms).dropLast) ∧
      (s1.chunks q.chunk).prev_chunk = (s.chunks q.chunk).prev_chunk ∧
      (∀ a, a ≠ q.chunk → a ∉ allocated env.alloc s.nalloc ms.length →
        s1.chunks a = s.chunks a) ∧
      s1.nalloc = s.nalloc + ms.length ∧ s1.images = s.images ∧ s1.heap = s.heap := by
  intro ms
  induction ms with
  | nil =>
    intro s s1 q q1 h _ _ hnext
    simp only [GetQuicImage.more_space, Option.some.injEq, Prod.mk.injEq] at h
    rw [← h.1, ← h.2]
    refine ⟨rfl, by simp [quicCaps], by simp [quicCaps], rfl, rfl, ?_, rfl, fun _ _ _ => rfl,
      rfl, rfl, rfl⟩
    simp only [allocated, List.range_zero, List.map_nil, quicCaps, List.dropLast_single]
    exact hnext
  | cons rc rest ih =>
    intro s s1 q q1 h hnot hnd hnext
    unfold GetQuicImage.more_space at h
    cases hm : quic_usr_more_space env s q rc with
    | none => simp only [hm] at h; cases h
    | some r =>
      obtain ⟨s2, q2⟩ := r
      simp only [hm] at h
      obtain ⟨hq2, hn2, hi2, hh2, hnew, hframe⟩ := quic_usr_more_space_inv env s s2 q q2 rc hm
      rw [List.length_cons, allocated_succ] at hnot hnd ⊢
      have hne : env.alloc s.nalloc ≠ q.chunk := by
        intro e
        exact hnot (by rw [e]; exact List.mem_cons_self _ _)
      obtain ⟨n1, n2, n3, n4, n5, n6⟩ := hnew hne
      have hq2c : q2.chunk = env.alloc s.nalloc := by rw [hq2]
      have hq2r : q2.rows = q.rows := by rw [hq2]
      have hq2rr : q2.raw_row_size = q.raw_row_size := by rw [hq2]
      have hq2w : q2.chunk_io_words = quic_usr_more_space.alloc_size q rc >>> 2 := by rw [hq2]
      have hq2p : q2.prev_chunks_io_words = q.prev_chunks_io_words + q.chunk_io_words := by
        rw [hq2]
      obtain ⟨a1, a2, a3, a4, a5, a6, a7, a8, a9, a10, a11⟩ := ih s2 s1 q2 q1 h
        (by rw [hq2c, hn2]; exact (List.nodup_cons.mp hnd).1)
        (by rw [hn2]; exact (List.nodup_cons.mp hnd).2)
        (by rw [hq2c]; exact n5)
      rw [hn2, hq2c] at a1 a6 a8
      rw [hq2c] at a7
      have hcaps := quicCaps_cons q q2 rc rest hq2r hq2rr hq2w
      have hq_notin : q.chunk ∉ allocated env.alloc (s.nalloc + 1) rest.length := fun hin =>
        hnot (List.mem_cons_of_mem _ hin)
      have hq_same : s1.chunks q.chunk = s2.chunks q.chunk :=
        a8 q.chunk (fun e => hne e.symm) hq_notin
      refine ⟨?_, ?_, ?_, a4.trans hq2r, a5.trans hq2rr, ?_, ?_, ?_, ?_, a10.trans hi2,
        a11.trans hh2⟩
      · rw [a1]
        cases allocated env.alloc (s.nalloc + 1) rest.length with
        | nil => rfl
        | cons x xs => rfl
      · rw [a2, hq2p, hcaps, List.dropLast_cons_of_ne_nil (quicCaps_ne_nil q2 rest),
          List.sum_cons]
        omega
      · rw [a3, hcaps]
        cases hqc : quicCaps q2 rest with
        | nil => exact absurd hqc (quicCaps_ne_nil q2 rest)
        | cons x xs => simp [List.getLastD_cons]
      · rw [hcaps, List.dropLast_cons_of_ne_nil (quicCaps_ne_nil q2 rest)]
        exact ⟨by rw [hq_same]; exact n1, by rw [hq_same]; exact n2, by rw [a7]; exact n6, a6⟩
      · rw [hq_same]
        exact n3
      · intro a h1 h2
        have h3 : a ≠ env.alloc s.nalloc := fun e => h2 (by rw [e]; exact List.mem_cons_self _ _)
        have h4 : a ∉ allocated env.alloc (s.nalloc + 1) rest.length := fun hin =>
          h2 (List.mem_cons_of_mem _ hin)
        rw [a8 a h3 h4]
        exact hframe a h1 h3
      · rw [a9, hn2]
        omega

theorem QuicChain_congr (env : Env) (m1 m2 : ChunkMem) :
    ∀ (chain : List Nat) (caps : List Int),
      (∀ a, (m2 a).next_chunk = (m1 a).next_chunk ∧ (m2 a).prev_chunk = (m1 a).prev_chunk) →
      (∀ a ∈ chain.dropLast, (m2 a).data_size = (m1 a).data_size) →
      QuicChain env m1 chain caps → QuicChain env m2 chain caps := by
  intro chain
  induction chain with
  | nil => intro caps _ _ h; cases caps <;> simp [QuicChain] at h
  | cons c rest ih =>
    intro caps hl hd h
    cases rest with
    | nil =>
      cases caps with
      | nil =>
        simp only [QuicChain] at h ⊢
        rw [(hl c).1]
        exact h
      | cons cap caps => simp [QuicChain] at h
    | cons d rest2 =>
      cases caps with
      | nil => simp [QuicChain] at h
      | cons cap caps =>
        simp only [QuicChain] at h ⊢
        obtain ⟨h1, h2, h3, h4⟩ := h
        refine ⟨?_, ?_, ?_, ih caps hl ?_ h4⟩
        · rw [hd c (by simp)]
          exact h1
        · rw [(hl c).1]
          exact h2
        · rw [(hl d).2]
          exact h3
        · intro a ha
          exact hd a (by
            rw [List.dropLast_cons_of_ne_nil (by simp)]
            exact List.mem_cons_of_mem _ ha)

theorem QuicChain_sizes (env : Env) (mem : ChunkMem) :
    ∀ (chain : List Nat) (caps : List Int), QuicChain env mem chain caps →
      chain.dropLast.map (fun c => (mem c).data_size) = caps.map (fun cap => toU32 (cap * 4)) := by
  intro chain
  induction chain with
  | nil => intro caps h; cases caps <;> simp [QuicChain] at h
  | cons c rest ih =>
    intro caps h
    cases rest with
    | nil =>
      cases caps with
      | nil => simp
      | cons cap caps => simp [QuicChain] at h
    | cons d rest2 =>
      cases caps with
      | nil => simp [QuicChain] at h
      | cons cap caps =>
        simp only [QuicChain] at h
        obtain ⟨h1, _, _, h4⟩ := h
        rw [List.dropLast_cons_of_ne_nil (by simp), List.map_cons, List.map_cons, h1, ih caps h4]

theorem shiftRight_two_nonneg (m : Int) (h : 0 ≤ m) : 0 ≤ m >>> 2 := by
  cases m with
  | ofNat k =>
    have e : ((k : Nat) : Int) >>> ((2 : Nat) : Int) = ((k >>> 2 : Nat) : Int) :=
      Int.shiftRight_coe_nat k 2
    have e1 : Int.ofNat k >>> (2 : Int) = ((k >>> 2 : Nat) : Int) := e
    rw [e1]
    exact Int.ofNat_nonneg _
  | negSucc k => exact absurd h (by simp)

theorem quicCaps_nonneg (q : QuicData) (ms : List Int) (h0 : 0 ≤ q.chunk_io_words) :
    ∀ cap ∈ quicCaps q ms, 0 ≤ cap := by
  intro cap hc
  unfold quicCaps at hc
  rcases List.mem_cons.mp hc with e | e
  · rw [e]; exact h0
  · obtain ⟨rc, _, hrc⟩ := List.mem_map.mp e
    rw [← hrc]
    apply shiftRight_two_nonneg
    unfold quic_usr_more_space.alloc_size
    exact le_min (le_trans (by decide) (le_max_right _ _)) (by decide)

theorem GetQuicImage_success (env : Env) (fuel : Nat) (s s1 : PDev) (surf : SURFOBJ)
    (cache_me : Bool) (width height : Int) (format : Nat) (src : Int)
    (line_size key image_res W : Nat)
    (hcomp : env.compression_level ≠ 0)
    (htype : GetQuicImageType env.consts format ≠ env.consts.QUIC_IMAGE_TYPE_INVALID)
    (hW : (env.quic_encode (GetQuicImageType env.consts format) width height src surf.lDelta
      (GetQuicImage.quic_data env (env.alloc s.nalloc) height
        line_size).chunk_io_words.toNat).result = some W)
    (h : GetQuicImage env fuel s surf cache_me width height format src line_size key =
      some (image_res, s1)) :
    image_res = env.alloc s.nalloc ∧
    0 < (GetQuicImage.quic_data env (env.alloc s.nalloc) height line_size).chunk_io_words ∧
    ∃ s2 s3 q1,
      s2.nalloc = s.nalloc + 1 ∧
      (s2.chunks (GetQuicImage.quic_data env (env.alloc s.nalloc) height
        line_size).chunk).next_chunk = 0 ∧
      (s2.chunks (GetQuicImage.quic_data env (env.alloc s.nalloc) height
        line_size).chunk).prev_chunk = 0 ∧
      GetQuicImage.more_space env
        (env.quic_encode (GetQuicImageType env.consts format) width height src surf.lDelta
          (GetQuicImage.quic_data env (env.alloc s.nalloc) height
            line_size).chunk_io_words.toNat).more_space s2
        (GetQuicImage.quic_data env (env.alloc s.nalloc) height line_size) = some (s3, q1) ∧
      s1.chunks = (fun a =>
        if a = q1.chunk then
          { s3.chunks a with
            data_size := toU32 (((W : Int) - q1.prev_chunks_io_words) * 4) }
        else s3.chunks a) ∧
      (s1.images (env.alloc s.nalloc + env.layout.sizeof_Resource)).quic_data_size =
        toU32 ((W : Int) * 4) := by
  unfold GetQuicImage at h
  rw [if_neg hcomp, if_neg htype] at h
  cases ha : AllocMem.done env s with
  | none => simp only [ha] at h; cases h
  | some p =>
    obtain ⟨res, s2⟩ := p
    obtain ⟨hr, hs2⟩ := AllocMem_done_inv env s s2 res ha
    subst hr
    simp only [ha] at h
    split at h
    · cases h
    · rename_i hpos
      split at h
      · cases h
      · rename_i s3 q1 hms
        rw [hW] at h
        simp only [Option.some.injEq, Prod.mk.injEq] at h
        refine ⟨h.1.symm, by omega, _, s3, q1, ?_, ?_, ?_, hms, ?_, ?_⟩
        · show s2.nalloc = _
          rw [hs2]
        · simp [GetQuicImage.quic_data]
        · simp [GetQuicImage.quic_data]
        · rw [← h.2]
        · rw [← h.2]
          simp

theorem getLast_cons_getLastD (x : Nat) (l : List Nat) (hne : x :: l ≠ []) :
    (x :: l).getLast hne = l.getLastD x := by
  cases l with
  | nil => rfl
  | cons y ys => rfl

/-- C28. When `GetQuicImage` returns an image after a codec run that made the
callbacks `ms` (`m >= 0` of them) and returned `W` words, and the blocks handed
out for the new chunks are distinct from one another and from the image's own
chunk: the chunks are the embedded one followed by the `m` new ones, doubly
linked through their physical addresses, the first with `prev_chunk = 0` and
the last with `next_chunk = 0`; every chunk filled before a callback has
`data_size` 4 times its capacity in words; the last one has
`data_size = 4 * (W - prev_chunks_io_words)`, where `prev_chunks_io_words` is the
sum of those capacities; `image.quic.data_size = 4 * W`; and the `data_size`s of
the chain add up to `4 * W`. The `UINT32` fields hold these values exactly when
the filled chunks do not exceed `W` words and `4 * W < 2^32`. -/
theorem C28_GetQuicImage_chunk_bookkeeping (env : Env) (fuel : Nat) (s s1 : PDev)
    (surf : SURFOBJ) (cache_me : Bool) (width height : Int) (format : Nat) (src : Int)
    (line_size key image_res W : Nat) (ms : List Int)
    (hcomp : env.compression_level ≠ 0)
    (htype : GetQuicImageType env.consts format ≠ env.consts.QUIC_IMAGE_TYPE_INVALID)
    (hms : (env.quic_encode (GetQuicImageType env.consts format) width height src surf.lDelta
      (GetQuicImage.quic_data env (env.alloc s.nalloc) height
        line_size).chunk_io_words.toNat).more_space = ms)
    (hW : (env.quic_encode (GetQuicImageType env.consts format) width height src surf.lDelta
      (GetQuicImage.quic_data env (env.alloc s.nalloc) height
        line_size).chunk_io_words.toNat).result = some W)
    (hfresh : (GetQuicImage.quic_data env (env.alloc s.nalloc) height line_size).chunk ∉
      allocated env.alloc (s.nalloc + 1) ms.length)
    (hnd : (allocated env.alloc (s.nalloc + 1) ms.length).Nodup)
    (h : GetQuicImage env fuel s surf cache_me width height format src line_size key =
      some (image_res, s1)) :
    image_res = env.alloc s.nalloc ∧
    QuicChain env s1.chunks
      ((GetQuicImage.quic_data env image_res height line_size).chunk ::
        allocated env.alloc (s.nalloc + 1) ms.length)
      (quicCaps (GetQuicImage.quic_data env image_res height line_size) ms).dropLast ∧
    (s1.chunks (GetQuicImage.quic_data env image_res height line_size).chunk).prev_chunk = 0 ∧
    (s1.chunks ((allocated env.alloc (s.nalloc + 1) ms.length).getLastD
        (GetQuicImage.quic_data env image_res height line_size).chunk)).data_size =
      toU32 (((W : Int) -
        (quicCaps (GetQuicImage.quic_data env image_res height line_size) ms).dropLast.sum)
          * 4) ∧
    (s1.images (image_res + env.layout.sizeof_Resource)).quic_data_size = toU32 ((W : Int) * 4) ∧
    ((quicCaps (GetQuicImage.quic_data env image_res height line_size) ms).dropLast.sum ≤
        (W : Int) → 4 * W < UINT32_MOD →
      ((((GetQuicImage.quic_data env image_res height line_size).chunk ::
          allocated env.alloc (s.nalloc + 1) ms.length).map
            (fun c => (((s1.chunks c).data_size : Nat) : Int))).sum = 4 * (W : Int) ∧
      (s1.images (image_res + env.layout.sizeof_Resource)).quic_data_size = 4 * W)) := by
  obtain ⟨hres, hpos, s2, s3, q1, hn2, hnx, hpv, hrun, hch, himg⟩ :=
    GetQuicImage_success env fuel s s1 surf cache_me width height format src line_size key
      image_res W hcomp htype hW h
  subst hres
  rw [hms] at hrun
  generalize hq0 : GetQuicImage.quic_data env (env.alloc s.nalloc) height line_size = q0 at *
  obtain ⟨a1, a2, _, _, _, a6, a7, _, _, _, _⟩ := GetQuicImage_more_space_spec env ms s2 s3 q0 q1
    hrun (by rw [hn2]; exact hfresh) (by rw [hn2]; exact hnd) hnx
  rw [hn2] at a1 a6
  have hq0p : q0.prev_chunks_io_words = 0 := by rw [← hq0]; rfl
  rw [hq0p, Int.zero_add] at a2
  -- the chain has no repetition, so the last chunk is none of the filled ones
  have hndc : (q0.chunk :: allocated env.alloc (s.nalloc + 1) ms.length).Nodup :=
    List.nodup_cons.mpr ⟨hfresh, hnd⟩
  have hlast : ∀ (hne : q0.chunk :: allocated env.alloc (s.nalloc + 1) ms.length ≠ []),
      (q0.chunk :: allocated env.alloc (s.nalloc + 1) ms.length).getLast hne = q1.chunk := by
    intro hne
    rw [a1]
    exact getLast_cons_getLastD _ _ hne
  have hsplit := List.dropLast_append_getLast
    (List.cons_ne_nil q0.chunk (allocated env.alloc (s.nalloc + 1) ms.length))
  rw [hlast] at hsplit
  have hnotin : q1.chunk ∉
      (q0.chunk :: allocated env.alloc (s.nalloc + 1) ms.length).dropLast := by
    intro hin
    rw [← hsplit] at hndc
    exact (List.nodup_append.mp hndc).2.2 hin (List.mem_singleton_self _)
  have hchain : QuicChain env s1.chunks
      (q0.chunk :: allocated env.alloc (s.nalloc + 1) ms.length) (quicCaps q0 ms).dropLast := by
    apply QuicChain_congr env s3.chunks s1.chunks _ _ _ _ a6
    · intro a
      rw [hch]
      by_cases ha : a = q1.chunk <;> simp [ha]
    · intro a ha
      rw [hch]
      have : a ≠ q1.chunk := fun e => hnotin (e ▸ ha)
      simp [this]
  have hlastsize : (s1.chunks q1.chunk).data_size =
      toU32 (((W : Int) - (quicCaps q0 ms).dropLast.sum) * 4) := by
    rw [hch, ← a2]
    simp
  have hprev : (s1.chunks q0.chunk).prev_chunk = 0 := by
    rw [hch]
    by_cases he : q0.chunk = q1.chunk
    · simp only [he, if_true]
      rw [← he, a7]
      exact hpv
    · simp only [he, if_false]
      rw [a7]
      exact hpv
  refine ⟨rfl, hchain, hprev, by rw [← a1]; exact hlastsize, himg, ?_⟩
  intro hle hlt
  have hnn := quicCaps_nonneg q0 ms (le_of_lt hpos)
  have hM : ((UINT32_MOD : Nat) : Int) = 4294967296 := rfl
  have hexact : ∀ (l : List Int), (∀ cap ∈ l, 0 ≤ cap) → l.sum ≤ (W : Int) →
      ((l.map (fun cap => toU32 (cap * 4))).map (fun (n : Nat) => (n : Int))).sum = 4 * l.sum := by
    intro l
    induction l with
    | nil => intro _ _; simp
    | cons x xs ihx =>
      intro hpos hsum
      have hx : 0 ≤ x := hpos x (List.mem_cons_self _ _)
      have hxs : ∀ cap ∈ xs, 0 ≤ cap := fun c hc => hpos c (List.mem_cons_of_mem _ hc)
      have hs0 : 0 ≤ xs.sum := List.sum_nonneg hxs
      rw [List.sum_cons] at hsum
      rw [List.map_cons, List.map_cons, List.sum_cons, List.sum_cons, ihx hxs (by omega)]
      have : ((toU32 (x * 4) : Nat) : Int) = x * 4 := by
        unfold toU32
        rw [Int.toNat_of_nonneg (Int.emod_nonneg _ (by decide)),
          Int.emod_eq_of_lt (by omega) (by omega)]
      rw [this]
      omega
  have hdl : ∀ cap ∈ (quicCaps q0 ms).dropLast, 0 ≤ cap := fun c hc =>
    hnn c (List.dropLast_subset _ hc)
  have hs0 : 0 ≤ (quicCaps q0 ms).dropLast.sum := List.sum_nonneg hdl
  constructor
  · rw [← hsplit, List.map_append, List.sum_append, List.map_singleton, List.sum_singleton,
      hlastsize]
    have e1 := QuicChain_sizes env s1.chunks _ _ hchain
    have e2 : ((q0.chunk :: allocated env.alloc (s.nalloc + 1) ms.length).dropLast.map
        (fun c => (((s1.chunks c).data_size : Nat) : Int))) =
        (((q0.chunk :: allocated env.alloc (s.nalloc + 1) ms.length).dropLast.map
          (fun c => (s1.chunks c).data_size)).map (fun (n : Nat) => (n : Int))) := by
      rw [List.map_map]
      rfl
    rw [e2, e1, hexact _ hdl hle]
    have : ((toU32 (((W : Int) - (quicCaps q0 ms).dropLast.sum) * 4) : Nat) : Int) =
        ((W : Int) - (quicCaps q0 ms).dropLast.sum) * 4 := by
      unfold toU32
      rw [Int.toNat_of_nonneg (Int.emod_nonneg _ (by decide)),
        Int.emod_eq_of_lt (by omega) (by omega)]
    rw [this]
    omega
  · rw [himg]
    unfold toU32
    have : ((W : Int) * 4) % 4294967296 = ((4 * W : Nat) : Int) := by
      rw [Int.emod_eq_of_lt (by omega) (by omega)]
      push_cast
      omega
    rw [this]
    exact Int.toNat_ofNat _

theorem C28_GetQuicImage_chunk_bookkeeping_witness :
    ∃ s1, GetQuicImage quicOkEnv 5 examplePDev exampleSurf true 2 2 8 0 8 77 =
        some (8192, s1) ∧
      (quicCaps (GetQuicImage.quic_data quicOkEnv 8192 2 8) [0, 1]).dropLast = [262, 256] ∧
      (([8238, 8448, 8704] : List Nat).map
        (fun c => (((s1.chunks c).data_size : Nat) : Int))).sum = 4 * 600 ∧
      (s1.images (8192 + quicOkEnv.layout.sizeof_Resource)).quic_data_size = 4 * 600 := by
  have hb : (GetQuicImage quicOkEnv 5 examplePDev exampleSurf true 2 2 8 0 8 77).map
      (fun r => r.1) = some 8192 := by rfl
  obtain ⟨r, hr, h1⟩ := Option.map_eq_some'.mp hb
  obtain ⟨res, s1⟩ := r
  have hres : res = 8192 := h1
  subst hres
  obtain ⟨_, _, _, _, _, h6⟩ := C28_GetQuicImage_chunk_bookkeeping quicOkEnv 5 examplePDev s1
    exampleSurf true 2 2 8 0 8 77 8192 600 [0, 1] (by decide) (by decide) rfl rfl (by decide)
    (by decide) hr
  obtain ⟨e1, e2⟩ := h6 (by decide) (by decide)
  exact ⟨s1, hr, by decide, e1, e2⟩


/-! ### Raw bitmap rows -/

theorem aligned_rows (R ls : Nat) (hls : 0 < ls) (hR : ls ∣ R) :
    min (R + ls - 1) BITS_BUF_MAX - min (R + ls - 1) BITS_BUF_MAX % ls =
      min R (BITS_BUF_MAX - BITS_BUF_MAX % ls) := by
  obtain ⟨k, rfl⟩ := hR
  have hM : BITS_BUF_MAX - BITS_BUF_MAX % ls = ls * (BITS_BUF_MAX / ls) := by
    have := Nat.div_add_mod BITS_BUF_MAX ls
    omega
  rw [hM]
  by_cases hc : ls * k + ls - 1 ≤ BITS_BUF_MAX
  · rw [Nat.min_eq_left hc]
    have h1 : (ls * k + ls - 1) % ls = ls - 1 := by
      have : ls * k + ls - 1 = ls - 1 + ls * k := by omega
      rw [this, Nat.add_mul_mod_self_left, Nat.mod_eq_of_lt (by omega)]
    rw [h1]
    have h2 : ls * k ≤ ls * (BITS_BUF_MAX / ls) := by
      apply Nat.mul_le_mul_left
      rw [Nat.le_div_iff_mul_le hls]
      rw [Nat.mul_comm]
      omega
    rw [Nat.min_eq_left h2]
    omega
  · rw [Nat.min_eq_right (by omega)]
    have h2 : ls * (BITS_BUF_MAX / ls) ≤ ls * k := by
      have hdm := Nat.div_add_mod BITS_BUF_MAX ls
      have hlt := Nat.mod_lt BITS_BUF_MAX hls
      by_contra hcon
      have hlt2 : k < BITS_BUF_MAX / ls := by
        by_contra hk
        exact hcon (Nat.mul_le_mul_left _ (Nat.le_of_not_lt hk))
      have : ls * (k + 1) ≤ ls * (BITS_BUF_MAX / ls) := Nat.mul_le_mul_left _ hlt2
      have e : ls * (k + 1) = ls * k + ls := by ring
      omega
    rw [Nat.min_eq_right h2]
    have := Nat.div_add_mod BITS_BUF_MAX ls
    omega

theorem rowPiece_spec (ls : Nat) (hls0 : 0 < ls) (hls : ls < BITS_BUF_MAX) :
    ls ∣ BITS_BUF_MAX - BITS_BUF_MAX % ls ∧ ls ≤ BITS_BUF_MAX - BITS_BUF_MAX % ls ∧
      BITS_BUF_MAX - BITS_BUF_MAX % ls ≤ BITS_BUF_MAX := by
  have hdm := Nat.div_add_mod BITS_BUF_MAX ls
  have hM : BITS_BUF_MAX - BITS_BUF_MAX % ls = ls * (BITS_BUF_MAX / ls) := by omega
  refine ⟨⟨BITS_BUF_MAX / ls, hM⟩, ?_, Nat.sub_le _ _⟩
  rw [hM]
  have h1 : 1 ≤ BITS_BUF_MAX / ls := by
    rw [Nat.le_div_iff_mul_le hls0]
    omega
  calc ls = ls * 1 := (Nat.mul_one ls).symm
    _ ≤ ls * (BITS_BUF_MAX / ls) := Nat.mul_le_mul_left _ h1

theorem GreedyPrefix_snoc (M : Nat) : ∀ (l : List Nat) (T : Nat),
    GreedyPrefix M T l → l.sum < T → GreedyPrefix M T (l ++ [min (T - l.sum) M]) := by
  intro l
  induction l with
  | nil =>
    intro T _ h
    simp only [List.sum_nil] at h
    simpa [GreedyPrefix] using h
  | cons z rest ih =>
    intro T h hs
    obtain ⟨h0, hz, hr⟩ := h
    simp only [List.sum_cons] at hs
    have hzT : z ≤ T := by rw [hz]; exact Nat.min_le_left _ _
    have := ih (T - z) hr (by omega)
    simp only [List.cons_append, GreedyPrefix, List.sum_cons]
    refine ⟨h0, hz, ?_⟩
    have e : T - (z + rest.sum) = T - z - rest.sum := by omega
    rw [e]
    exact this

theorem GreedyPrefix_full (M : Nat) : ∀ (l : List Nat) (T : Nat),
    GreedyPrefix M T l → l.sum = T → GreedySizes M T l := by
  intro l
  induction l with
  | nil =>
    intro T _ h
    simp only [List.sum_nil] at h
    exact h.symm
  | cons z rest ih =>
    intro T h hs
    obtain ⟨h0, hz, hr⟩ := h
    simp only [List.sum_cons] at hs
    exact ⟨h0, hz, ih (T - z) hr (by omega)⟩

theorem GreedySizes_bounds (M ls : Nat) (hM : ls ∣ M) (hM0 : 0 < M) : ∀ (l : List Nat) (T : Nat),
    ls ∣ T → GreedySizes M T l → ∀ z, z ∈ l → ls ∣ z ∧ 0 < z ∧ z ≤ M := by
  intro l
  induction l with
  | nil => intro T _ _ z hz; cases hz
  | cons y rest ih =>
    intro T hT h z hz
    obtain ⟨h0, hy, hr⟩ := h
    have hdy : ls ∣ y := by
      rw [hy]
      rcases Nat.le_total T M with hc | hc
      · rw [Nat.min_eq_left hc]; exact hT
      · rw [Nat.min_eq_right hc]; exact hM
    rcases List.mem_cons.mp hz with e | e
    · subst e
      refine ⟨hdy, ?_, by rw [hy]; exact Nat.min_le_right _ _⟩
      rw [hy]
      exact Nat.lt_min.mpr ⟨h0, hM0⟩
    · exact ih (T - y) (Nat.dvd_sub' hT hdy) hr z e

theorem Linked_congr (p_slot : PMemSlot) (m1 m2 : ChunkMem) : ∀ (L : List Nat) (c : Nat),
    (∀ a, a ∈ (c :: L).dropLast → (m2 a).next_chunk = (m1 a).next_chunk) →
    (∀ a, a ∈ L → (m2 a).prev_chunk = (m1 a).prev_chunk) →
    Linked p_slot m1 c L → Linked p_slot m2 c L := by
  intro L
  induction L with
  | nil => intro c _ _ _; trivial
  | cons a rest ih =>
    intro c hn hp h
    obtain ⟨h1, h2, h3⟩ := h
    refine ⟨?_, ?_, ih a ?_ ?_ h3⟩
    · rw [hn c (by simp [List.dropLast])]; exact h1
    · rw [hp a (by simp)]; exact h2
    · intro b hb
      exact hn b (by
        rw [List.dropLast_cons_of_ne_nil (by simp)]
        exact List.mem_cons_of_mem _ hb)
    · intro b hb
      exact hp b (List.mem_cons_of_mem _ hb)

theorem Linked_snoc (p_slot : PMemSlot) (mem : ChunkMem) (new : Nat) : ∀ (L : List Nat) (c : Nat),
    Linked p_slot mem c L → (mem (L.getLastD c)).next_chunk = PA p_slot new →
    (mem new).prev_chunk = PA p_slot (L.getLastD c) → Linked p_slot mem c (L ++ [new]) := by
  intro L
  induction L with
  | nil =>
    intro c _ h1 h2
    exact ⟨h1, h2, trivial⟩
  | cons a rest ih =>
    intro c h h1 h2
    obtain ⟨e1, e2, e3⟩ := h
    refine ⟨e1, e2, ih a e3 ?_ ?_⟩
    · cases rest with
      | nil => exact h1
      | cons b bs => exact h1
    · cases rest with
      | nil => exact h2
      | cons b bs => exact h2

theorem chain_split (c0 : Nat) (L : List Nat) (hnd : (c0 :: L).Nodup) :
    (c0 :: L).dropLast ++ [L.getLastD c0] = c0 :: L ∧ L.getLastD c0 ∉ (c0 :: L).dropLast := by
  have e : (c0 :: L).dropLast ++ [L.getLastD c0] = c0 :: L := by
    rw [← getLast_cons_getLastD c0 L (by simp)]
    exact List.dropLast_append_getLast _
  refine ⟨e, ?_⟩
  rw [← e] at hnd
  intro hin
  have := (List.nodup_append.mp hnd).2.2
  exact this hin (by simp)

theorem flatMap_chunkData_length (mem : ChunkMem) (C : List Nat) :
    (C.flatMap (fun a => chunkData (mem a))).length = (C.map (fun a => (mem a).data_size)).sum := by
  induction C with
  | nil => rfl
  | cons a rest ih =>
    simp only [List.flatMap_cons, List.length_append, List.map_cons, List.sum_cons, ih,
      chunkData_length]

theorem PutBytesAlign_loop_zero (p_slot : PMemSlot) (alloc : Nat → Nat) (alloc_size alignment : Nat)
    (fuel : Nat) (st : Encoder) (src : List Nat) :
    PutBytesAlign.loop p_slot alloc alloc_size alignment fuel st src 0 = some st := by
  cases fuel <;> simp [PutBytesAlign.loop]


theorem flatMap_chunkData_congr (m1 m2 : ChunkMem) (C : List Nat)
    (h : ∀ a, a ∈ C → chunkData (m2 a) = chunkData (m1 a)) :
    C.flatMap (fun a => chunkData (m2 a)) = C.flatMap (fun a => chunkData (m1 a)) := by
  induction C with
  | nil => rfl
  | cons a rest ih =>
    simp only [List.flatMap_cons]
    rw [h a (by simp), ih (fun b hb => h b (List.mem_cons_of_mem _ hb))]

theorem chain_nodup (alloc : Nat → Nat) (c0 n0 K m : Nat) (hm : m ≤ K)
    (hfresh : ∀ i, i < K → alloc (n0 + i) ≠ c0)
    (hinj : ∀ i j, i < K → j < K → alloc (n0 + i) = alloc (n0 + j) → i = j) :
    (c0 :: allocated alloc n0 m).Nodup := by
  rw [List.nodup_cons]
  constructor
  · intro hin
    simp only [allocated, List.mem_map, List.mem_range] at hin
    obtain ⟨i, hi, e⟩ := hin
    exact hfresh i (by omega) e
  · apply List.Nodup.map_on _ (List.nodup_range m)
    intro i hi j hj e
    exact hinj i j (by have := List.mem_range.mp hi; omega)
      (by have := List.mem_range.mp hj; omega) e

theorem RowsInv_chunks_le (ls T m : Nat) (hls0 : 0 < ls) (hls : ls < BITS_BUF_MAX)
    (hm : m = 0 ∨ m * (BITS_BUF_MAX - BITS_BUF_MAX % ls) < T) :
    m ≤ (T - 1) / (BITS_BUF_MAX - BITS_BUF_MAX % ls) := by
  have hM := (rowPiece_spec ls hls0 hls).2.1
  generalize BITS_BUF_MAX - BITS_BUF_MAX % ls = M at hm hM
  rcases hm with h | h
  · rw [h]
    exact Nat.zero_le _
  · rw [Nat.le_div_iff_mul_le (by omega)]
    omega

theorem RowsInv_copy (env : Env) (ls T c0 n0 : Nat) (st : Encoder) (written row : List Nat)
    (hfresh : ∀ i, i < (T - 1) / (BITS_BUF_MAX - BITS_BUF_MAX % ls) → env.alloc (n0 + i) ≠ c0)
    (hinj : ∀ i j, i < (T - 1) / (BITS_BUF_MAX - BITS_BUF_MAX % ls) →
      j < (T - 1) / (BITS_BUF_MAX - BITS_BUF_MAX % ls) →
      env.alloc (n0 + i) = env.alloc (n0 + j) → i = j)
    (hls0 : 0 < ls) (hls : ls < BITS_BUF_MAX)
    (hrow : row.length = ls) (hroom : st.now + ls ≤ st.end_)
    (h : RowsInv env ls T c0 n0 st written) :
    RowsInv env ls T c0 n0 (copyToChunk st row ls) (written ++ row) := by
  obtain ⟨m, hn, hc, hl, hnx, hpv, hds, hle, hd1, hd2, hdw, hw, hsum, hm, hg⟩ := h
  have hmK := RowsInv_chunks_le ls T m hls0 hls hm
  have hnd := chain_nodup env.alloc c0 n0 _ m hmK hfresh hinj
  obtain ⟨hsplit, hnotin⟩ := chain_split c0 _ hnd
  rw [← hc] at hsplit hnotin
  have hlink : ∀ a, ((copyToChunk st row ls).mem a).next_chunk = (st.mem a).next_chunk ∧
      ((copyToChunk st row ls).mem a).prev_chunk = (st.mem a).prev_chunk := by
    intro a
    by_cases ha : a = st.chunk
    · rw [ha]
      exact ⟨(copyToChunk_mem_self st row ls).2.1, (copyToChunk_mem_self st row ls).2.2.1⟩
    · rw [copyToChunk_mem_other st row ls a ha]
      exact ⟨rfl, rfl⟩
  have hother : ∀ a, a ∈ (c0 :: allocated env.alloc n0 m).dropLast →
      (copyToChunk st row ls).mem a = st.mem a := by
    intro a ha
    exact copyToChunk_mem_other st row ls a (fun e => hnotin (e ▸ ha))
  have hlast : chunkData ((copyToChunk st row ls).mem st.chunk) =
      chunkData (st.mem st.chunk) ++ row := by
    unfold chunkData
    rw [(copyToChunk_mem_self st row ls).1, dataSlice_add, hds, Nat.zero_add]
    congr 1
    · exact dataSlice_congr _ _ 0 st.now (fun i hi =>
        (copyToChunk_mem_self st row ls).2.2.2.1 i (by omega))
    · rw [dataSlice_eq_take _ st.now ls row (by omega) (copyToChunk_mem_self st row ls).2.2.2.2]
      exact List.take_of_length_le (by omega)
  refine ⟨m, hn, hc, Linked_congr _ _ _ _ _ (fun a _ => (hlink a).1) (fun a _ => (hlink a).2) hl,
    ?_, ?_, ?_, hroom, ?_, hd2, ?_, ?_, ?_, hm, ?_⟩
  · show ((copyToChunk st row ls).mem st.chunk).next_chunk = 0
    rw [(hlink _).1]
    exact hnx
  · rw [(hlink _).2]
    exact hpv
  · show ((copyToChunk st row ls).mem st.chunk).data_size = st.now + ls
    rw [(copyToChunk_mem_self st row ls).1, hds]
  · show ls ∣ st.now + ls
    exact Nat.dvd_add hd1 (Nat.dvd_refl _)
  · rw [List.length_append, hrow]
    exact Nat.dvd_add hdw (Nat.dvd_refl _)
  · rw [← hw]
    generalize hD : (c0 :: allocated env.alloc n0 m).dropLast = D at hsplit hother
    rw [← hsplit]
    simp only [List.flatMap_append, List.flatMap_cons, List.flatMap_nil, List.append_nil]
    rw [hlast, flatMap_chunkData_congr st.mem _ D (fun a ha => by rw [hother a ha]),
      List.append_assoc]
  · rw [List.length_append, hrow]
    show written.length + ls + (st.end_ - (st.now + ls)) = _
    rw [← hsum]
    omega
  · show GreedyPrefix _ _ (_ ++ [st.end_])
    rw [List.map_congr_left (fun a ha => by rw [hother a ha])]
    exact hg


theorem RowsInv_new (env : Env) (ls T c0 n0 : Nat) (st : Encoder) (written : List Nat)
    (hfresh : ∀ i, i < (T - 1) / (BITS_BUF_MAX - BITS_BUF_MAX % ls) → env.alloc (n0 + i) ≠ c0)
    (hinj : ∀ i j, i < (T - 1) / (BITS_BUF_MAX - BITS_BUF_MAX % ls) →
      j < (T - 1) / (BITS_BUF_MAX - BITS_BUF_MAX % ls) →
      env.alloc (n0 + i) = env.alloc (n0 + j) → i = j)
    (hls0 : 0 < ls) (hls : ls < BITS_BUF_MAX) (hlsT : ls ∣ T)
    (hfull : st.now = st.end_) (hrem : written.length < T)
    (h : RowsInv env ls T c0 n0 st written) :
    RowsInv env ls T c0 n0
      (NEW_DATA_CHUNK env.main_slot env.alloc st
        (min (T - written.length) (BITS_BUF_MAX - BITS_BUF_MAX % ls))) written := by
  unfold RowsInv
  obtain ⟨m, hn, hc, hl, hnx, hpv, hds, hle, hd1, hd2, hdw, hw, hsum, hm, hg⟩ := h
  obtain ⟨hMd, hMl, hMu⟩ := rowPiece_spec ls hls0 hls
  generalize hMdef : BITS_BUF_MAX - BITS_BUF_MAX % ls = M at *
  have hwl : written.length = (m + 1) * M ∧ (m + 1) * M < T := by
    rw [hfull, Nat.sub_self, Nat.add_zero] at hsum
    rw [Nat.min_def] at hsum
    split at hsum
    · omega
    · exact ⟨hsum, by omega⟩
  have hm1 : (m + 1 = 0 ∨ (m + 1) * M < T) := Or.inr hwl.2
  have hmK1 : m + 1 ≤ (T - 1) / M := by
    rw [← hMdef]
    exact RowsInv_chunks_le ls T (m + 1) hls0 hls (by rw [hMdef]; exact hm1)
  have hnd1 := chain_nodup env.alloc c0 n0 _ (m + 1) hmK1 hfresh hinj
  rw [allocated_snoc, ← List.cons_append] at hnd1
  have hnd : (c0 :: allocated env.alloc n0 m).Nodup := (List.nodup_append.mp hnd1).1
  have hnew : ∀ a, a ∈ c0 :: allocated env.alloc n0 m → a ≠ env.alloc st.nalloc := by
    intro a ha e
    rw [hn] at e
    exact (List.nodup_append.mp hnd1).2.2 ha (by rw [e]; simp)
  obtain ⟨hsplit, hnotin⟩ := chain_split c0 _ hnd
  rw [← hc] at hsplit hnotin
  have hcin : st.chunk ∈ c0 :: allocated env.alloc n0 m := by
    rw [← hsplit]
    simp
  have hne : env.alloc st.nalloc ≠ st.chunk := fun e => hnew _ hcin e.symm
  have hold : ∀ a, a ∈ c0 :: allocated env.alloc n0 m →
      ((NEW_DATA_CHUNK env.main_slot env.alloc st (min (T - written.length) M)).mem a).data_size =
        (st.mem a).data_size ∧
      ((NEW_DATA_CHUNK env.main_slot env.alloc st (min (T - written.length) M)).mem a).data =
        (st.mem a).data ∧
      ((NEW_DATA_CHUNK env.main_slot env.alloc st (min (T - written.length) M)).mem a).prev_chunk =
        (st.mem a).prev_chunk := by
    intro a ha
    by_cases hac : a = st.chunk
    · rw [hac]
      have := NEW_DATA_CHUNK_mem_old env.main_slot env.alloc st (min (T - written.length) M) hne
      exact ⟨this.1, this.2.2.2, this.2.2.1⟩
    · rw [NEW_DATA_CHUNK_mem_other env.main_slot env.alloc st _ a hac (hnew a ha)]
      exact ⟨rfl, rfl, rfl⟩
  have hcd : ∀ a, a ∈ c0 :: allocated env.alloc n0 m →
      chunkData ((NEW_DATA_CHUNK env.main_slot env.alloc st (min (T - written.length) M)).mem a) =
        chunkData (st.mem a) := by
    intro a ha
    unfold chunkData
    rw [(hold a ha).1]
    exact dataSlice_congr _ _ _ _ (fun i _ => by rw [(hold a ha).2.1])
  have hsumw : ((c0 :: allocated env.alloc n0 m).map (fun a => (st.mem a).data_size)).sum =
      written.length := by
    rw [← flatMap_chunkData_length, hw]
  have hcap : ls ∣ min (T - written.length) M := by
    rcases Nat.le_total (T - written.length) M with hcase | hcase
    · rw [Nat.min_eq_left hcase]
      exact Nat.dvd_sub' hlsT hdw
    · rw [Nat.min_eq_right hcase]
      exact hMd
  refine ⟨m + 1, ?_, ?_, ?_, ?_, ?_, ?_, Nat.zero_le _, Nat.dvd_zero _, hcap, hdw, ?_, ?_, hm1, ?_⟩
  · show st.nalloc + 1 = n0 + (m + 1)
    omega
  · show env.alloc st.nalloc = _
    rw [allocated_snoc, hn]
    simp
  · rw [allocated_snoc]
    apply Linked_snoc
    · refine Linked_congr _ st.mem _ _ _ ?_ ?_ hl
      · intro a ha
        have hac : a ≠ st.chunk := fun e => hnotin (e ▸ ha)
        rw [NEW_DATA_CHUNK_mem_other env.main_slot env.alloc st _ a hac
          (hnew a (List.mem_of_mem_dropLast ha))]
      · intro a ha
        exact (hold a (List.mem_cons_of_mem _ ha)).2.2
    · rw [← hc, ← hn]
      exact (NEW_DATA_CHUNK_mem_old env.main_slot env.alloc st _ hne).2.1
    · rw [← hc, ← hn]
      exact (NEW_DATA_CHUNK_mem_new env.main_slot env.alloc st _).2.2
  · exact (NEW_DATA_CHUNK_mem_new env.main_slot env.alloc st _).2.1
  · rw [(hold c0 (by simp)).2.2]
    exact hpv
  · exact (NEW_DATA_CHUNK_mem_new env.main_slot env.alloc st _).1
  · rw [allocated_snoc, ← List.cons_append, List.flatMap_append,
      flatMap_chunkData_congr st.mem _ _ hcd, hw]
    simp only [List.flatMap_cons, List.flatMap_nil, List.append_nil]
    rw [← hn]
    unfold chunkData
    rw [(NEW_DATA_CHUNK_mem_new env.main_slot env.alloc st _).1]
    simp [dataSlice]
  · show written.length + (min (T - written.length) M - 0) = _
    have e : (m + 1 + 1) * M = (m + 1) * M + M := by ring
    rw [e, hwl.1]
    generalize (m + 1) * M = P at hwl
    simp only [Nat.min_def]
    split <;> split <;> omega
  · show GreedyPrefix _ _ (_ ++ [min (T - written.length) M])
    rw [allocated_snoc, ← List.cons_append, List.dropLast_concat,
      List.map_congr_left (fun a ha => (hold a ha).1)]
    have e : (c0 :: allocated env.alloc n0 m).map (fun a => (st.mem a).data_size) =
        (c0 :: allocated env.alloc n0 m).dropLast.map (fun a => (st.mem a).data_size) ++
          [st.end_] := by
      generalize (c0 :: allocated env.alloc n0 m).dropLast = D at hsplit
      rw [← hsplit, List.map_append, List.map_cons, List.map_nil, hds, hfull]
    rw [← hsumw, e]
    apply GreedyPrefix_snoc _ _ _ hg
    rw [← e, hsumw]
    exact hrem


theorem PutBytesAlign_loop_room (p_slot : PMemSlot) (alloc : Nat → Nat)
    (alloc_size alignment fuel : Nat) (st : Encoder) (src : List Nat) (size : Nat)
    (hsize : 0 < size) (hroom : st.now + size ≤ st.end_) :
    PutBytesAlign.loop p_slot alloc alloc_size alignment (fuel + 1) st src size =
      some (copyToChunk st src size) := by
  rw [PutBytesAlign.loop, if_neg (by omega), if_neg (by omega)]
  have e : min (st.end_ - st.now) size = size := Nat.min_eq_right (by omega)
  simp only [e]
  rw [if_neg (by omega), Nat.sub_self, PutBytesAlign_loop_zero]

theorem PutBytesAlign_loop_full (p_slot : PMemSlot) (alloc : Nat → Nat)
    (alloc_size alignment fuel : Nat) (st : Encoder) (src : List Nat) (size : Nat)
    (hsize : 0 < size) (hfull : st.now = st.end_) (ha : 0 < alloc_size)
    (hal : alignment < BITS_BUF_MAX)
    (hcap : size ≤ min (alloc_size + alignment - 1) BITS_BUF_MAX -
      min (alloc_size + alignment - 1) BITS_BUF_MAX % alignment) :
    PutBytesAlign.loop p_slot alloc alloc_size alignment (fuel + 1) st src size =
      some (copyToChunk (NEW_DATA_CHUNK p_slot alloc st
        (min (alloc_size + alignment - 1) BITS_BUF_MAX -
          min (alloc_size + alignment - 1) BITS_BUF_MAX % alignment)) src size) := by
  rw [PutBytesAlign.loop, if_neg (by omega), if_neg (by omega)]
  have e : min (st.end_ - st.now) size = 0 := by
    rw [hfull, Nat.sub_self]
    exact Nat.zero_min _
  simp only [e]
  rw [if_pos trivial, if_neg (by omega), if_neg (by simpa using hal)]
  have e2 : min ((NEW_DATA_CHUNK p_slot alloc st
        (min (alloc_size + alignment - 1) BITS_BUF_MAX -
          min (alloc_size + alignment - 1) BITS_BUF_MAX % alignment)).end_ -
      (NEW_DATA_CHUNK p_slot alloc st
        (min (alloc_size + alignment - 1) BITS_BUF_MAX -
          min (alloc_size + alignment - 1) BITS_BUF_MAX % alignment)).now) size = size := by
    show min (_ - 0) size = size
    rw [Nat.sub_zero]
    exact Nat.min_eq_right hcap
  simp only [e2]
  rw [Nat.sub_self, PutBytesAlign_loop_zero]

theorem PutBytesAlign_row (env : Env) (ls T c0 n0 : Nat) (st : Encoder) (written row : List Nat)
    (fuel : Nat)
    (hfresh : ∀ i, i < (T - 1) / (BITS_BUF_MAX - BITS_BUF_MAX % ls) → env.alloc (n0 + i) ≠ c0)
    (hinj : ∀ i j, i < (T - 1) / (BITS_BUF_MAX - BITS_BUF_MAX % ls) →
      j < (T - 1) / (BITS_BUF_MAX - BITS_BUF_MAX % ls) →
      env.alloc (n0 + i) = env.alloc (n0 + j) → i = j)
    (hls0 : 0 < ls) (hls : ls < BITS_BUF_MAX) (hlsT : ls ∣ T)
    (hrow : row.length = ls) (hrem : written.length + ls ≤ T) (hfuel : 0 < fuel)
    (h : RowsInv env ls T c0 n0 st written) :
    ∃ st1, PutBytesAlign env.main_slot env.alloc st row ls (T - written.length) ls fuel =
        some st1 ∧ RowsInv env ls T c0 n0 st1 (written ++ row) := by
  obtain ⟨f, rfl⟩ : ∃ f, fuel = f + 1 := ⟨fuel - 1, by omega⟩
  have hinv := h
  obtain ⟨m, _, _, _, _, _, _, hle, hd1, hd2, hdw, _, _, _, _⟩ := hinv
  unfold PutBytesAlign
  by_cases hfull : st.now = st.end_
  · have hR : ls ∣ T - written.length := Nat.dvd_sub' hlsT hdw
    have hal := aligned_rows (T - written.length) ls hls0 hR
    have hcap : ls ≤ min (T - written.length) (BITS_BUF_MAX - BITS_BUF_MAX % ls) :=
      Nat.le_min.mpr ⟨by omega, (rowPiece_spec ls hls0 hls).2.1⟩
    rw [PutBytesAlign_loop_full _ _ _ _ _ _ _ _ hls0 hfull (by omega) hls (by rw [hal]; exact hcap),
      hal]
    refine ⟨_, rfl, ?_⟩
    apply RowsInv_copy env ls T c0 n0 _ written row hfresh hinj hls0 hls hrow
    · show 0 + ls ≤ min (T - written.length) (BITS_BUF_MAX - BITS_BUF_MAX % ls)
      rw [Nat.zero_add]
      exact hcap
    · exact RowsInv_new env ls T c0 n0 st written hfresh hinj hls0 hls hlsT hfull (by omega) h
  · have hroom : st.now + ls ≤ st.end_ := by
      obtain ⟨a, ha⟩ := hd1
      obtain ⟨b, hb⟩ := hd2
      have hab : a < b := by
        by_contra hcon
        have hba : b ≤ a := Nat.le_of_not_lt hcon
        have := Nat.mul_le_mul_left ls hba
        omega
      have h1 : a + 1 ≤ b := hab
      have := Nat.mul_le_mul_left ls h1
      have e : ls * (a + 1) = ls * a + ls := by ring
      omega
    rw [PutBytesAlign_loop_room _ _ _ _ _ _ _ _ hls0 hroom]
    exact ⟨_, rfl, RowsInv_copy env ls T c0 n0 st written row hfresh hinj hls0 hls hrow hroom h⟩

theorem GetBitmapImage_rows_spec (env : Env) (ls T c0 n0 fuel : Nat) (lDelta : Int)
    (hfresh : ∀ i, i < (T - 1) / (BITS_BUF_MAX - BITS_BUF_MAX % ls) → env.alloc (n0 + i) ≠ c0)
    (hinj : ∀ i j, i < (T - 1) / (BITS_BUF_MAX - BITS_BUF_MAX % ls) →
      j < (T - 1) / (BITS_BUF_MAX - BITS_BUF_MAX % ls) →
      env.alloc (n0 + i) = env.alloc (n0 + j) → i = j)
    (hls0 : 0 < ls) (hls : ls < BITS_BUF_MAX) (hlsT : ls ∣ T) (hfuel : 0 < fuel) :
    ∀ (k : Nat) (src : Int) (st : Encoder) (written : List Nat),
      RowsInv env ls T c0 n0 st written → written.length + k * ls = T →
      ∃ st1, GetBitmapImage.rows env fuel lDelta ls k src (k * ls) st = some st1 ∧
        RowsInv env ls T c0 n0 st1 (written ++ rowsFrom env.bytes lDelta ls k src) := by
  intro k
  induction k with
  | zero =>
    intro src st written h _
    exact ⟨st, rfl, by simpa [rowsFrom] using h⟩
  | succ k ih =>
    intro src st written h hT
    have hrowlen : (readBytes env.bytes src ls).length = ls := by simp [readBytes]
    have hk : (k + 1) * ls = k * ls + ls := Nat.succ_mul k ls
    obtain ⟨st1, e1, i1⟩ := PutBytesAlign_row env ls T c0 n0 st written
      (readBytes env.bytes src ls) fuel hfresh hinj hls0 hls hlsT hrowlen (by omega) hfuel h
    have e : (k + 1) * ls = T - written.length := by omega
    rw [GetBitmapImage.rows, e, e1]
    have e2 : T - written.length - ls = k * ls := by omega
    simp only [e2]
    obtain ⟨st2, e3, i2⟩ := ih (src - lDelta) st1 (written ++ readBytes env.bytes src ls) i1
      (by rw [List.length_append, hrowlen]; omega)
    refine ⟨st2, e3, ?_⟩
    rw [rowsFrom, ← List.append_assoc]
    exact i2


theorem rowsFrom_length (bytes : Int → Nat) (lDelta : Int) (ls : Nat) :
    ∀ (k : Nat) (src : Int), (rowsFrom bytes lDelta ls k src).length = k * ls := by
  intro k
  induction k with
  | zero => intro src; simp [rowsFrom]
  | succ k ih =>
    intro src
    rw [rowsFrom, List.length_append, ih, Nat.succ_mul]
    simp [readBytes, Nat.add_comm]

theorem rowsFrom_bottomUpRows (bytes : Int → Nat) (src lDelta : Int) (ls : Nat) :
    ∀ k : Nat, rowsFrom bytes lDelta ls k (src + lDelta * ((k : Int) - 1)) =
      bottomUpRows bytes src lDelta ls k := by
  intro k
  induction k with
  | zero => rfl
  | succ k ih =>
    have e1 : src + lDelta * (((k + 1 : Nat) : Int) - 1) = src + lDelta * (k : Int) := by
      push_cast
      ring_nf
    have e2 : src + lDelta * (k : Int) - lDelta = src + lDelta * ((k : Int) - 1) := by ring
    rw [rowsFrom, e1, e2, ih]
    simp [bottomUpRows, List.range_succ]

theorem allocated_inj (alloc : Nat → Nat) (k K : Nat) (hnd : (allocated alloc k K).Nodup) :
    ∀ i j, i < K → j < K → alloc (k + i) = alloc (k + j) → i = j := by
  intro i j hi hj e
  exact List.inj_on_of_nodup_map hnd (List.mem_range.mpr hi) (List.mem_range.mpr hj) e

theorem allocated_fresh (alloc : Nat → Nat) (k K c0 : Nat) (h : c0 ∉ allocated alloc k K) :
    ∀ i, i < K → alloc (k + i) ≠ c0 := by
  intro i hi e
  apply h
  simp only [allocated, List.mem_map, List.mem_range]
  exact ⟨i, hi, e⟩

theorem RowsInv_final (env : Env) (ls T c0 n0 : Nat) (st : Encoder) (written : List Nat)
    (hfresh : ∀ i, i < (T - 1) / (BITS_BUF_MAX - BITS_BUF_MAX % ls) → env.alloc (n0 + i) ≠ c0)
    (hinj : ∀ i j, i < (T - 1) / (BITS_BUF_MAX - BITS_BUF_MAX % ls) →
      j < (T - 1) / (BITS_BUF_MAX - BITS_BUF_MAX % ls) →
      env.alloc (n0 + i) = env.alloc (n0 + j) → i = j)
    (hls0 : 0 < ls) (hls : ls < BITS_BUF_MAX) (hT : 0 < T) (hlen : written.length = T)
    (h : RowsInv env ls T c0 n0 st written) :
    st.nalloc = n0 + (T - 1) / (BITS_BUF_MAX - BITS_BUF_MAX % ls) ∧
    Linked env.main_slot st.mem c0
      (allocated env.alloc n0 ((T - 1) / (BITS_BUF_MAX - BITS_BUF_MAX % ls))) ∧
    (st.mem ((allocated env.alloc n0
      ((T - 1) / (BITS_BUF_MAX - BITS_BUF_MAX % ls))).getLastD c0)).next_chunk = 0 ∧
    (st.mem c0).prev_chunk = 0 ∧
    (c0 :: allocated env.alloc n0 ((T - 1) / (BITS_BUF_MAX - BITS_BUF_MAX % ls))).flatMap
      (fun a => chunkData (st.mem a)) = written ∧
    GreedySizes (BITS_BUF_MAX - BITS_BUF_MAX % ls) T
      ((c0 :: allocated env.alloc n0 ((T - 1) / (BITS_BUF_MAX - BITS_BUF_MAX % ls))).map
        (fun a => (st.mem a).data_size)) := by
  obtain ⟨m, hn, hc, hl, hnx, hpv, hds, hle, hd1, hd2, hdw, hw, hsum, hm, hg⟩ := h
  have hmK := RowsInv_chunks_le ls T m hls0 hls hm
  have hnd := chain_nodup env.alloc c0 n0 _ m hmK hfresh hinj
  have hMl := (rowPiece_spec ls hls0 hls).2.1
  have hmeq : m = (T - 1) / (BITS_BUF_MAX - BITS_BUF_MAX % ls) := by
    apply Nat.le_antisymm hmK
    generalize BITS_BUF_MAX - BITS_BUF_MAX % ls = M at hsum hMl
    have h1 : T ≤ (m + 1) * M := by
      rw [Nat.min_def] at hsum
      split at hsum
      · assumption
      · omega
    have h2 : (T - 1) / M < m + 1 := by
      rw [Nat.div_lt_iff_lt_mul (by omega)]
      omega
    omega
  have hfull : st.now = st.end_ := by
    have : written.length + (st.end_ - st.now) ≤ T := by
      rw [hsum]
      exact Nat.min_le_left _ _
    omega
  obtain ⟨hsplit, _⟩ := chain_split c0 _ hnd
  rw [← hc] at hsplit
  have hsumw : ((c0 :: allocated env.alloc n0 m).map (fun a => (st.mem a).data_size)).sum =
      written.length := by
    rw [← flatMap_chunkData_length, hw]
  have e : (c0 :: allocated env.alloc n0 m).map (fun a => (st.mem a).data_size) =
      (c0 :: allocated env.alloc n0 m).dropLast.map (fun a => (st.mem a).data_size) ++
        [st.end_] := by
    generalize (c0 :: allocated env.alloc n0 m).dropLast = D at hsplit
    rw [← hsplit, List.map_append, List.map_cons, List.map_nil, hds, hfull]
  rw [← hmeq]
  refine ⟨hn, hl, ?_, hpv, hw, ?_⟩
  · rw [← hc]
    exact hnx
  · rw [e]
    apply GreedyPrefix_full _ _ _ hg
    rw [← e, hsumw, hlen]

theorem GetPallette_chunks (env : Env) (fuel : Nat) (s s1 : PDev) (internal : Nat)
    (color_trans : Option XLATEOBJ) (h : GetPallette env fuel s internal color_trans = some s1) :
    s1.chunks = s.chunks ∧
      (s1.images internal).bitmap_data = (s.images internal).bitmap_data := by
  unfold GetPallette at h
  simp only [] at h
  split at h
  · simp only [Option.some.injEq] at h
    rw [← h]
    exact ⟨rfl, by simp⟩
  · split at h
    · simp only [Option.some.injEq] at h
      rw [← h]
      exact ⟨rfl, by simp⟩
    · split at h
      · cases h
      · split at h
        · simp only [Option.some.injEq] at h
          rw [← h]
          exact ⟨rfl, by simp⟩
        · split at h
          · cases h
          · rename_i palette s2 ha
            obtain ⟨_, hs2⟩ := AllocMem_done_inv env _ s2 palette ha
            split at h
            · cases h
            · simp only [Option.some.injEq] at h
              rw [← h, hs2]
              exact ⟨rfl, by simp⟩

theorem GetPallette_no_table (env : Env) (fuel : Nat) (s : PDev) (internal : Nat)
    (color_trans : Option XLATEOBJ)
    (h : ∀ ct, color_trans = some ct → ct.flXlate &&& env.consts.XO_TABLE = 0) :
    (GetPallette env fuel s internal color_trans).isSome = true := by
  unfold GetPallette
  cases color_trans with
  | none => rfl
  | some ct =>
    simp only []
    rw [if_pos (h ct rfl)]
    rfl


theorem GetBitmapImage_cursor_end (env : Env) (s2 : PDev) (image_res : Nat) (height : Int)
    (ls : Nat) (hT32 : height.toNat * ls < UINT32_MOD) :
    (GetBitmapImage.cursor env s2 image_res height ls).end_ =
      min (height.toNat * ls) (BITS_BUF_MAX - BITS_BUF_MAX % ls) := by
  show (image_res + GetBitmapImage.alloc_size env height ls) - _ = _
  unfold GetBitmapImage.alloc_size BITMAP_ALLOC_BASE
  rw [Nat.mod_eq_of_lt hT32]
  have hr : BITS_BUF_MAX % ls ≤ BITS_BUF_MAX := Nat.mod_le _ _
  generalize BITS_BUF_MAX % ls = r at hr
  generalize height.toNat * ls = T
  simp only [Nat.min_def]
  split <;> split <;> omega

theorem GetBitmapImage_cursor_inv (env : Env) (s1 : PDev) (image_res : Nat) (cache_me : Bool)
    (width height : Int) (format ls key : Nat) (hh : 0 < height) (hls0 : 0 < ls)
    (hT32 : height.toNat * ls < UINT32_MOD) :
    RowsInv env ls (height.toNat * ls)
      (image_res + env.layout.sizeof_Resource + env.layout.sizeof_InternalImage) s1.nalloc
      (GetBitmapImage.cursor env
        (GetBitmapImage.header env s1 image_res cache_me width height format ls key)
        image_res height ls) [] := by
  have hend := GetBitmapImage_cursor_end env
    (GetBitmapImage.header env s1 image_res cache_me width height format ls key) image_res
    height ls hT32
  have hT : 0 < height.toNat * ls := Nat.mul_pos (by omega) hls0
  refine ⟨0, rfl, rfl, trivial, ?_, ?_, ?_, Nat.zero_le _, Nat.dvd_zero _, ?_, Nat.dvd_zero _,
    ?_, ?_, Or.inl rfl, ?_⟩
  · simp [GetBitmapImage.cursor, GetBitmapImage.header]
  · simp [GetBitmapImage.cursor, GetBitmapImage.header]
  · simp [GetBitmapImage.cursor, GetBitmapImage.header]
  · rw [hend]
    rcases Nat.le_total (height.toNat * ls) (BITS_BUF_MAX - BITS_BUF_MAX % ls) with hc | hc
    · rw [Nat.min_eq_left hc]
      exact Dvd.intro_left _ rfl
    · rw [Nat.min_eq_right hc]
      exact ⟨BITS_BUF_MAX / ls, by have := Nat.div_add_mod BITS_BUF_MAX ls; omega⟩
  · simp [allocated, chunkData, dataSlice, GetBitmapImage.cursor, GetBitmapImage.header]
  · rw [hend]
    show 0 + (_ - 0) = _
    simp
  · simp only [allocated, List.range_zero, List.map_nil, List.dropLast, List.nil_append,
      GreedyPrefix, and_true]
    exact ⟨hT, hend⟩

theorem GetBitmapImage_rows_final (env : Env) (fuel : Nat) (s1 : PDev) (image_res : Nat)
    (cache_me : Bool) (width height : Int) (format ls key : Nat) (lDelta src : Int)
    (hh : 0 < height) (hls0 : 0 < ls) (hls : ls < BITS_BUF_MAX)
    (hT32 : height.toNat * ls < UINT32_MOD) (hfuel : 0 < fuel) (hld : lDelta ≠ 0)
    (hfresh : image_res + env.layout.sizeof_Resource + env.layout.sizeof_InternalImage ∉
      allocated env.alloc s1.nalloc
        ((height.toNat * ls - 1) / (BITS_BUF_MAX - BITS_BUF_MAX % ls)))
    (hnd : (allocated env.alloc s1.nalloc
      ((height.toNat * ls - 1) / (BITS_BUF_MAX - BITS_BUF_MAX % ls))).Nodup) :
    ∃ st, GetBitmapImage.rows env fuel lDelta ls (if lDelta = 0 then 0 else height.toNat)
        (src + lDelta * (height - 1)) (height.toNat * ls % UINT32_MOD)
        (GetBitmapImage.cursor env
          (GetBitmapImage.header env s1 image_res cache_me width height format ls key)
          image_res height ls) = some st ∧
      Linked env.main_slot st.mem
        (image_res + env.layout.sizeof_Resource + env.layout.sizeof_InternalImage)
        (allocated env.alloc s1.nalloc
          ((height.toNat * ls - 1) / (BITS_BUF_MAX - BITS_BUF_MAX % ls))) ∧
      (st.mem ((allocated env.alloc s1.nalloc
        ((height.toNat * ls - 1) / (BITS_BUF_MAX - BITS_BUF_MAX % ls))).getLastD
          (image_res + env.layout.sizeof_Resource +
            env.layout.sizeof_InternalImage))).next_chunk = 0 ∧
      (st.mem (image_res + env.layout.sizeof_Resource +
        env.layout.sizeof_InternalImage)).prev_chunk = 0 ∧
      ((image_res + env.layout.sizeof_Resource + env.layout.sizeof_InternalImage) ::
        allocated env.alloc s1.nalloc
          ((height.toNat * ls - 1) / (BITS_BUF_MAX - BITS_BUF_MAX % ls))).flatMap
        (fun a => chunkData (st.mem a)) = bottomUpRows env.bytes src lDelta ls height.toNat ∧
      GreedySizes (BITS_BUF_MAX - BITS_BUF_MAX % ls) (height.toNat * ls)
        (((image_res + env.layout.sizeof_Resource + env.layout.sizeof_InternalImage) ::
          allocated env.alloc s1.nalloc
            ((height.toNat * ls - 1) / (BITS_BUF_MAX - BITS_BUF_MAX % ls))).map
          (fun a => (st.mem a).data_size)) := by
  have hf := allocated_fresh _ _ _ _ hfresh
  have hi := allocated_inj _ _ _ hnd
  have hT : 0 < height.toNat * ls := Nat.mul_pos (by omega) hls0
  have hcast : ((height.toNat : Nat) : Int) = height := Int.toNat_of_nonneg (le_of_lt hh)
  have e : src + lDelta * (height - 1) = src + lDelta * ((height.toNat : Int) - 1) := by
    rw [hcast]
  obtain ⟨st, e1, inv⟩ := GetBitmapImage_rows_spec env ls (height.toNat * ls) _ _ fuel lDelta
    hf hi hls0 hls (Dvd.intro_left _ rfl) hfuel height.toNat
    (src + lDelta * ((height.toNat : Int) - 1)) _ []
    (GetBitmapImage_cursor_inv env s1 image_res cache_me width height format ls key hh hls0 hT32)
    (by simp)
  rw [rowsFrom_bottomUpRows, List.nil_append] at inv
  have hlen : (bottomUpRows env.bytes src lDelta ls height.toNat).length = height.toNat * ls := by
    rw [← rowsFrom_bottomUpRows, rowsFrom_length]
  obtain ⟨_, f2, f3, f4, f5, f6⟩ := RowsInv_final env ls (height.toNat * ls) _ _ st _ hf hi hls0
    hls hT hlen inv
  refine ⟨st, ?_, f2, f3, f4, f5, f6⟩
  rw [if_neg hld, Nat.mod_eq_of_lt hT32, e]
  exact e1


/-- C27. Raw bitmap encoding is bottom-up and row-aligned. For `width > 0`,
`height > 0`, `0 < line_size < 65536`, a non-zero stride `lDelta` and a product
`height * line_size` that fits the `UINT32` in which the code computes it, with
the blocks handed out for continuation chunks distinct from one another and
from the image's embedded chunk: the call returns whenever its first
allocation passes `AllocMem`'s assertion and no colour table has to be cached;
and whenever it returns, the chain is the chunk embedded
`sizeof(Resource) + sizeof(InternalImage)` bytes into the new block followed by
the `(height * line_size - 1) / (65536 - 65536 % line_size)` new blocks, doubly
linked, with `bitmap.data` at its head; the concatenation of `data[:data_size]`
over the chain is the `height` rows of `line_size` bytes read at stride
`lDelta`, source row `height - 1` first and source row 0 last, `height *
line_size` bytes in all; the chunk sizes are `min(remaining bytes, 65536 -
65536 % line_size)` from the first chunk on, every chunk being filled up to its
capacity; and every chunk holds a positive whole number of rows and at most
65536 bytes. -/
theorem C27_GetBitmapImage_bottom_up_whole_rows (env : Env) (fuel : Nat) (s : PDev)
    (surf : SURFOBJ) (color_trans : Option XLATEOBJ) (cache_me : Bool) (width height : Int)
    (format : Nat) (src : Int) (line_size key : Nat)
    (hw : 0 < width) (hh : 0 < height) (hls0 : 0 < line_size) (hls : line_size < BITS_BUF_MAX)
    (hld : surf.lDelta ≠ 0) (hT32 : height.toNat * line_size < UINT32_MOD) (hfuel : 0 < fuel)
    (hfresh : env.alloc s.nalloc + env.layout.sizeof_Resource +
        env.layout.sizeof_InternalImage ∉
      allocated env.alloc (s.nalloc + 1)
        ((height.toNat * line_size - 1) / (BITS_BUF_MAX - BITS_BUF_MAX % line_size)))
    (hnd : (allocated env.alloc (s.nalloc + 1)
      ((height.toNat * line_size - 1) / (BITS_BUF_MAX - BITS_BUF_MAX % line_size))).Nodup) :
    ((AllocMem.done env s).isSome = true →
      (∀ ct, color_trans = some ct → ct.flXlate &&& env.consts.XO_TABLE = 0) →
      (GetBitmapImage env fuel s surf color_trans cache_me width height format src line_size
        key).isSome = true) ∧
    ∀ (image_res : Nat) (s1 : PDev),
      GetBitmapImage env fuel s surf color_trans cache_me width height format src line_size
        key = some (image_res, s1) →
      image_res = env.alloc s.nalloc ∧
      (s1.images (image_res + env.layout.sizeof_Resource)).bitmap_data =
        PA env.main_slot
          (image_res + env.layout.sizeof_Resource + env.layout.sizeof_InternalImage) ∧
      Linked env.main_slot s1.chunks
        (image_res + env.layout.sizeof_Resource + env.layout.sizeof_InternalImage)
        (allocated env.alloc (s.nalloc + 1)
          ((height.toNat * line_size - 1) / (BITS_BUF_MAX - BITS_BUF_MAX % line_size))) ∧
      (s1.chunks (image_res + env.layout.sizeof_Resource +
        env.layout.sizeof_InternalImage)).prev_chunk = 0 ∧
      (s1.chunks ((allocated env.alloc (s.nalloc + 1)
        ((height.toNat * line_size - 1) / (BITS_BUF_MAX - BITS_BUF_MAX % line_size))).getLastD
          (image_res + env.layout.sizeof_Resource +
            env.layout.sizeof_InternalImage))).next_chunk = 0 ∧
      ((image_res + env.layout.sizeof_Resource + env.layout.sizeof_InternalImage) ::
        allocated env.alloc (s.nalloc + 1)
          ((height.toNat * line_size - 1) / (BITS_BUF_MAX - BITS_BUF_MAX % line_size))).flatMap
        (fun a => chunkData (s1.chunks a)) =
          bottomUpRows env.bytes src surf.lDelta line_size height.toNat ∧
      (bottomUpRows env.bytes src surf.lDelta line_size height.toNat).length =
        height.toNat * line_size ∧
      GreedySizes (BITS_BUF_MAX - BITS_BUF_MAX % line_size) (height.toNat * line_size)
        (((image_res + env.layout.sizeof_Resource + env.layout.sizeof_InternalImage) ::
          allocated env.alloc (s.nalloc + 1)
            ((height.toNat * line_size - 1) / (BITS_BUF_MAX - BITS_BUF_MAX % line_size))).map
          (fun a => (s1.chunks a).data_size)) ∧
      ∀ a, a ∈ (image_res + env.layout.sizeof_Resource + env.layout.sizeof_InternalImage) ::
          allocated env.alloc (s.nalloc + 1)
            ((height.toNat * line_size - 1) / (BITS_BUF_MAX - BITS_BUF_MAX % line_size)) →
        line_size ∣ (s1.chunks a).data_size ∧ 0 < (s1.chunks a).data_size ∧
          (s1.chunks a).data_size ≤ BITS_BUF_MAX := by
  constructor
  · intro hal hnt
    obtain ⟨⟨r, s0⟩, ha⟩ := Option.isSome_iff_exists.mp hal
    obtain ⟨hr, hs0⟩ := AllocMem_done_inv env s s0 r ha
    have hn0 : s0.nalloc = s.nalloc + 1 := by rw [hs0]
    obtain ⟨st, e1, _⟩ := GetBitmapImage_rows_final env fuel s0 r cache_me width height format
      line_size key surf.lDelta src hh hls0 hls hT32 hfuel hld
      (by rw [hr, hn0]; exact hfresh) (by rw [hn0]; exact hnd)
    unfold GetBitmapImage
    rw [if_neg (not_not.mpr ⟨hw, hh⟩), if_neg (not_not.mpr hls), if_neg (by omega), ha]
    simp only []
    rw [e1]
    simp only []
    split
    · rename_i hp
      have := GetPallette_no_table env fuel
        { GetBitmapImage.header env s0 r cache_me width height format line_size key with
          chunks := st.mem, nalloc := st.nalloc }
        (r + env.layout.sizeof_Resource) color_trans hnt
      rw [hp] at this
      cases this
    · rfl
  · intro image_res s1 h
    unfold GetBitmapImage at h
    rw [if_neg (not_not.mpr ⟨hw, hh⟩), if_neg (not_not.mpr hls), if_neg (by omega)] at h
    cases ha : AllocMem.done env s with
    | none =>
      rw [ha] at h
      cases h
    | some p =>
      obtain ⟨r, s0⟩ := p
      rw [ha] at h
      simp only [] at h
      obtain ⟨hr, hs0⟩ := AllocMem_done_inv env s s0 r ha
      have hn0 : s0.nalloc = s.nalloc + 1 := by rw [hs0]
      obtain ⟨st, e1, f2, f3, f4, f5, f6⟩ := GetBitmapImage_rows_final env fuel s0 r cache_me
        width height format line_size key surf.lDelta src hh hls0 hls hT32 hfuel hld
        (by rw [hr, hn0]; exact hfresh) (by rw [hn0]; exact hnd)
      rw [e1] at h
      simp only [] at h
      split at h
      · cases h
      · rename_i s3 hp
        simp only [Option.some.injEq, Prod.mk.injEq] at h
        obtain ⟨hch, hbd⟩ := GetPallette_chunks _ _ _ _ _ _ hp
        have hch1 : s3.chunks = st.mem := hch
        obtain ⟨h1, h2⟩ := h
        rw [← h1, ← h2, hch1]
        rw [hn0] at f2 f3 f5 f6
        have hlen : (bottomUpRows env.bytes src surf.lDelta line_size height.toNat).length =
            height.toNat * line_size := by
          rw [← rowsFrom_bottomUpRows, rowsFrom_length]
        obtain ⟨hMd, hMl, hMu⟩ := rowPiece_spec line_size hls0 hls
        refine ⟨hr, ?_, f2, f4, f3, f5, hlen, f6, ?_⟩
        · rw [hbd]
          simp [GetBitmapImage.header]
        · intro a ha1
          have hb := GreedySizes_bounds _ line_size hMd (by omega) _ _ (Dvd.intro_left _ rfl) f6
            _ (List.mem_map_of_mem (fun a => (st.mem a).data_size) ha1)
          exact ⟨hb.1, hb.2.1, le_trans hb.2.2 hMu⟩

theorem C27_GetBitmapImage_bottom_up_whole_rows_witness :
    ((GetBitmapImage exampleEnv 1 examplePDev exampleSurf none false 2 2 8 0 8 0).isSome = true ∧
      ∀ (image_res : Nat) (s1 : PDev),
        GetBitmapImage exampleEnv 1 examplePDev exampleSurf none false 2 2 8 0 8 0 =
          some (image_res, s1) →
        image_res = 8192 ∧
        GreedySizes (BITS_BUF_MAX - BITS_BUF_MAX % 8) 16 [(s1.chunks 8264).data_size] ∧
        chunkData (s1.chunks 8264) = [8, 9, 10, 11, 12, 13, 14, 15, 0, 1, 2, 3, 4, 5, 6, 7]) ∧
    (GetBitmapImage exampleEnv 1 examplePDev exampleSurf none false 2 2 8 0 8 0).map
      (fun r => (r.1, (r.2.chunks 8264).data_size, (r.2.chunks 8264).next_chunk,
        chunkData (r.2.chunks 8264))) =
      some (8192, 16, 0, [8, 9, 10, 11, 12, 13, 14, 15, 0, 1, 2, 3, 4, 5, 6, 7]) := by
  have T := C27_GetBitmapImage_bottom_up_whole_rows exampleEnv 1 examplePDev exampleSurf none
    false 2 2 8 0 8 0 (by decide) (by decide) (by decide) (by decide) (by decide) (by decide)
    (by decide) (by decide) (by decide)
  refine ⟨⟨T.1 rfl (fun ct hct => by cases hct), fun image_res s1 h => ?_⟩, rfl⟩
  obtain ⟨a, _, _, _, _, f5, _, f6, _⟩ := T.2 image_res s1 h
  subst a
  have f5a : chunkData (s1.chunks 8264) ++ [] =
      [8, 9, 10, 11, 12, 13, 14, 15, 0, 1, 2, 3, 4, 5, 6, 7] := f5
  rw [List.append_nil] at f5a
  exact ⟨rfl, f6, f5a⟩


/-! ### Constructor references -/

theorem attach_release (h : ResHeap) (outs : Outputs) (output res : Nat) (h1 : ResHeap)
    (outs1 : Outputs) (n : Nat) (hadd : AddRes h outs output res = some (h1, outs1))
    (hrefs : (h.mem res).refs = n) (hn1 : 1 ≤ n) (hn2 : n + 1 < UINT32_MOD) :
    ((RELEASE_RES h1 res).mem res).refs = n ∧ (RELEASE_RES h1 res).free_log = h.free_log ∧
      (∀ a, a ≠ res → (RELEASE_RES h1 res).mem a = h.mem a) := by
  unfold AddRes at hadd
  simp only [] at hadd
  split at hadd
  · simp only [Option.some.injEq, Prod.mk.injEq] at hadd
    obtain ⟨e, _⟩ := hadd
    have e1 : (1 + n) % UINT32_MOD = 1 + n := Nat.mod_eq_of_lt (by omega)
    have e2 : (UINT32_MOD - 1 + (1 + n)) % UINT32_MOD = n := by
      have e3 : UINT32_MOD - 1 + (1 + n) = n + UINT32_MOD := by omega
      rw [e3, Nat.add_mod_right, Nat.mod_eq_of_lt (by omega)]
    have hm : (h1.mem res).refs = 1 + n := by
      rw [← e, hrefs, e1]
      simp [ResHeap.setRefs]
    have hfl : h1.free_log = h.free_log := by rw [← e]; rfl
    refine ⟨?_, ?_, ?_⟩
    · rw [RELEASE_RES_refs, hm, e2]
    · unfold RELEASE_RES
      simp only [hm, e2]
      rw [if_neg (by omega)]
      exact hfl
    · intro a ha
      rw [RELEASE_RES_mem_other _ _ _ ha, ← e]
      simp [ResHeap.setRefs, ha]
  · cases hadd

theorem AddRes_heap (h : ResHeap) (outs : Outputs) (output res : Nat) (h1 : ResHeap)
    (outs1 : Outputs) (hadd : AddRes h outs output res = some (h1, outs1)) :
    (h1.mem res).refs = (1 + (h.mem res).refs) % UINT32_MOD ∧ h1.free_log = h.free_log ∧
      (∀ a, a ≠ res → h1.mem a = h.mem a) := by
  unfold AddRes at hadd
  simp only [] at hadd
  split at hadd
  · simp only [Option.some.injEq, Prod.mk.injEq] at hadd
    obtain ⟨e, _⟩ := hadd
    rw [← e]
    refine ⟨by simp [ResHeap.setRefs], rfl, ?_⟩
    intro a ha
    simp [ResHeap.setRefs, ha]
  · cases hadd

theorem GetPath_heap (env : Env) (fuel : Nat) (s s1 : PDev) (path : PATHOBJ) (res : Nat)
    (h : GetPath env fuel s path = some (res, s1)) :
    res = env.alloc s.nalloc ∧ (s1.heap.mem res).refs = 1 ∧
      s1.heap.free_log = s.heap.free_log := by
  unfold GetPath at h
  split at h
  · cases h
  · rename_i r s0 ha
    obtain ⟨hr, hs0⟩ := AllocMem_done_inv env s s0 r ha
    simp only [] at h
    split at h
    · cases h
    · simp only [Option.some.injEq, Prod.mk.injEq] at h
      rw [← h.1, ← h.2, hs0]
      exact ⟨hr, by simp, rfl⟩

theorem GetClipRects_heap (env : Env) (fuel : Nat) (s s1 : PDev) (clip : CLIPOBJ) (res : Nat)
    (h : GetClipRects env fuel s clip = some (res, s1)) :
    res = env.alloc s.nalloc ∧ (s1.heap.mem res).refs = 1 ∧
      s1.heap.free_log = s.heap.free_log := by
  unfold GetClipRects at h
  split at h
  · cases h
  · rename_i r s0 ha
    obtain ⟨hr, hs0⟩ := AllocMem_done_inv env s s0 r ha
    simp only [] at h
    split at h
    · cases h
    · simp only [Option.some.injEq, Prod.mk.injEq] at h
      rw [← h.1, ← h.2, hs0]
      exact ⟨hr, by simp, rfl⟩

theorem SetClip_rect_heap (env : Env) (s s1 : PDev) (clip : CLIPOBJ) (res : Nat)
    (h : SetClip.rect env s clip = some (res, s1)) :
    res = env.alloc s.nalloc ∧ (s1.heap.mem res).refs = 1 ∧
      s1.heap.free_log = s.heap.free_log := by
  unfold SetClip.rect at h
  split at h
  · cases h
  · rename_i r s0 ha
    obtain ⟨hr, hs0⟩ := AllocMem_done_inv env s s0 r ha
    simp only [Option.some.injEq, Prod.mk.injEq] at h
    rw [← h.1, ← h.2, hs0]
    exact ⟨hr, by simp, rfl⟩

theorem SetClip_attach_heap (env : Env) (s s1 : PDev) (drawable res clip_type : Nat) (b : Bool)
    (hrefs : (s.heap.mem res).refs = 1)
    (h : SetClip.attach env s drawable res clip_type = some (b, s1)) :
    (s1.heap.mem res).refs = 1 ∧ s1.heap.free_log = s.heap.free_log := by
  unfold SetClip.attach DrawableAddRes at h
  split at h
  · cases h
  · rename_i h1 outs hadd
    simp only [Option.some.injEq, Prod.mk.injEq] at h
    obtain ⟨a, b1, _⟩ := attach_release _ _ _ _ _ _ 1 hadd hrefs (Nat.le_refl _) (by decide)
    rw [← h.2]
    exact ⟨a, b1⟩

theorem SetClip_heap (env : Env) (fuel : Nat) (s s1 : PDev) (c : CLIPOBJ) (drawable : Nat)
    (h : SetClip env fuel s (some c) drawable = some (true, s1)) :
    (s1.heap.mem (env.alloc s.nalloc)).refs = 1 ∧ s1.heap.free_log = s.heap.free_log := by
  unfold SetClip at h
  simp only [] at h
  split at h
  · split at h
    · cases h
    · rename_i res s0 hr
      obtain ⟨e, r1, r2⟩ := SetClip_rect_heap env s s0 c res hr
      obtain ⟨a, b⟩ := SetClip_attach_heap env s0 s1 drawable res _ true r1 h
      rw [← e, b, r2]
      exact ⟨a, rfl⟩
  · split at h
    · cases h
    · split at h
      · split at h
        · simp only [Option.some.injEq, Prod.mk.injEq] at h
          cases h.1
        · split at h
          · cases h
          · rename_i res s0 hr
            obtain ⟨e, r1, r2⟩ := GetPath_heap env fuel s s0 _ res hr
            obtain ⟨a, b⟩ := SetClip_attach_heap env s0 s1 drawable res _ true r1 h
            rw [← e, b, r2]
            exact ⟨a, rfl⟩
      · split at h
        · cases h
        · split at h
          · cases h
          · rename_i res s0 hr
            obtain ⟨e, r1, r2⟩ := GetClipRects_heap env fuel s s0 c res hr
            obtain ⟨a, b⟩ := SetClip_attach_heap env s0 s1 drawable res _ true r1 h
            rw [← e, b, r2]
            exact ⟨a, rfl⟩

theorem QXLGetPath_heap (env : Env) (fuel : Nat) (s s1 : PDev) (drawable : Nat) (path : PATHOBJ)
    (b : Bool) (phys : Nat) (h : QXLGetPath env fuel s drawable path = some (b, phys, s1)) :
    b = true ∧ phys = PA env.main_slot (env.alloc s.nalloc + env.layout.sizeof_Resource) ∧
      (s1.heap.mem (env.alloc s.nalloc)).refs = 1 ∧ s1.heap.free_log = s.heap.free_log := by
  unfold QXLGetPath DrawableAddRes at h
  split at h
  · cases h
  · split at h
    · cases h
    · rename_i res s0 hr
      obtain ⟨e, r1, r2⟩ := GetPath_heap env fuel s s0 _ res hr
      split at h
      · cases h
      · rename_i h1 outs hadd
        simp only [Option.some.injEq, Prod.mk.injEq] at h
        obtain ⟨a, b1, _⟩ := attach_release _ _ _ _ _ _ 1 hadd r1 (Nat.le_refl _) (by decide)
        rw [← h.1, ← h.2.1, ← h.2.2, ← e]
        exact ⟨rfl, rfl, a, b1.trans r2⟩

theorem QXLGetBuf_heap (env : Env) (s s1 : PDev) (drawable buf_phys size ptr phys : Nat)
    (hsize : size ≤ env.consts.PAGE_SIZE - env.layout.sizeof_Resource)
    (h : QXLGetBuf env s drawable buf_phys size = some (ptr, phys, s1)) :
    ptr = env.alloc s.nalloc + env.layout.sizeof_Resource ∧
      phys = PA env.main_slot (env.alloc s.nalloc + env.layout.sizeof_Resource) ∧
      (s1.heap.mem (env.alloc s.nalloc)).refs = 1 ∧ s1.heap.free_log = s.heap.free_log := by
  unfold QXLGetBuf DrawableAddRes at h
  rw [if_neg (by omega)] at h
  split at h
  · cases h
  · rename_i res s0 ha
    obtain ⟨hr, hs0⟩ := AllocMem_done_inv env s s0 res ha
    simp only [] at h
    split at h
    · cases h
    · rename_i h1 outs hadd
      simp only [Option.some.injEq, Prod.mk.injEq] at h
      obtain ⟨a, b1, _⟩ := attach_release _ _ _ _ _ _ 1 hadd (by simp) (Nat.le_refl _)
        (by decide)
      rw [← h.1, ← h.2.1, ← h.2.2, ← hr]
      refine ⟨rfl, rfl, a, ?_⟩
      show (RELEASE_RES h1 res).free_log = _
      rw [b1, hs0]

theorem QXLGetStr_heap (env : Env) (fuel : Nat) (s s1 : PDev) (drawable str_phys : Nat)
    (font : FONTOBJ) (str : STROBJ) (phys : Nat)
    (h : QXLGetStr env fuel s drawable str_phys font str = some (true, phys, s1)) :
    phys = PA env.main_slot (env.alloc s.nalloc + env.layout.sizeof_Resource) ∧
      (s1.heap.mem (env.alloc s.nalloc)).refs = 1 ∧ s1.heap.free_log = s.heap.free_log := by
  unfold QXLGetStr DrawableAddRes at h
  split at h
  · cases h
  · rename_i res s0 ha
    obtain ⟨hr, hs0⟩ := AllocMem_done_inv env s s0 res ha
    split at h
    · cases h
    · rename_i ok st hl
      simp only [] at h
      split at h
      · split at h
        · cases h
        · rename_i h1 outs hadd
          simp only [Option.some.injEq, Prod.mk.injEq, true_and] at h
          obtain ⟨a, b1, _⟩ := attach_release _ _ _ _ _ _ 1 hadd
            (by simp [QXLGetStr.init]) (Nat.le_refl _) (by decide)
          rw [← h.1, ← h.2, ← hr]
          refine ⟨rfl, a, ?_⟩
          show (RELEASE_RES h1 res).free_log = _
          rw [b1, hs0]
          rfl
      · split at h
        · cases h
        · simp only [Option.some.injEq, Prod.mk.injEq] at h
          cases h.1


theorem FreeMem_heap (h h1 : ResHeap) (p : Nat) (he : FreeMem h p = some h1) :
    h1.mem = h.mem ∧ h1.free_log = h.free_log := by
  unfold FreeMem at he
  split at he
  · simp only [Option.some.injEq] at he
    rw [← he]
    exact ⟨rfl, rfl⟩
  · cases he

theorem FreeChunks_loop_heap (env : Env) (chunks : ChunkMem) :
    ∀ (fuel : Nat) (h h1 : ResHeap) (phys : Nat),
      FreeChunks.loop env chunks fuel h phys = some h1 →
      h1.mem = h.mem ∧ h1.free_log = h.free_log := by
  intro fuel
  induction fuel with
  | zero => intro h h1 phys he; cases he
  | succ f ih =>
    intro h h1 phys he
    unfold FreeChunks.loop at he
    split at he
    · simp only [Option.some.injEq] at he
      rw [← he]
      exact ⟨rfl, rfl⟩
    · split at he
      · cases he
      · split at he
        · cases he
        · rename_i h2 hf
          obtain ⟨a, b⟩ := FreeMem_heap _ _ _ hf
          obtain ⟨c, d⟩ := ih _ _ _ he
          exact ⟨c.trans a, d.trans b⟩

theorem FreeQuicImage_heap (env : Env) (fuel : Nat) (s s1 : PDev) (res : Nat)
    (he : FreeQuicImage env fuel s res = some s1) :
    s1.heap.mem = s.heap.mem ∧ s1.heap.free_log = s.heap.free_log ∧ s1.nalloc = s.nalloc ∧
      s1.outputs = s.outputs := by
  unfold FreeQuicImage at he
  simp only [] at he
  split at he
  · cases he
  · rename_i h1 hl
    obtain ⟨a, b⟩ := FreeChunks_loop_heap _ _ _ _ _ _ hl
    split at he
    · cases he
    · rename_i h2 hf
      obtain ⟨c, d⟩ := FreeMem_heap _ _ _ hf
      simp only [Option.some.injEq] at he
      rw [← he]
      exact ⟨c.trans a, d.trans b, rfl, rfl⟩

theorem quic_usr_more_space_heap (env : Env) (s s1 : PDev) (q q1 : QuicData) (rc : Int)
    (he : quic_usr_more_space env s q rc = some (s1, q1)) :
    s1.heap = s.heap ∧ s1.outputs = s.outputs ∧ s.nalloc ≤ s1.nalloc := by
  unfold quic_usr_more_space at he
  split at he
  · cases he
  · simp only [] at he
    split at he
    · cases he
    · rename_i r s0 ha
      obtain ⟨_, hs0⟩ := AllocMem_done_inv env s s0 r ha
      simp only [Option.some.injEq, Prod.mk.injEq] at he
      rw [← he.1, hs0]
      exact ⟨rfl, rfl, Nat.le_succ _⟩

theorem GetQuicImage_more_space_heap (env : Env) : ∀ (ms : List Int) (s s1 : PDev)
    (q q1 : QuicData), GetQuicImage.more_space env ms s q = some (s1, q1) →
    s1.heap = s.heap ∧ s1.outputs = s.outputs ∧ s.nalloc ≤ s1.nalloc := by
  intro ms
  induction ms with
  | nil =>
    intro s s1 q q1 he
    simp only [GetQuicImage.more_space, Option.some.injEq, Prod.mk.injEq] at he
    rw [← he.1]
    exact ⟨rfl, rfl, Nat.le_refl _⟩
  | cons m rest ih =>
    intro s s1 q q1 he
    unfold GetQuicImage.more_space at he
    split at he
    · cases he
    · rename_i s2 q2 h2
      obtain ⟨a, b, c⟩ := quic_usr_more_space_heap env _ _ _ _ _ h2
      obtain ⟨a1, b1, c1⟩ := ih _ _ _ _ he
      exact ⟨a1.trans a, b1.trans b, Nat.le_trans c c1⟩

theorem GetQuicImage_heap (env : Env) (fuel : Nat) (s s1 : PDev) (surf : SURFOBJ)
    (cache_me : Bool) (width height : Int) (format : Nat) (src : Int) (line_size key r : Nat)
    (h : GetQuicImage env fuel s surf cache_me width height format src line_size key =
      some (r, s1)) :
    s1.heap.free_log = s.heap.free_log ∧ s1.outputs = s.outputs ∧ s.nalloc ≤ s1.nalloc ∧
      (r ≠ 0 → r = env.alloc s.nalloc ∧ (s1.heap.mem r).refs = 1 ∧ s.nalloc < s1.nalloc) := by
  unfold GetQuicImage at h
  split at h
  · simp only [Option.some.injEq, Prod.mk.injEq] at h
    rw [← h.1, ← h.2]
    exact ⟨rfl, rfl, Nat.le_refl _, fun hc => absurd rfl hc⟩
  · split at h
    · simp only [Option.some.injEq, Prod.mk.injEq] at h
      rw [← h.1, ← h.2]
      exact ⟨rfl, rfl, Nat.le_refl _, fun hc => absurd rfl hc⟩
    · split at h
      · cases h
      · rename_i res s0 ha
        obtain ⟨hr, hs0⟩ := AllocMem_done_inv env s s0 res ha
        simp only [] at h
        split at h
        · cases h
        · split at h
          · cases h
          · rename_i s3 q1 hm
            obtain ⟨a, b, c⟩ := GetQuicImage_more_space_heap env _ _ _ _ _ hm
            have hn0 : s.nalloc < s3.nalloc := by
              have : s0.nalloc = s.nalloc + 1 := by rw [hs0]
              have c1 : s0.nalloc ≤ s3.nalloc := c
              omega
            have hfl : s3.heap.free_log = s.heap.free_log := by rw [a, hs0]
            have hout : s3.outputs = s.outputs := by rw [b, hs0]
            have hm3 : (s3.heap.mem res).refs = 1 := by rw [a]; simp
            split at h
            · split at h
              · cases h
              · rename_i s4 hf
                obtain ⟨f1, f2, f3, f4⟩ := FreeQuicImage_heap env fuel s3 s4 res hf
                simp only [Option.some.injEq, Prod.mk.injEq] at h
                rw [← h.1, ← h.2]
                exact ⟨f2.trans hfl, f4.trans hout, by omega, fun hc => absurd rfl hc⟩
            · simp only [Option.some.injEq, Prod.mk.injEq] at h
              rw [← h.1, ← h.2]
              exact ⟨hfl, hout, Nat.le_of_lt hn0, fun _ => ⟨hr, hm3, hn0⟩⟩

theorem ReleasePalette_heap (h h1 : ResHeap) (pc pc1 : PaletteCache) (p : Nat)
    (he : ReleasePalette h pc p = some (h1, pc1)) :
    h1.mem = h.mem ∧ h1.free_log = h.free_log := by
  unfold ReleasePalette at he
  split at he
  · cases he
  · simp only [] at he
    split at he
    · split at he
      · cases he
      · rename_i h2 hf
        simp only [Option.some.injEq, Prod.mk.injEq] at he
        rw [← he.1]
        exact FreeMem_heap _ _ _ hf
    · simp only [Option.some.injEq, Prod.mk.injEq] at he
      rw [← he.1]
      exact ⟨rfl, rfl⟩

theorem PaletteCacheRemove_walk_heap (palette : Nat) :
    ∀ (fuel : Nat) (h h1 : ResHeap) (pc pc1 : PaletteCache) (L : PaletteLink),
      PaletteCacheRemove.walk palette fuel h pc L = some (h1, pc1) →
      h1.mem = h.mem ∧ h1.free_log = h.free_log := by
  intro fuel
  induction fuel with
  | zero => intro h h1 pc pc1 L he; cases he
  | succ f ih =>
    intro h h1 pc pc1 L he
    unfold PaletteCacheRemove.walk at he
    split at he
    · cases he
    · split at he
      · simp only [] at he
        split at he
        · cases he
        · rename_i h2 pc3 hr
          simp only [Option.some.injEq, Prod.mk.injEq] at he
          rw [← he.1]
          exact ReleasePalette_heap _ _ _ _ _ hr
      · exact ih _ _ _ _ _ he

theorem PaletteCacheAdd_heap (NASKE SIZE fuel : Nat) (h h1 : ResHeap) (pc pc1 : PaletteCache)
    (p : Nat) (he : PaletteCacheAdd NASKE SIZE fuel h pc p = some (h1, pc1)) :
    h1.mem = h.mem ∧ h1.free_log = h.free_log := by
  unfold PaletteCacheAdd at he
  split at he
  · simp only [Option.some.injEq, Prod.mk.injEq] at he
    rw [← he.1]
    exact ⟨rfl, rfl⟩
  · simp only [] at he
    split at he
    · cases he
    · rename_i h2 pc2 hev
      simp only [Option.some.injEq, Prod.mk.injEq] at he
      rw [← he.1]
      split at hev
      · split at hev
        · cases hev
        · unfold PaletteCacheRemove at hev
          split at hev
          · cases hev
          · exact PaletteCacheRemove_walk_heap _ _ _ _ _ _ _ hev
      · simp only [Option.some.injEq, Prod.mk.injEq] at hev
        rw [← hev.1]
        exact ⟨rfl, rfl⟩

theorem GetPallette_heap (env : Env) (fuel : Nat) (s s1 : PDev) (internal : Nat)
    (color_trans : Option XLATEOBJ) (h : GetPallette env fuel s internal color_trans = some s1) :
    s1.heap.mem = s.heap.mem ∧ s1.heap.free_log = s.heap.free_log := by
  unfold GetPallette at h
  simp only [] at h
  split at h
  · simp only [Option.some.injEq] at h
    rw [← h]
    exact ⟨rfl, rfl⟩
  · split at h
    · simp only [Option.some.injEq] at h
      rw [← h]
      exact ⟨rfl, rfl⟩
    · split at h
      · cases h
      · split at h
        · simp only [Option.some.injEq] at h
          rw [← h]
          exact ⟨rfl, rfl⟩
        · split at h
          · cases h
          · rename_i palette s2 ha
            obtain ⟨_, hs2⟩ := AllocMem_done_inv env _ s2 palette ha
            split at h
            · cases h
            · rename_i h2 pc3 hadd
              obtain ⟨a, b⟩ := PaletteCacheAdd_heap _ _ _ _ _ _ _ _ hadd
              simp only [Option.some.injEq] at h
              rw [← h]
              refine ⟨a.trans ?_, b.trans ?_⟩
              · rw [hs2]
              · rw [hs2]

theorem GetBitmapImage_heap (env : Env) (fuel : Nat) (s s1 : PDev) (surf : SURFOBJ)
    (color_trans : Option XLATEOBJ) (cache_me : Bool) (width height : Int) (format : Nat)
    (src : Int) (line_size key r : Nat)
    (h : GetBitmapImage env fuel s surf color_trans cache_me width height format src line_size
      key = some (r, s1)) :
    r = env.alloc s.nalloc ∧ (s1.heap.mem r).refs = 1 ∧ s1.heap.free_log = s.heap.free_log := by
  unfold GetBitmapImage at h
  split at h
  · cases h
  · split at h
    · cases h
    · split at h
      · cases h
      · split at h
        · cases h
        · rename_i image_res s2 ha
          obtain ⟨hr, hs2⟩ := AllocMem_done_inv env s s2 image_res ha
          simp only [] at h
          split at h
          · cases h
          · rename_i st hrows
            split at h
            · cases h
            · rename_i s3 hp
              obtain ⟨a, b⟩ := GetPallette_heap _ _ _ _ _ _ hp
              simp only [Option.some.injEq, Prod.mk.injEq] at h
              rw [← h.1, ← h.2]
              refine ⟨hr, ?_, ?_⟩
              · rw [a]
                simp [GetBitmapImage.header]
              · rw [b, hs2]
                rfl


theorem QXLGetBitmap_bind_heap (env : Env) (s s1 : PDev) (drawable cache_image image_res phys : Nat)
    (hrefs : (s.heap.mem image_res).refs = 1)
    (h : QXLGetBitmap.bind env s drawable cache_image image_res = some (phys, s1)) :
    phys = PA env.main_slot (image_res + env.layout.sizeof_Resource + env.layout.off_image) ∧
      (s1.heap.mem image_res).refs = 1 ∧ s1.heap.free_log = s.heap.free_log ∧
      s1.nalloc = s.nalloc := by
  unfold QXLGetBitmap.bind DrawableAddRes at h
  simp only [] at h
  split at h
  · cases h
  · rename_i h1 outs hadd
    simp only [Option.some.injEq, Prod.mk.injEq] at h
    obtain ⟨a, b, _⟩ := attach_release _ _ _ _ _ _ 1 hadd hrefs (Nat.le_refl _) (by decide)
    rw [← h.1, ← h.2]
    exact ⟨rfl, a, b, rfl⟩

theorem QXLGetBitmap_encode_heap (env : Env) (fuel : Nat) (s s1 : PDev) (drawable : Nat)
    (surf : SURFOBJ) (color_trans : Option XLATEOBJ) (cache_image : Nat) (width height : Int)
    (format : Nat) (src : Int) (line_size key phys : Nat)
    (h : QXLGetBitmap.encode env fuel s drawable surf color_trans cache_image width height
      format src line_size key = some (phys, s1)) :
    s1.heap.free_log = s.heap.free_log ∧ s.nalloc < s1.nalloc ∧
      ∃ res, phys = PA env.main_slot (res + env.layout.sizeof_Resource + env.layout.off_image) ∧
        (s1.heap.mem res).refs = 1 := by
  unfold QXLGetBitmap.encode at h
  split at h
  · cases h
  · rename_i quic_res s2 hg
    obtain ⟨q1, _, q3, q4⟩ := GetQuicImage_heap env fuel s s2 surf _ width height format src
      line_size key quic_res hg
    split at h
    · rename_i hq
      obtain ⟨_, q5, q6⟩ := q4 hq
      obtain ⟨b1, b2, b3, b4⟩ := QXLGetBitmap_bind_heap env s2 s1 drawable cache_image quic_res
        phys q5 h
      exact ⟨b3.trans q1, by omega, quic_res, b1, b2⟩
    · split at h
      · cases h
      · rename_i image_res s3 hb
        obtain ⟨g1, g2, g3⟩ := GetBitmapImage_heap env fuel s2 s3 surf color_trans _ width height
          format src line_size key image_res hb
        obtain ⟨_, _, _, g4⟩ := GetBitmapImage_frame env fuel s2 s3 surf color_trans _ width
          height format src line_size key image_res hb
        obtain ⟨b1, b2, b3, b4⟩ := QXLGetBitmap_bind_heap env s3 s1 drawable cache_image image_res
          phys g2 h
        exact ⟨b3.trans (g3.trans q1), by omega, image_res, b1, b2⟩

theorem QXLGetBitmap_hit_heap (env : Env) (s s1 : PDev) (drawable internal phys : Nat)
    (h : QXLGetBitmap.hit env s drawable internal = some (phys, s1)) :
    phys = PA env.main_slot (internal + env.layout.off_image) ∧
      (s1.heap.mem (internal - env.layout.sizeof_Resource)).refs =
        (1 + (s.heap.mem (internal - env.layout.sizeof_Resource)).refs) % UINT32_MOD ∧
      s1.heap.free_log = s.heap.free_log ∧ s1.nalloc = s.nalloc ∧
      (∀ a, a ≠ internal - env.layout.sizeof_Resource → s1.heap.mem a = s.heap.mem a) := by
  unfold QXLGetBitmap.hit DrawableAddRes at h
  split at h
  · cases h
  · rename_i h1 outs hadd
    simp only [Option.some.injEq, Prod.mk.injEq] at h
    obtain ⟨a, b, c⟩ := AddRes_heap _ _ _ _ _ _ hadd
    rw [← h.1, ← h.2]
    exact ⟨rfl, a, b, rfl, c⟩

theorem QXLGetBitmap_miss_heap (env : Env) (fuel : Nat) (s : PDev) (drawable image_phys : Nat)
    (surf : SURFOBJ) (area : Rect) (color_trans : Option XLATEOBJ) (hash_key : Option Nat)
    (cache_image : Nat) (r : BitmapResult)
    (h : QXLGetBitmap.miss env fuel s drawable image_phys surf area color_trans hash_key
      cache_image = some r) (hret : r.ret = true) :
    r.s.heap.free_log = s.heap.free_log ∧ s.nalloc < r.s.nalloc ∧
      ∃ res, r.image_phys =
          PA env.main_slot (res + env.layout.sizeof_Resource + env.layout.off_image) ∧
        (r.s.heap.mem res).refs = 1 := by
  unfold QXLGetBitmap.miss at h
  split at h
  · split at h
    · simp only [Option.some.injEq] at h
      rw [← h] at hret
      cases hret
    · split at h
      · cases h
      · rename_i phys s1 he
        simp only [Option.some.injEq] at h
        rw [← h]
        exact QXLGetBitmap_encode_heap _ _ _ _ _ _ _ _ _ _ _ _ _ _ _ he
  · split at h
    · simp only [Option.some.injEq] at h
      rw [← h] at hret
      cases hret
    · simp only [] at h
      split at h
      · simp only [Option.some.injEq] at h
        rw [← h] at hret
        cases hret
      · split at h
        · cases h
        · rename_i phys s1 he
          simp only [Option.some.injEq] at h
          rw [← h]
          obtain ⟨b1, b2, b3⟩ := QXLGetBitmap_encode_heap _ _ _ _ _ _ _ _ _ _ _ _ _ _ _ he
          exact ⟨b1, b2, b3⟩

theorem QXLGetBitmap_refs (env : Env) (fuel : Nat) (s : PDev) (drawable image_phys : Nat)
    (surf : SURFOBJ) (area : Rect) (color_trans : Option XLATEOBJ) (hash_key : Option Nat)
    (use_cache : Bool) (r : BitmapResult)
    (h : QXLGetBitmap env fuel s drawable image_phys surf area color_trans hash_key use_cache =
      some r) (hret : r.ret = true) :
    r.s.heap.free_log = s.heap.free_log ∧
    ((r.s.nalloc = s.nalloc ∧ use_cache = true ∧
        ∃ c k ic, GetChachImage env fuel s.icache surf color_trans hash_key = some (c, k, ic) ∧
          c ≠ 0 ∧ (ic.pool c).image ≠ 0 ∧
          r.image_phys = PA env.main_slot ((ic.pool c).image + env.layout.off_image) ∧
          (r.s.heap.mem ((ic.pool c).image - env.layout.sizeof_Resource)).refs =
            (1 + (s.heap.mem ((ic.pool c).image - env.layout.sizeof_Resource)).refs)
              % UINT32_MOD) ∨
      (s.nalloc < r.s.nalloc ∧
        ∃ res, r.image_phys =
            PA env.main_slot (res + env.layout.sizeof_Resource + env.layout.off_image) ∧
          (r.s.heap.mem res).refs = 1)) := by
  unfold QXLGetBitmap at h
  split at h
  · cases h
  · split at h
    · simp only [Option.some.injEq] at h
      rw [← h] at hret
      cases hret
    · split at h
      · simp only [Option.some.injEq] at h
        rw [← h] at hret
        cases hret
      · split at h
        · rename_i huc
          split at h
          · cases h
          · rename_i c k ic hg
            split at h
            · rename_i hhit
              split at h
              · cases h
              · rename_i phys s1 hh
                obtain ⟨a1, a2, a3, a4, _⟩ := QXLGetBitmap_hit_heap env _ s1 drawable _ phys hh
                simp only [Option.some.injEq] at h
                rw [← h]
                exact ⟨a3, Or.inl ⟨a4, huc, c, k, ic, hg, hhit.1, hhit.2, a1, a2⟩⟩
            · obtain ⟨b1, b2, b3⟩ := QXLGetBitmap_miss_heap env fuel _ drawable image_phys surf
                area color_trans k c r h hret
              exact ⟨b1, Or.inr ⟨b2, b3⟩⟩
        · obtain ⟨b1, b2, b3⟩ := QXLGetBitmap_miss_heap env fuel _ drawable image_phys surf
            area color_trans hash_key 0 r h hret
          exact ⟨b1, Or.inr ⟨b2, b3⟩⟩

theorem QXLGetAlphaBitmap_refs (env : Env) (fuel : Nat) (s : PDev) (drawable image_phys : Nat)
    (surf : SURFOBJ) (area : Rect) (r : BitmapResult)
    (h : QXLGetAlphaBitmap env fuel s drawable image_phys surf area = some r) :
    r.s.heap.free_log = s.heap.free_log ∧
    ((r.s.nalloc = s.nalloc ∧
        ∃ c ic, ImageCacheGetByKey env.IMAGE_HASH_MASK fuel
            (QXLGetAlphaBitmap.lookup env s.icache surf).2
            (QXLGetAlphaBitmap.lookup env s.icache surf).1 true env.consts.BITMAP_FMT_RGBA
            (toU32 surf.cx) (toU32 surf.cy) = some (c, ic) ∧
          c ≠ 0 ∧ (ic.pool c).image ≠ 0 ∧
          r.image_phys = PA env.main_slot ((ic.pool c).image + env.layout.off_image) ∧
          (r.s.heap.mem ((ic.pool c).image - env.layout.sizeof_Resource)).refs =
            (1 + (s.heap.mem ((ic.pool c).image - env.layout.sizeof_Resource)).refs)
              % UINT32_MOD) ∨
      (s.nalloc < r.s.nalloc ∧
        ∃ res, r.image_phys =
            PA env.main_slot (res + env.layout.sizeof_Resource + env.layout.off_image) ∧
          (r.s.heap.mem res).refs = 1)) := by
  unfold QXLGetAlphaBitmap at h
  split at h
  · cases h
  · split at h
    · cases h
    · simp only [] at h
      split at h
      · cases h
      · rename_i c ic hg
        split at h
        · rename_i hhit
          split at h
          · cases h
          · rename_i phys s1 hh
            obtain ⟨a1, a2, a3, a4, _⟩ := QXLGetBitmap_hit_heap env _ s1 drawable _ phys hh
            simp only [Option.some.injEq] at h
            rw [← h]
            exact ⟨a3, Or.inl ⟨a4, c, ic, hg, hhit.1, hhit.2, a1, a2⟩⟩
        · split at h
          · split at h
            · cases h
            · rename_i phys s1 he
              obtain ⟨b1, b2, b3⟩ := QXLGetBitmap_encode_heap _ _ _ _ _ _ _ _ _ _ _ _ _ _ _ he
              simp only [Option.some.injEq] at h
              rw [← h]
              exact ⟨b1, Or.inr ⟨b2, b3⟩⟩
          · split at h
            · cases h
            · rename_i ic1 hres
              split at h
              · cases h
              · rename_i phys s1 he
                obtain ⟨b1, b2, b3⟩ := QXLGetBitmap_encode_heap _ _ _ _ _ _ _ _ _ _ _ _ _ _ _ he
                simp only [Option.some.injEq] at h
                rw [← h]
                exact ⟨b1, Or.inr ⟨b2, b3⟩⟩


theorem CursorCacheRemove_walk_heap (sz cursor : Nat) :
    ∀ (fuel : Nat) (h h1 : ResHeap) (cc cc1 : CursorCache) (L : CursorLink),
      CursorCacheRemove.walk sz cursor fuel h cc L = some (h1, cc1) →
      h1 = RELEASE_RES h (cursor - sz) ∧ cc1.cursors_lru = RingRemove cc.cursors_lru cursor := by
  intro fuel
  induction fuel with
  | zero => intro h h1 cc cc1 L he; cases he
  | succ f ih =>
    intro h h1 cc cc1 L he
    unfold CursorCacheRemove.walk at he
    split at he
    · cases he
    · split at he
      · simp only [Option.some.injEq] at he
        have e2 : (curRemoved sz h cc L cursor).2 = cc1 := congrArg Prod.snd he
        refine ⟨(congrArg Prod.fst he).symm, ?_⟩
        rw [← e2]
        cases L <;> rfl
      · exact ih _ _ _ _ _ he

theorem CursorCacheGet_walk_hit (NASKE sz rfuel hsurf unique : Nat) :
    ∀ (fuel : Nat) (h h0 : ResHeap) (cc cc0 : CursorCache) (L : CursorLink) (p : Nat),
      CursorCacheGet.walk NASKE sz rfuel hsurf unique fuel h cc L = some (p, h0, cc0) →
      p ≠ 0 → h0 = h := by
  intro fuel
  induction fuel with
  | zero => intro h h0 cc cc0 L p he; cases he
  | succ f ih =>
    intro h h0 cc cc0 L p he hp
    unfold CursorCacheGet.walk at he
    split at he
    · simp only [Option.some.injEq, Prod.mk.injEq] at he
      exact absurd he.1.symm hp
    · split at he
      · split at he
        · simp only [Option.some.injEq, Prod.mk.injEq] at he
          exact he.2.1.symm
        · split at he
          · cases he
          · simp only [Option.some.injEq, Prod.mk.injEq] at he
            exact absurd he.1.symm hp
      · exact ih _ _ _ _ _ _ he hp

theorem CursorCacheGet_hit (NASKE sz fuel : Nat) (h h0 : ResHeap) (cc cc0 : CursorCache)
    (hsurf unique p : Nat)
    (he : CursorCacheGet NASKE sz fuel h cc hsurf unique = some (p, h0, cc0)) (hp : p ≠ 0) :
    h0 = h := by
  unfold CursorCacheGet at he
  split at he
  · simp only [Option.some.injEq, Prod.mk.injEq] at he
    exact absurd he.1.symm hp
  · exact CursorCacheGet_walk_hit _ _ _ _ _ _ _ _ _ _ _ _ he hp

theorem CursorCacheGet_zero (NASKE sz fuel : Nat) (h : ResHeap) (cc : CursorCache)
    (hsurf : Nat) : CursorCacheGet NASKE sz fuel h cc hsurf 0 = some (0, h, cc) := by
  unfold CursorCacheGet
  rw [if_pos rfl]

theorem CursorCacheAdd_heap (NASKE SIZE sz fuel : Nat) (h h2 : ResHeap) (cc cc2 : CursorCache)
    (cursor : Nat) (he : CursorCacheAdd NASKE SIZE sz fuel h cc cursor = some (h2, cc2)) :
    ((cc.cursors cursor).unique = 0 → h2 = h) ∧
    ((cc.cursors cursor).unique ≠ 0 →
      (cc.num_cursors ≠ SIZE ∧ h2 = GET_RES h (cursor - sz)) ∨
      (cc.num_cursors = SIZE ∧
        h2 = GET_RES (RELEASE_RES h (RingGetTail cc.cursors_lru - sz)) (cursor - sz))) := by
  unfold CursorCacheAdd at he
  split at he
  · rename_i hu
    simp only [Option.some.injEq, Prod.mk.injEq] at he
    exact ⟨fun _ => he.1.symm, fun hn => absurd hu hn⟩
  · rename_i hu
    refine ⟨fun h0 => absurd h0 hu, fun _ => ?_⟩
    split at he
    · cases he
    · rename_i h1 cc1 hev
      simp only [Option.some.injEq] at he
      have e2 : h2 = GET_RES h1 (cursor - sz) := (congrArg Prod.fst he).symm
      split at hev
      · rename_i hfull
        split at hev
        · cases hev
        · unfold CursorCacheRemove at hev
          split at hev
          · cases hev
          · obtain ⟨e1, _⟩ := CursorCacheRemove_walk_heap _ _ _ _ _ _ _ _ hev
            exact Or.inr ⟨hfull, by rw [e2, e1]⟩
      · rename_i hfull
        simp only [Option.some.injEq, Prod.mk.injEq] at hev
        exact Or.inl ⟨hfull, by rw [e2, ← hev.1]⟩

theorem GetTransparentCursor_heap (env : Env) (ck : CursorConsts) (d d1 : CursorDev) (cmd : Nat)
    (h : GetTransparentCursor env ck d cmd = some d1) :
    (d1.s.heap.mem (env.alloc d.s.nalloc)).refs = 1 ∧
      d1.s.heap.free_log = d.s.heap.free_log ∧
      d1.shape cmd = PA env.main_slot
        (env.alloc d.s.nalloc + env.layout.sizeof_Resource + env.layout.off_cursor) := by
  unfold GetTransparentCursor CursorCmdAddRes at h
  split at h
  · cases h
  · split at h
    · cases h
    · rename_i res s0 ha
      obtain ⟨hr, hs0⟩ := AllocMem_done_inv env d.s s0 res ha
      simp only [] at h
      split at h
      · cases h
      · rename_i h2 outs hadd
        simp only [Option.some.injEq] at h
        obtain ⟨a, b1, _⟩ := attach_release _ _ _ _ _ _ 1 hadd (by simp) (Nat.le_refl _)
          (by decide)
        rw [← h, ← hr]
        refine ⟨a, ?_, by simp⟩
        show (RELEASE_RES h2 res).free_log = _
        rw [b1, hs0]

theorem GetCursorCommon_build_heap (env : Env) (ck : CursorConsts) (fuel : Nat)
    (d d1 : CursorDev) (cmd : Nat) (hot_x hot_y : Int) (surf : SURFOBJ) (type : Nat)
    (st : Encoder)
    (h : GetCursorCommon.build env ck fuel d cmd hot_x hot_y surf type = some (st, d1)) :
    (GetCursorCommon.unique env.consts surf = 0 →
      (d1.s.heap.mem (env.alloc d.s.nalloc)).refs = 1 ∧
        d1.s.heap.free_log = d.s.heap.free_log) ∧
    (GetCursorCommon.unique env.consts surf ≠ 0 →
      (d.cc.num_cursors = ck.CURSOR_CACHE_SIZE →
        RingGetTail d.cc.cursors_lru - env.layout.sizeof_Resource ≠ env.alloc d.s.nalloc) →
      (d1.s.heap.mem (env.alloc d.s.nalloc)).refs = 2 ∧
        freeCalls d1.s.heap (env.alloc d.s.nalloc) =
          freeCalls d.s.heap (env.alloc d.s.nalloc)) ∧
    d1.shape cmd = PA env.main_slot
      (env.alloc d.s.nalloc + env.layout.sizeof_Resource + env.layout.off_cursor) := by
  unfold GetCursorCommon.build CursorCmdAddRes at h
  simp only [] at h
  split at h
  · cases h
  · split at h
    · cases h
    · rename_i res s0 ha
      obtain ⟨hr, hs0⟩ := AllocMem_done_inv env d.s s0 res ha
      split at h
      · cases h
      · split at h
        · cases h
        · split at h
          · cases h
          · split at h
            · cases h
            · rename_i h2 cc2 hadd
              split at h
              · cases h
              · rename_i h3 outs hres
                simp only [Option.some.injEq, Prod.mk.injEq] at h
                obtain ⟨_, hd1⟩ := h
                have hsub : res + env.layout.sizeof_Resource - env.layout.sizeof_Resource = res :=
                  Nat.add_sub_cancel _ _
                obtain ⟨c0, c1⟩ := CursorCacheAdd_heap _ _ _ _ _ _ _ _ _ hadd
                have hu : ∀ u : Nat, (({ d.cc with
                    cursors := fun a =>
                      if a = res + env.layout.sizeof_Resource then
                        { d.cc.cursors a with hsurf := surf.hsurf, unique := u }
                      else d.cc.cursors a } : CursorCache).cursors
                    (res + env.layout.sizeof_Resource)).unique = u := by
                  intro u
                  simp
                rw [hu] at c0 c1
                rw [hsub] at c1
                rw [← hd1, ← hr]
                refine ⟨?_, ?_, by simp⟩
                · intro hu0
                  have e2 := c0 hu0
                  rw [e2] at hres
                  obtain ⟨a, b1, _⟩ := attach_release _ _ _ _ _ _ 1 hres (by simp)
                    (Nat.le_refl _) (by decide)
                  refine ⟨a, ?_⟩
                  show (RELEASE_RES h3 res).free_log = _
                  rw [b1, hs0]
                · intro hu1 htail
                  have key : (h2.mem res).refs = 2 ∧ freeCalls h2 res = freeCalls d.s.heap res := by
                    rcases c1 hu1 with ⟨_, e2⟩ | ⟨hfull, e2⟩
                    · rw [e2]
                      refine ⟨?_, ?_⟩
                      · rw [GET_RES_refs]
                        simp
                      · rw [GET_RES_freeCalls, hs0]
                        rfl
                    · have hne : res ≠ RingGetTail d.cc.cursors_lru - env.layout.sizeof_Resource :=
                        fun e => htail hfull e.symm
                      rw [e2]
                      refine ⟨?_, ?_⟩
                      · rw [GET_RES_refs, RELEASE_RES_mem_other _ _ _ hne]
                        simp
                      · rw [GET_RES_freeCalls, RELEASE_RES_freeCalls_other _ _ _ hne, hs0]
                        rfl
                  obtain ⟨a, b1, _⟩ := attach_release _ _ _ _ _ _ 2 hres key.1 (by decide)
                    (by decide)
                  refine ⟨a, ?_⟩
                  show freeCalls (RELEASE_RES h3 res) res = _
                  rw [← key.2]
                  unfold freeCalls
                  rw [b1]


theorem succ_mod_uint32 (x : Nat) (h : x + 1 < UINT32_MOD) : (1 + x) % UINT32_MOD = x + 1 := by
  rw [Nat.mod_eq_of_lt (by omega)]
  omega

theorem GetCursorCommon_refs (env : Env) (ck : CursorConsts) (fuel : Nat) (d d1 : CursorDev)
    (cmd : Nat) (hot_x hot_y : Int) (surf : SURFOBJ) (type : Nat) (ret : Bool)
    (info : Option Encoder)
    (h : GetCursorCommon env ck fuel d cmd hot_x hot_y surf type = some (ret, info, d1)) :
    ∃ internal h0 cc0,
      CursorCacheGet ck.CURSOR_HASH_NASKE env.layout.sizeof_Resource fuel d.s.heap d.cc surf.hsurf
        (GetCursorCommon.unique env.consts surf) = some (internal, h0, cc0) ∧
      (internal ≠ 0 → ret = true ∧
        (d1.s.heap.mem (internal - env.layout.sizeof_Resource)).refs =
          (1 + (d.s.heap.mem (internal - env.layout.sizeof_Resource)).refs) % UINT32_MOD ∧
        d1.s.heap.free_log = d.s.heap.free_log ∧ d1.s.nalloc = d.s.nalloc ∧
        d1.shape cmd = PA env.main_slot (internal + env.layout.off_cursor)) ∧
      (internal = 0 → ret = false ∧
        d1.shape cmd = PA env.main_slot
          (env.alloc d.s.nalloc + env.layout.sizeof_Resource + env.layout.off_cursor) ∧
        (GetCursorCommon.unique env.consts surf = 0 →
          (d1.s.heap.mem (env.alloc d.s.nalloc)).refs = 1 ∧
            d1.s.heap.free_log = d.s.heap.free_log) ∧
        (GetCursorCommon.unique env.consts surf ≠ 0 →
          (cc0.num_cursors = ck.CURSOR_CACHE_SIZE →
            RingGetTail cc0.cursors_lru - env.layout.sizeof_Resource ≠ env.alloc d.s.nalloc) →
          (d1.s.heap.mem (env.alloc d.s.nalloc)).refs = 2 ∧
            freeCalls d1.s.heap (env.alloc d.s.nalloc) = freeCalls h0 (env.alloc d.s.nalloc))) := by
  unfold GetCursorCommon CursorCmdAddRes at h
  split at h
  · cases h
  · rename_i internal h0 cc0 hget
    refine ⟨internal, h0, cc0, hget, ?_, ?_⟩
    · intro hi
      rw [if_pos hi] at h
      split at h
      · cases h
      · rename_i h1 outs hadd
        simp only [Option.some.injEq, Prod.mk.injEq] at h
        obtain ⟨a, b, _⟩ := AddRes_heap _ _ _ _ _ _ hadd
        have e0 := CursorCacheGet_hit _ _ _ _ _ _ _ _ _ _ hget hi
        rw [e0] at a b
        rw [← h.1, ← h.2.2]
        exact ⟨rfl, a, b, rfl, by simp⟩
    · intro hi
      rw [if_neg (not_not.mpr hi)] at h
      split at h
      · cases h
      · rename_i st d2 hb
        simp only [Option.some.injEq, Prod.mk.injEq] at h
        obtain ⟨b1, b2, b3⟩ := GetCursorCommon_build_heap env ck fuel _ d2 cmd hot_x hot_y surf
          type st hb
        rw [← h.1, ← h.2.2]
        refine ⟨rfl, b3, ?_, b2⟩
        intro hu0
        obtain ⟨c1, c2⟩ := b1 hu0
        refine ⟨c1, c2.trans ?_⟩
        rw [hu0, CursorCacheGet_zero] at hget
        simp only [Option.some.injEq, Prod.mk.injEq] at hget
        show h0.free_log = _
        rw [← hget.2.1]

/-- C23. Constructor reference discipline. A resource is seeded with `refs = 1`,
attached to the envelope (`refs++`) and released (`--refs`), so that after a
successful return the new resource (the block of the call's first successful
allocation that is kept) has `refs = 1` and no call through `res->free` has been
logged: for `QXLGetPath`, `QXLGetBuf` (accepted size), `QXLGetStr` (return
`TRUE`), `SetClip` with a clip object (return `TRUE`, all of its branches),
`GetTransparentCursor`, and for `QXLGetBitmap` / `QXLGetAlphaBitmap` when they
encode a new image (they then allocate). When these two find a realized image in
the cache they allocate nothing and the `refs` of the cached resource goes up
by one (`UINT32` increment, so by exactly 1 below `2^32 - 1`), again with no
finalizer call. `GetCursorCommon`: on a cache hit the existing cursor's `refs`
goes up by one; when it builds a cursor, `refs` ends at 1 for `unique = 0` and
at 2 for a non-zero `unique` (envelope and cursor cache), and the finalizer of
the new resource is not called between the lookup and the return. For the
non-zero `unique` case the block of the new cursor is taken to differ from the
block of the cursor that `CursorCacheAdd` evicts when the cache is full. -/
theorem C23_constructor_reference_discipline (env : Env) (ck : CursorConsts) (fuel : Nat)
    (s : PDev) (d : CursorDev) (drawable cmd : Nat) :
    (∀ (path : PATHOBJ) (b : Bool) (phys : Nat) (s1 : PDev),
      QXLGetPath env fuel s drawable path = some (b, phys, s1) →
      b = true ∧ phys = PA env.main_slot (env.alloc s.nalloc + env.layout.sizeof_Resource) ∧
        (s1.heap.mem (env.alloc s.nalloc)).refs = 1 ∧ s1.heap.free_log = s.heap.free_log) ∧
    (∀ (buf_phys size ptr phys : Nat) (s1 : PDev),
      size ≤ env.consts.PAGE_SIZE - env.layout.sizeof_Resource →
      QXLGetBuf env s drawable buf_phys size = some (ptr, phys, s1) →
      ptr = env.alloc s.nalloc + env.layout.sizeof_Resource ∧
        phys = PA env.main_slot (env.alloc s.nalloc + env.layout.sizeof_Resource) ∧
        (s1.heap.mem (env.alloc s.nalloc)).refs = 1 ∧ s1.heap.free_log = s.heap.free_log) ∧
    (∀ (str_phys : Nat) (font : FONTOBJ) (str : STROBJ) (phys : Nat) (s1 : PDev),
      QXLGetStr env fuel s drawable str_phys font str = some (true, phys, s1) →
      phys = PA env.main_slot (env.alloc s.nalloc + env.layout.sizeof_Resource) ∧
        (s1.heap.mem (env.alloc s.nalloc)).refs = 1 ∧ s1.heap.free_log = s.heap.free_log) ∧
    (∀ (c : CLIPOBJ) (s1 : PDev), SetClip env fuel s (some c) drawable = some (true, s1) →
      (s1.heap.mem (env.alloc s.nalloc)).refs = 1 ∧ s1.heap.free_log = s.heap.free_log) ∧
    (∀ d1 : CursorDev, GetTransparentCursor env ck d cmd = some d1 →
      (d1.s.heap.mem (env.alloc d.s.nalloc)).refs = 1 ∧
        d1.s.heap.free_log = d.s.heap.free_log ∧
        d1.shape cmd = PA env.main_slot
          (env.alloc d.s.nalloc + env.layout.sizeof_Resource + env.layout.off_cursor)) ∧
    (∀ (image_phys : Nat) (surf : SURFOBJ) (area : Rect) (color_trans : Option XLATEOBJ)
        (hash_key : Option Nat) (use_cache : Bool) (r : BitmapResult),
      QXLGetBitmap env fuel s drawable image_phys surf area color_trans hash_key use_cache =
        some r → r.ret = true →
      r.s.heap.free_log = s.heap.free_log ∧
      ((r.s.nalloc = s.nalloc ∧ use_cache = true ∧
          ∃ c k ic, GetChachImage env fuel s.icache surf color_trans hash_key = some (c, k, ic) ∧
            c ≠ 0 ∧ (ic.pool c).image ≠ 0 ∧
            r.image_phys = PA env.main_slot ((ic.pool c).image + env.layout.off_image) ∧
            (r.s.heap.mem ((ic.pool c).image - env.layout.sizeof_Resource)).refs =
              (1 + (s.heap.mem ((ic.pool c).image - env.layout.sizeof_Resource)).refs)
                % UINT32_MOD ∧
            ((s.heap.mem ((ic.pool c).image - env.layout.sizeof_Resource)).refs + 1 <
                UINT32_MOD →
              (r.s.heap.mem ((ic.pool c).image - env.layout.sizeof_Resource)).refs =
                (s.heap.mem ((ic.pool c).image - env.layout.sizeof_Resource)).refs + 1)) ∨
        (s.nalloc < r.s.nalloc ∧
          ∃ res, r.image_phys =
              PA env.main_slot (res + env.layout.sizeof_Resource + env.layout.off_image) ∧
            (r.s.heap.mem res).refs = 1))) ∧
    (∀ (image_phys : Nat) (surf : SURFOBJ) (area : Rect) (r : BitmapResult),
      QXLGetAlphaBitmap env fuel s drawable image_phys surf area = some r →
      r.s.heap.free_log = s.heap.free_log ∧
      ((r.s.nalloc = s.nalloc ∧
          ∃ c ic, ImageCacheGetByKey env.IMAGE_HASH_MASK fuel
              (QXLGetAlphaBitmap.lookup env s.icache surf).2
              (QXLGetAlphaBitmap.lookup env s.icache surf).1 true env.consts.BITMAP_FMT_RGBA
              (toU32 surf.cx) (toU32 surf.cy) = some (c, ic) ∧
            c ≠ 0 ∧ (ic.pool c).image ≠ 0 ∧
            r.image_phys = PA env.main_slot ((ic.pool c).image + env.layout.off_image) ∧
            (r.s.heap.mem ((ic.pool c).image - env.layout.sizeof_Resource)).refs =
              (1 + (s.heap.mem ((ic.pool c).image - env.layout.sizeof_Resource)).refs)
                % UINT32_MOD ∧
            ((s.heap.mem ((ic.pool c).image - env.layout.sizeof_Resource)).refs + 1 <
                UINT32_MOD →
              (r.s.heap.mem ((ic.pool c).image - env.layout.sizeof_Resource)).refs =
                (s.heap.mem ((ic.pool c).image - env.layout.sizeof_Resource)).refs + 1)) ∨
        (s.nalloc < r.s.nalloc ∧
          ∃ res, r.image_phys =
              PA env.main_slot (res + env.layout.sizeof_Resource + env.layout.off_image) ∧
            (r.s.heap.mem res).refs = 1))) ∧
    (∀ (hot_x hot_y : Int) (surf : SURFOBJ) (type : Nat) (ret : Bool) (info : Option Encoder)
        (d1 : CursorDev),
      GetCursorCommon env ck fuel d cmd hot_x hot_y surf type = some (ret, info, d1) →
      ∃ internal h0 cc0,
        CursorCacheGet ck.CURSOR_HASH_NASKE env.layout.sizeof_Resource fuel d.s.heap d.cc
          surf.hsurf (GetCursorCommon.unique env.consts surf) = some (internal, h0, cc0) ∧
        (internal ≠ 0 → ret = true ∧
          (d1.s.heap.mem (internal - env.layout.sizeof_Resource)).refs =
            (1 + (d.s.heap.mem (internal - env.layout.sizeof_Resource)).refs) % UINT32_MOD ∧
          ((d.s.heap.mem (internal - env.layout.sizeof_Resource)).refs + 1 < UINT32_MOD →
            (d1.s.heap.mem (internal - env.layout.sizeof_Resource)).refs =
              (d.s.heap.mem (internal - env.layout.sizeof_Resource)).refs + 1) ∧
          d1.s.heap.free_log = d.s.heap.free_log ∧ d1.s.nalloc = d.s.nalloc) ∧
        (internal = 0 → ret = false ∧
          (GetCursorCommon.unique env.consts surf = 0 →
            (d1.s.heap.mem (env.alloc d.s.nalloc)).refs = 1 ∧
              d1.s.heap.free_log = d.s.heap.free_log) ∧
          (GetCursorCommon.unique env.consts surf ≠ 0 →
            (cc0.num_cursors = ck.CURSOR_CACHE_SIZE →
              RingGetTail cc0.cursors_lru - env.layout.sizeof_Resource ≠
                env.alloc d.s.nalloc) →
            (d1.s.heap.mem (env.alloc d.s.nalloc)).refs = 2 ∧
              freeCalls d1.s.heap (env.alloc d.s.nalloc) =
                freeCalls h0 (env.alloc d.s.nalloc)))) := by
  refine ⟨?_, ?_, ?_, ?_, ?_, ?_, ?_, ?_⟩
  · intro path b phys s1 h
    exact QXLGetPath_heap env fuel s s1 drawable path b phys h
  · intro buf_phys size ptr phys s1 hsize h
    exact QXLGetBuf_heap env s s1 drawable buf_phys size ptr phys hsize h
  · intro str_phys font str phys s1 h
    exact QXLGetStr_heap env fuel s s1 drawable str_phys font str phys h
  · intro c s1 h
    exact SetClip_heap env fuel s s1 c drawable h
  · intro d1 h
    exact GetTransparentCursor_heap env ck d d1 cmd h
  · intro image_phys surf area color_trans hash_key use_cache r h hret
    obtain ⟨a, b⟩ := QXLGetBitmap_refs env fuel s drawable image_phys surf area color_trans
      hash_key use_cache r h hret
    refine ⟨a, ?_⟩
    rcases b with ⟨b1, b2, c, k, ic, b3, b4, b5, b6, b7⟩ | b
    · exact Or.inl ⟨b1, b2, c, k, ic, b3, b4, b5, b6, b7,
        fun hlt => b7.trans (succ_mod_uint32 _ hlt)⟩
    · exact Or.inr b
  · intro image_phys surf area r h
    obtain ⟨a, b⟩ := QXLGetAlphaBitmap_refs env fuel s drawable image_phys surf area r h
    refine ⟨a, ?_⟩
    rcases b with ⟨b1, c, ic, b3, b4, b5, b6, b7⟩ | b
    · exact Or.inl ⟨b1, c, ic, b3, b4, b5, b6, b7, fun hlt => b7.trans (succ_mod_uint32 _ hlt)⟩
    · exact Or.inr b
  · intro hot_x hot_y surf type ret info d1 h
    obtain ⟨internal, h0, cc0, g1, g2, g3⟩ := GetCursorCommon_refs env ck fuel d d1 cmd hot_x
      hot_y surf type ret info h
    refine ⟨internal, h0, cc0, g1, ?_, ?_⟩
    · intro hi
      obtain ⟨a1, a2, a3, a4, _⟩ := g2 hi
      exact ⟨a1, a2, fun hlt => a2.trans (succ_mod_uint32 _ hlt), a3, a4⟩
    · intro hi
      obtain ⟨a1, _, a3, a4⟩ := g3 hi
      exact ⟨a1, a3, a4⟩

theorem C23_constructor_reference_discipline_witness :
    (∀ (ptr phys : Nat) (s1 : PDev),
      QXLGetBuf exampleEnv examplePDev 184 0 64 = some (ptr, phys, s1) →
      ptr = 8208 ∧ (s1.heap.mem 8192).refs = 1 ∧ s1.heap.free_log = []) ∧
    (QXLGetBuf exampleEnv examplePDev 184 0 64).map
      (fun r => (r.1, (r.2.2.heap.mem 8192).refs, r.2.2.heap.free_log,
        (r.2.2.outputs 128).num_res, (r.2.2.outputs 128).resources 3)) =
      some (8208, 1, [], 4, 8192) ∧
    (GetCursorCommon exampleEnv exampleCursorConsts 5 exampleCursorDev 184 0 0 exampleSurf 0).map
      (fun r => (r.1, (r.2.2.s.heap.mem 8192).refs, r.2.2.s.heap.free_log,
        r.2.2.cc.cursors_lru, (r.2.2.s.outputs 128).resources 3)) =
      some (false, 2, [], [8208], 8192) ∧
    (GetTransparentCursor exampleEnv exampleCursorConsts exampleCursorDev 184).map
      (fun r => ((r.s.heap.mem 8192).refs, r.s.heap.free_log, r.cc.cursors_lru)) =
      some (1, [], []) := by
  refine ⟨fun ptr phys s1 h => ?_, rfl, rfl, rfl⟩
  obtain ⟨a, _, c, e⟩ := (C23_constructor_reference_discipline exampleEnv exampleCursorConsts 5
    examplePDev exampleCursorDev 184 184).2.1 0 64 ptr phys s1 (by decide) h
  exact ⟨a, c, e⟩


/-! ### Raster glyph rows: what the code emits -/

theorem ByteChain_copy (env : Env) (c0 n0 : Nat) (st : Encoder) (written src : List Nat)
    (hfresh : ∀ k, n0 ≤ k → env.alloc k ≠ c0)
    (hinj : ∀ i j, n0 ≤ i → n0 ≤ j → env.alloc i = env.alloc j → i = j)
    (hroom : st.now + src.length ≤ st.end_)
    (h : ByteChain env c0 n0 st written) :
    ByteChain env c0 n0 (copyToChunk st src src.length) (written ++ src) := by
  obtain ⟨m, hn, hc, hl, hds, hle, hw⟩ := h
  have hnd := chain_nodup env.alloc c0 n0 m m (Nat.le_refl _)
    (fun i _ => hfresh _ (Nat.le_add_right _ _))
    (fun i j _ _ e => by
      have := hinj _ _ (Nat.le_add_right n0 i) (Nat.le_add_right n0 j) e
      omega)
  obtain ⟨hsplit, hnotin⟩ := chain_split c0 _ hnd
  rw [← hc] at hsplit hnotin
  have hlink : ∀ a, ((copyToChunk st src src.length).mem a).next_chunk = (st.mem a).next_chunk ∧
      ((copyToChunk st src src.length).mem a).prev_chunk = (st.mem a).prev_chunk := by
    intro a
    by_cases ha : a = st.chunk
    · rw [ha]
      exact ⟨(copyToChunk_mem_self st src _).2.1, (copyToChunk_mem_self st src _).2.2.1⟩
    · rw [copyToChunk_mem_other st src _ a ha]
      exact ⟨rfl, rfl⟩
  have hother : ∀ a, a ∈ (c0 :: allocated env.alloc n0 m).dropLast →
      (copyToChunk st src src.length).mem a = st.mem a := by
    intro a ha
    exact copyToChunk_mem_other st src _ a (fun e => hnotin (e ▸ ha))
  have hlast : chunkData ((copyToChunk st src src.length).mem st.chunk) =
      chunkData (st.mem st.chunk) ++ src := by
    unfold chunkData
    rw [(copyToChunk_mem_self st src _).1, dataSlice_add, hds, Nat.zero_add]
    congr 1
    · exact dataSlice_congr _ _ 0 st.now (fun i hi =>
        (copyToChunk_mem_self st src _).2.2.2.1 i (by omega))
    · rw [dataSlice_eq_take _ st.now _ src (Nat.le_refl _)
        (copyToChunk_mem_self st src _).2.2.2.2]
      exact List.take_of_length_le (Nat.le_refl _)
  refine ⟨m, hn, hc, Linked_congr _ _ _ _ _ (fun a _ => (hlink a).1) (fun a _ => (hlink a).2) hl,
    ?_, hroom, ?_⟩
  · show ((copyToChunk st src src.length).mem st.chunk).data_size = st.now + src.length
    rw [(copyToChunk_mem_self st src _).1, hds]
  · rw [← hw]
    generalize hD : (c0 :: allocated env.alloc n0 m).dropLast = D at hsplit hother
    rw [← hsplit]
    simp only [List.flatMap_append, List.flatMap_cons, List.flatMap_nil, List.append_nil]
    rw [hlast, flatMap_chunkData_congr st.mem _ D (fun a ha => by rw [hother a ha]),
      List.append_assoc]

theorem ByteChain_new (env : Env) (c0 n0 : Nat) (st : Encoder) (written : List Nat) (cap : Nat)
    (hfresh : ∀ k, n0 ≤ k → env.alloc k ≠ c0)
    (hinj : ∀ i j, n0 ≤ i → n0 ≤ j → env.alloc i = env.alloc j → i = j)
    (h : ByteChain env c0 n0 st written) :
    ByteChain env c0 n0 (NEW_DATA_CHUNK env.main_slot env.alloc st cap) written := by
  obtain ⟨m, hn, hc, hl, hds, hle, hw⟩ := h
  have hnd1 := chain_nodup env.alloc c0 n0 (m + 1) (m + 1) (Nat.le_refl _)
    (fun i _ => hfresh _ (Nat.le_add_right _ _))
    (fun i j _ _ e => by
      have := hinj _ _ (Nat.le_add_right n0 i) (Nat.le_add_right n0 j) e
      omega)
  rw [allocated_snoc, ← List.cons_append] at hnd1
  have hnd : (c0 :: allocated env.alloc n0 m).Nodup := (List.nodup_append.mp hnd1).1
  have hnew : ∀ a, a ∈ c0 :: allocated env.alloc n0 m → a ≠ env.alloc st.nalloc := by
    intro a ha e
    rw [hn] at e
    exact (List.nodup_append.mp hnd1).2.2 ha (by rw [e]; simp)
  obtain ⟨hsplit, hnotin⟩ := chain_split c0 _ hnd
  rw [← hc] at hsplit hnotin
  have hcin : st.chunk ∈ c0 :: allocated env.alloc n0 m := by
    rw [← hsplit]
    simp
  have hne : env.alloc st.nalloc ≠ st.chunk := fun e => hnew _ hcin e.symm
  have hold : ∀ a, a ∈ c0 :: allocated env.alloc n0 m →
      ((NEW_DATA_CHUNK env.main_slot env.alloc st cap).mem a).data_size = (st.mem a).data_size ∧
      ((NEW_DATA_CHUNK env.main_slot env.alloc st cap).mem a).data = (st.mem a).data ∧
      ((NEW_DATA_CHUNK env.main_slot env.alloc st cap).mem a).prev_chunk =
        (st.mem a).prev_chunk := by
    intro a ha
    by_cases hac : a = st.chunk
    · rw [hac]
      have := NEW_DATA_CHUNK_mem_old env.main_slot env.alloc st cap hne
      exact ⟨this.1, this.2.2.2, this.2.2.1⟩
    · rw [NEW_DATA_CHUNK_mem_other env.main_slot env.alloc st _ a hac (hnew a ha)]
      exact ⟨rfl, rfl, rfl⟩
  have hcd : ∀ a, a ∈ c0 :: allocated env.alloc n0 m →
      chunkData ((NEW_DATA_CHUNK env.main_slot env.alloc st cap).mem a) =
        chunkData (st.mem a) := by
    intro a ha
    unfold chunkData
    rw [(hold a ha).1]
    exact dataSlice_congr _ _ _ _ (fun i _ => by rw [(hold a ha).2.1])
  refine ⟨m + 1, ?_, ?_, ?_, ?_, Nat.zero_le _, ?_⟩
  · show st.nalloc + 1 = n0 + (m + 1)
    omega
  · show env.alloc st.nalloc = _
    rw [allocated_snoc, hn]
    simp
  · rw [allocated_snoc]
    apply Linked_snoc
    · refine Linked_congr _ st.mem _ _ _ ?_ ?_ hl
      · intro a ha
        have hac : a ≠ st.chunk := fun e => hnotin (e ▸ ha)
        rw [NEW_DATA_CHUNK_mem_other env.main_slot env.alloc st _ a hac
          (hnew a (List.mem_of_mem_dropLast ha))]
      · intro a ha
        exact (hold a (List.mem_cons_of_mem _ ha)).2.2
    · rw [← hc, ← hn]
      exact (NEW_DATA_CHUNK_mem_old env.main_slot env.alloc st _ hne).2.1
    · rw [← hc, ← hn]
      exact (NEW_DATA_CHUNK_mem_new env.main_slot env.alloc st _).2.2
  · exact (NEW_DATA_CHUNK_mem_new env.main_slot env.alloc st _).1
  · rw [allocated_snoc, ← List.cons_append, List.flatMap_append,
      flatMap_chunkData_congr st.mem _ _ hcd, hw]
    simp only [List.flatMap_cons, List.flatMap_nil, List.append_nil]
    rw [← hn]
    unfold chunkData
    rw [(NEW_DATA_CHUNK_mem_new env.main_slot env.alloc st _).1]
    simp [dataSlice]

theorem ByteChain_put (env : Env) (c0 n0 : Nat) (st : Encoder) (written src : List Nat)
    (alloc : Nat)
    (hfresh : ∀ k, n0 ≤ k → env.alloc k ≠ c0)
    (hinj : ∀ i j, n0 ≤ i → n0 ≤ j → env.alloc i = env.alloc j → i = j)
    (hal : src.length ≤ alloc) (h : ByteChain env c0 n0 st written) :
    ByteChain env c0 n0 (copyToChunk (ensureRoom env st src.length alloc) src src.length)
      (written ++ src) := by
  have hle : st.now ≤ st.end_ := by
    obtain ⟨m, _, _, _, _, hle, _⟩ := h
    exact hle
  unfold ensureRoom
  by_cases hc : st.now ≤ st.end_ ∧ st.end_ - st.now < src.length
  · rw [if_pos hc]
    apply ByteChain_copy env c0 n0 _ written src hfresh hinj
    · show 0 + src.length ≤ alloc
      omega
    · exact ByteChain_new env c0 n0 st written alloc hfresh hinj h
  · rw [if_neg hc]
    apply ByteChain_copy env c0 n0 _ written src hfresh hinj _ h
    by_contra hcon
    exact hc ⟨hle, by omega⟩

theorem add_rast_glyphs_bytes (env : Env) (c0 n0 : Nat)
    (hfresh : ∀ k, n0 ≤ k → env.alloc k ≠ c0)
    (hinj : ∀ i j, n0 ≤ i → n0 ≤ j → env.alloc i = env.alloc j → i = j)
    (hpage : 1 ≤ env.consts.PAGE_SIZE) :
    ∀ (bytes : List Nat) (st : StrEnc) (written : List Nat),
      ByteChain env c0 n0 st.enc written → st.data_size < UINT32_MOD →
      ByteChain env c0 n0 (bytes.foldl (add_rast_glyphs.byte env) st).enc (written ++ bytes) ∧
      (bytes.foldl (add_rast_glyphs.byte env) st).data_size =
        (bytes.length + st.data_size) % UINT32_MOD ∧
      (bytes.foldl (add_rast_glyphs.byte env) st).str_pos = st.str_pos := by
  intro bytes
  induction bytes with
  | nil =>
    intro st written h hds
    refine ⟨by simpa using h, ?_, rfl⟩
    simp only [List.foldl_nil, List.length_nil, Nat.zero_add]
    exact (Nat.mod_eq_of_lt hds).symm
  | cons b rest ih =>
    intro st written h hds
    have h1 : ByteChain env c0 n0 (add_rast_glyphs.byte env st b).enc (written ++ [b]) :=
      ByteChain_put env c0 n0 st.enc written [b] env.consts.PAGE_SIZE hfresh hinj hpage h
    have hd1 : (add_rast_glyphs.byte env st b).data_size < UINT32_MOD :=
      Nat.mod_lt _ (by decide)
    obtain ⟨a1, a2, a3⟩ := ih (add_rast_glyphs.byte env st b) (written ++ [b]) h1 hd1
    rw [List.foldl_cons]
    refine ⟨?_, ?_, a3⟩
    · rw [List.append_assoc] at a1
      exact a1
    · rw [a2]
      show (rest.length + (1 + st.data_size) % UINT32_MOD) % UINT32_MOD = _
      rw [Nat.add_mod, Nat.mod_mod, ← Nat.add_mod, List.length_cons, Nat.add_assoc]

theorem bytesLE_length : ∀ (n v : Nat), (bytesLE n v).length = n := by
  intro n
  induction n with
  | zero => intro v; rfl
  | succ k ih => intro v; simp [bytesLE, ih]

theorem rasterGlyphBytes_length (render_pos glyph_origin : Int × Int) (width height : Nat) :
    (rasterGlyphBytes render_pos glyph_origin width height).length = 20 := by
  simp [rasterGlyphBytes, bytesLE_length]

theorem glyphRows_length (bytes : Int → Nat) (aj : Int) (stride : Nat) :
    ∀ height : Nat, (glyphRows bytes aj stride height).length = stride * height := by
  intro height
  induction height with
  | zero => rfl
  | succ k ih =>
    unfold glyphRows at ih ⊢
    rw [List.range_succ, List.reverse_append, List.reverse_singleton, List.singleton_append,
      List.flatMap_cons, List.length_append, ih, Nat.mul_succ]
    simp [readBytes, Nat.add_comm]

/-- C22, as the code has it. With `sizeof(RasterGlyph) = 20 <= PAGE_SIZE` and an
allocator whose blocks are distinct from one another and from the first chunk:
for every glyph, `add_rast_glyphs` appends to the byte stream of the chunk chain
the 20-byte `RasterGlyph` record (render position, glyph origin, 16-bit width
and height) followed by the `height` rows of `stride = ALIGN(width * bpp, 8) >> 3`
bytes of the glyph bitmap, last row first, every byte copied as it is in the
source, padding bits included (nothing when `height = 0`); and `str->data_size`
grows by `sizeof(RasterGlyph) + stride * height` (as a `UINT32`). -/
theorem C22_add_rast_glyphs_copies_rows (env : Env) (bpp : Nat) (delta : Option (Int × Int))
    (st : StrEnc) (g : GLYPHPOS) (c0 n0 : Nat) (written : List Nat)
    (hfresh : ∀ k, n0 ≤ k → env.alloc k ≠ c0)
    (hinj : ∀ i j, n0 ≤ i → n0 ≤ j → env.alloc i = env.alloc j → i = j)
    (hsz : env.layout.sizeof_RasterGlyph = 20) (hpage : 20 ≤ env.consts.PAGE_SIZE)
    (h : ByteChain env c0 n0 st.enc written) :
    ByteChain env c0 n0 (add_rast_glyphs.glyph env bpp delta st g).enc
      (written ++
        rasterGlyphBytes
          (match delta, st.str_pos with
            | some d, some p => (toI32 (p.1 + d.1), toI32 (p.2 + d.2))
            | _, _ => g.ptl)
          g.ptlOrigin (toU32 g.sizlBitmap.1 % 65536) (toU32 g.sizlBitmap.2 % 65536) ++
        glyphRows env.bytes g.aj
          ((ALIGN (toU32 g.sizlBitmap.1 % 65536 * bpp) 8 % UINT32_MOD) >>> 3)
          (toU32 g.sizlBitmap.2 % 65536)) ∧
    (add_rast_glyphs.glyph env bpp delta st g).data_size =
      (env.layout.sizeof_RasterGlyph +
        ((ALIGN (toU32 g.sizlBitmap.1 % 65536 * bpp) 8 % UINT32_MOD) >>> 3) *
          (toU32 g.sizlBitmap.2 % 65536) + st.data_size) % UINT32_MOD := by
  unfold add_rast_glyphs.glyph
  simp only []
  generalize hrp : (match delta, st.str_pos with
    | some d, some p => (toI32 (p.1 + d.1), toI32 (p.2 + d.2))
    | _, _ => g.ptl) = render_pos
  generalize hwd : toU32 g.sizlBitmap.1 % 65536 = width
  generalize hht : toU32 g.sizlBitmap.2 % 65536 = height
  have hlen := rasterGlyphBytes_length render_pos g.ptlOrigin width height
  have h1 : ByteChain env c0 n0
      (copyToChunk (ensureRoom env st.enc env.layout.sizeof_RasterGlyph env.consts.PAGE_SIZE)
        (rasterGlyphBytes render_pos g.ptlOrigin width height) env.layout.sizeof_RasterGlyph)
      (written ++ rasterGlyphBytes render_pos g.ptlOrigin width height) := by
    have := ByteChain_put env c0 n0 st.enc written
      (rasterGlyphBytes render_pos g.ptlOrigin width height) env.consts.PAGE_SIZE hfresh hinj
      (by rw [hlen]; exact hpage) h
    rw [hlen, ← hsz] at this
    exact this
  by_cases h0 : height = 0
  · rw [if_pos h0]
    subst h0
    refine ⟨?_, ?_⟩
    · simpa [glyphRows] using h1
    · simp
  · rw [if_neg h0]
    obtain ⟨a1, a2, _⟩ := add_rast_glyphs_bytes env c0 n0 hfresh hinj (by omega)
      (glyphRows env.bytes g.aj ((ALIGN (width * bpp) 8 % UINT32_MOD) >>> 3) height)
      { enc := copyToChunk
          (ensureRoom env st.enc env.layout.sizeof_RasterGlyph env.consts.PAGE_SIZE)
          (rasterGlyphBytes render_pos g.ptlOrigin width height) env.layout.sizeof_RasterGlyph
        data_size := (env.layout.sizeof_RasterGlyph + st.data_size) % UINT32_MOD
        str_pos := if delta.isSome then some render_pos else st.str_pos }
      _ h1 (Nat.mod_lt _ (by decide))
    refine ⟨a1, ?_⟩
    rw [a2, glyphRows_length]
    show (_ + (env.layout.sizeof_RasterGlyph + st.data_size) % UINT32_MOD) % UINT32_MOD = _
    rw [Nat.add_mod, Nat.mod_mod, ← Nat.add_mod]
    congr 1
    omega

theorem C22_add_rast_glyphs_copies_rows_witness :
    ByteChain exampleEnv 4200 0
      (add_rast_glyphs.glyph exampleEnv 1 none exampleStrEnc onePixelGlyph).enc
      ([] ++ rasterGlyphBytes (0, 0) (0, 0) 1 1 ++ [255]) ∧
    (add_rast_glyphs.glyph exampleEnv 1 none exampleStrEnc onePixelGlyph).data_size = 21 := by
  have hinv : ByteChain exampleEnv 4200 0 exampleStrEnc.enc [] :=
    ⟨0, rfl, rfl, trivial, rfl, by decide, rfl⟩
  exact C22_add_rast_glyphs_copies_rows exampleEnv 1 none exampleStrEnc onePixelGlyph 4200 0 []
    (by intro k _; show exampleAlloc k ≠ 4200; unfold exampleAlloc; omega)
    (by intro i j _ _ e; have e1 : exampleAlloc i = exampleAlloc j := e
        unfold exampleAlloc at e1; omega)
    rfl (by decide) hinv

/-! ### C34: the key-lookup table -/

/-- C34. Key-lookup table round trip: after `ImageKeyPut(hsurf, unique, key)`
with `unique != 0` the call `ImageKeyGet(hsurf, unique)` returns `TRUE` with
`key`; a Put with `unique = 0` changes nothing and a Get with `unique = 0`
returns `FALSE`; a Get returns `FALSE` on every table whose slot
`IMAGE_KEY_HASH_VAL(hsurf)` holds another `hsurf` or another `unique`; and a Put
writes the triple into the slot `IMAGE_KEY_HASH_VAL(hsurf)`, leaves every other
slot and every other part of the cache as it was. -/
theorem C34_ImageKey_round_trip (M : Nat) (ic : ImageCache) (hsurf unique key : Nat)
    (hu : unique ≠ 0) :
    ImageKeyGet M (ImageKeyPut M ic hsurf unique key) hsurf unique = some key ∧
    ImageKeyPut M ic hsurf 0 key = ic ∧
    ImageKeyGet M ic hsurf 0 = none ∧
    (∀ ic1 : ImageCache,
      ((ic1.image_key_lookup (IMAGE_KEY_HASH_VAL M hsurf)).hsurf ≠ hsurf ∨
        (ic1.image_key_lookup (IMAGE_KEY_HASH_VAL M hsurf)).unique ≠ unique) →
      ImageKeyGet M ic1 hsurf unique = none) ∧
    (ImageKeyPut M ic hsurf unique key).image_key_lookup (IMAGE_KEY_HASH_VAL M hsurf) =
      { hsurf := hsurf, unique := unique, key := key } ∧
    (∀ i, i ≠ IMAGE_KEY_HASH_VAL M hsurf →
      (ImageKeyPut M ic hsurf unique key).image_key_lookup i = ic.image_key_lookup i) ∧
    (ImageKeyPut M ic hsurf unique key).pool = ic.pool ∧
    (ImageKeyPut M ic hsurf unique key).image_cache = ic.image_cache ∧
    (ImageKeyPut M ic hsurf unique key).cache_image_lru = ic.cache_image_lru := by
  refine ⟨?_, ?_, ?_, ?_, ?_, ?_, ?_, ?_, ?_⟩
  · simp [ImageKeyGet, ImageKeyPut, hu]
  · simp [ImageKeyPut]
  · simp [ImageKeyGet]
  · intro ic1 h
    unfold ImageKeyGet
    rw [if_neg hu]
    simp only
    rw [if_neg]
    rintro ⟨h1, h2⟩
    rcases h with h | h
    · exact h h1
    · exact h h2
  · simp [ImageKeyPut, hu]
  · intro i hi
    simp [ImageKeyPut, hu, hi]
  · simp [ImageKeyPut, hu]
  · simp [ImageKeyPut, hu]
  · simp [ImageKeyPut, hu]

/-- The round trip of C34 on the example cache: the key 16 stored for surface
64 with token 1 is read back, and a surface that maps to the same slot misses. -/
theorem C34_ImageKey_round_trip_witness :
    ImageKeyGet 255 (ImageKeyPut 255 exampleCache 64 1 16) 64 1 = some 16 ∧
    ImageKeyGet 255 (ImageKeyPut 255 exampleCache 64 1 16) 64 2 = none :=
  ⟨(C34_ImageKey_round_trip 255 exampleCache 64 1 16 (by decide)).1,
   (C34_ImageKey_round_trip 255 exampleCache 64 2 16 (by decide)).2.2.2.1
     (ImageKeyPut 255 exampleCache 64 1 16) (Or.inr (by decide))⟩

/-! ### C31: the palette in the image hash -/

/-- C31. `GetHash` feeds the `cEntries` table entries to `hashlittle` before the
rows exactly when `flXlate` is equal to `XO_TABLE`; for every other `flXlate`,
also one that has the `XO_TABLE` bit set together with another flag, the
table is ignored and the hash is that of the same pixels without a colour
translation, which starts from `IMAGE_HASH_INIT_VAL(width, height, format)`. -/
theorem C31_GetHash_table_only_when_flXlate_equals_XO_TABLE (env : Env) (src : Int)
    (width height : Int) (format line_size : Nat) (stride : Int) (ct : XLATEOBJ) :
    (ct.flXlate = env.consts.XO_TABLE →
      GetHash env src width height format line_size stride (some ct) =
        GetHash.rows env.consts env.hashlittle env.bytes width format line_size stride
          height.toNat src
          (env.hashlittle (tableBytes ct.pulXlate ct.cEntries)
            (IMAGE_HASH_INIT_VAL width height format)) 0) ∧
    (ct.flXlate ≠ env.consts.XO_TABLE →
      GetHash env src width height format line_size stride (some ct) =
        GetHash env src width height format line_size stride none) ∧
    GetHash env src width height format line_size stride none =
      GetHash.rows env.consts env.hashlittle env.bytes width format line_size stride
        height.toNat src (IMAGE_HASH_INIT_VAL width height format) 0 := by
  refine ⟨?_, ?_, ?_⟩
  · intro h
    simp [GetHash, h]
  · intro h
    simp [GetHash, h]
  · simp [GetHash]

/-- The failing input of C31: two colour tables with different entries, both
with the `XO_TABLE` bit set in `flXlate` (so `GetChachImage` and `GetPallette`
treat them as attached palettes), give the same hash for the same pixels. -/
theorem C31_GetHash_table_only_when_flXlate_equals_XO_TABLE_witness :
    blackWhiteTable.flXlate &&& exampleEnv.consts.XO_TABLE ≠ 0 ∧
    redGreenTable.flXlate &&& exampleEnv.consts.XO_TABLE ≠ 0 ∧
    tableBytes blackWhiteTable.pulXlate blackWhiteTable.cEntries ≠
      tableBytes redGreenTable.pulXlate redGreenTable.cEntries ∧
    GetHash exampleEnv 0 2 2 5 2 8 (some blackWhiteTable) =
      GetHash exampleEnv 0 2 2 5 2 8 (some redGreenTable) :=
  ⟨by decide, by decide, by decide,
   ((C31_GetHash_table_only_when_flXlate_equals_XO_TABLE exampleEnv 0 2 2 5 2 8
      blackWhiteTable).2.1 (by decide)).trans
    ((C31_GetHash_table_only_when_flXlate_equals_XO_TABLE exampleEnv 0 2 2 5 2 8
      redGreenTable).2.1 (by decide)).symm⟩

/-! ### C39: the size of a row -/

/-- The conversion to `UINT32` is exact on values in range. -/
theorem toU32_of_range (z : Int) (h0 : 0 ≤ z) (h1 : z < 4294967296) : toU32 z = z.toNat := by
  unfold toU32
  rw [Int.emod_eq_of_lt h0 h1]

/-- C39. For a width `0 <= width < 2^30` (so that no row size leaves 32 bits)
`GetFormatLineSize` returns `ceil(width * bpp / 8)`: `4 * width`, `3 * width`,
`2 * width`, `width`, `ceil(width / 2)`, `ceil(width / 8)` for the 32, 24, 16, 8, 4
and 1 bpp formats, and stores the matching `BITMAP_FMT_*` code; for every other
format it returns 0 and leaves `*format` as it was. At width 0 it returns 0 for
every format, and `QXLGetBitmap` then returns `FALSE`, whether the width it
passes is the area's width plus `dx` or the width of the whole surface. -/
theorem C39_GetFormatLineSize_exact_row_size (env : Env) (width : Int) (bitmap_format format : Nat)
    (hw : 0 ≤ width) (hfit : width < 1073741824) :
    (∀ bpp code, formatSpec env.consts bitmap_format = some (bpp, code) →
      GetFormatLineSize env.consts width bitmap_format format = (lineSizeSpec bpp width, code)) ∧
    (formatSpec env.consts bitmap_format = none →
      GetFormatLineSize env.consts width bitmap_format format = (0, format)) ∧
    (lineSizeSpec 32 width = 4 * width.toNat ∧ lineSizeSpec 24 width = 3 * width.toNat ∧
      lineSizeSpec 16 width = 2 * width.toNat ∧ lineSizeSpec 8 width = width.toNat ∧
      lineSizeSpec 4 width = (width.toNat + 1) / 2 ∧
      lineSizeSpec 1 width = (width.toNat + 7) / 8) ∧
    (GetFormatLineSize env.consts 0 bitmap_format format).1 = 0 ∧
    (∀ fuel s drawable image_phys (surf : SURFOBJ) (area : Rect) color_trans hash_key dx off,
      surf.iBitmapFormat = bitmap_format →
      QXLGetBitmap.offsets env.consts bitmap_format area.left = some (dx, off) →
      area.right - area.left + dx = 0 →
      QXLGetBitmap.miss env fuel s drawable image_phys surf area color_trans hash_key 0 =
        some { ret := false, image_phys := image_phys,
               area := { left := dx, right := 0, top := 0, bottom := area.bottom - area.top },
               hash_key := hash_key, s := (get_image_serial s).2 }) ∧
    (∀ fuel s drawable image_phys (surf : SURFOBJ) (area : Rect) color_trans hash_key cache_image,
      surf.iBitmapFormat = bitmap_format → cache_image ≠ 0 → surf.cx = 0 →
      QXLGetBitmap.miss env fuel s drawable image_phys surf area color_trans hash_key cache_image =
        some { ret := false, image_phys := image_phys, area := area, hash_key := hash_key,
               s := s }) := by
  have hzero : ∀ f0, (GetFormatLineSize env.consts 0 bitmap_format f0).1 = 0 := by
    intro f0
    unfold GetFormatLineSize
    repeat' split
    all_goals simp [toU32, ALIGN.int]
  refine ⟨?_, ?_, ?_, hzero format, ?_, ?_⟩
  · intro bpp code h
    unfold formatSpec at h
    unfold GetFormatLineSize
    split at h
    · rename_i hb
      simp only [Option.some.injEq, Prod.mk.injEq] at h
      rw [if_pos hb, ← h.1, ← h.2, toU32_of_range _ (by omega) (by omega)]
      unfold lineSizeSpec
      congr 2
      push_cast
      omega
    rename_i n32
    rw [if_neg n32]
    split at h
    · rename_i hb
      simp only [Option.some.injEq, Prod.mk.injEq] at h
      rw [if_pos hb, ← h.1, ← h.2, toU32_of_range _ (by omega) (by omega)]
      unfold lineSizeSpec
      congr 2
      push_cast
      omega
    rename_i n24
    rw [if_neg n24]
    split at h
    · rename_i hb
      simp only [Option.some.injEq, Prod.mk.injEq] at h
      rw [if_pos hb, ← h.1, ← h.2, toU32_of_range _ (by omega) (by omega)]
      unfold lineSizeSpec
      congr 2
      push_cast
      omega
    rename_i n16
    rw [if_neg n16]
    split at h
    · rename_i hb
      simp only [Option.some.injEq, Prod.mk.injEq] at h
      rw [if_pos hb, ← h.1, ← h.2, toU32_of_range _ (by omega) (by omega)]
      unfold lineSizeSpec
      congr 2
      push_cast
      omega
    rename_i n8
    rw [if_neg n8]
    split at h
    · rename_i hb
      simp only [Option.some.injEq, Prod.mk.injEq] at h
      rw [if_pos hb, ← h.1, ← h.2]
      unfold ALIGN.int lineSizeSpec
      rw [toU32_of_range _ (by omega) (by omega)]
      congr 2
      push_cast
      omega
    rename_i n4
    rw [if_neg n4]
    split at h
    · rename_i hb
      simp only [Option.some.injEq, Prod.mk.injEq] at h
      rw [if_pos hb, ← h.1, ← h.2]
      unfold ALIGN.int lineSizeSpec
      rw [toU32_of_range _ (by omega) (by omega)]
      congr 2
      push_cast
      omega
    · cases h
  · intro h
    unfold formatSpec at h
    unfold GetFormatLineSize
    split at h
    · cases h
    rename_i n32
    split at h
    · cases h
    rename_i n24
    split at h
    · cases h
    rename_i n16
    split at h
    · cases h
    rename_i n8
    split at h
    · cases h
    rename_i n4
    split at h
    · cases h
    rename_i n1
    rw [if_neg n32, if_neg n24, if_neg n16, if_neg n8, if_neg n4, if_neg n1]
  · unfold lineSizeSpec
    refine ⟨?_, ?_, ?_, ?_, ?_, ?_⟩ <;> push_cast <;> omega
  · intro fuel s drawable image_phys surf area color_trans hash_key dx off hf hoff hz
    unfold QXLGetBitmap.miss
    rw [if_neg (by simp), hf, hoff]
    simp only [hz]
    rw [if_pos (hzero 0)]
  · intro fuel s drawable image_phys surf area color_trans hash_key cache_image hf hc hz
    unfold QXLGetBitmap.miss
    rw [if_pos hc, hf, hz, if_pos (hzero 0)]

/-- The row sizes of C39 for a width of 5 pixels at 4 bits per pixel, and the
`FALSE` of `QXLGetBitmap` at width 0 on the example surface. -/
theorem C39_GetFormatLineSize_exact_row_size_witness :
    GetFormatLineSize exampleEnv.consts 5 2 0 = (3, 4) ∧
    (QXLGetBitmap.miss exampleEnv 10 examplePDev 600 0 exampleSurf
        { left := 1, top := 0, right := 1, bottom := 2 } none none 0).map (fun r => r.ret) =
      some false :=
  ⟨(C39_GetFormatLineSize_exact_row_size exampleEnv 5 2 0 (by decide) (by decide)).1 4 4
      (by decide),
   by
    rw [(C39_GetFormatLineSize_exact_row_size exampleEnv 5 6 0 (by decide)
      (by decide)).2.2.2.2.1 10 examplePDev 600 0 exampleSurf
      { left := 1, top := 0, right := 1, bottom := 2 } none none 0 4 rfl (by decide) (by decide)]
    rfl⟩

/-! ### C36: addressing a sub-rectangle -/

/-- The `switch` of `QXLGetBitmap` computes the specification's `dx` and the
byte offset `floor(left * bpp / 8)`. -/
theorem QXLGetBitmap_offsets_spec (k : Consts) (bitmap_format bpp code : Nat) (left : Int)
    (hf : formatSpec k bitmap_format = some (bpp, code)) :
    QXLGetBitmap.offsets k bitmap_format left =
      some (dxSpec bpp left, left * (bpp : Int) / 8) ∧
    0 ≤ dxSpec bpp left ∧ dxSpec bpp left * (bpp : Int) < 8 ∧
    8 * (left * (bpp : Int) / 8) + dxSpec bpp left * (bpp : Int) = left * (bpp : Int) := by
  unfold formatSpec at hf
  unfold QXLGetBitmap.offsets dxSpec
  split at hf
  · rename_i hb
    simp only [Option.some.injEq, Prod.mk.injEq] at hf
    rw [if_pos hb, ← hf.1]
    norm_num
    omega
  rename_i n32
  rw [if_neg n32]
  split at hf
  · rename_i hb
    simp only [Option.some.injEq, Prod.mk.injEq] at hf
    rw [if_pos hb, ← hf.1]
    norm_num
    omega
  rename_i n24
  rw [if_neg n24]
  split at hf
  · rename_i hb
    simp only [Option.some.injEq, Prod.mk.injEq] at hf
    rw [if_pos hb, ← hf.1]
    norm_num
    omega
  rename_i n16
  rw [if_neg n16]
  split at hf
  · rename_i hb
    simp only [Option.some.injEq, Prod.mk.injEq] at hf
    rw [if_pos hb, ← hf.1]
    norm_num
    omega
  rename_i n8
  rw [if_neg n8]
  split at hf
  · rename_i hb
    simp only [Option.some.injEq, Prod.mk.injEq] at hf
    rw [if_pos hb, ← hf.1]
    norm_num
    omega
  rename_i n4
  rw [if_neg n4]
  split at hf
  · rename_i hb
    simp only [Option.some.injEq, Prod.mk.injEq] at hf
    rw [if_pos hb, ← hf.1]
    norm_num
    omega
  · cases hf

/-- C36. In `QXLGetBitmap` without a cache slot the image is encoded from
`pvScan0 + area.top * lDelta + floor(area.left * bpp / 8)` with the width
`dx + (right - left)` and the height `bottom - top`, and the area becomes
`left = dx`, `top = 0`, `right = dx + width`, `bottom = height`, where `dx` is
`area.left mod (8 / bpp)` below 8 bits per pixel and 0 otherwise: the area keeps
its width and height, `0 <= dx` and `dx * bpp < 8`, and pixel `(x, y)` of the
new area in the encoded image is pixel `(x, y)` of the requested area in the
surface. With a reserved slot the whole surface is encoded from `pvScan0` and
the area stays; whenever `GetChachImage` returns a slot (hit or reserved) the
area is unchanged. -/
theorem C36_QXLGetBitmap_sub_rectangle (env : Env) (fuel : Nat) (s : PDev)
    (drawable image_phys : Nat) (surf : SURFOBJ) (area : Rect) (color_trans : Option XLATEOBJ)
    (hash_key : Option Nat) (bpp code : Nat)
    (hf : formatSpec env.consts surf.iBitmapFormat = some (bpp, code)) :
    QXLGetBitmap.miss env fuel s drawable image_phys surf area color_trans hash_key 0 =
      (if (GetFormatLineSize env.consts (dxSpec bpp area.left + (area.right - area.left))
            surf.iBitmapFormat 0).1 = 0 then
        some { ret := false, image_phys := image_phys, area := areaSpec bpp area,
               hash_key := hash_key, s := (get_image_serial s).2 }
      else
        (QXLGetBitmap.encode env fuel (get_image_serial s).2 drawable surf color_trans 0
          (dxSpec bpp area.left + (area.right - area.left)) (area.bottom - area.top)
          (GetFormatLineSize env.consts (dxSpec bpp area.left + (area.right - area.left))
            surf.iBitmapFormat 0).2
          (surf.pvScan0 + area.top * surf.lDelta + area.left * (bpp : Int) / 8)
          (GetFormatLineSize env.consts (dxSpec bpp area.left + (area.right - area.left))
            surf.iBitmapFormat 0).1
          (get_image_serial s).1).map
          (fun r => { ret := true, image_phys := r.1, area := areaSpec bpp area,
                      hash_key := hash_key, s := r.2 })) ∧
    ((areaSpec bpp area).right - (areaSpec bpp area).left = area.right - area.left ∧
      (areaSpec bpp area).bottom - (areaSpec bpp area).top = area.bottom - area.top ∧
      0 ≤ (areaSpec bpp area).left ∧ (areaSpec bpp area).left * (bpp : Int) < 8 ∧
      (bpp < 8 → (areaSpec bpp area).left = area.left % (((8 / bpp : Nat) : Nat) : Int)) ∧
      (8 ≤ bpp → (areaSpec bpp area).left = 0)) ∧
    (∀ x y : Int,
      pixelBit (surf.pvScan0 + area.top * surf.lDelta + area.left * (bpp : Int) / 8) surf.lDelta bpp
          ((areaSpec bpp area).left + x) ((areaSpec bpp area).top + y) =
        pixelBit surf.pvScan0 surf.lDelta bpp (area.left + x) (area.top + y)) ∧
    (∀ cache_image, cache_image ≠ 0 →
      QXLGetBitmap.miss env fuel s drawable image_phys surf area color_trans hash_key
          cache_image =
        (if (GetFormatLineSize env.consts surf.cx surf.iBitmapFormat 0).1 = 0 then
          some { ret := false, image_phys := image_phys, area := area, hash_key := hash_key,
                 s := s }
        else
          (QXLGetBitmap.encode env fuel s drawable surf color_trans cache_image surf.cx surf.cy
            (GetFormatLineSize env.consts surf.cx surf.iBitmapFormat 0).2 surf.pvScan0
            (GetFormatLineSize env.consts surf.cx surf.iBitmapFormat 0).1
            (s.icache.pool cache_image).key).map
            (fun r => { ret := true, image_phys := r.1, area := area, hash_key := hash_key,
                        s := r.2 }))) ∧
    (∀ cache_image hash_key1 ic r,
      GetChachImage env fuel s.icache surf color_trans hash_key =
        some (cache_image, hash_key1, ic) →
      QXLGetBitmap env fuel s drawable image_phys surf area color_trans hash_key true = some r →
      (cache_image ≠ 0 → r.area = area) ∧
      (cache_image = 0 → r.ret = true → r.area = areaSpec bpp area)) ∧
    (∀ r, QXLGetBitmap env fuel s drawable image_phys surf area color_trans hash_key false =
        some r → r.ret = true → r.area = areaSpec bpp area) := by
  obtain ⟨hoff, hdx0, hdx8, hbits⟩ :=
    QXLGetBitmap_offsets_spec env.consts surf.iBitmapFormat bpp code area.left hf
  have hmiss0 : ∀ s0 : PDev, ∀ hk : Option Nat,
      QXLGetBitmap.miss env fuel s0 drawable image_phys surf area color_trans hk 0 =
      (if (GetFormatLineSize env.consts (dxSpec bpp area.left + (area.right - area.left))
            surf.iBitmapFormat 0).1 = 0 then
        some { ret := false, image_phys := image_phys, area := areaSpec bpp area,
               hash_key := hk, s := (get_image_serial s0).2 }
      else
        (QXLGetBitmap.encode env fuel (get_image_serial s0).2 drawable surf color_trans 0
          (dxSpec bpp area.left + (area.right - area.left)) (area.bottom - area.top)
          (GetFormatLineSize env.consts (dxSpec bpp area.left + (area.right - area.left))
            surf.iBitmapFormat 0).2
          (surf.pvScan0 + area.top * surf.lDelta + area.left * (bpp : Int) / 8)
          (GetFormatLineSize env.consts (dxSpec bpp area.left + (area.right - area.left))
            surf.iBitmapFormat 0).1
          (get_image_serial s0).1).map
          (fun r => { ret := true, image_phys := r.1, area := areaSpec bpp area,
                      hash_key := hk, s := r.2 })) := by
    intro s0 hk
    unfold QXLGetBitmap.miss
    rw [if_neg (by simp), hoff]
    simp only
    rw [show area.right - area.left + dxSpec bpp area.left =
      dxSpec bpp area.left + (area.right - area.left) by ring]
    unfold areaSpec
    split
    · rfl
    · cases QXLGetBitmap.encode env fuel (get_image_serial s0).2 drawable surf color_trans 0
        (dxSpec bpp area.left + (area.right - area.left)) (area.bottom - area.top)
        (GetFormatLineSize env.consts (dxSpec bpp area.left + (area.right - area.left))
          surf.iBitmapFormat 0).2
        (surf.pvScan0 + area.top * surf.lDelta + area.left * (bpp : Int) / 8)
        (GetFormatLineSize env.consts (dxSpec bpp area.left + (area.right - area.left))
          surf.iBitmapFormat 0).1
        (get_image_serial s0).1 <;> rfl
  have hmissc : ∀ s0 : PDev, ∀ hk : Option Nat, ∀ cache_image, cache_image ≠ 0 →
      QXLGetBitmap.miss env fuel s0 drawable image_phys surf area color_trans hk cache_image =
        (if (GetFormatLineSize env.consts surf.cx surf.iBitmapFormat 0).1 = 0 then
          some { ret := false, image_phys := image_phys, area := area, hash_key := hk,
                 s := s0 }
        else
          (QXLGetBitmap.encode env fuel s0 drawable surf color_trans cache_image surf.cx surf.cy
            (GetFormatLineSize env.consts surf.cx surf.iBitmapFormat 0).2 surf.pvScan0
            (GetFormatLineSize env.consts surf.cx surf.iBitmapFormat 0).1
            (s0.icache.pool cache_image).key).map
            (fun r => { ret := true, image_phys := r.1, area := area, hash_key := hk,
                        s := r.2 })) := by
    intro s0 hk cache_image hc
    unfold QXLGetBitmap.miss
    rw [if_pos hc]
    split
    · rfl
    · cases QXLGetBitmap.encode env fuel s0 drawable surf color_trans cache_image surf.cx surf.cy
        (GetFormatLineSize env.consts surf.cx surf.iBitmapFormat 0).2 surf.pvScan0
        (GetFormatLineSize env.consts surf.cx surf.iBitmapFormat 0).1
        (s0.icache.pool cache_image).key <;> rfl
  have harea0 : ∀ (s0 : PDev) (hk : Option Nat) (r : BitmapResult),
      QXLGetBitmap.miss env fuel s0 drawable image_phys surf area color_trans hk 0 = some r →
      r.ret = true → r.area = areaSpec bpp area := by
    intro s0 hk r h hr
    rw [hmiss0] at h
    split at h
    · simp only [Option.some.injEq] at h
      rw [← h] at hr
      cases hr
    · obtain ⟨p, _, hp⟩ := Option.map_eq_some'.mp h
      rw [← hp]
  have hareac : ∀ (s0 : PDev) (hk : Option Nat) (cache_image : Nat) (r : BitmapResult),
      cache_image ≠ 0 →
      QXLGetBitmap.miss env fuel s0 drawable image_phys surf area color_trans hk cache_image =
        some r → r.area = area := by
    intro s0 hk cache_image r hc h
    rw [hmissc s0 hk cache_image hc] at h
    split at h
    · simp only [Option.some.injEq] at h
      rw [← h]
    · obtain ⟨p, _, hp⟩ := Option.map_eq_some'.mp h
      rw [← hp]
  refine ⟨hmiss0 s hash_key, ?_, ?_, hmissc s hash_key, ?_, ?_⟩
  · refine ⟨?_, ?_, hdx0, hdx8, ?_, ?_⟩
    · show dxSpec bpp area.left + (area.right - area.left) - dxSpec bpp area.left = _
      ring
    · show area.bottom - area.top - 0 = _
      ring
    · intro h
      show dxSpec bpp area.left = _
      unfold dxSpec
      rw [if_pos h]
    · intro h
      show dxSpec bpp area.left = _
      unfold dxSpec
      rw [if_neg (by omega)]
  · intro x y
    show pixelBit _ _ _ (dxSpec bpp area.left + x) (0 + y) = _
    unfold pixelBit
    have e := hbits
    generalize area.left * (bpp : Int) / 8 = q at e ⊢
    linear_combination e
  · intro cache_image hash_key1 ic r hg h
    unfold QXLGetBitmap at h
    split at h
    · cases h
    split at h
    · simp only [Option.some.injEq] at h
      refine ⟨fun _ => by rw [← h], fun _ hr => ?_⟩
      rw [← h] at hr
      cases hr
    split at h
    · simp only [Option.some.injEq] at h
      refine ⟨fun _ => by rw [← h], fun _ hr => ?_⟩
      rw [← h] at hr
      cases hr
    rw [if_pos rfl, hg] at h
    simp only at h
    split at h
    · rename_i hhit
      refine ⟨fun _ => ?_, fun h0 => absurd h0 hhit.1⟩
      split at h
      · cases h
      · simp only [Option.some.injEq] at h
        rw [← h]
    · refine ⟨fun hc => hareac _ _ _ r hc h, fun h0 hr => ?_⟩
      rw [h0] at h
      exact harea0 _ _ r h hr
  · intro r h hr
    unfold QXLGetBitmap at h
    split at h
    · cases h
    split at h
    · simp only [Option.some.injEq] at h
      rw [← h] at hr
      cases hr
    split at h
    · simp only [Option.some.injEq] at h
      rw [← h] at hr
      cases hr
    rw [if_neg (by simp)] at h
    exact harea0 _ _ r h hr

/-- The addressing of C36 on a 1-bpp surface for the area with left edge 11
and top 2: the new left edge is 3, the source starts at byte `2 * 8 + 1`, and
pixel `(0, 0)` of the new area is bit 139 of the surface, its pixel `(11, 2)`. -/
theorem C36_QXLGetBitmap_sub_rectangle_witness :
    formatSpec exampleEnv.consts 1 = some (1, 2) ∧
    areaSpec 1 { left := 11, top := 2, right := 20, bottom := 5 } =
      { left := 3, top := 0, right := 12, bottom := 3 } ∧
    pixelBit 17 8 1 3 0 = 139 ∧ pixelBit 0 8 1 11 2 = 139 ∧
    pixelBit ((0 : Int) + 2 * 8 + 11 * ((1 : Nat) : Int) / 8) 8 1
        ((areaSpec 1 { left := 11, top := 2, right := 20, bottom := 5 }).left + 0)
        ((areaSpec 1 { left := 11, top := 2, right := 20, bottom := 5 }).top + 0) =
      pixelBit 0 8 1 (11 + 0) (2 + 0) :=
  ⟨by decide, by decide, by decide, by decide,
   (C36_QXLGetBitmap_sub_rectangle exampleEnv 10 examplePDev 600 0
      { exampleSurf with iBitmapFormat := 1 } { left := 11, top := 2, right := 20, bottom := 5 }
      none none 1 2 (by decide)).2.2.1 0 0⟩

/-! ### C38: termination of `__PutBytesAlign` -/

/-- The capacity of a chunk that `__PutBytesAlign` allocates is a multiple of
the alignment between the alignment and `BITS_BUF_MAX`. -/
theorem aligned_size_bounds (alloc_size alignment : Nat) (ha : 0 < alloc_size)
    (hal0 : 0 < alignment) (hal : alignment < BITS_BUF_MAX) :
    alignment ∣ min (alloc_size + alignment - 1) BITS_BUF_MAX -
      min (alloc_size + alignment - 1) BITS_BUF_MAX % alignment ∧
    alignment ≤ min (alloc_size + alignment - 1) BITS_BUF_MAX -
      min (alloc_size + alignment - 1) BITS_BUF_MAX % alignment ∧
    min (alloc_size + alignment - 1) BITS_BUF_MAX -
      min (alloc_size + alignment - 1) BITS_BUF_MAX % alignment ≤ BITS_BUF_MAX ∧
    min (alloc_size - alloc_size % alignment) alignment ≤
      min (alloc_size + alignment - 1) BITS_BUF_MAX -
        min (alloc_size + alignment - 1) BITS_BUF_MAX % alignment := by
  have hm : alignment ≤ min (alloc_size + alignment - 1) BITS_BUF_MAX := by
    apply Nat.le_min.mpr
    constructor <;> omega
  have hm2 : min (alloc_size + alignment - 1) BITS_BUF_MAX ≤ BITS_BUF_MAX := Nat.min_le_right _ _
  have hdvd : alignment ∣ min (alloc_size + alignment - 1) BITS_BUF_MAX -
      min (alloc_size + alignment - 1) BITS_BUF_MAX % alignment :=
    Nat.dvd_sub_mod _
  have hpos := aligned_size_pos alloc_size alignment ha hal0 hal
  refine ⟨hdvd, Nat.le_of_dvd hpos hdvd, ?_, ?_⟩
  · exact le_trans (Nat.sub_le _ _) hm2
  · exact le_trans (Nat.min_le_right _ _) (Nat.le_of_dvd hpos hdvd)

/-- A run of the loop of `__PutBytesAlign` that allocates nothing keeps `end`. -/
theorem PutBytesAlign_loop_end_of_nalloc (p_slot : PMemSlot) (alloc : Nat → Nat)
    (alloc_size alignment : Nat) :
    ∀ (fuel : Nat) (st st1 : Encoder) (src : List Nat) (size : Nat),
      PutBytesAlign.loop p_slot alloc alloc_size alignment fuel st src size = some st1 →
      st1.nalloc = st.nalloc → st1.end_ = st.end_ := by
  intro fuel
  induction fuel with
  | zero =>
    intro st st1 src size h _
    unfold PutBytesAlign.loop at h
    split at h
    · simp only [Option.some.injEq] at h
      rw [h]
    · cases h
  | succ fuel ih =>
    intro st st1 src size h hn
    unfold PutBytesAlign.loop at h
    split at h
    · simp only [Option.some.injEq] at h
      rw [h]
    split at h
    · cases h
    simp only at h
    split at h
    · split at h
      · cases h
      split at h
      · cases h
      have := PutBytesAlign_loop_nalloc p_slot alloc alloc_size alignment fuel _ st1 _ _ h
      have e : ∀ c cp, (copyToChunk (NEW_DATA_CHUNK p_slot alloc st c) src cp).nalloc =
        st.nalloc + 1 := fun _ _ => rfl
      rw [e] at this
      omega
    · have := ih _ st1 _ _ h (by rw [hn]; rfl)
      rw [this]
      rfl

/-- The loop of `__PutBytesAlign` ends within `size` iterations from every
cursor with `now <= end`, and allocates at most `size` chunks. -/
theorem PutBytesAlign_loop_terminates (p_slot : PMemSlot) (alloc : Nat → Nat)
    (alloc_size alignment : Nat) (ha : 0 < alloc_size) (hal0 : 0 < alignment)
    (hal : alignment < BITS_BUF_MAX) :
    ∀ (fuel : Nat) (st : Encoder) (src : List Nat) (size : Nat),
      st.now ≤ st.end_ → size ≤ fuel →
      ∃ st1, PutBytesAlign.loop p_slot alloc alloc_size alignment fuel st src size = some st1 ∧
        st1.now ≤ st1.end_ ∧ st.nalloc ≤ st1.nalloc ∧ st1.nalloc ≤ st.nalloc + size ∧
        (st.nalloc < st1.nalloc →
          st1.end_ = min (alloc_size + alignment - 1) BITS_BUF_MAX -
            min (alloc_size + alignment - 1) BITS_BUF_MAX % alignment) := by
  intro fuel
  induction fuel with
  | zero =>
    intro st src size hcur hf
    have h0 : size = 0 := by omega
    subst h0
    exact ⟨st, by simp [PutBytesAlign.loop], hcur, Nat.le_refl _, Nat.le_refl _,
      fun h => absurd h (Nat.lt_irrefl _)⟩
  | succ fuel ih =>
    intro st src size hcur hf
    by_cases hsz : size = 0
    · subst hsz
      exact ⟨st, by simp [PutBytesAlign.loop], hcur, Nat.le_refl _, Nat.le_refl _,
        fun h => absurd h (Nat.lt_irrefl _)⟩
    · rw [PutBytesAlign.loop, if_neg hsz, if_neg (by omega)]
      simp only
      by_cases hcp : min (st.end_ - st.now) size = 0
      · rw [if_pos hcp, if_neg (by omega), if_neg (by simpa using hal)]
        have hpos := aligned_size_pos alloc_size alignment ha hal0 hal
        generalize hc : min (alloc_size + alignment - 1) BITS_BUF_MAX -
          min (alloc_size + alignment - 1) BITS_BUF_MAX % alignment = c at hpos ⊢
        have hf1 : (NEW_DATA_CHUNK p_slot alloc st c).end_ = c := rfl
        have hf2 : (NEW_DATA_CHUNK p_slot alloc st c).now = 0 := rfl
        have hf3 : (NEW_DATA_CHUNK p_slot alloc st c).nalloc = st.nalloc + 1 := rfl
        rw [hf1, hf2, Nat.sub_zero]
        have hmin : 0 < min c size := Nat.lt_min.mpr ⟨hpos, by omega⟩
        have hmin2 : min c size ≤ c := Nat.min_le_left _ _
        have hmin3 : min c size ≤ size := Nat.min_le_right _ _
        obtain ⟨st1, e1, e2, e3, e4, e5⟩ := ih
          (copyToChunk (NEW_DATA_CHUNK p_slot alloc st c) src (min c size))
          (src.drop (min c size)) (size - min c size)
          (by
            show 0 + min c size ≤ c
            omega)
          (by omega)
        have hn : (copyToChunk (NEW_DATA_CHUNK p_slot alloc st c) src (min c size)).nalloc =
          st.nalloc + 1 := rfl
        have he : (copyToChunk (NEW_DATA_CHUNK p_slot alloc st c) src (min c size)).end_ = c := rfl
        rw [hn] at e3 e4 e5
        rw [hc] at e5
        refine ⟨st1, e1, e2, by omega, by omega, fun _ => ?_⟩
        by_cases hlt : st.nalloc + 1 < st1.nalloc
        · exact e5 hlt
        · -- no further chunk: the end is that of the chunk just allocated
          have hnal : st1.nalloc = st.nalloc + 1 := by omega
          exact PutBytesAlign_loop_end_of_nalloc p_slot alloc alloc_size alignment fuel _ st1 _ _
            e1 (by rw [hn]; exact hnal)
      · rw [if_neg hcp]
        have hmin2 : min (st.end_ - st.now) size ≤ st.end_ - st.now := Nat.min_le_left _ _
        have hmin3 : min (st.end_ - st.now) size ≤ size := Nat.min_le_right _ _
        obtain ⟨st1, e1, e2, e3, e4, e5⟩ := ih
          (copyToChunk st src (min (st.end_ - st.now) size))
          (src.drop (min (st.end_ - st.now) size)) (size - min (st.end_ - st.now) size)
          (by
            show st.now + min (st.end_ - st.now) size ≤ st.end_
            omega)
          (by omega)
        have hn : (copyToChunk st src (min (st.end_ - st.now) size)).nalloc = st.nalloc := rfl
        rw [hn] at e3 e4 e5
        exact ⟨st1, e1, e2, e3, by omega, e5⟩

/-- C38. For `alloc_size > 0` and `0 < alignment < 65536`, every chunk that
`__PutBytesAlign` allocates has the capacity `c = m - m mod alignment` with
`m = min(alloc_size + alignment - 1, 65536)`; `c` is a positive multiple of the
alignment, at most 65536 and at least `min(alloc_size` rounded down`, alignment)`.
An iteration at a full chunk links a chunk of capacity `c` and copies
`min(c, size) >= 1` bytes, an iteration with room copies
`min(end - now, size) >= 1` bytes, so from every cursor with `now <= end` the loop
ends within `size` iterations, having allocated at most `size` chunks. -/
theorem C38_PutBytesAlign_terminates (p_slot : PMemSlot) (alloc : Nat → Nat) (st : Encoder)
    (src : List Nat) (size alloc_size alignment : Nat)
    (ha : 0 < alloc_size) (hal0 : 0 < alignment) (hal : alignment < 65536)
    (hcur : st.now ≤ st.end_) :
    (alignment ∣ min (alloc_size + alignment - 1) 65536 -
        min (alloc_size + alignment - 1) 65536 % alignment ∧
      0 < min (alloc_size + alignment - 1) 65536 -
        min (alloc_size + alignment - 1) 65536 % alignment ∧
      min (alloc_size + alignment - 1) 65536 -
        min (alloc_size + alignment - 1) 65536 % alignment ≤ 65536 ∧
      min (alloc_size - alloc_size % alignment) alignment ≤
        min (alloc_size + alignment - 1) 65536 -
          min (alloc_size + alignment - 1) 65536 % alignment) ∧
    (∀ fuel, 0 < size → st.now = st.end_ →
      PutBytesAlign.loop p_slot alloc alloc_size alignment (fuel + 1) st src size =
        PutBytesAlign.loop p_slot alloc alloc_size alignment fuel
          (copyToChunk (NEW_DATA_CHUNK p_slot alloc st
              (min (alloc_size + alignment - 1) 65536 -
                min (alloc_size + alignment - 1) 65536 % alignment)) src
            (min (min (alloc_size + alignment - 1) 65536 -
              min (alloc_size + alignment - 1) 65536 % alignment) size))
          (src.drop (min (min (alloc_size + alignment - 1) 65536 -
              min (alloc_size + alignment - 1) 65536 % alignment) size))
          (size - min (min (alloc_size + alignment - 1) 65536 -
              min (alloc_size + alignment - 1) 65536 % alignment) size) ∧
      0 < min (min (alloc_size + alignment - 1) 65536 -
              min (alloc_size + alignment - 1) 65536 % alignment) size) ∧
    (∀ fuel, 0 < size → st.now < st.end_ →
      PutBytesAlign.loop p_slot alloc alloc_size alignment (fuel + 1) st src size =
        PutBytesAlign.loop p_slot alloc alloc_size alignment fuel
          (copyToChunk st src (min (st.end_ - st.now) size))
          (src.drop (min (st.end_ - st.now) size)) (size - min (st.end_ - st.now) size) ∧
      0 < min (st.end_ - st.now) size) ∧
    (∀ fuel, size ≤ fuel →
      ∃ st1, PutBytesAlign p_slot alloc st src size alloc_size alignment fuel = some st1 ∧
        st1.now ≤ st1.end_ ∧ st.nalloc ≤ st1.nalloc ∧ st1.nalloc - st.nalloc ≤ size ∧
        (st.nalloc < st1.nalloc →
          st1.end_ = min (alloc_size + alignment - 1) 65536 -
            min (alloc_size + alignment - 1) 65536 % alignment)) := by
  obtain ⟨b1, b2, b3, b4⟩ := aligned_size_bounds alloc_size alignment ha hal0 hal
  have hpos := aligned_size_pos alloc_size alignment ha hal0 hal
  refine ⟨⟨b1, hpos, b3, b4⟩, ?_, ?_, ?_⟩
  · intro fuel hsz hfull
    constructor
    · rw [PutBytesAlign.loop, if_neg (by omega), if_neg (by omega)]
      have e : min (st.end_ - st.now) size = 0 := by
        rw [hfull, Nat.sub_self]
        exact Nat.zero_min _
      simp only [e]
      rw [if_pos trivial, if_neg (by omega), if_neg (by simpa using hal)]
      rfl
    · exact Nat.lt_min.mpr ⟨hpos, hsz⟩
  · intro fuel hsz hroom
    have hmin : 0 < min (st.end_ - st.now) size := Nat.lt_min.mpr ⟨by omega, hsz⟩
    constructor
    · rw [PutBytesAlign.loop, if_neg (by omega), if_neg (by omega)]
      simp only
      rw [if_neg (by omega)]
    · exact hmin
  · intro fuel hf
    obtain ⟨st1, e1, e2, e3, e4, e5⟩ := PutBytesAlign_loop_terminates p_slot alloc alloc_size
      alignment ha hal0 hal fuel st src size hcur hf
    exact ⟨st1, e1, e2, e3, by omega, e5⟩

/-- Termination of C38 on the example encoder: ten bytes, chunks of capacity
`min(4 + 2 - 1, 65536) - 1 = 4`, are written within ten iterations. -/
theorem C38_PutBytesAlign_terminates_witness :
    (min (4 + 2 - 1) 65536 - min (4 + 2 - 1) 65536 % 2 = 4) ∧
    ∃ st1, PutBytesAlign exampleSlot exampleAlloc exampleEncoder
        [1, 2, 3, 4, 5, 6, 7, 8, 9, 10] 10 4 2 10 = some st1 ∧
      st1.nalloc - exampleEncoder.nalloc ≤ 10 := by
  refine ⟨by decide, ?_⟩
  obtain ⟨st1, h1, _, _, h4, _⟩ :=
    (C38_PutBytesAlign_terminates exampleSlot exampleAlloc exampleEncoder
      [1, 2, 3, 4, 5, 6, 7, 8, 9, 10] 10 4 2 (by decide) (by decide) (by decide)
      (by decide)).2.2.2 10 (Nat.le_refl _)
  exact ⟨st1, h1, h4⟩

/-! ### C40: render positions of a fixed-pitch string -/

theorem toI32_add_toI32 (a b : Int) : toI32 (toI32 a + b) = toI32 (a + b) := by
  unfold toI32
  omega

theorem toI32_of_range (a : Int) (h0 : -2147483648 ≤ a) (h1 : a < 2147483648) : toI32 a = a := by
  unfold toI32
  omega

/-- What `add_rast_glyphs` does for one glyph: the record with the render
position, then the rows, are appended to the stream, and `*str_pos` is moved to
the record when there is a `delta`. -/
theorem add_rast_glyphs_glyph_stream (env : Env) (bpp : Nat) (delta : Option (Int × Int))
    (st : StrEnc) (g : GLYPHPOS) (c0 n0 : Nat) (written : List Nat)
    (hfresh : ∀ k, n0 ≤ k → env.alloc k ≠ c0)
    (hinj : ∀ i j, n0 ≤ i → n0 ≤ j → env.alloc i = env.alloc j → i = j)
    (hsz : env.layout.sizeof_RasterGlyph = 20) (hpage : 20 ≤ env.consts.PAGE_SIZE)
    (h : ByteChain env c0 n0 st.enc written) :
    ByteChain env c0 n0 (add_rast_glyphs.glyph env bpp delta st g).enc
      (written ++ glyphBytes env bpp (add_rast_glyphs.render_pos delta st.str_pos g) g) ∧
    (add_rast_glyphs.glyph env bpp delta st g).str_pos =
      (if delta.isSome then some (add_rast_glyphs.render_pos delta st.str_pos g)
       else st.str_pos) := by
  unfold add_rast_glyphs.glyph glyphBytes add_rast_glyphs.render_pos
  simp only []
  generalize hrp : (match delta, st.str_pos with
    | some d, some p => (toI32 (p.1 + d.1), toI32 (p.2 + d.2))
    | _, _ => g.ptl) = render_pos
  generalize hwd : toU32 g.sizlBitmap.1 % 65536 = width
  generalize hht : toU32 g.sizlBitmap.2 % 65536 = height
  have hlen := rasterGlyphBytes_length render_pos g.ptlOrigin width height
  have h1 : ByteChain env c0 n0
      (copyToChunk (ensureRoom env st.enc env.layout.sizeof_RasterGlyph env.consts.PAGE_SIZE)
        (rasterGlyphBytes render_pos g.ptlOrigin width height) env.layout.sizeof_RasterGlyph)
      (written ++ rasterGlyphBytes render_pos g.ptlOrigin width height) := by
    have := ByteChain_put env c0 n0 st.enc written
      (rasterGlyphBytes render_pos g.ptlOrigin width height) env.consts.PAGE_SIZE hfresh hinj
      (by rw [hlen]; exact hpage) h
    rw [hlen, ← hsz] at this
    exact this
  by_cases h0 : height = 0
  · rw [if_pos h0]
    subst h0
    refine ⟨?_, rfl⟩
    simpa [glyphRows] using h1
  · rw [if_neg h0]
    obtain ⟨a1, _, a3⟩ := add_rast_glyphs_bytes env c0 n0 hfresh hinj (by omega)
      (glyphRows env.bytes g.aj ((ALIGN (width * bpp) 8 % UINT32_MOD) >>> 3) height)
      { enc := copyToChunk
          (ensureRoom env st.enc env.layout.sizeof_RasterGlyph env.consts.PAGE_SIZE)
          (rasterGlyphBytes render_pos g.ptlOrigin width height) env.layout.sizeof_RasterGlyph
        data_size := (env.layout.sizeof_RasterGlyph + st.data_size) % UINT32_MOD
        str_pos := if delta.isSome then some render_pos else st.str_pos }
      _ h1 (Nat.mod_lt _ (by decide))
    refine ⟨?_, a3⟩
    rw [← List.append_assoc]
    exact a1

/-- The stream that `add_rast_glyphs` appends for a list of glyphs. -/
theorem add_rast_glyphs_stream (env : Env) (bpp : Nat) (delta : Option (Int × Int))
    (c0 n0 : Nat)
    (hfresh : ∀ k, n0 ≤ k → env.alloc k ≠ c0)
    (hinj : ∀ i j, n0 ≤ i → n0 ≤ j → env.alloc i = env.alloc j → i = j)
    (hsz : env.layout.sizeof_RasterGlyph = 20) (hpage : 20 ≤ env.consts.PAGE_SIZE) :
    ∀ (gs : List GLYPHPOS) (st : StrEnc) (written : List Nat),
      ByteChain env c0 n0 st.enc written →
      ByteChain env c0 n0 (add_rast_glyphs env bpp delta st gs).enc
        (written ++
          (List.zip (add_rast_glyphs.positions delta st.str_pos gs) gs).flatMap
            (fun pg => glyphBytes env bpp pg.1 pg.2)) := by
  intro gs
  induction gs with
  | nil =>
    intro st written h
    simpa [add_rast_glyphs, add_rast_glyphs.positions] using h
  | cons g rest ih =>
    intro st written h
    obtain ⟨a1, a2⟩ := add_rast_glyphs_glyph_stream env bpp delta st g c0 n0 written hfresh hinj
      hsz hpage h
    have := ih (add_rast_glyphs.glyph env bpp delta st g) _ a1
    rw [a2] at this
    unfold add_rast_glyphs at this ⊢
    rw [List.foldl_cons]
    unfold add_rast_glyphs.positions
    rw [List.zip_cons_cons, List.flatMap_cons, ← List.append_assoc]
    exact this

/-- The loop of `QXLGetStr` on a raster string whose enumerator ends with batch
`k + n` is one pass of `add_rast_glyphs` over the batches in order. -/
theorem QXLGetStr_loop_batches (env : Env) (str : STROBJ) (flags bpp : Nat)
    (delta : Option (Int × Int)) (hpgp : str.pgp = none)
    (hadd : ∀ st gs, add_glyphs env flags delta st gs = (true, add_rast_glyphs env bpp delta st gs)) :
    ∀ (n k fuel : Nat) (st : StrEnc), n < fuel →
      (∀ j, j < n → (str.bEnum (k + j)).1 ≠ 0 ∧ (str.bEnum (k + j)).1 ≠ env.consts.DDI_ERROR) →
      (str.bEnum (k + n)).1 = 0 → (str.bEnum (k + n)).1 ≠ env.consts.DDI_ERROR →
      QXLGetStr.loop env str flags delta fuel k st =
        some (true, add_rast_glyphs env bpp delta st
          ((List.range (n + 1)).flatMap (fun j => (str.bEnum (k + j)).2))) := by
  intro n
  induction n with
  | zero =>
    intro k fuel st hf _ hlast hne
    obtain ⟨f, rfl⟩ : ∃ f, fuel = f + 1 := ⟨fuel - 1, by omega⟩
    rw [Nat.add_zero] at hlast hne
    rw [QXLGetStr.loop, hpgp]
    simp only
    rw [if_neg hne, hadd, if_neg (by simp), if_neg (by simpa using hlast)]
    rw [show List.range (0 + 1) = [0] from rfl]
    simp
  | succ n ih =>
    intro k fuel st hf hmore hlast hne
    obtain ⟨f, rfl⟩ : ∃ f, fuel = f + 1 := ⟨fuel - 1, by omega⟩
    have h0 := hmore 0 (by omega)
    rw [Nat.add_zero] at h0
    rw [QXLGetStr.loop, hpgp]
    simp only
    rw [if_neg h0.2, hadd, if_neg (by simp), if_pos h0.1]
    rw [ih (k + 1) f _ (by omega)
      (fun j hj => by
        have := hmore (j + 1) (by omega)
        rw [show k + 1 + j = k + (j + 1) by omega]
        exact this)
      (by rw [show k + 1 + n = k + (n + 1) by omega]; exact hlast)
      (by rw [show k + 1 + n = k + (n + 1) by omega]; exact hne)]
    congr 2
    unfold add_rast_glyphs
    rw [← List.foldl_append]
    congr 1
    rw [List.range_succ_eq_map (n + 1), List.flatMap_cons, List.flatMap_map]
    congr 1
    apply List.flatMap_congr
    intro j _
    show (str.bEnum (k + 1 + j)).2 = (str.bEnum (k + (j + 1))).2
    rw [show k + 1 + j = k + (j + 1) by omega]

/-- With a step the positions after a known one are that position plus
multiples of the step, as 32-bit values. -/
theorem add_rast_glyphs_positions_some (d : Int × Int) :
    ∀ (gs : List GLYPHPOS) (p : Int × Int),
      add_rast_glyphs.positions (some d) (some p) gs =
        (List.range gs.length).map
          (fun (i : Nat) => (toI32 (p.1 + ((i : Int) + 1) * d.1),
                             toI32 (p.2 + ((i : Int) + 1) * d.2))) := by
  intro gs
  induction gs with
  | nil => intro p; rfl
  | cons g rest ih =>
    intro p
    unfold add_rast_glyphs.positions
    simp only [Option.isSome_some, if_true]
    rw [ih]
    rw [List.length_cons, List.range_succ_eq_map, List.map_cons, List.map_map]
    congr 1
    · simp [add_rast_glyphs.render_pos]
    · apply List.map_congr_left
      intro i _
      simp only [Function.comp_apply, add_rast_glyphs.render_pos]
      rw [toI32_add_toI32, toI32_add_toI32]
      push_cast
      congr 2 <;> ring

/-- Without a step every glyph is rendered at its own `ptl`. -/
theorem add_rast_glyphs_positions_none :
    ∀ (gs : List GLYPHPOS) (sp : Option (Int × Int)),
      add_rast_glyphs.positions none sp gs = gs.map (fun g => g.ptl) := by
  intro gs
  induction gs with
  | nil => intro sp; rfl
  | cons g rest ih =>
    intro sp
    unfold add_rast_glyphs.positions
    rw [List.map_cons]
    congr 1
    exact ih _

/-- The step that `QXLGetStr` computes is the one the specification states,
for a character increment below `2^31`. -/
theorem QXLGetStr_delta_spec (k : Consts) (str : STROBJ) (hinc : str.ulCharInc < 2147483648) :
    QXLGetStr.delta k str = (if str.ulCharInc = 0 then none else some (deltaSpec k str)) := by
  have e1 : toI32 (str.ulCharInc : Int) = (str.ulCharInc : Int) :=
    toI32_of_range _ (by omega) (by omega)
  have e2 : toI32 (-(str.ulCharInc : Int)) = -(str.ulCharInc : Int) :=
    toI32_of_range _ (by omega) (by omega)
  unfold QXLGetStr.delta deltaSpec
  by_cases h0 : str.ulCharInc = 0
  · rw [if_neg (by simpa using h0), if_pos h0]
  · rw [if_pos h0, if_neg h0, e1, e2]
    split <;> rfl

/-- The positions the code stores are those of the specification when none of
them leaves the range of `INT32`. -/
theorem add_rast_glyphs_positions_spec (k : Consts) (str : STROBJ) (gs : List GLYPHPOS)
    (hinc : str.ulCharInc < 2147483648)
    (hrange : str.ulCharInc ≠ 0 → ∀ p, p ∈ renderPositionsSpec k str gs →
      (-2147483648 ≤ p.1 ∧ p.1 < 2147483648) ∧ (-2147483648 ≤ p.2 ∧ p.2 < 2147483648)) :
    add_rast_glyphs.positions (QXLGetStr.delta k str) none gs = renderPositionsSpec k str gs := by
  rw [QXLGetStr_delta_spec k str hinc]
  by_cases h0 : str.ulCharInc = 0
  · rw [if_pos h0, add_rast_glyphs_positions_none]
    unfold renderPositionsSpec
    rw [if_pos h0]
  · have hr := hrange h0
    rw [if_neg h0]
    unfold renderPositionsSpec at hr ⊢
    rw [if_neg h0] at hr ⊢
    cases gs with
    | nil => rfl
    | cons g0 rest =>
      simp only at hr ⊢
      unfold add_rast_glyphs.positions
      simp only [Option.isSome_some, if_true]
      rw [add_rast_glyphs_positions_some, List.length_cons, List.range_succ_eq_map, List.map_cons,
        List.map_map]
      congr 1
      · simp [add_rast_glyphs.render_pos]
      · apply List.map_congr_left
        intro i hi
        have hm := hr (g0.ptl.1 + ((i + 1 : Nat) : Int) * (deltaSpec k str).1,
            g0.ptl.2 + ((i + 1 : Nat) : Int) * (deltaSpec k str).2)
          (List.mem_map.mpr ⟨i + 1, by
            rw [List.mem_range] at hi ⊢
            rw [List.length_cons]
            omega, rfl⟩)
        simp only [Function.comp_apply, add_rast_glyphs.render_pos]
        push_cast at hm ⊢
        rw [toI32_of_range _ hm.1.1 hm.1.2, toI32_of_range _ hm.2.1 hm.2.2]

/-- C40. In `QXLGetStr` on a raster string whose enumeration ends (or that has
a glyph array), `delta` is `(+-ulCharInc, 0)`, or `(0, +-ulCharInc)` with
`SO_VERTICAL`, negative iff `SO_REVERSED`, when `ulCharInc != 0`, and `NULL`
otherwise; the glyph records appended to the string payload, counted across
all batches, carry the render positions `ptl` of glyph 0 plus `i * delta` when
`ulCharInc != 0` (the first glyph at its own `ptl`, each later one at its
predecessor's position plus `delta`) and each glyph's own `ptl` when
`ulCharInc = 0`, as long as no position leaves the range of `INT32`. -/
theorem C40_QXLGetStr_fixed_pitch_positions (env : Env) (str : STROBJ) (flags bpp n fuel : Nat)
    (st : StrEnc) (c0 n0 : Nat) (written : List Nat)
    (hfresh : ∀ k, n0 ≤ k → env.alloc k ≠ c0)
    (hinj : ∀ i j, n0 ≤ i → n0 ≤ j → env.alloc i = env.alloc j → i = j)
    (hsz : env.layout.sizeof_RasterGlyph = 20) (hpage : 20 ≤ env.consts.PAGE_SIZE)
    (hfl : (flags &&& env.consts.STRING_RASTER_A1 ≠ 0 ∧ bpp = 1) ∨
      (flags &&& env.consts.STRING_RASTER_A1 = 0 ∧ flags &&& env.consts.STRING_RASTER_A4 ≠ 0 ∧
        bpp = 4))
    (hfuel : n < fuel)
    (henum : str.pgp = none →
      (∀ j, j < n → (str.bEnum j).1 ≠ 0 ∧ (str.bEnum j).1 ≠ env.consts.DDI_ERROR) ∧
      (str.bEnum n).1 = 0 ∧ (str.bEnum n).1 ≠ env.consts.DDI_ERROR)
    (hsp : st.str_pos = none)
    (hinc : str.ulCharInc < 2147483648)
    (hrange : str.ulCharInc ≠ 0 →
      ∀ p, p ∈ renderPositionsSpec env.consts str (QXLGetStr.glyphs str n) →
        (-2147483648 ≤ p.1 ∧ p.1 < 2147483648) ∧ (-2147483648 ≤ p.2 ∧ p.2 < 2147483648))
    (h : ByteChain env c0 n0 st.enc written) :
    QXLGetStr.delta env.consts str =
      (if str.ulCharInc = 0 then none else some (deltaSpec env.consts str)) ∧
    add_rast_glyphs.positions (QXLGetStr.delta env.consts str) none (QXLGetStr.glyphs str n) =
      renderPositionsSpec env.consts str (QXLGetStr.glyphs str n) ∧
    (∀ i, i + 1 < (QXLGetStr.glyphs str n).length → str.ulCharInc ≠ 0 →
      ((renderPositionsSpec env.consts str (QXLGetStr.glyphs str n)).getD (i + 1) (0, 0)).1 =
          ((renderPositionsSpec env.consts str (QXLGetStr.glyphs str n)).getD i (0, 0)).1 +
            (deltaSpec env.consts str).1 ∧
        ((renderPositionsSpec env.consts str (QXLGetStr.glyphs str n)).getD (i + 1) (0, 0)).2 =
          ((renderPositionsSpec env.consts str (QXLGetStr.glyphs str n)).getD i (0, 0)).2 +
            (deltaSpec env.consts str).2) ∧
    ∃ st1, QXLGetStr.loop env str flags (QXLGetStr.delta env.consts str) fuel 0 st =
        some (true, st1) ∧
      ByteChain env c0 n0 st1.enc
        (written ++
          (List.zip (renderPositionsSpec env.consts str (QXLGetStr.glyphs str n))
            (QXLGetStr.glyphs str n)).flatMap (fun pg => glyphBytes env bpp pg.1 pg.2)) := by
  have hadd : ∀ (st : StrEnc) (gs : List GLYPHPOS),
      add_glyphs env flags (QXLGetStr.delta env.consts str) st gs =
        (true, add_rast_glyphs env bpp (QXLGetStr.delta env.consts str) st gs) := by
    intro st gs
    unfold add_glyphs
    rcases hfl with ⟨h1, rfl⟩ | ⟨h1, h4, rfl⟩
    · rw [if_pos h1]
    · rw [if_neg (by simpa using h1), if_pos h4]
  have hpos := add_rast_glyphs_positions_spec env.consts str (QXLGetStr.glyphs str n) hinc hrange
  have hloop : QXLGetStr.loop env str flags (QXLGetStr.delta env.consts str) fuel 0 st =
      some (true, add_rast_glyphs env bpp (QXLGetStr.delta env.consts str) st
        (QXLGetStr.glyphs str n)) := by
    unfold QXLGetStr.glyphs
    cases hp : str.pgp with
    | some pgp =>
      obtain ⟨f, rfl⟩ : ∃ f, fuel = f + 1 := ⟨fuel - 1, by omega⟩
      rw [QXLGetStr.loop, hp]
      simp only
      rw [hadd]
    | none =>
      obtain ⟨e1, e2, e3⟩ := henum hp
      have := QXLGetStr_loop_batches env str flags bpp (QXLGetStr.delta env.consts str) hp hadd
        n 0 fuel st hfuel (fun j hj => by rw [Nat.zero_add]; exact e1 j hj)
        (by rw [Nat.zero_add]; exact e2) (by rw [Nat.zero_add]; exact e3)
      rw [this]
      simp only [Nat.zero_add]
  refine ⟨QXLGetStr_delta_spec env.consts str hinc, hpos, ?_, _, hloop, ?_⟩
  · intro i hi h0
    unfold renderPositionsSpec
    rw [if_neg h0]
    cases hg : QXLGetStr.glyphs str n with
    | nil =>
      rw [hg] at hi
      simp at hi
    | cons g0 rest =>
      rw [hg] at hi
      simp only
      rw [List.getD_eq_getElem _ _ (by simpa using hi),
        List.getD_eq_getElem _ _ (by simp only [List.length_map, List.length_range]; omega)]
      simp only [List.getElem_map, List.getElem_range]
      push_cast
      constructor <;> ring
  · have := add_rast_glyphs_stream env bpp (QXLGetStr.delta env.consts str) c0 n0 hfresh hinj hsz
      hpage (QXLGetStr.glyphs str n) st written h
    rw [hsp, hpos] at this
    exact this

/-- The positions of C40 for the example string (step 7, two batches): the
three glyph records carry `(3, 4)`, `(10, 4)` and `(17, 4)`, not the `ptl` values
`(50, 60)` and `(90, 91)` of the second and third glyph. -/
theorem C40_QXLGetStr_fixed_pitch_positions_witness :
    renderPositionsSpec exampleEnv.consts fixedPitchStr (QXLGetStr.glyphs fixedPitchStr 1) =
      [(3, 4), (10, 4), (17, 4)] ∧
    add_rast_glyphs.positions (QXLGetStr.delta exampleEnv.consts fixedPitchStr) none
        (QXLGetStr.glyphs fixedPitchStr 1) =
      renderPositionsSpec exampleEnv.consts fixedPitchStr (QXLGetStr.glyphs fixedPitchStr 1) ∧
    ∃ st1, QXLGetStr.loop exampleEnv fixedPitchStr 1
        (QXLGetStr.delta exampleEnv.consts fixedPitchStr) 2 0 exampleStrEnc = some (true, st1) ∧
      ByteChain exampleEnv 4200 0 st1.enc
        ([] ++
          (List.zip
            (renderPositionsSpec exampleEnv.consts fixedPitchStr (QXLGetStr.glyphs fixedPitchStr 1))
            (QXLGetStr.glyphs fixedPitchStr 1)).flatMap
            (fun pg => glyphBytes exampleEnv 1 pg.1 pg.2)) := by
  have hspec : renderPositionsSpec exampleEnv.consts fixedPitchStr
      (QXLGetStr.glyphs fixedPitchStr 1) = [(3, 4), (10, 4), (17, 4)] := by decide
  have hinv : ByteChain exampleEnv 4200 0 exampleStrEnc.enc [] :=
    ⟨0, rfl, rfl, trivial, rfl, by decide, rfl⟩
  obtain ⟨_, a2, _, a4⟩ := C40_QXLGetStr_fixed_pitch_positions exampleEnv fixedPitchStr 1 1 1 2
    exampleStrEnc 4200 0 []
    (by intro k _; show exampleAlloc k ≠ 4200; unfold exampleAlloc; omega)
    (by intro i j _ _ e; have e1 : exampleAlloc i = exampleAlloc j := e
        unfold exampleAlloc at e1; omega)
    rfl (by decide) (Or.inl ⟨by decide, rfl⟩) (by decide)
    (fun _ => ⟨fun j hj => by
        have : j = 0 := by omega
        subst this
        decide, by decide, by decide⟩)
    rfl (by decide)
    (fun _ p hp => by
      rw [hspec] at hp
      simp only [List.mem_cons, List.mem_singleton, List.not_mem_nil, or_false] at hp
      rcases hp with rfl | rfl | rfl <;> decide)
    hinv
  exact ⟨hspec, a2, a4⟩

/-! ### C37: one cached cursor per surface -/

/-- Writing the fields of a block that holds no cached cursor keeps the cache
consistent. -/
theorem CurInv_write_unused (NASKE : Nat) (cc : CursorCache) (cursors : Nat → InternalCursor)
    (hinv : CurInv NASKE cc [])
    (hsame : ∀ a, a ∈ cc.cursors_lru → cursors a = cc.cursors a) :
    CurInv NASKE { cc with cursors := cursors } [] := by
  obtain ⟨cl, hcl⟩ := hinv.chains
  have hin : ∀ b p, p ∈ cl b → p ∈ cc.cursors_lru := fun b p hp => (((hcl b).2.2 p).mp hp).1
  refine ⟨?_, ?_, ?_, ⟨cl, fun b => ⟨?_, (hcl b).2.1, ?_⟩⟩, hinv.count⟩
  · intro p hp
    have hp1 : p ∈ cc.cursors_lru := by simpa using hp
    show p ≠ 0 ∧ (cursors p).unique ≠ 0
    rw [hsame p hp1]
    exact hinv.wf p hp
  · exact hinv.nodup
  · intro p hp q hq
    have hp1 : p ∈ cc.cursors_lru := by simpa using hp
    have hq1 : q ∈ cc.cursors_lru := by simpa using hq
    show (cursors p).hsurf = (cursors q).hsurf → p = q
    rw [hsame p hp1, hsame q hq1]
    exact hinv.inj p hp q hq
  · exact CurChain_congr cc.cursors cursors (cl b) _
      (fun a ha => by rw [hsame a (hin b a ha)]) (hcl b).1
  · intro p
    show p ∈ cl b ↔ (p ∈ cc.cursors_lru ∧ CURSOR_HASH_VAL NASKE (cursors p).hsurf = b)
    constructor
    · intro hp
      have := ((hcl b).2.2 p).mp hp
      rw [hsame p this.1]
      exact this
    · rintro ⟨hp, hb⟩
      rw [hsame p hp] at hb
      exact ((hcl b).2.2 p).mpr ⟨hp, hb⟩

/-- A new cursor in a block outside the cache, for a surface that has no
cached cursor, may be inserted. -/
theorem CurInv_write_new (NASKE : Nat) (cc : CursorCache) (cursors : Nat → InternalCursor)
    (x : Nat) (hinv : CurInv NASKE cc []) (hx0 : x ≠ 0) (hx : x ∉ cc.cursors_lru)
    (hu : (cursors x).unique ≠ 0)
    (hnew : ∀ q, q ∈ cc.cursors_lru → (cc.cursors q).hsurf ≠ (cursors x).hsurf)
    (hsame : ∀ a, a ≠ x → cursors a = cc.cursors a) :
    CurInv NASKE { cc with cursors := cursors } [x] := by
  have hs : ∀ a, a ∈ cc.cursors_lru → cursors a = cc.cursors a :=
    fun a ha => hsame a (fun e => hx (e ▸ ha))
  have hbase := CurInv_write_unused NASKE cc cursors hinv hs
  refine ⟨?_, ?_, ?_, ?_, hbase.count⟩
  · intro p hp
    rcases List.mem_append.mp hp with hp1 | hp1
    · exact hbase.wf p (by simpa using hp1)
    · have : p = x := by simpa using hp1
      subst this
      exact ⟨hx0, hu⟩
  · show (cc.cursors_lru ++ [x]).Nodup
    have hnd : cc.cursors_lru.Nodup := by simpa using hinv.nodup
    rw [List.nodup_append]
    refine ⟨hnd, List.nodup_singleton x, ?_⟩
    intro a ha hb
    have : a = x := by simpa using hb
    exact hx (this ▸ ha)
  · intro p hp q hq he
    have hp' : p ∈ cc.cursors_lru ∨ p = x := by
      rcases List.mem_append.mp hp with h | h
      · exact Or.inl h
      · exact Or.inr (by simpa using h)
    have hq' : q ∈ cc.cursors_lru ∨ q = x := by
      rcases List.mem_append.mp hq with h | h
      · exact Or.inl h
      · exact Or.inr (by simpa using h)
    have he1 : (cursors p).hsurf = (cursors q).hsurf := he
    rcases hp' with hp1 | hp1 <;> rcases hq' with hq1 | hq1
    · exact hbase.inj p (by simpa using hp1) q (by simpa using hq1) he
    · subst hq1
      rw [hs p hp1] at he1
      exact absurd he1 (hnew p hp1)
    · subst hp1
      rw [hs q hq1] at he1
      exact absurd he1.symm (hnew q hq1)
    · rw [hp1, hq1]
  · exact hbase.chains

/-- The cursor cache after the miss path of `GetCursorCommon` is the one that
`CursorCacheAdd` leaves for the new cursor. -/
theorem GetCursorCommon_build_cc (env : Env) (ck : CursorConsts) (fuel : Nat)
    (d d1 : CursorDev) (cmd : Nat) (hot_x hot_y : Int) (surf : SURFOBJ) (type : Nat)
    (st : Encoder)
    (h : GetCursorCommon.build env ck fuel d cmd hot_x hot_y surf type = some (st, d1)) :
    ∃ h1 h2, CursorCacheAdd ck.CURSOR_HASH_NASKE ck.CURSOR_CACHE_SIZE env.layout.sizeof_Resource
      fuel h1
      { d.cc with
        cursors := fun a =>
          if a = env.alloc d.s.nalloc + env.layout.sizeof_Resource then
            { d.cc.cursors a with
              hsurf := surf.hsurf, unique := GetCursorCommon.unique env.consts surf }
          else d.cc.cursors a }
      (env.alloc d.s.nalloc + env.layout.sizeof_Resource) = some (h2, d1.cc) := by
  unfold GetCursorCommon.build at h
  simp only [] at h
  split at h
  · cases h
  · split at h
    · cases h
    · rename_i res s0 ha
      obtain ⟨hr, _⟩ := AllocMem_done_inv env d.s s0 res ha
      split at h
      · cases h
      · split at h
        · cases h
        · split at h
          · cases h
          · split at h
            · cases h
            · rename_i h2 cc2 hadd
              split at h
              · cases h
              · simp only [Option.some.injEq, Prod.mk.injEq] at h
                obtain ⟨_, hd1⟩ := h
                rw [← hd1, ← hr]
                exact ⟨_, h2, hadd⟩

/-- One call of `GetCursorCommon` keeps the cursor cache consistent and within
its capacity. -/
theorem GetCursorCommon_inv (env : Env) (ck : CursorConsts) (fuel : Nat) (d d1 : CursorDev)
    (cmd : Nat) (hot_x hot_y : Int) (surf : SURFOBJ) (type : Nat) (r : Bool)
    (info : Option Encoder)
    (hsz : 0 < env.layout.sizeof_Resource)
    (hS1 : 1 ≤ ck.CURSOR_CACHE_SIZE) (hS2 : ck.CURSOR_CACHE_SIZE < UINT32_MOD)
    (hfuel : ck.CURSOR_CACHE_SIZE < fuel)
    (hinv : CurInv ck.CURSOR_HASH_NASKE d.cc [])
    (hlen : d.cc.cursors_lru.length ≤ ck.CURSOR_CACHE_SIZE)
    (hfresh : env.alloc d.s.nalloc + env.layout.sizeof_Resource ∉ d.cc.cursors_lru)
    (h : GetCursorCommon env ck fuel d cmd hot_x hot_y surf type = some (r, info, d1)) :
    CurInv ck.CURSOR_HASH_NASKE d1.cc [] ∧ d1.cc.cursors_lru.length ≤ ck.CURSOR_CACHE_SIZE := by
  -- what the lookup leaves: a consistent cache without a cursor of the surface, or a hit
  have hx0 : env.alloc d.s.nalloc + env.layout.sizeof_Resource ≠ 0 := by omega
  have hbuild : ∀ (h0 : ResHeap) (cc0 : CursorCache) (st : Encoder) (dr : CursorDev),
      CurInv ck.CURSOR_HASH_NASKE cc0 [] → cc0.cursors_lru.length ≤ ck.CURSOR_CACHE_SIZE →
      env.alloc d.s.nalloc + env.layout.sizeof_Resource ∉ cc0.cursors_lru →
      (GetCursorCommon.unique env.consts surf ≠ 0 →
        ∀ q, q ∈ cc0.cursors_lru → (cc0.cursors q).hsurf ≠ surf.hsurf) →
      GetCursorCommon.build env ck fuel { d with s := { d.s with heap := h0 }, cc := cc0 }
        cmd hot_x hot_y surf type = some (st, dr) →
      CurInv ck.CURSOR_HASH_NASKE dr.cc [] ∧
        dr.cc.cursors_lru.length ≤ ck.CURSOR_CACHE_SIZE := by
    intro h0 cc0 st dr hinv0 hlen0 hfresh0 hnone hb
    obtain ⟨h1, h2, hadd⟩ := GetCursorCommon_build_cc env ck fuel _ dr cmd hot_x hot_y surf type
      st hb
    simp only [] at hadd
    by_cases hu : GetCursorCommon.unique env.consts surf = 0
    · -- not cached
      unfold CursorCacheAdd at hadd
      rw [if_pos (by simp [hu])] at hadd
      simp only [Option.some.injEq, Prod.mk.injEq] at hadd
      rw [← hadd.2]
      refine ⟨CurInv_write_unused _ cc0 _ hinv0 ?_, hlen0⟩
      intro a ha
      have : a ≠ env.alloc d.s.nalloc + env.layout.sizeof_Resource := fun e => hfresh0 (e ▸ ha)
      simp [this]
    · have hnew := CurInv_write_new ck.CURSOR_HASH_NASKE cc0
        (fun a =>
          if a = env.alloc d.s.nalloc + env.layout.sizeof_Resource then
            { cc0.cursors a with
              hsurf := surf.hsurf, unique := GetCursorCommon.unique env.consts surf }
          else cc0.cursors a)
        (env.alloc d.s.nalloc + env.layout.sizeof_Resource) hinv0 hx0 hfresh0
        (by simpa using hu) (by simpa using hnone hu)
        (by intro a ha; simp [ha])
      obtain ⟨cc1, a1, a2, _, _, _, a6, _⟩ := CursorCacheAdd_spec ck.CURSOR_HASH_NASKE
        ck.CURSOR_CACHE_SIZE env.layout.sizeof_Resource fuel h1 _ []
        (env.alloc d.s.nalloc + env.layout.sizeof_Resource) hnew hS1 hS2 hlen0 hfuel
      rw [a1] at hadd
      simp only [Option.some.injEq, Prod.mk.injEq] at hadd
      rw [← hadd.2]
      exact ⟨a2, a6⟩
  unfold GetCursorCommon at h
  by_cases hu : GetCursorCommon.unique env.consts surf = 0
  · rw [hu, CursorCacheGet_zero] at h
    simp only [] at h
    rw [if_neg (by simp)] at h
    split at h
    · cases h
    · rename_i st d2 hb
      simp only [Option.some.injEq, Prod.mk.injEq] at h
      rw [← h.2.2]
      exact hbuild d.s.heap d.cc st d2 hinv hlen hfresh (fun h0 => absurd hu h0) hb
  · rw [CursorCacheGet_spec ck.CURSOR_HASH_NASKE env.layout.sizeof_Resource fuel d.s.heap d.cc []
      surf.hsurf _ hinv (by omega) hu] at h
    cases hf : d.cc.cursors_lru.find? (fun p => decide ((d.cc.cursors p).hsurf = surf.hsurf)) with
    | none =>
      rw [hf] at h
      simp only [] at h
      rw [if_neg (by simp)] at h
      split at h
      · cases h
      · rename_i st d2 hb
        simp only [Option.some.injEq, Prod.mk.injEq] at h
        rw [← h.2.2]
        refine hbuild d.s.heap d.cc st d2 hinv hlen hfresh (fun _ q hq => ?_) hb
        have := List.find?_eq_none.mp hf q hq
        simpa using this
    | some p =>
      rw [hf] at h
      simp only [] at h
      have hp : p ∈ d.cc.cursors_lru := List.mem_of_find?_eq_some hf
      have hps : (d.cc.cursors p).hsurf = surf.hsurf := by simpa using List.find?_some hf
      have hp0 : p ≠ 0 := (hinv.wf p (by simpa using hp)).1
      by_cases hpu : (d.cc.cursors p).unique = GetCursorCommon.unique env.consts surf
      · rw [if_pos hpu] at h
        simp only [] at h
        rw [if_pos hp0] at h
        split at h
        · cases h
        · simp only [Option.some.injEq, Prod.mk.injEq] at h
          rw [← h.2.2]
          refine ⟨curHit_inv _ d.cc [] p hinv hp, ?_⟩
          show (p :: d.cc.cursors_lru.erase p).length ≤ _
          rw [List.length_cons, List.length_erase_of_mem hp]
          have : 0 < d.cc.cursors_lru.length := List.length_pos_of_mem hp
          omega
      · rw [if_neg hpu] at h
        obtain ⟨cc1, b1, b2, b3, _, b5⟩ := CursorCacheRemove_spec ck.CURSOR_HASH_NASKE
          env.layout.sizeof_Resource fuel d.s.heap d.cc [] p hinv hp (by omega) (by omega)
        rw [b1] at h
        simp only [] at h
        rw [if_neg (by simp)] at h
        split at h
        · cases h
        · rename_i st d2 hb
          simp only [Option.some.injEq, Prod.mk.injEq] at h
          rw [← h.2.2]
          have hnd : d.cc.cursors_lru.Nodup := by simpa using hinv.nodup
          refine hbuild _ cc1 st d2 b2 ?_ ?_ (fun _ q hq => ?_) hb
          · rw [b3]
            exact le_trans (List.length_erase_le _ _) hlen
          · rw [b3]
            exact fun hm => hfresh (List.mem_of_mem_erase hm)
          · rw [b3] at hq
            have hq1 : q ∈ d.cc.cursors_lru := List.mem_of_mem_erase hq
            intro e
            rw [b5 q, ← hps] at e
            have : q = p := hinv.inj q (by simpa using hq1) p (by simpa using hp) e
            rw [this] at hq
            exact (List.Nodup.not_mem_erase hnd) hq

/-- Every state reachable through `GetCursorCommon` has a consistent cursor
cache within its capacity. -/
theorem CursorReachable_inv (env : Env) (ck : CursorConsts) (fuel : Nat)
    (hsz : 0 < env.layout.sizeof_Resource)
    (hS1 : 1 ≤ ck.CURSOR_CACHE_SIZE) (hS2 : ck.CURSOR_CACHE_SIZE < UINT32_MOD)
    (hfuel : ck.CURSOR_CACHE_SIZE < fuel) (d : CursorDev)
    (hr : CursorReachable env ck fuel d) :
    CurInv ck.CURSOR_HASH_NASKE d.cc [] ∧ d.cc.cursors_lru.length ≤ ck.CURSOR_CACHE_SIZE := by
  induction hr with
  | init d0 =>
    refine ⟨⟨?_, ?_, ?_, ⟨fun _ => [], fun b => ⟨rfl, List.nodup_nil, ?_⟩⟩, rfl⟩, Nat.zero_le _⟩
    · intro p hp
      simp [InitResources.cursors, RingInit] at hp
    · simp [InitResources.cursors, RingInit]
    · intro p hp
      simp [InitResources.cursors, RingInit] at hp
    · intro p
      simp [InitResources.cursors, RingInit]
  | other d0 s _ ih => exact ih
  | call d0 d1 cmd hot_x hot_y surf type r info _ hfresh hcall ih =>
    exact GetCursorCommon_inv env ck fuel d0 d1 cmd hot_x hot_y surf type r info hsz hS1 hS2
      hfuel ih.1 ih.2 hfresh hcall

/-- C37. On a consistent cursor cache, `CursorCacheGet` with a non-zero
`unique` that finds the surface's entry with another `unique` removes the entry
(from its bucket and from the ring, one `RELEASE_RES` on its resource,
`num_cursors` one less) and returns `NULL`, after which no cached cursor has
that `hsurf`; with `unique = 0` it returns `NULL` and changes nothing;
`CursorCacheAdd` of a cursor with `unique = 0` changes nothing. In every state
reachable through `GetCursorCommon` no two cached cursors have the same
`hsurf`, every cached cursor has a non-zero `unique`, and `num_cursors` is the
number of cached cursors, at most `CURSOR_CACHE_SIZE`. -/
theorem C37_cursor_cache_one_entry_per_surface (env : Env) (ck : CursorConsts) (fuel : Nat)
    (hsz : 0 < env.layout.sizeof_Resource)
    (hS1 : 1 ≤ ck.CURSOR_CACHE_SIZE) (hS2 : ck.CURSOR_CACHE_SIZE < 4294967296)
    (hfuel : ck.CURSOR_CACHE_SIZE < fuel) :
    (∀ (h : ResHeap) (cc : CursorCache) (hsurf unique p : Nat),
      CurInv ck.CURSOR_HASH_NASKE cc [] → cc.cursors_lru.length ≤ ck.CURSOR_CACHE_SIZE →
      p ∈ cc.cursors_lru → (cc.cursors p).hsurf = hsurf → (cc.cursors p).unique ≠ unique →
      unique ≠ 0 →
      ∃ cc1, CursorCacheGet ck.CURSOR_HASH_NASKE env.layout.sizeof_Resource fuel h cc hsurf
          unique = some (0, RELEASE_RES h (p - env.layout.sizeof_Resource), cc1) ∧
        cc1.cursors_lru = cc.cursors_lru.erase p ∧ p ∉ cc1.cursors_lru ∧
        cc1.num_cursors + 1 = cc.num_cursors ∧
        CurInv ck.CURSOR_HASH_NASKE cc1 [] ∧
        (∀ q, q ∈ cc1.cursors_lru → (cc1.cursors q).hsurf ≠ hsurf)) ∧
    (∀ (h : ResHeap) (cc : CursorCache) (hsurf : Nat),
      CursorCacheGet ck.CURSOR_HASH_NASKE env.layout.sizeof_Resource fuel h cc hsurf 0 =
        some (0, h, cc)) ∧
    (∀ (h : ResHeap) (cc : CursorCache) (cursor : Nat), (cc.cursors cursor).unique = 0 →
      CursorCacheAdd ck.CURSOR_HASH_NASKE ck.CURSOR_CACHE_SIZE env.layout.sizeof_Resource fuel h
        cc cursor = some (h, cc)) ∧
    (∀ d : CursorDev, CursorReachable env ck fuel d →
      (∀ p, p ∈ d.cc.cursors_lru → ∀ q, q ∈ d.cc.cursors_lru →
        (d.cc.cursors p).hsurf = (d.cc.cursors q).hsurf → p = q) ∧
      d.cc.cursors_lru.Nodup ∧
      (∀ p, p ∈ d.cc.cursors_lru → (d.cc.cursors p).unique ≠ 0) ∧
      d.cc.num_cursors = d.cc.cursors_lru.length ∧
      d.cc.cursors_lru.length ≤ ck.CURSOR_CACHE_SIZE ∧
      CurInv ck.CURSOR_HASH_NASKE d.cc []) := by
  refine ⟨?_, ?_, ?_, ?_⟩
  · intro h cc hsurf unique p hinv hlen hp hps hpu hu
    have hnd : cc.cursors_lru.Nodup := by simpa using hinv.nodup
    have hget := CursorCacheGet_spec ck.CURSOR_HASH_NASKE env.layout.sizeof_Resource fuel h cc []
      hsurf unique hinv (by omega) hu
    have hfind : cc.cursors_lru.find? (fun q => decide ((cc.cursors q).hsurf = hsurf)) =
        some p := by
      cases hf : cc.cursors_lru.find? (fun q => decide ((cc.cursors q).hsurf = hsurf)) with
      | none =>
        rw [List.find?_eq_none] at hf
        exact absurd (by simpa using hps) (hf p hp)
      | some q =>
        have hq : q ∈ cc.cursors_lru := List.mem_of_find?_eq_some hf
        have hpq : (cc.cursors q).hsurf = hsurf := by simpa using List.find?_some hf
        rw [hinv.inj q (by simpa using hq) p (by simpa using hp) (hpq.trans hps.symm)]
    rw [hfind] at hget
    simp only [] at hget
    rw [if_neg hpu] at hget
    obtain ⟨cc1, b1, b2, b3, _, b5⟩ := CursorCacheRemove_spec ck.CURSOR_HASH_NASKE
      env.layout.sizeof_Resource fuel h cc [] p hinv hp (by omega) (lt_of_le_of_lt hlen hS2)
    rw [b1] at hget
    refine ⟨cc1, hget, b3, ?_, ?_, b2, ?_⟩
    · rw [b3]
      exact List.Nodup.not_mem_erase hnd
    · rw [b2.count, hinv.count, b3, List.length_erase_of_mem hp]
      have : 0 < cc.cursors_lru.length := List.length_pos_of_mem hp
      omega
    · intro q hq e
      rw [b3] at hq
      have hq1 : q ∈ cc.cursors_lru := List.mem_of_mem_erase hq
      rw [b5 q, ← hps] at e
      have : q = p := hinv.inj q (by simpa using hq1) p (by simpa using hp) e
      rw [this] at hq
      exact (List.Nodup.not_mem_erase hnd) hq
  · intro h cc hsurf
    exact CursorCacheGet_zero _ _ _ _ _ _
  · intro h cc cursor hu
    unfold CursorCacheAdd
    rw [if_pos hu]
  · intro d hr
    obtain ⟨hinv, hlen⟩ := CursorReachable_inv env ck fuel hsz hS1 hS2 hfuel d hr
    refine ⟨?_, by simpa using hinv.nodup, ?_, hinv.count, hlen, hinv⟩
    · intro p hp q hq e
      exact hinv.inj p (by simpa using hp) q (by simpa using hq) e
    · intro p hp
      exact (hinv.wf p (by simpa using hp)).2

/-- The invariant of C37 after a first call of `GetCursorCommon` on the example
state: the call returns, and the cursor cache it leaves holds one cursor. -/
theorem C37_cursor_cache_one_entry_per_surface_witness :
    (GetCursorCommon exampleEnv exampleCursorConsts 5
        { exampleCursorDev with cc := InitResources.cursors exampleCursorDev.cc } 184 0 0
        exampleSurf 0).map (fun r => (r.1, r.2.2.cc.cursors_lru, r.2.2.cc.num_cursors)) =
      some (false, [8208], 1) ∧
    ∀ r info d1,
      GetCursorCommon exampleEnv exampleCursorConsts 5
        { exampleCursorDev with cc := InitResources.cursors exampleCursorDev.cc } 184 0 0
        exampleSurf 0 = some (r, info, d1) →
      (∀ p, p ∈ d1.cc.cursors_lru → ∀ q, q ∈ d1.cc.cursors_lru →
        (d1.cc.cursors p).hsurf = (d1.cc.cursors q).hsurf → p = q) ∧
      d1.cc.num_cursors = d1.cc.cursors_lru.length := by
  refine ⟨by rfl, fun r info d1 h => ?_⟩
  obtain ⟨a, _, _, b, _⟩ := (C37_cursor_cache_one_entry_per_surface exampleEnv
    exampleCursorConsts 5 (by decide) (by decide) (by decide) (by decide)).2.2.2 d1
    (CursorReachable.call _ d1 184 0 0 exampleSurf 0 r info
      (CursorReachable.init exampleCursorDev) (by decide) h)
  exact ⟨a, b⟩

/-! ### C33: the byte stream of a path -/

theorem readBytes_length (bytes : Int → Nat) (a : Int) (n : Nat) :
    (readBytes bytes a n).length = n := by
  simp [readBytes]

theorem readBytes_add (bytes : Int → Nat) (a : Int) (n m : Nat) :
    readBytes bytes a (n + m) = readBytes bytes a n ++ readBytes bytes (a + (n : Int)) m := by
  simp only [readBytes, List.range_add, List.map_append, List.map_map]
  congr 1
  apply List.map_congr_left
  intro i _
  simp only [Function.comp_apply]
  congr 1
  push_cast
  ring

/-- The inner loop of `__GetPathCommon` appends the `n` bytes at `pt_buf` to the
stream, splitting them at chunk boundaries, and adds `n` to the counter. -/
theorem GetPathCommon_points_stream (env : Env) (c0 n0 : Nat)
    (hfresh : ∀ k, n0 ≤ k → env.alloc k ≠ c0)
    (hinj : ∀ i j, n0 ≤ i → n0 ≤ j → env.alloc i = env.alloc j → i = j)
    (hpt : 0 < env.layout.sizeof_POINTFIX) :
    ∀ (fuel : Nat) (st : Encoder) (data_size : Nat) (pt_buf : Int) (n : Nat)
      (written : List Nat),
      ByteChain env c0 n0 st written → 0 < n → n ≤ fuel →
      ∃ st1, GetPathCommon.points env fuel st data_size pt_buf n =
          some (st1, (n + data_size) % UINT32_MOD) ∧
        ByteChain env c0 n0 st1 (written ++ readBytes env.bytes pt_buf n) := by
  intro fuel
  induction fuel with
  | zero => intro st ds pt n written _ h0 hf; omega
  | succ fuel ih =>
    intro st ds pt n written h h0 hf
    unfold GetPathCommon.points
    simp only []
    generalize hst1 : (if st.end_ = st.now then
        NEW_DATA_CHUNK env.main_slot env.alloc st
          (min n (env.layout.sizeof_POINTFIX * PATH_MAX_ALLOC_PONTS))
      else st) = st1
    have hle : st.now ≤ st.end_ := by
      obtain ⟨m, _, _, _, _, hle, _⟩ := h
      exact hle
    have hcap : 0 < min n (env.layout.sizeof_POINTFIX * PATH_MAX_ALLOC_PONTS) :=
      Nat.lt_min.mpr ⟨h0, Nat.mul_pos hpt (by decide)⟩
    have h1 : ByteChain env c0 n0 st1 written ∧ st1.now < st1.end_ := by
      rw [← hst1]
      by_cases he : st.end_ = st.now
      · rw [if_pos he]
        exact ⟨ByteChain_new env c0 n0 st written _ hfresh hinj h, hcap⟩
      · rw [if_neg he]
        exact ⟨h, by omega⟩
    obtain ⟨h1a, h1b⟩ := h1
    rw [if_neg (by omega)]
    have hcp1 : 0 < min (st1.end_ - st1.now) n := Nat.lt_min.mpr ⟨by omega, h0⟩
    have hcp2 : min (st1.end_ - st1.now) n ≤ st1.end_ - st1.now := Nat.min_le_left _ _
    have hcp3 : min (st1.end_ - st1.now) n ≤ n := Nat.min_le_right _ _
    generalize hcp : min (st1.end_ - st1.now) n = cp at hcp1 hcp2 hcp3 ⊢
    have h2 : ByteChain env c0 n0 (copyToChunk st1 (readBytes env.bytes pt cp) cp)
        (written ++ readBytes env.bytes pt cp) := by
      have := ByteChain_copy env c0 n0 st1 written (readBytes env.bytes pt cp) hfresh hinj
        (by rw [readBytes_length]; omega) h1a
      rw [readBytes_length] at this
      exact this
    by_cases hdone : n - cp = 0
    · rw [if_pos hdone]
      have : cp = n := by omega
      subst this
      exact ⟨_, rfl, h2⟩
    · rw [if_neg hdone]
      obtain ⟨st3, e1, e2⟩ := ih (copyToChunk st1 (readBytes env.bytes pt cp) cp)
        ((cp + ds) % UINT32_MOD) (pt + (cp : Int)) (n - cp) _ h2 (by omega) (by omega)
      refine ⟨st3, ?_, ?_⟩
      · rw [e1]
        congr 2
        rw [Nat.add_mod, Nat.mod_mod, ← Nat.add_mod]
        congr 1
        omega
      · rw [List.append_assoc, ← readBytes_add, show cp + (n - cp) = n by omega] at e2
        exact e2

/-- The header of a batch goes whole into one chunk: the current one when at
least `sizeof(PathSeg)` bytes remain, else a freshly linked one. -/
theorem GetPathCommon_header_whole (env : Env) (st : Encoder) (alloc : Nat) (hdr : List Nat)
    (hlen : hdr.length = env.layout.sizeof_PathSeg) (hal : env.layout.sizeof_PathSeg ≤ alloc)
    (hle : st.now ≤ st.end_) :
    (ensureRoom env st env.layout.sizeof_PathSeg alloc).now + env.layout.sizeof_PathSeg ≤
      (ensureRoom env st env.layout.sizeof_PathSeg alloc).end_ ∧
    (env.layout.sizeof_PathSeg ≤ st.end_ - st.now →
      ensureRoom env st env.layout.sizeof_PathSeg alloc = st) ∧
    (st.end_ - st.now < env.layout.sizeof_PathSeg →
      ensureRoom env st env.layout.sizeof_PathSeg alloc =
        NEW_DATA_CHUNK env.main_slot env.alloc st alloc) ∧
    (copyToChunk (ensureRoom env st env.layout.sizeof_PathSeg alloc) hdr
        env.layout.sizeof_PathSeg).chunk =
      (ensureRoom env st env.layout.sizeof_PathSeg alloc).chunk ∧
    dataSlice ((copyToChunk (ensureRoom env st env.layout.sizeof_PathSeg alloc) hdr
        env.layout.sizeof_PathSeg).mem (ensureRoom env st env.layout.sizeof_PathSeg alloc).chunk)
      (ensureRoom env st env.layout.sizeof_PathSeg alloc).now env.layout.sizeof_PathSeg = hdr := by
  have hroom : (ensureRoom env st env.layout.sizeof_PathSeg alloc).now +
      env.layout.sizeof_PathSeg ≤ (ensureRoom env st env.layout.sizeof_PathSeg alloc).end_ := by
    unfold ensureRoom
    by_cases hc : st.now ≤ st.end_ ∧ st.end_ - st.now < env.layout.sizeof_PathSeg
    · rw [if_pos hc]
      show 0 + _ ≤ alloc
      omega
    · rw [if_neg hc]
      have : ¬ st.end_ - st.now < env.layout.sizeof_PathSeg := fun h => hc ⟨hle, h⟩
      omega
  refine ⟨hroom, ?_, ?_, rfl, ?_⟩
  · intro h
    unfold ensureRoom
    rw [if_neg (by omega)]
  · intro h
    unfold ensureRoom
    rw [if_pos ⟨hle, h⟩]
  · generalize ensureRoom env st env.layout.sizeof_PathSeg alloc = st1
    have := dataSlice_eq_take ((copyToChunk st1 hdr env.layout.sizeof_PathSeg).mem st1.chunk)
      st1.now env.layout.sizeof_PathSeg hdr (by omega)
      (fun i hi => (copyToChunk_mem_self st1 hdr env.layout.sizeof_PathSeg).2.2.2.2 i hi)
    rw [← hlen, List.take_length] at this
    rw [← hlen]
    exact this

theorem pathSegBytes_length (env : Env) (data : PATHDATA) :
    (pathSegBytes env data).length = 8 + data.count * 8 := by
  simp only [pathSegBytes, List.length_append, bytesLE_length, readBytes_length]

/-- One pass of the loop of `__GetPathCommon` over `n` batches appends their
headers and points to the stream, in order. -/
theorem GetPathCommon_loop_stream (env : Env) (path : PATHOBJ) (c0 n0 : Nat)
    (hfresh : ∀ k, n0 ≤ k → env.alloc k ≠ c0)
    (hinj : ∀ i j, n0 ≤ i → n0 ≤ j → env.alloc i = env.alloc j → i = j)
    (hps : env.layout.sizeof_PathSeg = 8) (hpt : 0 < env.layout.sizeof_POINTFIX) :
    ∀ (n k fuel : Nat) (st : Encoder) (data_size : Nat) (written : List Nat),
      ByteChain env c0 n0 st written → n < fuel → data_size < UINT32_MOD →
      (∀ j, j < n → 0 < (path.bEnum (k + j)).2.count ∧
        (path.bEnum (k + j)).2.count < 268435456) →
      (∀ j, j + 1 < n → (path.bEnum (k + j)).1 ≠ 0) →
      ((path.bEnum (k + n)).2.count = 0 ∨ (0 < n ∧ (path.bEnum (k + n - 1)).1 = 0)) →
      ∃ st1, GetPathCommon.loop env path fuel k st data_size =
          some (st1, (data_size +
            ((GetPathCommon.batches path k n).flatMap (pathSegBytes env)).length) % UINT32_MOD) ∧
        ByteChain env c0 n0 st1
          (written ++ (GetPathCommon.batches path k n).flatMap (pathSegBytes env)) := by
  intro n
  induction n with
  | zero =>
    intro k fuel st ds written h hf hds _ _ hend
    obtain ⟨f, rfl⟩ : ∃ f, fuel = f + 1 := ⟨fuel - 1, by omega⟩
    have hc : (path.bEnum k).2.count = 0 := by
      rcases hend with h1 | ⟨h1, _⟩
      · simpa using h1
      · omega
    refine ⟨st, ?_, ?_⟩
    · rw [GetPathCommon.loop, if_pos hc]
      simp [GetPathCommon.batches, Nat.mod_eq_of_lt hds]
    · simpa [GetPathCommon.batches] using h
  | succ n ih =>
    intro k fuel st ds written h hf hds hcount hmore hend
    obtain ⟨f, rfl⟩ : ∃ f, fuel = f + 1 := ⟨fuel - 1, by omega⟩
    have hc0 := hcount 0 (by omega)
    rw [Nat.add_zero] at hc0
    have hbatches : GetPathCommon.batches path k (n + 1) =
        (path.bEnum k).2 :: GetPathCommon.batches path (k + 1) n := by
      unfold GetPathCommon.batches
      rw [List.range_succ_eq_map, List.map_cons, List.map_map, Nat.add_zero]
      congr 1
      apply List.map_congr_left
      intro j _
      show (path.bEnum (k + (j + 1))).2 = (path.bEnum (k + 1 + j)).2
      rw [show k + (j + 1) = k + 1 + j by omega]
    have hshift : ((path.bEnum k).2.count <<< 3) % UINT32_MOD = (path.bEnum k).2.count * 8 := by
      rw [Nat.shiftLeft_eq]
      exact Nat.mod_eq_of_lt (by show _ < 4294967296; omega)
    rw [GetPathCommon.loop, if_neg (by omega)]
    simp only []
    rw [hshift, hps]
    -- the header
    have hhdr : (bytesLE 4 (path.bEnum k).2.flags ++ bytesLE 4 (path.bEnum k).2.count).length =
        8 := by simp [bytesLE_length]
    have h1 := ByteChain_put env c0 n0 st written
      (bytesLE 4 (path.bEnum k).2.flags ++ bytesLE 4 (path.bEnum k).2.count)
      (min ((path.bEnum k).2.count * 8) (env.layout.sizeof_POINTFIX * PATH_MAX_ALLOC_PONTS) + 8)
      hfresh hinj (by rw [hhdr]; omega) h
    rw [hhdr] at h1
    -- the points
    obtain ⟨st3, e1, e2⟩ := GetPathCommon_points_stream env c0 n0 hfresh hinj hpt
      ((path.bEnum k).2.count * 8 + 1) _ ((8 + ds) % UINT32_MOD)
      (path.bEnum k).2.pptfx ((path.bEnum k).2.count * 8) _ h1 (by omega) (by omega)
    rw [e1]
    simp only []
    have hlen1 : ((path.bEnum k).2.count * 8 + (8 + ds) % UINT32_MOD)
        % UINT32_MOD = (ds + (pathSegBytes env (path.bEnum k).2).length) % UINT32_MOD := by
      rw [pathSegBytes_length, Nat.add_mod, Nat.mod_mod, ← Nat.add_mod]
      congr 1
      omega
    have hstream : written ++
        (bytesLE 4 (path.bEnum k).2.flags ++ bytesLE 4 (path.bEnum k).2.count) ++
        readBytes env.bytes (path.bEnum k).2.pptfx ((path.bEnum k).2.count * 8) =
        written ++ pathSegBytes env (path.bEnum k).2 := by
      unfold pathSegBytes
      simp only [List.append_assoc]
    rw [hstream] at e2
    by_cases hm : (path.bEnum k).1 ≠ 0
    · rw [if_pos hm]
      obtain ⟨st4, g1, g2⟩ := ih (k + 1) f st3 _ _ e2 (by omega) (Nat.mod_lt _ (by decide))
        (fun j hj => by
          have := hcount (j + 1) (by omega)
          rw [show k + (j + 1) = k + 1 + j by omega] at this
          exact this)
        (fun j hj => by
          have := hmore (j + 1) (by omega)
          rw [show k + (j + 1) = k + 1 + j by omega] at this
          exact this)
        (by
          rcases hend with h1 | ⟨_, h1⟩
          · left
            rw [show k + 1 + n = k + (n + 1) by omega]
            exact h1
          · by_cases hn : n = 0
            · subst hn
              exact absurd (by simpa using h1) hm
            · right
              refine ⟨by omega, ?_⟩
              rw [show k + 1 + n - 1 = k + (n + 1) - 1 by omega]
              exact h1)
      refine ⟨st4, ?_, ?_⟩
      · rw [g1, hbatches, List.flatMap_cons, List.length_append, hlen1]
        congr 2
        rw [Nat.add_mod, Nat.mod_mod, ← Nat.add_mod]
        congr 1
        omega
      · rw [hbatches, List.flatMap_cons, ← List.append_assoc]
        exact g2
    · rw [if_neg hm]
      have hn : n = 0 := by
        by_contra hne
        exact hm (by
          have := hmore 0 (by omega)
          rw [Nat.add_zero] at this
          exact this)
      subst hn
      refine ⟨st3, ?_, ?_⟩
      · rw [hbatches, hlen1]
        simp [GetPathCommon.batches]
      · rw [hbatches]
        simpa [GetPathCommon.batches] using e2

/-- C33. For a path whose enumerator delivers `n` batches with `0 < count < 2^28`
and then ends (batch `n - 1` returns `more = FALSE`, or batch `n` has `count = 0`),
`__GetPathCommon` returns, and the concatenation of `data[:data_size]` over the
chunk chain grows by exactly the batches in order, each a `PathSeg` header
(`flags`, `count`) followed by its `count * 8` bytes of points; the counter
`*data_size` grows by the number of bytes appended (as a `UINT32`). A header is
written whole into one chunk: the current one when `sizeof(PathSeg)` bytes
remain, else a freshly linked chunk with room for it; the points are copied
piecewise and may be split at chunk boundaries. `__GetPath` starts the stream
on the empty embedded chunk and stores the byte count in `qxl_path->data_size`. -/
theorem C33_GetPathCommon_stream (env : Env) (path : PATHOBJ) (c0 n0 n fuel : Nat)
    (st : Encoder) (data_size : Nat) (written : List Nat)
    (hfresh : ∀ k, n0 ≤ k → env.alloc k ≠ c0)
    (hinj : ∀ i j, n0 ≤ i → n0 ≤ j → env.alloc i = env.alloc j → i = j)
    (hps : env.layout.sizeof_PathSeg = 8) (hpt : 0 < env.layout.sizeof_POINTFIX)
    (hchain : ByteChain env c0 n0 st written) (hfuel : n < fuel)
    (hds : data_size < 4294967296)
    (hcount : ∀ j, j < n → 0 < (path.bEnum j).2.count ∧ (path.bEnum j).2.count < 268435456)
    (hmore : ∀ j, j + 1 < n → (path.bEnum j).1 ≠ 0)
    (hend : (path.bEnum n).2.count = 0 ∨ (0 < n ∧ (path.bEnum (n - 1)).1 = 0)) :
    (∃ st1, GetPathCommon.loop env path fuel 0 st data_size =
        some (st1, (data_size +
          ((GetPathCommon.batches path 0 n).flatMap (pathSegBytes env)).length) % 4294967296) ∧
      ByteChain env c0 n0 st1
        (written ++ (GetPathCommon.batches path 0 n).flatMap (pathSegBytes env))) ∧
    (∀ (f k : Nat) (st0 : Encoder) (ds : Nat), (path.bEnum k).2.count ≠ 0 →
      GetPathCommon.loop env path (f + 1) k st0 ds =
        match GetPathCommon.points env (((path.bEnum k).2.count <<< 3) % 4294967296 + 1)
            (copyToChunk
              (ensureRoom env st0 env.layout.sizeof_PathSeg
                (min (((path.bEnum k).2.count <<< 3) % 4294967296)
                  (env.layout.sizeof_POINTFIX * 128) + env.layout.sizeof_PathSeg))
              (bytesLE 4 (path.bEnum k).2.flags ++ bytesLE 4 (path.bEnum k).2.count)
              env.layout.sizeof_PathSeg)
            ((env.layout.sizeof_PathSeg + ds) % 4294967296) (path.bEnum k).2.pptfx
            (((path.bEnum k).2.count <<< 3) % 4294967296) with
        | none => none
        | some (st3, data_size3) =>
          if (path.bEnum k).1 ≠ 0 then GetPathCommon.loop env path f (k + 1) st3 data_size3
          else some (st3, data_size3)) ∧
    (∀ (st0 : Encoder) (alloc : Nat) (hdr : List Nat),
      hdr.length = env.layout.sizeof_PathSeg → env.layout.sizeof_PathSeg ≤ alloc →
      st0.now ≤ st0.end_ →
      (ensureRoom env st0 env.layout.sizeof_PathSeg alloc).now + env.layout.sizeof_PathSeg ≤
        (ensureRoom env st0 env.layout.sizeof_PathSeg alloc).end_ ∧
      (env.layout.sizeof_PathSeg ≤ st0.end_ - st0.now →
        ensureRoom env st0 env.layout.sizeof_PathSeg alloc = st0) ∧
      (st0.end_ - st0.now < env.layout.sizeof_PathSeg →
        ensureRoom env st0 env.layout.sizeof_PathSeg alloc =
          NEW_DATA_CHUNK env.main_slot env.alloc st0 alloc) ∧
      (copyToChunk (ensureRoom env st0 env.layout.sizeof_PathSeg alloc) hdr
          env.layout.sizeof_PathSeg).chunk =
        (ensureRoom env st0 env.layout.sizeof_PathSeg alloc).chunk ∧
      dataSlice ((copyToChunk (ensureRoom env st0 env.layout.sizeof_PathSeg alloc) hdr
          env.layout.sizeof_PathSeg).mem
            (ensureRoom env st0 env.layout.sizeof_PathSeg alloc).chunk)
        (ensureRoom env st0 env.layout.sizeof_PathSeg alloc).now env.layout.sizeof_PathSeg =
          hdr) ∧
    (∀ (s : PDev) (res : Nat) (s1 : PDev), AllocMem.done env s = some (res, s1) →
      (∀ k, s1.nalloc ≤ k →
        env.alloc k ≠ res + env.layout.sizeof_Resource + env.layout.off_path_chunk) →
      (∀ i j, s1.nalloc ≤ i → s1.nalloc ≤ j → env.alloc i = env.alloc j → i = j) →
      ∃ s2 m, GetPath env fuel s path = some (res, s2) ∧
        s2.paths (res + env.layout.sizeof_Resource) =
          ((GetPathCommon.batches path 0 n).flatMap (pathSegBytes env)).length % 4294967296 ∧
        Linked env.main_slot s2.chunks
          (res + env.layout.sizeof_Resource + env.layout.off_path_chunk)
          (allocated env.alloc s1.nalloc m) ∧
        ((res + env.layout.sizeof_Resource + env.layout.off_path_chunk) ::
            allocated env.alloc s1.nalloc m).flatMap (fun a => chunkData (s2.chunks a)) =
          (GetPathCommon.batches path 0 n).flatMap (pathSegBytes env)) := by
  refine ⟨?_, ?_, ?_, ?_⟩
  · have := GetPathCommon_loop_stream env path c0 n0 hfresh hinj hps hpt n 0 fuel st data_size
      written hchain hfuel hds
      (fun j hj => by rw [Nat.zero_add]; exact hcount j hj)
      (fun j hj => by rw [Nat.zero_add]; exact hmore j hj)
      (by simpa using hend)
    exact this
  · intro f k st0 ds hc
    rw [GetPathCommon.loop, if_neg hc]
  · intro st0 alloc hdr hlen hal hle
    exact GetPathCommon_header_whole env st0 alloc hdr hlen hal hle
  · intro s res s1 ha hfr hin
    have hinit : ByteChain env (res + env.layout.sizeof_Resource + env.layout.off_path_chunk)
        s1.nalloc
        { mem := fun a =>
            if a = res + env.layout.sizeof_Resource + env.layout.off_path_chunk then
              { s1.chunks a with data_size := 0, prev_chunk := 0, next_chunk := 0 }
            else s1.chunks a
          chunk := res + env.layout.sizeof_Resource + env.layout.off_path_chunk
          now := 0
          end_ := (res + PATH_ALLOC_SIZE env.layout) -
            (res + env.layout.sizeof_Resource + env.layout.off_path_chunk +
              env.layout.sizeof_QXLDataChunk)
          nalloc := s1.nalloc } [] := by
      refine ⟨0, rfl, rfl, trivial, by simp, Nat.zero_le _, ?_⟩
      simp [allocated, chunkData, dataSlice]
    obtain ⟨st1, e1, e2⟩ := GetPathCommon_loop_stream env path _ s1.nalloc hfr hin hps hpt n 0
      fuel _ 0 [] hinit hfuel (by decide)
      (fun j hj => by rw [Nat.zero_add]; exact hcount j hj)
      (fun j hj => by rw [Nat.zero_add]; exact hmore j hj)
      (by simpa using hend)
    obtain ⟨m, hn, _, hl, _, _, hw⟩ := e2
    refine ⟨{ s1 with
        heap := { s1.heap with
          mem := fun a =>
            if a = res then { refs := 1, free := FreeFn.FreePath } else s1.heap.mem a }
        paths := fun a =>
          if a = res + env.layout.sizeof_Resource then
            (0 + ((GetPathCommon.batches path 0 n).flatMap (pathSegBytes env)).length) %
              UINT32_MOD
          else s1.paths a
        chunks := st1.mem
        nalloc := st1.nalloc }, m, ?_, ?_, hl, ?_⟩
    · unfold GetPath
      rw [ha]
      simp only []
      rw [e1]
    · simp
    · simpa using hw

/-- The stream of C33 for the example path (2 points, then 30 points) written
from the start of a chunk with room for 100 bytes: the call returns with 272
bytes counted, the points of the second batch being split over two chunks. -/
theorem C33_GetPathCommon_stream_witness :
    ((GetPathCommon.batches twoBatchPath 0 2).flatMap (pathSegBytes exampleEnv)).length = 272 ∧
    ∃ st1, GetPathCommon.loop exampleEnv twoBatchPath 3 0 exampleStrEnc.enc 0 =
        some (st1, (0 +
          ((GetPathCommon.batches twoBatchPath 0 2).flatMap (pathSegBytes exampleEnv)).length) %
            4294967296) ∧
      ByteChain exampleEnv 4200 0 st1
        ([] ++ (GetPathCommon.batches twoBatchPath 0 2).flatMap (pathSegBytes exampleEnv)) := by
  have hinv : ByteChain exampleEnv 4200 0 exampleStrEnc.enc [] :=
    ⟨0, rfl, rfl, trivial, rfl, by decide, rfl⟩
  refine ⟨by simp [GetPathCommon.batches, List.range_succ, pathSegBytes_length, twoBatchPath], ?_⟩
  exact (C33_GetPathCommon_stream exampleEnv twoBatchPath 4200 0 2 3 exampleStrEnc.enc 0 []
    (by intro k _; show exampleAlloc k ≠ 4200; unfold exampleAlloc; omega)
    (by intro i j _ _ e; have e1 : exampleAlloc i = exampleAlloc j := e
        unfold exampleAlloc at e1; omega)
    rfl (by decide) hinv (by decide) (by decide)
    (fun j hj => by
      have : j = 0 ∨ j = 1 := by omega
      rcases this with rfl | rfl <;> decide)
    (fun j hj => by
      have : j = 0 := by omega
      subst this
      decide)
    (Or.inr ⟨by decide, by decide⟩)).1

/-! ### C35: the list of clip rectangles -/

theorem rectBytes_length (r : Rect) : (rectBytes r).length = 16 := by
  simp [rectBytes, bytesLE_length]

theorem allocated_getLastD_succ (alloc : Nat → Nat) (k m c0 : Nat) :
    (allocated alloc k (m + 1)).getLastD c0 = alloc (k + m) := by
  rw [allocated_snoc, List.getLastD_concat]

/-- One rectangle keeps the invariant of the rectangle loop. -/
theorem RectsInv_rect (env : Env) (c0 n0 : Nat) (st : Encoder) (rs : List Rect) (r : Rect)
    (hfresh : ∀ k, n0 ≤ k → env.alloc k ≠ c0)
    (hinj : ∀ i j, n0 ≤ i → n0 ≤ j → env.alloc i = env.alloc j → i = j)
    (hsz : env.layout.sizeof_Rect = 16)
    (h : RectsInv env c0 n0 st rs) :
    RectsInv env c0 n0 (GetClipRects.rect env st r) (rs ++ [r]) := by
  obtain ⟨hbc, hprops⟩ := h
  have hbc0 := hbc
  obtain ⟨m, hn, hchunk, _, hds, hle, _⟩ := hbc0
  obtain ⟨p1, p2, p3, p4, p5⟩ := hprops m hn
  have hstream : (rs ++ [r]).flatMap rectBytes = rs.flatMap rectBytes ++ rectBytes r := by
    simp
  have hlen := rectBytes_length r
  unfold GetClipRects.rect RectsInv
  rw [hsz, hstream]
  by_cases hfull : st.now = st.end_
  · rw [if_pos hfull]
    have hnew := ByteChain_new env c0 n0 st (rs.flatMap rectBytes) (16 * RECTS_NUM_ALLOC) hfresh
      hinj hbc
    have hcopy := ByteChain_copy env c0 n0 _ (rs.flatMap rectBytes) (rectBytes r) hfresh hinj
      (by
        rw [hlen]
        show 0 + 16 ≤ 16 * RECTS_NUM_ALLOC
        decide) hnew
    rw [hlen] at hcopy
    refine ⟨hcopy, ?_⟩
    intro m' hm'
    have hm1 : m' = m + 1 := by
      have : st.nalloc + 1 = n0 + m' := hm'
      omega
    subst hm1
    have hnewchunk : (NEW_DATA_CHUNK env.main_slot env.alloc st (16 * RECTS_NUM_ALLOC)).chunk =
        env.alloc (n0 + m) := by
      show env.alloc st.nalloc = _
      rw [hn]
    have hother : ∀ a, a ≠ env.alloc (n0 + m) →
        ((copyToChunk (NEW_DATA_CHUNK env.main_slot env.alloc st (16 * RECTS_NUM_ALLOC))
          (rectBytes r) 16).mem a).data_size =
        ((NEW_DATA_CHUNK env.main_slot env.alloc st (16 * RECTS_NUM_ALLOC)).mem a).data_size := by
      intro a ha
      rw [copyToChunk_mem_other _ _ _ _ (by rw [hnewchunk]; exact ha)]
    have hcur : ((NEW_DATA_CHUNK env.main_slot env.alloc st (16 * RECTS_NUM_ALLOC)).mem
        st.chunk).data_size = st.end_ := by
      have hne : env.alloc st.nalloc ≠ st.chunk := by
        rw [hchunk, hn]
        cases m with
        | zero => exact hfresh _ (by omega)
        | succ k =>
          rw [allocated_getLastD_succ]
          intro e
          have := hinj _ _ (by omega) (by omega) e
          omega
      rw [(NEW_DATA_CHUNK_mem_old _ _ _ _ hne).1, hds, hfull]
    refine ⟨fun _ => ?_, fun i hi => ?_, ?_, ?_, fun _ => ?_⟩
    · rw [hother c0 (fun e => hfresh _ (by omega) e.symm)]
      by_cases hm0 : m = 0
      · subst hm0
        have hc0 : st.chunk = c0 := by simpa [allocated] using hchunk
        rw [← hc0, hcur, p3]
        simp
      · have hc0 : c0 ≠ st.chunk := by
          rw [hchunk]
          obtain ⟨k, rfl⟩ : ∃ k, m = k + 1 := ⟨m - 1, by omega⟩
          rw [allocated_getLastD_succ]
          exact fun e => hfresh _ (by omega) e.symm
        rw [NEW_DATA_CHUNK_mem_other _ _ _ _ _ hc0
          (by rw [hn]; exact fun e => hfresh _ (by omega) e.symm)]
        exact p1 (by omega)
    · rw [hother _ (fun e => by
        have := hinj _ _ (by omega) (by omega) e
        omega)]
      obtain ⟨k, rfl⟩ : ∃ k, m = k + 1 := ⟨m - 1, by omega⟩
      have hck : st.chunk = env.alloc (n0 + k) := by
        rw [hchunk, allocated_getLastD_succ]
      by_cases hik : i = k
      · subst hik
        rw [← hck, hcur, p3]
        simp
      · rw [NEW_DATA_CHUNK_mem_other _ _ _ _ _
          (by
            rw [hck]
            intro e
            have := hinj _ _ (by omega) (by omega) e
            omega)
          (by
            rw [hn]
            intro e
            have := hinj _ _ (by omega) (by omega) e
            omega)]
        exact p2 i (by omega)
    · show 16 * RECTS_NUM_ALLOC = _
      simp
    · show 16 ∣ 0 + 16
      decide
    · show 0 < 0 + 16
      decide
  · rw [if_neg hfull]
    have hroom : st.now + 16 ≤ st.end_ := by
      have hdvd : 16 ∣ st.end_ := by
        rw [p3]
        split <;> decide
      obtain ⟨a, ha⟩ := p4
      obtain ⟨b, hb⟩ := hdvd
      omega
    have hcopy := ByteChain_copy env c0 n0 st (rs.flatMap rectBytes) (rectBytes r) hfresh hinj
      (by rw [hlen]; exact hroom) hbc
    rw [hlen] at hcopy
    refine ⟨hcopy, ?_⟩
    intro m' hm'
    have hm1 : m' = m := by
      have : st.nalloc = n0 + m' := hm'
      omega
    subst hm1
    refine ⟨fun hm0 => ?_, fun i hi => ?_, p3, ?_, fun _ => ?_⟩
    · obtain ⟨k, rfl⟩ : ∃ k, m' = k + 1 := ⟨m' - 1, by omega⟩
      have hck : st.chunk = env.alloc (n0 + k) := by
        rw [hchunk, allocated_getLastD_succ]
      rw [copyToChunk_mem_other _ _ _ _ (by rw [hck]; exact fun e => hfresh _ (by omega) e.symm)]
      exact p1 hm0
    · obtain ⟨k, rfl⟩ : ∃ k, m' = k + 1 := ⟨m' - 1, by omega⟩
      have hck : st.chunk = env.alloc (n0 + k) := by
        rw [hchunk, allocated_getLastD_succ]
      rw [copyToChunk_mem_other _ _ _ _ (by
        rw [hck]
        intro e
        have := hinj _ _ (by omega) (by omega) e
        omega)]
      exact p2 i hi
    · show 16 ∣ st.now + 16
      exact Nat.dvd_add p4 (by decide)
    · show 0 < st.now + 16
      omega

/-- A batch of rectangles keeps the invariant of the rectangle loop. -/
theorem RectsInv_fold (env : Env) (c0 n0 : Nat)
    (hfresh : ∀ k, n0 ≤ k → env.alloc k ≠ c0)
    (hinj : ∀ i j, n0 ≤ i → n0 ≤ j → env.alloc i = env.alloc j → i = j)
    (hsz : env.layout.sizeof_Rect = 16) :
    ∀ (batch : List Rect) (st : Encoder) (rs : List Rect), RectsInv env c0 n0 st rs →
      RectsInv env c0 n0 (batch.foldl (GetClipRects.rect env) st) (rs ++ batch) := by
  intro batch
  induction batch with
  | nil =>
    intro st rs h
    simpa using h
  | cons r rest ih =>
    intro st rs h
    have := ih _ _ (RectsInv_rect env c0 n0 st rs r hfresh hinj hsz h)
    rw [List.append_assoc] at this
    exact this

/-- The loop of `GetClipRects` on an enumerator that ends with batch `k + n`
is one pass over the rectangles of the batches `k` to `k + n`. -/
theorem GetClipRects_loop_batches (env : Env) (clip : CLIPOBJ) :
    ∀ (n k fuel : Nat) (st : Encoder) (num_rects : Nat), n < fuel →
      (∀ j, j < n → (clip.bEnum (k + j)).1 ≠ 0) → (clip.bEnum (k + n)).1 = 0 →
      GetClipRects.loop env clip fuel k st num_rects =
        some ((GetClipRects.rects clip k n).foldl (GetClipRects.rect env) st,
          ((GetClipRects.rects clip k n).length + num_rects) % UINT32_MOD) := by
  intro n
  induction n with
  | zero =>
    intro k fuel st nr hf _ hlast
    obtain ⟨f, rfl⟩ : ∃ f, fuel = f + 1 := ⟨fuel - 1, by omega⟩
    rw [Nat.add_zero] at hlast
    rw [GetClipRects.loop, if_neg (by simpa using hlast)]
    have e : GetClipRects.rects clip k 0 = (clip.bEnum k).2 := by
      unfold GetClipRects.rects
      rw [show List.range (0 + 1) = [0] from rfl]
      simp
    rw [e]
  | succ n ih =>
    intro k fuel st nr hf hmore hlast
    obtain ⟨f, rfl⟩ : ∃ f, fuel = f + 1 := ⟨fuel - 1, by omega⟩
    have h0 := hmore 0 (by omega)
    rw [Nat.add_zero] at h0
    have hrects : GetClipRects.rects clip k (n + 1) =
        (clip.bEnum k).2 ++ GetClipRects.rects clip (k + 1) n := by
      unfold GetClipRects.rects
      rw [List.range_succ_eq_map (n + 1), List.flatMap_cons, List.flatMap_map, Nat.add_zero]
      congr 1
      apply List.flatMap_congr
      intro j _
      show (clip.bEnum (k + (j + 1))).2 = (clip.bEnum (k + 1 + j)).2
      rw [show k + (j + 1) = k + 1 + j by omega]
    rw [GetClipRects.loop, if_pos h0]
    rw [ih (k + 1) f _ _ (by omega)
      (fun j hj => by
        have := hmore (j + 1) (by omega)
        rw [show k + (j + 1) = k + 1 + j by omega] at this
        exact this)
      (by rw [show k + 1 + n = k + (n + 1) by omega]; exact hlast)]
    rw [hrects, List.foldl_append, List.length_append]
    congr 2
    rw [Nat.add_mod, Nat.mod_mod, ← Nat.add_mod]
    congr 1
    omega

/-- C35. For a clip whose enumerator delivers the batches 0 to `n` and then
ends, `GetClipRects` returns; `num_rects` is the total number of rectangles
enumerated (as a `UINT32`); the concatenation of `data[:data_size]` over the
chunk chain is exactly those rectangles in enumeration order, 16 bytes each;
the embedded first chunk holds at most 8 rectangles and every continuation
chunk between 1 and 20; every chunk but the last is full (8 in the first, 20 in
a continuation chunk), so a chunk is linked only when the current one is full;
and the chunks' `data_size` add up to 16 times the number of rectangles. -/
theorem C35_GetClipRects_stream (env : Env) (clip : CLIPOBJ) (fuel n : Nat) (s s1 : PDev)
    (res : Nat) (hsz : env.layout.sizeof_Rect = 16)
    (halloc : AllocMem.done env s = some (res, s1))
    (hfresh : ∀ k, s1.nalloc ≤ k →
      env.alloc k ≠ res + env.layout.sizeof_Resource + env.layout.off_rects_chunk)
    (hinj : ∀ i j, s1.nalloc ≤ i → s1.nalloc ≤ j → env.alloc i = env.alloc j → i = j)
    (hfuel : n < fuel) (hmore : ∀ j, j < n → (clip.bEnum j).1 ≠ 0)
    (hlast : (clip.bEnum n).1 = 0) :
    ∃ s2 m, GetClipRects env fuel s clip = some (res, s2) ∧
      s2.cliprects (res + env.layout.sizeof_Resource) =
        (GetClipRects.rects clip 0 n).length % 4294967296 ∧
      s2.nalloc = s1.nalloc + m ∧
      Linked env.main_slot s2.chunks
        (res + env.layout.sizeof_Resource + env.layout.off_rects_chunk)
        (allocated env.alloc s1.nalloc m) ∧
      ((res + env.layout.sizeof_Resource + env.layout.off_rects_chunk) ::
          allocated env.alloc s1.nalloc m).flatMap (fun a => chunkData (s2.chunks a)) =
        (GetClipRects.rects clip 0 n).flatMap rectBytes ∧
      ((s2.chunks (res + env.layout.sizeof_Resource + env.layout.off_rects_chunk)).data_size ≤
          16 * RECTS_NUM_PREALLOC ∧
        16 ∣ (s2.chunks
          (res + env.layout.sizeof_Resource + env.layout.off_rects_chunk)).data_size) ∧
      (∀ i, i < m → 0 < (s2.chunks (env.alloc (s1.nalloc + i))).data_size ∧
        (s2.chunks (env.alloc (s1.nalloc + i))).data_size ≤ 16 * RECTS_NUM_ALLOC ∧
        16 ∣ (s2.chunks (env.alloc (s1.nalloc + i))).data_size) ∧
      (0 < m →
        (s2.chunks (res + env.layout.sizeof_Resource + env.layout.off_rects_chunk)).data_size =
          16 * RECTS_NUM_PREALLOC) ∧
      (∀ i, i + 1 < m →
        (s2.chunks (env.alloc (s1.nalloc + i))).data_size = 16 * RECTS_NUM_ALLOC) ∧
      (((res + env.layout.sizeof_Resource + env.layout.off_rects_chunk) ::
          allocated env.alloc s1.nalloc m).map (fun a => (s2.chunks a).data_size)).sum =
        16 * (GetClipRects.rects clip 0 n).length := by
  generalize hc0 : res + env.layout.sizeof_Resource + env.layout.off_rects_chunk = c0 at hfresh ⊢
  have hend : env.layout.sizeof_Rect *
      ((RECTS_ALLOC_SIZE env.layout - env.layout.sizeof_Resource -
        env.layout.sizeof_QXLClipRects) >>> 4) = 16 * RECTS_NUM_PREALLOC := by
    unfold RECTS_ALLOC_SIZE
    rw [hsz, show env.layout.sizeof_Resource + env.layout.sizeof_QXLClipRects +
      16 * RECTS_NUM_PREALLOC - env.layout.sizeof_Resource - env.layout.sizeof_QXLClipRects =
      16 * RECTS_NUM_PREALLOC by omega]
    decide
  have hinit : RectsInv env c0 s1.nalloc
      { mem := fun a =>
          if a = c0 then { s1.chunks a with data_size := 0, prev_chunk := 0, next_chunk := 0 }
          else s1.chunks a
        chunk := c0
        now := 0
        end_ := env.layout.sizeof_Rect *
          ((RECTS_ALLOC_SIZE env.layout - env.layout.sizeof_Resource -
            env.layout.sizeof_QXLClipRects) >>> 4)
        nalloc := s1.nalloc } [] := by
    refine ⟨⟨0, rfl, rfl, trivial, by simp, Nat.zero_le _, ?_⟩, ?_⟩
    · simp [allocated, chunkData, dataSlice]
    · intro m hm
      have hm0 : m = 0 := by
        have : s1.nalloc = s1.nalloc + m := hm
        omega
      subst hm0
      refine ⟨fun h => absurd h (by decide), fun i hi => absurd hi (by omega), ?_, ?_, ?_⟩
      · rw [if_pos rfl]
        exact hend
      · exact Nat.dvd_zero _
      · intro h
        exact absurd h (by decide)
  have hloop := GetClipRects_loop_batches env clip n 0 fuel
    { mem := fun a =>
        if a = c0 then { s1.chunks a with data_size := 0, prev_chunk := 0, next_chunk := 0 }
        else s1.chunks a
      chunk := c0
      now := 0
      end_ := env.layout.sizeof_Rect *
        ((RECTS_ALLOC_SIZE env.layout - env.layout.sizeof_Resource -
          env.layout.sizeof_QXLClipRects) >>> 4)
      nalloc := s1.nalloc } 0 hfuel
    (fun j hj => by rw [Nat.zero_add]; exact hmore j hj) (by simpa using hlast)
  have hfin := RectsInv_fold env c0 s1.nalloc hfresh hinj hsz (GetClipRects.rects clip 0 n) _ []
    hinit
  rw [List.nil_append] at hfin
  generalize (GetClipRects.rects clip 0 n).foldl (GetClipRects.rect env) _ = st at hloop hfin
  obtain ⟨hbc, hprops⟩ := hfin
  obtain ⟨m, hn, hchunk, hl, hds, hle, hw⟩ := hbc
  obtain ⟨p1, p2, p3, p4, p5⟩ := hprops m hn
  have hlast_chunk : ∀ k, m = k + 1 → st.chunk = env.alloc (s1.nalloc + k) := by
    intro k hk
    rw [hchunk, hk, allocated_getLastD_succ]
  refine ⟨{ s1 with
      heap := { s1.heap with
        mem := fun a =>
          if a = res then { refs := 1, free := FreeFn.FreeClipRects } else s1.heap.mem a }
      cliprects := fun a =>
        if a = res + env.layout.sizeof_Resource then
          ((GetClipRects.rects clip 0 n).length + 0) % UINT32_MOD
        else s1.cliprects a
      chunks := st.mem
      nalloc := st.nalloc }, m, ?_, ?_, hn, hl, hw, ?_, ?_, p1, p2, ?_⟩
  · unfold GetClipRects
    rw [halloc]
    simp only []
    rw [hc0, hloop]
  · simp
  · show (st.mem c0).data_size ≤ _ ∧ 16 ∣ (st.mem c0).data_size
    by_cases hm0 : m = 0
    · subst hm0
      have hc : st.chunk = c0 := by simpa [allocated] using hchunk
      rw [← hc, hds]
      rw [if_pos rfl] at p3
      exact ⟨by omega, p4⟩
    · rw [p1 (by omega)]
      exact ⟨Nat.le_refl _, by decide⟩
  · intro i hi
    show 0 < (st.mem _).data_size ∧ (st.mem _).data_size ≤ _ ∧ 16 ∣ (st.mem _).data_size
    by_cases hil : i + 1 < m
    · rw [p2 i hil]
      exact ⟨by decide, Nat.le_refl _, by decide⟩
    · have hk : m = i + 1 := by omega
      rw [← hlast_chunk i hk, hds]
      rw [if_neg (by omega)] at p3
      exact ⟨p5 (by omega), by omega, p4⟩
  · show ((c0 :: allocated env.alloc s1.nalloc m).map (fun a => (st.mem a).data_size)).sum = _
    rw [← flatMap_chunkData_length, hw, List.length_flatMap]
    have : (List.map (List.length ∘ rectBytes) (GetClipRects.rects clip 0 n)) =
        List.replicate (GetClipRects.rects clip 0 n).length 16 := by
      rw [List.eq_replicate_iff]
      refine ⟨by simp, ?_⟩
      intro b hb
      obtain ⟨r, _, hr⟩ := List.mem_map.mp hb
      rw [← hr]
      exact rectBytes_length r
    rw [this, List.sum_replicate]
    simp [Nat.mul_comm]

/-- The encoding of C35 for the example clip of 30 rectangles in two batches:
`num_rects` is 30 and the chunks' `data_size` add up to 480 bytes. -/
theorem C35_GetClipRects_stream_witness :
    (GetClipRects.rects thirtyRectClip 0 1).length = 30 ∧
    ∃ s2 m, GetClipRects exampleEnv 2 examplePDev thirtyRectClip = some (8192, s2) ∧
      s2.cliprects (8192 + exampleEnv.layout.sizeof_Resource) =
        (GetClipRects.rects thirtyRectClip 0 1).length % 4294967296 ∧
      ((8192 + exampleEnv.layout.sizeof_Resource + exampleEnv.layout.off_rects_chunk) ::
          allocated exampleEnv.alloc 1 m).flatMap (fun a => chunkData (s2.chunks a)) =
        (GetClipRects.rects thirtyRectClip 0 1).flatMap rectBytes ∧
      (((8192 + exampleEnv.layout.sizeof_Resource + exampleEnv.layout.off_rects_chunk) ::
          allocated exampleEnv.alloc 1 m).map (fun a => (s2.chunks a).data_size)).sum =
        16 * (GetClipRects.rects thirtyRectClip 0 1).length := by
  refine ⟨by decide, ?_⟩
  obtain ⟨s2, m, a1, a2, _, _, a5, _, _, _, _, a10⟩ :=
    C35_GetClipRects_stream exampleEnv thirtyRectClip 2 1 examplePDev
      { examplePDev with nalloc := 1 } 8192 rfl (by rfl)
      (by
        intro k _
        show exampleAlloc k ≠ 8192 + 16 + 4
        unfold exampleAlloc
        omega)
      (by intro i j _ _ e; have e1 : exampleAlloc i = exampleAlloc j := e
          unfold exampleAlloc at e1; omega)
      (by decide)
      (fun j hj => by
        have : j = 0 := by omega
        subst this
        decide)
      (by decide)
  exact ⟨s2, m, a1, a2, a5, a10⟩

/-! ### C32: the payload of a cursor -/

theorem copyToChunk_take (st : Encoder) (src : List Nat) (cp : Nat) :
    copyToChunk st src cp = copyToChunk st (src.take cp) cp := by
  unfold copyToChunk
  congr 1
  funext a
  by_cases ha : a = st.chunk
  · rw [if_pos ha, if_pos ha]
    simp only []
    congr 1
    funext i
    by_cases hi : st.now ≤ i ∧ i < st.now + cp
    · rw [if_pos hi, if_pos hi]
      have hlt : i - st.now < cp := by omega
      simp [List.getD_eq_getElem?_getD, List.getElem?_take, hlt]
    · rw [if_neg hi, if_neg hi]
  · rw [if_neg ha, if_neg ha]

/-- `PutBytes` appends its source bytes to the stream of the chunk chain, and
returns within as many iterations as there are bytes. -/
theorem PutBytesAlign_stream (env : Env) (c0 n0 : Nat) (alloc_size alignment : Nat)
    (hfresh : ∀ k, n0 ≤ k → env.alloc k ≠ c0)
    (hinj : ∀ i j, n0 ≤ i → n0 ≤ j → env.alloc i = env.alloc j → i = j)
    (ha : 0 < alloc_size) (hal0 : 0 < alignment) (hal : alignment < BITS_BUF_MAX) :
    ∀ (fuel : Nat) (st : Encoder) (src written : List Nat),
      ByteChain env c0 n0 st written → src.length ≤ fuel →
      ∃ st1, PutBytesAlign.loop env.main_slot env.alloc alloc_size alignment fuel st src
          src.length = some st1 ∧
        ByteChain env c0 n0 st1 (written ++ src) := by
  intro fuel
  induction fuel with
  | zero =>
    intro st src written h hf
    have h0 : src = [] := List.length_eq_zero.mp (by omega)
    subst h0
    exact ⟨st, by simp [PutBytesAlign.loop], by simpa using h⟩
  | succ fuel ih =>
    intro st src written h hf
    by_cases hsz : src.length = 0
    · have h0 : src = [] := List.length_eq_zero.mp hsz
      subst h0
      exact ⟨st, by simp [PutBytesAlign.loop], by simpa using h⟩
    · have hle : st.now ≤ st.end_ := by
        obtain ⟨m, _, _, _, _, hle, _⟩ := h
        exact hle
      rw [PutBytesAlign.loop, if_neg hsz, if_neg (by omega)]
      simp only
      by_cases hcp : min (st.end_ - st.now) src.length = 0
      · rw [if_pos hcp, if_neg (by omega), if_neg (by simpa using hal)]
        have hpos := aligned_size_pos alloc_size alignment ha hal0 hal
        generalize min (alloc_size + alignment - 1) BITS_BUF_MAX -
          min (alloc_size + alignment - 1) BITS_BUF_MAX % alignment = c at hpos ⊢
        have hf1 : (NEW_DATA_CHUNK env.main_slot env.alloc st c).end_ = c := rfl
        have hf2 : (NEW_DATA_CHUNK env.main_slot env.alloc st c).now = 0 := rfl
        rw [hf1, hf2, Nat.sub_zero]
        have hmin1 : 0 < min c src.length := Nat.lt_min.mpr ⟨hpos, by omega⟩
        have hmin2 : min c src.length ≤ c := Nat.min_le_left _ _
        have hmin3 : min c src.length ≤ src.length := Nat.min_le_right _ _
        generalize min c src.length = cp at hmin1 hmin2 hmin3 ⊢
        have hnew := ByteChain_new env c0 n0 st written c hfresh hinj h
        have htl : (src.take cp).length = cp := by
          rw [List.length_take]
          exact Nat.min_eq_left hmin3
        have hcopy := ByteChain_copy env c0 n0 _ written (src.take cp) hfresh hinj
          (by
            rw [htl]
            show 0 + cp ≤ c
            omega) hnew
        rw [htl, ← copyToChunk_take] at hcopy
        obtain ⟨st1, e1, e2⟩ := ih _ (src.drop cp) _ hcopy
          (by rw [List.length_drop]; omega)
        rw [List.length_drop] at e1
        refine ⟨st1, e1, ?_⟩
        rw [List.append_assoc, List.take_append_drop] at e2
        exact e2
      · rw [if_neg hcp]
        have hmin2 : min (st.end_ - st.now) src.length ≤ st.end_ - st.now := Nat.min_le_left _ _
        have hmin3 : min (st.end_ - st.now) src.length ≤ src.length := Nat.min_le_right _ _
        generalize min (st.end_ - st.now) src.length = cp at hcp hmin2 hmin3 ⊢
        have htl : (src.take cp).length = cp := by
          rw [List.length_take]
          exact Nat.min_eq_left hmin3
        have hcopy := ByteChain_copy env c0 n0 st written (src.take cp) hfresh hinj
          (by rw [htl]; omega) h
        rw [htl, ← copyToChunk_take] at hcopy
        obtain ⟨st1, e1, e2⟩ := ih _ (src.drop cp) _ hcopy
          (by rw [List.length_drop]; omega)
        rw [List.length_drop] at e1
        refine ⟨st1, e1, ?_⟩
        rw [List.append_assoc, List.take_append_drop] at e2
        exact e2

/-- The row loop of the cursor constructors appends `rows` rows of `line_size`
bytes, row `j` read at `src + j * lDelta`. -/
theorem GetCursorCommon_rows_stream (env : Env) (c0 n0 fuel : Nat) (lDelta : Int)
    (line_size : Nat)
    (hfresh : ∀ k, n0 ≤ k → env.alloc k ≠ c0)
    (hinj : ∀ i j, n0 ≤ i → n0 ≤ j → env.alloc i = env.alloc j → i = j)
    (hpage : 0 < env.consts.PAGE_SIZE) (hfuel : line_size ≤ fuel) :
    ∀ (rows : Nat) (src : Int) (st : Encoder) (written : List Nat),
      ByteChain env c0 n0 st written →
      ∃ st1, GetCursorCommon.rows env fuel lDelta line_size rows src st = some st1 ∧
        ByteChain env c0 n0 st1 (written ++ cursorRows env.bytes src lDelta line_size rows) := by
  intro rows
  induction rows with
  | zero =>
    intro src st written h
    exact ⟨st, rfl, by simpa [cursorRows] using h⟩
  | succ rows ih =>
    intro src st written h
    have hput := PutBytesAlign_stream env c0 n0 env.consts.PAGE_SIZE 1 hfresh hinj hpage
      (by decide) (by decide) fuel st (readBytes env.bytes src line_size) written h
      (by rw [readBytes_length]; exact hfuel)
    rw [readBytes_length] at hput
    obtain ⟨st1, e1, e2⟩ := hput
    obtain ⟨st2, g1, g2⟩ := ih (src + lDelta) st1 _ e2
    refine ⟨st2, ?_, ?_⟩
    · rw [GetCursorCommon.rows]
      unfold PutBytesAlign
      rw [e1]
      exact g1
    · have hrows : cursorRows env.bytes src lDelta line_size (rows + 1) =
          readBytes env.bytes src line_size ++
            cursorRows env.bytes (src + lDelta) lDelta line_size rows := by
        unfold cursorRows
        rw [List.range_succ_eq_map, List.flatMap_cons, List.flatMap_map]
        congr 1
        · simp
        · apply List.flatMap_congr
          intro j _
          show readBytes env.bytes (src + ((j + 1 : Nat) : Int) * lDelta) line_size =
            readBytes env.bytes (src + lDelta + (j : Int) * lDelta) line_size
          congr 1
          push_cast
          ring
      rw [hrows, ← List.append_assoc]
      exact g2

theorem cursorRows_length (bytes : Int → Nat) (scan0 lDelta : Int) (line_size : Nat) :
    ∀ rows : Nat, (cursorRows bytes scan0 lDelta line_size rows).length = line_size * rows := by
  intro rows
  induction rows with
  | zero => rfl
  | succ k ih =>
    unfold cursorRows at ih ⊢
    rw [List.range_succ, List.flatMap_append, List.length_append, ih]
    simp [readBytes_length, Nat.mul_succ]

/-- The entry-by-entry copy of a colour table appends the converted entries. -/
theorem GetColorCursor_entries_stream (env : Env) (c0 n0 fuel : Nat) (conv : Nat → Nat)
    (pulXlate : Nat → Nat)
    (hfresh : ∀ k, n0 ≤ k → env.alloc k ≠ c0)
    (hinj : ∀ i j, n0 ≤ i → n0 ≤ j → env.alloc i = env.alloc j → i = j)
    (hpage : 0 < env.consts.PAGE_SIZE) (hfuel : 4 ≤ fuel) :
    ∀ (is : List Nat) (st : Encoder) (written : List Nat),
      ByteChain env c0 n0 st written →
      ∃ st1, GetColorCursor.entries env fuel conv pulXlate is st = some st1 ∧
        ByteChain env c0 n0 st1
          (written ++ is.flatMap (fun i => bytesLE 4 (conv (pulXlate i)))) := by
  intro is
  induction is with
  | nil =>
    intro st written h
    exact ⟨st, rfl, by simpa using h⟩
  | cons i rest ih =>
    intro st written h
    have hput := PutBytesAlign_stream env c0 n0 env.consts.PAGE_SIZE 1 hfresh hinj hpage
      (by decide) (by decide) fuel st (bytesLE 4 (conv (pulXlate i))) written h
      (by rw [bytesLE_length]; exact hfuel)
    rw [bytesLE_length] at hput
    obtain ⟨st1, e1, e2⟩ := hput
    obtain ⟨st2, g1, g2⟩ := ih st1 _ e2
    refine ⟨st2, ?_, ?_⟩
    · rw [GetColorCursor.entries]
      unfold PutBytesAlign
      rw [e1]
      exact g1
    · rw [List.flatMap_cons, ← List.append_assoc]
      exact g2

theorem tableBytes_length (pulXlate : Nat → Nat) :
    ∀ n : Nat, (tableBytes pulXlate n).length = 4 * n := by
  intro n
  induction n with
  | zero => rfl
  | succ k ih =>
    unfold tableBytes at ih ⊢
    rw [List.range_succ, List.flatMap_append, List.length_append, ih]
    simp [bytesLE_length, Nat.mul_succ]

theorem convertedTableBytes_length (conv pulXlate : Nat → Nat) :
    ∀ n : Nat, (convertedTableBytes conv pulXlate n).length = 4 * n := by
  intro n
  induction n with
  | zero => rfl
  | succ k ih =>
    unfold convertedTableBytes at ih ⊢
    rw [List.range_succ, List.flatMap_append, List.length_append, ih]
    simp [bytesLE_length, Nat.mul_succ]

/-- The colour-table block of `GetColorCursor` appends the table, as it is or
converted. -/
theorem GetColorCursor_table_stream (env : Env) (c0 n0 fuel bitmap_format : Nat)
    (conv : Nat → Nat) (ct : XLATEOBJ) (entries : Nat) (st : Encoder) (written : List Nat)
    (hfresh : ∀ k, n0 ≤ k → env.alloc k ≠ c0)
    (hinj : ∀ i j, n0 ≤ i → n0 ≤ j → env.alloc i = env.alloc j → i = j)
    (hpage : 0 < env.consts.PAGE_SIZE) (hfuel : 4 * entries ≤ fuel) (hfuel4 : 4 ≤ fuel)
    (hfl : ct.flXlate &&& env.consts.XO_TABLE ≠ 0) (hce : ct.cEntries = entries)
    (h : ByteChain env c0 n0 st written) :
    ∃ st1, GetColorCursor.table env fuel bitmap_format conv (some ct) entries st = some st1 ∧
      ByteChain env c0 n0 st1
        (written ++ (if bitmap_format = env.consts.BMF_32BPP then tableBytes ct.pulXlate entries
          else convertedTableBytes conv ct.pulXlate entries)) := by
  unfold GetColorCursor.table
  simp only []
  rw [if_neg hfl, if_neg (by simpa using hce)]
  by_cases hb : bitmap_format = env.consts.BMF_32BPP
  · rw [if_pos hb, if_pos hb]
    have hput := PutBytesAlign_stream env c0 n0 env.consts.PAGE_SIZE 1 hfresh hinj hpage
      (by decide) (by decide) fuel st (tableBytes ct.pulXlate entries) written h
      (by rw [tableBytes_length]; exact hfuel)
    rw [tableBytes_length] at hput
    unfold PutBytesAlign
    rw [Nat.shiftLeft_eq, Nat.mul_comm]
    exact hput
  · rw [if_neg hb, if_neg hb]
    exact GetColorCursor_entries_stream env c0 n0 fuel conv ct.pulXlate hfresh hinj hpage hfuel4
      (List.range entries) st written h

/-- The statements of `GetColorCursor` after a miss append the colour table of
the palette types and the mask rows, and add their sizes to `data_size`. -/
theorem GetColorCursor_append_stream (env : Env) (ck : CursorConsts)
    (c0 n0 fuel bitmap_format : Nat) (conv : Nat → Nat) (surf mask : SURFOBJ)
    (color_trans : Option XLATEOBJ) (ct : XLATEOBJ) (type : Nat) (st : Encoder)
    (data_size : Nat) (written : List Nat)
    (hfresh : ∀ k, n0 ≤ k → env.alloc k ≠ c0)
    (hinj : ∀ i j, n0 ≤ i → n0 ≤ j → env.alloc i = env.alloc j → i = j)
    (hpage : 0 < env.consts.PAGE_SIZE) (hfuel : 1024 ≤ fuel)
    (hmfuel : (ALIGN.int mask.cx 8 / 8).toNat ≤ fuel)
    (hct : (type = ck.CURSOR_TYPE_COLOR8 ∨ type = ck.CURSOR_TYPE_COLOR4) →
      color_trans = some ct ∧ ct.flXlate &&& env.consts.XO_TABLE ≠ 0 ∧
      ct.cEntries = (if type = ck.CURSOR_TYPE_COLOR8 then 256 else 16))
    (hld : mask.lDelta ≠ 0) (hcy : 0 ≤ surf.cy) (hds : data_size < UINT32_MOD)
    (h : ByteChain env c0 n0 st written) :
    ∃ st2, GetColorCursor.append env ck fuel bitmap_format conv surf mask color_trans type st
        data_size =
        some (st2,
          ((data_size + (cursorTableSpec env.consts ck bitmap_format conv ct.pulXlate
              type).length) % UINT32_MOD +
            toU32 (((ALIGN.int mask.cx 8 / 8).toNat : Int) * surf.cy)) % UINT32_MOD) ∧
      ByteChain env c0 n0 st2
        (written ++ cursorTableSpec env.consts ck bitmap_format conv ct.pulXlate type ++
          cursorRows env.bytes mask.pvScan0 mask.lDelta (ALIGN.int mask.cx 8 / 8).toNat
            surf.cy.toNat) := by
  -- the table
  have htab : ∃ st1,
      (if type = ck.CURSOR_TYPE_COLOR8 then
        (GetColorCursor.table env fuel bitmap_format conv color_trans 256 st).map
          (fun st1 => (st1, (data_size + (256 <<< 2)) % UINT32_MOD))
      else if type = ck.CURSOR_TYPE_COLOR4 then
        (GetColorCursor.table env fuel bitmap_format conv color_trans 16 st).map
          (fun st1 => (st1, (data_size + (16 <<< 2)) % UINT32_MOD))
      else some (st, data_size)) =
        some (st1, (data_size + (cursorTableSpec env.consts ck bitmap_format conv ct.pulXlate
          type).length) % UINT32_MOD) ∧
      ByteChain env c0 n0 st1
        (written ++ cursorTableSpec env.consts ck bitmap_format conv ct.pulXlate type) := by
    unfold cursorTableSpec
    by_cases h8 : type = ck.CURSOR_TYPE_COLOR8
    · obtain ⟨e1, e2, e3⟩ := hct (Or.inl h8)
      rw [if_pos h8] at e3
      rw [if_pos h8, if_pos h8, e1]
      obtain ⟨st1, g1, g2⟩ := GetColorCursor_table_stream env c0 n0 fuel bitmap_format conv ct 256
        st written hfresh hinj hpage (by omega) (by omega) e2 e3 h
      refine ⟨st1, ?_, g2⟩
      rw [g1]
      simp only [Option.map_some']
      congr 3
      split
      · rw [tableBytes_length]
        rfl
      · rw [convertedTableBytes_length]
        rfl
    · rw [if_neg h8, if_neg h8]
      by_cases h4 : type = ck.CURSOR_TYPE_COLOR4
      · obtain ⟨e1, e2, e3⟩ := hct (Or.inr h4)
        rw [if_neg h8] at e3
        rw [if_pos h4, if_pos h4, e1]
        obtain ⟨st1, g1, g2⟩ := GetColorCursor_table_stream env c0 n0 fuel bitmap_format conv ct
          16 st written hfresh hinj hpage (by omega) (by omega) e2 e3 h
        refine ⟨st1, ?_, g2⟩
        rw [g1]
        simp only [Option.map_some']
        congr 3
        split
        · rw [tableBytes_length]
          rfl
        · rw [convertedTableBytes_length]
          rfl
      · rw [if_neg h4, if_neg h4]
        refine ⟨st, ?_, by simpa using h⟩
        simp only [List.length_nil, Nat.add_zero]
        rw [Nat.mod_eq_of_lt hds]
  obtain ⟨st1, t1, t2⟩ := htab
  obtain ⟨st2, r1, r2⟩ := GetCursorCommon_rows_stream env c0 n0 fuel mask.lDelta
    (ALIGN.int mask.cx 8 / 8).toNat hfresh hinj hpage hmfuel surf.cy.toNat mask.pvScan0 st1 _ t2
  refine ⟨st2, ?_, r2⟩
  unfold GetColorCursor.append
  simp only []
  rw [t1]
  simp only []
  rw [if_neg (by omega), if_neg hld, r1]

/-- The `switch (type)` of `GetCursorCommon` computes the line size that the
specification states. -/
theorem GetCursorCommon_line_size_spec (ck : CursorConsts) (type w : Nat) :
    GetCursorCommon.line_size ck type w = cursorLineSizeSpec ck type w := by
  have e1 : w <<< 2 = 4 * w := by rw [Nat.shiftLeft_eq]; omega
  have e2 : w <<< 1 = 2 * w := by rw [Nat.shiftLeft_eq]; omega
  have e3 : ALIGN w 8 >>> 3 = (w + 7) / 8 := by
    unfold ALIGN
    rw [Nat.shiftRight_eq_div_pow]
    omega
  have e4 : ALIGN w 2 >>> 1 = (w + 1) / 2 := by
    unfold ALIGN
    rw [Nat.shiftRight_eq_div_pow]
    omega
  have e5 : w * 3 = 3 * w := Nat.mul_comm _ _
  unfold GetCursorCommon.line_size cursorLineSizeSpec
  rw [e1, e2, e3, e4, e5]

/-- What the miss path of `GetCursorCommon` leaves: the rows were copied by the
row loop from the start of the embedded chunk, `data_size` is the product of
the line size and `cy`, and the header holds the height. -/
theorem GetCursorCommon_build_data (env : Env) (ck : CursorConsts) (fuel : Nat)
    (d d1 : CursorDev) (cmd : Nat) (hot_x hot_y : Int) (surf : SURFOBJ) (type : Nat)
    (st : Encoder)
    (h : GetCursorCommon.build env ck fuel d cmd hot_x hot_y surf type = some (st, d1)) :
    ∃ ls, GetCursorCommon.line_size ck type (toU32 surf.cx % 65536) = some ls ∧
      ¬ (surf.lDelta ≠ 0 ∧ surf.cy < 0) ∧
      GetCursorCommon.rows env fuel surf.lDelta ls
        (if surf.lDelta = 0 then 0 else surf.cy.toNat) surf.pvScan0
        { mem := fun a =>
            if a = GetCursorCommon.cursor env d + env.layout.off_cursor_chunk then
              { d.s.chunks a with data_size := 0, prev_chunk := 0, next_chunk := 0 }
            else d.s.chunks a
          chunk := GetCursorCommon.cursor env d + env.layout.off_cursor_chunk
          now := 0
          end_ := (env.alloc d.s.nalloc + CURSOR_ALLOC_SIZE env.consts) -
            (GetCursorCommon.cursor env d + env.layout.off_cursor_chunk +
              env.layout.sizeof_QXLDataChunk)
          nalloc := d.s.nalloc + 1 } = some st ∧
      d1.data_size (GetCursorCommon.cursor env d) = toU32 ((ls : Int) * surf.cy) ∧
      (d1.headers (GetCursorCommon.cursor env d)).height =
        (if type = ck.CURSOR_TYPE_MONO then (toU32 surf.cy % 65536) >>> 1
         else toU32 surf.cy % 65536) ∧
      (d1.headers (GetCursorCommon.cursor env d)).width = toU32 surf.cx % 65536 ∧
      (d1.headers (GetCursorCommon.cursor env d)).type = type ∧
      d1.s.chunks = st.mem ∧ d1.s.nalloc = st.nalloc := by
  unfold GetCursorCommon.build at h
  simp only [] at h
  split at h
  · cases h
  · split at h
    · cases h
    · rename_i res s0 ha
      obtain ⟨hr, hs0⟩ := AllocMem_done_inv env d.s s0 res ha
      split at h
      · cases h
      · rename_i ls hls
        split at h
        · cases h
        · rename_i hnt
          split at h
          · cases h
          · rename_i st0 hrows
            split at h
            · cases h
            · split at h
              · cases h
              · simp only [Option.some.injEq, Prod.mk.injEq] at h
                obtain ⟨hst, hd1⟩ := h
                subst hst
                subst hr
                subst hs0
                refine ⟨ls, hls, hnt, hrows, ?_, ?_, ?_, ?_, ?_, ?_⟩ <;> rw [← hd1] <;>
                  simp [GetCursorCommon.cursor]

/-- A `FALSE` return of `GetCursorCommon` comes from its miss path. -/
theorem GetCursorCommon_miss_build (env : Env) (ck : CursorConsts) (fuel : Nat)
    (d d1 : CursorDev) (cmd : Nat) (hot_x hot_y : Int) (surf : SURFOBJ) (type : Nat)
    (info : Option Encoder)
    (h : GetCursorCommon env ck fuel d cmd hot_x hot_y surf type = some (false, info, d1)) :
    ∃ h0 cc0 st, info = some st ∧
      GetCursorCommon.build env ck fuel { d with s := { d.s with heap := h0 }, cc := cc0 } cmd
        hot_x hot_y surf type = some (st, d1) := by
  unfold GetCursorCommon at h
  split at h
  · cases h
  · rename_i internal h0 cc0 _
    split at h
    · split at h
      · cases h
      · simp only [Option.some.injEq, Prod.mk.injEq] at h
        exact absurd h.1 (by decide)
    · split at h
      · cases h
      · rename_i st d2 hb
        simp only [Option.some.injEq, Prod.mk.injEq] at h
        refine ⟨h0, cc0, st, h.2.1.symm, ?_⟩
        rw [← h.2.2]
        exact hb

theorem cursorTableSpec_length (k : Consts) (ck : CursorConsts) (bitmap_format : Nat)
    (conv pulXlate : Nat → Nat) (type : Nat) :
    (cursorTableSpec k ck bitmap_format conv pulXlate type).length =
      (if type = ck.CURSOR_TYPE_COLOR8 then 4 * 256
       else if type = ck.CURSOR_TYPE_COLOR4 then 4 * 16 else 0) := by
  unfold cursorTableSpec
  by_cases h8 : type = ck.CURSOR_TYPE_COLOR8
  · rw [if_pos h8, if_pos h8]
    split
    · exact tableBytes_length _ _
    · exact convertedTableBytes_length _ _ _
  · rw [if_neg h8, if_neg h8]
    by_cases h4 : type = ck.CURSOR_TYPE_COLOR4
    · rw [if_pos h4, if_pos h4]
      split
      · exact tableBytes_length _ _
      · exact convertedTableBytes_length _ _ _
    · rw [if_neg h4, if_neg h4]
      rfl

/-- C32. On a cache miss with a cursor type of the list, `0 <= cx, cy < 65536`
and a non-zero stride, `GetCursorCommon` stores the height `cy` (`cy / 2` for
MONO) and copies `cy` rows of `line_size` bytes, `line_size` being `4 * w`
(ALPHA, COLOR32), `ceil(w / 8)` (MONO), `ceil(w / 2)` (COLOR4), `w` (COLOR8), `2 * w`
(COLOR16) or `3 * w` (COLOR24); `GetColorCursor` then appends the colour table
(256 entries for COLOR8, 16 for COLOR4, 4 bytes each, converted when the device
format is not 32 bpp; nothing for the other types) and `cy` mask rows of
`ceil(w / 8)` bytes. After `GetCursorCommon`, and again after `GetColorCursor`, the
cursor's `data_size` is the number of bytes in the chunk chain, the sum of
the chunks' `data_size`, as long as the payload is smaller than `2^32` bytes. -/
theorem C32_cursor_payload_size (env : Env) (ck : CursorConsts) (fuel bitmap_format : Nat)
    (conv : Nat → Nat) (d d1 : CursorDev) (cmd : Nat) (hot_x hot_y : Int) (surf mask : SURFOBJ)
    (color_trans : Option XLATEOBJ) (ct : XLATEOBJ) (type ls : Nat) (st : Encoder)
    (hmiss : GetCursorCommon env ck fuel d cmd hot_x hot_y surf type = some (false, some st, d1))
    (hls : cursorLineSizeSpec ck type surf.cx.toNat = some ls)
    (hfresh : ∀ k, d.s.nalloc + 1 ≤ k →
      env.alloc k ≠ GetCursorCommon.cursor env d + env.layout.off_cursor_chunk)
    (hinj : ∀ i j, d.s.nalloc + 1 ≤ i → d.s.nalloc + 1 ≤ j → env.alloc i = env.alloc j → i = j)
    (hpage : 0 < env.consts.PAGE_SIZE)
    (hfuel1 : ls ≤ fuel) (hfuel2 : 1024 ≤ fuel) (hfuel3 : (surf.cx.toNat + 7) / 8 ≤ fuel)
    (hcx : 0 ≤ surf.cx ∧ surf.cx < 65536) (hcy : surf.cy < 65536)
    (hld : surf.lDelta ≠ 0) (hmld : mask.lDelta ≠ 0) (hmcx : mask.cx = surf.cx)
    (hct : (type = ck.CURSOR_TYPE_COLOR8 ∨ type = ck.CURSOR_TYPE_COLOR4) →
      color_trans = some ct ∧ ct.flXlate &&& env.consts.XO_TABLE ≠ 0 ∧
      ct.cEntries = (if type = ck.CURSOR_TYPE_COLOR8 then 256 else 16))
    (hfit : (colorCursorPayloadSpec env ck bitmap_format conv surf mask ct.pulXlate type
      ls).length < 4294967296) :
    ((d1.headers (GetCursorCommon.cursor env d)).height =
        (if type = ck.CURSOR_TYPE_MONO then surf.cy.toNat / 2 else surf.cy.toNat) ∧
      (d1.headers (GetCursorCommon.cursor env d)).width = surf.cx.toNat ∧
      (d1.headers (GetCursorCommon.cursor env d)).type = type) ∧
    (ByteChain env (GetCursorCommon.cursor env d + env.layout.off_cursor_chunk)
        (d.s.nalloc + 1) st
        (cursorRows env.bytes surf.pvScan0 surf.lDelta ls surf.cy.toNat) ∧
      d1.s.chunks = st.mem ∧
      d1.data_size (GetCursorCommon.cursor env d) = ls * surf.cy.toNat ∧
      ∃ m, Linked env.main_slot d1.s.chunks
          (GetCursorCommon.cursor env d + env.layout.off_cursor_chunk)
          (allocated env.alloc (d.s.nalloc + 1) m) ∧
        (((GetCursorCommon.cursor env d + env.layout.off_cursor_chunk) ::
          allocated env.alloc (d.s.nalloc + 1) m).map
            (fun a => (d1.s.chunks a).data_size)).sum =
          d1.data_size (GetCursorCommon.cursor env d)) ∧
    ((cursorTableSpec env.consts ck bitmap_format conv ct.pulXlate type).length =
        (if type = ck.CURSOR_TYPE_COLOR8 then 4 * 256
         else if type = ck.CURSOR_TYPE_COLOR4 then 4 * 16 else 0) ∧
      (colorCursorPayloadSpec env ck bitmap_format conv surf mask ct.pulXlate type ls).length =
        ls * surf.cy.toNat +
          (cursorTableSpec env.consts ck bitmap_format conv ct.pulXlate type).length +
          (surf.cx.toNat + 7) / 8 * surf.cy.toNat) ∧
    (∃ st2 m, GetColorCursor.append env ck fuel bitmap_format conv surf mask color_trans type
        st (d1.data_size (GetCursorCommon.cursor env d)) =
        some (st2, (colorCursorPayloadSpec env ck bitmap_format conv surf mask ct.pulXlate type
          ls).length) ∧
      ByteChain env (GetCursorCommon.cursor env d + env.layout.off_cursor_chunk)
        (d.s.nalloc + 1) st2
        (colorCursorPayloadSpec env ck bitmap_format conv surf mask ct.pulXlate type ls) ∧
      Linked env.main_slot st2.mem
        (GetCursorCommon.cursor env d + env.layout.off_cursor_chunk)
        (allocated env.alloc (d.s.nalloc + 1) m) ∧
      (((GetCursorCommon.cursor env d + env.layout.off_cursor_chunk) ::
        allocated env.alloc (d.s.nalloc + 1) m).map (fun a => (st2.mem a).data_size)).sum =
        (colorCursorPayloadSpec env ck bitmap_format conv surf mask ct.pulXlate type
          ls).length ∧
      (0 < surf.cx → surf.cy ≠ 0 → mask.cy = surf.cy * 2 →
        GetColorCursor.type env.consts ck surf.iBitmapFormat = some type →
        GetColorCursor env ck fuel bitmap_format conv d cmd hot_x hot_y surf mask color_trans =
          some (true,
            { d1 with
              s := { d1.s with chunks := st2.mem, nalloc := st2.nalloc }
              data_size := fun a =>
                if a = GetCursorCommon.cursor env d then
                  (colorCursorPayloadSpec env ck bitmap_format conv surf mask ct.pulXlate type
                    ls).length
                else d1.data_size a }))) := by
  generalize hc0 : GetCursorCommon.cursor env d + env.layout.off_cursor_chunk = c0 at hfresh ⊢
  obtain ⟨h0, cc0, st', hinfo, hbuild⟩ := GetCursorCommon_miss_build env ck fuel d d1 cmd hot_x
    hot_y surf type (some st) hmiss
  simp only [Option.some.injEq] at hinfo
  subst hinfo
  obtain ⟨ls', b1, b2, b3, b4, b5, b6, b7, b8, b9⟩ := GetCursorCommon_build_data env ck fuel _ d1
    cmd hot_x hot_y surf type st hbuild
  have hcur : GetCursorCommon.cursor env { d with s := { d.s with heap := h0 }, cc := cc0 } =
      GetCursorCommon.cursor env d := rfl
  rw [hcur] at b3 b4 b5 b6 b7
  simp only [] at b3
  rw [hc0] at b3
  -- the width, the height and the line size
  obtain ⟨w, hw⟩ : ∃ w : Nat, surf.cx = (w : Int) := ⟨surf.cx.toNat, by omega⟩
  have hwn : surf.cx.toNat = w := by omega
  have hcy0 : 0 ≤ surf.cy := by
    by_contra hneg
    exact b2 ⟨hld, by omega⟩
  obtain ⟨c, hcv⟩ : ∃ c : Nat, surf.cy = (c : Int) := ⟨surf.cy.toNat, by omega⟩
  have hcn : surf.cy.toNat = c := by omega
  have hw16 : toU32 surf.cx % 65536 = w := by
    rw [toU32_of_range _ (by omega) (by omega), hwn]
    omega
  have hc16 : toU32 surf.cy % 65536 = c := by
    rw [toU32_of_range _ (by omega) (by omega), hcn]
    omega
  rw [hw16, GetCursorCommon_line_size_spec, ← hwn, hls] at b1
  simp only [Option.some.injEq] at b1
  subst b1
  rw [if_neg hld] at b3
  -- the rows
  have hinit : ByteChain env c0 (d.s.nalloc + 1)
      { mem := fun a =>
          if a = c0 then { d.s.chunks a with data_size := 0, prev_chunk := 0, next_chunk := 0 }
          else d.s.chunks a
        chunk := c0
        now := 0
        end_ := (env.alloc d.s.nalloc + CURSOR_ALLOC_SIZE env.consts) -
          (c0 + env.layout.sizeof_QXLDataChunk)
        nalloc := d.s.nalloc + 1 } [] := by
    refine ⟨0, rfl, rfl, trivial, by simp, Nat.zero_le _, ?_⟩
    simp [allocated, chunkData, dataSlice]
  obtain ⟨st1, r1, r2⟩ := GetCursorCommon_rows_stream env c0 (d.s.nalloc + 1) fuel surf.lDelta ls
    hfresh hinj hpage hfuel1 surf.cy.toNat surf.pvScan0 _ [] hinit
  rw [b3] at r1
  simp only [Option.some.injEq] at r1
  subst r1
  rw [List.nil_append] at r2
  -- sizes
  have hlenT := cursorTableSpec_length env.consts ck bitmap_format conv ct.pulXlate type
  have hlenP : (colorCursorPayloadSpec env ck bitmap_format conv surf mask ct.pulXlate type
      ls).length = ls * surf.cy.toNat +
        (cursorTableSpec env.consts ck bitmap_format conv ct.pulXlate type).length +
        (surf.cx.toNat + 7) / 8 * surf.cy.toNat := by
    unfold colorCursorPayloadSpec
    rw [List.length_append, List.length_append, cursorRows_length, cursorRows_length]
  rw [hlenP] at hfit
  have hmulU : ∀ x : Nat, x * c < 4294967296 → toU32 ((x : Int) * surf.cy) = x * surf.cy.toNat := by
    intro x hx
    rw [hcn, hcv, ← Nat.cast_mul, toU32_of_range _ (by omega) (by exact_mod_cast hx),
      Int.toNat_ofNat]
  have hds : d1.data_size (GetCursorCommon.cursor env d) = ls * surf.cy.toNat := by
    rw [b4]
    exact hmulU ls (by rw [hcn] at hfit; omega)
  have hsum : ∀ (e : Encoder) (written : List Nat), ByteChain env c0 (d.s.nalloc + 1) e written →
      ∃ m, Linked env.main_slot e.mem c0 (allocated env.alloc (d.s.nalloc + 1) m) ∧
        ((c0 :: allocated env.alloc (d.s.nalloc + 1) m).map
          (fun a => (e.mem a).data_size)).sum = written.length := by
    intro e written hb
    obtain ⟨m, _, _, hl, _, _, hwr⟩ := hb
    refine ⟨m, hl, ?_⟩
    rw [← flatMap_chunkData_length, hwr]
  refine ⟨⟨?_, ?_, b7⟩, ⟨r2, b8, hds, ?_⟩, ⟨hlenT, hlenP⟩, ?_⟩
  · rw [b5, hc16, hcn, Nat.shiftRight_eq_div_pow]
  · rw [b6, hw16, hwn]
  · obtain ⟨m, hl, hs⟩ := hsum st _ r2
    refine ⟨m, by rw [b8]; exact hl, ?_⟩
    rw [b8, hs, cursorRows_length, hds]
  · -- the table and the mask
    have hmls : (ALIGN.int mask.cx 8 / 8).toNat = (surf.cx.toNat + 7) / 8 := by
      rw [hmcx, hw]
      unfold ALIGN.int
      omega
    obtain ⟨st2, a1, a2⟩ := GetColorCursor_append_stream env ck c0 (d.s.nalloc + 1) fuel
      bitmap_format conv surf mask color_trans ct type st
      (d1.data_size (GetCursorCommon.cursor env d)) _ hfresh hinj hpage hfuel2
      (by rw [hmls]; exact hfuel3) hct hmld hcy0
      (by
        rw [hds]
        show _ < 4294967296
        omega) r2
    rw [hmls] at a1 a2
    have hval : ((d1.data_size (GetCursorCommon.cursor env d) +
          (cursorTableSpec env.consts ck bitmap_format conv ct.pulXlate type).length) %
            UINT32_MOD +
        toU32 ((((surf.cx.toNat + 7) / 8 : Nat) : Int) * surf.cy)) % UINT32_MOD =
        (colorCursorPayloadSpec env ck bitmap_format conv surf mask ct.pulXlate type
          ls).length := by
      rw [hlenP, hds, hmulU _ (by rw [hcn] at hfit; omega)]
      generalize ls * surf.cy.toNat = A at hfit ⊢
      generalize (cursorTableSpec env.consts ck bitmap_format conv ct.pulXlate type).length = B
        at hfit ⊢
      generalize (surf.cx.toNat + 7) / 8 * surf.cy.toNat = C at hfit ⊢
      have e1 : (A + B) % UINT32_MOD = A + B :=
        Nat.mod_eq_of_lt (by show _ < 4294967296; omega)
      have e2 : (A + B + C) % UINT32_MOD = A + B + C :=
        Nat.mod_eq_of_lt (by show _ < 4294967296; omega)
      rw [e1, e2]
    rw [hval] at a1
    have hpay : cursorRows env.bytes surf.pvScan0 surf.lDelta ls surf.cy.toNat ++
        cursorTableSpec env.consts ck bitmap_format conv ct.pulXlate type ++
        cursorRows env.bytes mask.pvScan0 mask.lDelta ((surf.cx.toNat + 7) / 8) surf.cy.toNat =
        colorCursorPayloadSpec env ck bitmap_format conv surf mask ct.pulXlate type ls := rfl
    rw [hpay] at a2
    obtain ⟨m, hl, hs⟩ := hsum st2 _ a2
    refine ⟨st2, m, a1, a2, hl, hs, ?_⟩
    intro h1 h2 h3 h4
    unfold GetColorCursor
    rw [if_neg (by simp [h1, h2]), if_neg (by simp [hmcx, h3]), h4]
    simp only []
    rw [hmiss]
    simp only []
    rw [a1]

/-- The sizes of C32 for a 2 x 2 cursor of 8 bits per pixel on a 32-bpp device:
`GetCursorCommon` misses and leaves `data_size = 4`; `GetColorCursor` returns
with `data_size = 4 + 1024 + 2 = 1030`, the length of the payload. -/
theorem C32_cursor_payload_size_witness :
    (GetCursorCommon exampleEnv exampleCursorConsts 1024 exampleCursorDev 184 0 0 paletteSurf
        3).map (fun r => (r.1, r.2.1.isSome, r.2.2.data_size 8208)) = some (false, true, 4) ∧
    (GetColorCursor exampleEnv exampleCursorConsts 1024 6 id exampleCursorDev 184 0 0
        paletteSurf paletteMask (some greyTable)).map (fun r => (r.1, r.2.data_size 8208)) =
      some (true, 1030) ∧
    ∀ st d1,
      GetCursorCommon exampleEnv exampleCursorConsts 1024 exampleCursorDev 184 0 0 paletteSurf
        3 = some (false, some st, d1) →
      d1.data_size (GetCursorCommon.cursor exampleEnv exampleCursorDev) = 2 * 2 ∧
      ∃ st2 m, GetColorCursor.append exampleEnv exampleCursorConsts 1024 6 id paletteSurf
          paletteMask (some greyTable) 3 st
          (d1.data_size (GetCursorCommon.cursor exampleEnv exampleCursorDev)) =
          some (st2, (colorCursorPayloadSpec exampleEnv exampleCursorConsts 6 id paletteSurf
            paletteMask greyTable.pulXlate 3 2).length) ∧
        (((GetCursorCommon.cursor exampleEnv exampleCursorDev +
            exampleEnv.layout.off_cursor_chunk) ::
          allocated exampleEnv.alloc (exampleCursorDev.s.nalloc + 1) m).map
            (fun a => (st2.mem a).data_size)).sum =
          (colorCursorPayloadSpec exampleEnv exampleCursorConsts 6 id paletteSurf paletteMask
            greyTable.pulXlate 3 2).length := by
  refine ⟨by rfl, by rfl, fun st d1 h => ?_⟩
  have hlen : (colorCursorPayloadSpec exampleEnv exampleCursorConsts 6 id paletteSurf paletteMask
      greyTable.pulXlate 3 2).length = 1030 := by
    unfold colorCursorPayloadSpec
    rw [List.length_append, List.length_append, cursorRows_length, cursorRows_length,
      cursorTableSpec_length]
    decide
  obtain ⟨_, ⟨_, _, a3, _⟩, _, st2, m, b1, _, _, b4, _⟩ :=
    C32_cursor_payload_size exampleEnv exampleCursorConsts 1024 6 id exampleCursorDev d1 184 0 0
      paletteSurf paletteMask (some greyTable) greyTable 3 2 st h (by decide)
      (by
        intro k _
        show exampleAlloc k ≠ exampleAlloc 0 + 16 + 58
        unfold exampleAlloc
        omega)
      (by intro i j _ _ e; have e1 : exampleAlloc i = exampleAlloc j := e
          unfold exampleAlloc at e1; omega)
      (by decide) (by decide) (by decide) (by decide) (by decide) (by decide) (by decide)
      (by decide) rfl
      (fun _ => ⟨rfl, by decide, by decide⟩)
      (by rw [hlen]; decide)
  exact ⟨a3, st2, m, b1, b4⟩

end Qxl
